import Mathlib

/-!
# libdmsg message core (`lib/libdmsg/msg.c`): shallow embedding

The embedding follows `msg.c` function by function.

* Machine integers are `Nat` (`Int` for the signed reference count); where the
  C type makes an operation wrap, the wrap is written out with `% 2 ^ w`.
* A `dmsg_state_t *` is an address (`Nat`); the states live in a heap
  `Nat → Option dmsg_state`, `free` removes the entry, and every access through
  a pointer that is `NULL` or dangling makes the operation return `none`.
  `&iocom->state0` is address `0`.
* `assert(e)` does not stop the model: a failed assertion sets
  `assert_failed` and execution goes on as in a build with `NDEBUG`.
* Recursion and `goto again` loops that follow the heap take a fuel argument;
  `none` is also the result when the fuel runs out.
* `read(2)` on the socket is an oracle: the list `sock` of the events that the
  successive calls will see.
* The receive callback is the recording callback: it appends the message it is
  given to `rcvd` and touches nothing else.
* The header `dmsg.h` is not part of the sources at hand.  Bit sets whose
  constants are only tested, set and cleared (`state->flags`, `iocom->flags`)
  are records of booleans; the constants of the wire format keep the values of
  DragonFly's `sys/dmsg.h`; sizes and the CRC function are fields of `Env`.
-/

namespace Dmsg

/-! ## Constants of the wire format -/

/-- Modelled from the spec: `DMSG_HDR_MAGIC` of `dmsg.h` (not under src/), the
native magic of the wire frame table. -/
def DMSG_HDR_MAGIC : Nat := 0x4832

/-- Modelled from the spec: `DMSG_HDR_MAGIC_REV` of `dmsg.h` (not under src/),
the byte-swapped magic of the wire frame table. -/
def DMSG_HDR_MAGIC_REV : Nat := 0x3248

/-- Modelled from the spec: flag bit `CREATE` in the high bits of `cmd`
(`dmsg.h` is not under src/; value of DragonFly's `sys/dmsg.h`). -/
def DMSGF_CREATE : Nat := 0x80000000

/-- Modelled from the spec: flag bit `DELETE` of `cmd` (`dmsg.h`). -/
def DMSGF_DELETE : Nat := 0x40000000

/-- Modelled from the spec: flag bit `REPLY` of `cmd` (`dmsg.h`). -/
def DMSGF_REPLY : Nat := 0x20000000

/-- Modelled from the spec: flag bit `ABORT` of `cmd` (`dmsg.h`). -/
def DMSGF_ABORT : Nat := 0x10000000

/-- Modelled from the spec: flag bit `REVTRANS` of `cmd` (`dmsg.h`). -/
def DMSGF_REVTRANS : Nat := 0x08000000

/-- Modelled from the spec: flag bit `REVCIRC` of `cmd` (`dmsg.h`). -/
def DMSGF_REVCIRC : Nat := 0x04000000

/-- Modelled from the spec: protocol field of `cmd` (`dmsg.h`). -/
def DMSGF_PROTOS : Nat := 0x00F00000

/-- Modelled from the spec: command field of `cmd` (`dmsg.h`). -/
def DMSGF_CMDS : Nat := 0x000FFF00

/-- Modelled from the spec: the size field of `cmd`, the header size in units
of 64 bytes (`dmsg.h`). -/
def DMSGF_SIZE : Nat := 0x000000FF

/-- Modelled from the spec: `DMSGF_CMDSWMASK` of `dmsg.h`. -/
def DMSGF_CMDSWMASK : Nat := DMSGF_CMDS ||| DMSGF_SIZE ||| DMSGF_PROTOS ||| DMSGF_REPLY

/-- Modelled from the spec: `DMSGF_BASECMDMASK` of `dmsg.h`. -/
def DMSGF_BASECMDMASK : Nat := DMSGF_CMDS ||| DMSGF_SIZE ||| DMSGF_PROTOS

/-- Modelled from the spec: `DMSG_ALIGN` of `dmsg.h`, the 64-byte unit of the
wire frame. -/
def DMSG_ALIGN : Nat := 64

/-- Modelled from the spec: `DMSG_ALIGNMASK` of `dmsg.h`. -/
def DMSG_ALIGNMASK : Nat := DMSG_ALIGN - 1

/-- Modelled from the spec: the macro `DMSG_DOALIGN(bytes)` of `dmsg.h` (not
under src/), `((bytes) + DMSG_ALIGNMASK) & ~DMSG_ALIGNMASK`, the spec's
`align`.  The macro is evaluated in the C type of its argument, an unsigned
type of `w` bits, so the addition wraps modulo `2 ^ w`; clearing the low six
bits is written as subtracting the remainder. -/
def DMSG_DOALIGN (w : Nat) (bytes : Nat) : Nat :=
  let t := (bytes + DMSG_ALIGNMASK) % 2 ^ w
  t - t % DMSG_ALIGN

/-- Modelled from the spec: `DMSG_LNK_ERROR` of `dmsg.h`: protocol LNK,
command `0xFFF`, a header of one unit, no flag bit. -/
def DMSG_LNK_ERROR : Nat := 0x000FFF01

/-- Modelled from the spec: `DMSG_ERR_LOSTLINK` of `dmsg.h`, the error code of
the synthesized messages; only its identity matters. -/
def DMSG_ERR_LOSTLINK : Nat := 2

/-- The size of `struct dmsg_hdr`, the core header of the wire frame table. -/
def sizeof_head : Nat := 64

/-- The complement `~mask` of a 32-bit operand. -/
def not32 (mask : Nat) : Nat := 0xFFFFFFFF - mask

/-! ### IOQ error codes and parser states

Modelled from the spec: the enumerations `DMSG_IOQ_ERROR_*` and
`DMSG_MSGQ_STATE_*` of `dmsg.h`; only that the codes are distinct and that no
error is `0` matters. -/

/-- Modelled from the spec: `DMSG_IOQ_ERROR_SYNC` (bad magic). -/
def DMSG_IOQ_ERROR_SYNC : Nat := 1
/-- Modelled from the spec: `DMSG_IOQ_ERROR_EOF`. -/
def DMSG_IOQ_ERROR_EOF : Nat := 2
/-- Modelled from the spec: `DMSG_IOQ_ERROR_SOCK`. -/
def DMSG_IOQ_ERROR_SOCK : Nat := 3
/-- Modelled from the spec: `DMSG_IOQ_ERROR_FIELD` (out-of-range sizes). -/
def DMSG_IOQ_ERROR_FIELD : Nat := 4
/-- Modelled from the spec: `DMSG_IOQ_ERROR_XCRC` (header CRC). -/
def DMSG_IOQ_ERROR_XCRC : Nat := 5
/-- Modelled from the spec: `DMSG_IOQ_ERROR_ACRC` (aux CRC). -/
def DMSG_IOQ_ERROR_ACRC : Nat := 6
/-- Modelled from the spec: `DMSG_IOQ_ERROR_MSGSEQ` (salt sequence). -/
def DMSG_IOQ_ERROR_MSGSEQ : Nat := 7
/-- Modelled from the spec: `DMSG_IOQ_ERROR_TRANS` (protocol violation). -/
def DMSG_IOQ_ERROR_TRANS : Nat := 8
/-- Modelled from the spec: `DMSG_IOQ_ERROR_EALREADY` (racing abort). -/
def DMSG_IOQ_ERROR_EALREADY : Nat := 9

/-- The parser states `DMSG_MSGQ_STATE_*` of an IOQ. -/
inductive msgq_state where
  | HEADER1
  | HEADER2
  | AUXDATA1
  | AUXDATA2
  | ERROR
deriving DecidableEq, Repr

/-! ## Byte order -/

/-- The `n` bytes of `v` in memory order on the (little-endian) host. -/
def le_bytes : Nat → Nat → List Nat
  | 0, _ => []
  | n + 1, v => (v % 256) :: le_bytes n (v / 256)

/-- The value of a field read from its bytes in memory order. -/
def le_val : List Nat → Nat
  | [] => 0
  | b :: bs => b + 256 * le_val bs

/-- Byte reversal of an `n`-byte value: `bswap16`, `bswap32`, `bswap64`. -/
def bswap (n : Nat) (v : Nat) : Nat := le_val (le_bytes n v).reverse

/-- The function `bswap16`. -/
def bswap16 (v : Nat) : Nat := bswap 2 v
/-- The function `bswap32`. -/
def bswap32 (v : Nat) : Nat := bswap 4 v
/-- The function `bswap64`. -/
def bswap64 (v : Nat) : Nat := bswap 8 v

/-! ## Data model -/

/-- The core header `struct dmsg_hdr` (64 bytes). -/
structure dmsg_hdr where
  magic : Nat
  reserved02 : Nat
  salt : Nat
  msgid : Nat
  circuit : Nat
  reserved18 : Nat
  cmd : Nat
  aux_crc : Nat
  aux_bytes : Nat
  error : Nat
  aux_descr : Nat
  reserved38 : Nat
  hdr_crc : Nat
deriving DecidableEq, Repr

/-- The header after `bzero`. -/
def dmsg_hdr.zero : dmsg_hdr :=
  { magic := 0, reserved02 := 0, salt := 0, msgid := 0, circuit := 0, reserved18 := 0,
    cmd := 0, aux_crc := 0, aux_bytes := 0, error := 0, aux_descr := 0, reserved38 := 0,
    hdr_crc := 0 }

/-- The 64 bytes of a core header in memory, field after field at the offsets
of the wire frame table. -/
def hdr_bytes (h : dmsg_hdr) : List Nat :=
  le_bytes 2 h.magic ++ le_bytes 2 h.reserved02 ++ le_bytes 4 h.salt ++
  le_bytes 8 h.msgid ++ le_bytes 8 h.circuit ++ le_bytes 8 h.reserved18 ++
  le_bytes 4 h.cmd ++ le_bytes 4 h.aux_crc ++ le_bytes 4 h.aux_bytes ++
  le_bytes 4 h.error ++ le_bytes 8 h.aux_descr ++ le_bytes 4 h.reserved38 ++
  le_bytes 4 h.hdr_crc

/-- The bytes `[off, off + len)` of a buffer. -/
def slice (buf : List Nat) (off len : Nat) : List Nat := (buf.drop off).take len

/-- The core header seen through a `dmsg_hdr_t *` that points at `bs`. -/
def hdr_of_bytes (bs : List Nat) : dmsg_hdr :=
  { magic := le_val (slice bs 0 2), reserved02 := le_val (slice bs 2 2),
    salt := le_val (slice bs 4 4), msgid := le_val (slice bs 8 8),
    circuit := le_val (slice bs 16 8), reserved18 := le_val (slice bs 24 8),
    cmd := le_val (slice bs 32 4), aux_crc := le_val (slice bs 36 4),
    aux_bytes := le_val (slice bs 40 4), error := le_val (slice bs 44 4),
    aux_descr := le_val (slice bs 48 8), reserved38 := le_val (slice bs 56 4),
    hdr_crc := le_val (slice bs 60 4) }

/-- The function `dmsg_bswap_head`: every field of the core header is byte
swapped; the extended header is not touched. -/
def dmsg_bswap_head (head : dmsg_hdr) : dmsg_hdr :=
  { magic := bswap16 head.magic
    reserved02 := bswap16 head.reserved02
    salt := bswap32 head.salt
    msgid := bswap64 head.msgid
    circuit := bswap64 head.circuit
    reserved18 := bswap64 head.reserved18
    cmd := bswap32 head.cmd
    aux_crc := bswap32 head.aux_crc
    aux_bytes := bswap32 head.aux_bytes
    error := bswap32 head.error
    aux_descr := bswap64 head.aux_descr
    reserved38 := bswap32 head.reserved38
    hdr_crc := bswap32 head.hdr_crc }

/-- A message `dmsg_msg_t`.  `ext` holds the bytes of `msg->any` that follow
the core header, `aux_data` the allocated (aligned) payload buffer, `none`
for `NULL`. -/
structure dmsg_msg where
  state : Option Nat
  head : dmsg_hdr
  ext : List Nat
  hdr_size : Nat
  aux_data : Option (List Nat)
  aux_size : Nat
  tcmd : Nat
deriving DecidableEq, Repr

/-- The bit set `state->flags` (`DMSG_STATE_*`). -/
structure state_flags where
  ROOT : Bool := false
  DYNAMIC : Bool := false
  OPPOSITE : Bool := false
  SUBINSERTED : Bool := false
  RBINSERTED : Bool := false
  DYING : Bool := false
  ABORTING : Bool := false
  NEW : Bool := false
deriving DecidableEq, Repr

/-- A transaction state `dmsg_state_t`.  `subq` lists the children in queue
order, `func` is `0` for `NULL` and `1` for `dmsg_state_relay`, `any` tells
whether `any.any` is non-`NULL`. -/
structure dmsg_state where
  parent : Option Nat
  subq : List Nat
  scan : Option Nat
  flags : state_flags
  txcmd : Nat
  rxcmd : Nat
  icmd : Nat
  msgid : Nat
  refs : Int
  relay : Option Nat
  func : Nat
  any : Bool
deriving DecidableEq, Repr

/-- A state after `bzero`. -/
def dmsg_state.zero : dmsg_state :=
  { parent := none, subq := [], scan := none, flags := {}, txcmd := 0, rxcmd := 0,
    icmd := 0, msgid := 0, refs := 0, relay := none, func := 0, any := false }

/-- The part of `dmsg_iocom_t` that `iocom->mtx` protects and the state engine
works on: the states, the two red-black trees (as maps from `msgid` to the
state's address), the allocator's next address, the callback record and the
assertion flag.  `free_failed` is a history variable that the source does not
have: it is set when `dmsg_state_free` runs on a state that fails one of its
assertions on the flags, on `subq` or on `refs`; nothing reads it. -/
structure dmsg_engine where
  heap : Nat → Option dmsg_state
  staterd_tree : Nat → Option Nat
  statewr_tree : Nat → Option Nat
  brk : Nat
  rcvd : List dmsg_msg
  assert_failed : Bool
  dmsg_state_count : Int
  free_failed : Bool := false

/-- Store the state `s` at address `p`. -/
def dmsg_engine.put (e : dmsg_engine) (p : Nat) (s : dmsg_state) : dmsg_engine :=
  { e with heap := Function.update e.heap p (some s) }

/-- Record the outcome of `assert(ok)`. -/
def dmsg_engine.check (e : dmsg_engine) (ok : Bool) : dmsg_engine :=
  { e with assert_failed := e.assert_failed || !ok }

/-- The macro `RB_INSERT`: a node whose key is already in the tree is not
inserted. -/
def RB_INSERT (tree : Nat → Option Nat) (msgid : Nat) (state : Nat) : Nat → Option Nat :=
  match tree msgid with
  | some _ => tree
  | none => Function.update tree msgid (some state)

/-- The macro `RB_REMOVE` of the node `state`, whose key is `msgid`; removing a
node that is not in the tree is undefined. -/
def RB_REMOVE (tree : Nat → Option Nat) (msgid : Nat) (state : Nat) :
    Option (Nat → Option Nat) :=
  if tree msgid = some state then some (Function.update tree msgid none) else none

/-- The macro `TAILQ_NEXT(elm)`: the element that follows `elm` in the queue. -/
def TAILQ_NEXT : List Nat → Nat → Option Nat
  | [], _ => none
  | x :: rest, elm => if x = elm then rest.head? else TAILQ_NEXT rest elm

/-! ## Reference counting -/

/-- The function `dmsg_state_hold`. -/
def dmsg_state_hold (e : dmsg_engine) (state : Nat) : Option dmsg_engine := do
  let s ← e.heap state
  pure (e.put state { s with refs := s.refs + 1 })

/-- The function `dmsg_state_free`: the assertions, then `free(state)`.
The `closefrom(3)` of the source acts on file descriptors only.  The history
variable `free_failed` takes the outcome of the assertions that precede it. -/
def dmsg_state_free (e : dmsg_engine) (state : Nat) : Option dmsg_engine := do
  let s ← e.heap state
  let e1 := { e with dmsg_state_count := e.dmsg_state_count - 1 }
  let e2 := e1.check (!(s.flags.ROOT || s.flags.SUBINSERTED || s.flags.RBINSERTED))
  let e3 := e2.check s.subq.isEmpty
  let e4 := e3.check (decide (s.refs = 0))
  let e5 := e4.check (!s.any)
  let ok := !(s.flags.ROOT || s.flags.SUBINSERTED || s.flags.RBINSERTED) &&
    s.subq.isEmpty && decide (s.refs = 0)
  pure { e5 with heap := Function.update e5.heap state none
                 free_failed := e5.free_failed || !ok }

/-- The function `dmsg_state_drop`. -/
def dmsg_state_drop (e : dmsg_engine) (state : Nat) : Option dmsg_engine := do
  let s ← e.heap state
  let e1 := (e.check (decide (s.refs > 0))).put state { s with refs := s.refs - 1 }
  if s.refs = 1 then dmsg_state_free e1 state else pure e1

/-- The function `dmsg_subq_delete`.  `TAILQ_REMOVE` of a state that is not on
its parent's queue is undefined. -/
def dmsg_subq_delete (e : dmsg_engine) (state : Nat) : Option dmsg_engine := do
  let s ← e.heap state
  if s.flags.SUBINSERTED then
    let pstate ← s.parent
    let ps ← e.heap pstate
    let ps1 := if ps.scan = some state then { ps with scan := none } else ps
    if state ∈ ps1.subq then
      let e1 := e.put pstate { ps1 with subq := ps1.subq.erase state }
      let s1 ← e1.heap state
      let e2 := e1.put state
        { s1 with flags := { s1.flags with SUBINSERTED := false }, parent := none }
      let ps2 ← e2.heap pstate
      let e3 ← if ps2.subq.isEmpty then dmsg_state_drop e2 pstate else pure e2
      dmsg_state_drop e3 state
    else none
  else
    pure (e.check (decide (s.parent = none)))

/-! ## Messages -/

/-- The branch of `dmsg_msg_alloc_locked` taken when `CREATE` is set without
`REPLY`: a new state under `pstate`, inserted in `statewr_tree` and at the tail
of `pstate->subq`.  The result is the engine and the address of the state. -/
def dmsg_msg_alloc_create (e : dmsg_engine) (pstate : Nat) (cmd : Nat) (func : Nat)
    (data : Bool) : Option (dmsg_engine × Nat) := do
  let ps ← e.heap pstate
  let nstate := e.brk
  let txcmd := cmd &&& not32 (DMSGF_CREATE ||| DMSGF_DELETE)
  let ns : dmsg_state :=
    { dmsg_state.zero with
      parent := some pstate
      flags := { DYNAMIC := true, SUBINSERTED := true, RBINSERTED := true,
                 DYING := ps.flags.DYING }
      msgid := nstate
      txcmd := txcmd
      rxcmd := DMSGF_REPLY
      icmd := txcmd &&& DMSGF_BASECMDMASK
      func := func
      any := data }
  let e1 : dmsg_engine :=
    { e with brk := e.brk + 1, dmsg_state_count := e.dmsg_state_count + 1 }
  let e2 := e1.put nstate ns
  let e3 ← if ps.subq.isEmpty then dmsg_state_hold e2 pstate else pure e2
  let e4 := { e3 with statewr_tree := RB_INSERT e3.statewr_tree nstate nstate }
  let ps4 ← e4.heap pstate
  let e5 := e4.put pstate { ps4 with subq := ps4.subq ++ [nstate] }
  let e6 ← dmsg_state_hold e5 nstate
  let e7 ← dmsg_state_hold e6 nstate
  let e8 ← dmsg_state_hold e7 nstate
  pure (e8, nstate)

/-- The function `dmsg_msg_alloc_locked` (`dmsg_msg_alloc` is the same under
the mutex).  `func` and `data` are the callback and cookie of a new state; the
memory that `malloc` returns for the payload reads as zero. -/
def dmsg_msg_alloc_locked (e : dmsg_engine) (state : Nat) (aux_size cmd : Nat)
    (func : Nat) (data : Bool) : Option (dmsg_engine × dmsg_msg) := do
  let aligned_size := DMSG_DOALIGN 64 aux_size
  let created := decide (cmd &&& (DMSGF_CREATE ||| DMSGF_REPLY) = DMSGF_CREATE)
  let r ← if created then dmsg_msg_alloc_create e state cmd func data
          else (dmsg_state_hold e state).map (fun e1 => (e1, state))
  let s0 ← e.heap state
  let pstate ← if created then some state else s0.parent
  let e1 := r.1
  let state1 := r.2
  let hbytes := (cmd &&& DMSGF_SIZE) * DMSG_ALIGN
  let e2 := e1.check (decide (hbytes ≥ sizeof_head))
  let aux_data := if aux_size ≠ 0 then some (List.replicate aligned_size 0) else none
  let s1 ← e2.heap state1
  let ps1 ← e2.heap pstate
  let cmd1 := if s1.flags.OPPOSITE then cmd ||| DMSGF_REVTRANS else cmd
  let cmd2 := if ps1.flags.OPPOSITE then cmd1 ||| DMSGF_REVCIRC else cmd1
  let msg : dmsg_msg :=
    { state := some state1
      head := { dmsg_hdr.zero with
                magic := DMSG_HDR_MAGIC, cmd := cmd2, aux_descr := 0, aux_crc := 0,
                msgid := s1.msgid, circuit := ps1.msgid }
      ext := List.replicate (hbytes - sizeof_head) 0
      hdr_size := hbytes
      aux_data := aux_data
      aux_size := aux_size
      tcmd := 0 }
  pure (e2, msg)

/-- The function `dmsg_msg_free_locked` (`dmsg_msg_free` is the same under the
mutex). -/
def dmsg_msg_free_locked (e : dmsg_engine) (msg : dmsg_msg) : Option dmsg_engine :=
  match msg.state with
  | some state => dmsg_state_drop e state
  | none => some e

/-- The function `dmsg_msg_free`: it reads `msg->state->iocom` before it takes
the mutex, so the message must have a state. -/
def dmsg_msg_free (e : dmsg_engine) (msg : dmsg_msg) : Option dmsg_engine := do
  let state ← msg.state
  let _ ← e.heap state
  dmsg_msg_free_locked e msg

/-! ## Transaction state handling -/

/-- What `dmsg_state_msgrx` hands back: the engine, the message (its `state`
and `tcmd` assigned) and the returned error code. -/
structure msgrx_result where
  eng : dmsg_engine
  msg : dmsg_msg
  error : Nat

/-- The locals of `dmsg_state_msgrx` after its `switch`: the engine, the
message, the local `state` and `error`. -/
structure msgrx_locals where
  eng : dmsg_engine
  msg : dmsg_msg
  state : Nat
  error : Nat

/-- The circuit lookup of `dmsg_state_msgrx` ("Lookup the circuit (pstate)").
The outer `none` is the missing circuit, for which the function returns
`EALREADY`; the inner option is the pointer `pstate`, which can be `NULL` only
when `mstate` is set. -/
def dmsg_state_msgrx_circuit (e : dmsg_engine) (msg : dmsg_msg) (mstate : Bool)
    (ms : dmsg_state) : Option (Option Nat) :=
  if mstate then some ms.parent
  else if msg.head.circuit ≠ 0 then
    (if msg.head.cmd &&& DMSGF_REVCIRC ≠ 0 then (e.statewr_tree msg.head.circuit).map some
     else (e.staterd_tree msg.head.circuit).map some)
  else some (some 0)

/-- The state lookup of `dmsg_state_msgrx` ("Lookup the msgid"): the result of
`RB_FIND`, or `msg->state` when `mstate` is set. -/
def dmsg_state_msgrx_find (e : dmsg_engine) (msg : dmsg_msg) (mstate : Bool) (mst : Nat) :
    Option Nat :=
  if mstate then some mst
  else if msg.head.cmd &&& DMSGF_REVTRANS ≠ 0 then e.statewr_tree msg.head.msgid
  else e.staterd_tree msg.head.msgid

/-- The case `CREATE` / `CREATE|DELETE` of the `switch` in `dmsg_state_msgrx`
when `state == pstate`: the new state is allocated under `pstate`, inserted in
`staterd_tree` and at the tail of `pstate->subq`. -/
def dmsg_state_msgrx_create (e1 : dmsg_engine) (msg1 : dmsg_msg) (pstate : Nat) :
    Option msgrx_locals := do
  let cmd := msg1.head.cmd
  let nstate := e1.brk
  let ea : dmsg_engine :=
    { e1 with brk := e1.brk + 1, dmsg_state_count := e1.dmsg_state_count + 1 }
  let eb ← dmsg_state_hold ea pstate
  let rxcmd := cmd &&& not32 DMSGF_DELETE
  let ns : dmsg_state :=
    { dmsg_state.zero with
      parent := some pstate
      flags := { DYNAMIC := true, OPPOSITE := true }
      msgid := msg1.head.msgid
      txcmd := DMSGF_REPLY
      rxcmd := rxcmd
      icmd := rxcmd &&& DMSGF_BASECMDMASK }
  let ec := eb.put nstate ns
  let ed := { ec with staterd_tree := RB_INSERT ec.staterd_tree msg1.head.msgid nstate }
  let ps ← ed.heap pstate
  let ee ← if ps.subq.isEmpty then dmsg_state_hold ed pstate else pure ed
  let ps1 ← ee.heap pstate
  let ef := ee.put pstate { ps1 with subq := ps1.subq ++ [nstate] }
  let s1 ← ef.heap nstate
  let eg := ef.put nstate
    { s1 with flags := { s1.flags with SUBINSERTED := true, RBINSERTED := true } }
  let eh ← dmsg_state_hold eg nstate
  let ei ← dmsg_state_hold eh nstate
  let ej ← dmsg_state_hold ei nstate
  let ps2 ← ej.heap pstate
  let s2 ← ej.heap nstate
  let ek := if ps2.relay.isSome then ej.put nstate { s2 with func := 1 } else ej
  pure { eng := ek, msg := { msg1 with state := some nstate }, state := nstate, error := 0 }

/-- The `switch` on `CREATE`, `DELETE` and `REPLY` of `dmsg_state_msgrx`.  The
cases `DELETE` and `REPLY|DELETE` have the same body, as have `default` and
`REPLY`. -/
def dmsg_state_msgrx_switch (e1 : dmsg_engine) (msg1 : dmsg_msg) (state : Nat)
    (pstate : Option Nat) : Option msgrx_locals :=
  let cmd := msg1.head.cmd
  let sw := cmd &&& (DMSGF_CREATE ||| DMSGF_DELETE ||| DMSGF_REPLY)
  let out (e : dmsg_engine) (error : Nat) : Option msgrx_locals :=
    some { eng := e, msg := msg1, state := state, error := error }
  if sw = DMSGF_CREATE ∨ sw = DMSGF_CREATE ||| DMSGF_DELETE then
    -- case DMSGF_CREATE: case DMSGF_CREATE | DMSGF_DELETE:
    if some state ≠ pstate then out (e1.check false) DMSG_IOQ_ERROR_TRANS
    else dmsg_state_msgrx_create e1 msg1 state
  else if sw = DMSGF_DELETE ∨ sw = DMSGF_REPLY ||| DMSGF_DELETE then
    -- case DMSGF_DELETE: and case DMSGF_REPLY | DMSGF_DELETE:
    if some state = pstate then
      if cmd &&& DMSGF_ABORT ≠ 0 then out e1 DMSG_IOQ_ERROR_EALREADY
      else out (e1.check false) DMSG_IOQ_ERROR_TRANS
    else
      (e1.heap state).bind fun st =>
      if st.rxcmd &&& DMSGF_CREATE = 0 then
        if cmd &&& DMSGF_ABORT ≠ 0 then out e1 DMSG_IOQ_ERROR_EALREADY
        else out (e1.check false) DMSG_IOQ_ERROR_TRANS
      else out e1 0
  else if sw = DMSGF_REPLY ||| DMSGF_CREATE ∨
          sw = DMSGF_REPLY ||| DMSGF_CREATE ||| DMSGF_DELETE then
    -- case DMSGF_REPLY | DMSGF_CREATE: case DMSGF_REPLY | DMSGF_CREATE | DMSGF_DELETE:
    if some state = pstate then out (e1.check false) DMSG_IOQ_ERROR_TRANS
    else
      (e1.heap state).bind fun st =>
      let ea := e1.check (decide ((st.rxcmd ^^^ cmd) &&& DMSGF_REPLY = 0))
      out (ea.put state { st with rxcmd := cmd &&& not32 DMSGF_DELETE }) 0
  else
    -- default: and case DMSGF_REPLY: the check for a mid-stream ABORT
    if cmd &&& DMSGF_ABORT ≠ 0 then
      if some state = pstate then out e1 DMSG_IOQ_ERROR_EALREADY
      else
        (e1.heap state).bind fun st =>
        if st.rxcmd &&& DMSGF_CREATE = 0 then out e1 DMSG_IOQ_ERROR_EALREADY
        else out e1 0
    else out e1 0

/-- The value `msg->tcmd` that `dmsg_state_msgrx` computes ("Calculate the
easy-switch() transactional command"): `root` is the `ROOT` flag of
`msg->state`, `icmd` the field of the local `state`. -/
def dmsg_state_msgrx_tcmd (cmd : Nat) (root : Bool) (icmd : Nat) : Nat :=
  if cmd &&& (DMSGF_CREATE ||| DMSGF_DELETE) ≠ 0 then
    if !root then
      (icmd &&& DMSGF_BASECMDMASK) ||| (cmd &&& (DMSGF_CREATE ||| DMSGF_DELETE ||| DMSGF_REPLY))
    else 0
  else cmd &&& DMSGF_CMDSWMASK

/-- The removal from the tree at the end of `dmsg_state_msgrx`, taken when the
message carries `DELETE` and `txcmd` has `DELETE` too. -/
def dmsg_state_msgrx_remove (e5 : dmsg_engine) (cmd : Nat) (state2 : Nat) (st3 : dmsg_state) :
    Option dmsg_engine := do
  let e6 := e5.check st3.flags.RBINSERTED
  let e7 ←
    (if st3.rxcmd &&& DMSGF_REPLY ≠ 0 then
      (RB_REMOVE e6.statewr_tree st3.msgid state2).map fun t =>
        { e6.check (decide (cmd &&& DMSGF_REPLY ≠ 0)) with statewr_tree := t }
    else
      (RB_REMOVE e6.staterd_tree st3.msgid state2).map fun t =>
        { e6.check (decide (cmd &&& DMSGF_REPLY = 0)) with staterd_tree := t })
  let e8 := e7.put state2 { st3 with flags := { st3.flags with RBINSERTED := false } }
  dmsg_state_drop e8 state2

/-- The end of `dmsg_state_msgrx`, from the computation of `tcmd` to the
return: `tcmd`, the two assertions, and the adjustment of the state ("mark
receive side as DELETED if appropriate and adjust RB tree if both sides are
DELETED"). -/
def dmsg_state_msgrx_adjust (l : msgrx_locals) : Option msgrx_result := do
  let cmd := l.msg.head.cmd
  let mst2 ← l.msg.state
  let ms2 ← l.eng.heap mst2
  let st2 ← l.eng.heap l.state
  let msg3 := { l.msg with tcmd := dmsg_state_msgrx_tcmd cmd ms2.flags.ROOT st2.icmd }
  let e3 := l.eng.check (decide (mst2 = l.state))
  if st2.flags.ROOT then
    pure { eng := e3, msg := msg3, error := l.error }
  else if cmd &&& DMSGF_DELETE ≠ 0 then
    let e4 := e3.check (decide (st2.rxcmd &&& DMSGF_DELETE = 0))
    let st3 := { st2 with rxcmd := st2.rxcmd ||| DMSGF_DELETE }
    let e5 := e4.put l.state st3
    if st3.txcmd &&& DMSGF_DELETE ≠ 0 then
      (dmsg_state_msgrx_remove e5 cmd l.state st3).map fun e9 =>
        { eng := e9, msg := msg3, error := l.error }
    else pure { eng := e5, msg := msg3, error := l.error }
  else pure { eng := e3, msg := msg3, error := l.error }

/-- The step of `dmsg_state_msgrx` between the lookups and the `switch`: a
message over an existing transaction moves its reference from the dummy state
to the state found; a message without state takes the circuit as its local
`state` (`msg->state` is left as it is).  The result is the engine, the
message and the local `state`. -/
def dmsg_state_msgrx_assign (e : dmsg_engine) (msg : dmsg_msg) (mstate : Bool) (mst : Nat)
    (pstate : Option Nat) (found : Option Nat) : Option (dmsg_engine × dmsg_msg × Option Nat) :=
  if mstate then some (e, msg, some mst)
  else match found with
    | some st => do
        let e1 ← dmsg_state_drop e mst
        let e2 ← dmsg_state_hold e1 st
        let sst ← e2.heap st
        pure (e2.check (decide (pstate = sst.parent)), { msg with state := some st }, some st)
    | none => some (e, msg, pstate)

/-- The function `dmsg_state_msgrx(msg, mstate)`. -/
def dmsg_state_msgrx (e : dmsg_engine) (msg : dmsg_msg) (mstate : Bool) :
    Option msgrx_result := do
  let mst ← msg.state
  let ms ← e.heap mst
  match dmsg_state_msgrx_circuit e msg mstate ms with
  | none => pure { eng := e, msg := msg, error := DMSG_IOQ_ERROR_EALREADY }
  | some pstate =>
    let found := dmsg_state_msgrx_find e msg mstate mst
    let a ← dmsg_state_msgrx_assign e msg mstate mst pstate found
    let state ← a.2.2
    let l ← dmsg_state_msgrx_switch a.1 a.2.1 state pstate
    dmsg_state_msgrx_adjust l

/-- The function `dmsg_state_cleanuprx`. -/
def dmsg_state_cleanuprx (e : dmsg_engine) (msg : dmsg_msg) : Option dmsg_engine := do
  let state ← msg.state
  let st ← e.heap state
  if st.flags.ROOT then
    dmsg_msg_free e msg
  else if st.flags.SUBINSERTED ∧ st.rxcmd &&& DMSGF_DELETE ≠ 0 ∧
          st.txcmd &&& DMSGF_DELETE ≠ 0 then do
    let e1 ← dmsg_subq_delete e state
    let st1 ← e1.heap state
    let e2 ←
      (match st1.relay with
       | some r => do
           let ea ← dmsg_state_drop e1 r
           let st2 ← ea.heap state
           pure (ea.put state { st2 with relay := none })
       | none => pure e1 : Option dmsg_engine)
    dmsg_msg_free e2 msg
  else
    dmsg_msg_free e msg

/-! ## Failure cascade -/

/-- The function `dmsg_state_dying`. -/
def dmsg_state_dying : Nat → dmsg_engine → Nat → Option dmsg_engine
  | 0, _, _ => none
  | fuel + 1, e, state => do
    let s ← e.heap state
    if !s.flags.DYING then
      let e1 := e.put state { s with flags := { s.flags with DYING := true } }
      s.subq.foldlM (fun ea scan => dmsg_state_dying fuel ea scan) e1
    else pure e

/-- The header command of the message that `dmsg_state_abort` synthesizes,
from the command `cmd` that `dmsg_msg_alloc_locked` stored and the `rxcmd` of
the state. -/
def dmsg_state_abort_cmd (cmd rxcmd : Nat) : Nat :=
  let c1 := if rxcmd &&& DMSGF_CREATE = 0 then cmd ||| DMSGF_CREATE else cmd
  let c2 := c1 ||| (DMSGF_DELETE ||| (rxcmd &&& DMSGF_REPLY))
  let c3 := c2 ^^^ (DMSGF_REVTRANS ||| DMSGF_REVCIRC)
  c3 ||| DMSGF_ABORT

/-- The block of `dmsg_state_abort` that runs when `rxcmd` lacks `DELETE`: the
synthesized message goes through `dmsg_state_msgrx(msg, 1)`, the callback
`iocom->rcvmsg_callback` (the recording callback) and `dmsg_state_cleanuprx`. -/
def dmsg_state_abort_msg (e2 : dmsg_engine) (state : Nat) : Option dmsg_engine := do
  let am ← dmsg_msg_alloc_locked e2 state 0 DMSG_LNK_ERROR 0 false
  let s3 ← am.1.heap state
  let msg1 := { am.2 with
    head := { am.2.head with cmd := dmsg_state_abort_cmd am.2.head.cmd s3.rxcmd,
                             error := DMSG_ERR_LOSTLINK } }
  let r ← dmsg_state_msgrx am.1 msg1 true
  let e5 := { r.eng with rcvd := r.eng.rcvd ++ [r.msg] }
  dmsg_state_cleanuprx e5 r.msg

/-- The function `dmsg_state_abort`. -/
def dmsg_state_abort (fuel : Nat) (e : dmsg_engine) (state : Nat) : Option dmsg_engine := do
  let s ← e.heap state
  if s.flags.ABORTING then pure e
  else
    let e1 := e.put state { s with flags := { s.flags with ABORTING := true } }
    let e2 ← dmsg_state_dying fuel e1 state
    let s2 ← e2.heap state
    if s2.flags.NEW then pure e2
    else if s2.rxcmd &&& DMSGF_DELETE = 0 then dmsg_state_abort_msg e2 state
    else pure e2

mutual
/-- The function `dmsg_simulate_failure(state, meto, error)`. -/
def dmsg_simulate_failure : Nat → dmsg_engine → Nat → Bool → Nat → Option dmsg_engine
  | 0, _, _, _, _ => none
  | fuel + 1, e, state, meto, error => do
    let e1 ← dmsg_state_hold e state
    let e2 ← if meto then dmsg_state_abort fuel e1 state else pure e1
    let s ← e2.heap state
    let e3 ← dmsg_simulate_failure_scan fuel e2 state error s.subq.head?
    dmsg_state_drop e3 state
/-- The loop `TAILQ_FOREACH(substate, &state->subq, entry)` of
`dmsg_simulate_failure`, entered with the cursor `substate`; `goto again`
re-enters it at the head of the queue. -/
def dmsg_simulate_failure_scan : Nat → dmsg_engine → Nat → Nat → Option Nat →
    Option dmsg_engine
  | 0, _, _, _, _ => none
  | _ + 1, e, _, _, none => some e
  | fuel + 1, e, state, error, some substate => do
    let ss ← e.heap substate
    let s ← e.heap state
    if ss.flags.ABORTING then
      dmsg_simulate_failure_scan fuel e state error (TAILQ_NEXT s.subq substate)
    else
      let e1 := e.put state { s with scan := some substate }
      let e2 ← dmsg_simulate_failure fuel e1 substate true error
      let s2 ← e2.heap state
      if s2.scan ≠ some substate then
        dmsg_simulate_failure_scan fuel e2 state error s2.subq.head?
      else
        dmsg_simulate_failure_scan fuel e2 state error (TAILQ_NEXT s2.subq substate)
end

/-- The function `dmsg_state_cleanuptx`: the transmit-side update of the state
of `msg`, then the deferred abort. -/
def dmsg_state_cleanuptx (fuel : Nat) (e : dmsg_engine) (msg : dmsg_msg) :
    Option dmsg_engine := do
  let state ← msg.state
  let e1 ← dmsg_state_hold e state
  let s ← e1.heap state
  let e2 ←
    (if s.flags.ROOT then pure e1
     else if msg.head.cmd &&& DMSGF_DELETE ≠ 0 then
       -- Message terminating transaction
       if s.txcmd &&& DMSGF_DELETE = 0 ∧ s.rxcmd &&& DMSGF_DELETE ≠ 0 then do
         let s1 := { s with txcmd := s.txcmd ||| DMSGF_DELETE }
         let ea := (e1.put state s1).check s1.flags.RBINSERTED
         let eb ←
           (if s1.txcmd &&& DMSGF_REPLY ≠ 0 then
             (RB_REMOVE ea.staterd_tree s1.msgid state).map fun t =>
               { ea.check (decide (msg.head.cmd &&& DMSGF_REPLY ≠ 0)) with staterd_tree := t }
           else
             (RB_REMOVE ea.statewr_tree s1.msgid state).map fun t =>
               { ea.check (decide (msg.head.cmd &&& DMSGF_REPLY = 0)) with statewr_tree := t })
         let ec := eb.put state { s1 with flags := { s1.flags with RBINSERTED := false } }
         let ed ← dmsg_subq_delete ec state
         let sd ← ed.heap state
         let ee ←
           (match sd.relay with
            | some r => do
                let ex ← dmsg_state_drop ed r
                let sx ← ex.heap state
                pure (ex.put state { sx with relay := none })
            | none => pure ed : Option dmsg_engine)
         dmsg_state_drop ee state
       else if s.txcmd &&& DMSGF_DELETE = 0 then
         pure (e1.put state { s with txcmd := s.txcmd ||| DMSGF_DELETE })
       else pure e1
     else pure e1 : Option dmsg_engine)
  -- Deferred abort after transmission.
  let s2 ← e2.heap state
  let e3 ←
    (if (s2.flags.ABORTING || s2.flags.DYING) ∧ s2.rxcmd &&& DMSGF_DELETE = 0 then
      dmsg_simulate_failure fuel
        (e2.put state { s2 with flags := { s2.flags with ABORTING := false } })
        state true DMSG_ERR_LOSTLINK
     else pure e2 : Option dmsg_engine)
  dmsg_state_drop e3 state

/-! ## IOQ and IOCOM -/

/-- One direction of the link, `dmsg_ioq_t`.  `msg` is the message under
construction (`ioq->msg`), `buf` the FIFO `ioq->buf`, whose length is
`sizeof(ioq->buf)`, `ctx` the cipher context with its `iv`.  `accepted` is a
history variable that the source does not have: the headers of the frames
that passed the sequence check, oldest first; nothing reads it. -/
structure dmsg_ioq where
  state : msgq_state
  fifo_beg : Nat
  fifo_cdx : Nat
  fifo_cdn : Nat
  fifo_end : Nat
  hbytes : Nat
  abytes : Nat
  unaligned_aux_size : Nat
  error : Nat
  seq : Nat
  msgcount : Int
  msg : Option dmsg_msg
  msgq : List dmsg_msg
  buf : List Nat
  ctx : Nat
  accepted : List dmsg_hdr
deriving DecidableEq, Repr

/-- What `dmsg_crypto_decrypt` changes in an IOQ: the FIFO bytes it decodes in
place, the two cursors it advances and the cipher context. -/
structure decrypt_result where
  buf : List Nat
  fifo_cdx : Nat
  fifo_cdn : Nat
  ctx : Nat

/-- What the translation unit takes from its environment: the CRC routine
`dmsg_icrc32`, the stream decoder `dmsg_crypto_decrypt` (it moves the cursors
of the IOQ and decodes in place), and the sizes that `dmsg.h` fixes. -/
structure Env where
  /-- The routine `dmsg_icrc32(buf, len)` applied to the `len` bytes. -/
  icrc32 : List Nat → Nat
  /-- The routine `dmsg_crypto_decrypt(iocom, ioq)`. -/
  dmsg_crypto_decrypt : dmsg_ioq → decrypt_result
  /-- The limit `DMSG_AUX_MAX`. -/
  DMSG_AUX_MAX : Nat
  /-- The size `sizeof(msg->any)`, the largest extended header. -/
  sizeof_any : Nat
  /-- The size `sizeof(ioq->buf)`. -/
  sizeof_buf : Nat

/-- The bit set `iocom->flags` (`DMSG_IOCOMF_*`). -/
structure iocom_flags where
  RREQ : Bool := false
  WREQ : Bool := false
  RWORK : Bool := false
  WWORK : Bool := false
  PWORK : Bool := false
  SWORK : Bool := false
  ARWORK : Bool := false
  AWWORK : Bool := false
  EOF : Bool := false
  CRYPTED : Bool := false
  CLOSEALT : Bool := false
deriving DecidableEq, Repr

/-- What one call of `read(2)` on the socket finds: bytes (as many of them as
the call asks for are taken), end of file, `-1` with `EINTR`, `EINPROGRESS`
or `EAGAIN`, or `-1` with another `errno`. -/
inductive sock_event where
  | data (bs : List Nat)
  | eof
  | eagain
  | fail
deriving DecidableEq, Repr

/-- The connection `dmsg_iocom_t`: the engine, the flags, the two IOQs, the
transmit queue, the events the socket will deliver to `read(2)` and the values
`random()` will return. -/
structure dmsg_iocom where
  eng : dmsg_engine
  flags : iocom_flags
  ioq_rx : dmsg_ioq
  ioq_tx : dmsg_ioq
  txmsgq : List dmsg_msg
  sock : List sock_event
  rand : List Nat

/-- The function `dmsg_ioq_init`. -/
def dmsg_ioq_init (env : Env) : dmsg_ioq :=
  { state := .HEADER1, fifo_beg := 0, fifo_cdx := 0, fifo_cdn := 0, fifo_end := 0,
    hbytes := 0, abytes := 0, unaligned_aux_size := 0, error := 0, seq := 0,
    msgcount := 0, msg := none, msgq := [], buf := List.replicate env.sizeof_buf 0,
    ctx := 0, accepted := [] }

/-- The function `dmsg_iocom_init` on a descriptor that is not a socket (no
`dmsg_crypto_negotiate`): `signal_func` tells whether a signal callback is
given, `sock` and `rand` are the oracles of the connection. -/
def dmsg_iocom_init (env : Env) (signal_func : Bool) (sock : List sock_event)
    (rand : List Nat) : dmsg_iocom :=
  { eng :=
      { heap := Function.update (fun _ => none) 0
          (some { dmsg_state.zero with refs := 1, parent := some 0, flags := { ROOT := true } })
        staterd_tree := fun _ => none
        statewr_tree := fun _ => none
        brk := 1
        rcvd := []
        assert_failed := false
        dmsg_state_count := 0 }
    flags := { RREQ := true, CLOSEALT := true, SWORK := signal_func }
    ioq_rx := dmsg_ioq_init env
    ioq_tx := dmsg_ioq_init env
    txmsgq := []
    sock := sock
    rand := rand }

/-- Store `bs` at offset `off` of a buffer (`bcopy` into the buffer). -/
def buf_write (buf : List Nat) (off : Nat) (bs : List Nat) : List Nat :=
  buf.take off ++ bs ++ buf.drop (off + bs.length)

/-- The function `dmsg_ioq_makeroom`; the result is the IOQ and the returned
`nmax`.  The `size_t` differences are taken on cursors that the source keeps
ordered. -/
def dmsg_ioq_makeroom (ioq : dmsg_ioq) (needed : Nat) : dmsg_ioq × Nat :=
  let bytes := ioq.fifo_cdx - ioq.fifo_beg
  let nmax := ioq.buf.length - ioq.fifo_end
  if bytes + nmax / 2 < needed then
    let buf1 := if bytes ≠ 0 then buf_write ioq.buf 0 (slice ioq.buf ioq.fifo_beg bytes)
                else ioq.buf
    let cdx := ioq.fifo_cdx - ioq.fifo_beg
    let buf2 := if ioq.fifo_cdn < ioq.fifo_end then
                  buf_write buf1 cdx (slice buf1 ioq.fifo_cdn (ioq.fifo_end - ioq.fifo_cdn))
                else buf1
    let fend := ioq.fifo_end - (ioq.fifo_cdn - cdx)
    ({ ioq with buf := buf2, fifo_beg := 0, fifo_cdx := cdx, fifo_cdn := cdx, fifo_end := fend },
     ioq.buf.length - fend)
  else (ioq, nmax)

/-- The function `dmsg_iocom_drain`. -/
def dmsg_iocom_drain (ic : dmsg_iocom) : Option dmsg_iocom :=
  (ic.ioq_tx.msgq.foldlM (fun e msg => dmsg_msg_free e msg) ic.eng).map fun e =>
  { ic with
    eng := e
    flags := { ic.flags with WREQ := false, WWORK := false }
    ioq_tx :=
      { ic.ioq_tx with
        hbytes := 0, abytes := 0, msgq := []
        msgcount := ic.ioq_tx.msgcount - ic.ioq_tx.msgq.length } }

/-- The function `dmsg_ioq_done`, on the engine and one IOQ: the messages
still queued are freed (after `assert(0)`), then the message under
construction. -/
def dmsg_ioq_done (e : dmsg_engine) (ioq : dmsg_ioq) : Option (dmsg_engine × dmsg_ioq) := do
  let e1 ← ioq.msgq.foldlM (fun ea msg => dmsg_msg_free (ea.check false) msg) e
  let ioq1 := { ioq with msgq := [] }
  match ioq1.msg with
  | some msg => (dmsg_msg_free e1 msg).map fun e2 => (e2, { ioq1 with msg := none })
  | none => pure (e1, ioq1)

/-- The function `dmsg_iocom_done`; the descriptors it closes and the mutex it
destroys are not part of the model. -/
def dmsg_iocom_done (ic : dmsg_iocom) : Option dmsg_iocom := do
  let r ← dmsg_ioq_done ic.eng ic.ioq_rx
  let t ← dmsg_ioq_done r.1 ic.ioq_tx
  pure { ic with eng := t.1, ioq_rx := r.2, ioq_tx := t.2 }

/-! ## Receive path: `dmsg_ioq_read` -/

/-- What the block around `read(2)` leaves: the connection, the local `nmax`
and whether the `switch` is left by `break`. -/
structure sock_read_result where
  ic : dmsg_iocom
  nmax : Nat
  brk : Bool

/-- The call `n = read(iocom->sock_fd, ioq->buf + ioq->fifo_end, nmax)` with
the handling of its result that `dmsg_ioq_read` repeats in three parser
states: on `n == 0` the error is `EOF`, on a hard error `SOCK` (both `break`),
otherwise `fifo_end` advances by `n` and `nmax` shrinks by `n`. -/
def ioq_sock_read (ic : dmsg_iocom) (nmax : Nat) : sock_read_result :=
  let q := ic.ioq_rx
  match ic.sock with
  | [] => { ic := ic, nmax := nmax, brk := false }
  | sock_event.eagain :: rest => { ic := { ic with sock := rest }, nmax := nmax, brk := false }
  | sock_event.fail :: rest =>
      { ic := { ic with sock := rest, ioq_rx := { q with error := DMSG_IOQ_ERROR_SOCK } },
        nmax := nmax, brk := true }
  | sock_event.eof :: rest =>
      { ic := { ic with sock := sock_event.eof :: rest,
                        ioq_rx := { q with error := DMSG_IOQ_ERROR_EOF } },
        nmax := nmax, brk := true }
  | sock_event.data bs :: rest =>
      let got := bs.take nmax
      let left := bs.drop nmax
      let sock1 := if left = [] then rest else sock_event.data left :: rest
      if got = [] then
        { ic := { ic with sock := sock1, ioq_rx := { q with error := DMSG_IOQ_ERROR_EOF } },
          nmax := nmax, brk := true }
      else
        { ic := { ic with
                  sock := sock1
                  ioq_rx := { q with buf := buf_write q.buf q.fifo_end got,
                                     fifo_end := q.fifo_end + got.length } },
          nmax := nmax - got.length, brk := false }

/-- The step "decrypt data received so far": `dmsg_crypto_decrypt` on an
encrypted link, otherwise `fifo_cdx = fifo_cdn = fifo_end`. -/
def ioq_decrypt (env : Env) (ic : dmsg_iocom) : dmsg_iocom :=
  if ic.flags.CRYPTED then
    let d := env.dmsg_crypto_decrypt ic.ioq_rx
    { ic with ioq_rx := { ic.ioq_rx with buf := d.buf, fifo_cdx := d.fifo_cdx,
                                         fifo_cdn := d.fifo_cdn, ctx := d.ctx } }
  else { ic with ioq_rx := { ic.ioq_rx with fifo_cdx := ic.ioq_rx.fifo_end,
                                            fifo_cdn := ic.ioq_rx.fifo_end } }

/-- Record the outcome of an `assert` of the receive path. -/
def dmsg_iocom.check (ic : dmsg_iocom) (ok : Bool) : dmsg_iocom :=
  { ic with eng := ic.eng.check ok }

/-- Copy `bs` to offset `off` of the payload buffer `msg->aux_data`; writing
through a `NULL` buffer is a fault. -/
def aux_write (aux_data : Option (List Nat)) (off : Nat) (bs : List Nat) :
    Option (Option (List Nat)) :=
  match aux_data with
  | some a => some (some (buf_write a off bs))
  | none => if bs = [] then some none else none

/-- What a case of the `switch` in `dmsg_ioq_read` leaves: the connection and
whether the local `msg` is non-`NULL` (the message itself is `ioq->msg`). -/
structure switch_result where
  ic : dmsg_iocom
  msgp : Bool

/-- The end of the case `DMSG_MSGQ_STATE_AUXDATA2`, after the read and the
decryption: the decrypted bytes are moved to the payload and, once the payload
is complete, its CRC is checked. -/
def dmsg_ioq_read_AUXDATA2_copy (env : Env) (ic3 : dmsg_iocom) (msg : dmsg_msg) :
    Option switch_result :=
  let q3 := ic3.ioq_rx
  let bytes1 := q3.fifo_cdx - q3.fifo_beg
  let bytes2 := if bytes1 > q3.abytes - msg.aux_size then q3.abytes - msg.aux_size else bytes1
  (if bytes2 ≠ 0 then aux_write msg.aux_data msg.aux_size (slice q3.buf q3.fifo_beg bytes2)
   else some msg.aux_data).bind fun aux1 =>
  let msg1 := if bytes2 ≠ 0 then { msg with aux_data := aux1, aux_size := msg.aux_size + bytes2 }
              else msg
  let q4 := if bytes2 ≠ 0 then { q3 with fifo_beg := q3.fifo_beg + bytes2 } else q3
  if msg1.aux_size < q4.abytes then
    some { ic := { ic3 with ioq_rx := { q4 with msg := some msg1 } }, msgp := false }
  else
    let ic4 := ic3.check (decide (msg1.aux_size = q4.abytes))
    let msg2 := { msg1 with aux_size := q4.unaligned_aux_size }
    let xcrc32 := env.icrc32 (slice (msg2.aux_data.getD []) 0 q4.abytes)
    if xcrc32 ≠ msg2.head.aux_crc then
      some { ic := { ic4 with ioq_rx := { q4 with msg := some msg2,
                                                  error := DMSG_IOQ_ERROR_ACRC } },
             msgp := true }
    else
      some { ic := { ic4 with ioq_rx := { q4 with msg := some msg2 } }, msgp := true }

/-- The case `DMSG_MSGQ_STATE_AUXDATA2` of the `switch` in `dmsg_ioq_read`.
`bytes` is the local of that name on entry. -/
def dmsg_ioq_read_AUXDATA2 (env : Env) (ic : dmsg_iocom) (bytes : Nat) :
    Option switch_result :=
  let ic0 := ic.check ic.ioq_rx.msg.isSome
  ic0.ioq_rx.msg.bind fun msg =>
  let mr := dmsg_ioq_makeroom ic0.ioq_rx (ic0.ioq_rx.abytes - msg.aux_size)
  let ic1 := { ic0 with ioq_rx := mr.1 }
  let rd : sock_read_result :=
    if msg.aux_size < mr.1.abytes then
      ioq_sock_read ((ic1.check (decide (mr.2 > 0))).check (decide (bytes = 0))) mr.2
    else { ic := ic1, nmax := mr.2, brk := false }
  if rd.brk then some { ic := rd.ic, msgp := true }
  else dmsg_ioq_read_AUXDATA2_copy env (ioq_decrypt env rd.ic) msg

/-- The case `DMSG_MSGQ_STATE_AUXDATA1`, which falls through to `AUXDATA2`. -/
def dmsg_ioq_read_AUXDATA1 (env : Env) (ic : dmsg_iocom) (bytes : Nat) :
    Option switch_result :=
  let q := ic.ioq_rx
  q.msg.bind fun msg =>
  if bytes ≥ q.abytes then
    (aux_write msg.aux_data 0 (slice q.buf q.fifo_beg q.abytes)).bind fun aux1 =>
    let q1 := { q with msg := some { msg with aux_data := aux1, aux_size := q.abytes },
                       fifo_beg := q.fifo_beg + q.abytes }
    let ic1 := ({ ic with ioq_rx := q1 }.check (decide (q1.fifo_beg ≤ q1.fifo_cdx))).check
                 (decide (q1.fifo_cdx ≤ q1.fifo_cdn))
    dmsg_ioq_read_AUXDATA2 env
      { ic1 with ioq_rx := { ic1.ioq_rx with state := .AUXDATA2 } } (bytes - q.abytes)
  else if bytes ≠ 0 then
    (aux_write msg.aux_data 0 (slice q.buf q.fifo_beg bytes)).bind fun aux1 =>
    let beg := q.fifo_beg + bytes
    let q1 := { q with msg := some { msg with aux_data := aux1, aux_size := bytes },
                       fifo_beg := beg,
                       fifo_cdx := if q.fifo_cdx < beg then beg else q.fifo_cdx }
    let ic1 := ({ ic with ioq_rx := q1 }.check (decide (q1.fifo_beg ≤ q1.fifo_cdx))).check
                 (decide (q1.fifo_cdx ≤ q1.fifo_cdn))
    dmsg_ioq_read_AUXDATA2 env
      { ic1 with ioq_rx := { ic1.ioq_rx with state := .AUXDATA2 } } 0
  else
    dmsg_ioq_read_AUXDATA2 env
      { ic with ioq_rx := { q with msg := some { msg with aux_size := 0 },
                                   state := .AUXDATA2 } } bytes

/-- The value `xcrc32` that `HEADER2` reads from the header: the stored
`hdr_crc`, byte swapped when the magic is the reversed one. -/
def rx_xcrc32 (head : dmsg_hdr) : Nat :=
  if head.magic = DMSG_HDR_MAGIC_REV then bswap32 head.hdr_crc else head.hdr_crc

/-- The step `if (head->magic == DMSG_HDR_MAGIC_REV) dmsg_bswap_head(head)` of
`HEADER2`. -/
def rx_fixup (head : dmsg_hdr) : dmsg_hdr :=
  if head.magic = DMSG_HDR_MAGIC_REV then dmsg_bswap_head head else head

/-- The header size that `HEADER1` computes ("Calculate the full header size
and aux data size"): `(cmd & DMSGF_SIZE) * DMSG_ALIGN`, on the byte swapped
`cmd` when the magic is the reversed one. -/
def hdr_hbytes (head : dmsg_hdr) : Nat :=
  if head.magic = DMSG_HDR_MAGIC_REV then (bswap32 head.cmd &&& DMSGF_SIZE) * DMSG_ALIGN
  else (head.cmd &&& DMSGF_SIZE) * DMSG_ALIGN

/-- The payload size `aux_size` that `HEADER1` reads from the header. -/
def hdr_aux_size (head : dmsg_hdr) : Nat :=
  if head.magic = DMSG_HDR_MAGIC_REV then bswap32 head.aux_bytes else head.aux_bytes

/-- The end of the case `DMSG_MSGQ_STATE_HEADER2`, once `hbytes` bytes are
decrypted: the CRC check, the byte swap, the copy to the message and the
fall-through to `AUXDATA1` when the frame has a payload.  `head` points into
the FIFO: the stores through it (`hdr_crc = 0`, the restored CRC,
`dmsg_bswap_head`) change the FIFO bytes, and
`bcopy(head, &msg->any, ioq->hbytes)` copies the header to the message. -/
def dmsg_ioq_read_HEADER2_check (env : Env) (ic2 : dmsg_iocom) : Option switch_result :=
  let q := ic2.ioq_rx
  let bytes1 := q.fifo_cdx - q.fifo_beg
  let head := hdr_of_bytes (slice q.buf q.fifo_beg sizeof_head)
  -- Check the CRC.
  let xcrc32 := rx_xcrc32 head
  let buf1 := buf_write q.buf (q.fifo_beg + 60) [0, 0, 0, 0]
  if env.icrc32 (slice buf1 q.fifo_beg q.hbytes) ≠ xcrc32 then
    some { ic := ({ ic2 with ioq_rx := { q with buf := buf1,
                                                error := DMSG_IOQ_ERROR_XCRC } }).check false,
           msgp := q.msg.isSome }
  else
    let head1 := { head with hdr_crc := xcrc32 }
    let head2 := rx_fixup head1
    let buf2 := buf_write buf1 q.fifo_beg (hdr_bytes head2)
    -- Copy the extended header into the msg and adjust the FIFO.
    q.msg.bind fun msg =>
    let msg1 := { msg with head := head2,
                           ext := slice buf2 (q.fifo_beg + sizeof_head) (q.hbytes - sizeof_head) }
    let q1 := { q with buf := buf2, msg := some msg1, fifo_beg := q.fifo_beg + q.hbytes }
    if q.abytes = 0 then some { ic := { ic2 with ioq_rx := q1 }, msgp := true }
    else
      dmsg_ioq_read_AUXDATA1 env
        { ic2 with ioq_rx := { q1 with state := .AUXDATA1 } } (bytes1 - q.hbytes)

/-- The case `DMSG_MSGQ_STATE_HEADER2`. -/
def dmsg_ioq_read_HEADER2 (env : Env) (ic : dmsg_iocom) (bytes nmax : Nat) :
    Option switch_result :=
  let ic0 := ic.check ic.ioq_rx.msg.isSome
  let rd : sock_read_result :=
    if bytes < ic0.ioq_rx.hbytes then ioq_sock_read (ic0.check (decide (nmax > 0))) nmax
    else { ic := ic0, nmax := nmax, brk := false }
  if rd.brk then some { ic := rd.ic, msgp := rd.ic.ioq_rx.msg.isSome }
  else
    let ic2 := ioq_decrypt env rd.ic
    if ic2.ioq_rx.fifo_cdx - ic2.ioq_rx.fifo_beg < ic2.ioq_rx.hbytes then
      some { ic := ic2, msgp := false }
    else dmsg_ioq_read_HEADER2_check env ic2

/-- The end of the case `DMSG_MSGQ_STATE_HEADER1`, once the core header is
decrypted ("Check and fixup the core header"): the magic and the sizes are
checked, the message is allocated and the case falls through to `HEADER2`.
`msgp` tells whether the local `msg` is non-`NULL`. -/
def dmsg_ioq_read_HEADER1_check (env : Env) (ic2 : dmsg_iocom) (msgp : Bool) :
    Option switch_result :=
  let q := ic2.ioq_rx
  let bytes1 := q.fifo_cdx - q.fifo_beg
  let head := hdr_of_bytes (slice q.buf q.fifo_beg sizeof_head)
  if head.magic ≠ DMSG_HDR_MAGIC ∧ head.magic ≠ DMSG_HDR_MAGIC_REV then
    some { ic := { ic2 with ioq_rx := { q with error := DMSG_IOQ_ERROR_SYNC } }, msgp := msgp }
  else
    -- Calculate the full header size and aux data size
    let hbytes := hdr_hbytes head
    let aux_size := hdr_aux_size head
    let q1 := { q with hbytes := hbytes, abytes := DMSG_DOALIGN 32 aux_size,
                       unaligned_aux_size := aux_size }
    if q1.hbytes < sizeof_head ∨ q1.hbytes > env.sizeof_any ∨
       q1.abytes > env.DMSG_AUX_MAX then
      some { ic := { ic2 with ioq_rx := { q1 with error := DMSG_IOQ_ERROR_FIELD } },
             msgp := msgp }
    else
      -- Allocate the message, the next state will fill it in.
      (dmsg_msg_alloc_locked ic2.eng 0 aux_size (q1.hbytes / DMSG_ALIGN) 0 false).bind fun am =>
      let q2 := { q1 with msg := some am.2 }
      let mr := dmsg_ioq_makeroom q2 q2.hbytes
      dmsg_ioq_read_HEADER2 env
        { ic2 with eng := am.1, ioq_rx := { mr.1 with state := .HEADER2 } } bytes1 mr.2

/-- The case `DMSG_MSGQ_STATE_HEADER1`. -/
def dmsg_ioq_read_HEADER1 (env : Env) (ic : dmsg_iocom) (bytes : Nat) :
    Option switch_result :=
  let msgp := ic.ioq_rx.msg.isSome
  let mr := dmsg_ioq_makeroom ic.ioq_rx sizeof_head
  let ic0 := { ic with ioq_rx := mr.1 }
  let rd : sock_read_result :=
    if bytes < sizeof_head then ioq_sock_read ic0 mr.2
    else { ic := ic0, nmax := mr.2, brk := false }
  if rd.brk then some { ic := rd.ic, msgp := msgp }
  else
    let ic2 := (ioq_decrypt env rd.ic).check (!msgp)
    if ic2.ioq_rx.fifo_cdx - ic2.ioq_rx.fifo_beg < sizeof_head then
      some { ic := ic2, msgp := msgp }
    else dmsg_ioq_read_HEADER1_check env ic2 msgp

/-- The `switch (ioq->state)` of `dmsg_ioq_read` with the locals set up before
it (`nmax`, `bytes`, `msg = ioq->msg`).  The case `ERROR` asserts that `msg`
is `NULL`. -/
def dmsg_ioq_read_switch (env : Env) (ic : dmsg_iocom) : Option switch_result :=
  let q := ic.ioq_rx
  let nmax := q.buf.length - q.fifo_end
  let bytes := q.fifo_cdx - q.fifo_beg
  match q.state with
  | .HEADER1 => dmsg_ioq_read_HEADER1 env ic bytes
  | .HEADER2 => dmsg_ioq_read_HEADER2 env ic bytes nmax
  | .AUXDATA1 => dmsg_ioq_read_AUXDATA1 env ic bytes
  | .AUXDATA2 => dmsg_ioq_read_AUXDATA2 env ic bytes
  | .ERROR => some { ic := ic.check (!q.msg.isSome), msgp := q.msg.isSome }

/-- The check of the message sequence that follows the `switch`: a completed
frame whose salt does not carry the low byte of `ioq->seq` sets `MSGSEQ`,
otherwise `seq` is incremented. -/
def dmsg_ioq_read_seq (ic : dmsg_iocom) (msgp : Bool) : dmsg_iocom :=
  match ic.ioq_rx.msg with
  | some msg =>
    if msgp ∧ ic.ioq_rx.error = 0 then
      if msg.head.salt &&& 255 ≠ ic.ioq_rx.seq &&& 255 then
        { ic with ioq_rx := { ic.ioq_rx with error := DMSG_IOQ_ERROR_MSGSEQ } }
      else { ic with ioq_rx := { ic.ioq_rx with seq := ic.ioq_rx.seq + 1,
                                                accepted := ic.ioq_rx.accepted ++ [msg.head] } }
    else ic
  | none => ic

/-- The error branch of `dmsg_ioq_read` from the label `skip` to the end of
the simulated failure: the message in hand is freed, the parser goes to
`ERROR`, the transmit side is drained and `dmsg_simulate_failure` runs on
`state0`. -/
def dmsg_ioq_read_skip (fuel : Nat) (ic : dmsg_iocom) (msg : Option dmsg_msg) :
    Option dmsg_iocom := do
  let ic0 := ic.check (decide (ic.ioq_rx.msg = msg))
  let ic1 ←
    (match msg with
     | some m =>
         (dmsg_msg_free ic0.eng m).map fun e =>
           { ic0 with eng := e, ioq_rx := { ic0.ioq_rx with msg := none } }
     | none => some ic0)
  let ic2 := { ic1 with ioq_rx := { ic1.ioq_rx with state := .ERROR } }
  let ic3 ← dmsg_iocom_drain ic2
  let e ← dmsg_simulate_failure fuel ic3.eng 0 false ic3.ioq_rx.error
  pure { ic3 with eng := e }

/-- The branch "Continue processing msg" of `dmsg_ioq_read` up to the call of
`dmsg_state_msgrx`: the FIFO indices are reset when the FIFO is empty, the
parser returns to `HEADER1` and `ioq->msg` is cleared. -/
def dmsg_ioq_read_done (ic3 : dmsg_iocom) : dmsg_iocom :=
  let q := ic3.ioq_rx
  let ic4 :=
    if q.fifo_beg = q.fifo_cdx ∧ q.fifo_cdn = q.fifo_end then
      { ic3 with flags := { ic3.flags with RREQ := true },
                 ioq_rx := { q with fifo_cdx := 0, fifo_cdn := 0, fifo_beg := 0,
                                    fifo_end := 0 } }
    else { ic3 with flags := { ic3.flags with RWORK := true } }
  { ic4 with ioq_rx := { ic4.ioq_rx with state := .HEADER1, msg := none } }

/-- The function `dmsg_ioq_read`: the connection afterwards and the returned
message, `none` for `NULL`. -/
def dmsg_ioq_read : Nat → Env → dmsg_iocom → Option (dmsg_iocom × Option dmsg_msg)
  | 0, _, _ => none
  | fuel + 1, env, ic =>
    match ic.ioq_rx.msgq with
    | msg :: rest =>
      -- a message is already pending
      let ic1 := { ic with ioq_rx := { ic.ioq_rx with msgq := rest } }
      if msg.state = some 0 then
        some ({ ic1 with flags := { ic1.flags with EOF := true } }, some msg)
      else some (ic1, some msg)
    | [] =>
      let ic1 := { ic with flags := { ic.flags with RREQ := false, RWORK := false } }
      let skip (ic2 : dmsg_iocom) (msg : Option dmsg_msg) :
          Option (dmsg_iocom × Option dmsg_msg) :=
        (dmsg_ioq_read_skip fuel ic2 msg).bind fun ic3 =>
        if ic3.ioq_rx.msgq ≠ [] then dmsg_ioq_read fuel env ic3 else some (ic3, none)
      if ic1.ioq_rx.error ≠ 0 then skip ic1 none
      else
        (dmsg_ioq_read_switch env ic1).bind fun sw =>
        let ic3 := dmsg_ioq_read_seq sw.ic sw.msgp
        let msg := if sw.msgp then ic3.ioq_rx.msg else none
        if ic3.ioq_rx.error ≠ 0 then skip ic3 msg
        else match msg with
          | none => some ({ ic3 with flags := { ic3.flags with RREQ := true } }, none)
          | some m =>
            -- Continue processing msg.
            let ic5 := dmsg_ioq_read_done ic3
            (dmsg_state_msgrx ic5.eng m false).bind fun r =>
            let ic6 := { ic5 with eng := r.eng }
            if r.error ≠ 0 then
              if r.error = DMSG_IOQ_ERROR_EALREADY then
                (dmsg_msg_free ic6.eng r.msg).bind fun e1 =>
                dmsg_ioq_read fuel env { ic6 with eng := e1 }
              else skip { ic6 with ioq_rx := { ic6.ioq_rx with error := r.error } } (some r.msg)
            else some (ic6, some r.msg)


/-! ## Transmit path: what `dmsg_iocom_flush1` and `dmsg_iocom_flush2` put on the wire -/

/-- The block "Finish populating the msg fields" of `dmsg_iocom_flush1` for
one message: `seq` is `ioq->seq` before the increment and `rnd` the value that
`random()` returns.  The salt is a `uint32_t`, so the value stored is taken
modulo `2 ^ 32`, as is `aux_bytes`; `abytes` is a `size_t`. -/
def dmsg_iocom_flush1_fill (env : Env) (seq rnd : Nat) (msg : dmsg_msg) : dmsg_msg :=
  let head1 := { msg.head with
    magic := DMSG_HDR_MAGIC, salt := ((rnd <<< 8) ||| (seq &&& 255)) % 2 ^ 32 }
  -- Calculate aux_crc if 0, then calculate hdr_crc.
  let head2 :=
    if msg.aux_size ≠ 0 ∧ head1.aux_crc = 0 then
      { head1 with
        aux_crc := env.icrc32 (slice (msg.aux_data.getD []) 0 (DMSG_DOALIGN 64 msg.aux_size)) }
    else head1
  let head3 := { head2 with aux_bytes := msg.aux_size % 2 ^ 32 }
  let hbytes := (head3.cmd &&& DMSGF_SIZE) * DMSG_ALIGN
  let head4 := { head3 with hdr_crc := 0 }
  { msg with
    head := { head4 with hdr_crc := env.icrc32 (slice (hdr_bytes head4 ++ msg.ext) 0 hbytes) } }

/-- The function `dmsg_iocom_flush1` up to its call of `dmsg_iocom_flush2`:
the messages of `txmsgq` move, in order, to the tail of `ioq_tx.msgq`; on a
transmit side without error each one is filled in first, with the next value
of `random()` (an exhausted oracle returns `0`; the reseeding by `srandomdev`
is part of the oracle). -/
def dmsg_iocom_flush1_queue (env : Env) (ic : dmsg_iocom) : dmsg_iocom :=
  ic.txmsgq.foldl
    (fun ic1 msg =>
      if ic1.ioq_tx.error ≠ 0 then
        -- Process terminal connection errors.
        { ic1 with ioq_tx := { ic1.ioq_tx with msgq := ic1.ioq_tx.msgq ++ [msg]
                                               msgcount := ic1.ioq_tx.msgcount + 1 } }
      else
        let msg1 := dmsg_iocom_flush1_fill env ic1.ioq_tx.seq (ic1.rand.headD 0) msg
        { ic1 with
          rand := ic1.rand.tail
          ioq_tx := { ic1.ioq_tx with seq := ic1.ioq_tx.seq + 1
                                      msgq := ic1.ioq_tx.msgq ++ [msg1]
                                      msgcount := ic1.ioq_tx.msgcount + 1 } })
    { ic with flags := { ic.flags with WREQ := false, WWORK := false }, txmsgq := [] }

/-- The end of the loop "Clean out the transmit queue" of `dmsg_iocom_flush2`
for the message at the head of `ioq_tx.msgq`, once it is written in full: the
message leaves the queue and is freed. -/
def dmsg_iocom_flush2_retire (ic : dmsg_iocom) : Option dmsg_iocom :=
  match ic.ioq_tx.msgq with
  | [] => none
  | msg :: rest =>
    (dmsg_msg_free ic.eng msg).map fun e =>
      { ic with
        eng := e
        ioq_tx := { ic.ioq_tx with msgq := rest, msgcount := ic.ioq_tx.msgcount - 1
                                   hbytes := 0, abytes := 0 } }

/-- The function `dmsg_msg_write`.  The message that goes on `txmsgq` carries
the `msgid` stored by the function.  The debug output and the byte written to
the wakeup pipe are left out. -/
def dmsg_msg_write (fuel : Nat) (ic : dmsg_iocom) (msg : dmsg_msg) : Option dmsg_iocom := do
  let state ← msg.state
  let s ← ic.eng.heap state
  -- Process state data into the message as needed, then update the state
  -- based on the message.
  let s1 :=
    if !s.flags.ROOT ∧ msg.head.cmd &&& (DMSGF_CREATE ||| DMSGF_REPLY) = DMSGF_CREATE then
      { s with
        txcmd := msg.head.cmd &&& not32 DMSGF_DELETE
        icmd := (msg.head.cmd &&& not32 DMSGF_DELETE) &&& DMSGF_BASECMDMASK
        flags := { s.flags with NEW := false } }
    else s
  let msg1 :=
    if !s.flags.ROOT then { msg with head := { msg.head with msgid := s1.msgid } } else msg
  let s2 :=
    if !s.flags.ROOT ∧ msg1.head.cmd &&& DMSGF_CREATE ≠ 0 then
      { s1 with txcmd := msg1.head.cmd &&& not32 DMSGF_DELETE }
    else s1
  let e1 := if !s.flags.ROOT then ic.eng.put state s2 else ic.eng
  if s2.txcmd &&& DMSGF_DELETE ≠ 0 then
    -- Discard messages sent to transactions which are already dead.
    (dmsg_msg_free e1 msg1).map fun e2 => { ic with eng := e2 }
  else if s2.flags.DYING then do
    -- Illegal message, kill state and related sub-state.
    let e2 ← dmsg_state_hold e1 state
    let e3 ← dmsg_state_cleanuptx fuel e2 msg1
    let s3 ← e3.heap state
    let e4 ←
      (if !s3.flags.ABORTING then dmsg_simulate_failure fuel e3 state true DMSG_ERR_LOSTLINK
       else pure e3 : Option dmsg_engine)
    let e5 ← dmsg_state_drop e4 state
    let e6 ← dmsg_msg_free e5 msg1
    pure { ic with eng := e6 }
  else do
    -- Queue the message, clean up transmit state prior to queueing.
    let e2 ← dmsg_state_cleanuptx fuel e1 msg1
    pure { ic with eng := e2, txmsgq := ic.txmsgq ++ [msg1] }

/-- The common body of `dmsg_state_reply` and `dmsg_state_result`, which
differ in the initial value `cmd0` of `cmd` only. -/
def dmsg_state_reply_cmd (fuel : Nat) (ic : dmsg_iocom) (state : Nat) (cmd0 error : Nat) :
    Option dmsg_iocom := do
  let s ← ic.eng.heap state
  -- Nothing to do if we already transmitted a delete
  if s.txcmd &&& DMSGF_DELETE ≠ 0 then pure ic
  else
    -- Set REPLY if the other end initiated the command.
    let cmd := if s.txcmd &&& DMSGF_REPLY ≠ 0 then cmd0 ||| DMSGF_REPLY else cmd0
    let am ← dmsg_msg_alloc_locked ic.eng state 0 cmd 0 false
    let s1 ← am.1.heap state
    let cmd1 :=
      if !s1.flags.ROOT ∧ s1.txcmd &&& DMSGF_CREATE = 0 then am.2.head.cmd ||| DMSGF_CREATE
      else am.2.head.cmd
    let nmsg := { am.2 with head := { am.2.head with cmd := cmd1, error := error % 2 ^ 32 } }
    dmsg_msg_write fuel { ic with eng := am.1 } nmsg

/-- The function `dmsg_state_reply`. -/
def dmsg_state_reply (fuel : Nat) (ic : dmsg_iocom) (state : Nat) (error : Nat) :
    Option dmsg_iocom :=
  dmsg_state_reply_cmd fuel ic state (DMSG_LNK_ERROR ||| DMSGF_DELETE) error

/-- The function `dmsg_state_result`. -/
def dmsg_state_result (fuel : Nat) (ic : dmsg_iocom) (state : Nat) (error : Nat) :
    Option dmsg_iocom :=
  dmsg_state_reply_cmd fuel ic state DMSG_LNK_ERROR error


/-! ## Transmit path: the two loops of `dmsg_iocom_flush2` -/

/-- The loop of `dmsg_iocom_flush2` that builds the iovec ("Pump messages out
the connection by building an iovec"), from the message at the head of the
list on.  `iov` holds the lengths `iov_len` of the entries made so far (their
number is `iovcnt`, their sum is `nact`), `hoff` and `aoff` are the offsets
into the first message and `ok` tells whether the assertions held so far;
`maxiov` is `DMSG_IOQ_MAXIOVEC` and `half` is `sizeof(ioq->buf) / 2`.  The
result is the lengths of the entries and the outcome of the assertions. -/
def dmsg_iocom_flush2_iov (maxiov half : Nat) :
    List dmsg_msg → List Nat → Nat → Nat → Bool → List Nat × Bool
  | [], iov, _, _, ok => (iov, ok)
  | msg :: rest, iov, hoff, aoff, ok =>
    let hbytes := (msg.head.cmd &&& DMSGF_SIZE) * DMSG_ALIGN
    let abytes := DMSG_DOALIGN 64 msg.aux_size
    let ok1 := ok && decide (hoff ≤ hbytes ∧ aoff ≤ abytes)
    let hlen := if hbytes - hoff > half then half else hbytes - hoff
    let iov1 := if hoff < hbytes then iov ++ [hlen] else iov
    if hoff < hbytes ∧ (iov1.length = maxiov ∨ hlen ≠ hbytes - hoff) then (iov1, ok1)
    else
      let alen := if abytes - aoff > half then half else abytes - aoff
      let ok2 := if aoff < abytes then ok1 && msg.aux_data.isSome else ok1
      let iov2 := if aoff < abytes then iov1 ++ [alen] else iov1
      if aoff < abytes ∧ (iov2.length = maxiov ∨ alen ≠ abytes - aoff) then (iov2, ok2)
      else dmsg_iocom_flush2_iov maxiov half rest iov2 0 0 ok2

/-- The value of `nact` after `writev` has returned `n` on a link that is not
`CRYPTED`: `if (n > 0) nact = n; else nact = 0;`. -/
def dmsg_iocom_flush2_nact (n : Int) : Nat :=
  if n > 0 then n.toNat else 0

/-- The loop "Clean out the transmit queue" of `dmsg_iocom_flush2`, from the
message at the head of the list on (the list is `ioq_tx.msgq`).  The
differences `hbytes - ioq->hbytes` and `abytes - ioq->abytes` are computed in
`size_t`.  The result is the connection and the value of `nact` that the
closing `assert(nact == 0)` tests. -/
def dmsg_iocom_flush2_loop : List dmsg_msg → dmsg_iocom → Nat → Option (dmsg_iocom × Nat)
  | [], ic, nact => some (ic, nact)
  | msg :: rest, ic, nact =>
    let q := ic.ioq_tx
    let hbytes := (msg.head.cmd &&& DMSGF_SIZE) * DMSG_ALIGN
    let abytes := DMSG_DOALIGN 64 msg.aux_size
    if nact < (hbytes + 2 ^ 64 - q.hbytes) % 2 ^ 64 then
      some ({ ic with ioq_tx := { q with hbytes := q.hbytes + nact } }, 0)
    else
      let nact1 := nact - (hbytes + 2 ^ 64 - q.hbytes) % 2 ^ 64
      if nact1 < (abytes + 2 ^ 64 - q.abytes) % 2 ^ 64 then
        some ({ ic with ioq_tx := { q with hbytes := hbytes, abytes := q.abytes + nact1 } }, 0)
      else
        let nact2 := nact1 - (abytes + 2 ^ 64 - q.abytes) % 2 ^ 64
        (dmsg_msg_free ic.eng msg).bind fun e =>
          dmsg_iocom_flush2_loop rest
            { ic with
              eng := e
              ioq_tx := { q with msgq := rest, msgcount := q.msgcount - 1
                                 hbytes := 0, abytes := 0 } } nact2

/-- The loop "Clean out the transmit queue" of `dmsg_iocom_flush2` on a
connection, for the value `nact`. -/
def dmsg_iocom_flush2_clean (ic : dmsg_iocom) (nact : Nat) : Option (dmsg_iocom × Nat) :=
  dmsg_iocom_flush2_loop ic.ioq_tx.msgq ic nact

/-- The first statements of `dmsg_state_abort` on a state that is not yet
`ABORTING`: `state->flags |= DMSG_STATE_ABORTING; dmsg_state_dying(state);`,
the point at which the flags are set and no callback has run. -/
def dmsg_state_abort_flags (fuel : Nat) (e : dmsg_engine) (state : Nat) : Option dmsg_engine := do
  let s ← e.heap state
  let e1 := e.put state { s with flags := { s.flags with ABORTING := true } }
  dmsg_state_dying fuel e1 state

/-- The rest of `dmsg_state_abort`, after the flags are set: nothing for a
`NEW` state or one whose `rxcmd` has `DELETE`, the synthesized message
otherwise. -/
def dmsg_state_abort_rest (e2 : dmsg_engine) (state : Nat) : Option dmsg_engine := do
  let s2 ← e2.heap state
  if s2.flags.NEW then pure e2
  else if s2.rxcmd &&& DMSGF_DELETE = 0 then dmsg_state_abort_msg e2 state
  else pure e2


/-! ## The transmit cipher of `hammer2` (`sbin/hammer2/crypto.c`) -/

/-- Modelled from the spec: `HAMMER2_AES_KEY_SIZE` of hammer2's `network.h`
(not under src/), half the size of the 64 session bytes of the handshake
(`crypto.c` asserts `HAMMER2_AES_KEY_SIZE * 2 == sizeof(handrx.sess)`). -/
def HAMMER2_AES_KEY_SIZE : Nat := 32

/-- Modelled from the spec: `HAMMER2_AES_KEY_MASK` of hammer2's `network.h`
(not under src/), the mask of the offset within a cipher block. -/
def HAMMER2_AES_KEY_MASK : Nat := HAMMER2_AES_KEY_SIZE - 1

/-- Where the field `iov_base` of a `struct iovec` points: at memory outside
the FIFO that holds `bytes`, or at `ioq->buf + off`. -/
inductive iov_ptr where
  | mem (bytes : List Nat)
  | fifo (off : Nat)
deriving DecidableEq, Repr

/-- An entry `struct iovec`. -/
structure iovec where
  iov_base : iov_ptr
  iov_len : Nat
deriving DecidableEq, Repr

/-- The `len` bytes that an `iov_base` points at, seen from the FIFO `buf`. -/
def iov_ptr.read (p : iov_ptr) (buf : List Nat) (len : Nat) : List Nat :=
  match p with
  | .mem bytes => bytes.take len
  | .fifo off => slice buf off len

/-- What `hammer2_crypto_encrypt` leaves: the IOQ, the array `iov`, the count
`*nactp`, the returned value and whether one of its assertions failed. -/
structure encrypt_result where
  ioq : dmsg_ioq
  iov : List iovec
  nact : Nat
  ret : Int
  assert_failed : Bool

/-- The loop `for (i = 0; i < n && nmax; ++i)` of `hammer2_crypto_encrypt`,
from the entry at the head of the list on.  `EVP_EncryptUpdate` is the cipher
of the library: from the context and the input bytes it gives the new context
and the output bytes, whose number it stores in `p_len`.  The arguments after
the IOQ are `nmax`, `*nactp` and whether the assertions held so far; `iov_len`
fits in the `int` `p_len`, and `nmax -= p_len` wraps as a `size_t`. -/
def hammer2_crypto_encrypt_loop (EVP_EncryptUpdate : Nat → List Nat → Nat × List Nat) :
    List iovec → dmsg_ioq → Nat → Nat → Bool → dmsg_ioq × Nat × Bool
  | [], ioq, _, nact, ok => (ioq, nact, ok)
  | v :: rest, ioq, nmax, nact, ok =>
    if nmax = 0 then (ioq, nact, ok)
    else
      let p_len := v.iov_len
      let ok1 := ok && decide (p_len &&& HAMMER2_AES_KEY_MASK = 0)
      let p_len1 := if p_len > nmax then nmax else p_len
      let nact1 := nact + p_len1
      let r := EVP_EncryptUpdate ioq.ctx (v.iov_base.read ioq.buf p_len1)
      let p_len2 := r.2.length
      let ok2 := ok1 && decide (p_len2 = v.iov_len)
      let ioq1 := { ioq with
        ctx := r.1
        buf := buf_write ioq.buf ioq.fifo_cdx r.2
        fifo_cdx := ioq.fifo_cdx + p_len2
        fifo_cdn := ioq.fifo_cdn + p_len2
        fifo_end := ioq.fifo_end + p_len2 }
      let nmax1 := (nmax + 2 ^ 64 - p_len2) % 2 ^ 64
      if nmax1 = 0 then (ioq1, nact1, ok2)
      else hammer2_crypto_encrypt_loop EVP_EncryptUpdate rest ioq1 nmax1 nact1 ok2

/-- The function `hammer2_crypto_encrypt(iocom, ioq, iov, n, nactp)` on the
`n` entries `iov`; `sizeof(ioq->buf)` is the length of `ioq.buf`, and the
`size_t` difference `sizeof(ioq->buf) - ioq->fifo_end` is taken on a cursor
that lies within the buffer. -/
def hammer2_crypto_encrypt (EVP_EncryptUpdate : Nat → List Nat → Nat × List Nat)
    (ioq : dmsg_ioq) (iov : List iovec) : encrypt_result :=
  let nmax := ioq.buf.length - ioq.fifo_end
  let r := hammer2_crypto_encrypt_loop EVP_EncryptUpdate iov ioq nmax 0 true
  let ioq1 := r.1
  { ioq := ioq1
    iov := { iov_base := .fifo ioq1.fifo_beg, iov_len := ioq1.fifo_cdx - ioq1.fifo_beg } ::
      iov.tail
    nact := r.2.1
    ret := 1
    assert_failed := !r.2.2 }

/-! ## The handshake of `hammer2_crypto_negotiate` (`sbin/hammer2/crypto.c`) -/

/-- Modelled from the spec: the size of `handshake.sess` in hammer2's
`network.h` (not under src/), 64 session bytes; `crypto.c` asserts that it is
four times the size of `verf` and twice `HAMMER2_AES_KEY_SIZE`. -/
def sizeof_sess : Nat := 64

/-- Modelled from the spec: the size of `handshake.verf` in hammer2's
`network.h` (not under src/), 16 verifier bytes. -/
def sizeof_verf : Nat := 16

/-- Modelled from the spec: the size of `hammer2_handshake_t` in hammer2's
`network.h` (not under src/); only the comparison with the number of bytes
read matters. -/
def sizeof_handshake : Nat := 512

/-- Modelled from the spec: `HAMMER2_MSGHDR_MAGIC` of hammer2's `network.h`
(not under src/). -/
def HAMMER2_MSGHDR_MAGIC : Nat := 0x4832

/-- Modelled from the spec: `HAMMER2_MSGHDR_MAGIC_REV` of hammer2's
`network.h` (not under src/), the magic seen in the opposite byte order. -/
def HAMMER2_MSGHDR_MAGIC_REV : Nat := 0x3248

/-- Modelled from the spec: `HAMMER2_IOQ_ERROR_KEYXCHGFAIL` of hammer2's
`network.h` (not under src/); only that it is not 0 matters. -/
def HAMMER2_IOQ_ERROR_KEYXCHGFAIL : Nat := 12

/-- Modelled from the spec: the fields of `hammer2_handshake_t` (hammer2's
`network.h`, not under src/) that the validation reads and writes: `magic`,
`version` (16 bits), `flags` (32 bits) and the byte arrays `sess` and `verf`
(`uint8_t`), an array being the function from the index to the byte.  The
padding, the junk fields and `quickmsg` are left out. -/
structure hammer2_handshake where
  magic : Nat
  version : Nat
  flags : Nat
  sess : Nat → Nat
  verf : Nat → Nat

/-- Modelled from the spec: the part of `hammer2_iocom_t` (hammer2's
`network.h`, not under src/) that the end of `hammer2_crypto_negotiate`
writes: `ioq_rx.error`, the flags `EOF` and `CRYPTED`, the session key `sess`
and the vectors `ioq_rx.iv` and `ioq_tx.iv`. -/
structure hammer2_iocom where
  error : Nat
  EOF : Bool
  CRYPTED : Bool
  sess : Nat → Nat
  iv_rx : Nat → Nat
  iv_tx : Nat → Nat

/-- The loop `for (i = 0; i < sizeof(sess); ++i) verf[i / 4] ^= sess[i]` of
`hammer2_crypto_negotiate`. -/
def hammer2_crypto_negotiate_xor (sess verf : Nat → Nat) : Nat → Nat :=
  (List.range sizeof_sess).foldl
    (fun v i => Function.update v (i / 4) (v (i / 4) ^^^ sess i)) verf

/-- The part of `hammer2_crypto_negotiate` that completes the block to send
("Handshake with the remote"), from the block `rnd` read from the random
device: magic, version 1, flags 0, and the verifier cleared and then folded
from the session bytes. -/
def hammer2_crypto_negotiate_tx (rnd : hammer2_handshake) : hammer2_handshake :=
  let verf0 := fun i => if i < sizeof_verf then 0 else rnd.verf i
  { rnd with
    magic := HAMMER2_MSGHDR_MAGIC
    version := 1
    flags := 0
    verf := hammer2_crypto_negotiate_xor rnd.sess verf0 }

/-- The label `keyxchgfail` of `hammer2_crypto_negotiate`. -/
def hammer2_crypto_negotiate_fail (iocom : hammer2_iocom) : hammer2_iocom :=
  { iocom with error := HAMMER2_IOQ_ERROR_KEYXCHGFAIL, EOF := true }

/-- The end of `hammer2_crypto_negotiate`, from "Validate the received data"
on: `i` is the number of bytes read into `handrx` (decrypted), `handtx` the
block sent.  The sum `n` of the 16 verifier bytes stays far below the range of
`ssize_t`.  The cipher contexts that `EVP_DecryptInit_ex` and
`EVP_EncryptInit_ex` set up from `sess` and the vectors are left out. -/
def hammer2_crypto_negotiate_rx (i : Nat) (handrx handtx : hammer2_handshake)
    (iocom : hammer2_iocom) : hammer2_iocom :=
  if i ≠ sizeof_handshake then hammer2_crypto_negotiate_fail iocom
  else
    let h1 :=
      if handrx.magic = HAMMER2_MSGHDR_MAGIC_REV then
        { handrx with version := bswap16 handrx.version, flags := bswap32 handrx.flags }
      else handrx
    let verf := hammer2_crypto_negotiate_xor h1.sess h1.verf
    let n := (List.range sizeof_verf).foldl (fun n i => n + verf i) 0
    let n1 := if h1.version ≠ 1 then n + 1 else n
    if n1 ≠ 0 then hammer2_crypto_negotiate_fail iocom
    else
      { iocom with
        sess := fun i =>
          if i < HAMMER2_AES_KEY_SIZE then handrx.sess i ^^^ handtx.sess i else iocom.sess i
        iv_rx := fun i =>
          if i < HAMMER2_AES_KEY_SIZE then
            handrx.sess (HAMMER2_AES_KEY_SIZE + i) ^^^ handtx.sess (HAMMER2_AES_KEY_SIZE + i)
          else iocom.iv_rx i
        iv_tx := fun i =>
          if i < HAMMER2_AES_KEY_SIZE then
            handrx.sess (HAMMER2_AES_KEY_SIZE + i) ^^^ handtx.sess (HAMMER2_AES_KEY_SIZE + i)
          else iocom.iv_tx i
        CRYPTED := true }

/-! ## Relaying: `dmsg_state_relay` -/

/-- The function `dmsg_state_relay` up to its call of `dmsg_msg_write`: the
result is the engine, the message `lmsg` as the function leaves it and the
message `rmsg` that it hands to `dmsg_msg_write`.  The heap holds the states
of both connections; the trees of the engine are those of the connection of
the relay (`rpstate->iocom`), the only ones that the function reaches.  The
callback `dmsg_state_relay` of a new state is `func = 1`.  The `bcopy` of the
extended header is a fault when it leaves one of the two messages. -/
def dmsg_state_relay_msg (e : dmsg_engine) (lmsg : dmsg_msg) :
    Option (dmsg_engine × dmsg_msg × dmsg_msg) := do
  let lstate ← lmsg.state
  let ls ← e.heap lstate
  let r ←
    (if lmsg.head.cmd &&& (DMSGF_CREATE ||| DMSGF_REPLY) = DMSGF_CREATE then do
      -- New sub-transaction, establish new state and relay.
      let lpstate ← ls.parent
      let lps ← e.heap lpstate
      let e1 := (e.check ls.relay.isNone).check lps.relay.isSome
      let rpstate ← lps.relay
      let am ← dmsg_msg_alloc_locked e1 rpstate 0 lmsg.head.cmd 1 false
      let rstate ← am.2.state
      let rs ← am.1.heap rstate
      let e2 := am.1.put rstate { rs with relay := some lstate }
      let ls2 ← e2.heap lstate
      let e3 := e2.put lstate { ls2 with relay := some rstate }
      let e4 ← dmsg_state_hold e3 lstate
      let e5 ← dmsg_state_hold e4 rstate
      pure (e5, am.2)
    else do
      -- State & relay already established
      let e1 := e.check ls.relay.isSome
      let rstate ← ls.relay
      let rs ← e1.heap rstate
      let e2 := e1.check (decide (rs.txcmd &&& DMSGF_DELETE = 0))
      dmsg_msg_alloc_locked e2 rstate 0 lmsg.head.cmd 1 false :
      Option (dmsg_engine × dmsg_msg))
  let rmsg := r.2
  let n := lmsg.hdr_size - sizeof_head
  let ext ←
    (if lmsg.hdr_size > sizeof_head then
      (if n ≤ lmsg.ext.length ∧ n ≤ rmsg.ext.length then
        some (buf_write rmsg.ext 0 (lmsg.ext.take n))
       else none)
     else some rmsg.ext : Option (List Nat))
  let rmsg1 := { rmsg with
    ext := ext
    head := { rmsg.head with
              error := lmsg.head.error
              reserved02 := lmsg.head.reserved02
              reserved18 := lmsg.head.reserved18 }
    aux_size := lmsg.aux_size
    aux_data := lmsg.aux_data }
  pure (r.1, { lmsg with aux_data := none }, rmsg1)

/-- The function `dmsg_state_relay` on the connection `ic` of the relay: the
connection afterwards and the message `lmsg` as the function leaves it. -/
def dmsg_state_relay (fuel : Nat) (ic : dmsg_iocom) (lmsg : dmsg_msg) :
    Option (dmsg_iocom × dmsg_msg) := do
  let r ← dmsg_state_relay_msg ic.eng lmsg
  let ic1 ← dmsg_msg_write fuel { ic with eng := r.1 } r.2.2
  pure (ic1, r.2.1)

/-! ## Vocabulary of the statements -/

/-- The core header at the front of the receive FIFO. -/
def rx_head (ic : dmsg_iocom) : dmsg_hdr :=
  hdr_of_bytes (slice ic.ioq_rx.buf ic.ioq_rx.fifo_beg sizeof_head)

/-- The receive side rests in `HEADER1` on a plaintext link, without error,
without queued or half-built message, and its FIFO already holds a whole core
header. -/
structure Hdr1Ready (ic : dmsg_iocom) : Prop where
  state : ic.ioq_rx.state = .HEADER1
  error : ic.ioq_rx.error = 0
  msgq : ic.ioq_rx.msgq = []
  msg : ic.ioq_rx.msg = none
  plain : ic.flags.CRYPTED = false
  cdx : ic.ioq_rx.fifo_cdx = ic.ioq_rx.fifo_end
  cdn : ic.ioq_rx.fifo_cdn = ic.ioq_rx.fifo_end
  have64 : sizeof_head ≤ ic.ioq_rx.fifo_end - ic.ioq_rx.fifo_beg

/-- What the parser leaves alone: the pending queue, the sequence number, the
history of accepted frames, the flags of the connection and its transmit
side. -/
def rx_same (ic ic1 : dmsg_iocom) : Prop :=
  ic1.ioq_rx.msgq = ic.ioq_rx.msgq ∧ ic1.ioq_rx.seq = ic.ioq_rx.seq ∧
  ic1.ioq_rx.accepted = ic.ioq_rx.accepted ∧ ic1.flags = ic.flags ∧
  ic1.ioq_tx = ic.ioq_tx ∧ ic1.txmsgq = ic.txmsgq

/-- What the sequence check leaves alone: as `rx_same`, except the sequence
number and the history. -/
def rx_same' (ic ic1 : dmsg_iocom) : Prop :=
  ic1.ioq_rx.msgq = ic.ioq_rx.msgq ∧ ic1.flags = ic.flags ∧
  ic1.ioq_tx = ic.ioq_tx ∧ ic1.txmsgq = ic.txmsgq ∧ ic1.eng = ic.eng ∧ ic1.sock = ic.sock ∧
  ic1.ioq_rx.state = ic.ioq_rx.state ∧ ic1.ioq_rx.msg = ic.ioq_rx.msg

/-! ## Concrete inputs -/

/-- An environment for the concrete inputs: a toy checksum, a link that is
never encrypted, and small sizes. -/
def ex_env : Env :=
  { icrc32 := fun bs => bs.foldl (fun a b => (a * 31 + b) % 4294967296) 7
    dmsg_crypto_decrypt := fun q =>
      { buf := q.buf, fifo_cdx := q.fifo_cdx, fifo_cdn := q.fifo_cdn, ctx := q.ctx }
    DMSG_AUX_MAX := 1024
    sizeof_any := 128
    sizeof_buf := 512 }

/-- A fresh connection of `ex_env` whose socket will deliver `bytes` in one
piece. -/
def ex_conn (bytes : List Nat) : dmsg_iocom :=
  dmsg_iocom_init ex_env false [sock_event.data bytes] []

/-- A header with its `hdr_crc` computed by the sender over `hbytes` bytes
(`ext` holds the bytes after the core header). -/
def ex_seal (h : dmsg_hdr) (ext : List Nat) : dmsg_hdr :=
  { h with hdr_crc := ex_env.icrc32 (hdr_bytes { h with hdr_crc := 0 } ++ ext) }

/-- A core header of one unit, native magic, whose `aux_bytes` is
`0xFFFFFFFF`. -/
def ex_wrap_hdr : dmsg_hdr :=
  ex_seal { dmsg_hdr.zero with magic := DMSG_HDR_MAGIC, cmd := 0x101, aux_bytes := 0xFFFFFFFF } []

/-- A core header as a peer of the opposite byte order holds it. -/
def ex_rev_hdr0 : dmsg_hdr :=
  { dmsg_hdr.zero with
    magic := DMSG_HDR_MAGIC, cmd := 0x101, msgid := 0x0102030405060708, error := 0x11 }

/-- The header `ex_rev_hdr0` with the CRC its sender computes: over the bytes
of its own memory, which are the bytes on the wire. -/
def ex_rev_hdr : dmsg_hdr :=
  { ex_rev_hdr0 with hdr_crc := ex_env.icrc32 (hdr_bytes (dmsg_bswap_head ex_rev_hdr0)) }

/-- The bytes of `ex_rev_hdr` on the wire, every multi-byte field in the
sender's (opposite) byte order. -/
def ex_rev_wire : List Nat := hdr_bytes (dmsg_bswap_head ex_rev_hdr)

/-- A frame with a payload of three bytes, sealed by the sender. -/
def ex_aux : List Nat := [1, 2, 3] ++ List.replicate 61 0

/-- What a call of `dmsg_ioq_read` shows: the IOQ error, the parser state, the
`EOF` flag and the header and payload size of the returned message. -/
def rx_view (r : Option (dmsg_iocom × Option dmsg_msg)) :
    Option (Nat × msgq_state × Bool × Option (dmsg_hdr × Nat)) :=
  r.map fun x => (x.1.ioq_rx.error, x.1.ioq_rx.state, x.1.flags.EOF,
                  x.2.map fun m => (m.head, m.aux_size))

/-- An open transaction that this side created: child of `par`, with the
children `kids`, whose identifier is its address. -/
def ex_state (par : Nat) (kids : List Nat) (msgid : Nat) (refs : Int) : dmsg_state :=
  { dmsg_state.zero with
    parent := some par, subq := kids, msgid := msgid, refs := refs
    flags := { DYNAMIC := true, SUBINSERTED := true, RBINSERTED := true }
    txcmd := 0x101 ||| DMSGF_CREATE, rxcmd := DMSGF_REPLY, icmd := 0x101 }

/-- The forest of the failure scenario: the transactions 10 and 20 under
`state0`, 101 and 102 under 10, 201 under 20. -/
def ex_heap5 : Nat → Option dmsg_state := fun p =>
  if p = 0 then
    some { dmsg_state.zero with
           parent := some 0, subq := [10, 20], refs := 2, flags := { ROOT := true } }
  else if p = 10 then some (ex_state 0 [101, 102] 10 3)
  else if p = 20 then some (ex_state 0 [201] 20 3)
  else if p = 101 then some (ex_state 10 [] 101 2)
  else if p = 102 then some (ex_state 10 [] 102 2)
  else if p = 201 then some (ex_state 20 [] 201 2)
  else none

/-- The engine of the failure scenario. -/
def ex_eng5 : dmsg_engine :=
  { heap := ex_heap5
    staterd_tree := fun _ => none
    statewr_tree := fun k =>
      if k = 10 ∨ k = 20 ∨ k = 101 ∨ k = 102 ∨ k = 201 then some k else none
    brk := 1000, rcvd := [], assert_failed := false, dmsg_state_count := 5 }

/-- The connection of the failure scenario at the moment the peer closes the
socket. -/
def ex_lost_conn : dmsg_iocom :=
  { dmsg_iocom_init ex_env false [sock_event.eof] [] with eng := ex_eng5 }

/-- What two calls of `dmsg_ioq_read` show: whether each call returned a
message, what the callback received (state, command and error of every
message), and the IOQ error and `EOF` flag at the end. -/
structure two_calls_view where
  first : Bool
  second : Bool
  rcvd : List (Option Nat × Nat × Nat)
  error : Nat
  EOF : Bool
deriving DecidableEq

/-- Two calls of `dmsg_ioq_read`, the second on the connection the first one
left. -/
def rx_two_calls (fuel : Nat) (env : Env) (ic : dmsg_iocom) : Option two_calls_view :=
  (dmsg_ioq_read fuel env ic).bind fun x =>
  (dmsg_ioq_read fuel env x.1).map fun y =>
    { first := x.2.isSome, second := y.2.isSome
      rcvd := y.1.eng.rcvd.map (fun m => (m.state, m.head.cmd, m.head.error))
      error := y.1.ioq_rx.error, EOF := y.1.flags.EOF }

/-- The root state `state0` with one child at address 5, held by its owner,
its queue and a message. -/
def ex_rx_state0 : dmsg_state :=
  { dmsg_state.zero with parent := some 0, subq := [5], refs := 3, flags := { ROOT := true } }

/-- An engine with one open transaction that the peer created: the state at
address 5, identifier 7, in `staterd_tree`, child of `state0`. -/
def ex_rx_eng : dmsg_engine :=
  { heap := fun a =>
      if a = 0 then some ex_rx_state0
      else if a = 5 then
        some { dmsg_state.zero with
               parent := some 0, msgid := 7, refs := 2
               flags := { DYNAMIC := true, OPPOSITE := true, SUBINSERTED := true,
                          RBINSERTED := true }
               txcmd := DMSGF_REPLY, rxcmd := DMSGF_CREATE ||| 0x101, icmd := 0x101 }
      else none
    staterd_tree := fun k => if k = 7 then some 5 else none
    statewr_tree := fun _ => none
    brk := 6, rcvd := [], assert_failed := false, dmsg_state_count := 1 }

/-- A message as `dmsg_ioq_read` hands it to `dmsg_state_msgrx`: allocated on
`state0`, with a core header only, over circuit 0. -/
def ex_rx_msg (cmd msgid : Nat) : dmsg_msg :=
  { state := some 0
    head := { dmsg_hdr.zero with magic := DMSG_HDR_MAGIC, cmd := cmd, msgid := msgid }
    ext := [], hdr_size := 64, aux_data := none, aux_size := 0, tcmd := 0 }

/-- The bits of a command that the `switch` of `dmsg_state_msgrx` looks at. -/
def msgrx_case (msg : dmsg_msg) : Nat :=
  msg.head.cmd &&& (DMSGF_CREATE ||| DMSGF_DELETE ||| DMSGF_REPLY)

/-- A sealed frame of one unit without payload that carries `salt`. -/
def ex_frame (salt : Nat) : List Nat :=
  hdr_bytes (ex_seal { dmsg_hdr.zero with magic := DMSG_HDR_MAGIC, cmd := 0x101, salt := salt } [])

/-- The receive side at rest on a plaintext link: in `HEADER1`, without error,
queued or half-built message, with an empty FIFO whose indices are reset. -/
structure RxIdle (env : Env) (ic : dmsg_iocom) : Prop where
  state : ic.ioq_rx.state = .HEADER1
  error : ic.ioq_rx.error = 0
  msgq : ic.ioq_rx.msgq = []
  msg : ic.ioq_rx.msg = none
  plain : ic.flags.CRYPTED = false
  fifo_beg : ic.ioq_rx.fifo_beg = 0
  fifo_cdx : ic.ioq_rx.fifo_cdx = 0
  fifo_cdn : ic.ioq_rx.fifo_cdn = 0
  fifo_end : ic.ioq_rx.fifo_end = 0
  buf : ic.ioq_rx.buf.length = env.sizeof_buf

/-- A message to transmit as `dmsg_msg_alloc` lays it out: one header unit,
the command `0x101` or-ed with `flags`, and a payload of three bytes in its
aligned buffer when `aux` is set. -/
def ex_tx_msg (flags : Nat) (aux : Bool) : dmsg_msg :=
  { state := some 0, head := { dmsg_hdr.zero with cmd := 0x101 ||| flags }, ext := []
    hdr_size := 64, aux_data := if aux then some ex_aux else none
    aux_size := if aux then 3 else 0, tcmd := 0 }

/-- The shape of a queue of children: the first child `x` with the queue of its
own children (`kids`), followed by its later siblings (`rest`). -/
inductive forest where
  | nil : forest
  | cons (x : Nat) (kids rest : forest) : forest
deriving DecidableEq, Repr

/-- The states on the queue itself, in queue order. -/
def forest.roots : forest → List Nat
  | .nil => []
  | .cons x _ rest => x :: rest.roots

/-- All states of the forest in root-first, subtree order: a state, then its
children's subtrees in queue order, then its later siblings. -/
def forest.preorder : forest → List Nat
  | .nil => []
  | .cons x kids rest => x :: (kids.preorder ++ rest.preorder)

/-- A transaction `x` under the parent `q` as the library keeps it while it is
open in the receive direction: on its parent's queue and in the tree that its
`rxcmd` selects, not `ROOT`, `ABORTING` or `NEW`, its `rxcmd` without `DELETE`
and with `CREATE` or `REPLY`, referenced by the queue, the tree and, when it
has children, its own queue, without relay and user data. -/
structure node_ok (e : dmsg_engine) (q x : Nat) (s : dmsg_state) : Prop where
  parent : s.parent = some q
  root : s.flags.ROOT = false
  subinserted : s.flags.SUBINSERTED = true
  rbinserted : s.flags.RBINSERTED = true
  aborting : s.flags.ABORTING = false
  new : s.flags.NEW = false
  rx_open : s.rxcmd &&& DMSGF_DELETE = 0
  rx_begun : s.rxcmd &&& DMSGF_CREATE ≠ 0 ∨ s.rxcmd &&& DMSGF_REPLY ≠ 0
  refs : (2 + if s.subq = [] then 0 else 1) ≤ s.refs
  relay : s.relay = none
  any : s.any = false
  tree : (if s.rxcmd &&& DMSGF_REPLY ≠ 0 then e.statewr_tree s.msgid
          else e.staterd_tree s.msgid) = some x

/-- The heap of `e` holds the forest `F` as the queue of children of `q`, or
as a tail of it: every state of `F` is a transaction as `node_ok` describes,
under its parent, and its queue is the list of its children. -/
def forest_ok (e : dmsg_engine) : Nat → forest → Prop
  | _, .nil => True
  | q, .cons x kids rest =>
    (∃ s, e.heap x = some s ∧ s.subq = kids.roots ∧ node_ok e q x s) ∧
    forest_ok e x kids ∧ forest_ok e q rest

/-- What a step of the cascade leaves alone outside the states `S`: the
assertion flag, the other states, and the tree entries of the other states. -/
structure eng_frame (S : List Nat) (e e1 : dmsg_engine) : Prop where
  assert : e1.assert_failed = e.assert_failed
  heap : ∀ a, a ∉ S → e1.heap a = e.heap a
  rd : ∀ m z, z ∉ S → e.staterd_tree m = some z → e1.staterd_tree m = some z
  wr : ∀ m z, z ∉ S → e.statewr_tree m = some z → e1.statewr_tree m = some z

/-- The state `s` with its `DYING` flag set to `d`. -/
def set_dying (s : dmsg_state) (d : Bool) : dmsg_state :=
  { s with flags := { s.flags with DYING := d } }

/-- The callbacks that the cascade over the forest `F` makes: the engine `e1`
has received, after what `e` had, one message per state of `F`, in root-first
subtree order, each with `DELETE` and the error `LOSTLINK`. -/
def cascade_rcvd (F : forest) (e e1 : dmsg_engine) : Prop :=
  ∃ msgs : List dmsg_msg, e1.rcvd = e.rcvd ++ msgs ∧
    msgs.map (fun m => m.state) = F.preorder.map some ∧
    ∀ m ∈ msgs, m.head.cmd &&& DMSGF_DELETE ≠ 0 ∧ m.head.error = DMSG_ERR_LOSTLINK

/-- What `dmsg_state_dying` changes: nothing but `DYING` flags, and those only
in the states `S`. -/
structure dying_rel (S : List Nat) (e e1 : dmsg_engine) : Prop where
  rd : e1.staterd_tree = e.staterd_tree
  wr : e1.statewr_tree = e.statewr_tree
  rcvd : e1.rcvd = e.rcvd
  assert : e1.assert_failed = e.assert_failed
  frame : ∀ a, a ∉ S → e1.heap a = e.heap a
  heap : ∀ a s, e.heap a = some s → ∃ d, e1.heap a = some (set_dying s d)

/-- What the loop of `dmsg_simulate_failure` over the children `F` of `q`
leaves behind: the callbacks of `F`, nothing changed outside `q` and `F`, and
the parent as it was up to its cursor, its queue and the reference of the
queue, which is dropped when the queue becomes empty. -/
structure scan_post (F : forest) (q : Nat) (sq : dmsg_state) (e e1 : dmsg_engine) : Prop where
  rcvd : cascade_rcvd F e e1
  frame : eng_frame (q :: F.preorder) e e1
  parent : ∃ sq1, e1.heap q = some sq1 ∧
    sq1 = { sq with scan := sq1.scan, subq := sq1.subq, refs := sq1.refs } ∧
    ((sq1.refs = sq.refs ∧ (F = .nil → sq1.subq = sq.subq)) ∨
     (F ≠ .nil ∧ sq1.refs = sq.refs - 1 ∧ sq1.subq = []))

/-- The loop of `dmsg_simulate_failure` on the parent `q` at the point where
the children `A` have been handled and stay on the queue, and the children `F`
are still to come. -/
structure scan_pre (F : forest) (q : Nat) (sq : dmsg_state) (A : List Nat) (e : dmsg_engine) :
    Prop where
  heap : e.heap q = some sq
  subq : sq.subq = A ++ F.roots
  nodup_q : (A ++ F.roots).Nodup
  nodup : (q :: F.preorder).Nodup
  handled : ∀ a, a ∈ A → a ≠ q ∧ a ∉ F.preorder ∧
    ∃ sa, e.heap a = some sa ∧ sa.flags.ABORTING = true
  ok : forest_ok e q F
  refs : F = .nil ∨ 2 ≤ sq.refs

/-- The loop of `dmsg_simulate_failure` over the children `F` returns, with
enough fuel, and leaves what `scan_post` describes. -/
def scan_spec (err : Nat) (F : forest) : Prop :=
  ∀ (e : dmsg_engine) (q : Nat) (sq : dmsg_state) (A : List Nat), scan_pre F q sq A e →
    ∃ fuel e1, dmsg_simulate_failure_scan fuel e q err F.roots.head? = some e1 ∧
      scan_post F q sq e e1

/-- The shape of the forest of `ex_eng5`. -/
def ex_forest5 : forest :=
  .cons 10 (.cons 101 .nil (.cons 102 .nil .nil)) (.cons 20 (.cons 201 .nil .nil) .nil)

/-- The engine `ex_eng5` with the transmit side of the states 10 and 201
closed: their `txcmd` has `DELETE`. -/
def ex_eng5_closed : dmsg_engine :=
  { ex_eng5 with
    heap := fun p =>
      if p = 10 ∨ p = 201 then
        (ex_heap5 p).map fun s => { s with txcmd := s.txcmd ||| DMSGF_DELETE }
      else ex_heap5 p }

/-- What the callback has received: the state, and whether the message has
`DELETE` and the error `LOSTLINK`. -/
def rcvd_view (e : Option dmsg_engine) : Option (List (Option Nat × Bool × Bool) × Bool) :=
  e.map fun e1 =>
    (e1.rcvd.map fun m =>
      (m.state, decide (m.head.cmd &&& DMSGF_DELETE ≠ 0),
        decide (m.head.error = DMSG_ERR_LOSTLINK)), e1.assert_failed)

/-- The value of `rxcmd` that the `switch` of `dmsg_state_msgrx` leaves for an
accepted message with `DELETE` on an existing state: the case
`REPLY|CREATE|DELETE` stores the command without `DELETE`, the cases `DELETE`
and `REPLY|DELETE` store nothing. -/
def msgrx_rxcmd (msg : dmsg_msg) (rxcmd : Nat) : Nat :=
  if msgrx_case msg = DMSGF_REPLY ||| DMSGF_CREATE ||| DMSGF_DELETE then
    msg.head.cmd &&& not32 DMSGF_DELETE
  else rxcmd

/-- The engine `ex_rx_eng` after the local side has sent its `DELETE` on the
transaction 7: `txcmd` of the state at address 5 has `DELETE`. -/
def ex_rx_eng_half : dmsg_engine :=
  { ex_rx_eng with
    heap := fun a =>
      if a = 0 then some ex_rx_state0
      else if a = 5 then
        some { dmsg_state.zero with
               parent := some 0, msgid := 7, refs := 2
               flags := { DYNAMIC := true, OPPOSITE := true, SUBINSERTED := true,
                          RBINSERTED := true }
               txcmd := DMSGF_REPLY ||| DMSGF_CREATE ||| DMSGF_DELETE ||| 0x101
               rxcmd := DMSGF_CREATE ||| 0x101, icmd := 0x101 }
      else none }

/-- A nested transaction at the moment its second `DELETE` has been received:
`state0` has the open transaction 42 (created locally, in `statewr_tree`),
which has the children 43 and 44; the state 43 has both directions closed, is
out of its tree, and is held by its parent's queue and by the message being
delivered; the state 44 is open. -/
def ex_eng_nested : dmsg_engine :=
  { heap := fun a =>
      if a = 0 then
        some { dmsg_state.zero with
               parent := some 0, subq := [42], refs := 2, flags := { ROOT := true } }
      else if a = 42 then
        some { dmsg_state.zero with
               parent := some 0, subq := [43, 44], msgid := 42, refs := 3
               flags := { DYNAMIC := true, SUBINSERTED := true, RBINSERTED := true }
               txcmd := DMSGF_CREATE ||| 0x101, rxcmd := DMSGF_REPLY ||| DMSGF_CREATE ||| 0x101
               icmd := 0x101 }
      else if a = 43 then
        some { dmsg_state.zero with
               parent := some 42, msgid := 43, refs := 2
               flags := { DYNAMIC := true, SUBINSERTED := true }
               txcmd := DMSGF_CREATE ||| DMSGF_DELETE ||| 0x101
               rxcmd := DMSGF_REPLY ||| DMSGF_CREATE ||| DMSGF_DELETE ||| 0x101
               icmd := 0x101 }
      else if a = 44 then
        some { dmsg_state.zero with
               parent := some 42, msgid := 44, refs := 2
               flags := { DYNAMIC := true, SUBINSERTED := true, RBINSERTED := true }
               txcmd := DMSGF_CREATE ||| 0x101, rxcmd := DMSGF_REPLY, icmd := 0x101 }
      else none
    staterd_tree := fun _ => none
    statewr_tree := fun k => if k = 42 then some 42 else if k = 44 then some 44 else none
    brk := 45, rcvd := [], assert_failed := false, dmsg_state_count := 3 }

/-- The message being delivered on the state 43 of `ex_eng_nested`. -/
def ex_msg_nested : dmsg_msg :=
  { state := some 43
    head := { dmsg_hdr.zero with
              magic := DMSG_HDR_MAGIC, msgid := 43, circuit := 42
              cmd := DMSGF_REPLY ||| DMSGF_CREATE ||| DMSGF_DELETE ||| 0x101 }
    ext := [], hdr_size := 64, aux_data := none, aux_size := 0, tcmd := 0 }

/-- A sealed frame of one unit without payload that carries the command `cmd`
for the identifier `msgid` over circuit 0, with the salt `salt`. -/
def ex_frame_cmd (cmd msgid salt : Nat) : List Nat :=
  hdr_bytes (ex_seal { dmsg_hdr.zero with
    magic := DMSG_HDR_MAGIC, cmd := cmd, msgid := msgid, salt := salt } [])

/-- One round of the receive loop of `dmsg_iocom_core`: `dmsg_ioq_read`, and
for a message returned the callback (which records the message) followed by
`dmsg_state_cleanuprx`. -/
def rx_round (fuel : Nat) (env : Env) (ic : dmsg_iocom) : Option dmsg_iocom :=
  (dmsg_ioq_read fuel env ic).bind fun x =>
    match x.2 with
    | some m =>
      (dmsg_state_cleanuprx { x.1.eng with rcvd := x.1.eng.rcvd ++ [m] } m).map fun e =>
        { x.1 with eng := e }
    | none => some x.1

/-- What the statements on the trees look at in a state: its flags `DYNAMIC`,
`SUBINSERTED` and `RBINSERTED`, its identifier, and the entries of the two
trees for that identifier. -/
structure tree_view where
  DYNAMIC : Bool
  SUBINSERTED : Bool
  RBINSERTED : Bool
  msgid : Nat
  staterd : Option Nat
  statewr : Option Nat
deriving DecidableEq, Repr

/-- The `tree_view` of the state at address `a`. -/
def tree_view_of (e : dmsg_engine) (a : Nat) : Option tree_view :=
  (e.heap a).map fun s =>
    { DYNAMIC := s.flags.DYNAMIC, SUBINSERTED := s.flags.SUBINSERTED
      RBINSERTED := s.flags.RBINSERTED, msgid := s.msgid
      staterd := e.staterd_tree s.msgid, statewr := e.statewr_tree s.msgid }

/-- A connection that receives the two frames `CREATE` and `CREATE|REVTRANS`,
both for the identifier 7 over circuit 0. -/
def ex_conn_twice : dmsg_iocom :=
  ex_conn (ex_frame_cmd (DMSGF_CREATE ||| 0x101) 7 0 ++
    ex_frame_cmd (DMSGF_CREATE ||| DMSGF_REVTRANS ||| 0x101) 7 1)

/-- A connection that receives one frame: the one-shot transaction
`CREATE|DELETE` for the identifier 7 over circuit 0. -/
def ex_conn_oneshot : dmsg_iocom :=
  ex_conn (ex_frame_cmd (DMSGF_CREATE ||| DMSGF_DELETE ||| 0x101) 7 0)

/-- The whole life of the one-shot transaction of `ex_conn_oneshot`:
`dmsg_ioq_read` returns the message on the new state (address 1), the
callback answers with `dmsg_state_reply`, `dmsg_state_cleanuprx` retires the
message received, and the transmit side frees the reply once it is sent
(`dmsg_iocom_flush2` ends with `dmsg_msg_free`). -/
def ex_oneshot : Option dmsg_iocom :=
  (dmsg_ioq_read 5 ex_env ex_conn_oneshot).bind fun x =>
  x.2.bind fun m =>
  (dmsg_state_reply 5 x.1 1 0).bind fun ic1 =>
  (dmsg_state_cleanuprx ic1.eng m).bind fun e2 =>
  ic1.txmsgq.head?.bind fun reply =>
  (dmsg_msg_free e2 reply).map fun e3 =>
    { ic1 with eng := e3, txmsgq := ic1.txmsgq.tail }

/-- What the statements on the reference balance look at: the reference count
and the queue of `state0`, whether the state at address 1 is still allocated,
whether both trees are empty at the identifiers 1 and 7, the length of the
transmit queue and the assertion flag. -/
structure refs_view where
  refs0 : Int
  subq0 : List Nat
  live1 : Bool
  trees : List (Option Nat)
  txlen : Nat
  assert_failed : Bool
deriving DecidableEq, Repr

/-- The `refs_view` of a connection. -/
def refs_view_of (ic : dmsg_iocom) : Option refs_view :=
  (ic.eng.heap 0).map fun s =>
    { refs0 := s.refs, subq0 := s.subq, live1 := (ic.eng.heap 1).isSome
      trees := [ic.eng.staterd_tree 7, ic.eng.statewr_tree 7, ic.eng.staterd_tree 1,
                ic.eng.statewr_tree 1]
      txlen := ic.txmsgq.length, assert_failed := ic.eng.assert_failed }

/-- A connection whose engine is `ex_rx_eng_half`: the local side has sent its
`DELETE` on the transaction 7. -/
def ex_conn_half : dmsg_iocom :=
  { dmsg_iocom_init ex_env false [] [] with eng := ex_rx_eng_half }

/-- The state `c` is linked under its live parent `p`: it is a non-root state
on the queue of `p`, the parent holds the reference of its queue besides
another one, and the relay of `c`, if any, is a live third state that holds a
reference besides the one of `c`. -/
structure linked (e : dmsg_engine) (c p : Nat) (sc sp : dmsg_state) : Prop where
  child : e.heap c = some sc
  parent : e.heap p = some sp
  ne : c ≠ p
  root : sc.flags.ROOT = false
  sub : sc.flags.SUBINSERTED = true
  par : sc.parent = some p
  mem : c ∈ sp.subq
  prefs : 2 ≤ sp.refs
  relay : ∀ r, sc.relay = some r → r ≠ c ∧ r ≠ p ∧ ∃ sr, e.heap r = some sr ∧ 2 ≤ sr.refs

/-- The state of a non-root transaction after the block "Process state data
into the message as needed, then update the state based on the message" of
`dmsg_msg_write` for a message with the command `cmd`: a `CREATE` stores the
command without `DELETE` in `txcmd`, and a `CREATE` without `REPLY` also
latches `icmd` and clears `NEW`. -/
def write_update (s : dmsg_state) (cmd : Nat) : dmsg_state :=
  { s with
    txcmd := if cmd &&& DMSGF_CREATE ≠ 0 then cmd &&& not32 DMSGF_DELETE else s.txcmd
    icmd := if cmd &&& (DMSGF_CREATE ||| DMSGF_REPLY) = DMSGF_CREATE then
              (cmd &&& not32 DMSGF_DELETE) &&& DMSGF_BASECMDMASK
            else s.icmd
    flags := { s.flags with
               NEW := if cmd &&& (DMSGF_CREATE ||| DMSGF_REPLY) = DMSGF_CREATE then false
                      else s.flags.NEW } }

/-- The state of a transaction that the peer created and already closed
(`rxcmd` has `CREATE` and `DELETE`), still open in the transmit direction,
held by its queue, its tree and a message. -/
def ex_reply_state : dmsg_state :=
  { dmsg_state.zero with
    parent := some 0, msgid := 7, refs := 3
    flags := { DYNAMIC := true, OPPOSITE := true, SUBINSERTED := true, RBINSERTED := true }
    txcmd := DMSGF_REPLY, rxcmd := DMSGF_CREATE ||| DMSGF_DELETE ||| 0x101, icmd := 0x101 }

/-- A connection with the transaction `ex_reply_state` at address 5 under
`state0`, registered in `staterd_tree` under the identifier 7. -/
def ex_reply_conn : dmsg_iocom :=
  { dmsg_iocom_init ex_env false [] [] with
    eng :=
      { heap := fun a =>
          if a = 0 then some ex_rx_state0 else if a = 5 then some ex_reply_state else none
        staterd_tree := fun k => if k = 7 then some 5 else none
        statewr_tree := fun _ => none
        brk := 6, rcvd := [], assert_failed := false, dmsg_state_count := 1 } }

/-- The reply that closes the transaction of `ex_reply_conn`: a message on the
state at address 5 with `REPLY|CREATE|DELETE`. -/
def ex_reply_msg : dmsg_msg :=
  { state := some 5
    head := { dmsg_hdr.zero with
              magic := DMSG_HDR_MAGIC
              cmd := DMSGF_REPLY ||| DMSGF_CREATE ||| DMSGF_DELETE ||| DMSGF_REVTRANS ||| 0x101 }
    ext := [], hdr_size := 64, aux_data := none, aux_size := 0, tcmd := 0 }

/-- The message that `dmsg_state_reply` and `dmsg_state_result` hand to
`dmsg_msg_write` for the non-root state `c` (state `sc`, parent state `sp`):
`cmd0` is the initial command, `REPLY` is added when `txcmd` has `REPLY`,
`dmsg_msg_alloc` adds `REVTRANS` and `REVCIRC` for the `OPPOSITE` flags of the
state and of its parent, and `CREATE` is added when `txcmd` lacks `CREATE`. -/
def reply_msg (c : Nat) (sc sp : dmsg_state) (cmd0 error : Nat) : dmsg_msg :=
  let cmd := if sc.txcmd &&& DMSGF_REPLY ≠ 0 then cmd0 ||| DMSGF_REPLY else cmd0
  let cmd1 := if sc.flags.OPPOSITE then cmd ||| DMSGF_REVTRANS else cmd
  let cmd2 := if sp.flags.OPPOSITE then cmd1 ||| DMSGF_REVCIRC else cmd1
  let cmd3 := if sc.txcmd &&& DMSGF_CREATE = 0 then cmd2 ||| DMSGF_CREATE else cmd2
  { state := some c
    head := { dmsg_hdr.zero with
              magic := DMSG_HDR_MAGIC, cmd := cmd3, msgid := sc.msgid, circuit := sp.msgid
              error := error % 2 ^ 32 }
    ext := [], hdr_size := 64, aux_data := none, aux_size := 0, tcmd := 0 }

/-- What every step of the state engine guarantees, from the engine `e` to
`e1`: the callback has received the messages `k`, the allocator has not gone
back, and a state below the old allocation mark that is allocated afterwards
was allocated before and has kept its `ABORTING` flag if it was set. -/
structure ab_step (k : List dmsg_msg) (e e1 : dmsg_engine) : Prop where
  rcvd : e1.rcvd = e.rcvd ++ k
  brk : e.brk ≤ e1.brk
  heap : ∀ a s1, a < e.brk → e1.heap a = some s1 →
    ∃ s, e.heap a = some s ∧ (s.flags.ABORTING = true → s1.flags.ABORTING = true)

/-- The engine after `n` successive calls of `dmsg_state_abort` on the same
state. -/
def abort_times (fuel : Nat) : Nat → dmsg_engine → Nat → Option dmsg_engine
  | 0, e, _ => some e
  | n + 1, e, state => (dmsg_state_abort fuel e state).bind fun e1 => abort_times fuel n e1 state

/-! ## Reference accounting -/

/-- The references that a state owes to its own links: one for the root, one
while it is on its parent's queue, one while it is in a tree and one while its
own queue is not empty. -/
def state_reasons (s : dmsg_state) : Nat :=
  s.flags.ROOT.toNat + s.flags.SUBINSERTED.toNat + s.flags.RBINSERTED.toNat +
  (!s.subq.isEmpty).toNat

/-- The accounting that the engine keeps, stated on the heap, the two trees
and the allocation mark.  `L` lists, with multiplicity, the states of the
references that are held from outside the engine (a message holds one on its
state).  Nothing is allocated at or above the mark, `state0` is allocated and
is the root, the count of every state covers its own links and the outside
references, a queued state is not its own parent, no state has a relay, and
an entry of a tree leads to an allocated state that carries the flag
`RBINSERTED`, the key as its `msgid` and the side of the tree as its
`OPPOSITE` flag; the outside references and the keys of `statewr_tree` lie
below the mark. -/
structure ref_inv (heap : Nat → Option dmsg_state) (trd twr : Nat → Option Nat) (brk : Nat)
    (L : List Nat) : Prop where
  fresh : ∀ a, brk ≤ a → heap a = none
  root : ∃ s0, heap 0 = some s0 ∧ s0.flags.ROOT = true
  refs : ∀ a s, heap a = some s → ((state_reasons s + L.count a : Nat) : Int) ≤ s.refs
  par : ∀ a s, heap a = some s → s.flags.SUBINSERTED = true → s.parent ≠ some a
  relay : ∀ a s, heap a = some s → s.relay = none
  rd : ∀ m a, trd m = some a → ∃ s, heap a = some s ∧ s.flags.RBINSERTED = true ∧
    s.msgid = m ∧ s.flags.OPPOSITE = true
  wr : ∀ m a, twr m = some a → ∃ s, heap a = some s ∧ s.flags.RBINSERTED = true ∧
    s.msgid = m ∧ s.flags.OPPOSITE = false
  cred : ∀ a, a ∈ L → a < brk
  wrkey : ∀ m a, twr m = some a → m < brk

/-- The accounting invariant of an engine under the outside references `L`:
`ref_inv` on its heap, trees and mark, and no state was ever freed in
violation of the assertions of `dmsg_state_free`. -/
def eng_inv (e : dmsg_engine) (L : List Nat) : Prop :=
  ref_inv e.heap e.staterd_tree e.statewr_tree e.brk L ∧ e.free_failed = false

/-- An update of a state that keeps what the trees and the root rely on. -/
structure soft (s s1 : dmsg_state) : Prop where
  root : s1.flags.ROOT = s.flags.ROOT
  rb : s1.flags.RBINSERTED = s.flags.RBINSERTED
  opp : s1.flags.OPPOSITE = s.flags.OPPOSITE
  msgid : s1.msgid = s.msgid
  relay : s1.relay = s.relay

/-- The state on which a message slot holds a reference. -/
def mcred (o : Option dmsg_msg) : List Nat :=
  (o.bind fun m => m.state).toList

/-- The states on which the messages of a queue hold their references. -/
def qcred (q : List dmsg_msg) : List Nat :=
  q.filterMap fun m => m.state

/-- What a step of the parser that allocates nothing leaves alone: the heap,
the trees, the allocation mark and the history variable of the engine, and the
state of the message under construction. -/
def rx_keep (ic ic1 : dmsg_iocom) : Prop :=
  ic1.eng.heap = ic.eng.heap ∧ ic1.eng.staterd_tree = ic.eng.staterd_tree ∧
  ic1.eng.statewr_tree = ic.eng.statewr_tree ∧ ic1.eng.brk = ic.eng.brk ∧
  ic1.eng.free_failed = ic.eng.free_failed ∧
  (ic1.ioq_rx.msg.bind fun m => m.state) = (ic.ioq_rx.msg.bind fun m => m.state)

/-- A step of the parser keeps the accounting, the message under construction
holding its reference. -/
def rx_cred (ic ic1 : dmsg_iocom) : Prop :=
  ∀ L, eng_inv ic.eng (mcred ic.ioq_rx.msg ++ L) → eng_inv ic1.eng (mcred ic1.ioq_rx.msg ++ L)

/-- The references that the queues of a connection hold: the message under
construction, the pending queue, the two transmit queues, and the message slot
of the transmit side. -/
def ic_credits (ic : dmsg_iocom) : List Nat :=
  mcred ic.ioq_rx.msg ++ (qcred ic.ioq_rx.msgq ++ (qcred ic.ioq_tx.msgq ++
    (qcred ic.txmsgq ++ mcred ic.ioq_tx.msg)))

/-! ## Connections in use -/

/-- A connection with what its user owns: the messages in the user's hands
(allocated and not yet written or freed, or returned by `dmsg_ioq_read` and not
yet cleaned up) and the states on which the user has taken a reference with
`dmsg_state_hold`. -/
structure conn where
  ic : dmsg_iocom
  held : List dmsg_msg
  refs : List Nat

/-- One call on a connection: `dmsg_msg_alloc`; the user filling in the held
message `i` (everything but its state, taken from `m`); `dmsg_msg_write` or
`dmsg_msg_free` of the held message `i`; `dmsg_state_reply`;
`dmsg_state_result`; `dmsg_ioq_read`, whose message goes to the user;
`dmsg_state_cleanuprx` of the held message `i` (the end of a delivery in
`dmsg_iocom_core`); `dmsg_iocom_flush1` taking over `txmsgq`;
`dmsg_iocom_flush2` retiring the message at the head of the transmit queue;
`dmsg_iocom_drain`; `dmsg_iocom_done`; `dmsg_state_hold`; `dmsg_state_drop` of
the user's reference `i`. -/
inductive conn_op where
  | alloc (state aux_size cmd func : Nat) (data : Bool)
  | fill (i : Nat) (m : dmsg_msg)
  | write (i : Nat)
  | free (i : Nat)
  | reply (state error : Nat)
  | result (state error : Nat)
  | read
  | cleanuprx (i : Nat)
  | flush1
  | sent
  | drain
  | done
  | hold (state : Nat)
  | drop (i : Nat)
deriving DecidableEq, Repr

/-- The connection after one call; `none` when the call faults or runs out of
fuel. -/
def conn_apply (fuel : Nat) (env : Env) (c : conn) : conn_op → Option conn
  | .alloc state aux_size cmd func data =>
    (dmsg_msg_alloc_locked c.ic.eng state aux_size cmd func data).map fun r =>
      { c with ic := { c.ic with eng := r.1 }, held := r.2 :: c.held }
  | .fill i m =>
    c.held[i]?.map fun m0 => { c with held := c.held.set i { m with state := m0.state } }
  | .write i =>
    c.held[i]?.bind fun m => (dmsg_msg_write fuel c.ic m).map fun ic1 =>
      { c with ic := ic1, held := c.held.erase m }
  | .free i =>
    c.held[i]?.bind fun m => (dmsg_msg_free c.ic.eng m).map fun e =>
      { c with ic := { c.ic with eng := e }, held := c.held.erase m }
  | .reply state error =>
    (dmsg_state_reply fuel c.ic state error).map fun ic1 => { c with ic := ic1 }
  | .result state error =>
    (dmsg_state_result fuel c.ic state error).map fun ic1 => { c with ic := ic1 }
  | .read =>
    (dmsg_ioq_read fuel env c.ic).map fun r => { c with ic := r.1, held := r.2.toList ++ c.held }
  | .cleanuprx i =>
    c.held[i]?.bind fun m => (dmsg_state_cleanuprx c.ic.eng m).map fun e =>
      { c with ic := { c.ic with eng := e }, held := c.held.erase m }
  | .flush1 => some { c with ic := dmsg_iocom_flush1_queue env c.ic }
  | .sent => (dmsg_iocom_flush2_retire c.ic).map fun ic1 => { c with ic := ic1 }
  | .drain => (dmsg_iocom_drain c.ic).map fun ic1 => { c with ic := ic1 }
  | .done => (dmsg_iocom_done c.ic).map fun ic1 => { c with ic := ic1 }
  | .hold state =>
    (dmsg_state_hold c.ic.eng state).map fun e =>
      { c with ic := { c.ic with eng := e }, refs := state :: c.refs }
  | .drop i =>
    c.refs[i]?.bind fun a => (dmsg_state_drop c.ic.eng a).map fun e =>
      { c with ic := { c.ic with eng := e }, refs := c.refs.erase a }

/-- The connection after a sequence of calls. -/
def conn_run (fuel : Nat) (env : Env) : List conn_op → conn → Option conn
  | [], c => some c
  | op :: ops, c => (conn_apply fuel env c op).bind fun c1 => conn_run fuel env ops c1

/-- The connection that `dmsg_iocom_init` leaves, with nothing in the user's
hands. -/
def conn_init (env : Env) (signal_func : Bool) (sock : List sock_event) (rand : List Nat) :
    conn :=
  { ic := dmsg_iocom_init env signal_func sock rand, held := [], refs := [] }

/-- The references held from outside the engine of a connection. -/
def conn_credits (c : conn) : List Nat :=
  ic_credits c.ic ++ (qcred c.held ++ c.refs)

/-- The calls of a one-shot transaction seen from the receiving side:
`dmsg_ioq_read` returns the message that opens and closes the transaction,
the callback answers with `dmsg_state_reply` on the new state (address 1),
`dmsg_state_cleanuprx` retires the message received, `dmsg_iocom_flush1`
takes the reply over and `dmsg_iocom_flush2` frees it once it is written. -/
def ex_ops_oneshot : List conn_op :=
  [.read, .reply 1 0, .cleanuprx 0, .flush1, .sent]

/-- A fresh connection in use whose socket will deliver the one-shot
transaction `CREATE|DELETE` for the identifier 7 over circuit 0. -/
def ex_conn_fresh : conn :=
  conn_init ex_env false
    [sock_event.data (ex_frame_cmd (DMSGF_CREATE ||| DMSGF_DELETE ||| 0x101) 7 0)] []

/-- What the statements on freed states look at in a connection in use: the
history variable `free_failed`, the counter `dmsg_state_count`, whether the
states at the addresses 0 and 1 are allocated, the allocation mark, and the
numbers of messages queued and held. -/
structure free_view where
  free_failed : Bool
  dmsg_state_count : Int
  live0 : Bool
  live1 : Bool
  brk : Nat
  txlen : Nat
  held : Nat
deriving DecidableEq, Repr

/-- The `free_view` of a connection in use. -/
def free_view_of (c : conn) : free_view :=
  { free_failed := c.ic.eng.free_failed, dmsg_state_count := c.ic.eng.dmsg_state_count
    live0 := (c.ic.eng.heap 0).isSome, live1 := (c.ic.eng.heap 1).isSome
    brk := c.ic.eng.brk, txlen := c.ic.txmsgq.length, held := c.held.length }

/-- An engine that no call produces: the state at address 1 is still on the
queue of `state0` and in `staterd_tree`, with a single reference. -/
def ex_eng_underheld : dmsg_engine :=
  { heap := fun a =>
      if a = 0 then
        some { dmsg_state.zero with refs := 2, parent := some 0, subq := [1]
                                    flags := { ROOT := true } }
      else if a = 1 then
        some { dmsg_state.zero with
               refs := 1, parent := some 0, msgid := 7
               flags := { DYNAMIC := true, OPPOSITE := true, SUBINSERTED := true
                          RBINSERTED := true } }
      else none
    staterd_tree := fun k => if k = 7 then some 1 else none
    statewr_tree := fun _ => none
    brk := 2, rcvd := [], assert_failed := false, dmsg_state_count := 1 }


/-! ## The flags of the failure cascade -/

/-- What `dmsg_state_dying` changes: `DYING` flags, which it only sets. -/
structure dying_only (e e1 : dmsg_engine) : Prop where
  rd : e1.staterd_tree = e.staterd_tree
  wr : e1.statewr_tree = e.statewr_tree
  rcvd : e1.rcvd = e.rcvd
  brk : e1.brk = e.brk
  free_failed : e1.free_failed = e.free_failed
  dead : ∀ a, e.heap a = none → e1.heap a = none
  heap : ∀ a s, e.heap a = some s → ∃ d, e1.heap a = some (set_dying s (s.flags.DYING || d))

/-- What the statements on a transaction look at: the `rxcmd`, `txcmd`, flags
and reference count of the state, the queue of `state0`, the entries of the
two trees for the identifier of the state, and the assertion flag. -/
structure txn_view where
  rxcmd : Nat
  txcmd : Nat
  flags : state_flags
  refs : Int
  subq0 : List Nat
  statewr : Option Nat
  staterd : Option Nat
  assert_failed : Bool
deriving DecidableEq, Repr

/-- The `txn_view` of the state at address `a`. -/
def txn_view_of (e : dmsg_engine) (a : Nat) : Option txn_view :=
  (e.heap a).bind fun s =>
  (e.heap 0).map fun s0 =>
    { rxcmd := s.rxcmd, txcmd := s.txcmd, flags := s.flags, refs := s.refs, subq0 := s0.subq
      statewr := e.statewr_tree s.msgid, staterd := e.staterd_tree s.msgid
      assert_failed := e.assert_failed }

/-- A connection on which this side has opened and closed a one-shot
transaction (`dmsg_msg_alloc` with `CREATE|DELETE|0x101`, then
`dmsg_msg_write`): the state is at address 1, its identifier is 1.  The socket
will deliver one frame, `DELETE|REPLY|ABORT|REVTRANS|0x101` for the
identifier 1. -/
def ex_conn_raced : Option conn :=
  conn_run 5 ex_env [.alloc 0 0 (DMSGF_CREATE ||| DMSGF_DELETE ||| 0x101) 0 false, .write 0]
    (conn_init ex_env false
      [sock_event.data
        (ex_frame_cmd (DMSGF_DELETE ||| DMSGF_REPLY ||| DMSGF_ABORT ||| DMSGF_REVTRANS ||| 0x101)
          1 0)] [])

/-- The call `dmsg_state_msgrx(msg, 0)` as `dmsg_ioq_read` makes it for a frame
with the command `cmd` and the identifier `msgid` over circuit 0: the message
is allocated on `state0` and its header filled in. -/
def msgrx_wire (e : dmsg_engine) (cmd msgid : Nat) : Option msgrx_result :=
  (dmsg_msg_alloc_locked e 0 0 (cmd &&& DMSGF_SIZE) 0 false).bind fun am =>
    dmsg_state_msgrx am.1
      { am.2 with head := { am.2.head with cmd := cmd, msgid := msgid } } false

/-- A frame that the peer sends on the transaction 42 of this side: the
command `flags|REVTRANS|0x101` for the identifier 42 over circuit 0, with the
salt `salt`. -/
def ex_stream_frame (flags salt : Nat) : List Nat :=
  ex_frame_cmd (flags ||| DMSGF_REVTRANS ||| 0x101) 42 salt

/-- A fresh connection whose allocator will return the address 42 and whose
socket will deliver the four frames of a streaming reply: `CREATE|REPLY`,
`REPLY`, `REPLY` and `DELETE|REPLY`. -/
def ex_stream_init : conn :=
  { ic :=
      { dmsg_iocom_init ex_env false
          [sock_event.data
            (ex_stream_frame (DMSGF_CREATE ||| DMSGF_REPLY) 0 ++ ex_stream_frame DMSGF_REPLY 1 ++
              ex_stream_frame DMSGF_REPLY 2 ++
              ex_stream_frame (DMSGF_DELETE ||| DMSGF_REPLY) 3)] [] with
        eng := { (dmsg_iocom_init ex_env false [] []).eng with brk := 42 } }
    held := [], refs := [] }

/-- The connection `ex_stream_init` after this side has opened a transaction:
`dmsg_msg_alloc` on `state0` with the command `cmd0`, then `dmsg_msg_write`.
The state is at address 42 and its identifier is 42. -/
def ex_stream_sent (cmd0 : Nat) : Option dmsg_iocom :=
  (conn_run 5 ex_env [.alloc 0 0 cmd0 0 false, .write 0] ex_stream_init).map fun c => c.ic

/-- Rounds of the receive loop of `dmsg_iocom_core`, as many as `n`. -/
def rx_rounds (fuel : Nat) (env : Env) : Nat → dmsg_iocom → Option dmsg_iocom
  | 0, ic => some ic
  | n + 1, ic => (rx_round fuel env ic).bind fun ic1 => rx_rounds fuel env n ic1

/-- A message that this side sends on the existing transaction `state`:
`dmsg_msg_alloc` with the command `cmd`, then `dmsg_msg_write`. -/
def tx_send (fuel : Nat) (ic : dmsg_iocom) (state cmd : Nat) : Option dmsg_iocom :=
  (dmsg_msg_alloc_locked ic.eng state 0 cmd 0 false).bind fun am =>
    dmsg_msg_write fuel { ic with eng := am.1 } am.2

/-- What the streaming scenario shows: for every message that the callback
received its state and the bits `CREATE`, `DELETE` and `REPLY` of its command,
the error of the receive side, and the `txn_view` of the state at address
42. -/
def stream_view (ic : dmsg_iocom) : List (Option Nat × Nat) × Nat × Option txn_view :=
  (ic.eng.rcvd.map fun m =>
      (m.state, m.head.cmd &&& (DMSGF_CREATE ||| DMSGF_DELETE ||| DMSGF_REPLY)),
    ic.ioq_rx.error, txn_view_of ic.eng 42)

/-- No state below the address `n` is flagged `RBINSERTED`. -/
def none_inserted (e : dmsg_engine) (n : Nat) : Bool :=
  (List.range n).all fun a =>
    match e.heap a with
    | some s => !s.flags.RBINSERTED
    | none => true

/-- A fresh connection whose socket fails on the first `read(2)` and would
deliver a valid frame on the next one. -/
def ex_conn_fail : dmsg_iocom :=
  dmsg_iocom_init ex_env false [sock_event.fail, sock_event.data (ex_frame 0)] []

/-- An IOQ with a buffer of 16 bytes that holds their own offsets: decrypted
bytes in `[4,8)`, ciphertext in `[10,12)`. -/
def ex_ioq_room : dmsg_ioq :=
  { dmsg_ioq_init ex_env with
    buf := List.range 16, fifo_beg := 4, fifo_cdx := 8, fifo_cdn := 10, fifo_end := 12 }

/-! ## Transmit progress -/

/-- The bytes that a queued message puts on the wire: its header,
`(cmd & DMSGF_SIZE) * DMSG_ALIGN` bytes, and its aligned payload,
`DMSG_DOALIGN(aux_size)` bytes. -/
def tx_size (msg : dmsg_msg) : Nat :=
  (msg.head.cmd &&& DMSGF_SIZE) * DMSG_ALIGN + DMSG_DOALIGN 64 msg.aux_size

/-- The bytes of a list of queued messages. -/
def tx_total (q : List dmsg_msg) : Nat :=
  (q.map tx_size).sum

/-- The bytes of the transmit queue `q` that are not sent yet, when `hb` bytes
of the header and `ab` bytes of the payload of its first message are. -/
def tx_unsent (q : List dmsg_msg) (hb ab : Nat) : Nat :=
  tx_total q - hb - ab

/-- The progress cursors `(hb, ab)` describe a position inside the first
message of the queue `q`; on an empty queue they are zero. -/
def tx_within (q : List dmsg_msg) (hb ab : Nat) : Prop :=
  match q with
  | [] => hb = 0 ∧ ab = 0
  | msg :: _ =>
    hb ≤ (msg.head.cmd &&& DMSGF_SIZE) * DMSG_ALIGN ∧ ab ≤ DMSG_DOALIGN 64 msg.aux_size

instance tx_within_dec : (q : List dmsg_msg) → (hb ab : Nat) → Decidable (tx_within q hb ab)
  | [], hb, ab => inferInstanceAs (Decidable (hb = 0 ∧ ab = 0))
  | msg :: _, hb, ab =>
    inferInstanceAs (Decidable (hb ≤ (msg.head.cmd &&& DMSGF_SIZE) * DMSG_ALIGN ∧
      ab ≤ DMSG_DOALIGN 64 msg.aux_size))

/-- A connection whose transmit queue holds two messages on `state0`, the
first with a payload (128 bytes on the wire) and the second without (64
bytes); 16 bytes of the first header are sent already. -/
def ex_tx_conn : dmsg_iocom :=
  { dmsg_iocom_init ex_env false [] [] with
    eng := ex_rx_eng
    ioq_tx := { dmsg_ioq_init ex_env with
                msgq := [ex_tx_msg 0 true, ex_tx_msg 0 false], msgcount := 2, hbytes := 16 } }

/-! ## The queues of children and the `DYING` flag -/

/-- The state `y` is in the subtree below `x`: a child on `subq`,
transitively. -/
inductive below (e : dmsg_engine) : Nat → Nat → Prop
  | child (x y : Nat) (s : dmsg_state) : e.heap x = some s → y ∈ s.subq → below e x y
  | step (x y z : Nat) (s : dmsg_state) :
    below e x y → e.heap y = some s → z ∈ s.subq → below e x z

/-- Every state on a queue `subq` is allocated, was allocated after the owner
of the queue, names the owner as its parent and carries `SUBINSERTED`. -/
def kid_ok (e : dmsg_engine) : Prop :=
  ∀ p sp c, e.heap p = some sp → c ∈ sp.subq →
    p < c ∧ ∃ sc, e.heap c = some sc ∧ sc.parent = some p ∧ sc.flags.SUBINSERTED = true

/-- The children of a `DYING` state are `DYING`, for every parent outside
`X`. -/
def closed_ex (X : List Nat) (e : dmsg_engine) : Prop :=
  ∀ p sp c sc, p ∉ X → e.heap p = some sp → c ∈ sp.subq → e.heap c = some sc →
    sp.flags.DYING = true → sc.flags.DYING = true

/-- The shape that the engine keeps on the queues of children: nothing is
allocated at or above the allocation mark, the queues are as `kid_ok` says and
have no duplicates, the children of a `DYING` state are `DYING`, only the
state at address 0 (`state0`) can be its own parent, and it is neither `DYING`
nor `ABORTING`. -/
structure tree_inv (e : dmsg_engine) : Prop where
  fresh : ∀ a, e.brk ≤ a → e.heap a = none
  kid : kid_ok e
  nodup : ∀ p sp, e.heap p = some sp → sp.subq.Nodup
  closed : closed_ex [] e
  self : ∀ a s, e.heap a = some s → s.parent = some a → a = 0
  root : ∀ s, e.heap 0 = some s → s.flags.DYING = false ∧ s.flags.ABORTING = false

/-- No state is `DYING` or `ABORTING`. -/
def no_dying (e : dmsg_engine) : Prop :=
  ∀ a s, e.heap a = some s → s.flags.DYING = false ∧ s.flags.ABORTING = false

/-- Two values of a state that agree on the parent, the queue and the flags
`SUBINSERTED`, `DYING` and `ABORTING`. -/
def same_shape (s s1 : dmsg_state) : Prop :=
  s1.parent = s.parent ∧ s1.subq = s.subq ∧ s1.flags.SUBINSERTED = s.flags.SUBINSERTED ∧
  s1.flags.DYING = s.flags.DYING ∧ s1.flags.ABORTING = s.flags.ABORTING

/-- A step of the engine that allocates and frees nothing and leaves the
shape of every state alone. -/
def shape_eq (e e1 : dmsg_engine) : Prop :=
  e1.brk = e.brk ∧ e1.free_failed = e.free_failed ∧
  ∀ a, (e.heap a = none ∧ e1.heap a = none) ∨
    ∃ s s1, e.heap a = some s ∧ e1.heap a = some s1 ∧ same_shape s s1

/-- A step of the engine that keeps `tree_inv`, given `P`, unless it frees a
state in violation of the assertions of `dmsg_state_free` (the history
variable `free_failed`, which is never cleared). -/
def tstep_if (P : Prop) (e e1 : dmsg_engine) : Prop :=
  e1.free_failed = false → e.free_failed = false ∧ (tree_inv e → P → tree_inv e1)

/-- A step that keeps `tree_inv`, given `P`, and sets no `DYING` or `ABORTING`
flag where none was set. -/
def nstep_if (P : Prop) (e e1 : dmsg_engine) : Prop :=
  tstep_if P e e1 ∧ (no_dying e → no_dying e1)

/-- A step that keeps `tree_inv` and `no_dying`. -/
def nstep (e e1 : dmsg_engine) : Prop := nstep_if True e e1

/-- The shape of a connection: `tree_inv` on its engine, and no state is
`DYING` or `ABORTING` as long as the receive side has no error. -/
def conn_tree (ic : dmsg_iocom) : Prop :=
  tree_inv ic.eng ∧ (ic.ioq_rx.error = 0 → no_dying ic.eng)

/-- The calls that build a subtree on a fresh connection: the peer opens the
transaction at address 1 (`dmsg_ioq_read` of a `CREATE` frame), this side
opens the transaction at address 2 under it and the one at address 3 under
that (`dmsg_msg_alloc` with `CREATE`), and the transaction at address 4 under
`state0`. -/
def ex_ops_subtree : List conn_op :=
  [.read, .alloc 1 0 (DMSGF_CREATE ||| 0x101) 0 false,
   .alloc 2 0 (DMSGF_CREATE ||| 0x101) 0 false, .alloc 0 0 (DMSGF_CREATE ||| 0x101) 0 false]

/-- The flags `DYING` and `ABORTING` of the states at the addresses below
`n`. -/
def flags_view (e : dmsg_engine) (n : Nat) : List (Option (Bool × Bool)) :=
  (List.range n).map fun a => (e.heap a).map fun s => (s.flags.DYING, s.flags.ABORTING)


/-! ## Inputs for the deferred abort -/

/-- A fresh connection on which this side has called `dmsg_msg_alloc` on
`state0` with the command `CREATE|0x101` and has not yet written the message:
the new state is at address 1 and the message is in the user's hands. -/
def ex_conn_new : Option conn :=
  conn_run 5 ex_env [.alloc 0 0 (DMSGF_CREATE ||| 0x101) 0 false] (conn_init ex_env false [] [])

/-- What the statements on the deferred abort look at: for every message that
the callback received its state, command and error, and the `txn_view` of the
state at address 1. -/
def abort_view (e : dmsg_engine) : List (Option Nat × Nat × Nat) × Option txn_view :=
  (e.rcvd.map fun m => (m.state, m.head.cmd, m.head.error), txn_view_of e 1)

/-! ## Inputs for the transmit cipher -/

/-- A toy cipher for `EVP_EncryptUpdate`: every byte is XOR-ed with the low
byte of the context, which counts the bytes encoded; the output is as long as
the input. -/
def ex_evp (ctx : Nat) (bs : List Nat) : Nat × List Nat :=
  (ctx + bs.length, bs.map fun b => b ^^^ (ctx % 256))

/-- An idle transmit IOQ whose FIFO has 128 bytes, all free. -/
def ex_ioq_tx : dmsg_ioq :=
  { dmsg_ioq_init ex_env with buf := List.replicate 128 0 }

/-- Two entries as `dmsg_iocom_flush2` builds them for a message with a core
header of 64 bytes and a payload of 128 bytes: 192 bytes in all, more than the
128 free bytes of `ex_ioq_tx`. -/
def ex_iov : List iovec :=
  [{ iov_base := .mem (List.replicate 64 1), iov_len := 64 },
   { iov_base := .mem (List.replicate 128 2), iov_len := 128 }]

/-! ## Inputs for one-off messages over a circuit -/

/-- A sealed frame of one unit without payload that carries the command `cmd`
for the identifier `msgid` over the circuit `circuit`, with the salt `salt`. -/
def ex_frame_circ (cmd msgid circuit salt : Nat) : List Nat :=
  hdr_bytes (ex_seal { dmsg_hdr.zero with
    magic := DMSG_HDR_MAGIC, cmd := cmd, msgid := msgid, circuit := circuit, salt := salt } [])

/-- A fresh connection whose socket delivers two frames: `CREATE|0x101` for
the identifier 7 over circuit 0, which opens a transaction, and then a frame
with the command `cmd2` for the identifier 9 over the circuit 7. -/
def ex_conn_circ (cmd2 : Nat) : dmsg_iocom :=
  ex_conn (ex_frame_circ (DMSGF_CREATE ||| 0x101) 7 0 0 ++ ex_frame_circ cmd2 9 7 1)

/-- The locals of `dmsg_state_msgrx(msg, 0)` when it reaches the computation
of `tcmd`: the function up to and including its `switch`. -/
def msgrx_locals_of (e : dmsg_engine) (msg : dmsg_msg) : Option msgrx_locals := do
  let mst ← msg.state
  let ms ← e.heap mst
  let pstate ← dmsg_state_msgrx_circuit e msg false ms
  let a ← dmsg_state_msgrx_assign e msg false mst pstate (dmsg_state_msgrx_find e msg false mst)
  let state ← a.2.2
  dmsg_state_msgrx_switch a.1 a.2.1 state pstate

/-- The message that `dmsg_ioq_read` hands to `dmsg_state_msgrx` for a frame
with the command `cmd` and the identifier `msgid` over the circuit `circuit`,
with the engine after the allocation of the message on `state0`. -/
def wire_msg (e : dmsg_engine) (cmd msgid circuit : Nat) : Option (dmsg_engine × dmsg_msg) :=
  (dmsg_msg_alloc_locked e 0 0 (cmd &&& DMSGF_SIZE) 0 false).map fun am =>
    (am.1, { am.2 with head := { am.2.head with cmd := cmd, msgid := msgid, circuit := circuit } })

/-- What the statements on the assertion `msg->state == state` look at: the
state of the message, the local `state`, the error and the assertion flag. -/
def locals_view (l : msgrx_locals) : Option Nat × Nat × Nat × Bool :=
  (l.msg.state, l.state, l.error, l.eng.assert_failed)

/-! ## Vocabulary for the handshake -/

/-- The version of a received handshake block in the byte order that its magic
announces. -/
def handshake_version (h : hammer2_handshake) : Nat :=
  if h.magic = HAMMER2_MSGHDR_MAGIC_REV then bswap16 h.version else h.version

/-- The verifier of a handshake block matches its session bytes: the byte `j`
of `verf` is the XOR of the four bytes `sess[4j..4j+3]`. -/
def verf_ok (h : hammer2_handshake) : Prop :=
  ∀ j, j < sizeof_verf →
    h.verf j = h.sess (4 * j) ^^^ h.sess (4 * j + 1) ^^^ h.sess (4 * j + 2) ^^^ h.sess (4 * j + 3)

/-- The connection after an accepted handshake: the session key and the two
vectors are the XOR of the session bytes of the two blocks and `CRYPTED` is
set. -/
def handshake_installed (handrx handtx : hammer2_handshake) (iocom r : hammer2_iocom) : Prop :=
  r.CRYPTED = true ∧ r.error = iocom.error ∧ r.EOF = iocom.EOF ∧
  (∀ i, i < HAMMER2_AES_KEY_SIZE → r.sess i = handrx.sess i ^^^ handtx.sess i) ∧
  (∀ i, i < HAMMER2_AES_KEY_SIZE →
    r.iv_rx i = handrx.sess (HAMMER2_AES_KEY_SIZE + i) ^^^ handtx.sess (HAMMER2_AES_KEY_SIZE + i) ∧
    r.iv_tx i = handrx.sess (HAMMER2_AES_KEY_SIZE + i) ^^^ handtx.sess (HAMMER2_AES_KEY_SIZE + i))

/-- The connection after a rejected handshake: the error `KEYXCHGFAIL` and the
flag `EOF`, the key, the vectors and `CRYPTED` as before. -/
def handshake_rejected (iocom r : hammer2_iocom) : Prop :=
  r.error = HAMMER2_IOQ_ERROR_KEYXCHGFAIL ∧ r.EOF = true ∧ r.CRYPTED = iocom.CRYPTED ∧
  r.sess = iocom.sess ∧ r.iv_rx = iocom.iv_rx ∧ r.iv_tx = iocom.iv_tx

/-- A handshake block as a receiver of the opposite byte order reads it: the
multi-byte fields `magic`, `version` and `flags` byte-swapped, the byte arrays
as they are. -/
def handshake_swapped (h : hammer2_handshake) : hammer2_handshake :=
  { h with magic := bswap16 h.magic, version := bswap16 h.version, flags := bswap32 h.flags }

/-- A block from the random device whose session byte `i` is `7 * i + 3`
modulo 256. -/
def ex_handshake_rnd : hammer2_handshake :=
  { magic := 0xABCD, version := 0x1234, flags := 99, sess := fun i => (7 * i + 3) % 256,
    verf := fun i => (i + 200) % 256 }

/-- A connection before the handshake. -/
def ex_h2_iocom : hammer2_iocom :=
  { error := 0, EOF := false, CRYPTED := false, sess := fun _ => 0, iv_rx := fun _ => 0,
    iv_tx := fun _ => 0 }

/-! ## Inputs for the relay -/

/-- A sealed frame of two units (a core header and 64 bytes of extended
header `ext`) with a payload of three bytes, for the command `cmd`, the
identifier `msgid` and the circuit `circuit`, with the salt `salt`. -/
def ex_frame_ext (cmd msgid circuit salt : Nat) (ext : List Nat) : List Nat :=
  hdr_bytes (ex_seal { dmsg_hdr.zero with
    magic := DMSG_HDR_MAGIC, cmd := cmd, msgid := msgid, circuit := circuit, salt := salt,
    error := 5, aux_bytes := 3, aux_crc := ex_env.icrc32 ex_aux } ext) ++ ext ++ ex_aux

/-- The extended header of the relayed frame: the bytes 1 to 64. -/
def ex_ext : List Nat := (List.range 64).map fun i => i + 1

/-- A connection on which the peer has opened the transactions 7 and 8 under
`state0` (the states at the addresses 1 and 2, both `OPPOSITE`) and on which
the transaction 8 was made the relay of the transaction 7, as the processing
of a `SPAN` does.  The socket will then deliver the frame `CREATE|0x102` for
the identifier 9 over the circuit 7, with an extended header and a payload. -/
def ex_conn_relay : Option dmsg_iocom :=
  (rx_rounds 5 ex_env 2
    (ex_conn (ex_frame_circ (DMSGF_CREATE ||| 0x101) 7 0 0 ++
      ex_frame_circ (DMSGF_CREATE ||| 0x101) 8 0 1 ++
      ex_frame_ext (DMSGF_CREATE ||| 0x102) 9 7 2 ex_ext))).bind fun ic =>
  (ic.eng.heap 1).map fun s1 =>
    { ic with eng := ic.eng.put 1 { s1 with relay := some 2 } }

/-- What the statements on the relay look at in a message: its state, the
command, the error, the extended header, the sizes and the payload. -/
def relay_view (m : dmsg_msg) :
    Option Nat × Nat × Nat × List Nat × Nat × Nat × Option (List Nat) :=
  (m.state, m.head.cmd, m.head.error, m.ext, m.hdr_size, m.aux_size, m.aux_data)

/-- The links of the relay: the relay pointer and the reference count of the
states at the addresses `l` and `r`. -/
def link_view (e : dmsg_engine) (l r : Nat) : List (Option (Option Nat × Int)) :=
  [(e.heap l).map fun s => (s.relay, s.refs), (e.heap r).map fun s => (s.relay, s.refs)]

/-- An engine with a relay set up by hand: under `state0` the transactions at
the addresses 1 (identifier 7) and 2 (identifier 8), both opened by the peer,
the second being the relay of the first; under the first the transaction at
address 3 (identifier 9), opened by the peer with `CREATE|0x102` and not yet
relayed. -/
def ex_relay_eng : dmsg_engine :=
  { heap := fun a =>
      if a = 0 then
        some { dmsg_state.zero with
               parent := some 0, subq := [1, 2], refs := 2, flags := { ROOT := true } }
      else if a = 1 then
        some { dmsg_state.zero with
               parent := some 0, subq := [3], msgid := 7, refs := 3, relay := some 2
               flags := { DYNAMIC := true, OPPOSITE := true, SUBINSERTED := true,
                          RBINSERTED := true }
               txcmd := DMSGF_REPLY, rxcmd := DMSGF_CREATE ||| 0x101, icmd := 0x101 }
      else if a = 2 then
        some { dmsg_state.zero with
               parent := some 0, msgid := 8, refs := 2
               flags := { DYNAMIC := true, OPPOSITE := true, SUBINSERTED := true,
                          RBINSERTED := true }
               txcmd := DMSGF_REPLY, rxcmd := DMSGF_CREATE ||| 0x101, icmd := 0x101 }
      else if a = 3 then
        some { dmsg_state.zero with
               parent := some 1, msgid := 9, refs := 3, func := 1
               flags := { DYNAMIC := true, OPPOSITE := true, SUBINSERTED := true,
                          RBINSERTED := true }
               txcmd := DMSGF_REPLY, rxcmd := DMSGF_CREATE ||| 0x102, icmd := 0x102 }
      else none
    staterd_tree := fun k =>
      if k = 7 then some 1 else if k = 8 then some 2 else if k = 9 then some 3 else none
    statewr_tree := fun _ => none
    brk := 4, rcvd := [], assert_failed := false, dmsg_state_count := 3 }

/-- The message that opened the transaction at address 3 of `ex_relay_eng`:
`CREATE|0x102` over the circuit 7, with an extended header of 64 bytes and a
payload of three bytes. -/
def ex_relay_msg : dmsg_msg :=
  { state := some 3
    head := { dmsg_hdr.zero with
              magic := DMSG_HDR_MAGIC, cmd := DMSGF_CREATE ||| 0x102, msgid := 9, circuit := 7
              error := 5, aux_bytes := 3 }
    ext := ex_ext, hdr_size := 128, aux_data := some ex_aux, aux_size := 3, tcmd := 0 }

/-- The engine `ex_relay_eng` after the first message was relayed: the
transaction at address 3 has the relay at address 4 (identifier 4, under the
transaction at address 2), and each holds a reference on the other. -/
def ex_relay_eng2 : dmsg_engine :=
  { ex_relay_eng with
    heap := fun a =>
      if a = 3 then
        (ex_relay_eng.heap 3).map fun s => { s with relay := some 4, refs := 4 }
      else if a = 4 then
        some { dmsg_state.zero with
               parent := some 2, msgid := 4, refs := 4, relay := some 3, func := 1
               flags := { DYNAMIC := true, SUBINSERTED := true, RBINSERTED := true }
               txcmd := DMSGF_CREATE ||| 0x102, rxcmd := DMSGF_REPLY, icmd := 0x102 }
      else if a = 2 then
        (ex_relay_eng.heap 2).map fun s => { s with subq := [4], refs := 3 }
      else ex_relay_eng.heap a
    statewr_tree := fun k => if k = 4 then some 4 else none
    brk := 5 }

/-- A later message on the transaction at address 3: `DELETE|0x102` over the
circuit 7, with a core header only. -/
def ex_relay_msg2 : dmsg_msg :=
  { state := some 3
    head := { dmsg_hdr.zero with
              magic := DMSG_HDR_MAGIC, cmd := DMSGF_DELETE ||| 0x101, msgid := 9, circuit := 7
              error := 6 }
    ext := [], hdr_size := 64, aux_data := none, aux_size := 0, tcmd := 0 }

/-- What the relay scenario shows: the state, command and error of the
message relayed and of the message forwarded, whether the extended header,
the sizes and the payload are the same and the payload pointer of the message
relayed is cleared, the links of the two states before and after, and the
assertion flag. -/
structure relay_outcome where
  lmsg : Option Nat × Nat × Nat
  rmsg : Option Nat × Nat × Nat
  copied : Bool
  before : List (Option (Option Nat × Int))
  after : List (Option (Option Nat × Int))
  assert_failed : Bool
deriving DecidableEq, Repr

/-- The `relay_outcome` of `dmsg_state_relay`, up to its call of
`dmsg_msg_write`, on the message `m`, for the states at the addresses `l`
and `r`. -/
def relay_outcome_of (e : dmsg_engine) (m : dmsg_msg) (l r : Nat) : Option relay_outcome :=
  (dmsg_state_relay_msg e m).map fun x =>
    { lmsg := (m.state, m.head.cmd, m.head.error)
      rmsg := (x.2.2.state, x.2.2.head.cmd, x.2.2.head.error)
      copied := decide (x.2.2.ext = m.ext ∧ x.2.2.hdr_size = m.hdr_size ∧
        x.2.2.aux_size = m.aux_size ∧ x.2.2.aux_data = m.aux_data ∧
        m.aux_data ≠ none ∧ x.2.1.aux_data = none)
      before := link_view e l r
      after := link_view x.1 l r
      assert_failed := x.1.assert_failed }

/-- What the message `rmsg` forwarded by `dmsg_state_relay` takes from the
message `lmsg`: every bit of the command but `REVTRANS` and `REVCIRC`, the
error, the extended header with its size, the payload size and the payload
buffer itself. -/
def relay_copy (lmsg rmsg : dmsg_msg) : Prop :=
  rmsg.head.cmd &&& not32 (DMSGF_REVTRANS ||| DMSGF_REVCIRC) =
    lmsg.head.cmd &&& not32 (DMSGF_REVTRANS ||| DMSGF_REVCIRC) ∧
  rmsg.head.error = lmsg.head.error ∧ rmsg.ext = lmsg.ext ∧
  rmsg.hdr_size = lmsg.hdr_size ∧ rmsg.aux_size = lmsg.aux_size ∧
  rmsg.aux_data = lmsg.aux_data

/-- The command that `dmsg_msg_alloc` stores for the command `cmd`: `REVTRANS`
is set when the state of the message is `OPPOSITE` (`t`), `REVCIRC` when its
parent is (`c`). -/
def alloc_cmd (cmd : Nat) (t c : Bool) : Nat :=
  if c then (if t then cmd ||| DMSGF_REVTRANS else cmd) ||| DMSGF_REVCIRC
  else (if t then cmd ||| DMSGF_REVTRANS else cmd)

/-- A connection whose engine is `ex_relay_eng`. -/
def ex_relay_conn : dmsg_iocom :=
  { dmsg_iocom_init ex_env false [] [] with eng := ex_relay_eng }

/-- A connection whose engine is `ex_relay_eng2`. -/
def ex_relay_conn2 : dmsg_iocom :=
  { dmsg_iocom_init ex_env false [] [] with eng := ex_relay_eng2 }

/-! ## The command fields of the states -/

/-- The receive side of a transaction has begun: `rxcmd` has `CREATE` or
`REPLY`. -/
def rx_begun (rxcmd : Nat) : Prop := rxcmd &&& (DMSGF_CREATE ||| DMSGF_REPLY) ≠ 0

/-- What holds of every state whatever the traffic: it does not carry `NEW`,
a dynamic state is not the root and its receive side has begun, and a state
that carries `RBINSERTED` is dynamic. -/
def state_cmd_ok (s : dmsg_state) : Prop :=
  s.flags.NEW = false ∧ (s.flags.DYNAMIC = true → s.flags.ROOT = false ∧ rx_begun s.rxcmd) ∧
  (s.flags.RBINSERTED = true → s.flags.DYNAMIC = true)

/-- Every allocated state is as `state_cmd_ok` says. -/
def cmd_inv (e : dmsg_engine) : Prop :=
  ∀ a s, e.heap a = some s → state_cmd_ok s

/-- The direction of a dynamic state is the same in its three records:
`OPPOSITE` is set exactly when `txcmd` has `REPLY`, and exactly when `rxcmd`
lacks `REPLY`. -/
def state_dir_ok (s : dmsg_state) : Prop :=
  s.flags.DYNAMIC = true →
    (s.flags.OPPOSITE = true ↔ s.txcmd &&& DMSGF_REPLY ≠ 0) ∧
    (s.flags.OPPOSITE = true ↔ s.rxcmd &&& DMSGF_REPLY = 0)

/-- Every allocated state is as `state_dir_ok` says. -/
def dir_inv (e : dmsg_engine) : Prop :=
  ∀ a s, e.heap a = some s → state_dir_ok s

/-- A step of the engine: it keeps `cmd_inv`, and unless one of its assertions
fails it keeps `dir_inv`, given `T` (the assertion flag is never cleared). -/
def cstep (T : Prop) (e e1 : dmsg_engine) : Prop :=
  (cmd_inv e → cmd_inv e1) ∧
  (e1.assert_failed = false → e.assert_failed = false ∧ (T → dir_inv e → dir_inv e1))

/-- The message `msg` is written in the direction of its state: when it
carries `CREATE` and its state is dynamic, it carries `REPLY` exactly when the
state is `OPPOSITE`. -/
def write_dir_ok (e : dmsg_engine) (msg : dmsg_msg) : Bool :=
  match msg.state.bind e.heap with
  | some s =>
    !s.flags.DYNAMIC || decide (msg.head.cmd &&& DMSGF_CREATE = 0) ||
      (decide (msg.head.cmd &&& DMSGF_REPLY ≠ 0) == s.flags.OPPOSITE)
  | none => true

/-- The call `op` on the connection `c` writes in the direction of the state:
a `dmsg_msg_write` is given a message as `write_dir_ok` says. -/
def op_dir_ok (c : conn) : conn_op → Bool
  | .write i =>
    match c.held[i]? with
    | some m => write_dir_ok c.ic.eng m
    | none => true
  | _ => true

/-- Every `dmsg_msg_write` of the calls `ops`, made one after the other from
the connection `c` on, writes in the direction of the state. -/
def run_dir_ok (fuel : Nat) (env : Env) : List conn_op → conn → Bool
  | [], _ => true
  | op :: ops, c =>
    op_dir_ok c op &&
      match conn_apply fuel env c op with
      | some c1 => run_dir_ok fuel env ops c1
      | none => true

/-- A step of the parser that leaves the heap alone and does not clear the
record of a failed assertion. -/
def rx_mono (ic ic1 : dmsg_iocom) : Prop :=
  ic1.eng.heap = ic.eng.heap ∧ (ic1.eng.assert_failed = false → ic.eng.assert_failed = false)

/-! ## Inputs for the direction of the trees -/

/-- What the statements on the direction look at in the state at the address
`a`: its flags `DYNAMIC` and `OPPOSITE`, whether `txcmd` and `rxcmd` have
`REPLY`, and whether `staterd_tree` and `statewr_tree` hold the state under
its `msgid`. -/
structure dir_view where
  dynamic : Bool
  opposite : Bool
  tx_reply : Bool
  rx_reply : Bool
  in_rd : Bool
  in_wr : Bool
deriving DecidableEq, Repr

/-- The view `dir_view` of the state at the address `a`. -/
def dir_view_of (e : dmsg_engine) (a : Nat) : Option dir_view :=
  (e.heap a).map fun s =>
    { dynamic := s.flags.DYNAMIC
      opposite := s.flags.OPPOSITE
      tx_reply := decide (s.txcmd &&& DMSGF_REPLY ≠ 0)
      rx_reply := decide (s.rxcmd &&& DMSGF_REPLY ≠ 0)
      in_rd := decide (e.staterd_tree s.msgid = some a)
      in_wr := decide (e.statewr_tree s.msgid = some a) }

/-- This side opens a transaction (`dmsg_msg_alloc` and `dmsg_msg_write` of
`CREATE|0x101` on `state0`; the state is at address 1) and then writes a
message with `CREATE|REPLY` on that transaction. -/
def ex_ops_misdirected : List conn_op :=
  [.alloc 0 0 (DMSGF_CREATE ||| 0x101) 0 false, .write 0,
   .alloc 1 0 (DMSGF_CREATE ||| DMSGF_REPLY ||| 0x101) 0 false, .write 0]

/-- This side opens a transaction (the state at address 1), then
`dmsg_ioq_read` returns the message with which the peer opens and closes one
(the state at address 2). -/
def ex_ops_directed : List conn_op :=
  [.alloc 0 0 (DMSGF_CREATE ||| 0x101) 0 false, .write 0, .read]

/-- This side opens and closes a transaction in one message: `dmsg_msg_alloc`
and `dmsg_msg_write` of `CREATE|DELETE|0x101` on `state0`.  The state, at
address 1, is closed on the transmit side and waits for the reply. -/
def ex_ops_oneway : List conn_op :=
  [.alloc 0 0 (DMSGF_CREATE ||| DMSGF_DELETE ||| 0x101) 0 false, .write 0]

/-- What the statement on the synthesized `DELETE` looks at in a state: the
flags `DYNAMIC` and `RBINSERTED`, the parent, whether `rxcmd` and `txcmd` have
`DELETE`, and the entry of `statewr_tree` under its `msgid`. -/
structure open_view where
  dynamic : Bool
  rbinserted : Bool
  parent : Option Nat
  rx_delete : Bool
  tx_delete : Bool
  wr_entry : Option Nat
  rxcmd : Nat
deriving DecidableEq, Repr

/-- The view `open_view` of the state at the address `a`. -/
def open_view_of (e : dmsg_engine) (a : Nat) : Option open_view :=
  (e.heap a).map fun s =>
    { dynamic := s.flags.DYNAMIC
      rbinserted := s.flags.RBINSERTED
      parent := s.parent
      rx_delete := decide (s.rxcmd &&& DMSGF_DELETE ≠ 0)
      tx_delete := decide (s.txcmd &&& DMSGF_DELETE ≠ 0)
      wr_entry := e.statewr_tree s.msgid
      rxcmd := s.rxcmd }

/-! ## The room that `HEADER2` relies on -/

/-- The room that the case `HEADER2` of `dmsg_ioq_read` relies on: the cursors
of the FIFO are in order up to `fifo_end`, and the decrypted bytes together
with half of the free space at the tail cover the extended header (what
`dmsg_ioq_makeroom(ioq, ioq->hbytes)` establishes). -/
def hdr2_room (q : dmsg_ioq) : Prop :=
  q.fifo_beg ≤ q.fifo_cdx ∧ q.fifo_cdx ≤ q.fifo_end ∧
  q.hbytes ≤ (q.fifo_cdx - q.fifo_beg) + (q.buf.length - q.fifo_end) / 2

/-- The receive side of a plaintext link whose buffer holds two extended
headers: while the parser waits in `HEADER2` without error, the FIFO has the
room `hdr2_room`. -/
def hdr2_inv (env : Env) (ic : dmsg_iocom) : Prop :=
  ic.flags.CRYPTED = false ∧ 2 * env.sizeof_any ≤ ic.ioq_rx.buf.length ∧
  (ic.ioq_rx.state = .HEADER2 → ic.ioq_rx.error = 0 → hdr2_room ic.ioq_rx)

/-- What a case of the `switch` leaves for the next call on a plaintext link:
the link stays plaintext, the buffer has not shrunk, and a parser left in
`HEADER2` without error either has completed a frame or has the room
`hdr2_room`. -/
def hdr2_post (ic : dmsg_iocom) (r : switch_result) : Prop :=
  r.ic.flags.CRYPTED = false ∧ ic.ioq_rx.buf.length ≤ r.ic.ioq_rx.buf.length ∧
  (r.ic.ioq_rx.state = .HEADER2 → r.ic.ioq_rx.error = 0 →
    (r.msgp = true ∧ r.ic.ioq_rx.msg.isSome = true) ∨ hdr2_room r.ic.ioq_rx)

/-- A fresh connection whose socket delivers one frame with an extended header
of 128 bytes and a payload in three pieces: 70 bytes, 30 bytes and the rest. -/
def ex_split_conn : conn :=
  conn_init ex_env false
    [sock_event.data ((ex_frame_ext (DMSGF_CREATE ||| 0x102) 7 0 0 ex_ext).take 70),
     sock_event.data (((ex_frame_ext (DMSGF_CREATE ||| 0x102) 7 0 0 ex_ext).drop 70).take 30),
     sock_event.data ((ex_frame_ext (DMSGF_CREATE ||| 0x102) 7 0 0 ex_ext).drop 100)] []

/-- What the statement on the room of `HEADER2` looks at in a receive queue:
the state of the parser, its error, the bytes buffered, `hbytes` and the free
space at the tail. -/
structure room_view where
  state : msgq_state
  error : Nat
  bytes : Nat
  hbytes : Nat
  nmax : Nat
deriving DecidableEq, Repr

/-- The view `room_view` of the receive queue of a connection. -/
def room_view_of (ic : dmsg_iocom) : room_view :=
  { state := ic.ioq_rx.state
    error := ic.ioq_rx.error
    bytes := ic.ioq_rx.fifo_cdx - ic.ioq_rx.fifo_beg
    hbytes := ic.ioq_rx.hbytes
    nmax := ic.ioq_rx.buf.length - ic.ioq_rx.fifo_end }

/-! ## The progress of the failure cascade -/

/-- What a step of the failure cascade leaves: it allocates no state, and a
state that is allocated afterwards was allocated before and has kept its
`ABORTING` flag if it was set. -/
def casc (e e1 : dmsg_engine) : Prop :=
  e1.brk = e.brk ∧ ∀ a s1, e1.heap a = some s1 →
    ∃ s, e.heap a = some s ∧ (s.flags.ABORTING = true → s1.flags.ABORTING = true)

/-- The state at the address `a` is allocated and not `ABORTING`: the loop of
`dmsg_simulate_failure` recurses into such a child and steps over the others. -/
def live (e : dmsg_engine) (a : Nat) : Bool :=
  match e.heap a with
  | some s => !s.flags.ABORTING
  | none => false

/-- The number of allocated states that are not `ABORTING`. -/
def live_count (e : dmsg_engine) : Nat :=
  (List.range e.brk).countP (live e)

/-- The number of children from the cursor `c` of `TAILQ_FOREACH` to the end
of the queue `l`, the cursor included. -/
def scan_left (l : List Nat) : Option Nat → Nat
  | none => 0
  | some y => (l.dropWhile fun a => decide (a ≠ y)).length + 1

/-- The fuel that is enough for `dmsg_simulate_failure` on an engine whose
allocation mark is `e.brk`: every recursion into a child makes one more state
`ABORTING`, and between two recursions the loop steps over at most the whole
queue. -/
def cascade_fuel (e : dmsg_engine) : Nat :=
  (e.brk + 1) * (e.brk + 3)

/-! ## Forests of open transactions on a connection -/

/-- The tree in which `dmsg_state_msgrx` keeps the state `s`: `statewr_tree`
when its `rxcmd` has `REPLY`, `staterd_tree` otherwise. -/
def rx_tree (e : dmsg_engine) (s : dmsg_state) : Option Nat :=
  if s.rxcmd &&& DMSGF_REPLY ≠ 0 then e.statewr_tree s.msgid else e.staterd_tree s.msgid

/-- The engine and the message at the moment `dmsg_ioq_read` calls
`dmsg_state_msgrx` for the frame that waits on the socket of `ex_conn_raced`:
the message is allocated on `state0` and carries the command and the
identifier of the frame. -/
def ex_raced_wire : Option (dmsg_engine × dmsg_msg) :=
  ex_conn_raced.bind fun c =>
    (dmsg_msg_alloc_locked c.ic.eng 0 0
      ((DMSGF_DELETE ||| DMSGF_REPLY ||| DMSGF_ABORT ||| DMSGF_REVTRANS ||| 0x101) &&& DMSGF_SIZE)
      0 false).map fun am =>
      (am.1, { am.2 with head := { am.2.head with
        cmd := DMSGF_DELETE ||| DMSGF_REPLY ||| DMSGF_ABORT ||| DMSGF_REVTRANS ||| 0x101,
        msgid := 1 } })

/-- The engine of `ex_raced_wire`. -/
def ex_raced_eng : dmsg_engine :=
  match ex_raced_wire with
  | some w => w.1
  | none => (conn_init ex_env false [] []).ic.eng

/-- The message of `ex_raced_wire`. -/
def ex_raced_msg : dmsg_msg :=
  match ex_raced_wire with
  | some w => w.2
  | none => ex_rx_msg 0 0

/-- The case `DMSG_MSGQ_STATE_HEADER1` of the `switch` up to its check ("Check
and fixup the core header"): room is made for a core header, the socket is
read when fewer than `sizeof(ioq->buf.head)` bytes are decrypted, and the data
received so far is decrypted.  The result is the connection on which the core
header is checked; `none` when the case is left before the check, because the
read failed or the core header is still incomplete. -/
def header1_arrival (env : Env) (ic : dmsg_iocom) : Option dmsg_iocom :=
  let msgp := ic.ioq_rx.msg.isSome
  let bytes := ic.ioq_rx.fifo_cdx - ic.ioq_rx.fifo_beg
  let mr := dmsg_ioq_makeroom ic.ioq_rx sizeof_head
  let ic0 := { ic with ioq_rx := mr.1 }
  let rd : sock_read_result :=
    if bytes < sizeof_head then ioq_sock_read ic0 mr.2
    else { ic := ic0, nmax := mr.2, brk := false }
  if rd.brk then none
  else
    let ic2 := (ioq_decrypt env rd.ic).check (!msgp)
    if ic2.ioq_rx.fifo_cdx - ic2.ioq_rx.fifo_beg < sizeof_head then none else some ic2

/-- Every state that is on a queue and whose `rxcmd` lacks `DELETE` is in the
tree that its `rxcmd` selects: `dmsg_state_abort` closes such a transaction and
removes it from that tree when its `txcmd` has `DELETE` too, and `RB_REMOVE` of
a state that is not in the tree is undefined (`RB_INSERT` leaves a state out
of the tree when its identifier is taken). -/
def reg_inv (e : dmsg_engine) : Prop :=
  ∀ a s, e.heap a = some s → s.flags.SUBINSERTED = true → s.rxcmd &&& DMSGF_DELETE = 0 →
    rx_tree e s = some a

/-- The states of the references `H` are allocated. -/
def alive (e : dmsg_engine) (H : List Nat) : Prop :=
  ∀ a, a ∈ H → ∃ s, e.heap a = some s

/-- The condition of `reg_inv` on the states below the allocation mark, as a
test. -/
def reg_okb (e : dmsg_engine) : Bool :=
  (List.range e.brk).all fun a =>
    match e.heap a with
    | some s =>
      !s.flags.SUBINSERTED || decide (s.rxcmd &&& DMSGF_DELETE ≠ 0) ||
        decide (rx_tree e s = some a)
    | none => true

/-- A step that removes from the trees no entry of a state other than `x`. -/
def tkeep (x : Nat) (e e1 : dmsg_engine) : Prop :=
  ∀ m z, z ≠ x → (e.staterd_tree m = some z → e1.staterd_tree m = some z) ∧
    (e.statewr_tree m = some z → e1.statewr_tree m = some z)

/-- The invariants under which the failure cascade runs: the accounting
`eng_inv` under the references `H` that the running calls of
`dmsg_simulate_failure` hold and the other outside references `L`, the queue
shape `tree_inv`, the command fields `cmd_inv`, the registration `reg_inv`, and
the states held by the running calls are allocated. -/
def casc_inv (e : dmsg_engine) (H L : List Nat) : Prop :=
  eng_inv e (H ++ L) ∧ tree_inv e ∧ cmd_inv e ∧ reg_inv e ∧ alive e H

/-- A step after which every allocated state was allocated before and has kept
the `DELETE` of its `rxcmd` if it had it. -/
def rxd (e e1 : dmsg_engine) : Prop :=
  ∀ a s1, e1.heap a = some s1 →
    ∃ s, e.heap a = some s ∧ (s.rxcmd &&& DMSGF_DELETE ≠ 0 → s1.rxcmd &&& DMSGF_DELETE ≠ 0)

/-- The calls that leave transactions in every stage on the connection
`ex_conn_fresh`: `dmsg_ioq_read` returns the one-shot `CREATE|DELETE` of the
peer (state 1, its receive side closed, not yet answered), the user opens a
transaction (state 2) and one under it (state 3), and opens and writes a
one-way transaction (state 4, its transmit side closed). -/
def ex_ops_mixed : List conn_op :=
  [.read, .alloc 0 0 (DMSGF_CREATE ||| 0x101) 0 false, .alloc 2 0 (DMSGF_CREATE ||| 0x101) 0 false,
   .alloc 0 0 (DMSGF_CREATE ||| DMSGF_DELETE ||| 0x101) 0 false, .write 0]

/-- What the statements on the cascade look at in an engine: the states of the
messages that the callback received, and for the addresses below `n` the
queue and the flag `ABORTING` of the state. -/
def casc_view (n : Nat) (e : dmsg_engine) :
    List (Option Nat) × List (Option (List Nat × Bool)) :=
  (e.rcvd.map fun m => m.state,
   (List.range n).map fun a => (e.heap a).map fun s => (s.subq, s.flags.ABORTING))

/-- A message on the state at address `x` with the command `cmd`. -/
def ex_msg_on (x cmd : Nat) : dmsg_msg :=
  { state := some x
    head := { dmsg_hdr.zero with magic := DMSG_HDR_MAGIC, cmd := cmd }
    ext := [], hdr_size := 64, aux_data := none, aux_size := 0, tcmd := 0 }

/-- The calls that leave a `DYING` transaction with an open receive side: the
user opens a transaction (state 1), `dmsg_ioq_read` meets the failure of the
socket and runs the cascade, which aborts the transaction 1, and the user
opens a transaction under it (state 2), which inherits `DYING`. -/
def ex_ops_dying : List conn_op :=
  [.alloc 0 0 (DMSGF_CREATE ||| 0x101) 0 false, .read,
   .alloc 1 0 (DMSGF_CREATE ||| 0x101) 0 false]

/-! ## Theorems -/

/-! ## Receive path: general facts -/

theorem makeroom_noop (q : dmsg_ioq) (n : Nat) (h : n ≤ q.fifo_cdx - q.fifo_beg) :
    dmsg_ioq_makeroom q n = (q, q.buf.length - q.fifo_end) := by
  unfold dmsg_ioq_makeroom
  simp only []
  rw [if_neg]
  omega

theorem makeroom_same (q : dmsg_ioq) (n : Nat) :
    (dmsg_ioq_makeroom q n).1.msgq = q.msgq ∧ (dmsg_ioq_makeroom q n).1.seq = q.seq ∧
    (dmsg_ioq_makeroom q n).1.accepted = q.accepted ∧
    (dmsg_ioq_makeroom q n).1.msg = q.msg ∧ (dmsg_ioq_makeroom q n).1.error = q.error ∧
    (dmsg_ioq_makeroom q n).1.state = q.state ∧ (dmsg_ioq_makeroom q n).1.hbytes = q.hbytes ∧
    (dmsg_ioq_makeroom q n).1.abytes = q.abytes ∧
    (dmsg_ioq_makeroom q n).1.unaligned_aux_size = q.unaligned_aux_size := by
  unfold dmsg_ioq_makeroom
  simp only []
  split <;> simp

theorem rx_same_refl (ic : dmsg_iocom) : rx_same ic ic := by
  simp [rx_same]

theorem rx_same_trans {a b c : dmsg_iocom} (h1 : rx_same a b) (h2 : rx_same b c) :
    rx_same a c := by
  obtain ⟨p1, p2, p3, p4, p5, p6⟩ := h1
  obtain ⟨q1, q2, q3, q4, q5, q6⟩ := h2
  exact ⟨q1.trans p1, q2.trans p2, q3.trans p3, q4.trans p4, q5.trans p5, q6.trans p6⟩

theorem sock_read_same (ic : dmsg_iocom) (nmax : Nat) : rx_same ic (ioq_sock_read ic nmax).ic := by
  unfold ioq_sock_read
  simp only []
  split
  · simp [rx_same]
  · simp [rx_same]
  · simp [rx_same]
  · simp [rx_same]
  · split <;> simp [rx_same]

theorem decrypt_same (env : Env) (ic : dmsg_iocom) : rx_same ic (ioq_decrypt env ic) := by
  unfold ioq_decrypt
  split <;> simp [rx_same]

theorem check_same (ic : dmsg_iocom) (b : Bool) : rx_same ic (ic.check b) := by
  simp [rx_same, dmsg_iocom.check]

theorem makeroom_rx_same (ic : dmsg_iocom) (n : Nat) :
    rx_same ic { ic with ioq_rx := (dmsg_ioq_makeroom ic.ioq_rx n).1 } := by
  have hm := makeroom_same ic.ioq_rx n
  simp only [rx_same]
  simp [hm]

theorem auxdata2_copy_same (env : Env) (ic : dmsg_iocom) (msg : dmsg_msg) (r : switch_result)
    (h : dmsg_ioq_read_AUXDATA2_copy env ic msg = some r) : rx_same ic r.ic := by
  unfold dmsg_ioq_read_AUXDATA2_copy at h
  simp only [Option.bind_eq_some] at h
  obtain ⟨aux1, -, h⟩ := h
  split_ifs at h <;>
    (injection h with h; subst h; simp [rx_same, dmsg_iocom.check])

theorem auxdata2_same (env : Env) (ic : dmsg_iocom) (bytes : Nat) (r : switch_result)
    (h : dmsg_ioq_read_AUXDATA2 env ic bytes = some r) : rx_same ic r.ic := by
  unfold dmsg_ioq_read_AUXDATA2 at h
  simp only [Option.bind_eq_some] at h
  obtain ⟨msg, -, h⟩ := h
  have h0 := rx_same_trans (check_same ic ic.ioq_rx.msg.isSome)
    (makeroom_rx_same (ic.check ic.ioq_rx.msg.isSome)
      ((ic.check ic.ioq_rx.msg.isSome).ioq_rx.abytes - msg.aux_size))
  generalize hrd : (if msg.aux_size < _ then ioq_sock_read _ _
      else ({ ic := _, nmax := _, brk := false } : sock_read_result)) = rd at h
  have key : rx_same ic rd.ic := by
    rw [← hrd]
    split
    · exact rx_same_trans h0 (rx_same_trans (check_same _ _)
        (rx_same_trans (check_same _ _) (sock_read_same _ _)))
    · exact h0
  split_ifs at h
  · injection h with h
    subst h
    exact key
  · exact rx_same_trans key (rx_same_trans (decrypt_same env _) (auxdata2_copy_same env _ _ _ h))

theorem auxdata1_same (env : Env) (ic : dmsg_iocom) (bytes : Nat) (r : switch_result)
    (h : dmsg_ioq_read_AUXDATA1 env ic bytes = some r) : rx_same ic r.ic := by
  unfold dmsg_ioq_read_AUXDATA1 at h
  simp only [Option.bind_eq_some] at h
  obtain ⟨msg, -, h⟩ := h
  split_ifs at h
  all_goals first
    | (simp only [Option.bind_eq_some] at h
       obtain ⟨aux1, -, h⟩ := h
       refine rx_same_trans ?_ (auxdata2_same env _ _ _ h)
       simp [rx_same, dmsg_iocom.check])
    | (refine rx_same_trans ?_ (auxdata2_same env _ _ _ h)
       simp [rx_same])

theorem header2_check_same (env : Env) (ic : dmsg_iocom) (r : switch_result)
    (h : dmsg_ioq_read_HEADER2_check env ic = some r) : rx_same ic r.ic := by
  unfold dmsg_ioq_read_HEADER2_check at h
  simp only [] at h
  split at h
  · injection h with h
    subst h
    simp [rx_same, dmsg_iocom.check]
  · simp only [Option.bind_eq_some] at h
    obtain ⟨msg, -, h⟩ := h
    split at h
    · injection h with h
      subst h
      simp [rx_same]
    · refine rx_same_trans ?_ (auxdata1_same env _ _ _ h)
      simp [rx_same]

theorem header2_same (env : Env) (ic : dmsg_iocom) (bytes nmax : Nat) (r : switch_result)
    (h : dmsg_ioq_read_HEADER2 env ic bytes nmax = some r) : rx_same ic r.ic := by
  unfold dmsg_ioq_read_HEADER2 at h
  simp only [] at h
  generalize hrd : (if bytes < (ic.check ic.ioq_rx.msg.isSome).ioq_rx.hbytes then
        ioq_sock_read ((ic.check ic.ioq_rx.msg.isSome).check (decide (nmax > 0))) nmax
      else ({ ic := ic.check ic.ioq_rx.msg.isSome, nmax := nmax, brk := false } :
        sock_read_result)) = rd at h
  have key : rx_same ic rd.ic := by
    rw [← hrd]
    split
    · exact rx_same_trans (check_same _ _) (rx_same_trans (check_same _ _) (sock_read_same _ _))
    · exact check_same _ _
  split_ifs at h
  · injection h with h
    subst h
    exact key
  · injection h with h
    subst h
    exact rx_same_trans key (decrypt_same env _)
  · exact rx_same_trans key (rx_same_trans (decrypt_same env _) (header2_check_same env _ _ h))

theorem header1_check_same (env : Env) (ic : dmsg_iocom) (msgp : Bool) (r : switch_result)
    (h : dmsg_ioq_read_HEADER1_check env ic msgp = some r) : rx_same ic r.ic := by
  unfold dmsg_ioq_read_HEADER1_check at h
  simp only [] at h
  split at h
  · injection h with h
    subst h
    simp [rx_same]
  · split at h
    · injection h with h
      subst h
      simp [rx_same]
    · simp only [Option.bind_eq_some] at h
      obtain ⟨am, -, h⟩ := h
      refine rx_same_trans ?_ (header2_same env _ _ _ _ h)
      simp [rx_same, makeroom_same]

theorem header1_same (env : Env) (ic : dmsg_iocom) (bytes : Nat) (r : switch_result)
    (h : dmsg_ioq_read_HEADER1 env ic bytes = some r) : rx_same ic r.ic := by
  unfold dmsg_ioq_read_HEADER1 at h
  simp only [] at h
  generalize hrd : (if bytes < sizeof_head then ioq_sock_read _ _
      else ({ ic := _, nmax := _, brk := false } : sock_read_result)) = rd at h
  have key : rx_same ic rd.ic := by
    rw [← hrd]
    split
    · exact rx_same_trans (makeroom_rx_same _ _) (sock_read_same _ _)
    · exact makeroom_rx_same _ _
  split_ifs at h
  · injection h with h
    subst h
    exact key
  · injection h with h
    subst h
    exact rx_same_trans key (rx_same_trans (decrypt_same env _) (check_same _ _))
  · exact rx_same_trans key (rx_same_trans (decrypt_same env _)
      (rx_same_trans (check_same _ _) (header1_check_same env _ _ _ h)))

theorem switch_same (env : Env) (ic : dmsg_iocom) (r : switch_result)
    (h : dmsg_ioq_read_switch env ic = some r) : rx_same ic r.ic := by
  unfold dmsg_ioq_read_switch at h
  simp only [] at h
  split at h
  · exact header1_same env _ _ _ h
  · exact header2_same env _ _ _ _ h
  · exact auxdata1_same env _ _ _ h
  · exact auxdata2_same env _ _ _ h
  · injection h with h
    subst h
    exact check_same _ _

theorem seq_same (ic : dmsg_iocom) (msgp : Bool) : rx_same' ic (dmsg_ioq_read_seq ic msgp) := by
  unfold dmsg_ioq_read_seq
  split
  · split
    · split <;> simp [rx_same']
    · simp [rx_same']
  · simp [rx_same']

theorem drain_rx (ic ic1 : dmsg_iocom) (h : dmsg_iocom_drain ic = some ic1) :
    ic1.ioq_rx = ic.ioq_rx ∧ ic1.flags.EOF = ic.flags.EOF ∧ ic1.sock = ic.sock := by
  unfold dmsg_iocom_drain at h
  simp only [Option.map_eq_some'] at h
  obtain ⟨e, -, h⟩ := h
  subst h
  simp

theorem skip_rx (fuel : Nat) (ic ic1 : dmsg_iocom) (msg : Option dmsg_msg)
    (h : dmsg_ioq_read_skip fuel ic msg = some ic1) :
    ic1.ioq_rx = { ic.ioq_rx with msg := if msg.isSome then none else ic.ioq_rx.msg,
                                  state := .ERROR } ∧
    ic1.flags.EOF = ic.flags.EOF ∧ ic1.sock = ic.sock := by
  unfold dmsg_ioq_read_skip at h
  simp only [Option.bind_eq_bind, Option.bind_eq_some, Option.pure_def] at h
  obtain ⟨ic2, h2, ic3, h3, e, -, h⟩ := h
  injection h with h
  subst h
  have hd := drain_rx _ _ h3
  simp only at hd ⊢
  rw [hd.1, hd.2.1, hd.2.2]
  cases msg with
  | none =>
    simp only [] at h2
    injection h2 with h2
    subst h2
    simp [dmsg_iocom.check]
  | some m =>
    simp only [Option.map_eq_some'] at h2
    obtain ⟨e2, -, h2⟩ := h2
    subst h2
    simp [dmsg_iocom.check]

theorem done_rx (ic : dmsg_iocom) :
    (dmsg_ioq_read_done ic).ioq_rx.msgq = ic.ioq_rx.msgq ∧
    (dmsg_ioq_read_done ic).ioq_rx.error = ic.ioq_rx.error ∧
    (dmsg_ioq_read_done ic).ioq_rx.seq = ic.ioq_rx.seq ∧
    (dmsg_ioq_read_done ic).ioq_rx.accepted = ic.ioq_rx.accepted ∧
    (dmsg_ioq_read_done ic).flags.EOF = ic.flags.EOF ∧
    (dmsg_ioq_read_done ic).ioq_rx.state = .HEADER1 ∧
    (dmsg_ioq_read_done ic).ioq_rx.msg = none := by
  unfold dmsg_ioq_read_done
  simp only []
  split <;> simp

/-- With an error latched and nothing queued, `dmsg_ioq_read` takes the error
branch once and returns `NULL`. -/
theorem ioq_read_latched (fuel : Nat) (env : Env) (ic : dmsg_iocom)
    (hq : ic.ioq_rx.msgq = []) (he : ic.ioq_rx.error ≠ 0) :
    dmsg_ioq_read (fuel + 1) env ic =
      (dmsg_ioq_read_skip fuel
        { ic with flags := { ic.flags with RREQ := false, RWORK := false } } none).map
        (fun ic3 => (ic3, none)) := by
  rw [dmsg_ioq_read]
  simp only [hq, ne_eq, he, not_false_eq_true, if_true]
  cases hs : dmsg_ioq_read_skip fuel
      { ic with flags := { ic.flags with RREQ := false, RWORK := false } } none with
  | none => simp
  | some ic3 =>
    have h3 := (skip_rx _ _ _ _ hs).1
    simp [h3, hq]

theorem ioq_read_idle : ∀ (fuel : Nat) (env : Env) (ic ic1 : dmsg_iocom) (r : Option dmsg_msg),
    ic.ioq_rx.msgq = [] → dmsg_ioq_read fuel env ic = some (ic1, r) →
    ic1.ioq_rx.msgq = [] ∧ ic1.flags.EOF = ic.flags.EOF ∧ (r.isSome → ic1.ioq_rx.error = 0)
  | 0, _, _, _, _, _, h => by simp [dmsg_ioq_read] at h
  | fuel + 1, env, ic, ic1, r, hq, h => by
    rw [dmsg_ioq_read] at h
    simp only [hq] at h
    -- the error branch, for any connection with an empty queue
    have hskip : ∀ (ic2 : dmsg_iocom) (msg : Option dmsg_msg),
        ic2.ioq_rx.msgq = [] → ic2.flags.EOF = ic.flags.EOF →
        ((dmsg_ioq_read_skip fuel ic2 msg).bind fun ic3 =>
          if ic3.ioq_rx.msgq ≠ [] then dmsg_ioq_read fuel env ic3 else some (ic3, none)) =
          some (ic1, r) →
        ic1.ioq_rx.msgq = [] ∧ ic1.flags.EOF = ic.flags.EOF ∧ (r.isSome → ic1.ioq_rx.error = 0) := by
      intro ic2 msg h2 hf hh
      simp only [Option.bind_eq_some] at hh
      obtain ⟨ic3, hs, hh⟩ := hh
      have h3 := skip_rx _ _ _ _ hs
      have hq3 : ic3.ioq_rx.msgq = [] := by rw [h3.1]; exact h2
      simp only [hq3, ne_eq, not_true_eq_false, if_false] at hh
      injection hh with hh
      injection hh with ha hb
      subst ha hb
      exact ⟨hq3, h3.2.1.trans hf, by simp⟩
    by_cases he : ic.ioq_rx.error = 0
    · simp only [he, ne_eq, not_true_eq_false, if_false, Option.bind_eq_some] at h
      obtain ⟨sw, hsw, h⟩ := h
      have hs1 := switch_same env _ _ hsw
      have hs2 := seq_same sw.ic sw.msgp
      have hq2 : (dmsg_ioq_read_seq sw.ic sw.msgp).ioq_rx.msgq = [] := by
        rw [hs2.1, hs1.1]
        exact hq
      have hf2 : (dmsg_ioq_read_seq sw.ic sw.msgp).flags.EOF = ic.flags.EOF := by
        rw [hs2.2.1, hs1.2.2.2.1]
      by_cases he2 : (dmsg_ioq_read_seq sw.ic sw.msgp).ioq_rx.error = 0
      · simp only [he2, not_true_eq_false, if_false] at h
        split at h
        · injection h with h
          injection h with ha hb
          subst ha hb
          exact ⟨hq2, hf2, by simp⟩
        · rename_i m hm
          simp only [Option.bind_eq_some] at h
          obtain ⟨rr, -, h⟩ := h
          have hd := done_rx (dmsg_ioq_read_seq sw.ic sw.msgp)
          by_cases e1 : rr.error = 0
          · simp only [e1, not_true_eq_false, if_false] at h
            injection h with h
            injection h with ha hb
            subst ha hb
            refine ⟨by simp only; rw [hd.1]; exact hq2, by simp only; rw [hd.2.2.2.2.1]; exact hf2, ?_⟩
            intro _
            simp only
            rw [hd.2.1]
            exact he2
          · simp only [e1, not_false_eq_true, if_true] at h
            by_cases e2 : rr.error = DMSG_IOQ_ERROR_EALREADY
            · simp only [e2, if_true, Option.bind_eq_some] at h
              obtain ⟨e1', -, h⟩ := h
              have ih := ioq_read_idle fuel env _ ic1 r (by simp only; rw [hd.1]; exact hq2) h
              exact ⟨ih.1, by rw [ih.2.1]; simp only; rw [hd.2.2.2.2.1]; exact hf2, ih.2.2⟩
            · simp only [e2, if_false] at h
              exact hskip _ _ (by simp only; rw [hd.1]; exact hq2)
                (by simp only; rw [hd.2.2.2.2.1]; exact hf2) h
      · simp only [he2, not_false_eq_true, if_true] at h
        refine hskip _ _ ?_ ?_ h
        · exact hq2
        · exact hf2
    · simp only [ne_eq, he, not_false_eq_true, if_true] at h
      refine hskip _ _ ?_ ?_ h
      · exact hq
      · rfl

theorem seq_no_msg (ic : dmsg_iocom) : dmsg_ioq_read_seq ic false = ic := by
  unfold dmsg_ioq_read_seq
  split
  · simp
  · rfl

/-- When the parser leaves the `switch` with an error and without a message in
hand, `dmsg_ioq_read` returns `NULL` with that error latched and the parser
in `ERROR`. -/
theorem ioq_read_switch_error (fuel : Nat) (env : Env) (ic ic1 : dmsg_iocom) (r : Option dmsg_msg)
    (sw : switch_result) (hq : ic.ioq_rx.msgq = []) (he : ic.ioq_rx.error = 0)
    (hsw : dmsg_ioq_read_switch env
      { ic with flags := { ic.flags with RREQ := false, RWORK := false } } = some sw)
    (hp : sw.msgp = false) (hse : sw.ic.ioq_rx.error ≠ 0)
    (h : dmsg_ioq_read (fuel + 1) env ic = some (ic1, r)) :
    r = none ∧ ic1.ioq_rx = { sw.ic.ioq_rx with state := .ERROR } := by
  rw [dmsg_ioq_read] at h
  simp only [hq, he, ne_eq, not_true_eq_false, if_false, hsw, Option.some_bind, hp,
    seq_no_msg, hse, not_false_eq_true, if_true, Bool.false_eq_true, Option.bind_eq_some] at h
  obtain ⟨ic3, hs, h⟩ := h
  have h3 := skip_rx _ _ _ _ hs
  have hq3 : ic3.ioq_rx.msgq = [] := by
    rw [h3.1]
    simp only
    rw [(switch_same env _ _ hsw).1]
    exact hq
  simp only [hq3, not_true_eq_false, if_false] at h
  injection h with h
  injection h with ha hb
  subst ha hb
  refine ⟨rfl, ?_⟩
  rw [h3.1]
  simp

/-- C8 (failing input). A frame of one unit with native magic whose
`aux_bytes` is `0xFFFFFFFF`, far above `DMSG_AUX_MAX`, is not rejected: the
32-bit `DMSG_DOALIGN` wraps to an aligned size of 0, the range check passes,
no IOQ error is set and `dmsg_ioq_read` returns the message, whose payload
size is `0xFFFFFFFF`.  The same wrap happens for every `aux_bytes` within 63
of `2 ^ 32`. -/
theorem aux_bytes_wrap_accepted :
    rx_view (dmsg_ioq_read 3 ex_env (ex_conn (hdr_bytes ex_wrap_hdr))) =
      some (0, .HEADER1, false, some (ex_wrap_hdr, 0xFFFFFFFF)) ∧
    ex_env.DMSG_AUX_MAX < ex_wrap_hdr.aux_bytes ∧
    ∀ a, 2 ^ 32 - 63 ≤ a → a < 2 ^ 32 → DMSG_DOALIGN 32 a = 0 := by
  refine ⟨by decide!, by decide!, ?_⟩
  intro a h1 h2
  unfold DMSG_DOALIGN DMSG_ALIGNMASK DMSG_ALIGN
  simp only []
  have : (a + (64 - 1)) % 2 ^ 32 = a + 63 - 2 ^ 32 := by
    rw [Nat.mod_eq_sub_mod (by omega)]
    exact Nat.mod_eq_of_lt (by omega)
  rw [this]
  omega

/-- C4 (failing input). A core header sent by a peer of the opposite byte
order, with a correct CRC, comes out of `dmsg_ioq_read` with every field equal
to the sender's except `hdr_crc`, which is the byte reversal of the sender's
value: `HEADER2` stores the already swapped CRC and `dmsg_bswap_head` swaps it
again. -/
theorem bswap_hdr_crc_reversed :
    rx_view (dmsg_ioq_read 3 ex_env (ex_conn ex_rev_wire)) =
      some (0, .HEADER1, false,
        some ({ ex_rev_hdr with hdr_crc := bswap32 ex_rev_hdr.hdr_crc }, 0)) ∧
    bswap32 ex_rev_hdr.hdr_crc ≠ ex_rev_hdr.hdr_crc ∧
    (hdr_of_bytes ex_rev_wire).magic = DMSG_HDR_MAGIC_REV := by
  refine ⟨by decide!, by decide!, by decide!⟩

/-- With an error latched and nothing queued, a call of `dmsg_ioq_read` that
returns has returned `NULL` and has left the error, the queue and the `EOF`
flag as they were. -/
theorem ioq_read_latched_null (fuel : Nat) (env : Env) (ic ic1 : dmsg_iocom)
    (r : Option dmsg_msg) (hq : ic.ioq_rx.msgq = []) (he : ic.ioq_rx.error ≠ 0)
    (h : dmsg_ioq_read fuel env ic = some (ic1, r)) :
    r = none ∧ ic1.ioq_rx.error = ic.ioq_rx.error ∧ ic1.ioq_rx.msgq = [] ∧
    ic1.flags.EOF = ic.flags.EOF := by
  cases fuel with
  | zero => simp [dmsg_ioq_read] at h
  | succ fuel =>
    rw [ioq_read_latched fuel env ic hq he] at h
    simp only [Option.map_eq_some'] at h
    obtain ⟨ic3, hs, h⟩ := h
    injection h with h1 h2
    subst h1 h2
    have h3 := skip_rx _ _ _ _ hs
    refine ⟨rfl, ?_, ?_, ?_⟩
    · rw [h3.1]
    · rw [h3.1]
      exact hq
    · rw [h3.2.1]

set_option maxRecDepth 100000 in
/-- C2 (failing input). On the connection `ex_lost_conn` (five open
transactions, the peer has closed the socket) the first call of
`dmsg_ioq_read` records the error `EOF`, runs the failure cascade, which
closes every transaction in the receive direction with a `LNK_ERROR`
callback, and returns `NULL`; the next call returns `NULL` again, the callback
has received no message on `state0` and the `EOF` flag is still clear.  No
later call differs: nothing puts a message on `ioq->msgq`, so whenever the
queue is empty a call that returns leaves it empty and leaves the `EOF` flag
as it was, and with an error latched it returns `NULL`. -/
theorem ioq_read_no_final_msg :
    rx_two_calls 10 ex_env ex_lost_conn =
      some { first := false, second := false
             rcvd := [(some 10, 0xFC0FFF01, DMSG_ERR_LOSTLINK),
                      (some 101, 0xFC0FFF01, DMSG_ERR_LOSTLINK),
                      (some 102, 0xFC0FFF01, DMSG_ERR_LOSTLINK),
                      (some 20, 0xFC0FFF01, DMSG_ERR_LOSTLINK),
                      (some 201, 0xFC0FFF01, DMSG_ERR_LOSTLINK)]
             error := DMSG_IOQ_ERROR_EOF, EOF := false } ∧
    (∀ fuel env ic ic1 r, ic.ioq_rx.msgq = [] → dmsg_ioq_read fuel env ic = some (ic1, r) →
      ic1.ioq_rx.msgq = [] ∧ ic1.flags.EOF = ic.flags.EOF ∧
      (ic.ioq_rx.error ≠ 0 → r = none ∧ ic1.ioq_rx.error = ic.ioq_rx.error)) := by
  refine ⟨by decide!, ?_⟩
  intro fuel env ic ic1 r hq h
  have h1 := ioq_read_idle fuel env ic ic1 r hq h
  refine ⟨h1.1, h1.2.1, fun he => ?_⟩
  have h2 := ioq_read_latched_null fuel env ic ic1 r hq he h
  exact ⟨h2.1, h2.2.1⟩

theorem check_assert (e : dmsg_engine) (b : Bool) (h : e.assert_failed = true) :
    (e.check b).assert_failed = true := by
  simp [dmsg_engine.check, h]

theorem adjust_error (l : msgrx_locals) (r : msgrx_result)
    (h : dmsg_state_msgrx_adjust l = some r) : r.error = l.error := by
  unfold dmsg_state_msgrx_adjust at h
  simp only [Option.bind_eq_bind, Option.bind_eq_some, Option.pure_def] at h
  obtain ⟨mst2, -, ms2, -, st2, -, h⟩ := h
  split_ifs at h
  all_goals first
    | (injection h with h; subst h; rfl)
    | (simp only [Option.map_eq_some'] at h
       obtain ⟨e9, -, h⟩ := h
       subst h
       rfl)

theorem put_heap_same (e : dmsg_engine) (p : Nat) (s : dmsg_state) :
    (e.put p s).heap p = some s := by
  simp [dmsg_engine.put]

theorem put_heap_other (e : dmsg_engine) (p q : Nat) (s : dmsg_state) (h : q ≠ p) :
    (e.put p s).heap q = e.heap q := by
  simp [dmsg_engine.put, Function.update, h]

theorem hold_eq (e : dmsg_engine) (p : Nat) (s : dmsg_state) (h : e.heap p = some s) :
    dmsg_state_hold e p = some (e.put p { s with refs := s.refs + 1 }) := by
  simp [dmsg_state_hold, h]

theorem drop_eq_keep (e : dmsg_engine) (p : Nat) (s : dmsg_state) (h : e.heap p = some s)
    (hr : s.refs ≠ 1) :
    dmsg_state_drop e p =
      some ((e.check (decide (s.refs > 0))).put p { s with refs := s.refs - 1 }) := by
  simp [dmsg_state_drop, h, hr]

theorem msgrx_consts :
    DMSGF_CREATE ≠ DMSGF_DELETE ∧ DMSGF_CREATE ≠ DMSGF_REPLY ||| DMSGF_DELETE ∧
    DMSGF_CREATE ||| DMSGF_DELETE ≠ DMSGF_DELETE ∧
    DMSGF_CREATE ||| DMSGF_DELETE ≠ DMSGF_REPLY ||| DMSGF_DELETE ∧
    DMSGF_DELETE ≠ DMSGF_CREATE ∧ DMSGF_DELETE ≠ DMSGF_CREATE ||| DMSGF_DELETE ∧
    DMSGF_REPLY ||| DMSGF_DELETE ≠ DMSGF_CREATE ∧
    DMSGF_REPLY ||| DMSGF_DELETE ≠ DMSGF_CREATE ||| DMSGF_DELETE ∧
    DMSGF_REPLY ||| DMSGF_CREATE ≠ DMSGF_CREATE ∧
    DMSGF_REPLY ||| DMSGF_CREATE ≠ DMSGF_CREATE ||| DMSGF_DELETE ∧
    DMSGF_REPLY ||| DMSGF_CREATE ≠ DMSGF_DELETE ∧
    DMSGF_REPLY ||| DMSGF_CREATE ≠ DMSGF_REPLY ||| DMSGF_DELETE ∧
    DMSGF_REPLY ||| DMSGF_CREATE ||| DMSGF_DELETE ≠ DMSGF_CREATE ∧
    DMSGF_REPLY ||| DMSGF_CREATE ||| DMSGF_DELETE ≠ DMSGF_CREATE ||| DMSGF_DELETE ∧
    DMSGF_REPLY ||| DMSGF_CREATE ||| DMSGF_DELETE ≠ DMSGF_DELETE ∧
    DMSGF_REPLY ||| DMSGF_CREATE ||| DMSGF_DELETE ≠ DMSGF_REPLY ||| DMSGF_DELETE := by
  decide!

/-- The `switch` on a `CREATE` without `REPLY` when the state found is not the
circuit. -/
theorem switch_create_dup (e1 : dmsg_engine) (msg1 : dmsg_msg) (st p : Nat)
    (hsw : msgrx_case msg1 = DMSGF_CREATE ∨ msgrx_case msg1 = DMSGF_CREATE ||| DMSGF_DELETE)
    (hne : st ≠ p) :
    dmsg_state_msgrx_switch e1 msg1 st (some p) =
      some { eng := e1.check false, msg := msg1, state := st,
             error := DMSG_IOQ_ERROR_TRANS } := by
  unfold msgrx_case at hsw
  unfold dmsg_state_msgrx_switch
  simp only [hsw, if_true]
  rw [if_pos]
  simpa using hne

/-- The `switch` on a `REPLY` with `CREATE` when no state was found. -/
theorem switch_reply_nostate (e1 : dmsg_engine) (msg1 : dmsg_msg) (p : Nat)
    (hsw : msgrx_case msg1 = DMSGF_REPLY ||| DMSGF_CREATE ∨
      msgrx_case msg1 = DMSGF_REPLY ||| DMSGF_CREATE ||| DMSGF_DELETE) :
    dmsg_state_msgrx_switch e1 msg1 p (some p) =
      some { eng := e1.check false, msg := msg1, state := p,
             error := DMSG_IOQ_ERROR_TRANS } := by
  obtain ⟨c1, c2, c3, c4, c5, c6, c7, c8, c9, c10, c11, c12, c13, c14, c15, c16⟩ := msgrx_consts
  unfold msgrx_case at hsw
  unfold dmsg_state_msgrx_switch
  rcases hsw with h | h <;> simp only [h, c9, c10, c11, c12, c13, c14, c15, c16, or_self,
    if_false, true_or, or_true, if_true]

/-- The `switch` on a `DELETE` when no state was found, or when the state
found has not received its `CREATE`. -/
theorem switch_delete_bad (e1 : dmsg_engine) (msg1 : dmsg_msg) (st p : Nat) (s : dmsg_state)
    (hsw : msgrx_case msg1 = DMSGF_DELETE ∨ msgrx_case msg1 = DMSGF_REPLY ||| DMSGF_DELETE)
    (hs : e1.heap st = some s) (hbad : st = p ∨ s.rxcmd &&& DMSGF_CREATE = 0) :
    dmsg_state_msgrx_switch e1 msg1 st (some p) =
      some { eng := if msg1.head.cmd &&& DMSGF_ABORT ≠ 0 then e1 else e1.check false,
             msg := msg1, state := st,
             error := if msg1.head.cmd &&& DMSGF_ABORT ≠ 0 then DMSG_IOQ_ERROR_EALREADY
                      else DMSG_IOQ_ERROR_TRANS } := by
  obtain ⟨c1, c2, c3, c4, c5, c6, c7, c8, c9, c10, c11, c12, c13, c14, c15, c16⟩ := msgrx_consts
  unfold msgrx_case at hsw
  unfold dmsg_state_msgrx_switch
  have h1 : ¬ (msg1.head.cmd &&& (DMSGF_CREATE ||| DMSGF_DELETE ||| DMSGF_REPLY) = DMSGF_CREATE ∨
      msg1.head.cmd &&& (DMSGF_CREATE ||| DMSGF_DELETE ||| DMSGF_REPLY) =
        DMSGF_CREATE ||| DMSGF_DELETE) := by
    rcases hsw with h | h <;> simp only [h, c5, c6, c7, c8, or_self, not_false_eq_true]
  simp only [h1, if_false, hsw, if_true]
  by_cases hp : st = p
  · subst hp
    simp only [if_true]
    split_ifs <;> rfl
  · have hcr : s.rxcmd &&& DMSGF_CREATE = 0 := by
      rcases hbad with h | h
      · exact absurd h hp
      · exact h
    have hp' : ¬ (some st = some p) := by simpa using hp
    simp only [hp', if_false, hs, Option.some_bind, hcr, if_true]
    split_ifs <;> rfl

theorem msgrx_eq (e : dmsg_engine) (msg : dmsg_msg) (mst : Nat) (ms : dmsg_state)
    (pstate : Option Nat) (mstate : Bool)
    (hst : msg.state = some mst) (hms : e.heap mst = some ms)
    (hcirc : dmsg_state_msgrx_circuit e msg mstate ms = some pstate) :
    dmsg_state_msgrx e msg mstate =
      (dmsg_state_msgrx_assign e msg mstate mst pstate
        (dmsg_state_msgrx_find e msg mstate mst)).bind fun a =>
      a.2.2.bind fun state =>
      (dmsg_state_msgrx_switch a.1 a.2.1 state pstate).bind dmsg_state_msgrx_adjust := by
  unfold dmsg_state_msgrx
  simp only [hst, hms, hcirc, Option.bind_eq_bind, Option.some_bind]

/-- C9 (counterexample). The state at address 5 is registered under the
identifier 7; a `CREATE` without `REPLY` for the identifier 7 that has `ABORT`
set is a forbidden combination, and `dmsg_state_msgrx` returns `TRANS`, not
`EALREADY`. -/
theorem msgrx_create_abort_trans :
    msgrx_case (ex_rx_msg (DMSGF_CREATE ||| DMSGF_ABORT ||| 0x101) 7) = DMSGF_CREATE ∧
    (ex_rx_msg (DMSGF_CREATE ||| DMSGF_ABORT ||| 0x101) 7).head.cmd &&& DMSGF_ABORT ≠ 0 ∧
    dmsg_state_msgrx_find ex_rx_eng
      (ex_rx_msg (DMSGF_CREATE ||| DMSGF_ABORT ||| 0x101) 7) false 0 = some 5 ∧
    (dmsg_state_msgrx ex_rx_eng
      (ex_rx_msg (DMSGF_CREATE ||| DMSGF_ABORT ||| 0x101) 7) false).map
        (fun r => r.error) = some DMSG_IOQ_ERROR_TRANS ∧
    DMSG_IOQ_ERROR_TRANS ≠ DMSG_IOQ_ERROR_EALREADY := by
  refine ⟨by decide!, by decide!, by decide!, by decide!, by decide!⟩

/-- C10 (failing input). On the engine `ex_rx_eng` the identifier 7 is taken
in `staterd_tree` and free in `statewr_tree`.  A `CREATE` without `REPLY` that
has `REVTRANS` set is looked up in `statewr_tree`, finds no state, and
`dmsg_state_msgrx` returns 0 with a new state (at address 6) that is flagged
`RBINSERTED` and holds three references; but `RB_INSERT` into `staterd_tree`
found the key taken, and the tree still maps the identifier 7 to the old
state 5: the new state is in no tree. -/
theorem msgrx_create_collision :
    ex_rx_eng.statewr_tree 7 = none ∧
    msgrx_case (ex_rx_msg (DMSGF_CREATE ||| DMSGF_REVTRANS ||| 0x101) 7) = DMSGF_CREATE ∧
    (dmsg_state_msgrx ex_rx_eng
      (ex_rx_msg (DMSGF_CREATE ||| DMSGF_REVTRANS ||| 0x101) 7) false).map
        (fun r => (r.error, r.msg.state, r.eng.staterd_tree 7, r.eng.statewr_tree 7)) =
      some (0, some 6, some 5, none) ∧
    (dmsg_state_msgrx ex_rx_eng
      (ex_rx_msg (DMSGF_CREATE ||| DMSGF_REVTRANS ||| 0x101) 7) false).bind
        (fun r => (r.eng.heap 6).map fun s => (s.flags.RBINSERTED, s.refs, s.msgid)) =
      some (true, 3, 7) := by
  refine ⟨by decide!, by decide!, by decide!, by decide!⟩
theorem slice_all (a : List Nat) (n : Nat) (h : a.length = n) : slice a 0 n = a := by
  subst h
  simp [slice]

theorem slice_append_left (a b : List Nat) (off len : Nat) (h : off + len ≤ a.length) :
    slice (a ++ b) off len = slice a off len := by
  unfold slice
  rw [List.drop_append_of_le_length (by omega), List.take_append_of_le_length]
  simp
  omega

theorem slice_append_right (a b : List Nat) (off len : Nat) (h : a.length ≤ off) :
    slice (a ++ b) off len = slice b (off - a.length) len := by
  unfold slice
  rw [List.drop_append_eq_append_drop, List.drop_eq_nil_of_le h]
  simp

/-- The field that follows `pre` in a buffer. -/
theorem slice_field (pre a : List Nat) (off n : Nat) (hp : pre.length = off)
    (ha : a.length = n) : slice (pre ++ a) off n = a := by
  rw [slice_append_right _ _ _ _ (by omega), hp, Nat.sub_self]
  exact slice_all a n ha

theorem buf_write_zero (buf bs : List Nat) : buf_write buf 0 bs = bs ++ buf.drop bs.length := by
  simp [buf_write]

theorem buf_write_length (buf bs : List Nat) (off : Nat) (h : off + bs.length ≤ buf.length) :
    (buf_write buf off bs).length = buf.length := by
  simp only [buf_write, List.length_append, List.length_take, List.length_drop]
  omega

theorem check_true (e : dmsg_engine) : e.check true = e := by
  simp [dmsg_engine.check]

theorem iocom_check_true (ic : dmsg_iocom) : ic.check true = ic := by
  simp [dmsg_iocom.check, check_true]

theorem doalign_lt (w a : Nat) (h : a + 63 < 2 ^ w) : DMSG_DOALIGN w a < a + 64 := by
  unfold DMSG_DOALIGN DMSG_ALIGNMASK DMSG_ALIGN
  simp only []
  rw [Nat.mod_eq_of_lt (by omega)]
  omega

theorem sock_read_data (ic : dmsg_iocom) (nmax : Nat) (bs : List Nat) (rest : List sock_event)
    (hs : ic.sock = sock_event.data bs :: rest) (hne : bs.take nmax ≠ []) :
    ioq_sock_read ic nmax =
      { ic := { ic with
                sock := if bs.drop nmax = [] then rest else sock_event.data (bs.drop nmax) :: rest
                ioq_rx := { ic.ioq_rx with
                  buf := buf_write ic.ioq_rx.buf ic.ioq_rx.fifo_end (bs.take nmax)
                  fifo_end := ic.ioq_rx.fifo_end + (bs.take nmax).length } }
        nmax := nmax - (bs.take nmax).length, brk := false } := by
  unfold ioq_sock_read
  simp only [hs, hne, if_false]

theorem makeroom_roomy (q : dmsg_ioq) (needed : Nat)
    (h : ¬ (q.fifo_cdx - q.fifo_beg + (q.buf.length - q.fifo_end) / 2 < needed)) :
    dmsg_ioq_makeroom q needed = (q, q.buf.length - q.fifo_end) := by
  unfold dmsg_ioq_makeroom
  simp only []
  rw [if_neg h]

theorem slice_prefix (X T : List Nat) (n : Nat) (h : X.length = n) : slice (X ++ T) 0 n = X := by
  rw [slice_append_left _ _ _ _ (by omega)]
  exact slice_all X n h

theorem slice_mid (P a T : List Nat) (off n : Nat) (hp : P.length = off) (ha : a.length = n) :
    slice (P ++ a ++ T) off n = a := by
  rw [slice_append_left _ _ _ _ (by simp only [List.length_append]; omega)]
  exact slice_field P a off n hp ha

theorem eng_frame_refl (S : List Nat) (e : dmsg_engine) : eng_frame S e e :=
  ⟨rfl, fun _ _ => rfl, fun _ _ _ h => h, fun _ _ _ h => h⟩

theorem eng_frame_trans (S : List Nat) (e e1 e2 : dmsg_engine) (h1 : eng_frame S e e1)
    (h2 : eng_frame S e1 e2) : eng_frame S e e2 :=
  ⟨h2.assert.trans h1.assert, fun a ha => (h2.heap a ha).trans (h1.heap a ha),
    fun m z hz h => h2.rd m z hz (h1.rd m z hz h), fun m z hz h => h2.wr m z hz (h1.wr m z hz h)⟩

theorem eng_frame_mono (S T : List Nat) (e e1 : dmsg_engine) (hST : ∀ a, a ∈ S → a ∈ T)
    (h : eng_frame S e e1) : eng_frame T e e1 :=
  ⟨h.assert, fun a ha => h.heap a (fun hs => ha (hST a hs)),
    fun m z hz => h.rd m z (fun hs => hz (hST z hs)),
    fun m z hz => h.wr m z (fun hs => hz (hST z hs))⟩

theorem eng_frame_put (e : dmsg_engine) (p : Nat) (s : dmsg_state) : eng_frame [p] e (e.put p s) :=
  ⟨rfl, fun a ha => put_heap_other e p a s (fun h => ha (by rw [h]; exact List.mem_singleton_self p)),
    fun _ _ _ h => h, fun _ _ _ h => h⟩

/-- A `dmsg_state_drop` that does not free the state. -/
theorem drop_keep (e : dmsg_engine) (p : Nat) (s : dmsg_state) (h : e.heap p = some s)
    (hr : 2 ≤ s.refs) :
    dmsg_state_drop e p = some (e.put p { s with refs := s.refs - 1 }) := by
  rw [drop_eq_keep e p s h (by omega)]
  have : decide (s.refs > 0) = true := decide_eq_true (by omega)
  rw [this, check_true]

/-- A `dmsg_state_drop` of the last reference of a state that is on no queue
and in no tree. -/
theorem drop_free (e : dmsg_engine) (p : Nat) (s : dmsg_state) (h : e.heap p = some s)
    (hr : s.refs = 1) (h1 : s.flags.ROOT = false) (h2 : s.flags.SUBINSERTED = false)
    (h3 : s.flags.RBINSERTED = false) (h4 : s.subq = []) (h5 : s.any = false) :
    ∃ e1, dmsg_state_drop e p = some e1 ∧ e1.heap p = none ∧ e1.rcvd = e.rcvd ∧
      eng_frame [p] e e1 := by
  unfold dmsg_state_drop
  simp only [h, hr, Option.bind_eq_bind, Option.some_bind, if_true]
  unfold dmsg_state_free
  simp only [put_heap_same, Option.bind_eq_bind, Option.some_bind, h1, h2, h3, h4, h5,
    Bool.or_self, Bool.not_false, List.isEmpty_nil, check_true, Option.pure_def,
    gt_iff_lt, zero_lt_one, decide_True, sub_self]
  refine ⟨_, rfl, ?_, rfl, ⟨rfl, ?_, fun _ _ _ h => h, fun _ _ _ h => h⟩⟩
  · simp only [Function.update_same]
  · intro a ha
    have hne : a ≠ p := fun hc => ha (by rw [hc]; exact List.mem_singleton_self p)
    simp only [dmsg_engine.put, Function.update_noteq hne]

theorem and_bit (x k : Nat) : x &&& 2 ^ k = 0 ∨ x &&& 2 ^ k = 2 ^ k := by
  rw [Nat.and_two_pow]
  cases x.testBit k
  · left
    simp
  · right
    simp

theorem and_create (x : Nat) : x &&& DMSGF_CREATE = 0 ∨ x &&& DMSGF_CREATE = DMSGF_CREATE :=
  and_bit x 31

theorem and_reply (x : Nat) : x &&& DMSGF_REPLY = 0 ∨ x &&& DMSGF_REPLY = DMSGF_REPLY :=
  and_bit x 29

theorem and_delete (x : Nat) : x &&& DMSGF_DELETE = 0 ∨ x &&& DMSGF_DELETE = DMSGF_DELETE :=
  and_bit x 30
/-- The bits of the command that `dmsg_state_abort` synthesizes, for the four
commands that `dmsg_msg_alloc_locked` can have stored. -/
theorem abort_cmd_bits (c rx : Nat)
    (hc : c = DMSG_LNK_ERROR ∨ c = DMSG_LNK_ERROR ||| DMSGF_REVTRANS ∨
      c = DMSG_LNK_ERROR ||| DMSGF_REVCIRC ∨
      c = DMSG_LNK_ERROR ||| DMSGF_REVTRANS ||| DMSGF_REVCIRC) :
    dmsg_state_abort_cmd c rx &&& DMSGF_DELETE ≠ 0 ∧
    (rx &&& DMSGF_CREATE ≠ 0 →
      dmsg_state_abort_cmd c rx &&& (DMSGF_CREATE ||| DMSGF_DELETE ||| DMSGF_REPLY) =
        DMSGF_DELETE ∨
      dmsg_state_abort_cmd c rx &&& (DMSGF_CREATE ||| DMSGF_DELETE ||| DMSGF_REPLY) =
        DMSGF_REPLY ||| DMSGF_DELETE) ∧
    (rx &&& DMSGF_CREATE = 0 → rx &&& DMSGF_REPLY ≠ 0 →
      dmsg_state_abort_cmd c rx &&& (DMSGF_CREATE ||| DMSGF_DELETE ||| DMSGF_REPLY) =
        DMSGF_REPLY ||| DMSGF_CREATE ||| DMSGF_DELETE) ∧
    dmsg_state_abort_cmd c rx &&& DMSGF_REPLY = rx &&& DMSGF_REPLY := by
  have hC : ¬ (DMSGF_CREATE = 0) := by decide
  have hR : ¬ (DMSGF_REPLY = 0) := by decide
  unfold dmsg_state_abort_cmd
  rcases and_create rx with h1 | h1 <;> rcases and_reply rx with h2 | h2 <;>
    rcases hc with h | h | h | h <;>
    simp only [h1, h2, h, hC, hR, if_true, if_false, ne_eq, not_true_eq_false,
      not_false_eq_true, false_implies, true_implies, implies_true, true_and, and_true] <;>
    decide
/-- The allocation of the message that `dmsg_state_abort` synthesizes: the
state gains the message's reference. -/
theorem alloc_plain (e : dmsg_engine) (x q : Nat) (s sq : dmsg_state)
    (hx : e.heap x = some s) (hp : s.parent = some q) (hq : e.heap q = some sq) (hne : q ≠ x) :
    ∃ c, (c = DMSG_LNK_ERROR ∨ c = DMSG_LNK_ERROR ||| DMSGF_REVTRANS ∨
        c = DMSG_LNK_ERROR ||| DMSGF_REVCIRC ∨
        c = DMSG_LNK_ERROR ||| DMSGF_REVTRANS ||| DMSGF_REVCIRC) ∧
      dmsg_msg_alloc_locked e x 0 DMSG_LNK_ERROR 0 false =
        some (e.put x { s with refs := s.refs + 1 },
          { state := some x
            head := { dmsg_hdr.zero with
                      magic := DMSG_HDR_MAGIC, cmd := c, msgid := s.msgid, circuit := sq.msgid }
            ext := [], hdr_size := 64, aux_data := none, aux_size := 0, tcmd := 0 }) := by
  have h1 : ¬ (DMSG_LNK_ERROR &&& (DMSGF_CREATE ||| DMSGF_REPLY) = DMSGF_CREATE) := by decide
  have h2 : (DMSG_LNK_ERROR &&& DMSGF_SIZE) * DMSG_ALIGN = 64 := by decide
  unfold dmsg_msg_alloc_locked
  simp only [h1, decide_False, Bool.false_eq_true, if_false, hold_eq e x s hx, Option.map_some',
    Option.bind_eq_bind, Option.some_bind, hx, hp, h2, sizeof_head, ge_iff_le, le_refl,
    decide_True, check_true, ne_eq, not_true_eq_false, put_heap_same,
    put_heap_other e x q _ hne, hq, Option.pure_def, Nat.sub_self, List.replicate_zero]
  cases s.flags.OPPOSITE <;> cases sq.flags.OPPOSITE
  · exact ⟨_, Or.inl rfl, rfl⟩
  · exact ⟨_, Or.inr (Or.inr (Or.inl rfl)), rfl⟩
  · exact ⟨_, Or.inr (Or.inl rfl), rfl⟩
  · exact ⟨_, Or.inr (Or.inr (Or.inr rfl)), rfl⟩
theorem put_self (e : dmsg_engine) (p : Nat) (s : dmsg_state) (h : e.heap p = some s) :
    e.put p s = e := by
  unfold dmsg_engine.put
  rw [← h, Function.update_eq_self]

/-- The `switch` of `dmsg_state_msgrx` on the message that `dmsg_state_abort`
synthesizes for a state whose `rxcmd` has `CREATE` or `REPLY`: no error, and
`rxcmd` is replaced when the state had not received its `CREATE`. -/
theorem switch_abort (E : dmsg_engine) (msg : dmsg_msg) (x q c : Nat) (sx : dmsg_state)
    (hx : E.heap x = some sx) (hne : x ≠ q)
    (hcmd : msg.head.cmd = dmsg_state_abort_cmd c sx.rxcmd)
    (hc : c = DMSG_LNK_ERROR ∨ c = DMSG_LNK_ERROR ||| DMSGF_REVTRANS ∨
      c = DMSG_LNK_ERROR ||| DMSGF_REVCIRC ∨
      c = DMSG_LNK_ERROR ||| DMSGF_REVTRANS ||| DMSGF_REVCIRC)
    (hopen : sx.rxcmd &&& DMSGF_DELETE = 0)
    (hbegun : sx.rxcmd &&& DMSGF_CREATE ≠ 0 ∨ sx.rxcmd &&& DMSGF_REPLY ≠ 0) :
    ∃ rx, dmsg_state_msgrx_switch E msg x (some q) =
        some { eng := E.put x { sx with rxcmd := rx }, msg := msg, state := x, error := 0 } ∧
      rx &&& DMSGF_DELETE = 0 ∧ rx &&& DMSGF_REPLY = sx.rxcmd &&& DMSGF_REPLY := by
  obtain ⟨c1, c2, c3, c4, c5, c6, c7, c8, c9, c10, c11, c12, c13, c14, c15, c16⟩ := msgrx_consts
  obtain ⟨b1, b2, b3, b4⟩ := abort_cmd_bits c sx.rxcmd hc
  have hsq : ¬ (some x = some q) := fun h => hne (Option.some.inj h)
  unfold dmsg_state_msgrx_switch
  by_cases hC : sx.rxcmd &&& DMSGF_CREATE = 0
  · have hR : sx.rxcmd &&& DMSGF_REPLY ≠ 0 := by
      rcases hbegun with h | h
      · exact absurd hC h
      · exact h
    have hsw := b3 hC hR
    rw [← hcmd] at hsw b4
    have hxor : (sx.rxcmd ^^^ msg.head.cmd) &&& DMSGF_REPLY = 0 := by
      rw [Nat.and_xor_distrib_right, b4, Nat.xor_self]
    refine ⟨msg.head.cmd &&& not32 DMSGF_DELETE, ?_, ?_, ?_⟩
    · simp only [hsw, c13, c14, c15, c16, or_self, if_false, true_or, or_true, if_true, hsq, hx,
        Option.some_bind, hxor, decide_True, check_true]
    · rw [Nat.and_assoc]
      have : not32 DMSGF_DELETE &&& DMSGF_DELETE = 0 := by decide
      rw [this, Nat.and_zero]
    · rw [Nat.and_assoc]
      have : not32 DMSGF_DELETE &&& DMSGF_REPLY = DMSGF_REPLY := by decide
      rw [this, b4]
  · have hsw := b2 hC
    rw [← hcmd] at hsw
    refine ⟨sx.rxcmd, ?_, hopen, rfl⟩
    have hself : E.put x { sx with rxcmd := sx.rxcmd } = E := put_self E x sx hx
    rw [hself]
    rcases hsw with h | h <;>
      simp only [h, c5, c6, c7, c8, or_self, if_false, true_or, or_true, if_true, hsq, hx,
        Option.some_bind, hC]

theorem or_delete_bits (rx : Nat) (h : rx &&& DMSGF_DELETE = 0) :
    (rx ||| DMSGF_DELETE) &&& DMSGF_DELETE ≠ 0 ∧
    (rx ||| DMSGF_DELETE) &&& DMSGF_REPLY = rx &&& DMSGF_REPLY := by
  refine ⟨?_, ?_⟩
  · rw [Nat.and_comm, Nat.and_or_distrib_left, Nat.and_comm, h, Nat.and_self]
    decide
  · rw [Nat.and_comm, Nat.and_or_distrib_left]
    have : DMSGF_REPLY &&& DMSGF_DELETE = 0 := by decide
    rw [this, Nat.or_zero, Nat.and_comm]

/-- The end of `dmsg_state_msgrx` on the synthesized `DELETE`: `rxcmd` gains
`DELETE`, and a state whose `txcmd` has `DELETE` too leaves its tree and loses
the tree's reference. -/
theorem adjust_abort (E : dmsg_engine) (msg : dmsg_msg) (x : Nat) (s1 : dmsg_state) (err : Nat)
    (hx : E.heap x = some s1) (hms : msg.state = some x)
    (hd : msg.head.cmd &&& DMSGF_DELETE ≠ 0)
    (hcr : msg.head.cmd &&& DMSGF_REPLY = s1.rxcmd &&& DMSGF_REPLY)
    (hroot : s1.flags.ROOT = false) (hopen : s1.rxcmd &&& DMSGF_DELETE = 0)
    (hrb : s1.flags.RBINSERTED = true) (hrefs : 2 ≤ s1.refs)
    (htree : (if s1.rxcmd &&& DMSGF_REPLY ≠ 0 then E.statewr_tree s1.msgid
              else E.staterd_tree s1.msgid) = some x) :
    ∃ r, dmsg_state_msgrx_adjust { eng := E, msg := msg, state := x, error := err } = some r ∧
      r.msg.state = some x ∧ r.msg.head = msg.head ∧ r.eng.rcvd = E.rcvd ∧
      eng_frame [x] E r.eng ∧
      r.eng.heap x = some (if s1.txcmd &&& DMSGF_DELETE ≠ 0 then
        { s1 with rxcmd := s1.rxcmd ||| DMSGF_DELETE
                  flags := { s1.flags with RBINSERTED := false }, refs := s1.refs - 1 }
        else { s1 with rxcmd := s1.rxcmd ||| DMSGF_DELETE }) := by
  obtain ⟨o1, o2⟩ := or_delete_bits s1.rxcmd hopen
  rcases s1 with ⟨par, subq, scan, ⟨fROOT, fDYN, fOPP, fSUB, fRB, fDY, fAB, fNEW⟩, txcmd, rxcmd,
    icmd, msgid, refs, relay, func, any⟩
  simp only at hcr hroot hopen hrb hrefs htree o1 o2
  subst hroot hrb
  have hframe : ∀ (t : Nat → Option Nat) (hm : t msgid = some x) (m z : Nat), z ∉ [x] →
      t m = some z → Function.update t msgid none m = some z := by
    intro t hm m z hz h
    have hne : z ≠ x := fun hc => hz (by rw [hc]; exact List.mem_singleton_self x)
    have hmm : m ≠ msgid := by
      intro hc
      rw [hc, hm] at h
      exact hne (Option.some.inj h).symm
    rw [Function.update_noteq hmm]
    exact h
  unfold dmsg_state_msgrx_adjust
  simp only [hms, hx, Option.bind_eq_bind, Option.some_bind, Option.pure_def, decide_True,
    check_true, Bool.false_eq_true, if_false, hd, ne_eq, not_false_eq_true, if_true, hopen]
  by_cases hg : txcmd &&& DMSGF_DELETE = 0
  · simp only [hg, not_true_eq_false, if_false]
    exact ⟨_, rfl, rfl, rfl, rfl, eng_frame_put E x _, put_heap_same _ _ _⟩
  · simp only [hg, not_false_eq_true, if_true]
    unfold dmsg_state_msgrx_remove
    simp only [check_true, o2, Option.bind_eq_bind]
    by_cases hR : rxcmd &&& DMSGF_REPLY = 0
    · rw [hR] at hcr
      simp only [hR, ne_eq, not_true_eq_false, if_false] at htree ⊢
      have ht : (E.put x
          { parent := par, subq := subq, scan := scan
            flags := { ROOT := false, DYNAMIC := fDYN, OPPOSITE := fOPP, SUBINSERTED := fSUB
                       RBINSERTED := true, DYING := fDY, ABORTING := fAB, NEW := fNEW }
            txcmd := txcmd, rxcmd := rxcmd ||| DMSGF_DELETE, icmd := icmd, msgid := msgid
            refs := refs, relay := relay, func := func, any := any }).staterd_tree msgid =
          some x := htree
      simp only [RB_REMOVE, ht, if_true, Option.map_some', hcr, decide_True, check_true,
        Option.some_bind]
      rw [drop_keep _ x _ (put_heap_same _ _ _) hrefs]
      simp only [Option.map_some']
      refine ⟨_, rfl, rfl, rfl, rfl, ⟨rfl, ?_, hframe _ htree, fun _ _ _ h => h⟩,
        put_heap_same _ _ _⟩
      intro a ha
      have hne : a ≠ x := fun hc => ha (by rw [hc]; exact List.mem_singleton_self x)
      simp only [dmsg_engine.put, Function.update_noteq hne]
    · have hR2 : ¬ (msg.head.cmd &&& DMSGF_REPLY = 0) := by
        rw [hcr]
        exact hR
      simp only [hR, ne_eq, not_false_eq_true, if_true] at htree ⊢
      have ht : (E.put x
          { parent := par, subq := subq, scan := scan
            flags := { ROOT := false, DYNAMIC := fDYN, OPPOSITE := fOPP, SUBINSERTED := fSUB
                       RBINSERTED := true, DYING := fDY, ABORTING := fAB, NEW := fNEW }
            txcmd := txcmd, rxcmd := rxcmd ||| DMSGF_DELETE, icmd := icmd, msgid := msgid
            refs := refs, relay := relay, func := func, any := any }).statewr_tree msgid =
          some x := htree
      simp only [RB_REMOVE, ht, if_true, Option.map_some', hR2, not_false_eq_true, decide_True,
        check_true, Option.some_bind]
      rw [drop_keep _ x _ (put_heap_same _ _ _) hrefs]
      simp only [Option.map_some']
      refine ⟨_, rfl, rfl, rfl, rfl, ⟨rfl, ?_, fun _ _ _ h => h, hframe _ htree⟩,
        put_heap_same _ _ _⟩
      intro a ha
      have hne : a ≠ x := fun hc => ha (by rw [hc]; exact List.mem_singleton_self x)
      simp only [dmsg_engine.put, Function.update_noteq hne]

/-- The call `dmsg_state_msgrx(msg, 1)` of `dmsg_state_abort`: it returns, the
message keeps its state and header, `rxcmd` gains `DELETE`, and a state whose
`txcmd` has `DELETE` leaves its tree. -/
theorem abort_msgrx (E : dmsg_engine) (msg : dmsg_msg) (x q c : Nat) (sx : dmsg_state)
    (hx : E.heap x = some sx) (hms : msg.state = some x) (hpar : sx.parent = some q)
    (hne : x ≠ q) (hcmd : msg.head.cmd = dmsg_state_abort_cmd c sx.rxcmd)
    (hc : c = DMSG_LNK_ERROR ∨ c = DMSG_LNK_ERROR ||| DMSGF_REVTRANS ∨
      c = DMSG_LNK_ERROR ||| DMSGF_REVCIRC ∨
      c = DMSG_LNK_ERROR ||| DMSGF_REVTRANS ||| DMSGF_REVCIRC)
    (hroot : sx.flags.ROOT = false) (hopen : sx.rxcmd &&& DMSGF_DELETE = 0)
    (hbegun : sx.rxcmd &&& DMSGF_CREATE ≠ 0 ∨ sx.rxcmd &&& DMSGF_REPLY ≠ 0)
    (hrb : sx.flags.RBINSERTED = true) (hrefs : 2 ≤ sx.refs)
    (htree : (if sx.rxcmd &&& DMSGF_REPLY ≠ 0 then E.statewr_tree sx.msgid
              else E.staterd_tree sx.msgid) = some x) :
    ∃ r rx, dmsg_state_msgrx E msg true = some r ∧
      r.msg.state = some x ∧ r.msg.head = msg.head ∧ r.eng.rcvd = E.rcvd ∧
      eng_frame [x] E r.eng ∧ rx &&& DMSGF_DELETE ≠ 0 ∧
      r.eng.heap x = some (if sx.txcmd &&& DMSGF_DELETE ≠ 0 then
        { sx with rxcmd := rx, flags := { sx.flags with RBINSERTED := false }
                  refs := sx.refs - 1 }
        else { sx with rxcmd := rx }) := by
  obtain ⟨rx1, hsw, hd1, hr1⟩ := switch_abort E msg x q c sx hx hne hcmd hc hopen hbegun
  obtain ⟨b1, -, -, b4⟩ := abort_cmd_bits c sx.rxcmd hc
  rw [← hcmd] at b1 b4
  obtain ⟨o1, -⟩ := or_delete_bits rx1 hd1
  obtain ⟨r, h1, h2, h3, h4, h5, h6⟩ := adjust_abort (E.put x { sx with rxcmd := rx1 }) msg x
    { sx with rxcmd := rx1 } 0 (put_heap_same _ _ _) hms b1 (b4.trans hr1.symm) hroot hd1 hrb
    hrefs (by
      show (if rx1 &&& DMSGF_REPLY ≠ 0 then E.statewr_tree sx.msgid
        else E.staterd_tree sx.msgid) = some x
      rw [hr1]
      exact htree)
  refine ⟨r, rx1 ||| DMSGF_DELETE, ?_, h2, h3, h4,
    eng_frame_trans _ _ _ _ (eng_frame_put E x _) h5, o1, h6⟩
  unfold dmsg_state_msgrx
  simp only [hms, hx, Option.bind_eq_bind, Option.some_bind, dmsg_state_msgrx_circuit, if_true,
    hpar, dmsg_state_msgrx_find, dmsg_state_msgrx_assign, hsw]
  rw [hpar] at h1
  exact h1
theorem put_put_heap (e : dmsg_engine) (q p : Nat) (s t : dmsg_state) (h : q ≠ p) :
    ((e.put q s).put p t).heap q = some s := by
  rw [put_heap_other _ _ _ _ h]
  exact put_heap_same _ _ _

/-- The call `dmsg_state_cleanuprx` of `dmsg_state_abort` on a state whose
`txcmd` lacks `DELETE`: the message's reference is dropped. -/
theorem cleanup_open (E : dmsg_engine) (msg : dmsg_msg) (x : Nat) (sx : dmsg_state)
    (hx : E.heap x = some sx) (hms : msg.state = some x) (hroot : sx.flags.ROOT = false)
    (htx : sx.txcmd &&& DMSGF_DELETE = 0) (hrefs : 2 ≤ sx.refs) :
    dmsg_state_cleanuprx E msg = some (E.put x { sx with refs := sx.refs - 1 }) := by
  unfold dmsg_state_cleanuprx
  simp only [hms, hx, Option.bind_eq_bind, Option.some_bind, hroot, Bool.false_eq_true, if_false,
    htx, ne_eq, not_true_eq_false, and_false, dmsg_msg_free, dmsg_msg_free_locked]
  exact drop_keep E x sx hx hrefs

/-- The call `dmsg_state_cleanuprx` of `dmsg_state_abort` on a state whose
`txcmd` has `DELETE`: the state leaves its parent's queue, which costs the
parent a reference when the queue becomes empty, and loses the references of
the queue and of the message. -/
theorem cleanup_gone (E : dmsg_engine) (msg : dmsg_msg) (x q : Nat) (sx sq : dmsg_state)
    (hx : E.heap x = some sx) (hq : E.heap q = some sq) (hne : x ≠ q)
    (hms : msg.state = some x) (hroot : sx.flags.ROOT = false)
    (hsub : sx.flags.SUBINSERTED = true) (hpar : sx.parent = some q)
    (hrx : sx.rxcmd &&& DMSGF_DELETE ≠ 0) (htx : sx.txcmd &&& DMSGF_DELETE ≠ 0)
    (hrelay : sx.relay = none) (hmem : x ∈ sq.subq) (hrefs : 3 ≤ sx.refs)
    (hqrefs : sq.subq.erase x = [] → 2 ≤ sq.refs) :
    ∃ E1, dmsg_state_cleanuprx E msg = some E1 ∧ E1.rcvd = E.rcvd ∧ eng_frame [x, q] E E1 ∧
      E1.heap q = some { sq with
        scan := if sq.scan = some x then none else sq.scan
        subq := sq.subq.erase x
        refs := sq.refs - (if sq.subq.erase x = [] then 1 else 0) } ∧
      E1.heap x = some { sx with
        flags := { sx.flags with SUBINSERTED := false }, parent := none
        refs := sx.refs - 2 } := by
  have hps1 : (if sq.scan = some x then { sq with scan := none } else sq) =
      { sq with scan := if sq.scan = some x then none else sq.scan } := by
    split <;> rfl
  have hqx : q ≠ x := fun h => hne h.symm
  have hcond : sx.flags.SUBINSERTED = true ∧ ¬ (sx.rxcmd &&& DMSGF_DELETE = 0) ∧
      ¬ (sx.txcmd &&& DMSGF_DELETE = 0) := ⟨hsub, hrx, htx⟩
  have hxm : x ∈ ({ sq with scan := if sq.scan = some x then none else sq.scan } : dmsg_state).subq :=
    hmem
  have hfree : ∀ (e1 : dmsg_engine) (s : dmsg_state), e1.heap x = some s → 2 ≤ s.refs →
      dmsg_msg_free e1 msg = some (e1.put x { s with refs := s.refs - 1 }) := by
    intro e1 s h1 h2
    unfold dmsg_msg_free dmsg_msg_free_locked
    simp only [hms, h1, Option.bind_eq_bind, Option.some_bind]
    exact drop_keep e1 x s h1 h2
  unfold dmsg_state_cleanuprx
  rw [hms]
  simp only [Option.bind_eq_bind, Option.some_bind]
  rw [hx, Option.some_bind, if_neg (by rw [hroot]; decide), if_pos hcond]
  unfold dmsg_subq_delete
  simp only [Option.bind_eq_bind]
  rw [hx, Option.some_bind, if_pos hsub, hpar, Option.some_bind, hq, Option.some_bind]
  simp only [hps1]
  rw [if_pos hxm, put_heap_other _ q x _ hne, hx, Option.some_bind,
    put_heap_other _ x q _ hqx, put_heap_same, Option.some_bind]
  have hnx : ∀ a, a ∉ [x, q] → a ≠ x ∧ a ≠ q := by
    intro a ha
    exact ⟨fun hc => ha (by rw [hc]; exact List.mem_cons_self _ _),
      fun hc => ha (by rw [hc]; exact List.mem_cons_of_mem _ (List.mem_singleton_self _))⟩
  by_cases hemp : sq.subq.erase x = []
  · have hi : (sq.subq.erase x).isEmpty = true := by
      rw [hemp]
      rfl
    rw [if_pos hi, drop_keep _ q _ (put_put_heap E q x _ _ hqx)]
    swap
    · exact hqrefs hemp
    rw [Option.some_bind, drop_keep _ x _ (put_put_heap _ x q _ _ hne)]
    swap
    · exact le_trans (by decide) hrefs
    rw [Option.some_bind, put_heap_same, Option.some_bind]
    simp only [hrelay, Option.pure_def, Option.some_bind]
    rw [hfree _ _ (put_heap_same _ _ _) (by show (2 : Int) ≤ sx.refs - 1; omega)]
    refine ⟨_, rfl, rfl, ⟨rfl, ?_, fun _ _ _ h => h, fun _ _ _ h => h⟩, ?_, ?_⟩
    · intro a ha
      obtain ⟨h1, h2⟩ := hnx a ha
      simp only [put_heap_other _ _ _ _ h1, put_heap_other _ _ _ _ h2]
    · simp only [put_heap_other _ _ _ _ hqx, put_heap_same, hemp, if_true]
    · simp only [put_heap_same, hrelay, sub_sub]
      rfl
  · have hi : ¬ ((sq.subq.erase x).isEmpty = true) := by
      rw [List.isEmpty_iff]
      exact hemp
    rw [if_neg hi]
    simp only [Option.pure_def, Option.some_bind]
    rw [drop_keep _ x _ (put_heap_same _ _ _)]
    swap
    · exact le_trans (by decide) hrefs
    rw [Option.some_bind, put_heap_same, Option.some_bind]
    simp only [hrelay, Option.pure_def, Option.some_bind]
    rw [hfree _ _ (put_heap_same _ _ _) (by show (2 : Int) ≤ sx.refs - 1; omega)]
    refine ⟨_, rfl, rfl, ⟨rfl, ?_, fun _ _ _ h => h, fun _ _ _ h => h⟩, ?_, ?_⟩
    · intro a ha
      obtain ⟨h1, h2⟩ := hnx a ha
      simp only [put_heap_other _ _ _ _ h1, put_heap_other _ _ _ _ h2]
    · simp only [put_heap_other _ _ _ _ hqx, put_heap_same, hemp, if_false, sub_zero]
    · simp only [put_heap_same, hrelay, sub_sub]
      rfl
theorem eng_frame_rcvd (S : List Nat) (e : dmsg_engine) (l : List dmsg_msg) :
    eng_frame S e { e with rcvd := l } :=
  ⟨rfl, fun _ _ => rfl, fun _ _ _ h => h, fun _ _ _ h => h⟩

theorem mem_pair_left (x q a : Nat) (h : a ∈ [x]) : a ∈ [x, q] := by
  rw [List.mem_singleton] at h
  rw [h]
  exact List.mem_cons_self _ _

/-- The block of `dmsg_state_abort` that synthesizes the `DELETE`: one
callback for the state, with `DELETE` and `LOSTLINK`; a state whose `txcmd`
lacks `DELETE` stays as it is up to its `rxcmd`, which gains `DELETE`, a state
whose `txcmd` has `DELETE` leaves its tree and its parent's queue. -/
theorem abort_msg_spec (E : dmsg_engine) (x q : Nat) (sx sq : dmsg_state)
    (hx : E.heap x = some sx) (hq : E.heap q = some sq) (hne : x ≠ q)
    (hpar : sx.parent = some q) (hroot : sx.flags.ROOT = false)
    (hsub : sx.flags.SUBINSERTED = true) (hrb : sx.flags.RBINSERTED = true)
    (hopen : sx.rxcmd &&& DMSGF_DELETE = 0)
    (hbegun : sx.rxcmd &&& DMSGF_CREATE ≠ 0 ∨ sx.rxcmd &&& DMSGF_REPLY ≠ 0)
    (hrelay : sx.relay = none) (hmem : x ∈ sq.subq) (hrefs : 3 ≤ sx.refs)
    (hqrefs : sx.txcmd &&& DMSGF_DELETE ≠ 0 → sq.subq.erase x = [] → 2 ≤ sq.refs)
    (htree : (if sx.rxcmd &&& DMSGF_REPLY ≠ 0 then E.statewr_tree sx.msgid
              else E.staterd_tree sx.msgid) = some x) :
    ∃ E1 m rx, dmsg_state_abort_msg E x = some E1 ∧ E1.rcvd = E.rcvd ++ [m] ∧
      m.state = some x ∧ m.head.cmd &&& DMSGF_DELETE ≠ 0 ∧
      m.head.error = DMSG_ERR_LOSTLINK ∧ eng_frame [x, q] E E1 ∧ rx &&& DMSGF_DELETE ≠ 0 ∧
      (if sx.txcmd &&& DMSGF_DELETE ≠ 0 then
        E1.heap q = some { sq with
          scan := if sq.scan = some x then none else sq.scan
          subq := sq.subq.erase x
          refs := sq.refs - (if sq.subq.erase x = [] then 1 else 0) } ∧
        E1.heap x = some { sx with
          rxcmd := rx, flags := { sx.flags with SUBINSERTED := false, RBINSERTED := false }
          parent := none, refs := sx.refs - 2 }
      else E1.heap q = some sq ∧ E1.heap x = some { sx with rxcmd := rx }) := by
  have hqx : q ≠ x := fun h => hne h.symm
  obtain ⟨c, hc, halloc⟩ := alloc_plain E x q sx sq hx hpar hq hqx
  obtain ⟨b1, -, -, -⟩ := abort_cmd_bits c sx.rxcmd hc
  obtain ⟨r, rx, hr, h2, h3, h4, h5, h6, h7⟩ := abort_msgrx (E.put x { sx with refs := sx.refs + 1 })
    { state := some x
      head := { dmsg_hdr.zero with
                magic := DMSG_HDR_MAGIC, cmd := dmsg_state_abort_cmd c sx.rxcmd
                msgid := sx.msgid, circuit := sq.msgid, error := DMSG_ERR_LOSTLINK }
      ext := [], hdr_size := 64, aux_data := none, aux_size := 0, tcmd := 0 }
    x q c { sx with refs := sx.refs + 1 } (put_heap_same _ _ _) rfl hpar hne rfl hc hroot hopen
    hbegun hrb (by show (2 : Int) ≤ sx.refs + 1; omega) htree
  dsimp only at h3 h4 h7
  have hrq : r.eng.heap q = some sq := by
    rw [h5.heap q (fun hc => hqx (List.mem_singleton.1 hc)), put_heap_other _ _ _ _ hqx]
    exact hq
  have hbase : dmsg_state_abort_msg E x =
      dmsg_state_cleanuprx { r.eng with rcvd := r.eng.rcvd ++ [r.msg] } r.msg := by
    unfold dmsg_state_abort_msg
    simp only [halloc, Option.bind_eq_bind, Option.some_bind, put_heap_same]
    rw [hr, Option.some_bind]
  have hf1 : eng_frame [x, q] E { r.eng with rcvd := r.eng.rcvd ++ [r.msg] } :=
    eng_frame_trans _ _ _ _
      (eng_frame_mono _ _ _ _ (mem_pair_left x q)
        (eng_frame_trans _ _ _ _ (eng_frame_put E x _) h5))
      (eng_frame_rcvd _ _ _)
  have hcmd : r.msg.head.cmd &&& DMSGF_DELETE ≠ 0 := by
    rw [h3]
    exact b1
  have herr : r.msg.head.error = DMSG_ERR_LOSTLINK := by
    rw [h3]
  by_cases hg : sx.txcmd &&& DMSGF_DELETE = 0
  · have hg1 : ¬ (sx.txcmd &&& DMSGF_DELETE ≠ 0) := not_not.2 hg
    rw [if_neg hg1] at h7
    have hcl := cleanup_open { r.eng with rcvd := r.eng.rcvd ++ [r.msg] } r.msg x _ h7 h2 hroot hg
      (by show (2 : Int) ≤ sx.refs + 1; omega)
    refine ⟨_, r.msg, rx, hbase.trans hcl, ?_, h2, hcmd, herr,
      eng_frame_trans _ _ _ _ hf1 (eng_frame_mono _ _ _ _ (mem_pair_left x q)
        (eng_frame_put _ x _)), h6, ?_⟩
    · show r.eng.rcvd ++ [r.msg] = E.rcvd ++ [r.msg]
      rw [h4]
      rfl
    · rw [if_neg hg1]
      refine ⟨?_, ?_⟩
      · rw [put_heap_other _ _ _ _ hqx]
        exact hrq
      · rw [put_heap_same]
        simp only [add_sub_cancel_right]
  · rw [if_pos hg] at h7
    obtain ⟨E1, hcl, k1, k2, k3, k4⟩ := cleanup_gone
      { r.eng with rcvd := r.eng.rcvd ++ [r.msg] } r.msg x q _ sq h7 hrq hne h2 hroot hsub hpar h6
      hg hrelay hmem (by show (3 : Int) ≤ sx.refs + 1 - 1; omega) (hqrefs hg)
    refine ⟨E1, r.msg, rx, hbase.trans hcl, ?_, h2, hcmd, herr, eng_frame_trans _ _ _ _ hf1 k2,
      h6, ?_⟩
    · rw [k1]
      show r.eng.rcvd ++ [r.msg] = E.rcvd ++ [r.msg]
      rw [h4]
      rfl
    · rw [if_pos hg]
      refine ⟨k3, ?_⟩
      rw [k4]
      simp only [add_sub_cancel_right]
theorem foldlM_mono {α β : Type} (f g : β → α → Option β)
    (h : ∀ b a r, f b a = some r → g b a = some r) :
    ∀ (l : List α) (b r : β), l.foldlM f b = some r → l.foldlM g b = some r := by
  intro l
  induction l with
  | nil => exact fun b r hr => hr
  | cons a l ih =>
    intro b r hr
    rw [List.foldlM_cons] at hr ⊢
    cases hfa : f b a with
    | none =>
      rw [hfa] at hr
      exact absurd hr (by simp)
    | some b1 =>
      rw [hfa] at hr
      rw [h b a b1 hfa]
      exact ih b1 r hr

/-- More fuel does not change a result of `dmsg_state_dying`. -/
theorem dying_mono : ∀ (fuel : Nat) (e : dmsg_engine) (x : Nat) (r : dmsg_engine),
    dmsg_state_dying fuel e x = some r → dmsg_state_dying (fuel + 1) e x = some r := by
  intro fuel
  induction fuel with
  | zero =>
    intro e x r h
    simp [dmsg_state_dying] at h
  | succ n ih =>
    intro e x r h
    rw [dmsg_state_dying] at h ⊢
    cases hx : e.heap x with
    | none =>
      rw [hx] at h
      exact absurd h (by simp)
    | some s =>
      rw [hx] at h
      simp only [Option.bind_eq_bind, Option.some_bind] at h ⊢
      split at h
      · rw [if_pos (by assumption)]
        exact foldlM_mono _ _ (fun b a r => ih b a r) _ _ _ h
      · rw [if_neg (by assumption)]
        exact h

theorem dying_mono_le (f1 f2 : Nat) (hle : f1 ≤ f2) (e : dmsg_engine) (x : Nat)
    (r : dmsg_engine) (h : dmsg_state_dying f1 e x = some r) :
    dmsg_state_dying f2 e x = some r := by
  induction hle with
  | refl => exact h
  | step _ ih => exact dying_mono _ e x r ih

/-- More fuel does not change a result of `dmsg_state_abort`. -/
theorem abort_mono_le (f1 f2 : Nat) (hle : f1 ≤ f2) (e : dmsg_engine) (x : Nat)
    (r : dmsg_engine) (h : dmsg_state_abort f1 e x = some r) :
    dmsg_state_abort f2 e x = some r := by
  unfold dmsg_state_abort at h ⊢
  cases hx : e.heap x with
  | none =>
    rw [hx] at h
    exact absurd h (by simp)
  | some s =>
    rw [hx] at h
    simp only [Option.bind_eq_bind, Option.some_bind] at h ⊢
    split at h
    · rw [if_pos (by assumption)]
      exact h
    · rw [if_neg (by assumption)]
      cases hd : dmsg_state_dying f1 (e.put x { s with flags := { s.flags with ABORTING := true } }) x with
      | none =>
        rw [hd] at h
        exact absurd h (by simp)
      | some e2 =>
        rw [hd] at h
        rw [dying_mono_le f1 f2 hle _ _ _ hd]
        exact h

/-- More fuel does not change a result of `dmsg_simulate_failure` or of its
loop. -/
theorem simulate_mono : ∀ (fuel : Nat),
    (∀ (e : dmsg_engine) (x : Nat) (m : Bool) (err : Nat) (r : dmsg_engine),
      dmsg_simulate_failure fuel e x m err = some r →
      dmsg_simulate_failure (fuel + 1) e x m err = some r) ∧
    (∀ (e : dmsg_engine) (q err : Nat) (c : Option Nat) (r : dmsg_engine),
      dmsg_simulate_failure_scan fuel e q err c = some r →
      dmsg_simulate_failure_scan (fuel + 1) e q err c = some r) := by
  intro fuel
  induction fuel with
  | zero =>
    refine ⟨?_, ?_⟩
    · intro e x m err r h
      simp [dmsg_simulate_failure] at h
    · intro e q err c r h
      simp [dmsg_simulate_failure_scan] at h
  | succ n ih =>
    refine ⟨?_, ?_⟩
    · intro e x m err r h
      rw [dmsg_simulate_failure] at h ⊢
      cases m
      · simp only [Option.bind_eq_bind, Option.bind_eq_some, Bool.false_eq_true, if_false,
          Option.pure_def, Option.some_bind] at h
        obtain ⟨e1, h1, s, h3, e3, h4, h5⟩ := h
        simp only [Option.bind_eq_bind, h1, Option.some_bind, Bool.false_eq_true, if_false,
          Option.pure_def, h3, ih.2 _ _ _ _ _ h4, h5]
      · simp only [Option.bind_eq_bind, Option.bind_eq_some, if_true] at h
        obtain ⟨e1, h1, e2, h2, s, h3, e3, h4, h5⟩ := h
        simp only [Option.bind_eq_bind, h1, Option.some_bind, if_true,
          abort_mono_le n (n + 1) (Nat.le_succ n) _ _ _ h2, h3, ih.2 _ _ _ _ _ h4, h5]
    · intro e q err c r h
      cases c with
      | none =>
        rw [dmsg_simulate_failure_scan] at h ⊢
        exact h
      | some sub =>
        rw [dmsg_simulate_failure_scan] at h ⊢
        simp only [Option.bind_eq_bind, Option.bind_eq_some] at h
        obtain ⟨ss, h1, s, h2, h3⟩ := h
        simp only [Option.bind_eq_bind, h1, h2, Option.some_bind]
        split at h3
        · rw [if_pos (by assumption)]
          exact ih.2 _ _ _ _ _ h3
        · rw [if_neg (by assumption)]
          simp only [Option.bind_eq_some] at h3
          obtain ⟨e2, h4, s2, h5, h6⟩ := h3
          simp only [ih.1 _ _ _ _ _ h4, Option.some_bind, h5]
          split at h6
          · rw [if_pos (by assumption)]
            exact ih.2 _ _ _ _ _ h6
          · rw [if_neg (by assumption)]
            exact ih.2 _ _ _ _ _ h6

theorem simulate_mono_le (f1 f2 : Nat) (hle : f1 ≤ f2) (e : dmsg_engine) (x : Nat) (m : Bool)
    (err : Nat) (r : dmsg_engine) (h : dmsg_simulate_failure f1 e x m err = some r) :
    dmsg_simulate_failure f2 e x m err = some r := by
  induction hle with
  | refl => exact h
  | step _ ih => exact (simulate_mono _).1 e x m err r ih

theorem scan_mono_le (f1 f2 : Nat) (hle : f1 ≤ f2) (e : dmsg_engine) (q err : Nat)
    (c : Option Nat) (r : dmsg_engine) (h : dmsg_simulate_failure_scan f1 e q err c = some r) :
    dmsg_simulate_failure_scan f2 e q err c = some r := by
  induction hle with
  | refl => exact h
  | step _ ih => exact (simulate_mono _).2 e q err c r ih
theorem dying_rel_refl (S : List Nat) (e : dmsg_engine) : dying_rel S e e :=
  ⟨rfl, rfl, rfl, rfl, fun _ _ => rfl, fun _ s h => ⟨s.flags.DYING, h⟩⟩

theorem dying_rel_trans (S : List Nat) (e e1 e2 : dmsg_engine) (h1 : dying_rel S e e1)
    (h2 : dying_rel S e1 e2) : dying_rel S e e2 := by
  refine ⟨h2.rd.trans h1.rd, h2.wr.trans h1.wr, h2.rcvd.trans h1.rcvd,
    h2.assert.trans h1.assert, fun a ha => (h2.frame a ha).trans (h1.frame a ha), ?_⟩
  intro a s hs
  obtain ⟨d1, hd1⟩ := h1.heap a s hs
  obtain ⟨d2, hd2⟩ := h2.heap a _ hd1
  exact ⟨d2, hd2⟩

theorem dying_rel_mono (S T : List Nat) (e e1 : dmsg_engine) (hST : ∀ a, a ∈ S → a ∈ T)
    (h : dying_rel S e e1) : dying_rel T e e1 :=
  ⟨h.rd, h.wr, h.rcvd, h.assert, fun a ha => h.frame a (fun hs => ha (hST a hs)), h.heap⟩

theorem dying_rel_frame (S : List Nat) (e e1 : dmsg_engine) (h : dying_rel S e e1) :
    eng_frame S e e1 :=
  ⟨h.assert, h.frame, fun m z _ hz => by rw [h.rd]; exact hz,
    fun m z _ hz => by rw [h.wr]; exact hz⟩

theorem dying_rel_put (e : dmsg_engine) (x : Nat) (s : dmsg_state) (d : Bool)
    (hx : e.heap x = some s) : dying_rel [x] e (e.put x (set_dying s d)) := by
  refine ⟨rfl, rfl, rfl, rfl,
    fun a ha => put_heap_other e x a _ (fun h => ha (by rw [h]; exact List.mem_singleton_self x)),
    ?_⟩
  intro a sa ha
  by_cases hax : a = x
  · subst hax
    rw [hx] at ha
    injection ha with ha
    subst ha
    exact ⟨d, put_heap_same _ _ _⟩
  · rw [put_heap_other _ _ _ _ hax]
    exact ⟨sa.flags.DYING, ha⟩

/-- A forest stays well formed when only `DYING` flags change. -/
theorem forest_ok_dying (S : List Nat) (e e1 : dmsg_engine) (h : dying_rel S e e1) :
    ∀ (F : forest) (q : Nat), forest_ok e q F → forest_ok e1 q F := by
  intro F
  induction F with
  | nil => exact fun _ _ => trivial
  | cons x kids rest ihk ihr =>
    intro q hok
    obtain ⟨⟨s, hx, hsub, hn⟩, hkids, hrest⟩ := hok
    obtain ⟨d, hd⟩ := h.heap x s hx
    refine ⟨⟨set_dying s d, hd, hsub, ?_⟩, ihk x hkids, ihr q hrest⟩
    refine ⟨hn.parent, hn.root, hn.subinserted, hn.rbinserted, hn.aborting, hn.new, hn.rx_open,
      hn.rx_begun, hn.refs, hn.relay, hn.any, ?_⟩
    have := hn.tree
    rw [h.rd, h.wr]
    exact this

/-- A forest stays well formed when the states outside it change. -/
theorem forest_ok_frame (S : List Nat) (e e1 : dmsg_engine) (h : eng_frame S e e1) :
    ∀ (F : forest) (q : Nat), (∀ a, a ∈ F.preorder → a ∉ S) → forest_ok e q F →
      forest_ok e1 q F := by
  intro F
  induction F with
  | nil => exact fun _ _ _ => trivial
  | cons x kids rest ihk ihr =>
    intro q hdis hok
    obtain ⟨⟨s, hx, hsub, hn⟩, hkids, hrest⟩ := hok
    have hxS : x ∉ S := hdis x (List.mem_cons_self _ _)
    refine ⟨⟨s, (h.heap x hxS).trans hx, hsub, ?_⟩,
      ihk x (fun a ha => hdis a (List.mem_cons_of_mem _ (List.mem_append_left _ ha))) hkids,
      ihr q (fun a ha => hdis a (List.mem_cons_of_mem _ (List.mem_append_right _ ha))) hrest⟩
    refine ⟨hn.parent, hn.root, hn.subinserted, hn.rbinserted, hn.aborting, hn.new, hn.rx_open,
      hn.rx_begun, hn.refs, hn.relay, hn.any, ?_⟩
    have ht := hn.tree
    split at ht
    · rw [if_pos (by assumption)]
      exact h.wr _ _ hxS ht
    · rw [if_neg (by assumption)]
      exact h.rd _ _ hxS ht

/-- The call `dmsg_state_dying` on a state whose children can be marked. -/
theorem dying_node_of (e : dmsg_engine) (x : Nat) (s : dmsg_state) (kids : forest)
    (hx : e.heap x = some s) (hsub : s.subq = kids.roots)
    (ih : ∃ fuel e2, kids.roots.foldlM (fun ea scan => dmsg_state_dying fuel ea scan)
        (e.put x (set_dying s true)) = some e2 ∧
      dying_rel kids.preorder (e.put x (set_dying s true)) e2) :
    ∃ fuel e1, dmsg_state_dying fuel e x = some e1 ∧ dying_rel (x :: kids.preorder) e e1 := by
  by_cases hd : s.flags.DYING = true
  · refine ⟨1, e, ?_, dying_rel_refl _ _⟩
    rw [dmsg_state_dying]
    simp only [hx, Option.bind_eq_bind, Option.some_bind, hd, Bool.not_true, Bool.false_eq_true,
      if_false, Option.pure_def]
  · obtain ⟨fuel, e2, h2, hr2⟩ := ih
    refine ⟨fuel + 1, e2, ?_, ?_⟩
    · rw [dmsg_state_dying]
      simp only [hx, Option.bind_eq_bind, Option.some_bind, hd, Bool.not_false, if_true]
      rw [← hsub] at h2
      exact h2
    · exact dying_rel_trans _ _ _ _
        (dying_rel_mono _ _ _ _ (fun a ha => by rw [List.mem_singleton.1 ha]; exact List.mem_cons_self _ _)
          (dying_rel_put e x s true hx))
        (dying_rel_mono _ _ _ _ (fun a ha => List.mem_cons_of_mem _ ha) hr2)

/-- The loop of `dmsg_state_dying` over a queue of children returns. -/
theorem dying_forest : ∀ (F : forest) (e : dmsg_engine) (q : Nat), forest_ok e q F →
    ∃ fuel e1, F.roots.foldlM (fun ea scan => dmsg_state_dying fuel ea scan) e = some e1 ∧
      dying_rel F.preorder e e1 := by
  intro F
  induction F with
  | nil => exact fun e _ _ => ⟨0, e, rfl, dying_rel_refl _ _⟩
  | cons x kids rest ihk ihr =>
    intro e q hok
    obtain ⟨⟨s, hx, hsub, hn⟩, hkids, hrest⟩ := hok
    obtain ⟨f1, e1, h1, hr1⟩ := dying_node_of e x s kids hx hsub
      (ihk _ x (forest_ok_dying _ _ _ (dying_rel_put e x s true hx) kids x hkids))
    obtain ⟨f2, e2, h2, hr2⟩ := ihr e1 q (forest_ok_dying _ _ _ hr1 rest q hrest)
    refine ⟨max f1 f2, e2, ?_, ?_⟩
    · show (x :: rest.roots).foldlM _ e = some e2
      rw [List.foldlM_cons, dying_mono_le f1 _ (Nat.le_max_left _ _) _ _ _ h1]
      exact foldlM_mono _ _ (fun b a r => dying_mono_le f2 _ (Nat.le_max_right _ _) b a r) _ _ _ h2
    · exact dying_rel_trans _ _ _ _
        (dying_rel_mono _ _ _ _
          (fun a ha => by
            rcases List.mem_cons.1 ha with h | h
            · rw [h]
              exact List.mem_cons_self _ _
            · exact List.mem_cons_of_mem _ (List.mem_append_left _ h)) hr1)
        (dying_rel_mono _ _ _ _
          (fun a ha => List.mem_cons_of_mem _ (List.mem_append_right _ ha)) hr2)

/-- The call `dmsg_state_dying` on a state with well-formed children
returns. -/
theorem dying_node (e : dmsg_engine) (x : Nat) (s : dmsg_state) (kids : forest)
    (hx : e.heap x = some s) (hsub : s.subq = kids.roots) (hkids : forest_ok e x kids) :
    ∃ fuel e1, dmsg_state_dying fuel e x = some e1 ∧ dying_rel (x :: kids.preorder) e e1 :=
  dying_node_of e x s kids hx hsub
    (dying_forest kids _ x (forest_ok_dying _ _ _ (dying_rel_put e x s true hx) kids x hkids))
/-- The call `dmsg_state_abort` on an open transaction with well-formed
children: one callback for the state, the children untouched up to their
`DYING` flags, the state marked `ABORTING`, and, when its `txcmd` has `DELETE`,
removed from its tree and its parent's queue. -/
theorem abort_spec (e : dmsg_engine) (x q : Nat) (s sq : dmsg_state) (kids : forest)
    (hx : e.heap x = some s) (hq : e.heap q = some sq)
    (hsubq : s.subq = kids.roots) (hkids : forest_ok e x kids)
    (hnd : (q :: x :: kids.preorder).Nodup)
    (hpar : s.parent = some q) (hroot : s.flags.ROOT = false)
    (hsub : s.flags.SUBINSERTED = true) (hrb : s.flags.RBINSERTED = true)
    (hab : s.flags.ABORTING = false) (hnew : s.flags.NEW = false)
    (hopen : s.rxcmd &&& DMSGF_DELETE = 0)
    (hbegun : s.rxcmd &&& DMSGF_CREATE ≠ 0 ∨ s.rxcmd &&& DMSGF_REPLY ≠ 0)
    (hrelay : s.relay = none) (hmem : x ∈ sq.subq) (hrefs : 3 ≤ s.refs)
    (hqrefs : 2 ≤ sq.refs)
    (htree : (if s.rxcmd &&& DMSGF_REPLY ≠ 0 then e.statewr_tree s.msgid
              else e.staterd_tree s.msgid) = some x) :
    ∃ fuel E1 m sx1, dmsg_state_abort fuel e x = some E1 ∧ E1.rcvd = e.rcvd ++ [m] ∧
      m.state = some x ∧ m.head.cmd &&& DMSGF_DELETE ≠ 0 ∧
      m.head.error = DMSG_ERR_LOSTLINK ∧
      eng_frame (q :: x :: kids.preorder) e E1 ∧ forest_ok E1 x kids ∧
      E1.heap x = some sx1 ∧ sx1.subq = s.subq ∧ sx1.flags.ABORTING = true ∧
      sx1.flags.ROOT = false ∧ sx1.any = s.any ∧ sx1.rxcmd &&& DMSGF_DELETE ≠ 0 ∧
      (if s.txcmd &&& DMSGF_DELETE ≠ 0 then
        E1.heap q = some { sq with
          scan := if sq.scan = some x then none else sq.scan
          subq := sq.subq.erase x
          refs := sq.refs - (if sq.subq.erase x = [] then 1 else 0) } ∧
        sx1.refs = s.refs - 2 ∧ sx1.flags.SUBINSERTED = false ∧
        sx1.flags.RBINSERTED = false
      else E1.heap q = some sq ∧ sx1.refs = s.refs) := by
  have hqx : q ≠ x := fun h => (List.nodup_cons.1 hnd).1 (by rw [h]; exact List.mem_cons_self _ _)
  have hne : x ≠ q := fun h => hqx h.symm
  have hxk : x ∉ kids.preorder := (List.nodup_cons.1 (List.nodup_cons.1 hnd).2).1
  have hqk : q ∉ kids.preorder := fun h => (List.nodup_cons.1 hnd).1 (List.mem_cons_of_mem _ h)
  have hk1 : forest_ok (e.put x { s with flags := { s.flags with ABORTING := true } }) x kids :=
    forest_ok_frame [x] _ _ (eng_frame_put e x _) kids x
      (fun a ha hc => hxk (by rw [← List.mem_singleton.1 hc]; exact ha)) hkids
  obtain ⟨fuel, E2, hd, hrel⟩ := dying_node
    (e.put x { s with flags := { s.flags with ABORTING := true } }) x
    { s with flags := { s.flags with ABORTING := true } } kids (put_heap_same e x _) hsubq hk1
  obtain ⟨d, hxd⟩ := hrel.heap x _ (put_heap_same e x _)
  have hq2 : E2.heap q = some sq := by
    rw [hrel.frame q (fun hc => by
      rcases List.mem_cons.1 hc with h | h
      · exact hqx h
      · exact hqk h), put_heap_other _ _ _ _ hqx]
    exact hq
  have ht2 : (if s.rxcmd &&& DMSGF_REPLY ≠ 0 then E2.statewr_tree s.msgid
      else E2.staterd_tree s.msgid) = some x := by
    rw [hrel.rd, hrel.wr]
    exact htree
  obtain ⟨E1, m, rx, h1, h2, h3, h4, h5, h6, hrx, h7⟩ := abort_msg_spec E2 x q _ sq hxd hq2 hne hpar
    hroot hsub hrb hopen hbegun hrelay hmem hrefs (fun _ _ => hqrefs) ht2
  have hk2 : forest_ok E1 x kids :=
    forest_ok_frame [x, q] _ _ h6 kids x
      (fun a ha hc => by
        rcases List.mem_cons.1 hc with h | h
        · exact hxk (by rw [← h]; exact ha)
        · exact hqk (by rw [← List.mem_singleton.1 h]; exact ha))
      (forest_ok_dying _ _ _ hrel kids x hk1)
  have hfr : eng_frame (q :: x :: kids.preorder) e E1 :=
    eng_frame_trans _ _ _ _
      (eng_frame_mono [x] _ _ _
        (fun a ha => by
          rw [List.mem_singleton.1 ha]
          exact List.mem_cons_of_mem _ (List.mem_cons_self _ _))
        (eng_frame_put e x _))
      (eng_frame_trans _ _ _ _
        (eng_frame_mono _ _ _ _ (fun a ha => List.mem_cons_of_mem _ ha) (dying_rel_frame _ _ _ hrel))
        (eng_frame_mono [x, q] _ _ _
          (fun a ha => by
            rcases List.mem_cons.1 ha with h | h
            · rw [h]
              exact List.mem_cons_of_mem _ (List.mem_cons_self _ _)
            · rw [List.mem_singleton.1 h]
              exact List.mem_cons_self _ _)
          h6))
  have hrun : dmsg_state_abort fuel e x = some E1 := by
    unfold dmsg_state_abort
    simp only [hx, Option.bind_eq_bind, Option.some_bind, hab, Bool.false_eq_true, if_false]
    rw [hd]
    simp only [Option.some_bind, hxd]
    have hn : ¬ (s.flags.NEW = true) := by
      rw [hnew]
      decide
    rw [if_neg, if_pos]
    · exact h1
    · exact hopen
    · exact hn
  have hrc : E1.rcvd = e.rcvd ++ [m] := by
    rw [h2, hrel.rcvd]
    rfl
  dsimp only [set_dying] at h7
  by_cases hg : s.txcmd &&& DMSGF_DELETE = 0
  · have hg1 : ¬ (s.txcmd &&& DMSGF_DELETE ≠ 0) := not_not.2 hg
    rw [if_neg hg1] at h7
    refine ⟨fuel, E1, m, _, hrun, hrc, h3, h4, h5, hfr, hk2, h7.2, rfl, rfl, hroot, rfl, hrx, ?_⟩
    rw [if_neg hg1]
    exact ⟨h7.1, rfl⟩
  · rw [if_pos hg] at h7
    refine ⟨fuel, E1, m, _, hrun, hrc, h3, h4, h5, hfr, hk2, h7.2, rfl, rfl, hroot, rfl, hrx, ?_⟩
    rw [if_pos hg]
    exact ⟨h7.1, rfl, rfl, rfl⟩
theorem tailq_next_mid (A B : List Nat) (a : Nat) (h : a ∉ A) :
    TAILQ_NEXT (A ++ a :: B) a = B.head? := by
  induction A with
  | nil => simp [TAILQ_NEXT]
  | cons b A ih =>
    have hb : b ≠ a := fun hc => h (by rw [hc]; exact List.mem_cons_self _ _)
    have ha : a ∉ A := fun hc => h (List.mem_cons_of_mem _ hc)
    simp only [List.cons_append, TAILQ_NEXT, hb, if_false]
    exact ih ha

theorem erase_mid (A B : List Nat) (a : Nat) (h : a ∉ A) : (A ++ a :: B).erase a = A ++ B := by
  rw [List.erase_append_right _ h, List.erase_cons_head]

/-- The loop of `dmsg_simulate_failure` steps over children that are already
`ABORTING`. -/
theorem scan_skip (e : dmsg_engine) (q err : Nat) (sq : dmsg_state) (R : List Nat)
    (hq : e.heap q = some sq) (fuel : Nat) (r : dmsg_engine)
    (h : dmsg_simulate_failure_scan (fuel + 1) e q err R.head? = some r) :
    ∀ (A2 A1 : List Nat), sq.subq = A1 ++ (A2 ++ R) → (A1 ++ (A2 ++ R)).Nodup →
      (∀ a, a ∈ A2 → ∃ sa, e.heap a = some sa ∧ sa.flags.ABORTING = true) →
      dmsg_simulate_failure_scan (fuel + 1 + A2.length) e q err (A2 ++ R).head? = some r := by
  intro A2
  induction A2 with
  | nil =>
    intro A1 _ _ _
    exact h
  | cons a A2 ih =>
    intro A1 hsub hnd hA
    obtain ⟨sa, hsa, hab⟩ := hA a (List.mem_cons_self _ _)
    have ha1 : a ∉ A1 := by
      intro hc
      have := (List.nodup_append.1 hnd).2.2
      exact this hc (List.mem_cons_self _ _)
    show dmsg_simulate_failure_scan (fuel + 1 + A2.length + 1) e q err (some a) = some r
    rw [dmsg_simulate_failure_scan]
    simp only [hsa, hq, Option.bind_eq_bind, Option.some_bind, hab, if_true]
    have hn : TAILQ_NEXT sq.subq a = (A2 ++ R).head? := by
      rw [hsub]
      exact tailq_next_mid A1 (A2 ++ R) a ha1
    rw [hn]
    refine ih (A1 ++ [a]) ?_ ?_ (fun b hb => hA b (List.mem_cons_of_mem _ hb))
    · rw [hsub]
      simp only [List.append_assoc, List.singleton_append, List.cons_append, List.nil_append]
    · have : A1 ++ [a] ++ (A2 ++ R) = A1 ++ (a :: A2 ++ R) := by
        simp only [List.append_assoc, List.singleton_append, List.cons_append, List.nil_append]
      rw [this]
      exact hnd
theorem roots_sublist : ∀ F : forest, F.roots.Sublist F.preorder
  | .nil => List.Sublist.slnil
  | .cons x kids rest => by
    show (x :: rest.roots).Sublist (x :: (kids.preorder ++ rest.preorder))
    exact List.Sublist.cons₂ x ((roots_sublist rest).trans (List.sublist_append_right _ _))

theorem roots_eq_nil (F : forest) (h : F.roots = []) : F = .nil := by
  cases F with
  | nil => rfl
  | cons x kids rest => exact absurd h (List.cons_ne_nil _ _)

/-- The call `dmsg_simulate_failure(x, 1, error)` on an open transaction whose
children's loop meets its specification: the callback of `x`, then those of
its subtree; nothing else changes but the parent's queue, which `x` leaves when
its `txcmd` has `DELETE`. -/
theorem sim_node (err : Nat) (e : dmsg_engine) (x q : Nat) (s sq : dmsg_state) (kids : forest)
    (ih : scan_spec err kids)
    (hx : e.heap x = some s) (hq : e.heap q = some sq) (hsubq : s.subq = kids.roots)
    (hn : node_ok e q x s) (hkids : forest_ok e x kids)
    (hnd : (q :: x :: kids.preorder).Nodup) (hmem : x ∈ sq.subq) (hqrefs : 2 ≤ sq.refs) :
    ∃ fuel e1 m msgs, dmsg_simulate_failure fuel e x true err = some e1 ∧
      e1.rcvd = e.rcvd ++ m :: msgs ∧ m.state = some x ∧
      m.head.cmd &&& DMSGF_DELETE ≠ 0 ∧ m.head.error = DMSG_ERR_LOSTLINK ∧
      msgs.map (fun m => m.state) = kids.preorder.map some ∧
      (∀ m1 ∈ msgs, m1.head.cmd &&& DMSGF_DELETE ≠ 0 ∧ m1.head.error = DMSG_ERR_LOSTLINK) ∧
      eng_frame (q :: x :: kids.preorder) e e1 ∧
      (if s.txcmd &&& DMSGF_DELETE ≠ 0 then
        e1.heap q = some { sq with
          scan := if sq.scan = some x then none else sq.scan
          subq := sq.subq.erase x
          refs := sq.refs - (if sq.subq.erase x = [] then 1 else 0) }
      else e1.heap q = some sq ∧ ∃ sx, e1.heap x = some sx ∧ sx.flags.ABORTING = true) := by
  have hqx : q ≠ x := fun h => (List.nodup_cons.1 hnd).1 (by rw [h]; exact List.mem_cons_self _ _)
  have hndx : (x :: kids.preorder).Nodup := (List.nodup_cons.1 hnd).2
  have hxk : x ∉ kids.preorder := (List.nodup_cons.1 hndx).1
  have hqxk : q ∉ x :: kids.preorder := (List.nodup_cons.1 hnd).1
  have hrefs := hn.refs
  have hr2 : 2 ≤ s.refs := by
    split at hrefs <;> omega
  have hr3 : kids ≠ .nil → 3 ≤ s.refs := by
    intro hk
    have : ¬ (s.subq = []) := fun hc => hk (roots_eq_nil kids (hsubq ▸ hc))
    rw [if_neg this] at hrefs
    omega
  have hk1 : forest_ok (e.put x { s with refs := s.refs + 1 }) x kids :=
    forest_ok_frame [x] _ _ (eng_frame_put e x _) kids x
      (fun a ha hc => hxk (by rw [← List.mem_singleton.1 hc]; exact ha)) hkids
  obtain ⟨fa, E1, m, sx1, ha, hrc1, hm1, hm2, hm3, hfr1, hk2, hx1, hs1, hab1, hroot1, hany1,
    -, hcase⟩ := abort_spec (e.put x { s with refs := s.refs + 1 }) x q
      { s with refs := s.refs + 1 } sq kids (put_heap_same e x _)
      ((put_heap_other e x q _ hqx).trans hq) hsubq hk1 hnd hn.parent hn.root hn.subinserted
      hn.rbinserted hn.aborting hn.new hn.rx_open hn.rx_begun hn.relay hmem
      (by show (3 : Int) ≤ s.refs + 1; omega) hqrefs hn.tree
  dsimp only at hs1 hany1 hcase
  have hsx1r : kids = .nil ∨ 2 ≤ sx1.refs := by
    by_cases hkn : kids = .nil
    · exact Or.inl hkn
    · right
      have := hr3 hkn
      split at hcase
      · rw [hcase.2.1]
        omega
      · rw [hcase.2]
        omega
  have hpre : scan_pre kids x sx1 [] E1 :=
    ⟨hx1, by rw [hs1, hsubq]; rfl, (List.nodup_cons.1 hndx).2.sublist (roots_sublist kids), hndx,
      fun a ha => absurd ha (List.not_mem_nil a), hk2, hsx1r⟩
  obtain ⟨fk, E2, hscan, hpost⟩ := ih E1 x sx1 [] hpre
  obtain ⟨sx2, hx2, hkeep, hrefs2⟩ := hpost.parent
  obtain ⟨msgs, hrc2, hmap, hall⟩ := hpost.rcvd
  have hflags : sx2.flags = sx1.flags := by rw [hkeep]
  have hany2 : sx2.any = s.any := by rw [hkeep, hany1]
  have hq1 : E2.heap q = E1.heap q := hpost.frame.heap q hqxk
  have hdrop : ∃ E3, dmsg_state_drop E2 x = some E3 ∧ E3.rcvd = E2.rcvd ∧
      eng_frame [x] E2 E3 ∧
      (s.txcmd &&& DMSGF_DELETE = 0 → ∃ sx, E3.heap x = some sx ∧ sx.flags.ABORTING = true) := by
    by_cases h2 : 2 ≤ sx2.refs
    · refine ⟨_, drop_keep E2 x sx2 hx2 h2, rfl, eng_frame_put _ _ _, fun _ => ?_⟩
      exact ⟨_, put_heap_same _ _ _, by show sx2.flags.ABORTING = true; rw [hflags]; exact hab1⟩
    · by_cases hg : s.txcmd &&& DMSGF_DELETE = 0
      · exfalso
        rw [if_neg (not_not.2 hg)] at hcase
        rcases hrefs2 with h | h
        · rw [h.1, hcase.2] at h2
          omega
        · rw [h.2.1, hcase.2] at h2
          omega
      · rw [if_pos hg] at hcase
        obtain ⟨-, hc1, hc2, hc3⟩ := hcase
        have hone : sx2.refs = 1 ∧ sx2.subq = [] := by
          rcases hrefs2 with h | h
          · have h1 : sx2.refs = s.refs + 1 - 2 := h.1.trans hc1
            have hkn : kids = .nil := by
              by_contra hkn
              have := hr3 hkn
              omega
            refine ⟨by omega, ?_⟩
            rw [h.2 hkn, hs1, hsubq, hkn]
            rfl
          · have h1 : sx2.refs = s.refs + 1 - 2 - 1 := by rw [h.2.1, hc1]
            have := hr3 h.1
            exact ⟨by omega, h.2.2⟩
        obtain ⟨E3, hd, hh, hr, hf⟩ := drop_free E2 x sx2 hx2 hone.1
          (by rw [hflags]; exact hroot1) (by rw [hflags]; exact hc2) (by rw [hflags]; exact hc3)
          hone.2 (by rw [hany2]; exact hn.any)
        exact ⟨E3, hd, hr, hf, fun h => absurd h hg⟩
  obtain ⟨E3, hd3, hrc3, hfr3, hx3⟩ := hdrop
  have hscan1 : dmsg_simulate_failure_scan (max fa fk) E1 x err sx1.subq.head? = some E2 := by
    rw [hs1, hsubq]
    exact scan_mono_le fk _ (Nat.le_max_right fa fk) _ _ _ _ _ hscan
  have hrun : dmsg_simulate_failure (max fa fk + 1) e x true err = some E3 := by
    rw [dmsg_simulate_failure]
    simp only [hold_eq e x s hx, Option.bind_eq_bind, Option.some_bind, if_true,
      abort_mono_le fa _ (Nat.le_max_left fa fk) _ _ _ ha, hx1, hscan1, hd3]
  have hin1 : ∀ a, a ∈ [x] → a ∈ q :: x :: kids.preorder := fun a ha => by
    rw [List.mem_singleton.1 ha]
    exact List.mem_cons_of_mem _ (List.mem_cons_self _ _)
  have hfr : eng_frame (q :: x :: kids.preorder) e E3 :=
    eng_frame_trans _ _ _ _ (eng_frame_mono [x] _ _ _ hin1 (eng_frame_put e x _))
      (eng_frame_trans _ _ _ _ hfr1
        (eng_frame_trans _ _ _ _
          (eng_frame_mono _ _ _ _ (fun a ha => List.mem_cons_of_mem _ ha) hpost.frame)
          (eng_frame_mono [x] _ _ _ hin1 hfr3)))
  have hq3 : E3.heap q = E1.heap q := by
    rw [hfr3.heap q (fun hc => hqx (List.mem_singleton.1 hc))]
    exact hq1
  refine ⟨max fa fk + 1, E3, m, msgs, hrun, ?_, hm1, hm2, hm3, hmap, hall, hfr, ?_⟩
  · rw [hrc3, hrc2, hrc1]
    show e.rcvd ++ [m] ++ msgs = e.rcvd ++ m :: msgs
    simp only [List.append_assoc, List.singleton_append]
  · by_cases hg : s.txcmd &&& DMSGF_DELETE = 0
    · rw [if_neg (not_not.2 hg)] at hcase ⊢
      exact ⟨hq3.trans hcase.1, hx3 hg⟩
    · rw [if_pos hg] at hcase ⊢
      exact hq3.trans hcase.1
/-- The loop of `dmsg_simulate_failure` over a well-formed queue of open
transactions: every state of the forest gets its callback, in root-first
subtree order. -/
theorem scan_spec_all (err : Nat) : ∀ F : forest, scan_spec err F := by
  intro F
  induction F with
  | nil =>
    intro e q sq A hpre
    refine ⟨1, e, ?_, ⟨⟨[], (List.append_nil _).symm, rfl, fun _ h => absurd h (List.not_mem_nil _)⟩,
      eng_frame_refl _ _, ⟨sq, hpre.heap, rfl, Or.inl ⟨rfl, fun _ => rfl⟩⟩⟩⟩
    show dmsg_simulate_failure_scan 1 e q err none = some e
    rw [dmsg_simulate_failure_scan]
  | cons x kids rest ihk ihr =>
    intro e q sq A hpre
    obtain ⟨hq, hsub, hndq, hnd, hA, hok, hrefs⟩ := hpre
    obtain ⟨⟨s, hx, hsubq, hn⟩, hkids, hrest⟩ := hok
    have hqrefs : 2 ≤ sq.refs := by
      rcases hrefs with h | h
      · exact forest.noConfusion h
      · exact h
    have hsub1 : sq.subq = A ++ x :: rest.roots := hsub
    have hndq1 : (A ++ x :: rest.roots).Nodup := hndq
    have hnd1 : (q :: x :: (kids.preorder ++ rest.preorder)).Nodup := hnd
    have hqx : q ≠ x := fun h =>
      (List.nodup_cons.1 hnd1).1 (by rw [h]; exact List.mem_cons_self _ _)
    have hxq : x ≠ q := fun h => hqx h.symm
    have hxA : x ∉ A := fun hc =>
      (List.nodup_append.1 hndq1).2.2 hc (List.mem_cons_self _ _)
    have hnd_node : (q :: x :: kids.preorder).Nodup :=
      hnd1.sublist (List.Sublist.cons₂ q (List.Sublist.cons₂ x (List.sublist_append_left _ _)))
    have hnd_rest : (q :: rest.preorder).Nodup :=
      hnd1.sublist (List.Sublist.cons₂ q
        (List.Sublist.cons x (List.sublist_append_right _ _)))
    have hdisj : ∀ a, a ∈ rest.preorder → a ∉ q :: x :: kids.preorder := by
      intro a ha hc
      have h1 := List.nodup_cons.1 hnd1
      have h2 := List.nodup_cons.1 h1.2
      rcases List.mem_cons.1 hc with h | h
      · exact h1.1 (by rw [← h]; exact List.mem_cons_of_mem _ (List.mem_append_right _ ha))
      · rcases List.mem_cons.1 h with h | h
        · exact h2.1 (by rw [← h]; exact List.mem_append_right _ ha)
        · exact (List.nodup_append.1 h2.2).2.2 h ha
    have hqk : q ∉ kids.preorder := fun hc =>
      (List.nodup_cons.1 hnd_node).1 (List.mem_cons_of_mem _ hc)
    have hx0 : (e.put q { sq with scan := some x }).heap x = some s :=
      (put_heap_other e q x _ hxq).trans hx
    have hk0 : forest_ok (e.put q { sq with scan := some x }) x kids :=
      forest_ok_frame [q] _ _ (eng_frame_put e q _) kids x
        (fun a ha hc => hqk (by rw [← List.mem_singleton.1 hc]; exact ha)) hkids
    have hn0 : node_ok (e.put q { sq with scan := some x }) q x s :=
      ⟨hn.parent, hn.root, hn.subinserted, hn.rbinserted, hn.aborting, hn.new, hn.rx_open,
        hn.rx_begun, hn.refs, hn.relay, hn.any, hn.tree⟩
    have hmem : x ∈ ({ sq with scan := some x } : dmsg_state).subq := by
      show x ∈ sq.subq
      rw [hsub1]
      exact List.mem_append_right _ (List.mem_cons_self _ _)
    obtain ⟨fs, E3, m, msgs, hsim, hrc, hm1, hm2, hm3, hmap, hall, hfr, hcase⟩ :=
      sim_node err (e.put q { sq with scan := some x }) x q s { sq with scan := some x } kids ihk
        hx0 (put_heap_same _ _ _) hsubq hn0 hk0 hnd_node hmem hqrefs
    have hfr0 : eng_frame (q :: x :: kids.preorder) e E3 :=
      eng_frame_trans _ _ _ _
        (eng_frame_mono [q] _ _ _
          (fun a ha => by rw [List.mem_singleton.1 ha]; exact List.mem_cons_self _ _)
          (eng_frame_put e q _)) hfr
    have hrest3 : forest_ok E3 q rest := forest_ok_frame _ _ _ hfr0 rest q hdisj hrest
    have hA3 : ∀ a, a ∈ A → a ≠ q ∧ a ∉ rest.preorder ∧
        ∃ sa, E3.heap a = some sa ∧ sa.flags.ABORTING = true := by
      intro a ha
      obtain ⟨h1, h2, sa, h3, h4⟩ := hA a ha
      have h2a : a ∉ x :: (kids.preorder ++ rest.preorder) := h2
      refine ⟨h1, fun hc => h2a (List.mem_cons_of_mem _ (List.mem_append_right _ hc)), sa, ?_, h4⟩
      rw [hfr0.heap a (fun hc => by
        rcases List.mem_cons.1 hc with h | h
        · exact h1 h
        · rcases List.mem_cons.1 h with h | h
          · exact h2a (by rw [h]; exact List.mem_cons_self _ _)
          · exact h2a (List.mem_cons_of_mem _ (List.mem_append_left _ h)))]
      exact h3
    have hxrest : x ∉ rest.preorder := fun hc =>
      (List.nodup_cons.1 (List.nodup_cons.1 hnd1).2).1 (List.mem_append_right _ hc)
    have hrcvd : ∀ (E4 : dmsg_engine), cascade_rcvd rest E3 E4 →
        cascade_rcvd (.cons x kids rest) e E4 := by
      intro E4 h4
      obtain ⟨msgs4, hrc4, hmap4, hall4⟩ := h4
      refine ⟨m :: (msgs ++ msgs4), ?_, ?_, ?_⟩
      · rw [hrc4, hrc]
        show e.rcvd ++ m :: msgs ++ msgs4 = e.rcvd ++ m :: (msgs ++ msgs4)
        simp only [List.append_assoc, List.cons_append]
      · show (m :: (msgs ++ msgs4)).map (fun m => m.state) =
          (x :: (kids.preorder ++ rest.preorder)).map some
        simp only [List.map_cons, List.map_append, hm1, hmap, hmap4]
      · intro m1 h1
        rcases List.mem_cons.1 h1 with h | h
        · rw [h]
          exact ⟨hm2, hm3⟩
        · rcases List.mem_append.1 h with h | h
          · exact hall m1 h
          · exact hall4 m1 h
    have hframe : ∀ (E4 : dmsg_engine), eng_frame (q :: rest.preorder) E3 E4 →
        eng_frame (q :: (forest.cons x kids rest).preorder) e E4 := by
      intro E4 h4
      refine eng_frame_trans _ _ _ _ (eng_frame_mono _ _ _ _ ?_ hfr0)
        (eng_frame_mono _ _ _ _ ?_ h4)
      · intro a ha
        show a ∈ q :: x :: (kids.preorder ++ rest.preorder)
        rcases List.mem_cons.1 ha with h | h
        · rw [h]
          exact List.mem_cons_self _ _
        · rcases List.mem_cons.1 h with h | h
          · rw [h]
            exact List.mem_cons_of_mem _ (List.mem_cons_self _ _)
          · exact List.mem_cons_of_mem _ (List.mem_cons_of_mem _ (List.mem_append_left _ h))
      · intro a ha
        show a ∈ q :: x :: (kids.preorder ++ rest.preorder)
        rcases List.mem_cons.1 ha with h | h
        · rw [h]
          exact List.mem_cons_self _ _
        · exact List.mem_cons_of_mem _ (List.mem_cons_of_mem _ (List.mem_append_right _ h))
    have hne : forest.cons x kids rest ≠ forest.nil := fun h => forest.noConfusion h
    by_cases hg : s.txcmd &&& DMSGF_DELETE = 0
    · rw [if_neg (not_not.2 hg)] at hcase
      obtain ⟨hq3, sx, hx3, hxab⟩ := hcase
      have hpre1 : scan_pre rest q { sq with scan := some x } (A ++ [x]) E3 := by
        refine ⟨hq3, ?_, ?_, hnd_rest, ?_, hrest3, Or.inr hqrefs⟩
        · show sq.subq = A ++ [x] ++ rest.roots
          rw [hsub1, List.append_assoc, List.singleton_append]
        · rw [List.append_assoc, List.singleton_append]
          exact hndq1
        · intro a ha
          rcases List.mem_append.1 ha with h | h
          · exact hA3 a h
          · rw [List.mem_singleton.1 h]
            exact ⟨hxq, hxrest, sx, hx3, hxab⟩
      obtain ⟨fr, E4, hscan, hpost⟩ := ihr E3 q _ (A ++ [x]) hpre1
      obtain ⟨sq2, hq4, hkeep, hcond⟩ := hpost.parent
      refine ⟨max fs fr + 1, E4, ?_, ⟨hrcvd E4 hpost.rcvd, hframe E4 hpost.frame,
        ⟨sq2, hq4, hkeep, ?_⟩⟩⟩
      · show dmsg_simulate_failure_scan (max fs fr + 1) e q err (some x) = some E4
        have hnext : TAILQ_NEXT sq.subq x = rest.roots.head? := by
          rw [hsub1]
          exact tailq_next_mid A rest.roots x hxA
        rw [dmsg_simulate_failure_scan]
        simp only [hx, hq, Option.bind_eq_bind, Option.some_bind, hn.aborting, Bool.false_eq_true,
          if_false, simulate_mono_le fs _ (Nat.le_max_left fs fr) _ _ _ _ _ hsim, hq3, ne_eq,
          not_true_eq_false, hnext]
        exact scan_mono_le fr _ (Nat.le_max_right fs fr) _ _ _ _ _ hscan
      · rcases hcond with ⟨h1, -⟩ | ⟨-, h2, h3⟩
        · exact Or.inl ⟨h1, fun h => absurd h hne⟩
        · exact Or.inr ⟨hne, h2, h3⟩
    · rw [if_pos hg] at hcase
      have herase : sq.subq.erase x = A ++ rest.roots := by
        rw [hsub1]
        exact erase_mid A rest.roots x hxA
      dsimp only at hcase
      rw [if_pos rfl, herase] at hcase
      have hndq2 : (A ++ rest.roots).Nodup :=
        hndq1.sublist (List.Sublist.append (List.Sublist.refl A) (List.sublist_cons_self x _))
      have hrho : rest = .nil ∨
          sq.refs - (if A ++ rest.roots = [] then 1 else 0) = sq.refs := by
        by_cases hrn : rest = .nil
        · exact Or.inl hrn
        · right
          have : ¬ (A ++ rest.roots = []) := fun hc =>
            hrn (roots_eq_nil rest (List.append_eq_nil.1 hc).2)
          rw [if_neg this, sub_zero]
      have hpre1 : scan_pre rest q
          { sq with scan := none, subq := A ++ rest.roots
                    refs := sq.refs - (if A ++ rest.roots = [] then 1 else 0) } A E3 := by
        refine ⟨hcase, rfl, hndq2, hnd_rest, hA3, hrest3, ?_⟩
        rcases hrho with h | h
        · exact Or.inl h
        · right
          show (2 : Int) ≤ sq.refs - (if A ++ rest.roots = [] then 1 else 0)
          rw [h]
          exact hqrefs
      obtain ⟨fr, E4, hscan, hpost⟩ := ihr E3 q _ A hpre1
      obtain ⟨sq2, hq4, hkeep, hcond⟩ := hpost.parent
      have hskip := scan_skip E3 q err _ rest.roots hcase fr E4
        (scan_mono_le fr _ (Nat.le_succ fr) _ _ _ _ _ hscan) A [] rfl hndq2
        (fun a ha => (hA3 a ha).2.2)
      refine ⟨max fs (fr + 1 + A.length) + 1, E4, ?_, ⟨hrcvd E4 hpost.rcvd,
        hframe E4 hpost.frame, ⟨sq2, hq4, hkeep, ?_⟩⟩⟩
      · show dmsg_simulate_failure_scan (max fs (fr + 1 + A.length) + 1) e q err (some x) =
          some E4
        rw [dmsg_simulate_failure_scan]
        simp only [hx, hq, Option.bind_eq_bind, Option.some_bind, hn.aborting, Bool.false_eq_true,
          if_false, simulate_mono_le fs _ (Nat.le_max_left fs _) _ _ _ _ _ hsim, hcase, ne_eq,
          not_false_eq_true, if_true]
        exact scan_mono_le _ _ (Nat.le_max_right fs _) _ _ _ _ _ hskip
      · dsimp only at hcond
        rcases hcond with ⟨h1, h2⟩ | ⟨h1, h2, h3⟩
        · by_cases hemp : A ++ rest.roots = []
          · have hrn : rest = .nil := roots_eq_nil rest (List.append_eq_nil.1 hemp).2
            rw [if_pos hemp] at h1
            exact Or.inr ⟨hne, h1, (h2 hrn).trans hemp⟩
          · rw [if_neg hemp, sub_zero] at h1
            exact Or.inl ⟨h1, fun h => absurd h hne⟩
        · rcases hrho with h | h
          · exact absurd h h1
          · rw [h] at h2
            exact Or.inr ⟨hne, h2, h3⟩
/-- The failure cascade on a forest. For every state forest `F` under
`state0` that is well formed (`forest_ok`: every transaction is on its parent's
queue and in its tree, holds the references of both, has no relay), in which
every transaction is open in the receive direction (`rxcmd` lacks `DELETE` and
has `CREATE` or `REPLY`), none is `ABORTING` and none is `NEW`, and for the
recording callback, `dmsg_simulate_failure(state0, 0, err)` returns, given
enough fuel, and has invoked the callback exactly once per transaction, in
root-first subtree order (a parent before its children, siblings in queue
order), each time with a message that has `DELETE` set and the error
`LOSTLINK`, without a failed assertion. -/
theorem forest_callbacks (e : dmsg_engine) (F : forest) (s0 : dmsg_state) (err : Nat)
    (h0 : e.heap 0 = some s0) (hsub : s0.subq = F.roots)
    (hrefs : (1 + if s0.subq = [] then 0 else 1) ≤ s0.refs)
    (hok : forest_ok e 0 F) (hnd : (0 :: F.preorder).Nodup) :
    ∃ N, ∀ fuel, N ≤ fuel →
      ∃ e1, dmsg_simulate_failure fuel e 0 false err = some e1 ∧
        (∃ msgs : List dmsg_msg, e1.rcvd = e.rcvd ++ msgs ∧
          msgs.map (fun m => m.state) = F.preorder.map some ∧
          ∀ m ∈ msgs, m.head.cmd &&& DMSGF_DELETE ≠ 0 ∧ m.head.error = DMSG_ERR_LOSTLINK) ∧
        e1.assert_failed = e.assert_failed := by
  have h0F : (0 : Nat) ∉ F.preorder := (List.nodup_cons.1 hnd).1
  have hr1 : 1 ≤ s0.refs := by
    split at hrefs <;> omega
  have hk1 : forest_ok (e.put 0 { s0 with refs := s0.refs + 1 }) 0 F :=
    forest_ok_frame [0] _ _ (eng_frame_put e 0 _) F 0
      (fun a ha hc => h0F (by rw [← List.mem_singleton.1 hc]; exact ha)) hok
  have hpre : scan_pre F 0 { s0 with refs := s0.refs + 1 } []
      (e.put 0 { s0 with refs := s0.refs + 1 }) :=
    ⟨put_heap_same _ _ _, hsub, (List.nodup_cons.1 hnd).2.sublist (roots_sublist F), hnd,
      fun a ha => absurd ha (List.not_mem_nil a), hk1,
      Or.inr (by show (2 : Int) ≤ s0.refs + 1; omega)⟩
  obtain ⟨fr, E2, hscan, hpost⟩ := scan_spec_all err F _ 0 _ [] hpre
  obtain ⟨sq2, hq2, hkeep, hcond⟩ := hpost.parent
  dsimp only at hcond
  have h2 : 2 ≤ sq2.refs := by
    rcases hcond with ⟨h, -⟩ | ⟨hF, h, -⟩
    · rw [h]
      omega
    · have : ¬ (s0.subq = []) := fun hc => hF (roots_eq_nil F (hsub ▸ hc))
      rw [if_neg this] at hrefs
      rw [h]
      omega
  have hrun : dmsg_simulate_failure (fr + 1) e 0 false err =
      some (E2.put 0 { sq2 with refs := sq2.refs - 1 }) := by
    rw [dmsg_simulate_failure]
    simp only [hold_eq e 0 s0 h0, Option.bind_eq_bind, Option.some_bind, Bool.false_eq_true,
      if_false, Option.pure_def, put_heap_same]
    rw [← hsub] at hscan
    rw [hscan, Option.some_bind]
    exact drop_keep E2 0 sq2 hq2 h2
  refine ⟨fr + 1, fun fuel hf => ⟨_, simulate_mono_le _ _ hf _ _ _ _ _ hrun, hpost.rcvd, ?_⟩⟩
  exact hpost.frame.assert

/-- The forest of the failure scenario (10 and 20 under `state0`, 101 and 102
under 10, 201 under 20), also with the transmit side of 10 and 201 already
closed, meets the conditions of `forest_callbacks`, and the callbacks arrive
for 10, 101, 102, 20, 201 in this order. -/
theorem forest_callbacks_example :
    (∃ N, ∀ fuel, N ≤ fuel →
      ∃ e1, dmsg_simulate_failure fuel ex_eng5 0 false 0 = some e1 ∧
        (∃ msgs : List dmsg_msg, e1.rcvd = ex_eng5.rcvd ++ msgs ∧
          msgs.map (fun m => m.state) = [some 10, some 101, some 102, some 20, some 201] ∧
          ∀ m ∈ msgs, m.head.cmd &&& DMSGF_DELETE ≠ 0 ∧ m.head.error = DMSG_ERR_LOSTLINK) ∧
        e1.assert_failed = false) ∧
    (∃ N, ∀ fuel, N ≤ fuel →
      ∃ e1, dmsg_simulate_failure fuel ex_eng5_closed 0 false 0 = some e1 ∧
        (∃ msgs : List dmsg_msg, e1.rcvd = ex_eng5_closed.rcvd ++ msgs ∧
          msgs.map (fun m => m.state) = [some 10, some 101, some 102, some 20, some 201] ∧
          ∀ m ∈ msgs, m.head.cmd &&& DMSGF_DELETE ≠ 0 ∧ m.head.error = DMSG_ERR_LOSTLINK) ∧
        e1.assert_failed = false) ∧
    rcvd_view (dmsg_simulate_failure 10 ex_eng5 0 false 0) =
      some ([(some 10, true, true), (some 101, true, true), (some 102, true, true),
        (some 20, true, true), (some 201, true, true)], false) := by
  refine ⟨?_, ?_, by decide!⟩
  · refine forest_callbacks ex_eng5 ex_forest5 _ 0 rfl rfl (by decide) ?_ (by decide)
    refine ⟨⟨_, rfl, rfl, ?_⟩, ⟨⟨_, rfl, rfl, ?_⟩, trivial, ⟨_, rfl, rfl, ?_⟩, trivial, trivial⟩,
      ⟨_, rfl, rfl, ?_⟩, ⟨⟨_, rfl, rfl, ?_⟩, trivial, trivial⟩, trivial⟩ <;>
    exact ⟨rfl, rfl, rfl, rfl, rfl, rfl, by decide, by decide, by decide, rfl, rfl, by decide⟩
  · refine forest_callbacks ex_eng5_closed ex_forest5 _ 0 rfl rfl (by decide) ?_
      (by decide)
    refine ⟨⟨_, rfl, rfl, ?_⟩, ⟨⟨_, rfl, rfl, ?_⟩, trivial, ⟨_, rfl, rfl, ?_⟩, trivial, trivial⟩,
      ⟨_, rfl, rfl, ?_⟩, ⟨⟨_, rfl, rfl, ?_⟩, trivial, trivial⟩, trivial⟩ <;>
    exact ⟨rfl, rfl, rfl, rfl, rfl, rfl, by decide, by decide, by decide, rfl, rfl, by decide⟩

/-- The branch of `dmsg_msg_alloc_locked` that creates a state, on a live
parent and a fresh address. -/
theorem alloc_create_eq (e : dmsg_engine) (p cmd func : Nat) (data : Bool) (ps : dmsg_state)
    (hp : e.heap p = some ps) (hfresh : e.heap e.brk = none)
    (htree : e.statewr_tree e.brk = none) :
    dmsg_msg_alloc_create e p cmd func data =
      some ({ e with
              heap := Function.update (Function.update e.heap e.brk
                (some { dmsg_state.zero with
                        parent := some p
                        flags := { DYNAMIC := true, SUBINSERTED := true, RBINSERTED := true,
                                   DYING := ps.flags.DYING }
                        msgid := e.brk
                        txcmd := cmd &&& not32 (DMSGF_CREATE ||| DMSGF_DELETE)
                        rxcmd := DMSGF_REPLY
                        icmd := (cmd &&& not32 (DMSGF_CREATE ||| DMSGF_DELETE)) &&&
                          DMSGF_BASECMDMASK
                        refs := 3
                        func := func
                        any := data })) p
                (some { ps with
                        subq := ps.subq ++ [e.brk]
                        refs := ps.refs + (if ps.subq = [] then 1 else 0) })
              statewr_tree := Function.update e.statewr_tree e.brk (some e.brk)
              brk := e.brk + 1
              dmsg_state_count := e.dmsg_state_count + 1 }, e.brk) := by
  have hne : p ≠ e.brk := by
    intro h
    rw [h, hfresh] at hp
    cases hp
  unfold dmsg_msg_alloc_create
  simp only [hp, Option.bind_eq_bind, Option.some_bind, Option.pure_def]
  cases hq : ps.subq with
  | nil =>
    simp only [List.isEmpty_nil, if_true, dmsg_state_hold, dmsg_engine.put,
      Function.update_noteq hne, hp, Option.bind_eq_bind, Option.some_bind, Option.pure_def,
      Function.update_same, RB_INSERT, htree, Function.update_noteq (Ne.symm hne),
      List.nil_append, hq]
    congr 2
    congr 1
    funext a
    by_cases h1 : a = e.brk
    · subst h1
      simp [Function.update_noteq (Ne.symm hne), dmsg_state.zero]
    · by_cases h2 : a = p
      · subst h2
        simp [Function.update_noteq h1]
      · simp [Function.update_noteq h1, Function.update_noteq h2]
  | cons c cs =>
    simp only [List.isEmpty_cons, Bool.false_eq_true, if_false, dmsg_state_hold, dmsg_engine.put,
      Function.update_noteq hne, hp, Option.bind_eq_bind, Option.some_bind, Option.pure_def,
      Function.update_same, RB_INSERT, htree, Function.update_noteq (Ne.symm hne), hq]
    congr 2
    congr 1
    funext a
    by_cases h1 : a = e.brk
    · subst h1
      simp [Function.update_noteq (Ne.symm hne), dmsg_state.zero]
    · by_cases h2 : a = p
      · subst h2
        simp [Function.update_noteq h1]
      · simp [Function.update_noteq h1, Function.update_noteq h2]

/-- C11. `dmsg_msg_alloc` (the function `dmsg_msg_alloc_locked` under the
mutex) on a live state `p`.  When `cmd` has `CREATE` set and `REPLY` clear,
and `malloc` returns an address that is neither allocated nor a key of
`statewr_tree`, the call creates exactly one state `s`, at that address: it
is inserted in `statewr_tree`, appended at the tail of `p.subq` with
`s.parent == p`, flagged `DYNAMIC|SUBINSERTED|RBINSERTED` plus `DYING` iff
`p` is `DYING`, with `rxcmd == REPLY`, `txcmd` the command without `CREATE`
and `DELETE`, and `refs == 3`; `p` gains one reference iff its queue was
empty; the returned message has `state == s`, `head.msgid == s.msgid` and
`head.circuit == p.msgid`; no other state, and no entry of `staterd_tree`,
changes.  For every other `cmd`, when the parent pointer of `p` is valid, no
state is created, the message is bound to `p`, and `p.refs` grows by exactly
one while everything else stays as it was. -/
theorem msg_alloc_contract (e : dmsg_engine) (p aux_size cmd func : Nat) (data : Bool)
    (ps : dmsg_state) (hp : e.heap p = some ps) :
    (cmd &&& (DMSGF_CREATE ||| DMSGF_REPLY) = DMSGF_CREATE →
      e.heap e.brk = none → e.statewr_tree e.brk = none →
      ∃ e1 msg s, dmsg_msg_alloc_locked e p aux_size cmd func data = some (e1, msg) ∧
        s = e.brk ∧ msg.state = some s ∧ msg.head.msgid = s ∧ msg.head.circuit = ps.msgid ∧
        e1.heap s = some
          { dmsg_state.zero with
            parent := some p
            flags := { DYNAMIC := true, SUBINSERTED := true, RBINSERTED := true,
                       DYING := ps.flags.DYING }
            msgid := s
            txcmd := cmd &&& not32 (DMSGF_CREATE ||| DMSGF_DELETE)
            rxcmd := DMSGF_REPLY
            icmd := (cmd &&& not32 (DMSGF_CREATE ||| DMSGF_DELETE)) &&& DMSGF_BASECMDMASK
            refs := 3
            func := func
            any := data } ∧
        e1.heap p = some
          { ps with subq := ps.subq ++ [s]
                    refs := ps.refs + (if ps.subq = [] then 1 else 0) } ∧
        (∀ a, a ≠ p → a ≠ s → e1.heap a = e.heap a) ∧
        e1.statewr_tree = Function.update e.statewr_tree s (some s) ∧
        e1.staterd_tree = e.staterd_tree ∧
        e1.dmsg_state_count = e.dmsg_state_count + 1) ∧
    (cmd &&& (DMSGF_CREATE ||| DMSGF_REPLY) ≠ DMSGF_CREATE →
      ∀ q qs, ps.parent = some q → e.heap q = some qs →
      ∃ e1 msg, dmsg_msg_alloc_locked e p aux_size cmd func data = some (e1, msg) ∧
        msg.state = some p ∧
        e1.heap p = some { ps with refs := ps.refs + 1 } ∧
        (∀ a, a ≠ p → e1.heap a = e.heap a) ∧
        e1.statewr_tree = e.statewr_tree ∧ e1.staterd_tree = e.staterd_tree ∧
        e1.brk = e.brk ∧ e1.dmsg_state_count = e.dmsg_state_count) := by
  constructor
  · intro hc hfresh htree
    have hne : p ≠ e.brk := by
      intro h
      rw [h, hfresh] at hp
      cases hp
    unfold dmsg_msg_alloc_locked
    simp only [hc, decide_True, if_true, alloc_create_eq e p cmd func data ps hp hfresh htree,
      Option.bind_eq_bind, Option.some_bind, hp, dmsg_engine.check, Function.update_same,
      Function.update_noteq (Ne.symm hne), Option.pure_def]
    refine ⟨_, _, e.brk, rfl, rfl, rfl, rfl, rfl, ?_, ?_, ?_, rfl, rfl, rfl⟩
    · simp only [Function.update_noteq (Ne.symm hne), Function.update_same]
    · simp only [Function.update_same]
    · intro a h1 h2
      simp only [Function.update_noteq h1, Function.update_noteq h2]
  · intro hc q qs hq hqs
    rcases ps with ⟨par, subq, scan, flags, txcmd, rxcmd, icmd, msgid, refs, relay, fn, any⟩
    simp only at hq
    subst hq
    unfold dmsg_msg_alloc_locked
    simp only [hc, decide_False, Bool.false_eq_true, if_false, hold_eq e p _ hp,
      Option.map_some', Option.bind_eq_bind, Option.some_bind, hp, put_heap_same,
      Option.pure_def]
    by_cases hqp : q = p
    · subst hqp
      simp only [dmsg_engine.check, dmsg_engine.put, Function.update_same, Option.some_bind]
      refine ⟨_, _, rfl, rfl, ?_, ?_, rfl, rfl, rfl, rfl⟩
      · simp only [Function.update_same]
      · intro a h1
        simp only [Function.update_noteq h1]
    · simp only [dmsg_engine.check, dmsg_engine.put, Function.update_same,
        Function.update_noteq hqp, hqs, Option.some_bind]
      refine ⟨_, _, rfl, rfl, ?_, ?_, rfl, rfl, rfl, rfl⟩
      · simp only [Function.update_same]
      · intro a h1
        simp only [Function.update_noteq h1]

/-- C11 (witness). On a fresh connection, `dmsg_msg_alloc` on `state0` with
`CREATE|DELETE|0x101` creates the state at address 1 under `state0`. -/
theorem msg_alloc_contract_witness :
    ∃ e1 msg s, dmsg_msg_alloc_locked (dmsg_iocom_init ex_env false [] []).eng 0 0
        (DMSGF_CREATE ||| DMSGF_DELETE ||| 0x101) 0 false = some (e1, msg) ∧
      s = 1 ∧ msg.state = some s ∧ msg.head.msgid = s ∧ msg.head.circuit = 0 ∧
      (e1.heap s).map (fun st => (st.parent, st.refs, st.rxcmd, st.txcmd)) =
        some (some 0, 3, DMSGF_REPLY, 0x101) ∧
      (e1.heap 0).map (fun st => (st.subq, st.refs)) = some ([1], 2) ∧
      e1.statewr_tree 1 = some 1 := by
  obtain ⟨e1, msg, s, h, hs, h1, h2, h3, h4, h5, -, h7, -, -⟩ :=
    (msg_alloc_contract (dmsg_iocom_init ex_env false [] []).eng 0 0
      (DMSGF_CREATE ||| DMSGF_DELETE ||| 0x101) 0 false
      { dmsg_state.zero with refs := 1, parent := some 0, flags := { ROOT := true } }
      rfl).1 (by decide) rfl rfl
  have hs1 : s = 1 := hs
  subst hs1
  refine ⟨e1, msg, 1, h, rfl, h1, h2, h3, ?_, ?_, ?_⟩
  · rw [h4]
    decide
  · rw [h5]
    rfl
  · rw [h7]
    rfl

theorem or_delete_reply (rx : Nat) :
    (rx ||| DMSGF_DELETE) &&& DMSGF_REPLY = rx &&& DMSGF_REPLY := by
  rw [Nat.and_comm, Nat.and_or_distrib_left]
  have : DMSGF_REPLY &&& DMSGF_DELETE = 0 := by decide
  rw [this, Nat.or_zero, Nat.and_comm]

theorem or_delete_set (rx : Nat) : (rx ||| DMSGF_DELETE) &&& DMSGF_DELETE ≠ 0 := by
  have h30 : DMSGF_DELETE = 2 ^ 30 := by decide
  rw [h30, Nat.and_two_pow, Nat.testBit_or, Nat.testBit_two_pow_self, Bool.or_true]
  decide

/-- The end of `dmsg_state_msgrx` for a message with `DELETE` on a live
non-root state that keeps a reference: it returns with the error of the
`switch`, `rxcmd` gains `DELETE`, and when `txcmd` has `DELETE` the state
leaves the tree of its direction and loses the tree's reference. -/
theorem adjust_delete (l : msgrx_locals) (x : Nat) (s : dmsg_state)
    (hm : l.msg.state = some x) (hl : l.state = x) (hx : l.eng.heap x = some s)
    (hroot : s.flags.ROOT = false) (hd : l.msg.head.cmd &&& DMSGF_DELETE ≠ 0)
    (hrefs : 2 ≤ s.refs)
    (hreg : s.txcmd &&& DMSGF_DELETE ≠ 0 →
      (if s.rxcmd &&& DMSGF_REPLY ≠ 0 then l.eng.statewr_tree s.msgid
       else l.eng.staterd_tree s.msgid) = some x) :
    ∃ r, dmsg_state_msgrx_adjust l = some r ∧ r.error = l.error ∧ r.msg.state = some x ∧
      r.msg.head = l.msg.head ∧ (∀ a, a ≠ x → r.eng.heap a = l.eng.heap a) ∧
      r.eng.rcvd = l.eng.rcvd ∧
      (if s.txcmd &&& DMSGF_DELETE ≠ 0 then
        r.eng.heap x = some
          { s with rxcmd := s.rxcmd ||| DMSGF_DELETE
                   flags := { s.flags with RBINSERTED := false }, refs := s.refs - 1 } ∧
        r.eng.statewr_tree =
          (if s.rxcmd &&& DMSGF_REPLY ≠ 0 then Function.update l.eng.statewr_tree s.msgid none
           else l.eng.statewr_tree) ∧
        r.eng.staterd_tree =
          (if s.rxcmd &&& DMSGF_REPLY ≠ 0 then l.eng.staterd_tree
           else Function.update l.eng.staterd_tree s.msgid none)
      else
        r.eng.heap x = some { s with rxcmd := s.rxcmd ||| DMSGF_DELETE } ∧
        r.eng.statewr_tree = l.eng.statewr_tree ∧ r.eng.staterd_tree = l.eng.staterd_tree) := by
  rcases l with ⟨E, msg, st, err⟩
  simp only at hm hl hx hd hreg
  subst hl
  have o2 := or_delete_reply s.rxcmd
  unfold dmsg_state_msgrx_adjust
  simp only [hm, hx, Option.bind_eq_bind, Option.some_bind, Option.pure_def, decide_True,
    check_true, hroot, Bool.false_eq_true, if_false, hd, ne_eq, not_false_eq_true, if_true]
  by_cases hg : s.txcmd &&& DMSGF_DELETE = 0
  · simp only [hg, not_true_eq_false, if_false]
    refine ⟨_, rfl, rfl, rfl, rfl, ?_, rfl, ?_, rfl, rfl⟩
    · intro a ha
      simp only [dmsg_engine.put, dmsg_engine.check, Function.update_noteq ha]
    · simp only [dmsg_engine.put, dmsg_engine.check, Function.update_same]
  · have hreg2 := hreg hg
    simp only [hg, not_false_eq_true, if_true]
    unfold dmsg_state_msgrx_remove
    simp only [o2, Option.bind_eq_bind]
    by_cases hR : s.rxcmd &&& DMSGF_REPLY = 0
    · simp only [hR, ne_eq, not_true_eq_false, if_false] at hreg2 ⊢
      simp only [RB_REMOVE, dmsg_engine.put, dmsg_engine.check, hreg2, if_true,
        Option.map_some', Option.some_bind]
      rw [drop_keep _ st { s with rxcmd := s.rxcmd ||| DMSGF_DELETE
                                  flags := { s.flags with RBINSERTED := false } }
        (by simp only [dmsg_engine.put, Function.update_same]) hrefs]
      simp only [Option.map_some']
      refine ⟨_, rfl, rfl, rfl, rfl, ?_, rfl, ?_, rfl, rfl⟩
      · intro a ha
        simp only [dmsg_engine.put, Function.update_noteq ha]
      · simp only [dmsg_engine.put, Function.update_same, hroot]
    · simp only [hR, ne_eq, not_false_eq_true, if_true] at hreg2 ⊢
      simp only [RB_REMOVE, dmsg_engine.put, dmsg_engine.check, hreg2, if_true,
        Option.map_some', Option.some_bind]
      rw [drop_keep _ st { s with rxcmd := s.rxcmd ||| DMSGF_DELETE
                                  flags := { s.flags with RBINSERTED := false } }
        (by simp only [dmsg_engine.put, Function.update_same]) hrefs]
      simp only [Option.map_some']
      refine ⟨_, rfl, rfl, rfl, rfl, ?_, rfl, ?_, rfl, rfl⟩
      · intro a ha
        simp only [dmsg_engine.put, Function.update_noteq ha]
      · simp only [dmsg_engine.put, Function.update_same, hroot]

/-- The `switch` of `dmsg_state_msgrx` accepts a message with `DELETE` on an
existing state that is not the circuit: a `DELETE` or `REPLY|DELETE` when
`rxcmd` has `CREATE`, and every `REPLY|CREATE|DELETE`. -/
theorem switch_delete_ok (E : dmsg_engine) (msg1 : dmsg_msg) (x p : Nat) (s : dmsg_state)
    (hx : E.heap x = some s) (hxp : x ≠ p)
    (hacc : ((msgrx_case msg1 = DMSGF_DELETE ∨ msgrx_case msg1 = DMSGF_REPLY ||| DMSGF_DELETE) ∧
        s.rxcmd &&& DMSGF_CREATE ≠ 0) ∨
      msgrx_case msg1 = DMSGF_REPLY ||| DMSGF_CREATE ||| DMSGF_DELETE) :
    ∃ E2, dmsg_state_msgrx_switch E msg1 x (some p) =
        some { eng := E2, msg := msg1, state := x, error := 0 } ∧
      E2.heap x = some { s with rxcmd := msgrx_rxcmd msg1 s.rxcmd } ∧
      (∀ a, a ≠ x → E2.heap a = E.heap a) ∧ E2.staterd_tree = E.staterd_tree ∧
      E2.statewr_tree = E.statewr_tree ∧ E2.rcvd = E.rcvd := by
  obtain ⟨c1, c2, c3, c4, c5, c6, c7, c8, c9, c10, c11, c12, c13, c14, c15, c16⟩ := msgrx_consts
  have hsq : ¬ (some x = some p) := fun h => hxp (Option.some.inj h)
  unfold msgrx_rxcmd
  unfold msgrx_case at hacc ⊢
  unfold dmsg_state_msgrx_switch
  rcases hacc with ⟨hsw, hcr⟩ | hsw
  · have hn : ¬ (msg1.head.cmd &&& (DMSGF_CREATE ||| DMSGF_DELETE ||| DMSGF_REPLY) =
        DMSGF_REPLY ||| DMSGF_CREATE ||| DMSGF_DELETE) := by
      rcases hsw with h | h <;> rw [h] <;> decide
    refine ⟨E, ?_, ?_, fun _ _ => rfl, rfl, rfl, rfl⟩
    · rcases hsw with h | h <;>
        simp only [h, c5, c6, c7, c8, or_self, if_false, true_or, or_true, if_true, hsq, hx,
          Option.some_bind, hcr]
    · rw [if_neg hn, hx]
  · have h1 : ¬ (DMSGF_REPLY ||| DMSGF_CREATE ||| DMSGF_DELETE = DMSGF_CREATE) := by decide
    have h2 : ¬ (DMSGF_REPLY ||| DMSGF_CREATE ||| DMSGF_DELETE =
        DMSGF_CREATE ||| DMSGF_DELETE) := by decide
    have h3 : ¬ (DMSGF_REPLY ||| DMSGF_CREATE ||| DMSGF_DELETE = DMSGF_DELETE) := by decide
    have h4 : ¬ (DMSGF_REPLY ||| DMSGF_CREATE ||| DMSGF_DELETE =
        DMSGF_REPLY ||| DMSGF_DELETE) := by decide
    simp only [hsw, h1, h2, h3, h4, or_self, if_false, or_true, if_true, hsq, hx,
      Option.some_bind]
    refine ⟨_, rfl, ?_, ?_, rfl, rfl, rfl⟩
    · simp only [dmsg_engine.put, dmsg_engine.check, Function.update_same]
    · intro a ha
      simp only [dmsg_engine.put, dmsg_engine.check, Function.update_noteq ha]

/-- The step of `dmsg_state_msgrx` that binds the message to the state found:
a received message moves its reference from its first state to the state
found, a synthesized message (`mstate`) keeps its state. -/
theorem assign_bind (e : dmsg_engine) (msg : dmsg_msg) (mstate : Bool) (mst x : Nat)
    (pstate : Option Nat) (ms sx : dmsg_state)
    (hst : msg.state = some mst) (hms : e.heap mst = some ms) (hx : e.heap x = some sx)
    (ht : mstate = true → mst = x) (hf : mstate = false → mst ≠ x ∧ ms.refs ≠ 1) :
    ∃ E1, dmsg_state_msgrx_assign e msg mstate mst pstate (some x) =
        some (E1, { msg with state := some x }, some x) ∧
      E1.heap x = some { sx with refs := sx.refs + (if mstate then 0 else 1) } ∧
      (∀ a, a ≠ x → (E1.heap a).map dmsg_state.subq = (e.heap a).map dmsg_state.subq) ∧
      E1.staterd_tree = e.staterd_tree ∧ E1.statewr_tree = e.statewr_tree ∧
      E1.rcvd = e.rcvd := by
  unfold dmsg_state_msgrx_assign
  cases mstate with
  | true =>
    have hmx := ht rfl
    subst hmx
    refine ⟨e, ?_, ?_, fun _ _ => rfl, rfl, rfl, rfl⟩
    · simp only [if_true]
      rw [← hst]
    · simp only [if_true, add_zero]
      exact hx
  | false =>
    obtain ⟨hne, hr⟩ := hf rfl
    have h1 : ((e.check (decide (ms.refs > 0))).put mst
        { ms with refs := ms.refs - 1 }).heap x = some sx := by
      rw [put_heap_other _ _ _ _ (Ne.symm hne)]
      exact hx
    simp only [Bool.false_eq_true, if_false, drop_eq_keep e mst ms hms hr,
      Option.bind_eq_bind, Option.some_bind, Option.pure_def, hold_eq _ x _ h1, put_heap_same]
    refine ⟨_, rfl, ?_, ?_, rfl, rfl, rfl⟩
    · simp only [dmsg_engine.put, dmsg_engine.check, Function.update_same]
    · intro a ha
      by_cases ham : a = mst
      · subst ham
        simp only [dmsg_engine.put, dmsg_engine.check, Function.update_noteq ha,
          Function.update_same, hms, Option.map_some']
      · simp only [dmsg_engine.put, dmsg_engine.check, Function.update_noteq ha,
          Function.update_noteq ham]

/-- C13. A message with `DELETE` that `dmsg_state_msgrx` accepts on an existing
non-root state `x` (a `DELETE` or `REPLY|DELETE` on a state that has received
its `CREATE`, or a `REPLY|CREATE|DELETE`), the state being live, different
from the circuit, holding at least two references, and (for the removal)
registered in the tree of its direction.  The function returns 0 with the
message bound to `x` and `DELETE` set in `rxcmd`.  When `txcmd` already has
`DELETE` the state leaves its tree, `RBINSERTED` is cleared and the tree's
reference is dropped; when `txcmd` lacks `DELETE` the flags and both trees
are as before.  In both cases `parent`, `subq`, `SUBINSERTED` and every other
field of `x` but `rxcmd` and `refs` are unchanged, and so is the queue of
every other state: the state stays on its parent's `subq` until
`dmsg_state_cleanuprx` runs. -/
theorem msgrx_delete_removal (e : dmsg_engine) (msg : dmsg_msg) (mstate : Bool)
    (mst x p : Nat) (ms sx : dmsg_state)
    (hst : msg.state = some mst) (hms : e.heap mst = some ms)
    (hcirc : dmsg_state_msgrx_circuit e msg mstate ms = some (some p))
    (hfind : dmsg_state_msgrx_find e msg mstate mst = some x)
    (hxp : x ≠ p) (hx : e.heap x = some sx) (hroot : sx.flags.ROOT = false)
    (hrefs : 2 ≤ sx.refs) (hf : mstate = false → mst ≠ x ∧ ms.refs ≠ 1)
    (hacc : ((msgrx_case msg = DMSGF_DELETE ∨ msgrx_case msg = DMSGF_REPLY ||| DMSGF_DELETE) ∧
        sx.rxcmd &&& DMSGF_CREATE ≠ 0) ∨
      msgrx_case msg = DMSGF_REPLY ||| DMSGF_CREATE ||| DMSGF_DELETE)
    (hreg : sx.txcmd &&& DMSGF_DELETE ≠ 0 →
      (if msgrx_rxcmd msg sx.rxcmd &&& DMSGF_REPLY ≠ 0 then e.statewr_tree sx.msgid
       else e.staterd_tree sx.msgid) = some x) :
    ∃ r, dmsg_state_msgrx e msg mstate = some r ∧ r.error = 0 ∧ r.msg.state = some x ∧
      (∀ a, a ≠ x → (r.eng.heap a).map dmsg_state.subq = (e.heap a).map dmsg_state.subq) ∧
      (if sx.txcmd &&& DMSGF_DELETE ≠ 0 then
        r.eng.heap x = some
          { sx with rxcmd := msgrx_rxcmd msg sx.rxcmd ||| DMSGF_DELETE
                    flags := { sx.flags with RBINSERTED := false }
                    refs := sx.refs + (if mstate then 0 else 1) - 1 } ∧
        r.eng.statewr_tree =
          (if msgrx_rxcmd msg sx.rxcmd &&& DMSGF_REPLY ≠ 0 then
            Function.update e.statewr_tree sx.msgid none
           else e.statewr_tree) ∧
        r.eng.staterd_tree =
          (if msgrx_rxcmd msg sx.rxcmd &&& DMSGF_REPLY ≠ 0 then e.staterd_tree
           else Function.update e.staterd_tree sx.msgid none)
      else
        r.eng.heap x = some
          { sx with rxcmd := msgrx_rxcmd msg sx.rxcmd ||| DMSGF_DELETE
                    refs := sx.refs + (if mstate then 0 else 1) } ∧
        r.eng.statewr_tree = e.statewr_tree ∧ r.eng.staterd_tree = e.staterd_tree) := by
  have ht : mstate = true → mst = x := by
    intro h
    subst h
    simp only [dmsg_state_msgrx_find, if_true] at hfind
    exact Option.some.inj hfind
  obtain ⟨E1, ha, ha1, ha2, ha3, ha4, -⟩ :=
    assign_bind e msg mstate mst x (some p) ms sx hst hms hx ht hf
  have hacc1 : ((msgrx_case { msg with state := some x } = DMSGF_DELETE ∨
        msgrx_case { msg with state := some x } = DMSGF_REPLY ||| DMSGF_DELETE) ∧
        ({ sx with refs := sx.refs + (if mstate then 0 else 1) } : dmsg_state).rxcmd &&&
          DMSGF_CREATE ≠ 0) ∨
      msgrx_case { msg with state := some x } =
        DMSGF_REPLY ||| DMSGF_CREATE ||| DMSGF_DELETE := hacc
  obtain ⟨E2, hb, hb1, hb2, hb3, hb4, -⟩ :=
    switch_delete_ok E1 { msg with state := some x } x p _ ha1 hxp hacc1
  have hd : msg.head.cmd &&& DMSGF_DELETE ≠ 0 := by
    have hk : ∀ v, msg.head.cmd &&& (DMSGF_CREATE ||| DMSGF_DELETE ||| DMSGF_REPLY) = v →
        v &&& DMSGF_DELETE ≠ 0 → msg.head.cmd &&& DMSGF_DELETE ≠ 0 := by
      intro v hv hv2
      rw [← hv, Nat.and_assoc] at hv2
      have hc : (DMSGF_CREATE ||| DMSGF_DELETE ||| DMSGF_REPLY) &&& DMSGF_DELETE =
          DMSGF_DELETE := by decide
      rw [hc] at hv2
      exact hv2
    unfold msgrx_case at hacc
    rcases hacc with ⟨h | h, -⟩ | h
    · exact hk _ h (by decide)
    · exact hk _ h (by decide)
    · exact hk _ h (by decide)
  have hrefs2 : 2 ≤ sx.refs + (if mstate then 0 else 1) := by
    cases mstate
    · simp only [Bool.false_eq_true, if_false]
      omega
    · simp only [if_true]
      omega
  obtain ⟨r, hc, hc1, hc2, -, hc4, -, hc6⟩ := adjust_delete
    { eng := E2, msg := { msg with state := some x }, state := x, error := 0 } x
    { sx with refs := sx.refs + (if mstate then 0 else 1)
              rxcmd := msgrx_rxcmd msg sx.rxcmd } rfl rfl hb1 hroot hd hrefs2
    (by
      intro h
      show (if msgrx_rxcmd msg sx.rxcmd &&& DMSGF_REPLY ≠ 0 then E2.statewr_tree sx.msgid
        else E2.staterd_tree sx.msgid) = some x
      rw [hb3, hb4, ha3, ha4]
      exact hreg h)
  refine ⟨r, ?_, hc1, hc2, ?_, ?_⟩
  · rw [msgrx_eq e msg mst ms (some p) mstate hst hms hcirc, hfind, ha]
    simp only [Option.some_bind, hb]
    exact hc
  · intro a hax
    rw [hc4 a hax, hb2 a hax]
    exact ha2 a hax
  · by_cases hg : sx.txcmd &&& DMSGF_DELETE = 0
    · have hg1 : ¬ (sx.txcmd &&& DMSGF_DELETE ≠ 0) := fun h => h hg
      rw [if_neg hg1] at hc6 ⊢
      dsimp only at hc6
      rw [hb3, hb4, ha3, ha4] at hc6
      exact hc6
    · have hg1 : sx.txcmd &&& DMSGF_DELETE ≠ 0 := hg
      rw [if_pos hg1] at hc6 ⊢
      dsimp only at hc6
      rw [hb3, hb4, ha3, ha4] at hc6
      exact hc6

/-- C13 (witness). On the engine `ex_rx_eng_half` the state at address 5 has
sent its `DELETE`; the peer's `DELETE` for the identifier 7 is accepted, the
state leaves `staterd_tree` and stays on the queue of `state0`. -/
theorem msgrx_delete_removal_witness :
    ∃ r, dmsg_state_msgrx ex_rx_eng_half (ex_rx_msg (DMSGF_DELETE ||| 0x101) 7) false =
        some r ∧ r.error = 0 ∧ r.msg.state = some 5 ∧
      (r.eng.heap 0).map dmsg_state.subq = some [5] ∧
      (r.eng.heap 5).map (fun s => (s.flags.RBINSERTED, s.flags.SUBINSERTED, s.parent)) =
        some (false, true, some 0) ∧
      r.eng.staterd_tree 7 = none := by
  obtain ⟨r, h1, h2, h3, h4, h5⟩ := msgrx_delete_removal ex_rx_eng_half
    (ex_rx_msg (DMSGF_DELETE ||| 0x101) 7) false 0 5 0 ex_rx_state0
    { dmsg_state.zero with
      parent := some 0, msgid := 7, refs := 2
      flags := { DYNAMIC := true, OPPOSITE := true, SUBINSERTED := true, RBINSERTED := true }
      txcmd := DMSGF_REPLY ||| DMSGF_CREATE ||| DMSGF_DELETE ||| 0x101
      rxcmd := DMSGF_CREATE ||| 0x101, icmd := 0x101 }
    rfl rfl rfl (by decide!) (by decide) rfl rfl (by decide)
    (fun _ => ⟨by decide, by decide⟩) (Or.inl ⟨Or.inl (by decide!), by decide!⟩)
    (fun _ => by decide!)
  rw [if_pos (by decide!)] at h5
  obtain ⟨h5, h6, h7⟩ := h5
  refine ⟨r, h1, h2, h3, ?_, ?_, ?_⟩
  · rw [h4 0 (by decide)]
    rfl
  · rw [h5]
    rfl
  · rw [h7, if_neg (by decide!)]
    simp [Function.update]

/-- What `dmsg_state_drop` does to the rest of the engine: only the heap
changes when no assertion fails. -/
theorem drop_keep_heap (e : dmsg_engine) (p : Nat) (s : dmsg_state) (h : e.heap p = some s)
    (hr : 2 ≤ s.refs) :
    ∃ e1, dmsg_state_drop e p = some e1 ∧ e1 = { e with heap := e1.heap } ∧
      e1.heap p = some { s with refs := s.refs - 1 } ∧ ∀ a, a ≠ p → e1.heap a = e.heap a := by
  rw [drop_keep e p s h hr]
  refine ⟨_, rfl, rfl, put_heap_same _ _ _, fun a ha => put_heap_other _ _ _ _ ha⟩

/-- The last `dmsg_state_drop` frees the state; the trees, the callback record
and every other state are untouched. -/
theorem drop_last (e : dmsg_engine) (p : Nat) (s : dmsg_state) (h : e.heap p = some s)
    (hr : s.refs = 1) :
    ∃ e1, dmsg_state_drop e p = some e1 ∧ e1.heap p = none ∧
      (∀ a, a ≠ p → e1.heap a = e.heap a) ∧ e1.staterd_tree = e.staterd_tree ∧
      e1.statewr_tree = e.statewr_tree ∧ e1.rcvd = e.rcvd ∧ e1.brk = e.brk := by
  unfold dmsg_state_drop
  simp only [h, hr, Option.bind_eq_bind, Option.some_bind, if_true]
  unfold dmsg_state_free
  simp only [put_heap_same, Option.bind_eq_bind, Option.some_bind, Option.pure_def]
  refine ⟨_, rfl, ?_, ?_, rfl, rfl, rfl, rfl⟩
  · simp only [Function.update_same]
  · intro a ha
    simp only [dmsg_engine.put, dmsg_engine.check, Function.update_noteq ha]

/-- The function `dmsg_subq_delete` on a child `c` of `p`, both holding enough
references to survive: `c` leaves the queue of `p`, which costs `p` a
reference when the queue becomes empty; `c` loses the queue's reference, its
`SUBINSERTED` flag and its parent pointer. -/
theorem subq_delete_spec (e : dmsg_engine) (c p : Nat) (sc sp : dmsg_state)
    (hc : e.heap c = some sc) (hp : e.heap p = some sp) (hcp : c ≠ p)
    (hsub : sc.flags.SUBINSERTED = true) (hpar : sc.parent = some p) (hmem : c ∈ sp.subq)
    (hcrefs : 2 ≤ sc.refs) (hprefs : 2 ≤ sp.refs) :
    ∃ E1, dmsg_subq_delete e c = some E1 ∧ E1 = { e with heap := E1.heap } ∧
      E1.heap p = some { sp with
        scan := if sp.scan = some c then none else sp.scan
        subq := sp.subq.erase c
        refs := sp.refs - (if sp.subq.erase c = [] then 1 else 0) } ∧
      E1.heap c = some { sc with
        flags := { sc.flags with SUBINSERTED := false }, parent := none
        refs := sc.refs - 1 } ∧
      ∀ a, a ≠ c → a ≠ p → E1.heap a = e.heap a := by
  have hps1 : (if sp.scan = some c then { sp with scan := none } else sp) =
      { sp with scan := if sp.scan = some c then none else sp.scan } := by
    split <;> rfl
  have hpc : p ≠ c := fun h => hcp h.symm
  have hxm : c ∈ ({ sp with scan := if sp.scan = some c then none else sp.scan } :
      dmsg_state).subq := hmem
  unfold dmsg_subq_delete
  simp only [Option.bind_eq_bind]
  rw [hc, Option.some_bind, if_pos hsub, hpar, Option.some_bind, hp, Option.some_bind]
  simp only [hps1]
  rw [if_pos hxm, put_heap_other _ p c _ hcp, hc, Option.some_bind,
    put_heap_other _ c p _ hpc, put_heap_same, Option.some_bind]
  by_cases hemp : sp.subq.erase c = []
  · have hi : (sp.subq.erase c).isEmpty = true := by
      rw [hemp]
      rfl
    rw [if_pos hi, drop_keep _ p _ (put_put_heap e p c _ _ hpc)]
    swap
    · exact hprefs
    rw [Option.some_bind, drop_keep _ c _ (put_put_heap _ c p _ _ hcp)]
    swap
    · exact hcrefs
    refine ⟨_, rfl, rfl, ?_, ?_, ?_⟩
    · simp only [put_heap_other _ _ _ _ hpc, put_heap_same, hemp, if_true]
    · simp only [put_heap_same]
    · intro a h1 h2
      simp only [put_heap_other _ _ _ _ h1, put_heap_other _ _ _ _ h2]
  · have hi : ¬ ((sp.subq.erase c).isEmpty = true) := by
      rw [List.isEmpty_iff]
      exact hemp
    rw [if_neg hi]
    simp only [Option.pure_def, Option.some_bind]
    rw [drop_keep _ c _ (put_heap_same _ _ _)]
    swap
    · exact hcrefs
    refine ⟨_, rfl, rfl, ?_, ?_, ?_⟩
    · simp only [put_heap_other _ _ _ _ hpc, put_heap_same, hemp, if_false, sub_zero]
    · simp only [put_heap_same]
    · intro a h1 h2
      simp only [put_heap_other _ _ _ _ h1, put_heap_other _ _ _ _ h2]

/-- The tear-down in `dmsg_state_cleanuprx`: `dmsg_subq_delete`, the drop of
the relay, and the release of the message, for a child `c` of `p` whose two
directions are closed. -/
theorem cleanuprx_teardown (e : dmsg_engine) (msg : dmsg_msg) (c p : Nat) (sc sp : dmsg_state)
    (hms : msg.state = some c) (hc : e.heap c = some sc) (hp : e.heap p = some sp)
    (hcp : c ≠ p) (hroot : sc.flags.ROOT = false) (hsub : sc.flags.SUBINSERTED = true)
    (hpar : sc.parent = some p) (hmem : c ∈ sp.subq)
    (hcrefs : 2 ≤ sc.refs) (hprefs : 2 ≤ sp.refs)
    (hrelay : ∀ r, sc.relay = some r → r ≠ c ∧ r ≠ p ∧ ∃ sr, e.heap r = some sr ∧ 2 ≤ sr.refs)
    (hrx : sc.rxcmd &&& DMSGF_DELETE ≠ 0) (htx : sc.txcmd &&& DMSGF_DELETE ≠ 0) :
    ∃ E1, dmsg_state_cleanuprx e msg = some E1 ∧
      E1.heap c = (if sc.refs = 2 then none else some
        { sc with flags := { sc.flags with SUBINSERTED := false }, parent := none
                  relay := none, refs := sc.refs - 2 }) ∧
      E1.heap p = some { sp with
        scan := if sp.scan = some c then none else sp.scan
        subq := sp.subq.erase c
        refs := sp.refs - (if sp.subq.erase c = [] then 1 else 0) } ∧
      (∀ a, a ≠ c → a ≠ p → sc.relay ≠ some a → E1.heap a = e.heap a) ∧
      (∀ r sr, sc.relay = some r → e.heap r = some sr →
        E1.heap r = some { sr with refs := sr.refs - 1 }) ∧
      E1.staterd_tree = e.staterd_tree ∧ E1.statewr_tree = e.statewr_tree := by
  have hcond : sc.flags.SUBINSERTED = true ∧ ¬ (sc.rxcmd &&& DMSGF_DELETE = 0) ∧
      ¬ (sc.txcmd &&& DMSGF_DELETE = 0) := ⟨hsub, hrx, htx⟩
  obtain ⟨E1, h1, h1e, h1p, h1c, h1o⟩ :=
    subq_delete_spec e c p sc sp hc hp hcp hsub hpar hmem hcrefs hprefs
  -- the release of the message
  have hfree : ∀ (E2 : dmsg_engine) (s : dmsg_state), E2.heap c = some s →
      s.refs = sc.refs - 1 →
      ∃ E3, dmsg_msg_free E2 msg = some E3 ∧
        E3.heap c = (if sc.refs = 2 then none else some { s with refs := sc.refs - 2 }) ∧
        (∀ a, a ≠ c → E3.heap a = E2.heap a) ∧ E3.staterd_tree = E2.staterd_tree ∧
        E3.statewr_tree = E2.statewr_tree := by
    intro E2 s h2 hr
    unfold dmsg_msg_free dmsg_msg_free_locked
    simp only [hms, h2, Option.bind_eq_bind, Option.some_bind]
    by_cases h22 : sc.refs = 2
    · obtain ⟨E3, hd, hd1, hd2, hd3, hd4, -, -⟩ := drop_last E2 c s h2 (by omega)
      exact ⟨E3, hd, by rw [if_pos h22]; exact hd1, hd2, hd3, hd4⟩
    · rw [drop_keep E2 c s h2 (by omega)]
      refine ⟨_, rfl, ?_, fun a ha => put_heap_other _ _ _ _ ha, rfl, rfl⟩
      rw [if_neg h22, put_heap_same]
      have : s.refs - 1 = sc.refs - 2 := by omega
      rw [this]
  unfold dmsg_state_cleanuprx
  rw [hms]
  simp only [Option.bind_eq_bind, Option.some_bind]
  rw [hc, Option.some_bind, if_neg (by rw [hroot]; decide), if_pos hcond, h1, Option.some_bind,
    h1c, Option.some_bind]
  cases hrel : sc.relay with
  | none =>
    simp only [hrel, Option.pure_def, Option.some_bind]
    obtain ⟨E3, hf, hf1, hf2, hf3, hf4⟩ := hfree E1 _ h1c rfl
    refine ⟨E3, hf, ?_, ?_, ?_, ?_, ?_, ?_⟩
    · rw [hf1]
      split
      · rfl
      · simp only [hrel]
    · rw [hf2 p (Ne.symm hcp), h1p]
    · intro a ha1 ha2 _
      rw [hf2 a ha1, h1o a ha1 ha2]
    · intro r sr hr
      cases hr
    · rw [hf3, h1e]
    · rw [hf4, h1e]
  | some r =>
    obtain ⟨hrc, hrp, sr, hsr, hsr2⟩ := hrelay r hrel
    have hr1 : E1.heap r = some sr := by
      rw [h1o r hrc hrp]
      exact hsr
    simp only [hrel, Option.pure_def, Option.bind_eq_bind]
    rw [drop_keep E1 r sr hr1 hsr2, Option.some_bind, put_heap_other _ _ _ _ (Ne.symm hrc), h1c,
      Option.some_bind]
    obtain ⟨E3, hf, hf1, hf2, hf3, hf4⟩ := hfree
      ((E1.put r { sr with refs := sr.refs - 1 }).put c
        { sc with flags := { sc.flags with SUBINSERTED := false }, parent := none
                  refs := sc.refs - 1, relay := none }) _ (put_heap_same _ _ _) rfl
    refine ⟨E3, hf, ?_, ?_, ?_, ?_, ?_, ?_⟩
    · rw [hf1]
    · rw [hf2 p (Ne.symm hcp), put_heap_other _ _ _ _ (Ne.symm hcp),
        put_heap_other _ _ _ _ (Ne.symm hrp), h1p]
    · intro a ha1 ha2 ha3
      have har : a ≠ r := fun h => ha3 (by rw [h])
      rw [hf2 a ha1, put_heap_other _ _ _ _ ha1, put_heap_other _ _ _ _ har, h1o a ha1 ha2]
    · intro r2 sr2 hr2 hsr3
      have hrr : r = r2 := Option.some.inj hr2
      subst hrr
      rw [hsr] at hsr3
      cases hsr3
      rw [hf2 r hrc, put_heap_other _ _ _ _ hrc, put_heap_same]
    · rw [hf3]
      show E1.staterd_tree = e.staterd_tree
      rw [h1e]
    · rw [hf4]
      show E1.statewr_tree = e.statewr_tree
      rw [h1e]

/-- The function `dmsg_subq_delete` as an equation, under the hypotheses of
`subq_delete_spec`. -/
theorem subq_delete_eq (e : dmsg_engine) (c p : Nat) (sc sp : dmsg_state)
    (hc : e.heap c = some sc) (hp : e.heap p = some sp) (hcp : c ≠ p)
    (hsub : sc.flags.SUBINSERTED = true) (hpar : sc.parent = some p) (hmem : c ∈ sp.subq)
    (hcrefs : 2 ≤ sc.refs) (hprefs : 2 ≤ sp.refs) :
    dmsg_subq_delete e c = some
      ((e.put p { sp with
          scan := if sp.scan = some c then none else sp.scan
          subq := sp.subq.erase c
          refs := sp.refs - (if sp.subq.erase c = [] then 1 else 0) }).put c
        { sc with
          flags := { sc.flags with SUBINSERTED := false }, parent := none
          refs := sc.refs - 1 }) := by
  obtain ⟨E1, h1, h1e, h1p, h1c, h1o⟩ :=
    subq_delete_spec e c p sc sp hc hp hcp hsub hpar hmem hcrefs hprefs
  have hh : E1.heap = Function.update (Function.update e.heap p
      (some { sp with
        scan := if sp.scan = some c then none else sp.scan
        subq := sp.subq.erase c
        refs := sp.refs - (if sp.subq.erase c = [] then 1 else 0) })) c
      (some { sc with
        flags := { sc.flags with SUBINSERTED := false }, parent := none
        refs := sc.refs - 1 }) := by
    funext a
    by_cases hac : a = c
    · subst hac
      rw [Function.update_same]
      exact h1c
    · rw [Function.update_noteq hac]
      by_cases hap : a = p
      · subst hap
        rw [Function.update_same]
        exact h1p
      · rw [Function.update_noteq hap]
        exact h1o a hac hap
  rw [h1, h1e, hh]
  rfl

theorem put_staterd (e : dmsg_engine) (p : Nat) (s : dmsg_state) :
    (e.put p s).staterd_tree = e.staterd_tree := rfl

theorem put_statewr (e : dmsg_engine) (p : Nat) (s : dmsg_state) :
    (e.put p s).statewr_tree = e.statewr_tree := rfl

theorem check_staterd (e : dmsg_engine) (b : Bool) :
    (e.check b).staterd_tree = e.staterd_tree := rfl

theorem check_statewr (e : dmsg_engine) (b : Bool) :
    (e.check b).statewr_tree = e.statewr_tree := rfl

theorem check_heap (e : dmsg_engine) (b : Bool) : (e.check b).heap = e.heap := rfl

/-- The tear-down in `dmsg_state_cleanuptx`: the message written carries
`DELETE`, the receive side is closed already, so the state leaves its tree and
its parent's queue and drops its relay. -/
theorem cleanuptx_teardown (fuel : Nat) (e : dmsg_engine) (msg : dmsg_msg) (c p : Nat)
    (sc sp : dmsg_state)
    (hms : msg.state = some c) (hc : e.heap c = some sc) (hp : e.heap p = some sp)
    (hcp : c ≠ p) (hroot : sc.flags.ROOT = false) (hsub : sc.flags.SUBINSERTED = true)
    (hpar : sc.parent = some p) (hmem : c ∈ sp.subq)
    (hcrefs : 3 ≤ sc.refs) (hprefs : 2 ≤ sp.refs)
    (hrelay : ∀ r, sc.relay = some r → r ≠ c ∧ r ≠ p ∧ ∃ sr, e.heap r = some sr ∧ 2 ≤ sr.refs)
    (hrx : sc.rxcmd &&& DMSGF_DELETE ≠ 0) (htx : sc.txcmd &&& DMSGF_DELETE = 0)
    (hcmd : msg.head.cmd &&& DMSGF_DELETE ≠ 0)
    (hreg : (if sc.txcmd &&& DMSGF_REPLY ≠ 0 then e.staterd_tree sc.msgid
             else e.statewr_tree sc.msgid) = some c) :
    ∃ E1, dmsg_state_cleanuptx fuel e msg = some E1 ∧
      E1.heap c = some
        { sc with txcmd := sc.txcmd ||| DMSGF_DELETE
                  flags := { sc.flags with SUBINSERTED := false, RBINSERTED := false }
                  parent := none, relay := none, refs := sc.refs - 2 } ∧
      E1.heap p = some { sp with
        scan := if sp.scan = some c then none else sp.scan
        subq := sp.subq.erase c
        refs := sp.refs - (if sp.subq.erase c = [] then 1 else 0) } ∧
      (∀ a, a ≠ c → a ≠ p → sc.relay ≠ some a → E1.heap a = e.heap a) ∧
      (∀ r sr, sc.relay = some r → e.heap r = some sr →
        E1.heap r = some { sr with refs := sr.refs - 1 }) ∧
      E1.staterd_tree =
        (if sc.txcmd &&& DMSGF_REPLY ≠ 0 then Function.update e.staterd_tree sc.msgid none
         else e.staterd_tree) ∧
      E1.statewr_tree =
        (if sc.txcmd &&& DMSGF_REPLY ≠ 0 then e.statewr_tree
         else Function.update e.statewr_tree sc.msgid none) := by
  have o2 := or_delete_reply sc.txcmd
  have o3 := or_delete_set sc.rxcmd
  have hcond : sc.txcmd &&& DMSGF_DELETE = 0 ∧ sc.rxcmd &&& DMSGF_DELETE ≠ 0 := ⟨htx, hrx⟩
  have hpc : p ≠ c := fun h => hcp h.symm
  unfold dmsg_state_cleanuptx
  rw [hms]
  simp only [Option.bind_eq_bind, Option.some_bind]
  rw [hold_eq e c sc hc, Option.some_bind, put_heap_same, Option.some_bind,
    if_neg (by rw [hroot]; decide), if_pos hcmd, if_pos hcond]
  simp only [o2]
  by_cases hR : sc.txcmd &&& DMSGF_REPLY = 0
  · have hR1 : ¬ (sc.txcmd &&& DMSGF_REPLY ≠ 0) := fun h => h hR
    rw [if_neg hR1] at hreg ⊢
    rw [if_neg hR1, if_neg hR1]
    simp only [RB_REMOVE, put_statewr, check_statewr, put_staterd, check_staterd, hreg, if_true,
      Option.map_some', Option.some_bind]
    rw [subq_delete_eq _ c p
      { sc with refs := sc.refs + 1, txcmd := sc.txcmd ||| DMSGF_DELETE
                flags := { sc.flags with RBINSERTED := false } } sp]
    rotate_left
    · exact put_heap_same _ _ _
    · simp only [dmsg_engine.put, dmsg_engine.check, Function.update_noteq hpc]
      exact hp
    · exact hcp
    · exact hsub
    · exact hpar
    · exact hmem
    · show (2 : Int) ≤ sc.refs + 1
      omega
    · exact hprefs
    simp only [Option.some_bind, put_heap_same]
    cases hrel : sc.relay with
    | none =>
      simp only [Option.pure_def, Option.some_bind]
      rw [drop_keep _ c _ (put_heap_same _ _ _)]
      swap
      · show (2 : Int) ≤ sc.refs + 1 - 1
        omega
      simp only [Option.some_bind, put_heap_same]
      rw [if_neg (fun h => hrx h.2)]
      simp only [Option.some_bind]
      rw [drop_keep _ c _ (put_heap_same _ _ _)]
      swap
      · show (2 : Int) ≤ sc.refs + 1 - 1 - 1
        omega
      refine ⟨_, rfl, ?_, ?_, ?_, ?_, ?_, ?_⟩
      · rw [put_heap_same]
        simp only [Option.some.injEq, dmsg_state.mk.injEq, true_and, and_true]
        omega
      · simp only [dmsg_engine.put, dmsg_engine.check, Function.update_noteq hpc, Function.update_same]
      · intro a ha1 ha2 _
        simp only [dmsg_engine.put, dmsg_engine.check, Function.update_noteq ha1, Function.update_noteq ha2]
      · intro r sr hr
        cases hr
      · rfl
      · rfl
    | some r =>
      obtain ⟨hrc, hrp, sr, hsr, hsr2⟩ := hrelay r hrel
      simp only [Option.pure_def, Option.bind_eq_bind]
      rw [drop_keep _ r sr]
      rotate_left
      · simp only [dmsg_engine.put, dmsg_engine.check, Function.update_noteq hrc, Function.update_noteq hrp]
        exact hsr
      · exact hsr2
      simp only [Option.some_bind, put_heap_other _ _ _ _ (Ne.symm hrc), put_heap_same]
      rw [drop_keep _ c _ (put_heap_same _ _ _)]
      swap
      · show (2 : Int) ≤ sc.refs + 1 - 1
        omega
      simp only [Option.some_bind, put_heap_same]
      rw [if_neg (fun h => hrx h.2)]
      simp only [Option.some_bind]
      rw [drop_keep _ c _ (put_heap_same _ _ _)]
      swap
      · show (2 : Int) ≤ sc.refs + 1 - 1 - 1
        omega
      refine ⟨_, rfl, ?_, ?_, ?_, ?_, ?_, ?_⟩
      · rw [put_heap_same]
        simp only [Option.some.injEq, dmsg_state.mk.injEq, true_and, and_true]
        omega
      · simp only [dmsg_engine.put, dmsg_engine.check, Function.update_noteq hpc, Function.update_same,
          Function.update_noteq (Ne.symm hrp)]
      · intro a ha1 ha2 ha3
        have har : a ≠ r := fun h => ha3 (by rw [h])
        simp only [dmsg_engine.put, dmsg_engine.check, Function.update_noteq ha1, Function.update_noteq ha2,
          Function.update_noteq har]
      · intro r2 sr2 hr2 hsr3
        have hrr : r = r2 := Option.some.inj hr2
        subst hrr
        rw [hsr] at hsr3
        cases hsr3
        simp only [dmsg_engine.put, dmsg_engine.check, Function.update_noteq hrc, Function.update_same]
      · rfl
      · rfl
  · have hR1 : sc.txcmd &&& DMSGF_REPLY ≠ 0 := hR
    rw [if_pos hR1] at hreg ⊢
    rw [if_pos hR1, if_pos hR1]
    simp only [RB_REMOVE, put_statewr, check_statewr, put_staterd, check_staterd, hreg, if_true,
      Option.map_some', Option.some_bind]
    rw [subq_delete_eq _ c p
      { sc with refs := sc.refs + 1, txcmd := sc.txcmd ||| DMSGF_DELETE
                flags := { sc.flags with RBINSERTED := false } } sp]
    rotate_left
    · exact put_heap_same _ _ _
    · simp only [dmsg_engine.put, dmsg_engine.check, Function.update_noteq hpc]
      exact hp
    · exact hcp
    · exact hsub
    · exact hpar
    · exact hmem
    · show (2 : Int) ≤ sc.refs + 1
      omega
    · exact hprefs
    simp only [Option.some_bind, put_heap_same]
    cases hrel : sc.relay with
    | none =>
      simp only [Option.pure_def, Option.some_bind]
      rw [drop_keep _ c _ (put_heap_same _ _ _)]
      swap
      · show (2 : Int) ≤ sc.refs + 1 - 1
        omega
      simp only [Option.some_bind, put_heap_same]
      rw [if_neg (fun h => hrx h.2)]
      simp only [Option.some_bind]
      rw [drop_keep _ c _ (put_heap_same _ _ _)]
      swap
      · show (2 : Int) ≤ sc.refs + 1 - 1 - 1
        omega
      refine ⟨_, rfl, ?_, ?_, ?_, ?_, ?_, ?_⟩
      · rw [put_heap_same]
        simp only [Option.some.injEq, dmsg_state.mk.injEq, true_and, and_true]
        omega
      · simp only [dmsg_engine.put, dmsg_engine.check, Function.update_noteq hpc, Function.update_same]
      · intro a ha1 ha2 _
        simp only [dmsg_engine.put, dmsg_engine.check, Function.update_noteq ha1, Function.update_noteq ha2]
      · intro r sr hr
        cases hr
      · rfl
      · rfl
    | some r =>
      obtain ⟨hrc, hrp, sr, hsr, hsr2⟩ := hrelay r hrel
      simp only [Option.pure_def, Option.bind_eq_bind]
      rw [drop_keep _ r sr]
      rotate_left
      · simp only [dmsg_engine.put, dmsg_engine.check, Function.update_noteq hrc, Function.update_noteq hrp]
        exact hsr
      · exact hsr2
      simp only [Option.some_bind, put_heap_other _ _ _ _ (Ne.symm hrc), put_heap_same]
      rw [drop_keep _ c _ (put_heap_same _ _ _)]
      swap
      · show (2 : Int) ≤ sc.refs + 1 - 1
        omega
      simp only [Option.some_bind, put_heap_same]
      rw [if_neg (fun h => hrx h.2)]
      simp only [Option.some_bind]
      rw [drop_keep _ c _ (put_heap_same _ _ _)]
      swap
      · show (2 : Int) ≤ sc.refs + 1 - 1 - 1
        omega
      refine ⟨_, rfl, ?_, ?_, ?_, ?_, ?_, ?_⟩
      · rw [put_heap_same]
        simp only [Option.some.injEq, dmsg_state.mk.injEq, true_and, and_true]
        omega
      · simp only [dmsg_engine.put, dmsg_engine.check, Function.update_noteq hpc, Function.update_same,
          Function.update_noteq (Ne.symm hrp)]
      · intro a ha1 ha2 ha3
        have har : a ≠ r := fun h => ha3 (by rw [h])
        simp only [dmsg_engine.put, dmsg_engine.check, Function.update_noteq ha1, Function.update_noteq ha2,
          Function.update_noteq har]
      · intro r2 sr2 hr2 hsr3
        have hrr : r = r2 := Option.some.inj hr2
        subst hrr
        rw [hsr] at hsr3
        cases hsr3
        simp only [dmsg_engine.put, dmsg_engine.check, Function.update_noteq hrc, Function.update_same]
      · rfl
      · rfl

/-- C14. Tear-down of a nested transaction.  The child `c` is on the queue of
its live parent `p`, the queue has no duplicates, both states hold the
references of their links, and the relay of `c`, if any, is a live third
state.  When both `txcmd` and `rxcmd` of `c` have `DELETE`,
`dmsg_state_cleanuprx` on a message of `c` returns; when `rxcmd` has `DELETE`
and the message written is the `DELETE` of the transmit side,
`dmsg_state_cleanuptx` returns (for a state registered in the tree of its
direction and held by the message).  After either call `c` is no longer on
`p.subq`, and `c` is either freed (it held the last two references) or has
`SUBINSERTED` clear, `parent == NULL` and `relay == NULL`; `p` keeps its
flags, `txcmd`, `rxcmd`, parent pointer and every field but `subq`, `scan`
and `refs`, its entries in the two trees stay, every state other than `c`,
`p` and the relay is untouched (so `p` keeps its place on its own parent's
queue), and the other children of `p` keep their order. -/
theorem nested_teardown (fuel : Nat) (e : dmsg_engine) (msg : dmsg_msg) (c p : Nat)
    (sc sp : dmsg_state)
    (hms : msg.state = some c) (hc : e.heap c = some sc) (hp : e.heap p = some sp)
    (hcp : c ≠ p) (hroot : sc.flags.ROOT = false) (hsub : sc.flags.SUBINSERTED = true)
    (hpar : sc.parent = some p) (hmem : c ∈ sp.subq) (hnd : sp.subq.Nodup)
    (hcrefs : 2 ≤ sc.refs) (hprefs : 2 ≤ sp.refs)
    (hrelay : ∀ r, sc.relay = some r → r ≠ c ∧ r ≠ p ∧ ∃ sr, e.heap r = some sr ∧ 2 ≤ sr.refs)
    (hrx : sc.rxcmd &&& DMSGF_DELETE ≠ 0) :
    (c ∉ sp.subq.erase c ∧ sp.subq.erase c = sp.subq.filter (fun a => a != c)) ∧
    (sc.txcmd &&& DMSGF_DELETE ≠ 0 →
      ∃ E1, dmsg_state_cleanuprx e msg = some E1 ∧
        E1.heap c = (if sc.refs = 2 then none else some
          { sc with flags := { sc.flags with SUBINSERTED := false }, parent := none
                    relay := none, refs := sc.refs - 2 }) ∧
        E1.heap p = some { sp with
          scan := if sp.scan = some c then none else sp.scan
          subq := sp.subq.erase c
          refs := sp.refs - (if sp.subq.erase c = [] then 1 else 0) } ∧
        (∀ a, a ≠ c → a ≠ p → sc.relay ≠ some a → E1.heap a = e.heap a) ∧
        E1.staterd_tree = e.staterd_tree ∧ E1.statewr_tree = e.statewr_tree) ∧
    (sc.txcmd &&& DMSGF_DELETE = 0 → msg.head.cmd &&& DMSGF_DELETE ≠ 0 → 3 ≤ sc.refs →
      (if sc.txcmd &&& DMSGF_REPLY ≠ 0 then e.staterd_tree sc.msgid
       else e.statewr_tree sc.msgid) = some c →
      ∃ E1, dmsg_state_cleanuptx fuel e msg = some E1 ∧
        E1.heap c = some
          { sc with txcmd := sc.txcmd ||| DMSGF_DELETE
                    flags := { sc.flags with SUBINSERTED := false, RBINSERTED := false }
                    parent := none, relay := none, refs := sc.refs - 2 } ∧
        E1.heap p = some { sp with
          scan := if sp.scan = some c then none else sp.scan
          subq := sp.subq.erase c
          refs := sp.refs - (if sp.subq.erase c = [] then 1 else 0) } ∧
        (∀ a, a ≠ c → a ≠ p → sc.relay ≠ some a → E1.heap a = e.heap a) ∧
        (∀ m z, z ≠ c → e.staterd_tree m = some z → E1.staterd_tree m = some z) ∧
        (∀ m z, z ≠ c → e.statewr_tree m = some z → E1.statewr_tree m = some z)) := by
  refine ⟨⟨fun h => ?_, hnd.erase_eq_filter c⟩, ?_, ?_⟩
  · exact (List.Nodup.mem_erase_iff hnd).1 h |>.1 rfl
  · intro htx
    obtain ⟨E1, h1, h2, h3, h4, -, h6, h7⟩ := cleanuprx_teardown e msg c p sc sp hms hc hp hcp
      hroot hsub hpar hmem hcrefs hprefs hrelay hrx htx
    exact ⟨E1, h1, h2, h3, h4, h6, h7⟩
  · intro htx hcmd hcrefs3 hreg
    obtain ⟨E1, h1, h2, h3, h4, -, h6, h7⟩ := cleanuptx_teardown fuel e msg c p sc sp hms hc hp
      hcp hroot hsub hpar hmem hcrefs3 hprefs hrelay hrx htx hcmd hreg
    have hupd : ∀ (t : Nat → Option Nat), t sc.msgid = some c → ∀ m z, z ≠ c → t m = some z →
        Function.update t sc.msgid none m = some z := by
      intro t ht m z hz hm
      have hmm : m ≠ sc.msgid := by
        intro hcc
        rw [hcc, ht] at hm
        exact hz (Option.some.inj hm).symm
      rw [Function.update_noteq hmm]
      exact hm
    refine ⟨E1, h1, h2, h3, h4, ?_, ?_⟩
    · intro m z hz hm
      rw [h6]
      by_cases hR : sc.txcmd &&& DMSGF_REPLY ≠ 0
      · rw [if_pos hR] at hreg ⊢
        exact hupd _ hreg m z hz hm
      · rw [if_neg hR]
        exact hm
    · intro m z hz hm
      rw [h7]
      by_cases hR : sc.txcmd &&& DMSGF_REPLY ≠ 0
      · rw [if_pos hR]
        exact hm
      · rw [if_neg hR] at hreg ⊢
        exact hupd _ hreg m z hz hm

/-- C14 (witness). In `ex_eng_nested` the child 43 of the transaction 42 is
fully closed: `dmsg_state_cleanuprx` frees it, the transaction 42 keeps its
other child 44 and its entry in `statewr_tree`, and `state0.subq` still
contains only 42. -/
theorem nested_teardown_witness :
    ∃ E1, dmsg_state_cleanuprx ex_eng_nested ex_msg_nested = some E1 ∧
      E1.heap 43 = none ∧
      (E1.heap 42).map (fun s => (s.subq, s.parent, s.flags.SUBINSERTED, s.flags.RBINSERTED,
        s.txcmd, s.rxcmd)) =
        some ([44], some 0, true, true, DMSGF_CREATE ||| 0x101,
          DMSGF_REPLY ||| DMSGF_CREATE ||| 0x101) ∧
      (E1.heap 0).map (fun s => s.subq) = some [42] ∧
      E1.statewr_tree 42 = some 42 := by
  obtain ⟨E1, h1, h2, h3, h4, -, h6⟩ := (nested_teardown 0 ex_eng_nested ex_msg_nested 43 42
    { dmsg_state.zero with
      parent := some 42, msgid := 43, refs := 2
      flags := { DYNAMIC := true, SUBINSERTED := true }
      txcmd := DMSGF_CREATE ||| DMSGF_DELETE ||| 0x101
      rxcmd := DMSGF_REPLY ||| DMSGF_CREATE ||| DMSGF_DELETE ||| 0x101
      icmd := 0x101 }
    { dmsg_state.zero with
      parent := some 0, subq := [43, 44], msgid := 42, refs := 3
      flags := { DYNAMIC := true, SUBINSERTED := true, RBINSERTED := true }
      txcmd := DMSGF_CREATE ||| 0x101, rxcmd := DMSGF_REPLY ||| DMSGF_CREATE ||| 0x101
      icmd := 0x101 }
    rfl rfl rfl (by decide) rfl rfl rfl (by decide) (by decide) (by decide) (by decide)
    (fun r h => by cases h) (by decide!)).2.1 (by decide!)
  refine ⟨E1, h1, ?_, ?_, ?_, ?_⟩
  · rw [h2]
    rfl
  · rw [h3]
    rfl
  · rw [h4 0 (by decide) (by decide) (fun h => by cases h)]
    rfl
  · rw [h6]
    rfl

/-- C12 (failing input). A fresh connection (`dmsg_iocom_init`) receives the
frame `CREATE` and then the frame `CREATE|REVTRANS`, both for the identifier
7; each is read by `dmsg_ioq_read` (which allocates the message and calls
`dmsg_state_msgrx`) and retired by `dmsg_state_cleanuprx`, without error and
without failed assertion.  The second frame is looked up in `statewr_tree`,
finds nothing, and creates the state at address 2, whose `RB_INSERT` into
`staterd_tree` finds the key 7 taken by the state at address 1.  The state 2
is dynamic, on the queue of `state0` and flagged `RBINSERTED`, but neither
tree contains it. -/
theorem rbinserted_not_in_tree :
    ((rx_round 5 ex_env ex_conn_twice).bind (rx_round 5 ex_env)).map
      (fun ic => (tree_view_of ic.eng 2, (ic.eng.heap 0).map (fun s => s.subq),
        ic.ioq_rx.error, ic.eng.assert_failed)) =
    some (some { DYNAMIC := true, SUBINSERTED := true, RBINSERTED := true, msgid := 7
                 staterd := some 1, statewr := none },
      some [1, 2], 0, false) := by
  decide!

/-- C15 (failing input). A fresh connection has `state0.refs == 1` and an empty
queue.  It receives the one-shot transaction `CREATE|DELETE` for the
identifier 7: after `dmsg_ioq_read` the message is bound to the new state
(address 1) and `state0.refs == 4`, that is the owner's reference, the
reference taken when the message was allocated on `state0` (never released
when the message moves to the new state), the unconditional
`dmsg_state_hold(pstate)` and the one for the queue; `dmsg_state_msgrx` alone
raised the count by two.  After the callback has replied with
`dmsg_state_reply`, `dmsg_state_cleanuprx` has run and the reply has been
freed, the transaction is fully closed: the state is freed, the queue of
`state0` and both trees are empty, no message is left, and
`state0.refs == 3`, not 1. -/
theorem state0_refs_leak :
    refs_view_of ex_conn_oneshot =
      some { refs0 := 1, subq0 := [], live1 := false, trees := [none, none, none, none]
             txlen := 0, assert_failed := false } ∧
    (dmsg_ioq_read 5 ex_env ex_conn_oneshot).map
        (fun x => (x.2.map (fun m => m.state), refs_view_of x.1)) =
      some (some (some 1),
        some { refs0 := 4, subq0 := [1], live1 := true, trees := [some 1, none, none, none]
               txlen := 0, assert_failed := false }) ∧
    ((dmsg_msg_alloc_locked ex_conn_oneshot.eng 0 0 1 0 false).bind fun am =>
      ((am.1.heap 0).bind fun s0 =>
        (dmsg_state_msgrx am.1
          { am.2 with head := { am.2.head with
              cmd := DMSGF_CREATE ||| DMSGF_DELETE ||| 0x101, msgid := 7 } } false).bind fun r =>
        (r.eng.heap 0).map fun s1 => (r.error, s0.subq, s0.refs, s1.subq, s1.refs))) =
      some (0, [], 2, [1], 4) ∧
    ex_oneshot.map refs_view_of =
      some (some { refs0 := 3, subq0 := [], live1 := false, trees := [none, none, none, none]
                   txlen := 0, assert_failed := false }) := by
  refine ⟨by decide!, by decide!, by decide!, by decide!⟩

/-- C17 (failing input). On the connection `ex_conn_half` the state at address
5 is not `DYING` and its `txcmd` has `DELETE`: the transaction is closed in
the transmit direction.  A message allocated on that state with
`REPLY|CREATE|0x101` and written with `dmsg_msg_write` is not discarded: the
function first stores the command in `txcmd` (which loses its `DELETE`), then
tests `txcmd` for `DELETE`, and appends the message to `txmsgq`. -/
theorem msg_write_dead_queued :
    (ex_conn_half.eng.heap 5).map
        (fun s => (decide (s.txcmd &&& DMSGF_DELETE ≠ 0), s.flags.DYING)) =
      some (true, false) ∧
    ex_conn_half.txmsgq = [] ∧
    ((dmsg_msg_alloc_locked ex_conn_half.eng 5 0 (DMSGF_REPLY ||| DMSGF_CREATE ||| 0x101)
        0 false).bind fun am =>
      (dmsg_msg_write 1 { ex_conn_half with eng := am.1 } am.2).map fun ic =>
        (ic.txmsgq.map (fun m => (m.state, m.head.cmd, m.head.msgid)),
         (ic.eng.heap 5).map (fun s => (s.txcmd, decide (s.txcmd &&& DMSGF_DELETE ≠ 0))),
         ic.eng.assert_failed)) =
      some ([(some 5, DMSGF_REPLY ||| DMSGF_CREATE ||| DMSGF_REVTRANS ||| 0x101, 7)],
        some (DMSGF_REPLY ||| DMSGF_CREATE ||| DMSGF_REVTRANS ||| 0x101, false), false) := by
  refine ⟨by decide!, by decide!, by decide!⟩

theorem and_not_delete (x : Nat) : (x &&& not32 DMSGF_DELETE) &&& DMSGF_DELETE = 0 := by
  rw [Nat.and_assoc]
  have : not32 DMSGF_DELETE &&& DMSGF_DELETE = 0 := by decide
  rw [this, Nat.and_zero]

theorem create_of_case (cmd : Nat)
    (h : cmd &&& (DMSGF_CREATE ||| DMSGF_REPLY) = DMSGF_CREATE) : cmd &&& DMSGF_CREATE ≠ 0 := by
  have h2 := congrArg (fun v => v &&& DMSGF_CREATE) h
  simp only [Nat.and_assoc] at h2
  have h3 : (DMSGF_CREATE ||| DMSGF_REPLY) &&& DMSGF_CREATE = DMSGF_CREATE := by decide
  rw [h3, Nat.and_self] at h2
  rw [h2]
  decide

/-- The two assignments of `dmsg_msg_write` to the state, as one update. -/
theorem write_update_eq (s : dmsg_state) (cmd : Nat) :
    (if cmd &&& DMSGF_CREATE ≠ 0 then
      { (if cmd &&& (DMSGF_CREATE ||| DMSGF_REPLY) = DMSGF_CREATE then
          { s with
            txcmd := cmd &&& not32 DMSGF_DELETE
            icmd := (cmd &&& not32 DMSGF_DELETE) &&& DMSGF_BASECMDMASK
            flags := { s.flags with NEW := false } }
         else s) with txcmd := cmd &&& not32 DMSGF_DELETE }
     else
      (if cmd &&& (DMSGF_CREATE ||| DMSGF_REPLY) = DMSGF_CREATE then
          { s with
            txcmd := cmd &&& not32 DMSGF_DELETE
            icmd := (cmd &&& not32 DMSGF_DELETE) &&& DMSGF_BASECMDMASK
            flags := { s.flags with NEW := false } }
         else s)) = write_update s cmd := by
  unfold write_update
  by_cases h1 : cmd &&& (DMSGF_CREATE ||| DMSGF_REPLY) = DMSGF_CREATE
  · have h2 := create_of_case cmd h1
    simp only [h1, h2, if_true, ne_eq, not_false_eq_true]
  · by_cases h2 : cmd &&& DMSGF_CREATE = 0
    · simp only [h1, h2, if_false, ne_eq, not_true_eq_false]
    · simp only [h1, h2, if_false, ne_eq, not_false_eq_true, if_true]

theorem write_update_open (s : dmsg_state) (cmd : Nat) (h : s.txcmd &&& DMSGF_DELETE = 0) :
    (write_update s cmd).txcmd &&& DMSGF_DELETE = 0 := by
  unfold write_update
  simp only
  split
  · exact and_not_delete cmd
  · exact h

/-- The function `dmsg_state_cleanuptx` when it tears nothing down: the
message has no `DELETE`, or the receive side is still open.  A `DELETE` is
recorded in `txcmd`; no abort is pending. -/
theorem cleanuptx_plain (fuel : Nat) (E : dmsg_engine) (msg : dmsg_msg) (c : Nat)
    (S : dmsg_state) (hms : msg.state = some c) (hc : E.heap c = some S)
    (hroot : S.flags.ROOT = false) (hab : S.flags.ABORTING = false)
    (hdy : S.flags.DYING = false) (hrefs : 1 ≤ S.refs) (htx : S.txcmd &&& DMSGF_DELETE = 0)
    (hcase : ¬ (msg.head.cmd &&& DMSGF_DELETE ≠ 0 ∧ S.rxcmd &&& DMSGF_DELETE ≠ 0)) :
    dmsg_state_cleanuptx fuel E msg = some (E.put c
      { S with txcmd := if msg.head.cmd &&& DMSGF_DELETE ≠ 0 then S.txcmd ||| DMSGF_DELETE
                        else S.txcmd }) := by
  have hfin : ∀ (S1 : dmsg_state), S1.refs = S.refs + 1 → S1.flags = S.flags →
      dmsg_state_drop ((E.put c { S with refs := S.refs + 1 }).put c S1) c =
        some (E.put c { S1 with refs := S.refs }) := by
    intro S1 h1 _
    rw [drop_keep _ c S1 (put_heap_same _ _ _) (by omega)]
    have : S1.refs - 1 = S.refs := by omega
    rw [this]
    simp only [dmsg_engine.put, Function.update_idem]
  unfold dmsg_state_cleanuptx
  rw [hms]
  simp only [Option.bind_eq_bind, Option.some_bind]
  rw [hold_eq E c S hc, Option.some_bind, put_heap_same, Option.some_bind,
    if_neg (by rw [hroot]; decide)]
  by_cases hd : msg.head.cmd &&& DMSGF_DELETE ≠ 0
  · have hrx : S.rxcmd &&& DMSGF_DELETE = 0 := by
      by_contra h
      exact hcase ⟨hd, h⟩
    have hc1 : ¬ (S.txcmd &&& DMSGF_DELETE = 0 ∧ S.rxcmd &&& DMSGF_DELETE ≠ 0) :=
      fun h => h.2 hrx
    rw [if_pos hd, if_neg hc1, if_pos htx, if_pos hd]
    simp only [Option.pure_def, Option.some_bind, put_heap_same, hab, hdy, Bool.or_self,
      Bool.false_eq_true, false_and, if_false]
    exact hfin { S with refs := S.refs + 1, txcmd := S.txcmd ||| DMSGF_DELETE } rfl rfl
  · rw [if_neg hd, if_neg hd]
    simp only [Option.pure_def, Option.some_bind, put_heap_same, hab, hdy, Bool.or_self,
      Bool.false_eq_true, false_and, if_false]
    rw [drop_keep _ c _ (put_heap_same _ _ _) (by show (2 : Int) ≤ S.refs + 1; omega)]
    simp only [dmsg_engine.put, Function.update_idem, add_sub_cancel_right]

/-- The function `dmsg_msg_write` on a non-root state that is not `DYING` and
whose `txcmd` lacks `DELETE`: the state is updated, `dmsg_state_cleanuptx`
runs, and the message, with the identifier of the state, goes to the tail of
`txmsgq`. -/
theorem msg_write_eq (fuel : Nat) (ic : dmsg_iocom) (msg : dmsg_msg) (c : Nat) (sc : dmsg_state)
    (hms : msg.state = some c) (hc : ic.eng.heap c = some sc) (hroot : sc.flags.ROOT = false)
    (hdy : sc.flags.DYING = false) (htx : sc.txcmd &&& DMSGF_DELETE = 0) :
    dmsg_msg_write fuel ic msg =
      (dmsg_state_cleanuptx fuel (ic.eng.put c (write_update sc msg.head.cmd))
        { msg with head := { msg.head with msgid := sc.msgid } }).bind fun e2 =>
      some { ic with
             eng := e2
             txmsgq := ic.txmsgq ++ [{ msg with head := { msg.head with msgid := sc.msgid } }] } := by
  rcases sc with ⟨par, subq, scan, ⟨fR, fD, fO, fS, fRB, fDY, fAB, fNEW⟩, txcmd, rxcmd, icmd,
    msgid, refs, relay, func, any⟩
  rcases msg with ⟨mst, head, ext, hdr_size, aux_data, aux_size, tcmd⟩
  simp only at hms hroot hdy htx
  subst hms hroot hdy
  unfold dmsg_msg_write write_update
  simp only [hc, Option.bind_eq_bind, Option.some_bind, Bool.not_false, true_and, if_true]
  by_cases h1 : head.cmd &&& (DMSGF_CREATE ||| DMSGF_REPLY) = DMSGF_CREATE
  · have h2 := create_of_case head.cmd h1
    simp only [h1, h2, if_true, ne_eq, not_false_eq_true, and_not_delete, not_true_eq_false,
      if_false, Bool.false_eq_true, Option.pure_def]
  · by_cases h2 : head.cmd &&& DMSGF_CREATE = 0
    · simp only [h1, h2, if_false, ne_eq, not_true_eq_false, htx, Bool.false_eq_true,
        Option.pure_def]
    · simp only [h1, h2, if_false, ne_eq, not_false_eq_true, if_true, and_not_delete,
        not_true_eq_false, Bool.false_eq_true, Option.pure_def]

/-- The function `dmsg_msg_write` on a linked state that is neither `DYING`
nor `ABORTING` and whose `txcmd` lacks `DELETE`: it returns, the message goes
to the tail of `txmsgq`, and the state is updated.  When the message carries
`DELETE` and `rxcmd` has `DELETE` the state is torn down, otherwise only its
`txcmd`, `icmd` and `NEW` change. -/
theorem msg_write_queue (fuel : Nat) (ic : dmsg_iocom) (msg : dmsg_msg) (c p : Nat)
    (sc sp : dmsg_state) (hms : msg.state = some c) (hl : linked ic.eng c p sc sp)
    (hdy : sc.flags.DYING = false) (hab : sc.flags.ABORTING = false)
    (htx : sc.txcmd &&& DMSGF_DELETE = 0) (hrefs : 3 ≤ sc.refs)
    (hreg : msg.head.cmd &&& DMSGF_DELETE ≠ 0 → sc.rxcmd &&& DMSGF_DELETE ≠ 0 →
      (if (write_update sc msg.head.cmd).txcmd &&& DMSGF_REPLY ≠ 0 then
        ic.eng.staterd_tree sc.msgid
       else ic.eng.statewr_tree sc.msgid) = some c) :
    ∃ ic1, dmsg_msg_write fuel ic msg = some ic1 ∧
      ic1 = { ic with
              eng := ic1.eng
              txmsgq := ic.txmsgq ++
                [{ msg with head := { msg.head with msgid := sc.msgid } }] } ∧
      (if msg.head.cmd &&& DMSGF_DELETE ≠ 0 ∧ sc.rxcmd &&& DMSGF_DELETE ≠ 0 then
        ic1.eng.heap c = some
          { write_update sc msg.head.cmd with
            txcmd := (write_update sc msg.head.cmd).txcmd ||| DMSGF_DELETE
            flags := { (write_update sc msg.head.cmd).flags with
                       SUBINSERTED := false, RBINSERTED := false }
            parent := none, relay := none, refs := sc.refs - 2 } ∧
        ic1.eng.heap p = some { sp with
          scan := if sp.scan = some c then none else sp.scan
          subq := sp.subq.erase c
          refs := sp.refs - (if sp.subq.erase c = [] then 1 else 0) } ∧
        (∀ a, a ≠ c → a ≠ p → sc.relay ≠ some a → ic1.eng.heap a = ic.eng.heap a) ∧
        (∀ r sr, sc.relay = some r → ic.eng.heap r = some sr →
          ic1.eng.heap r = some { sr with refs := sr.refs - 1 }) ∧
        ic1.eng.staterd_tree =
          (if (write_update sc msg.head.cmd).txcmd &&& DMSGF_REPLY ≠ 0 then
            Function.update ic.eng.staterd_tree sc.msgid none
           else ic.eng.staterd_tree) ∧
        ic1.eng.statewr_tree =
          (if (write_update sc msg.head.cmd).txcmd &&& DMSGF_REPLY ≠ 0 then ic.eng.statewr_tree
           else Function.update ic.eng.statewr_tree sc.msgid none)
      else
        ic1.eng = ic.eng.put c
          { write_update sc msg.head.cmd with
            txcmd := if msg.head.cmd &&& DMSGF_DELETE ≠ 0 then
                       (write_update sc msg.head.cmd).txcmd ||| DMSGF_DELETE
                     else (write_update sc msg.head.cmd).txcmd }) := by
  have hpc : p ≠ c := fun h => hl.ne h.symm
  have hopen := write_update_open sc msg.head.cmd htx
  rw [msg_write_eq fuel ic msg c sc hms hl.child hl.root hdy htx]
  by_cases hcase : msg.head.cmd &&& DMSGF_DELETE ≠ 0 ∧ sc.rxcmd &&& DMSGF_DELETE ≠ 0
  · obtain ⟨E1, h1, h2, h3, h4, h5, h6, h7⟩ := cleanuptx_teardown fuel
      (ic.eng.put c (write_update sc msg.head.cmd))
      { msg with head := { msg.head with msgid := sc.msgid } } c p
      (write_update sc msg.head.cmd) sp hms (put_heap_same _ _ _)
      (by rw [put_heap_other _ _ _ _ hpc]; exact hl.parent) hl.ne hl.root hl.sub hl.par hl.mem
      hrefs hl.prefs
      (fun r hr => by
        obtain ⟨a1, a2, sr, a3, a4⟩ := hl.relay r hr
        exact ⟨a1, a2, sr, by rw [put_heap_other _ _ _ _ a1]; exact a3, a4⟩)
      hcase.2 hopen hcase.1 (hreg hcase.1 hcase.2)
    rw [h1]
    refine ⟨_, rfl, rfl, ?_⟩
    rw [if_pos hcase]
    refine ⟨h2, h3, ?_, ?_, h6, h7⟩
    · intro a ha1 ha2 ha3
      rw [h4 a ha1 ha2 ha3, put_heap_other _ _ _ _ ha1]
    · intro r sr hr hsr
      obtain ⟨a1, -, -⟩ := hl.relay r hr
      exact h5 r sr hr (by rw [put_heap_other _ _ _ _ a1]; exact hsr)
  · rw [cleanuptx_plain fuel (ic.eng.put c (write_update sc msg.head.cmd))
      { msg with head := { msg.head with msgid := sc.msgid } } c (write_update sc msg.head.cmd)
      hms (put_heap_same _ _ _) hl.root hab hdy (le_trans (by decide) hrefs) hopen hcase]
    refine ⟨_, rfl, rfl, ?_⟩
    rw [if_neg hcase]
    simp only [dmsg_engine.put, Function.update_idem, Option.some_bind]

/-- C18. Send-side state update.  A message is written with `dmsg_msg_write`
on a non-root state `c` that is linked under its parent `p`, is neither
`DYING` nor `ABORTING` (no abort is pending), whose `txcmd` lacks `DELETE` and
which holds the references of its queue, its tree and the message; for the
removal it is registered in the tree of its direction.  The function returns
and queues the message, and afterwards: `txcmd` has `DELETE` iff the message
carried `DELETE`; a message with `CREATE` and without `REPLY` has set `txcmd`
to its command without `DELETE` (plus the `DELETE` just recorded) and `icmd`
to its base command, and cleared `NEW`; when the message carried `DELETE` and
`rxcmd` already had `DELETE` the state has left its tree (`RBINSERTED`
cleared, the entry gone), its parent's queue (`SUBINSERTED` cleared, parent
pointer `NULL`) and its relay (one reference of the relay dropped), losing two
references; otherwise its links, its reference count, both trees and every
other state are as before. -/
theorem send_state_update (fuel : Nat) (ic : dmsg_iocom) (msg : dmsg_msg) (c p : Nat)
    (sc sp : dmsg_state) (hms : msg.state = some c) (hl : linked ic.eng c p sc sp)
    (hdy : sc.flags.DYING = false) (hab : sc.flags.ABORTING = false)
    (htx : sc.txcmd &&& DMSGF_DELETE = 0) (hrefs : 3 ≤ sc.refs)
    (hreg : msg.head.cmd &&& DMSGF_DELETE ≠ 0 → sc.rxcmd &&& DMSGF_DELETE ≠ 0 →
      (if (write_update sc msg.head.cmd).txcmd &&& DMSGF_REPLY ≠ 0 then
        ic.eng.staterd_tree sc.msgid
       else ic.eng.statewr_tree sc.msgid) = some c) :
    ∃ ic1 s1, dmsg_msg_write fuel ic msg = some ic1 ∧
      ic1.txmsgq = ic.txmsgq ++ [{ msg with head := { msg.head with msgid := sc.msgid } }] ∧
      ic1.eng.heap c = some s1 ∧
      (s1.txcmd &&& DMSGF_DELETE ≠ 0 ↔ msg.head.cmd &&& DMSGF_DELETE ≠ 0) ∧
      (msg.head.cmd &&& DMSGF_CREATE = 0 →
        s1.txcmd = (if msg.head.cmd &&& DMSGF_DELETE ≠ 0 then sc.txcmd ||| DMSGF_DELETE
                    else sc.txcmd)) ∧
      (msg.head.cmd &&& (DMSGF_CREATE ||| DMSGF_REPLY) = DMSGF_CREATE →
        s1.txcmd = (if msg.head.cmd &&& DMSGF_DELETE ≠ 0 then
                      (msg.head.cmd &&& not32 DMSGF_DELETE) ||| DMSGF_DELETE
                    else msg.head.cmd &&& not32 DMSGF_DELETE) ∧
        s1.icmd = (msg.head.cmd &&& not32 DMSGF_DELETE) &&& DMSGF_BASECMDMASK ∧
        s1.flags.NEW = false) ∧
      (msg.head.cmd &&& DMSGF_DELETE ≠ 0 → sc.rxcmd &&& DMSGF_DELETE ≠ 0 →
        s1.flags.RBINSERTED = false ∧ s1.flags.SUBINSERTED = false ∧ s1.parent = none ∧
        s1.relay = none ∧ s1.refs = sc.refs - 2 ∧
        (if (write_update sc msg.head.cmd).txcmd &&& DMSGF_REPLY ≠ 0 then
          ic1.eng.staterd_tree sc.msgid
         else ic1.eng.statewr_tree sc.msgid) = none ∧
        (∃ sp1, ic1.eng.heap p = some sp1 ∧ sp1.subq = sp.subq.erase c) ∧
        (∀ r sr, sc.relay = some r → ic.eng.heap r = some sr →
          ic1.eng.heap r = some { sr with refs := sr.refs - 1 })) ∧
      (¬ (msg.head.cmd &&& DMSGF_DELETE ≠ 0 ∧ sc.rxcmd &&& DMSGF_DELETE ≠ 0) →
        s1.flags.RBINSERTED = sc.flags.RBINSERTED ∧
        s1.flags.SUBINSERTED = sc.flags.SUBINSERTED ∧ s1.parent = sc.parent ∧
        s1.relay = sc.relay ∧ s1.refs = sc.refs ∧
        ic1.eng.staterd_tree = ic.eng.staterd_tree ∧
        ic1.eng.statewr_tree = ic.eng.statewr_tree ∧
        ∀ a, a ≠ c → ic1.eng.heap a = ic.eng.heap a) := by
  have hopen := write_update_open sc msg.head.cmd htx
  obtain ⟨ic1, h1, h2, h3⟩ :=
    msg_write_queue fuel ic msg c p sc sp hms hl hdy hab htx hrefs hreg
  have hq : ic1.txmsgq =
      ic.txmsgq ++ [{ msg with head := { msg.head with msgid := sc.msgid } }] := by
    rw [h2]
  have hW0 : msg.head.cmd &&& DMSGF_CREATE = 0 →
      (write_update sc msg.head.cmd).txcmd = sc.txcmd := by
    intro h
    unfold write_update
    simp only [h, ne_eq, not_true_eq_false, if_false]
  have hW1 : msg.head.cmd &&& (DMSGF_CREATE ||| DMSGF_REPLY) = DMSGF_CREATE →
      (write_update sc msg.head.cmd).txcmd = msg.head.cmd &&& not32 DMSGF_DELETE ∧
      (write_update sc msg.head.cmd).icmd =
        (msg.head.cmd &&& not32 DMSGF_DELETE) &&& DMSGF_BASECMDMASK ∧
      (write_update sc msg.head.cmd).flags.NEW = false := by
    intro h
    have h2 := create_of_case _ h
    unfold write_update
    simp only [h, h2, ne_eq, not_false_eq_true, if_true, and_self]
  by_cases hcase : msg.head.cmd &&& DMSGF_DELETE ≠ 0 ∧ sc.rxcmd &&& DMSGF_DELETE ≠ 0
  · rw [if_pos hcase] at h3
    obtain ⟨a1, a2, -, a4, a5, a6⟩ := h3
    refine ⟨ic1, _, h1, hq, a1, ?_, ?_, ?_, ?_, ?_⟩
    · exact ⟨fun _ => hcase.1, fun _ => or_delete_set _⟩
    · intro h
      show (write_update sc msg.head.cmd).txcmd ||| DMSGF_DELETE = _
      rw [if_pos hcase.1, hW0 h]
    · intro h
      obtain ⟨b1, b2, b3⟩ := hW1 h
      refine ⟨?_, b2, b3⟩
      show (write_update sc msg.head.cmd).txcmd ||| DMSGF_DELETE = _
      rw [if_pos hcase.1, b1]
    · intro _ _
      refine ⟨rfl, rfl, rfl, rfl, rfl, ?_, ⟨_, a2, rfl⟩, a4⟩
      by_cases hR : (write_update sc msg.head.cmd).txcmd &&& DMSGF_REPLY ≠ 0
      · rw [if_pos hR, a5, if_pos hR, Function.update_same]
      · rw [if_neg hR, a6, if_neg hR, Function.update_same]
    · intro h
      exact absurd hcase h
  · rw [if_neg hcase] at h3
    refine ⟨ic1, _, h1, hq, by rw [h3]; exact put_heap_same _ _ _, ?_, ?_, ?_, ?_, ?_⟩
    · constructor
      · intro h
        by_contra hd
        have h' : (if msg.head.cmd &&& DMSGF_DELETE ≠ 0 then
            (write_update sc msg.head.cmd).txcmd ||| DMSGF_DELETE
          else (write_update sc msg.head.cmd).txcmd) &&& DMSGF_DELETE ≠ 0 := h
        rw [if_neg (fun hh => hh hd)] at h'
        exact h' hopen
      · intro hd
        show (if msg.head.cmd &&& DMSGF_DELETE ≠ 0 then
            (write_update sc msg.head.cmd).txcmd ||| DMSGF_DELETE
          else (write_update sc msg.head.cmd).txcmd) &&& DMSGF_DELETE ≠ 0
        rw [if_pos hd]
        exact or_delete_set _
    · intro h
      show (if msg.head.cmd &&& DMSGF_DELETE ≠ 0 then
          (write_update sc msg.head.cmd).txcmd ||| DMSGF_DELETE
        else (write_update sc msg.head.cmd).txcmd) = _
      rw [hW0 h]
    · intro h
      obtain ⟨b1, b2, b3⟩ := hW1 h
      refine ⟨?_, b2, b3⟩
      show (if msg.head.cmd &&& DMSGF_DELETE ≠ 0 then
          (write_update sc msg.head.cmd).txcmd ||| DMSGF_DELETE
        else (write_update sc msg.head.cmd).txcmd) = _
      rw [b1]
    · intro h1 h2
      exact absurd ⟨h1, h2⟩ hcase
    · intro _
      refine ⟨rfl, rfl, rfl, rfl, rfl, by rw [h3]; rfl, by rw [h3]; rfl, ?_⟩
      intro a ha
      rw [h3]
      exact put_heap_other _ _ _ _ ha

theorem ex_reply_linked : linked ex_reply_conn.eng 5 0 ex_reply_state ex_rx_state0 :=
  { child := rfl, parent := rfl, ne := by decide, root := rfl, sub := rfl, par := rfl
    mem := by decide, prefs := by decide, relay := fun r h => by cases h }

/-- C18 (witness). On `ex_reply_conn` the reply `REPLY|CREATE|DELETE` closes
the transaction 7, whose receive side is closed already: the message is
queued, `txcmd` has `DELETE`, and the state has left `staterd_tree` and the
queue of `state0`. -/
theorem send_state_update_witness :
    ∃ ic1 s1, dmsg_msg_write 1 ex_reply_conn ex_reply_msg = some ic1 ∧
      ic1.txmsgq = [{ ex_reply_msg with head := { ex_reply_msg.head with msgid := 7 } }] ∧
      ic1.eng.heap 5 = some s1 ∧ s1.txcmd &&& DMSGF_DELETE ≠ 0 ∧
      s1.flags.RBINSERTED = false ∧ s1.flags.SUBINSERTED = false ∧ s1.parent = none ∧
      s1.refs = 1 ∧ ic1.eng.staterd_tree 7 = none ∧
      (∃ sp1, ic1.eng.heap 0 = some sp1 ∧ sp1.subq = []) := by
  obtain ⟨ic1, s1, h1, h2, h3, h4, -, -, h7, -⟩ := send_state_update 1 ex_reply_conn ex_reply_msg
    5 0 ex_reply_state ex_rx_state0 rfl ex_reply_linked rfl rfl (by decide!) (by decide)
    (fun _ _ => by decide!)
  obtain ⟨a1, a2, a3, -, a5, a6, a7, -⟩ := h7 (by decide!) (by decide!)
  refine ⟨ic1, s1, h1, h2, h3, h4.2 (by decide!), a1, a2, a3, a5, ?_, a7⟩
  rw [if_pos (by decide!)] at a6
  exact a6

/-- The branch of `dmsg_msg_alloc_locked` that binds the message to the state
passed in, for a message without payload: the state gains the message's
reference, and the header carries the command with `REVTRANS` and `REVCIRC`
set according to the `OPPOSITE` flags of the state and of its parent. -/
theorem alloc_bound_eq (e : dmsg_engine) (c p cmd : Nat) (sc sp : dmsg_state)
    (hc : e.heap c = some sc) (hpar : sc.parent = some p) (hp : e.heap p = some sp)
    (hcp : c ≠ p) (hcmd : cmd &&& (DMSGF_CREATE ||| DMSGF_REPLY) ≠ DMSGF_CREATE)
    (hsz : (cmd &&& DMSGF_SIZE) * DMSG_ALIGN = 64) :
    dmsg_msg_alloc_locked e c 0 cmd 0 false =
      some (e.put c { sc with refs := sc.refs + 1 },
        { state := some c
          head := { dmsg_hdr.zero with
                    magic := DMSG_HDR_MAGIC
                    cmd := if sp.flags.OPPOSITE then
                             (if sc.flags.OPPOSITE then cmd ||| DMSGF_REVTRANS else cmd) |||
                               DMSGF_REVCIRC
                           else (if sc.flags.OPPOSITE then cmd ||| DMSGF_REVTRANS else cmd)
                    msgid := sc.msgid, circuit := sp.msgid }
          ext := [], hdr_size := 64, aux_data := none, aux_size := 0, tcmd := 0 }) := by
  have hpc : p ≠ c := fun h => hcp h.symm
  rcases sc with ⟨par, subq, scan, flags, txcmd, rxcmd, icmd, msgid, refs, relay, fn, any⟩
  simp only at hpar
  subst hpar
  unfold dmsg_msg_alloc_locked
  simp only [hcmd, decide_False, Bool.false_eq_true, if_false, hold_eq e c _ hc,
    Option.map_some', Option.bind_eq_bind, Option.some_bind, hc, hsz, sizeof_head, ge_iff_le,
    le_refl, decide_True, check_true, ne_eq, not_true_eq_false, put_heap_same,
    put_heap_other e c p _ hpc, hp, Option.pure_def, Nat.sub_self, List.replicate_zero]
  rfl

/-- The body of `dmsg_state_reply` and `dmsg_state_result` on a non-root state
whose `txcmd` lacks `DELETE`: the message `reply_msg` is allocated on the
state and written. -/
theorem reply_cmd_eq (fuel : Nat) (ic : dmsg_iocom) (c p cmd0 error : Nat) (sc sp : dmsg_state)
    (hc : ic.eng.heap c = some sc) (hpar : sc.parent = some p) (hp : ic.eng.heap p = some sp)
    (hcp : c ≠ p) (hroot : sc.flags.ROOT = false) (htx : sc.txcmd &&& DMSGF_DELETE = 0)
    (h0 : cmd0 = DMSG_LNK_ERROR ∨ cmd0 = DMSG_LNK_ERROR ||| DMSGF_DELETE) :
    dmsg_state_reply_cmd fuel ic c cmd0 error =
      dmsg_msg_write fuel { ic with eng := ic.eng.put c { sc with refs := sc.refs + 1 } }
        (reply_msg c sc sp cmd0 error) := by
  have hcmd : (if sc.txcmd &&& DMSGF_REPLY ≠ 0 then cmd0 ||| DMSGF_REPLY else cmd0) &&&
      (DMSGF_CREATE ||| DMSGF_REPLY) ≠ DMSGF_CREATE := by
    rcases h0 with h | h <;> subst h <;> split <;> decide
  have hsz : ((if sc.txcmd &&& DMSGF_REPLY ≠ 0 then cmd0 ||| DMSGF_REPLY else cmd0) &&&
      DMSGF_SIZE) * DMSG_ALIGN = 64 := by
    rcases h0 with h | h <;> subst h <;> split <;> decide
  unfold dmsg_state_reply_cmd
  simp only [hc, Option.bind_eq_bind, Option.some_bind, htx, ne_eq, not_true_eq_false, if_false]
  rw [alloc_bound_eq ic.eng c p _ sc sp hc hpar hp hcp hcmd hsz]
  simp only [Option.some_bind, put_heap_same, hroot, Bool.not_false, true_and]
  unfold reply_msg
  rfl
theorem and_pow_ne_zero (x k : Nat) : x &&& 2 ^ k ≠ 0 ↔ x.testBit k = true := by
  rw [Nat.and_two_pow]
  cases x.testBit k <;> simp

theorem reply_bit (x : Nat) : x &&& DMSGF_REPLY ≠ 0 ↔ x.testBit 29 = true :=
  and_pow_ne_zero x 29

theorem create_bit (x : Nat) : x &&& DMSGF_CREATE ≠ 0 ↔ x.testBit 31 = true :=
  and_pow_ne_zero x 31

theorem delete_bit (x : Nat) : x &&& DMSGF_DELETE ≠ 0 ↔ x.testBit 30 = true :=
  and_pow_ne_zero x 30

theorem reply_msg_bits (c : Nat) (sc sp : dmsg_state) (cmd0 error : Nat)
    (h29 : cmd0.testBit 29 = false) (h31 : cmd0.testBit 31 = false) :
    (reply_msg c sc sp cmd0 error).head.cmd.testBit 29 = sc.txcmd.testBit 29 ∧
    (reply_msg c sc sp cmd0 error).head.cmd.testBit 31 = !sc.txcmd.testBit 31 ∧
    (reply_msg c sc sp cmd0 error).head.cmd.testBit 30 = cmd0.testBit 30 := by
  have e29 : (sc.txcmd &&& DMSGF_REPLY ≠ 0) = (sc.txcmd.testBit 29 = true) :=
    propext (reply_bit _)
  have e31 : (sc.txcmd &&& DMSGF_CREATE = 0) = (sc.txcmd.testBit 31 = false) := by
    have := create_bit sc.txcmd
    apply propext
    constructor
    · intro h
      cases hb : sc.txcmd.testBit 31
      · rfl
      · exact absurd h (this.2 hb)
    · intro h
      by_contra hc
      rw [this.1 hc] at h
      cases h
  have k1 : DMSGF_REPLY.testBit 30 = false := by decide
  have k2 : DMSGF_CREATE.testBit 30 = false := by decide
  have k3 : DMSGF_REVTRANS.testBit 30 = false := by decide
  have k4 : DMSGF_REVCIRC.testBit 30 = false := by decide
  unfold reply_msg
  simp only [e29, e31]
  cases sc.txcmd.testBit 29 <;> cases sc.txcmd.testBit 31 <;>
    cases sc.flags.OPPOSITE <;> cases sp.flags.OPPOSITE <;>
    simp +decide [Nat.testBit_or, h29, h31, k1, k2, k3, k4]

/-- The `REPLY` bit that `dmsg_msg_write` leaves in `txcmd` for the message of
`dmsg_state_reply` is the `REPLY` bit `txcmd` had. -/
theorem reply_keeps_direction (c : Nat) (sc sp S : dmsg_state) (cmd0 error : Nat)
    (hS : S.txcmd = sc.txcmd) (h29 : cmd0.testBit 29 = false) (h31 : cmd0.testBit 31 = false) :
    ((write_update S (reply_msg c sc sp cmd0 error).head.cmd).txcmd &&& DMSGF_REPLY ≠ 0) =
      (sc.txcmd &&& DMSGF_REPLY ≠ 0) := by
  obtain ⟨b29, b31, -⟩ := reply_msg_bits c sc sp cmd0 error h29 h31
  have hc := create_bit (reply_msg c sc sp cmd0 error).head.cmd
  apply propext
  rw [reply_bit, reply_bit]
  unfold write_update
  simp only
  by_cases h : (reply_msg c sc sp cmd0 error).head.cmd &&& DMSGF_CREATE ≠ 0
  · rw [if_pos h, Nat.testBit_and, b29]
    have : (not32 DMSGF_DELETE).testBit 29 = true := by decide
    rw [this, Bool.and_true]
  · rw [if_neg h, hS]

/-- The first `dmsg_state_reply` or `dmsg_state_result` on a linked state whose
`txcmd` lacks `DELETE`: one message is queued, and with `DELETE` in the
command `txcmd` has `DELETE` afterwards. -/
theorem reply_first (fuel : Nat) (ic : dmsg_iocom) (c p cmd0 error : Nat) (sc sp : dmsg_state)
    (hl : linked ic.eng c p sc sp) (hdy : sc.flags.DYING = false)
    (hab : sc.flags.ABORTING = false) (htx : sc.txcmd &&& DMSGF_DELETE = 0)
    (hrefs : 2 ≤ sc.refs)
    (h0 : cmd0 = DMSG_LNK_ERROR ∨ cmd0 = DMSG_LNK_ERROR ||| DMSGF_DELETE)
    (hreg : sc.rxcmd &&& DMSGF_DELETE ≠ 0 →
      (if sc.txcmd &&& DMSGF_REPLY ≠ 0 then ic.eng.staterd_tree sc.msgid
       else ic.eng.statewr_tree sc.msgid) = some c) :
    ∃ ic1 s1, dmsg_state_reply_cmd fuel ic c cmd0 error = some ic1 ∧
      ic1.txmsgq = ic.txmsgq ++ [reply_msg c sc sp cmd0 error] ∧
      ic1.eng.heap c = some s1 ∧
      (cmd0 = DMSG_LNK_ERROR ||| DMSGF_DELETE → s1.txcmd &&& DMSGF_DELETE ≠ 0) := by
  have h29 : cmd0.testBit 29 = false := by
    rcases h0 with h | h <;> subst h <;> decide
  have h31 : cmd0.testBit 31 = false := by
    rcases h0 with h | h <;> subst h <;> decide
  have hpc : p ≠ c := fun h => hl.ne h.symm
  have hl2 : linked (ic.eng.put c { sc with refs := sc.refs + 1 }) c p
      { sc with refs := sc.refs + 1 } sp :=
    { child := put_heap_same _ _ _
      parent := by rw [put_heap_other _ _ _ _ hpc]; exact hl.parent
      ne := hl.ne, root := hl.root, sub := hl.sub, par := hl.par, mem := hl.mem
      prefs := hl.prefs
      relay := fun r hr => by
        obtain ⟨a1, a2, sr, a3, a4⟩ := hl.relay r hr
        exact ⟨a1, a2, sr, by rw [put_heap_other _ _ _ _ a1]; exact a3, a4⟩ }
  have hdir := reply_keeps_direction c sc sp { sc with refs := sc.refs + 1 } cmd0 error rfl
    h29 h31
  rw [reply_cmd_eq fuel ic c p cmd0 error sc sp hl.child hl.par hl.parent hl.ne hl.root htx h0]
  obtain ⟨ic1, h1, h2, h3⟩ := msg_write_queue fuel
    { ic with eng := ic.eng.put c { sc with refs := sc.refs + 1 } }
    (reply_msg c sc sp cmd0 error) c p { sc with refs := sc.refs + 1 } sp rfl hl2 hdy hab htx
    (by show (3 : Int) ≤ sc.refs + 1; omega)
    (by
      intro _ hrx
      show (if (write_update { sc with refs := sc.refs + 1 }
          (reply_msg c sc sp cmd0 error).head.cmd).txcmd &&& DMSGF_REPLY ≠ 0 then
          ic.eng.staterd_tree sc.msgid else ic.eng.statewr_tree sc.msgid) = some c
      have hg := hreg hrx
      by_cases hR : sc.txcmd &&& DMSGF_REPLY ≠ 0
      · rw [if_pos hR] at hg
        rw [if_pos (hdir.symm ▸ hR)]
        exact hg
      · rw [if_neg hR] at hg
        rw [if_neg (hdir.symm ▸ hR)]
        exact hg)
  have hq : ic1.txmsgq = ic.txmsgq ++ [reply_msg c sc sp cmd0 error] := by
    rw [h2]
    rfl
  have hdel : cmd0 = DMSG_LNK_ERROR ||| DMSGF_DELETE →
      (reply_msg c sc sp cmd0 error).head.cmd &&& DMSGF_DELETE ≠ 0 := by
    intro h
    obtain ⟨-, -, b30⟩ := reply_msg_bits c sc sp cmd0 error h29 h31
    rw [delete_bit, b30, h]
    decide
  by_cases hcase : (reply_msg c sc sp cmd0 error).head.cmd &&& DMSGF_DELETE ≠ 0 ∧
      ({ sc with refs := sc.refs + 1 } : dmsg_state).rxcmd &&& DMSGF_DELETE ≠ 0
  · rw [if_pos hcase] at h3
    exact ⟨ic1, _, h1, hq, h3.1, fun _ => or_delete_set _⟩
  · rw [if_neg hcase] at h3
    refine ⟨ic1, _, h1, hq, by rw [h3]; exact put_heap_same _ _ _, ?_⟩
    intro h
    show (if (reply_msg c sc sp cmd0 error).head.cmd &&& DMSGF_DELETE ≠ 0 then _ else _) &&&
      DMSGF_DELETE ≠ 0
    rw [if_pos (hdel h)]
    exact or_delete_set _

/-- A `dmsg_state_reply` or `dmsg_state_result` on a state whose `txcmd` has
`DELETE` returns at once. -/
theorem reply_noop (fuel : Nat) (ic : dmsg_iocom) (c cmd0 error : Nat) (s : dmsg_state)
    (hc : ic.eng.heap c = some s) (htx : s.txcmd &&& DMSGF_DELETE ≠ 0) :
    dmsg_state_reply_cmd fuel ic c cmd0 error = some ic := by
  unfold dmsg_state_reply_cmd
  simp only [hc, Option.bind_eq_bind, Option.some_bind, htx, ne_eq, not_false_eq_true, if_true,
    Option.pure_def]

/-- C19. For a non-root state `c` that is linked under its parent, is neither
`DYING` nor `ABORTING`, whose `txcmd` lacks `DELETE`, which holds the
references of its queue and its tree and (when the receive side is closed) is
registered in the tree of its direction, and for all error codes `e1` and
`e2`: `dmsg_state_reply(c, e1)` returns and appends exactly one message to
`txmsgq`, on the state `c`, carrying `DELETE` and the error `e1` (as a
`uint32_t`); a second `dmsg_state_reply(c, e2)` returns with the connection
unchanged: nothing is queued and no field of any state changes; and so does
`dmsg_state_result(c, e2)`.  In general `dmsg_state_reply` and
`dmsg_state_result` on a state whose `txcmd` has `DELETE` leave the
connection as it is. -/
theorem state_reply_twice (fuel : Nat) (ic : dmsg_iocom) (c p e1 e2 : Nat) (sc sp : dmsg_state)
    (hl : linked ic.eng c p sc sp) (hdy : sc.flags.DYING = false)
    (hab : sc.flags.ABORTING = false) (htx : sc.txcmd &&& DMSGF_DELETE = 0)
    (hrefs : 2 ≤ sc.refs)
    (hreg : sc.rxcmd &&& DMSGF_DELETE ≠ 0 →
      (if sc.txcmd &&& DMSGF_REPLY ≠ 0 then ic.eng.staterd_tree sc.msgid
       else ic.eng.statewr_tree sc.msgid) = some c) :
    (∃ ic1 m, dmsg_state_reply fuel ic c e1 = some ic1 ∧ ic1.txmsgq = ic.txmsgq ++ [m] ∧
      m.state = some c ∧ m.head.cmd &&& DMSGF_DELETE ≠ 0 ∧ m.head.error = e1 % 2 ^ 32 ∧
      dmsg_state_reply fuel ic1 c e2 = some ic1 ∧
      dmsg_state_result fuel ic1 c e2 = some ic1) ∧
    (∀ (ic2 : dmsg_iocom) (s2 : dmsg_state), ic2.eng.heap c = some s2 →
      s2.txcmd &&& DMSGF_DELETE ≠ 0 →
      dmsg_state_reply fuel ic2 c e2 = some ic2 ∧ dmsg_state_result fuel ic2 c e2 = some ic2) := by
  constructor
  · obtain ⟨ic1, s1, h1, h2, h3, h4⟩ := reply_first fuel ic c p (DMSG_LNK_ERROR ||| DMSGF_DELETE)
      e1 sc sp hl hdy hab htx hrefs (Or.inr rfl) hreg
    have h29 : (DMSG_LNK_ERROR ||| DMSGF_DELETE).testBit 29 = false := by decide
    have h31 : (DMSG_LNK_ERROR ||| DMSGF_DELETE).testBit 31 = false := by decide
    obtain ⟨-, -, b30⟩ := reply_msg_bits c sc sp (DMSG_LNK_ERROR ||| DMSGF_DELETE) e1 h29 h31
    refine ⟨ic1, reply_msg c sc sp (DMSG_LNK_ERROR ||| DMSGF_DELETE) e1, h1, h2, rfl, ?_, rfl,
      reply_noop fuel ic1 c _ e2 s1 h3 (h4 rfl), reply_noop fuel ic1 c _ e2 s1 h3 (h4 rfl)⟩
    rw [delete_bit, b30]
    decide
  · intro ic2 s2 h1 h2
    exact ⟨reply_noop fuel ic2 c _ e2 s2 h1 h2, reply_noop fuel ic2 c _ e2 s2 h1 h2⟩

/-- C19 (witness). On `ex_reply_conn` the first `dmsg_state_reply` on the
state at address 5 queues one message with `DELETE` and the error 3; the
second one changes nothing. -/
theorem state_reply_twice_witness :
    ∃ ic1 m, dmsg_state_reply 1 ex_reply_conn 5 3 = some ic1 ∧ ic1.txmsgq = [m] ∧
      m.state = some 5 ∧ m.head.cmd &&& DMSGF_DELETE ≠ 0 ∧ m.head.error = 3 ∧
      dmsg_state_reply 1 ic1 5 9 = some ic1 ∧ dmsg_state_result 1 ic1 5 9 = some ic1 :=
  (state_reply_twice 1 ex_reply_conn 5 0 3 9 ex_reply_state ex_rx_state0
    { child := rfl, parent := rfl, ne := by decide, root := rfl, sub := rfl, par := rfl
      mem := by decide, prefs := by decide, relay := fun r h => by cases h }
    rfl rfl (by decide!) (by decide) (fun _ => by decide!)).1

theorem step_refl (e : dmsg_engine) : ab_step [] e e :=
  ⟨(List.append_nil _).symm, le_refl _, fun _ s1 _ h => ⟨s1, h, fun h => h⟩⟩

theorem step_trans (k1 k2 : List dmsg_msg) (e e1 e2 : dmsg_engine) (h1 : ab_step k1 e e1)
    (h2 : ab_step k2 e1 e2) : ab_step (k1 ++ k2) e e2 := by
  refine ⟨?_, le_trans h1.brk h2.brk, ?_⟩
  · rw [h2.rcvd, h1.rcvd, List.append_assoc]
  · intro a s2 ha hs2
    obtain ⟨s1, hs1, hab1⟩ := h2.heap a s2 (lt_of_lt_of_le ha h1.brk) hs2
    obtain ⟨s, hs, hab⟩ := h1.heap a s1 ha hs1
    exact ⟨s, hs, fun h => hab1 (hab h)⟩

theorem step_trans0 (e e1 e2 : dmsg_engine) (h1 : ab_step [] e e1) (h2 : ab_step [] e1 e2) :
    ab_step [] e e2 :=
  step_trans [] [] e e1 e2 h1 h2

/-- A step that leaves the heap, the allocation mark and the callback record
alone. -/
theorem step_same (e e1 : dmsg_engine) (hh : e1.heap = e.heap) (hb : e1.brk = e.brk)
    (hr : e1.rcvd = e.rcvd) : ab_step [] e e1 :=
  ⟨by rw [hr, List.append_nil], le_of_eq hb.symm, fun a s1 _ h => ⟨s1, by rw [← hh]; exact h,
    fun h => h⟩⟩

theorem step_check (e : dmsg_engine) (b : Bool) : ab_step [] e (e.check b) :=
  step_same _ _ rfl rfl rfl

/-- An update of a live state that keeps its `ABORTING` flag. -/
theorem step_put (e : dmsg_engine) (p : Nat) (s s1 : dmsg_state) (hs : e.heap p = some s)
    (hab : s1.flags.ABORTING = s.flags.ABORTING) : ab_step [] e (e.put p s1) := by
  refine ⟨(List.append_nil _).symm, le_refl _, ?_⟩
  intro a t _ ht
  by_cases hap : a = p
  · subst hap
    rw [put_heap_same] at ht
    injection ht with ht
    subst ht
    exact ⟨s, hs, fun h => by rw [hab]; exact h⟩
  · rw [put_heap_other _ _ _ _ hap] at ht
    exact ⟨t, ht, fun h => h⟩

/-- The allocation of a state at the allocation mark. -/
theorem step_new (e : dmsg_engine) (s1 : dmsg_state) (n : Int) :
    ab_step [] e
      (({ e with brk := e.brk + 1, dmsg_state_count := n } : dmsg_engine).put e.brk s1) := by
  refine ⟨(List.append_nil _).symm, Nat.le_succ _, ?_⟩
  intro a t ha ht
  have hap : a ≠ e.brk := Nat.ne_of_lt ha
  rw [put_heap_other _ _ _ _ hap] at ht
  exact ⟨t, ht, fun h => h⟩

theorem hold_step (e : dmsg_engine) (p : Nat) (e1 : dmsg_engine)
    (h : dmsg_state_hold e p = some e1) : ab_step [] e e1 := by
  unfold dmsg_state_hold at h
  simp only [Option.bind_eq_bind, Option.bind_eq_some, Option.pure_def, Option.some.injEq] at h
  obtain ⟨s, hs, rfl⟩ := h
  exact step_put e p s _ hs rfl

theorem free_step (e : dmsg_engine) (p : Nat) (e1 : dmsg_engine)
    (h : dmsg_state_free e p = some e1) : ab_step [] e e1 := by
  unfold dmsg_state_free at h
  simp only [Option.bind_eq_bind, Option.bind_eq_some, Option.pure_def, Option.some.injEq] at h
  obtain ⟨s, hs, rfl⟩ := h
  refine ⟨(List.append_nil _).symm, le_refl _, ?_⟩
  intro a t _ ht
  by_cases hap : a = p
  · subst hap
    simp only [dmsg_engine.check, Function.update_same] at ht
    cases ht
  · simp only [dmsg_engine.check, Function.update_noteq hap] at ht
    exact ⟨t, ht, fun h => h⟩

theorem drop_step (e : dmsg_engine) (p : Nat) (e1 : dmsg_engine)
    (h : dmsg_state_drop e p = some e1) : ab_step [] e e1 := by
  unfold dmsg_state_drop at h
  simp only [Option.bind_eq_bind, Option.bind_eq_some, Option.pure_def] at h
  obtain ⟨s, hs, h⟩ := h
  have h1 : ab_step [] e ((e.check (decide (s.refs > 0))).put p { s with refs := s.refs - 1 }) :=
    step_trans0 _ _ _ (step_check e _) (step_put _ p s _ hs rfl)
  split_ifs at h
  · exact step_trans0 _ _ _ h1 (free_step _ _ _ h)
  · injection h with h
    subst h
    exact h1

theorem ite_bind_some {α β : Type} (c : Prop) [Decidable c] (A : Option α) (b : α)
    (k : α → Option β) (r : β)
    (h : (if c then A.bind k else (some b).bind k) = some r) :
    ∃ a, (if c then A else some b) = some a ∧ k a = some r := by
  split_ifs at h ⊢
  · simp only [Option.bind_eq_some] at h
    exact h
  · exact ⟨b, rfl, h⟩

theorem ite_step {c : Prop} [Decidable c] (A : Option dmsg_engine) (b a : dmsg_engine)
    (h : (if c then A else some b) = some a) (hA : A = some a → ab_step [] b a) :
    ab_step [] b a := by
  split_ifs at h
  · exact hA h
  · injection h with h
    subst h
    exact step_refl _

theorem subq_delete_step (e : dmsg_engine) (c : Nat) (e1 : dmsg_engine)
    (h : dmsg_subq_delete e c = some e1) : ab_step [] e e1 := by
  unfold dmsg_subq_delete at h
  simp only [Option.bind_eq_bind, Option.bind_eq_some, Option.pure_def] at h
  obtain ⟨s, hs, h⟩ := h
  by_cases hsub : s.flags.SUBINSERTED = true
  · rw [if_pos hsub] at h
    simp only [Option.bind_eq_some] at h
    obtain ⟨p, -, ps, hps, h⟩ := h
    by_cases hmem : c ∈ (if ps.scan = some c then { ps with scan := none } else ps).subq
    · rw [if_pos hmem] at h
      simp only [Option.bind_eq_some] at h
      obtain ⟨s1, hs1, ps2, -, h⟩ := h
      have ha : ab_step [] e (e.put p
          { (if ps.scan = some c then { ps with scan := none } else ps) with
            subq := (if ps.scan = some c then { ps with scan := none } else ps).subq.erase c }) :=
        step_put e p ps _ hps (by split <;> rfl)
      have hb := step_trans0 _ _ _ ha (step_put _ c s1
        { s1 with flags := { s1.flags with SUBINSERTED := false }, parent := none } hs1 rfl)
      by_cases hemp : ps2.subq.isEmpty = true
      · rw [if_pos hemp] at h
        simp only [Option.bind_eq_some] at h
        obtain ⟨e3, he3, h⟩ := h
        exact step_trans0 _ _ _ hb (step_trans0 _ _ _ (drop_step _ _ _ he3) (drop_step _ _ _ h))
      · rw [if_neg hemp] at h
        simp only [Option.some_bind] at h
        exact step_trans0 _ _ _ hb (drop_step _ _ _ h)
    · rw [if_neg hmem] at h
      cases h
  · rw [if_neg hsub] at h
    injection h with h
    subst h
    exact step_check e _

theorem msg_free_step (e : dmsg_engine) (msg : dmsg_msg) (e1 : dmsg_engine)
    (h : dmsg_msg_free e msg = some e1) : ab_step [] e e1 := by
  unfold dmsg_msg_free dmsg_msg_free_locked at h
  simp only [Option.bind_eq_bind, Option.bind_eq_some] at h
  obtain ⟨st, hst, s, -, h⟩ := h
  rw [hst] at h
  exact drop_step _ _ _ h

theorem alloc_create_step (e : dmsg_engine) (p cmd func : Nat) (data : Bool)
    (r : dmsg_engine × Nat) (h : dmsg_msg_alloc_create e p cmd func data = some r) :
    ab_step [] e r.1 := by
  unfold dmsg_msg_alloc_create at h
  simp only [Option.bind_eq_bind, Option.bind_eq_some, Option.pure_def] at h
  obtain ⟨ps, -, h⟩ := h
  obtain ⟨e3, he3, h⟩ := ite_bind_some _ _ _ _ _ h
  simp only [Option.bind_eq_some] at h
  obtain ⟨ps4, hps4, e6, he6, e7, he7, e8, he8, h⟩ := h
  injection h with h
  subst h
  have h1 := step_new e
    { dmsg_state.zero with
      parent := some p
      flags := { DYNAMIC := true, SUBINSERTED := true, RBINSERTED := true,
                 DYING := ps.flags.DYING }
      msgid := e.brk
      txcmd := cmd &&& not32 (DMSGF_CREATE ||| DMSGF_DELETE)
      rxcmd := DMSGF_REPLY
      icmd := (cmd &&& not32 (DMSGF_CREATE ||| DMSGF_DELETE)) &&& DMSGF_BASECMDMASK
      func := func
      any := data } (e.dmsg_state_count + 1)
  have h2 := ite_step _ _ _ he3 (fun ha => hold_step _ _ _ ha)
  have h3 : ab_step [] e3 { e3 with statewr_tree := RB_INSERT e3.statewr_tree e.brk e.brk } :=
    step_same _ _ rfl rfl rfl
  have h4 := step_put { e3 with statewr_tree := RB_INSERT e3.statewr_tree e.brk e.brk } p ps4
    { ps4 with subq := ps4.subq ++ [e.brk] } hps4 rfl
  exact step_trans0 _ _ _ h1 (step_trans0 _ _ _ h2 (step_trans0 _ _ _ h3
    (step_trans0 _ _ _ h4 (step_trans0 _ _ _ (hold_step _ _ _ he6)
      (step_trans0 _ _ _ (hold_step _ _ _ he7) (hold_step _ _ _ he8))))))

theorem alloc_step (e : dmsg_engine) (state aux_size cmd func : Nat) (data : Bool)
    (r : dmsg_engine × dmsg_msg)
    (h : dmsg_msg_alloc_locked e state aux_size cmd func data = some r) : ab_step [] e r.1 := by
  unfold dmsg_msg_alloc_locked at h
  by_cases hc : cmd &&& (DMSGF_CREATE ||| DMSGF_REPLY) = DMSGF_CREATE
  · simp only [hc, decide_True, if_true, Option.bind_eq_bind, Option.bind_eq_some,
      Option.pure_def] at h
    obtain ⟨a, ha, s0, -, pstate, -, s1, -, ps1, -, h⟩ := h
    injection h with h
    subst h
    exact step_trans0 _ _ _ (alloc_create_step _ _ _ _ _ _ ha) (step_check _ _)
  · simp only [hc, decide_False, Bool.false_eq_true, if_false, Option.bind_eq_bind,
      Option.bind_eq_some, Option.pure_def, Option.map_eq_some'] at h
    obtain ⟨a, ⟨e1, he1, ha⟩, s0, -, pstate, -, s1, -, ps1, -, h⟩ := h
    injection h with h
    subst h ha
    exact step_trans0 _ _ _ (hold_step _ _ _ he1) (step_check _ _)

theorem create_step (e : dmsg_engine) (msg : dmsg_msg) (p : Nat) (l : msgrx_locals)
    (h : dmsg_state_msgrx_create e msg p = some l) : ab_step [] e l.eng := by
  unfold dmsg_state_msgrx_create at h
  simp only [Option.bind_eq_bind, Option.bind_eq_some, Option.pure_def] at h
  obtain ⟨eb, heb, ps, -, h⟩ := h
  obtain ⟨ee, hee, h⟩ := ite_bind_some _ _ _ _ _ h
  simp only [Option.bind_eq_some] at h
  obtain ⟨ps1, hps1, s1, hs1, eh, heh, ei, hei, ej, hej, ps2, -, s2, hs2, h⟩ := h
  injection h with h
  rw [← h]
  have h0 : ab_step [] e
      ({ e with brk := e.brk + 1, dmsg_state_count := e.dmsg_state_count + 1 } : dmsg_engine) :=
    ⟨(List.append_nil _).symm, Nat.le_succ _, fun a t _ ht => ⟨t, ht, fun h => h⟩⟩
  have h1 : ab_step [] e eb := by
    refine ⟨?_, ?_, ?_⟩
    · rw [(hold_step _ _ _ heb).rcvd]
    · exact le_trans (Nat.le_succ _) (hold_step _ _ _ heb).brk
    · intro a t ha ht
      exact (hold_step _ _ _ heb).heap a t (Nat.lt_succ_of_lt ha) ht
  have hb : eb.brk = e.brk + 1 := by
    unfold dmsg_state_hold at heb
    simp only [Option.bind_eq_bind, Option.bind_eq_some, Option.pure_def,
      Option.some.injEq] at heb
    obtain ⟨s, -, rfl⟩ := heb
    rfl
  -- the new state is stored at the old allocation mark
  have h2 : ab_step [] e
      ({ (eb.put e.brk
          { dmsg_state.zero with
            parent := some p
            flags := { DYNAMIC := true, OPPOSITE := true }
            msgid := msg.head.msgid
            txcmd := DMSGF_REPLY
            rxcmd := msg.head.cmd &&& not32 DMSGF_DELETE
            icmd := (msg.head.cmd &&& not32 DMSGF_DELETE) &&& DMSGF_BASECMDMASK }) with
         staterd_tree := RB_INSERT eb.staterd_tree msg.head.msgid e.brk } : dmsg_engine) := by
    refine ⟨h1.rcvd, h1.brk, ?_⟩
    intro a t ha ht
    have hap : a ≠ e.brk := Nat.ne_of_lt ha
    have ht2 : eb.heap a = some t := by
      rw [← ht]
      simp only [dmsg_engine.put, Function.update_noteq hap]
    exact h1.heap a t ha ht2
  have h3 := ite_step _ _ _ hee (fun ha => hold_step _ _ _ ha)
  have h4 := step_put ee p ps1 { ps1 with subq := ps1.subq ++ [e.brk] } hps1 rfl
  have h5 := step_put _ e.brk s1
    { s1 with flags := { s1.flags with SUBINSERTED := true, RBINSERTED := true } } hs1 rfl
  have h6 : ab_step [] ej (if ps2.relay.isSome = true then ej.put e.brk { s2 with func := 1 }
      else ej) := by
    split
    · exact step_put _ _ s2 _ hs2 rfl
    · exact step_refl _
  exact step_trans0 _ _ _ h2 (step_trans0 _ _ _ h3 (step_trans0 _ _ _ h4 (step_trans0 _ _ _ h5
    (step_trans0 _ _ _ (hold_step _ _ _ heh) (step_trans0 _ _ _ (hold_step _ _ _ hei)
      (step_trans0 _ _ _ (hold_step _ _ _ hej) h6))))))

theorem switch_step (e : dmsg_engine) (msg : dmsg_msg) (state : Nat) (pstate : Option Nat)
    (l : msgrx_locals) (h : dmsg_state_msgrx_switch e msg state pstate = some l) :
    ab_step [] e l.eng := by
  unfold dmsg_state_msgrx_switch at h
  simp only [] at h
  split_ifs at h
  all_goals first
    | exact create_step _ _ _ _ h
    | (injection h with h; rw [← h]; first | exact step_refl _ | exact step_check _ _)
    | (simp only [Option.bind_eq_some] at h
       obtain ⟨st, hst, h⟩ := h
       first
         | (injection h with h; rw [← h]
            exact step_trans0 _ _ _ (step_check _ _) (step_put _ _ st _ hst rfl))
         | (split_ifs at h <;>
             (injection h with h; rw [← h]; first | exact step_refl _ | exact step_check _ _)))

theorem remove_step (e : dmsg_engine) (cmd state : Nat) (st : dmsg_state) (e1 : dmsg_engine)
    (hst : e.heap state = some st)
    (h : dmsg_state_msgrx_remove e cmd state st = some e1) : ab_step [] e e1 := by
  unfold dmsg_state_msgrx_remove at h
  simp only [Option.bind_eq_bind, Option.bind_eq_some] at h
  obtain ⟨e7, he7, h⟩ := h
  have h7 : e7.heap = e.heap ∧ e7.brk = e.brk ∧ e7.rcvd = e.rcvd := by
    by_cases hR : st.rxcmd &&& DMSGF_REPLY ≠ 0
    · rw [if_pos hR] at he7
      simp only [Option.map_eq_some'] at he7
      obtain ⟨t, -, rfl⟩ := he7
      exact ⟨rfl, rfl, rfl⟩
    · rw [if_neg hR] at he7
      simp only [Option.map_eq_some'] at he7
      obtain ⟨t, -, rfl⟩ := he7
      exact ⟨rfl, rfl, rfl⟩
  exact step_trans0 _ _ _ (step_same e e7 h7.1 h7.2.1 h7.2.2)
    (step_trans0 _ _ _ (step_put e7 state st
      { st with flags := { st.flags with RBINSERTED := false } }
      (by rw [h7.1]; exact hst) rfl) (drop_step _ _ _ h))

theorem adjust_step (l : msgrx_locals) (r : msgrx_result)
    (h : dmsg_state_msgrx_adjust l = some r) : ab_step [] l.eng r.eng := by
  unfold dmsg_state_msgrx_adjust at h
  simp only [Option.bind_eq_bind, Option.bind_eq_some, Option.pure_def] at h
  obtain ⟨mst2, -, ms2, -, st2, hst2, h⟩ := h
  split_ifs at h
  · injection h with h
    rw [← h]
    exact step_check _ _
  · simp only [Option.map_eq_some'] at h
    obtain ⟨e9, he9, h⟩ := h
    rw [← h]
    have h1 : ab_step [] l.eng
        (((l.eng.check (decide (mst2 = l.state))).check
          (decide (st2.rxcmd &&& DMSGF_DELETE = 0))).put l.state
          { st2 with rxcmd := st2.rxcmd ||| DMSGF_DELETE }) :=
      step_trans0 _ _ _ (step_check _ _) (step_trans0 _ _ _ (step_check _ _)
        (step_put _ _ st2 _ hst2 rfl))
    exact step_trans0 _ _ _ h1 (remove_step _ _ _ _ _ (put_heap_same _ _ _) he9)
  · injection h with h
    rw [← h]
    exact step_trans0 _ _ _ (step_check _ _) (step_trans0 _ _ _ (step_check _ _)
      (step_put _ _ st2 _ hst2 rfl))
  · injection h with h
    rw [← h]
    exact step_check _ _

theorem assign_step (e : dmsg_engine) (msg : dmsg_msg) (mstate : Bool) (mst : Nat)
    (pstate found : Option Nat) (a : dmsg_engine × dmsg_msg × Option Nat)
    (h : dmsg_state_msgrx_assign e msg mstate mst pstate found = some a) :
    ab_step [] e a.1 := by
  unfold dmsg_state_msgrx_assign at h
  split_ifs at h
  · injection h with h
    rw [← h]
    exact step_refl _
  · cases found with
    | none =>
      injection h with h
      rw [← h]
      exact step_refl _
    | some st =>
      simp only [Option.bind_eq_bind, Option.bind_eq_some, Option.pure_def] at h
      obtain ⟨e1, he1, e2, he2, sst, -, h⟩ := h
      injection h with h
      rw [← h]
      exact step_trans0 _ _ _ (drop_step _ _ _ he1)
        (step_trans0 _ _ _ (hold_step _ _ _ he2) (step_check _ _))

theorem msgrx_step (e : dmsg_engine) (msg : dmsg_msg) (mstate : Bool) (r : msgrx_result)
    (h : dmsg_state_msgrx e msg mstate = some r) : ab_step [] e r.eng := by
  unfold dmsg_state_msgrx at h
  simp only [Option.bind_eq_bind, Option.bind_eq_some] at h
  obtain ⟨mst, -, ms, -, h⟩ := h
  split at h
  · injection h with h
    rw [← h]
    exact step_refl _
  · simp only [Option.bind_eq_some] at h
    obtain ⟨a, ha, state, -, l, hl, h⟩ := h
    exact step_trans0 _ _ _ (assign_step _ _ _ _ _ _ a ha)
      (step_trans0 _ _ _ (switch_step _ _ _ _ l hl) (adjust_step l r h))

theorem cleanuprx_step (e : dmsg_engine) (msg : dmsg_msg) (e1 : dmsg_engine)
    (h : dmsg_state_cleanuprx e msg = some e1) : ab_step [] e e1 := by
  unfold dmsg_state_cleanuprx at h
  simp only [Option.bind_eq_bind, Option.bind_eq_some] at h
  obtain ⟨state, -, st, -, h⟩ := h
  split_ifs at h
  · exact msg_free_step _ _ _ h
  · simp only [Option.bind_eq_some] at h
    obtain ⟨ea, hea, st1, hst1, e2, he2, h⟩ := h
    have h2 : ab_step [] ea e2 := by
      cases hrel : st1.relay with
      | none =>
        rw [hrel] at he2
        injection he2 with he2
        subst he2
        exact step_refl _
      | some r =>
        rw [hrel] at he2
        simp only [Option.bind_eq_bind, Option.bind_eq_some, Option.pure_def] at he2
        obtain ⟨eb, heb, st2, hst2, he2⟩ := he2
        injection he2 with he2
        subst he2
        exact step_trans0 _ _ _ (drop_step _ _ _ heb) (step_put _ _ st2 _ hst2 rfl)
    exact step_trans0 _ _ _ (subq_delete_step _ _ _ hea)
      (step_trans0 _ _ _ h2 (msg_free_step _ _ _ h))
  · exact msg_free_step _ _ _ h

theorem foldlM_step (f : dmsg_engine → Nat → Option dmsg_engine)
    (hf : ∀ a x b, f a x = some b → ab_step [] a b) :
    ∀ (l : List Nat) (e e1 : dmsg_engine), l.foldlM f e = some e1 → ab_step [] e e1 := by
  intro l
  induction l with
  | nil =>
    intro e e1 h
    injection h with h
    subst h
    exact step_refl _
  | cons x l ih =>
    intro e e1 h
    rw [List.foldlM_cons] at h
    cases hfa : f e x with
    | none =>
      rw [hfa] at h
      exact absurd h (by simp)
    | some b =>
      rw [hfa] at h
      exact step_trans0 _ _ _ (hf e x b hfa) (ih b e1 h)

theorem dying_step : ∀ (fuel : Nat) (e : dmsg_engine) (x : Nat) (e1 : dmsg_engine),
    dmsg_state_dying fuel e x = some e1 → ab_step [] e e1 := by
  intro fuel
  induction fuel with
  | zero =>
    intro e x e1 h
    simp [dmsg_state_dying] at h
  | succ n ih =>
    intro e x e1 h
    unfold dmsg_state_dying at h
    simp only [Option.bind_eq_bind, Option.bind_eq_some, Option.pure_def] at h
    obtain ⟨s, hs, h⟩ := h
    split_ifs at h
    · exact step_trans0 _ _ _
        (step_put e x s { s with flags := { s.flags with DYING := true } } hs rfl)
        (foldlM_step _ (fun a y b hb => ih a y b hb) _ _ _ h)
    · injection h with h
      subst h
      exact step_refl _

/-- The block of `dmsg_state_abort` that delivers the synthesized message: the
callback receives exactly one message. -/
theorem abort_msg_step (e : dmsg_engine) (x : Nat) (e1 : dmsg_engine)
    (h : dmsg_state_abort_msg e x = some e1) : ∃ m, ab_step [m] e e1 := by
  unfold dmsg_state_abort_msg at h
  simp only [Option.bind_eq_bind, Option.bind_eq_some] at h
  obtain ⟨am, ham, s3, -, r, hr, h⟩ := h
  have h1 := step_trans0 _ _ _ (alloc_step _ _ _ _ _ _ am ham) (msgrx_step _ _ _ r hr)
  have h2 : ab_step [r.msg] r.eng { r.eng with rcvd := r.eng.rcvd ++ [r.msg] } :=
    ⟨rfl, le_refl _, fun a t _ ht => ⟨t, ht, fun h => h⟩⟩
  have h3 := step_trans _ _ _ _ _ (step_trans _ _ _ _ _ h1 h2) (cleanuprx_step _ _ _ h)
  exact ⟨r.msg, by simpa using h3⟩

/-- The function `dmsg_state_abort` delivers at most one message, and a state
that is still allocated afterwards has `ABORTING` set. -/
theorem abort_step (fuel : Nat) (e : dmsg_engine) (x : Nat) (e1 : dmsg_engine)
    (hx : x < e.brk) (h : dmsg_state_abort fuel e x = some e1) :
    (∃ k, k.length ≤ 1 ∧ e1.rcvd = e.rcvd ++ k) ∧
    ∀ s1, e1.heap x = some s1 → s1.flags.ABORTING = true := by
  unfold dmsg_state_abort at h
  simp only [Option.bind_eq_bind, Option.bind_eq_some, Option.pure_def] at h
  obtain ⟨s, hs, h⟩ := h
  split_ifs at h with hab
  · injection h with h
    subst h
    refine ⟨⟨[], by decide, (List.append_nil _).symm⟩, ?_⟩
    intro s1 hs1
    rw [hs] at hs1
    injection hs1 with hs1
    subst hs1
    exact hab
  · simp only [Option.bind_eq_some] at h
    obtain ⟨e2, he2, s2, -, h⟩ := h
    have h1 : ab_step [] (e.put x { s with flags := { s.flags with ABORTING := true } }) e2 :=
      dying_step _ _ _ _ he2
    have hfin : ∀ k (e3 : dmsg_engine), ab_step k e2 e3 →
        ∀ s1, e3.heap x = some s1 → s1.flags.ABORTING = true := by
      intro k e3 h3 s1 hs1
      obtain ⟨t2, ht2, hab2⟩ := h3.heap x s1 (lt_of_lt_of_le hx h1.brk) hs1
      obtain ⟨t1, ht1, hab1⟩ := h1.heap x t2 hx ht2
      rw [put_heap_same] at ht1
      injection ht1 with ht1
      subst ht1
      exact hab2 (hab1 rfl)
    have hr2 : e2.rcvd = e.rcvd := by
      rw [h1.rcvd, List.append_nil]
      rfl
    split_ifs at h
    · injection h with h
      subst h
      exact ⟨⟨[], by decide, by rw [hr2, List.append_nil]⟩, hfin [] _ (step_refl _)⟩
    · obtain ⟨m, hm⟩ := abort_msg_step _ _ _ h
      exact ⟨⟨[m], le_refl _, by rw [hm.rcvd, hr2]⟩, hfin [m] _ hm⟩
    · injection h with h
      subst h
      exact ⟨⟨[], by decide, by rw [hr2, List.append_nil]⟩, hfin [] _ (step_refl _)⟩

/-- C20. `dmsg_state_abort` is idempotent.  For a state `x` below the
allocation mark (an address that `malloc` has handed out), a first call of
`dmsg_state_abort` that returns, and a caller that holds a reference, so that
`x` is still allocated after the first call: every further call returns the
engine unchanged, so `N >= 1` calls in a row leave the same engine (the same
flags, `rxcmd`, `txcmd`, trees and queues of every state, and the same
messages delivered to the callback) as one call; and the first call delivers
at most one message to the callback. -/
theorem abort_idempotent (fuel : Nat) (e : dmsg_engine) (x : Nat) (e1 : dmsg_engine)
    (hx : x < e.brk) (h : dmsg_state_abort fuel e x = some e1)
    (halive : (e1.heap x).isSome = true) :
    (∀ fuel2, dmsg_state_abort fuel2 e1 x = some e1) ∧
    (∀ N, 1 ≤ N → abort_times fuel N e x = abort_times fuel 1 e x) ∧
    abort_times fuel 1 e x = some e1 ∧
    (∃ k, k.length ≤ 1 ∧ e1.rcvd = e.rcvd ++ k) := by
  obtain ⟨hk, hab⟩ := abort_step fuel e x e1 hx h
  have hagain : ∀ fuel2, dmsg_state_abort fuel2 e1 x = some e1 := by
    intro fuel2
    cases hs : e1.heap x with
    | none =>
      rw [hs] at halive
      cases halive
    | some s1 =>
      unfold dmsg_state_abort
      simp only [hs, Option.bind_eq_bind, Option.some_bind, hab s1 hs, if_true, Option.pure_def]
  have hmany : ∀ n, abort_times fuel n e1 x = some e1 := by
    intro n
    induction n with
    | zero => rfl
    | succ n ih =>
      unfold abort_times
      rw [hagain fuel, Option.some_bind]
      exact ih
  have hone : abort_times fuel 1 e x = some e1 := by
    unfold abort_times
    rw [h, Option.some_bind]
    rfl
  refine ⟨hagain, ?_, hone, hk⟩
  intro N hN
  rw [hone]
  obtain ⟨n, rfl⟩ : ∃ n, N = n + 1 := ⟨N - 1, by omega⟩
  unfold abort_times
  rw [h, Option.some_bind]
  exact hmany n

/-- C20 (witness). On the engine `ex_rx_eng` the open transaction at address 5
is aborted: the first call delivers the synthesized `DELETE`, and four calls
in a row leave the same engine as one call. -/
theorem abort_idempotent_witness :
    ∃ e1, dmsg_state_abort 3 ex_rx_eng 5 = some e1 ∧
      abort_times 3 4 ex_rx_eng 5 = abort_times 3 1 ex_rx_eng 5 ∧
      abort_times 3 1 ex_rx_eng 5 = some e1 ∧ e1.rcvd.length = 1 := by
  cases h : dmsg_state_abort 3 ex_rx_eng 5 with
  | none =>
    have h2 : (dmsg_state_abort 3 ex_rx_eng 5).isSome = true := by decide!
    rw [h] at h2
    cases h2
  | some e1 =>
    have h3 : ((dmsg_state_abort 3 ex_rx_eng 5).bind fun e => e.heap 5).isSome = true := by
      decide!
    have h4 : ((dmsg_state_abort 3 ex_rx_eng 5).map fun e => e.rcvd.length) = some 1 := by
      decide!
    rw [h] at h3 h4
    obtain ⟨-, a2, a3, -⟩ := abort_idempotent 3 ex_rx_eng 5 e1 (by decide) h h3
    exact ⟨e1, rfl, a2 4 (by decide), a3, Option.some.inj h4⟩
theorem inv_mono (e : dmsg_engine) (L L1 : List Nat) (h : eng_inv e L)
    (hc : ∀ a, L1.count a ≤ L.count a) : eng_inv e L1 := by
  obtain ⟨h, hf⟩ := h
  refine ⟨⟨h.fresh, h.root, ?_, h.par, h.relay, h.rd, h.wr, ?_, h.wrkey⟩, hf⟩
  · intro a s hs
    have h1 := h.refs a s hs
    have h2 := hc a
    omega
  · intro a ha
    apply h.cred
    have h1 := List.count_pos_iff.mpr ha
    have h2 := hc a
    exact List.count_pos_iff.mp (by omega)

theorem inv_perm (e : dmsg_engine) (L L1 : List Nat) (h : eng_inv e L) (hp : L1.Perm L) :
    eng_inv e L1 :=
  inv_mono e L L1 h (fun a => le_of_eq (hp.count_eq a))

theorem inv_live (e : dmsg_engine) (L : List Nat) (a : Nat) (s : dmsg_state) (h : eng_inv e L)
    (hs : e.heap a = some s) : a < e.brk := by
  by_contra hlt
  rw [h.1.fresh a (by omega)] at hs
  cases hs

/-- An update of an allocated state that is `soft`, under new outside
references. -/
theorem inv_put (e : dmsg_engine) (L L1 : List Nat) (a : Nat) (s s1 : dmsg_state)
    (h : eng_inv e L) (hs : e.heap a = some s) (hsoft : soft s s1)
    (hpar : s1.flags.SUBINSERTED = true → s1.parent ≠ some a)
    (hrefs : ((state_reasons s1 + L1.count a : Nat) : Int) ≤ s1.refs)
    (hL : ∀ b, b ≠ a → L1.count b ≤ L.count b) : eng_inv (e.put a s1) L1 := by
  have hlive := inv_live e L a s h hs
  obtain ⟨h, hf⟩ := h
  refine ⟨⟨?_, ?_, ?_, ?_, ?_, ?_, ?_, ?_, h.wrkey⟩, hf⟩
  · intro b hb
    have hb1 : e.brk ≤ b := hb
    have hne : b ≠ a := by omega
    show Function.update e.heap a (some s1) b = none
    rw [Function.update_noteq hne]
    exact h.fresh b hb
  · obtain ⟨s0, hs0, hr⟩ := h.root
    by_cases h0 : (0 : Nat) = a
    · subst h0
      refine ⟨s1, by simp [dmsg_engine.put], ?_⟩
      rw [hsoft.root]
      rw [hs0] at hs
      injection hs with hs
      rw [← hs]
      exact hr
    · exact ⟨s0, by simp [dmsg_engine.put, Function.update_noteq h0, hs0], hr⟩
  · intro b t ht
    by_cases hb : b = a
    · subst hb
      simp only [dmsg_engine.put, Function.update_same, Option.some.injEq] at ht
      subst ht
      exact hrefs
    · simp only [dmsg_engine.put, Function.update_noteq hb] at ht
      have h1 := h.refs b t ht
      have h2 := hL b hb
      omega
  · intro b t ht
    by_cases hb : b = a
    · subst hb
      simp only [dmsg_engine.put, Function.update_same, Option.some.injEq] at ht
      subst ht
      exact hpar
    · simp only [dmsg_engine.put, Function.update_noteq hb] at ht
      exact h.par b t ht
  · intro b t ht
    by_cases hb : b = a
    · subst hb
      simp only [dmsg_engine.put, Function.update_same, Option.some.injEq] at ht
      subst ht
      rw [hsoft.relay]
      exact h.relay b s hs
    · simp only [dmsg_engine.put, Function.update_noteq hb] at ht
      exact h.relay b t ht
  · intro m b hm
    obtain ⟨t, ht, h1, h2, h3⟩ := h.rd m b hm
    by_cases hb : b = a
    · subst hb
      rw [hs] at ht
      injection ht with ht
      subst ht
      exact ⟨s1, by simp [dmsg_engine.put], by rw [hsoft.rb]; exact h1,
        by rw [hsoft.msgid]; exact h2, by rw [hsoft.opp]; exact h3⟩
    · exact ⟨t, by simp [dmsg_engine.put, Function.update_noteq hb, ht], h1, h2, h3⟩
  · intro m b hm
    obtain ⟨t, ht, h1, h2, h3⟩ := h.wr m b hm
    by_cases hb : b = a
    · subst hb
      rw [hs] at ht
      injection ht with ht
      subst ht
      exact ⟨s1, by simp [dmsg_engine.put], by rw [hsoft.rb]; exact h1,
        by rw [hsoft.msgid]; exact h2, by rw [hsoft.opp]; exact h3⟩
    · exact ⟨t, by simp [dmsg_engine.put, Function.update_noteq hb, ht], h1, h2, h3⟩
  · intro b hb
    by_cases hba : b = a
    · subst hba
      exact hlive
    · apply h.cred
      have h1 := List.count_pos_iff.mpr hb
      have h2 := hL b hba
      exact List.count_pos_iff.mp (by omega)

theorem inv_check (e : dmsg_engine) (L : List Nat) (b : Bool) (h : eng_inv e L) :
    eng_inv (e.check b) L := h

theorem hold_inv (e : dmsg_engine) (L : List Nat) (a : Nat) (e1 : dmsg_engine)
    (h : eng_inv e L) (hh : dmsg_state_hold e a = some e1) : eng_inv e1 (a :: L) := by
  unfold dmsg_state_hold at hh
  simp only [Option.bind_eq_bind, Option.bind_eq_some, Option.pure_def, Option.some.injEq] at hh
  obtain ⟨s, hs, rfl⟩ := hh
  refine inv_put e L (a :: L) a s _ h hs ⟨rfl, rfl, rfl, rfl, rfl⟩ (h.1.par a s hs) ?_ ?_
  · have h1 := h.1.refs a s hs
    simp only [state_reasons, List.count_cons_self] at h1 ⊢
    omega
  · intro b hb
    rw [List.count_cons_of_ne hb]

theorem drop_inv (e : dmsg_engine) (L : List Nat) (a : Nat) (e1 : dmsg_engine)
    (h : eng_inv e (a :: L)) (hd : dmsg_state_drop e a = some e1) : eng_inv e1 L := by
  unfold dmsg_state_drop at hd
  simp only [Option.bind_eq_bind, Option.bind_eq_some, Option.pure_def] at hd
  obtain ⟨s, hs, hd⟩ := hd
  have hr := h.1.refs a s hs
  simp only [List.count_cons_self] at hr
  have hput : eng_inv ((e.check (decide (s.refs > 0))).put a { s with refs := s.refs - 1 }) L := by
    refine inv_put (e.check _) (a :: L) L a s _ h hs ⟨rfl, rfl, rfl, rfl, rfl⟩
      (h.1.par a s hs) ?_ ?_
    · simp only [state_reasons] at hr ⊢
      omega
    · intro b hb
      rw [List.count_cons_of_ne hb]
  by_cases h1 : s.refs = 1
  · rw [if_pos h1] at hd
    unfold dmsg_state_free at hd
    simp only [Option.bind_eq_bind, Option.bind_eq_some, Option.pure_def, Option.some.injEq] at hd
    obtain ⟨t, ht, rfl⟩ := hd
    simp only [dmsg_engine.put, dmsg_engine.check, Function.update_same,
      Option.some.injEq] at ht
    subst ht
    have hz : state_reasons s = 0 ∧ L.count a = 0 := by omega
    obtain ⟨hz, hca⟩ := hz
    simp only [state_reasons, Nat.add_eq_zero_iff, Bool.toNat_eq_zero, Bool.not_eq_false'] at hz
    obtain ⟨⟨⟨hroot, hsub⟩, hrb⟩, hq⟩ := hz
    obtain ⟨hp, hf⟩ := h
    show ref_inv (Function.update (Function.update e.heap a (some _)) a none) e.staterd_tree
      e.statewr_tree e.brk L ∧ _
    rw [Function.update_idem]
    refine ⟨⟨?_, ?_, ?_, ?_, ?_, ?_, ?_, ?_, hp.wrkey⟩, ?_⟩
    · intro b hb
      by_cases hba : b = a
      · subst hba
        simp
      · rw [Function.update_noteq hba]
        exact hp.fresh b hb
    · obtain ⟨s0, hs0, hr0⟩ := hp.root
      have h0 : (0 : Nat) ≠ a := by
        intro h0
        subst h0
        rw [hs0] at hs
        injection hs with hs
        subst hs
        rw [hr0] at hroot
        cases hroot
      exact ⟨s0, by simp [Function.update_noteq h0, hs0], hr0⟩
    · intro b t hb
      by_cases hba : b = a
      · subst hba
        simp at hb
      · rw [Function.update_noteq hba] at hb
        have := hp.refs b t hb
        rw [List.count_cons_of_ne hba] at this
        exact this
    · intro b t hb
      by_cases hba : b = a
      · subst hba
        simp at hb
      · rw [Function.update_noteq hba] at hb
        exact hp.par b t hb
    · intro b t hb
      by_cases hba : b = a
      · subst hba
        simp at hb
      · rw [Function.update_noteq hba] at hb
        exact hp.relay b t hb
    · intro m b hm
      obtain ⟨t, ht, h1, h2, h3⟩ := hp.rd m b hm
      have hba : b ≠ a := by
        intro hba
        subst hba
        rw [hs] at ht
        injection ht with ht
        subst ht
        rw [h1] at hrb
        cases hrb
      exact ⟨t, by simp [Function.update_noteq hba, ht], h1, h2, h3⟩
    · intro m b hm
      obtain ⟨t, ht, h1, h2, h3⟩ := hp.wr m b hm
      have hba : b ≠ a := by
        intro hba
        subst hba
        rw [hs] at ht
        injection ht with ht
        subst ht
        rw [h1] at hrb
        cases hrb
      exact ⟨t, by simp [Function.update_noteq hba, ht], h1, h2, h3⟩
    · intro b hb
      exact hp.cred b (List.mem_cons_of_mem _ hb)
    · have hff : e.free_failed = false := hf
      show (e.free_failed || !(!(s.flags.ROOT || s.flags.SUBINSERTED || s.flags.RBINSERTED) &&
        s.subq.isEmpty && decide (s.refs - 1 = 0))) = false
      simp [hff, hroot, hsub, hrb, hq, h1]
  · rw [if_neg h1] at hd
    injection hd with hd
    subst hd
    exact hput
theorem rb_remove_some (tree : Nat → Option Nat) (m a : Nat) (t : Nat → Option Nat)
    (h : RB_REMOVE tree m a = some t) : tree m = some a ∧ t = Function.update tree m none := by
  unfold RB_REMOVE at h
  split_ifs at h with hc
  injection h with h
  exact ⟨hc, h.symm⟩

/-- The removal of a state from `statewr_tree` with the clearing of its flag
frees one reference. -/
theorem inv_remove_wr (e : dmsg_engine) (L : List Nat) (a : Nat) (s : dmsg_state)
    (t : Nat → Option Nat) (h : eng_inv e L) (hs : e.heap a = some s)
    (ht : RB_REMOVE e.statewr_tree s.msgid a = some t) :
    eng_inv (({ e with statewr_tree := t } : dmsg_engine).put a
      { s with flags := { s.flags with RBINSERTED := false } }) (a :: L) := by
  obtain ⟨hin, rfl⟩ := rb_remove_some _ _ _ _ ht
  have hlive := inv_live e L a s h hs
  obtain ⟨h, hf⟩ := h
  obtain ⟨s', hs', hrb, -, hopp⟩ := h.wr _ _ hin
  rw [hs] at hs'
  injection hs' with hs'
  subst hs'
  refine ⟨⟨?_, ?_, ?_, ?_, ?_, ?_, ?_, ?_, ?_⟩, hf⟩
  rotate_right
  · intro m b hm
    have hm1 : Function.update e.statewr_tree s.msgid none m = some b := hm
    have hmne : m ≠ s.msgid := by
      intro hmm
      subst hmm
      simp at hm1
    rw [Function.update_noteq hmne] at hm1
    exact h.wrkey m b hm1
  · intro b hb
    have hb1 : e.brk ≤ b := hb
    have hne : b ≠ a := by omega
    show Function.update e.heap a (some _) b = none
    rw [Function.update_noteq hne]
    exact h.fresh b hb
  · obtain ⟨s0, hs0, hr⟩ := h.root
    by_cases h0 : (0 : Nat) = a
    · subst h0
      rw [hs0] at hs
      injection hs with hs
      subst hs
      exact ⟨{ s0 with flags := { s0.flags with RBINSERTED := false } },
        by simp [dmsg_engine.put], hr⟩
    · exact ⟨s0, by simp [dmsg_engine.put, Function.update_noteq h0, hs0], hr⟩
  · intro b u hu
    by_cases hb : b = a
    · subst hb
      simp only [dmsg_engine.put, Function.update_same, Option.some.injEq] at hu
      subst hu
      have h1 := h.refs b s hs
      simp only [state_reasons, List.count_cons_self, hrb, Bool.toNat_true, Bool.toNat_false]
        at h1 ⊢
      omega
    · simp only [dmsg_engine.put, Function.update_noteq hb] at hu
      have h1 := h.refs b u hu
      rw [List.count_cons_of_ne hb]
      exact h1
  · intro b u hu
    by_cases hb : b = a
    · subst hb
      simp only [dmsg_engine.put, Function.update_same, Option.some.injEq] at hu
      subst hu
      exact h.par b s hs
    · simp only [dmsg_engine.put, Function.update_noteq hb] at hu
      exact h.par b u hu
  · intro b u hu
    by_cases hb : b = a
    · subst hb
      simp only [dmsg_engine.put, Function.update_same, Option.some.injEq] at hu
      subst hu
      exact h.relay b s hs
    · simp only [dmsg_engine.put, Function.update_noteq hb] at hu
      exact h.relay b u hu
  · intro m b hm
    obtain ⟨u, hu, h1, h2, h3⟩ := h.rd m b hm
    have hb : b ≠ a := by
      intro hb
      subst hb
      rw [hs] at hu
      injection hu with hu
      subst hu
      rw [hopp] at h3
      cases h3
    exact ⟨u, by simp [dmsg_engine.put, Function.update_noteq hb, hu], h1, h2, h3⟩
  · intro m b hm
    have hm1 : Function.update e.statewr_tree s.msgid none m = some b := hm
    have hmne : m ≠ s.msgid := by
      intro hmm
      subst hmm
      simp at hm1
    rw [Function.update_noteq hmne] at hm1
    obtain ⟨u, hu, h1, h2, h3⟩ := h.wr m b hm1
    have hb : b ≠ a := by
      intro hb
      subst hb
      rw [hs] at hu
      injection hu with hu
      subst hu
      exact hmne h2.symm
    exact ⟨u, by simp [dmsg_engine.put, Function.update_noteq hb, hu], h1, h2, h3⟩
  · intro b hb
    rcases List.mem_cons.mp hb with hb | hb
    · subst hb
      exact hlive
    · exact h.cred b hb

/-- The removal of a state from `staterd_tree` with the clearing of its flag
frees one reference. -/
theorem inv_remove_rd (e : dmsg_engine) (L : List Nat) (a : Nat) (s : dmsg_state)
    (t : Nat → Option Nat) (h : eng_inv e L) (hs : e.heap a = some s)
    (ht : RB_REMOVE e.staterd_tree s.msgid a = some t) :
    eng_inv (({ e with staterd_tree := t } : dmsg_engine).put a
      { s with flags := { s.flags with RBINSERTED := false } }) (a :: L) := by
  obtain ⟨hin, rfl⟩ := rb_remove_some _ _ _ _ ht
  have hlive := inv_live e L a s h hs
  obtain ⟨h, hf⟩ := h
  obtain ⟨s', hs', hrb, -, hopp⟩ := h.rd _ _ hin
  rw [hs] at hs'
  injection hs' with hs'
  subst hs'
  refine ⟨⟨?_, ?_, ?_, ?_, ?_, ?_, ?_, ?_, h.wrkey⟩, hf⟩
  · intro b hb
    have hb1 : e.brk ≤ b := hb
    have hne : b ≠ a := by omega
    show Function.update e.heap a (some _) b = none
    rw [Function.update_noteq hne]
    exact h.fresh b hb
  · obtain ⟨s0, hs0, hr⟩ := h.root
    by_cases h0 : (0 : Nat) = a
    · subst h0
      rw [hs0] at hs
      injection hs with hs
      subst hs
      exact ⟨{ s0 with flags := { s0.flags with RBINSERTED := false } },
        by simp [dmsg_engine.put], hr⟩
    · exact ⟨s0, by simp [dmsg_engine.put, Function.update_noteq h0, hs0], hr⟩
  · intro b u hu
    by_cases hb : b = a
    · subst hb
      simp only [dmsg_engine.put, Function.update_same, Option.some.injEq] at hu
      subst hu
      have h1 := h.refs b s hs
      simp only [state_reasons, List.count_cons_self, hrb, Bool.toNat_true, Bool.toNat_false]
        at h1 ⊢
      omega
    · simp only [dmsg_engine.put, Function.update_noteq hb] at hu
      have h1 := h.refs b u hu
      rw [List.count_cons_of_ne hb]
      exact h1
  · intro b u hu
    by_cases hb : b = a
    · subst hb
      simp only [dmsg_engine.put, Function.update_same, Option.some.injEq] at hu
      subst hu
      exact h.par b s hs
    · simp only [dmsg_engine.put, Function.update_noteq hb] at hu
      exact h.par b u hu
  · intro b u hu
    by_cases hb : b = a
    · subst hb
      simp only [dmsg_engine.put, Function.update_same, Option.some.injEq] at hu
      subst hu
      exact h.relay b s hs
    · simp only [dmsg_engine.put, Function.update_noteq hb] at hu
      exact h.relay b u hu
  · intro m b hm
    have hm1 : Function.update e.staterd_tree s.msgid none m = some b := hm
    have hmne : m ≠ s.msgid := by
      intro hmm
      subst hmm
      simp at hm1
    rw [Function.update_noteq hmne] at hm1
    obtain ⟨u, hu, h1, h2, h3⟩ := h.rd m b hm1
    have hb : b ≠ a := by
      intro hb
      subst hb
      rw [hs] at hu
      injection hu with hu
      subst hu
      exact hmne h2.symm
    exact ⟨u, by simp [dmsg_engine.put, Function.update_noteq hb, hu], h1, h2, h3⟩
  · intro m b hm
    obtain ⟨u, hu, h1, h2, h3⟩ := h.wr m b hm
    have hb : b ≠ a := by
      intro hb
      subst hb
      rw [hs] at hu
      injection hu with hu
      subst hu
      rw [hopp] at h3
      cases h3
    exact ⟨u, by simp [dmsg_engine.put, Function.update_noteq hb, hu], h1, h2, h3⟩
  · intro b hb
    rcases List.mem_cons.mp hb with hb | hb
    · subst hb
      exact hlive
    · exact h.cred b hb

theorem ite_inv {c : Prop} [Decidable c] (A : Option dmsg_engine) (b a : dmsg_engine)
    (L1 : List Nat) (h : (if c then A else some b) = some a)
    (hA : c → A = some a → eng_inv a L1) (hb : ¬c → eng_inv b L1) : eng_inv a L1 := by
  split_ifs at h with hc
  · exact hA hc h
  · injection h with h
    subst h
    exact hb hc

theorem subq_delete_inv (e : dmsg_engine) (L : List Nat) (c : Nat) (e1 : dmsg_engine)
    (hI : eng_inv e L) (h : dmsg_subq_delete e c = some e1) : eng_inv e1 L := by
  unfold dmsg_subq_delete at h
  simp only [Option.bind_eq_bind, Option.bind_eq_some, Option.pure_def] at h
  obtain ⟨s, hs, h⟩ := h
  by_cases hsub : s.flags.SUBINSERTED = true
  · rw [if_pos hsub] at h
    simp only [Option.bind_eq_some] at h
    obtain ⟨p, hp, ps, hps, h⟩ := h
    have hpc : p ≠ c := by
      intro hpc
      subst hpc
      exact hI.1.par p s hs hsub hp
    by_cases hmem : c ∈ (if ps.scan = some c then { ps with scan := none } else ps).subq
    · rw [if_pos hmem] at h
      simp only [Option.bind_eq_some] at h
      obtain ⟨s1, hs1, ps2, hps2, h⟩ := h
      have hmem1 : c ∈ ps.subq := by
        split_ifs at hmem <;> exact hmem
      have hq : (if ps.scan = some c then { ps with scan := none } else ps).subq = ps.subq := by
        split_ifs <;> rfl
      have hne : ps.subq.isEmpty = false := by
        cases hq1 : ps.subq with
        | nil => rw [hq1] at hmem1; cases hmem1
        | cons x xs => rfl
      -- the parent without the state: one reference is free when the queue is empty
      have ha : eng_inv (e.put p
          { (if ps.scan = some c then { ps with scan := none } else ps) with
            subq := (if ps.scan = some c then { ps with scan := none } else ps).subq.erase c })
          (if (ps.subq.erase c).isEmpty then p :: L else L) := by
        refine inv_put e L _ p ps _ hI hps ⟨?_, ?_, ?_, ?_, ?_⟩ ?_ ?_ ?_
        · split_ifs <;> rfl
        · split_ifs <;> rfl
        · split_ifs <;> rfl
        · split_ifs <;> rfl
        · split_ifs <;> rfl
        · have := hI.1.par p ps hps
          split_ifs <;> exact this
        · have h1 := hI.1.refs p ps hps
          rw [hq]
          have hr : state_reasons ({ (if ps.scan = some c then { ps with scan := none } else ps)
              with subq := ps.subq.erase c }) =
              ps.flags.ROOT.toNat + ps.flags.SUBINSERTED.toNat + ps.flags.RBINSERTED.toNat +
                (!(ps.subq.erase c).isEmpty).toNat := by
            split_ifs <;> rfl
          have hrf : ({ (if ps.scan = some c then { ps with scan := none } else ps)
              with subq := ps.subq.erase c } : dmsg_state).refs = ps.refs := by
            split_ifs <;> rfl
          rw [hr, hrf]
          simp only [state_reasons, hne, Bool.not_false, Bool.toNat_true] at h1
          by_cases hemp : (ps.subq.erase c).isEmpty = true
          · simp only [hemp, if_true, List.count_cons_self, Bool.not_true, Bool.toNat_false]
            omega
          · simp only [hemp, Bool.false_eq_true, if_false]
            simp only [Bool.not_eq_true] at hemp
            simp only [hemp, Bool.not_false, Bool.toNat_true]
            omega
        · intro b hb
          split_ifs
          · rw [List.count_cons_of_ne hb]
          · exact le_refl _
      have hs1' : s1 = s := by
        rw [put_heap_other _ _ _ _ (Ne.symm hpc), hs] at hs1
        injection hs1 with hs1
        exact hs1.symm
      subst hs1'
      have hb := inv_put _ _ (c :: (if (ps.subq.erase c).isEmpty then p :: L else L)) c s1
        { s1 with flags := { s1.flags with SUBINSERTED := false }, parent := none } ha hs1
        ⟨rfl, rfl, rfl, rfl, rfl⟩ (fun hh => by cases hh)
        (by
          have h1 := ha.1.refs c s1 hs1
          simp only [state_reasons, hsub, List.count_cons_self, Bool.toNat_true,
            Bool.toNat_false] at h1 ⊢
          omega)
        (fun b hb => by rw [List.count_cons_of_ne hb])
      have hps2' : ps2.subq = ps.subq.erase c := by
        rw [put_heap_other _ _ _ _ hpc, put_heap_same] at hps2
        injection hps2 with hps2
        rw [← hps2, hq]
      rw [hps2'] at h
      by_cases hemp : (ps.subq.erase c).isEmpty = true
      · rw [if_pos hemp] at h
        simp only [Option.bind_eq_some] at h
        obtain ⟨e3, he3, h⟩ := h
        rw [if_pos hemp] at hb
        have h3 := drop_inv _ (c :: L) p e3
          (inv_perm _ _ _ hb (List.Perm.swap c p L)) he3
        exact drop_inv _ _ _ _ h3 h
      · rw [if_neg hemp] at h
        simp only [Option.some_bind] at h
        rw [if_neg hemp] at hb
        exact drop_inv _ _ _ _ hb h
    · rw [if_neg hmem] at h
      cases h
  · rw [if_neg hsub] at h
    injection h with h
    subst h
    exact hI

theorem msg_free_inv (e : dmsg_engine) (L : List Nat) (msg : dmsg_msg) (a : Nat)
    (e1 : dmsg_engine) (hI : eng_inv e (a :: L)) (hm : msg.state = some a)
    (h : dmsg_msg_free e msg = some e1) : eng_inv e1 L := by
  unfold dmsg_msg_free dmsg_msg_free_locked at h
  simp only [Option.bind_eq_bind, Option.bind_eq_some] at h
  obtain ⟨st, hst, s, -, h⟩ := h
  rw [hst] at h
  rw [hm] at hst
  injection hst with hst
  subst hst
  exact drop_inv _ _ _ _ hI h
/-- The allocation of the state `ns` at the allocation mark, as a child of the
allocated state `p`, whose update to `ps1` is `soft`: the new state accounts
for its links and for one outside reference. -/
theorem inv_new (e : dmsg_engine) (L : List Nat) (p : Nat) (ps ps1 ns : dmsg_state)
    (rd1 wr1 : Nat → Option Nat) (h : eng_inv e L) (hp : e.heap p = some ps)
    (hsoft : soft ps ps1) (hpar : ps1.flags.SUBINSERTED = true → ps1.parent ≠ some p)
    (hrefs : ((state_reasons ps1 + L.count p : Nat) : Int) ≤ ps1.refs)
    (hnrelay : ns.relay = none)
    (hnpar : ns.parent = some p)
    (hnrefs : ((state_reasons ns + 1 : Nat) : Int) ≤ ns.refs)
    (hrd : ∀ m b, rd1 m = some b → e.staterd_tree m = some b ∨
      (b = e.brk ∧ ns.flags.RBINSERTED = true ∧ ns.msgid = m ∧ ns.flags.OPPOSITE = true))
    (hwr : ∀ m b, wr1 m = some b → e.statewr_tree m = some b ∨
      (b = e.brk ∧ ns.flags.RBINSERTED = true ∧ ns.msgid = m ∧ ns.flags.OPPOSITE = false ∧
        m = e.brk)) :
    ref_inv (Function.update (Function.update e.heap e.brk (some ns)) p (some ps1)) rd1 wr1
      (e.brk + 1) (e.brk :: L) := by
  have hlive := inv_live e L p ps h hp
  have hpn : p ≠ e.brk := by omega
  obtain ⟨h, -⟩ := h
  have hcn : L.count e.brk = 0 := by
    rw [List.count_eq_zero]
    intro hm
    have := h.cred _ hm
    omega
  have hlook : ∀ b t, e.heap b = some t → b ≠ p →
      Function.update (Function.update e.heap e.brk (some ns)) p (some ps1) b = some t := by
    intro b t ht hbp
    have hb : b ≠ e.brk := by
      intro hb
      rw [hb, h.fresh _ (le_refl _)] at ht
      cases ht
    rw [Function.update_noteq hbp, Function.update_noteq hb]
    exact ht
  have htree : ∀ b t, e.heap b = some t → ∃ t1,
      Function.update (Function.update e.heap e.brk (some ns)) p (some ps1) b = some t1 ∧
      t1.flags.RBINSERTED = t.flags.RBINSERTED ∧ t1.msgid = t.msgid ∧
      t1.flags.OPPOSITE = t.flags.OPPOSITE := by
    intro b t ht
    by_cases hbp : b = p
    · subst hbp
      rw [hp] at ht
      injection ht with ht
      subst ht
      exact ⟨ps1, by simp, hsoft.rb, hsoft.msgid, hsoft.opp⟩
    · exact ⟨t, hlook b t ht hbp, rfl, rfl, rfl⟩
  have hnew : Function.update (Function.update e.heap e.brk (some ns)) p (some ps1) e.brk =
      some ns := by
    rw [Function.update_noteq (Ne.symm hpn), Function.update_same]
  refine ⟨?_, ?_, ?_, ?_, ?_, ?_, ?_, ?_, ?_⟩
  rotate_right
  · intro m b hm
    rcases hwr m b hm with hm | ⟨-, -, -, -, rfl⟩
    · exact Nat.lt_succ_of_lt (h.wrkey m b hm)
    · exact Nat.lt_succ_self _
  · intro b hb
    have h1 : b ≠ p := by omega
    have h2 : b ≠ e.brk := by omega
    rw [Function.update_noteq h1, Function.update_noteq h2]
    exact h.fresh b (by omega)
  · obtain ⟨s0, hs0, hr⟩ := h.root
    by_cases h0 : (0 : Nat) = p
    · subst h0
      rw [hs0] at hp
      injection hp with hp
      subst hp
      exact ⟨ps1, by simp, by rw [hsoft.root]; exact hr⟩
    · exact ⟨s0, hlook 0 s0 hs0 h0, hr⟩
  · intro b t ht
    by_cases hbp : b = p
    · subst hbp
      simp only [Function.update_same, Option.some.injEq] at ht
      subst ht
      rw [List.count_cons_of_ne hpn]
      exact hrefs
    · rw [Function.update_noteq hbp] at ht
      by_cases hbn : b = e.brk
      · subst hbn
        simp only [Function.update_same, Option.some.injEq] at ht
        subst ht
        rw [List.count_cons_self, hcn]
        exact hnrefs
      · rw [Function.update_noteq hbn] at ht
        rw [List.count_cons_of_ne hbn]
        exact h.refs b t ht
  · intro b t ht
    by_cases hbp : b = p
    · subst hbp
      simp only [Function.update_same, Option.some.injEq] at ht
      subst ht
      exact hpar
    · rw [Function.update_noteq hbp] at ht
      by_cases hbn : b = e.brk
      · subst hbn
        simp only [Function.update_same, Option.some.injEq] at ht
        subst ht
        intro _
        rw [hnpar]
        intro hh
        injection hh with hh
        exact hpn hh
      · rw [Function.update_noteq hbn] at ht
        exact h.par b t ht
  · intro b t ht
    by_cases hbp : b = p
    · subst hbp
      simp only [Function.update_same, Option.some.injEq] at ht
      subst ht
      rw [hsoft.relay]
      exact h.relay b ps hp
    · rw [Function.update_noteq hbp] at ht
      by_cases hbn : b = e.brk
      · subst hbn
        simp only [Function.update_same, Option.some.injEq] at ht
        subst ht
        exact hnrelay
      · rw [Function.update_noteq hbn] at ht
        exact h.relay b t ht
  · intro m b hm
    rcases hrd m b hm with hm | ⟨rfl, h1, h2, h3⟩
    · obtain ⟨t, ht, h1, h2, h3⟩ := h.rd m b hm
      obtain ⟨t1, ht1, g1, g2, g3⟩ := htree b t ht
      exact ⟨t1, ht1, by rw [g1]; exact h1, by rw [g2]; exact h2, by rw [g3]; exact h3⟩
    · exact ⟨ns, hnew, h1, h2, h3⟩
  · intro m b hm
    rcases hwr m b hm with hm | ⟨rfl, h1, h2, h3, -⟩
    · obtain ⟨t, ht, h1, h2, h3⟩ := h.wr m b hm
      obtain ⟨t1, ht1, g1, g2, g3⟩ := htree b t ht
      exact ⟨t1, ht1, by rw [g1]; exact h1, by rw [g2]; exact h2, by rw [g3]; exact h3⟩
    · exact ⟨ns, hnew, h1, h2, h3⟩
  · intro b hb
    rcases List.mem_cons.mp hb with hb | hb
    · subst hb
      exact Nat.lt_succ_self _
    · exact Nat.lt_succ_of_lt (h.cred b hb)

theorem inv_tree_fresh_wr (e : dmsg_engine) (L : List Nat) (h : eng_inv e L) :
    e.statewr_tree e.brk = none := by
  cases hq : e.statewr_tree e.brk with
  | none => rfl
  | some b => exact absurd (h.1.wrkey _ _ hq) (lt_irrefl _)

theorem alloc_create_inv (e : dmsg_engine) (L : List Nat) (p cmd func : Nat) (data : Bool)
    (r : dmsg_engine × Nat) (hI : eng_inv e L)
    (h : dmsg_msg_alloc_create e p cmd func data = some r) : eng_inv r.1 (r.2 :: L) := by
  have hp : ∃ ps, e.heap p = some ps := by
    unfold dmsg_msg_alloc_create at h
    simp only [Option.bind_eq_bind, Option.bind_eq_some] at h
    obtain ⟨ps, hps, -⟩ := h
    exact ⟨ps, hps⟩
  obtain ⟨ps, hp⟩ := hp
  rw [alloc_create_eq e p cmd func data ps hp (hI.1.fresh _ (le_refl _))
    (inv_tree_fresh_wr e L hI)] at h
  injection h with h
  subst h
  refine ⟨?_, hI.2⟩
  refine inv_new e L p ps _ _ _ _ hI hp ⟨rfl, rfl, rfl, rfl, rfl⟩ (hI.1.par p ps hp) ?_ rfl rfl
    ?_ ?_ ?_
  · have h1 := hI.1.refs p ps hp
    simp only [state_reasons] at h1 ⊢
    cases hq : ps.subq with
    | nil =>
      rw [hq] at h1
      simp only [List.nil_append, List.isEmpty_cons, List.isEmpty_nil, Bool.not_false,
        Bool.not_true, Bool.toNat_true, Bool.toNat_false, if_true] at h1 ⊢
      omega
    | cons x xs =>
      rw [hq] at h1
      simp only [List.cons_append, List.isEmpty_cons, Bool.not_false, Bool.toNat_true,
        if_false] at h1 ⊢
      omega
  · simp [state_reasons, dmsg_state.zero]
  · intro m b hm
    exact Or.inl hm
  · intro m b hm
    have hm1 : Function.update e.statewr_tree e.brk (some e.brk) m = some b := hm
    by_cases hmb : m = e.brk
    · subst hmb
      rw [Function.update_same] at hm1
      injection hm1 with hm1
      exact Or.inr ⟨hm1.symm, rfl, rfl, rfl, rfl⟩
    · rw [Function.update_noteq hmb] at hm1
      exact Or.inl hm1

theorem alloc_inv (e : dmsg_engine) (L : List Nat) (state aux_size cmd func : Nat)
    (data : Bool) (r : dmsg_engine × dmsg_msg) (hI : eng_inv e L)
    (h : dmsg_msg_alloc_locked e state aux_size cmd func data = some r) :
    ∃ a, r.2.state = some a ∧ eng_inv r.1 (a :: L) := by
  unfold dmsg_msg_alloc_locked at h
  by_cases hc : cmd &&& (DMSGF_CREATE ||| DMSGF_REPLY) = DMSGF_CREATE
  · simp only [hc, decide_True, if_true, Option.bind_eq_bind, Option.bind_eq_some,
      Option.pure_def] at h
    obtain ⟨a, ha, s0, -, pstate, -, s1, -, ps1, -, h⟩ := h
    injection h with h
    subst h
    exact ⟨a.2, rfl, inv_check _ _ _ (alloc_create_inv e L _ _ _ _ a hI ha)⟩
  · simp only [hc, decide_False, Bool.false_eq_true, if_false, Option.bind_eq_bind,
      Option.bind_eq_some, Option.pure_def, Option.map_eq_some'] at h
    obtain ⟨a, ⟨e1, he1, ha⟩, s0, -, pstate, -, s1, -, ps1, -, h⟩ := h
    injection h with h
    subst h ha
    exact ⟨state, rfl, inv_check _ _ _ (hold_inv e L state e1 hI he1)⟩
/-- The case `CREATE` of `dmsg_state_msgrx` on an allocated circuit without
relay and a fresh address. -/
theorem msgrx_create_eq (e : dmsg_engine) (msg : dmsg_msg) (p : Nat) (ps : dmsg_state)
    (hp : e.heap p = some ps) (hfresh : e.heap e.brk = none) (hrelay : ps.relay = none) :
    dmsg_state_msgrx_create e msg p =
      some { eng :=
               { e with
                 heap := Function.update (Function.update e.heap e.brk
                   (some { dmsg_state.zero with
                           parent := some p
                           flags := { DYNAMIC := true, OPPOSITE := true, SUBINSERTED := true,
                                      RBINSERTED := true }
                           msgid := msg.head.msgid
                           txcmd := DMSGF_REPLY
                           rxcmd := msg.head.cmd &&& not32 DMSGF_DELETE
                           icmd := (msg.head.cmd &&& not32 DMSGF_DELETE) &&& DMSGF_BASECMDMASK
                           refs := 3 })) p
                   (some { ps with
                           subq := ps.subq ++ [e.brk]
                           refs := ps.refs + 1 + (if ps.subq = [] then 1 else 0) })
                 staterd_tree := RB_INSERT e.staterd_tree msg.head.msgid e.brk
                 brk := e.brk + 1
                 dmsg_state_count := e.dmsg_state_count + 1 }
             msg := { msg with state := some e.brk }
             state := e.brk
             error := 0 } := by
  have hne : p ≠ e.brk := by
    intro h
    rw [h, hfresh] at hp
    cases hp
  unfold dmsg_state_msgrx_create
  cases hq : ps.subq with
  | nil =>
    simp only [dmsg_state_hold, dmsg_engine.put, hp, Option.bind_eq_bind, Option.some_bind,
      Option.pure_def, Function.update_same, Function.update_noteq hne,
      Function.update_noteq (Ne.symm hne), hq, List.isEmpty_nil, if_true, List.nil_append,
      hrelay, Option.isSome_none, Bool.false_eq_true, if_false]
    congr 2
    congr 1
    funext a
    by_cases h1 : a = e.brk
    · subst h1
      simp [Function.update_noteq (Ne.symm hne), dmsg_state.zero]
    · by_cases h2 : a = p
      · subst h2
        simp [Function.update_noteq h1]
      · simp [Function.update_noteq h1, Function.update_noteq h2]
  | cons c cs =>
    simp only [dmsg_state_hold, dmsg_engine.put, hp, Option.bind_eq_bind, Option.some_bind,
      Option.pure_def, Function.update_same, Function.update_noteq hne,
      Function.update_noteq (Ne.symm hne), hq, List.isEmpty_cons, Bool.false_eq_true, if_false,
      hrelay, Option.isSome_none]
    congr 2
    congr 1
    funext a
    by_cases h1 : a = e.brk
    · subst h1
      simp [Function.update_noteq (Ne.symm hne), dmsg_state.zero]
    · by_cases h2 : a = p
      · subst h2
        simp [Function.update_noteq h1]
      · simp [Function.update_noteq h1, Function.update_noteq h2]

theorem rb_insert_cases (tree : Nat → Option Nat) (k v m b : Nat)
    (h : RB_INSERT tree k v m = some b) : tree m = some b ∨ (b = v ∧ k = m) := by
  unfold RB_INSERT at h
  cases hk : tree k with
  | some x =>
    rw [hk] at h
    exact Or.inl h
  | none =>
    rw [hk] at h
    simp only [] at h
    by_cases hm : m = k
    · subst hm
      rw [Function.update_same] at h
      injection h with h
      exact Or.inr ⟨h.symm, rfl⟩
    · rw [Function.update_noteq hm] at h
      exact Or.inl h

/-- The case `CREATE` of `dmsg_state_msgrx`: the message moves to the new
state. -/
theorem create_inv (e : dmsg_engine) (L : List Nat) (msg : dmsg_msg) (p : Nat)
    (l : msgrx_locals) (hI : eng_inv e L) (h : dmsg_state_msgrx_create e msg p = some l) :
    ∃ b, l.msg.state = some b ∧ eng_inv l.eng (b :: L) := by
  have hp : ∃ ps, e.heap p = some ps := by
    unfold dmsg_state_msgrx_create dmsg_state_hold at h
    simp only [Option.bind_eq_bind, Option.bind_eq_some] at h
    obtain ⟨eb, ⟨ps, hps, -⟩, -⟩ := h
    exact ⟨ps, hps⟩
  obtain ⟨ps, hp⟩ := hp
  rw [msgrx_create_eq e msg p ps hp (hI.1.fresh _ (le_refl _)) (hI.1.relay p ps hp)] at h
  injection h with h
  subst h
  refine ⟨e.brk, rfl, ?_, hI.2⟩
  refine inv_new e L p ps _ _ _ _ hI hp ⟨rfl, rfl, rfl, rfl, rfl⟩ (hI.1.par p ps hp) ?_ rfl rfl
    ?_ ?_ ?_
  · have h1 := hI.1.refs p ps hp
    simp only [state_reasons] at h1 ⊢
    cases hq : ps.subq with
    | nil =>
      rw [hq] at h1
      simp only [List.nil_append, List.isEmpty_cons, List.isEmpty_nil, Bool.not_false,
        Bool.not_true, Bool.toNat_true, Bool.toNat_false, if_true] at h1 ⊢
      omega
    | cons x xs =>
      rw [hq] at h1
      simp only [List.cons_append, List.isEmpty_cons, Bool.not_false, Bool.toNat_true,
        if_false] at h1 ⊢
      omega
  · simp [state_reasons, dmsg_state.zero]
  · intro m b hm
    rcases rb_insert_cases _ _ _ _ _ hm with hm | ⟨rfl, rfl⟩
    · exact Or.inl hm
    · exact Or.inr ⟨rfl, rfl, rfl, rfl⟩
  · intro m b hm
    exact Or.inl hm
/-- An update of an allocated state that leaves its links and its count
alone. -/
theorem inv_put_same (e : dmsg_engine) (L : List Nat) (a : Nat) (s s1 : dmsg_state)
    (h : eng_inv e L) (hs : e.heap a = some s) (hsoft : soft s s1)
    (hsub : s1.flags.SUBINSERTED = s.flags.SUBINSERTED) (hpar : s1.parent = s.parent)
    (hq : s1.subq = s.subq) (hr : s1.refs = s.refs) : eng_inv (e.put a s1) L := by
  refine inv_put e L L a s s1 h hs hsoft ?_ ?_ (fun _ _ => le_refl _)
  · rw [hsub, hpar]
    exact h.1.par a s hs
  · have h1 := h.1.refs a s hs
    simp only [state_reasons, hsoft.root, hsoft.rb, hsub, hq, hr] at h1 ⊢
    exact h1

theorem inv_tail (e : dmsg_engine) (L : List Nat) (b : Nat) (h : eng_inv e (b :: L)) :
    eng_inv e L :=
  inv_mono e _ _ h (fun a => List.count_le_count_cons a b L)

theorem inv_swap_tail (e : dmsg_engine) (L : List Nat) (a b : Nat) (h : eng_inv e (a :: b :: L)) :
    eng_inv e (a :: L) :=
  inv_tail e _ b (inv_perm e _ _ h (List.Perm.swap a b L))

theorem create_inv_tail (e : dmsg_engine) (L : List Nat) (b : Nat) (msg : dmsg_msg) (p : Nat)
    (l : msgrx_locals) (hI : eng_inv e (b :: L))
    (h : dmsg_state_msgrx_create e msg p = some l) :
    ∃ b1, l.msg.state = some b1 ∧ eng_inv l.eng (b1 :: L) := by
  obtain ⟨b1, h1, h2⟩ := create_inv _ _ _ _ _ hI h
  exact ⟨b1, h1, inv_swap_tail _ _ _ _ h2⟩

theorem switch_inv (e : dmsg_engine) (L : List Nat) (b : Nat) (msg : dmsg_msg) (state : Nat)
    (pstate : Option Nat) (l : msgrx_locals) (hI : eng_inv e (b :: L))
    (hm : msg.state = some b) (h : dmsg_state_msgrx_switch e msg state pstate = some l) :
    ∃ b1, l.msg.state = some b1 ∧ eng_inv l.eng (b1 :: L) := by
  unfold dmsg_state_msgrx_switch at h
  simp only [] at h
  split_ifs at h
  all_goals first
    | exact create_inv_tail _ _ _ _ _ _ hI h
    | (injection h with h; rw [← h]; exact ⟨b, hm, hI⟩)
    | (simp only [Option.bind_eq_some] at h
       obtain ⟨st, hst, h⟩ := h
       first
         | (injection h with h; rw [← h]
            exact ⟨b, hm, inv_put_same (e.check _) _ _ st _ hI hst ⟨rfl, rfl, rfl, rfl, rfl⟩
              rfl rfl rfl rfl⟩)
         | (split_ifs at h <;>
             (injection h with h; rw [← h]; exact ⟨b, hm, hI⟩)))

theorem remove_inv (e : dmsg_engine) (L : List Nat) (cmd state : Nat) (st : dmsg_state)
    (e1 : dmsg_engine) (hI : eng_inv e L) (hst : e.heap state = some st)
    (h : dmsg_state_msgrx_remove e cmd state st = some e1) : eng_inv e1 L := by
  unfold dmsg_state_msgrx_remove at h
  simp only [Option.bind_eq_bind, Option.bind_eq_some] at h
  obtain ⟨e7, he7, h⟩ := h
  refine drop_inv _ L state e1 ?_ h
  by_cases hR : st.rxcmd &&& DMSGF_REPLY ≠ 0
  · rw [if_pos hR] at he7
    simp only [Option.map_eq_some'] at he7
    obtain ⟨t, ht, rfl⟩ := he7
    exact inv_remove_wr ((e.check st.flags.RBINSERTED).check _) L state st t hI hst ht
  · rw [if_neg hR] at he7
    simp only [Option.map_eq_some'] at he7
    obtain ⟨t, ht, rfl⟩ := he7
    exact inv_remove_rd ((e.check st.flags.RBINSERTED).check _) L state st t hI hst ht

theorem adjust_inv (L : List Nat) (l : msgrx_locals) (r : msgrx_result)
    (hI : eng_inv l.eng L) (h : dmsg_state_msgrx_adjust l = some r) :
    r.msg.state = l.msg.state ∧ eng_inv r.eng L := by
  unfold dmsg_state_msgrx_adjust at h
  simp only [Option.bind_eq_bind, Option.bind_eq_some, Option.pure_def] at h
  obtain ⟨mst2, -, ms2, -, st2, hst2, h⟩ := h
  have hput : eng_inv (((l.eng.check (decide (mst2 = l.state))).check
      (decide (st2.rxcmd &&& DMSGF_DELETE = 0))).put l.state
      { st2 with rxcmd := st2.rxcmd ||| DMSGF_DELETE }) L :=
    inv_put_same ((l.eng.check _).check _) L l.state st2 _ hI hst2 ⟨rfl, rfl, rfl, rfl, rfl⟩
      rfl rfl rfl rfl
  split_ifs at h
  · injection h with h
    rw [← h]
    exact ⟨rfl, hI⟩
  · simp only [Option.map_eq_some'] at h
    obtain ⟨e9, he9, h⟩ := h
    rw [← h]
    exact ⟨rfl, remove_inv _ L _ _ _ e9 hput (put_heap_same _ _ _) he9⟩
  · injection h with h
    rw [← h]
    exact ⟨rfl, hput⟩
  · injection h with h
    rw [← h]
    exact ⟨rfl, hI⟩

theorem assign_inv (e : dmsg_engine) (L : List Nat) (msg : dmsg_msg) (mstate : Bool)
    (mst : Nat) (pstate found : Option Nat) (a : dmsg_engine × dmsg_msg × Option Nat)
    (hI : eng_inv e (mst :: L)) (hm : msg.state = some mst)
    (h : dmsg_state_msgrx_assign e msg mstate mst pstate found = some a) :
    ∃ b, a.2.1.state = some b ∧ eng_inv a.1 (b :: L) := by
  unfold dmsg_state_msgrx_assign at h
  split_ifs at h
  · injection h with h
    rw [← h]
    exact ⟨mst, hm, hI⟩
  · cases found with
    | none =>
      injection h with h
      rw [← h]
      exact ⟨mst, hm, hI⟩
    | some st =>
      simp only [Option.bind_eq_bind, Option.bind_eq_some, Option.pure_def] at h
      obtain ⟨e1, he1, e2, he2, sst, -, h⟩ := h
      injection h with h
      rw [← h]
      exact ⟨st, rfl, inv_check _ _ _ (hold_inv e1 L st e2 (drop_inv e _ mst e1 hI he1) he2)⟩

/-- The function `dmsg_state_msgrx` keeps the accounting: the reference of the
message moves with the message. -/
theorem msgrx_inv (e : dmsg_engine) (L : List Nat) (msg : dmsg_msg) (mstate : Bool) (b : Nat)
    (r : msgrx_result) (hI : eng_inv e (b :: L)) (hm : msg.state = some b)
    (h : dmsg_state_msgrx e msg mstate = some r) :
    ∃ b1, r.msg.state = some b1 ∧ eng_inv r.eng (b1 :: L) := by
  unfold dmsg_state_msgrx at h
  simp only [Option.bind_eq_bind, Option.bind_eq_some] at h
  obtain ⟨mst, hmst, ms, -, h⟩ := h
  rw [hm] at hmst
  injection hmst with hmst
  subst hmst
  split at h
  · injection h with h
    rw [← h]
    exact ⟨b, hm, hI⟩
  · simp only [Option.bind_eq_some] at h
    obtain ⟨a, ha, state, -, l, hl, h⟩ := h
    obtain ⟨b1, hb1, h1⟩ := assign_inv _ L _ _ _ _ _ a hI hm ha
    obtain ⟨b2, hb2, h2⟩ := switch_inv _ L b1 _ _ _ l h1 hb1 hl
    obtain ⟨h3, h4⟩ := adjust_inv (b2 :: L) l r h2 h
    exact ⟨b2, by rw [h3]; exact hb2, h4⟩

theorem cleanuprx_inv (e : dmsg_engine) (L : List Nat) (msg : dmsg_msg) (b : Nat)
    (e1 : dmsg_engine) (hI : eng_inv e (b :: L)) (hm : msg.state = some b)
    (h : dmsg_state_cleanuprx e msg = some e1) : eng_inv e1 L := by
  unfold dmsg_state_cleanuprx at h
  simp only [Option.bind_eq_bind, Option.bind_eq_some] at h
  obtain ⟨state, -, st, -, h⟩ := h
  split_ifs at h
  · exact msg_free_inv _ L msg b e1 hI hm h
  · simp only [Option.bind_eq_some] at h
    obtain ⟨ea, hea, st1, hst1, e2, he2, h⟩ := h
    have h1 := subq_delete_inv _ _ _ ea hI hea
    have hrel := h1.1.relay _ _ hst1
    rw [hrel] at he2
    injection he2 with he2
    subst he2
    exact msg_free_inv _ L msg b e1 h1 hm h
  · exact msg_free_inv _ L msg b e1 hI hm h
theorem foldlM_inv (L : List Nat) (f : dmsg_engine → Nat → Option dmsg_engine)
    (hf : ∀ a x b, eng_inv a L → f a x = some b → eng_inv b L) :
    ∀ (l : List Nat) (e e1 : dmsg_engine), eng_inv e L → l.foldlM f e = some e1 →
      eng_inv e1 L := by
  intro l
  induction l with
  | nil =>
    intro e e1 hI h
    injection h with h
    subst h
    exact hI
  | cons x l ih =>
    intro e e1 hI h
    rw [List.foldlM_cons] at h
    cases hfa : f e x with
    | none =>
      rw [hfa] at h
      exact absurd h (by simp)
    | some b =>
      rw [hfa] at h
      exact ih b e1 (hf e x b hI hfa) h

theorem dying_inv (L : List Nat) : ∀ (fuel : Nat) (e : dmsg_engine) (x : Nat)
    (e1 : dmsg_engine), eng_inv e L → dmsg_state_dying fuel e x = some e1 → eng_inv e1 L := by
  intro fuel
  induction fuel with
  | zero =>
    intro e x e1 _ h
    simp [dmsg_state_dying] at h
  | succ n ih =>
    intro e x e1 hI h
    unfold dmsg_state_dying at h
    simp only [Option.bind_eq_bind, Option.bind_eq_some, Option.pure_def] at h
    obtain ⟨s, hs, h⟩ := h
    split_ifs at h
    · exact foldlM_inv L _ (fun a y b ha hb => ih a y b ha hb) _ _ _
        (inv_put_same e L x s { s with flags := { s.flags with DYING := true } } hI hs
          ⟨rfl, rfl, rfl, rfl, rfl⟩ rfl rfl rfl rfl) h
    · injection h with h
      subst h
      exact hI

theorem abort_msg_inv (e : dmsg_engine) (L : List Nat) (x : Nat) (e1 : dmsg_engine)
    (hI : eng_inv e L) (h : dmsg_state_abort_msg e x = some e1) : eng_inv e1 L := by
  unfold dmsg_state_abort_msg at h
  simp only [Option.bind_eq_bind, Option.bind_eq_some] at h
  obtain ⟨am, ham, s3, -, r, hr, h⟩ := h
  obtain ⟨a, ha, h1⟩ := alloc_inv e L _ _ _ _ _ am hI ham
  obtain ⟨b, hb, h2⟩ := msgrx_inv am.1 L
    { am.2 with
      head := { am.2.head with cmd := dmsg_state_abort_cmd am.2.head.cmd s3.rxcmd,
                               error := DMSG_ERR_LOSTLINK } } true a r h1 ha hr
  have h3 : eng_inv { r.eng with rcvd := r.eng.rcvd ++ [r.msg] } (b :: L) := h2
  exact cleanuprx_inv _ L r.msg b e1 h3 hb h

theorem abort_inv (fuel : Nat) (e : dmsg_engine) (L : List Nat) (x : Nat) (e1 : dmsg_engine)
    (hI : eng_inv e L) (h : dmsg_state_abort fuel e x = some e1) : eng_inv e1 L := by
  unfold dmsg_state_abort at h
  simp only [Option.bind_eq_bind, Option.bind_eq_some, Option.pure_def] at h
  obtain ⟨s, hs, h⟩ := h
  split_ifs at h with hab
  · injection h with h
    subst h
    exact hI
  · simp only [Option.bind_eq_some] at h
    obtain ⟨e2, he2, s2, -, h⟩ := h
    have h1 : eng_inv e2 L :=
      dying_inv L fuel _ x e2
        (inv_put_same e L x s { s with flags := { s.flags with ABORTING := true } } hI hs
          ⟨rfl, rfl, rfl, rfl, rfl⟩ rfl rfl rfl rfl) he2
    split_ifs at h
    · injection h with h
      subst h
      exact h1
    · exact abort_msg_inv _ L x e1 h1 h
    · injection h with h
      subst h
      exact h1

/-- The function `dmsg_simulate_failure` and its loop keep the accounting. -/
theorem simulate_inv : ∀ (fuel : Nat),
    (∀ (e : dmsg_engine) (L : List Nat) (x : Nat) (m : Bool) (err : Nat) (r : dmsg_engine),
      eng_inv e L → dmsg_simulate_failure fuel e x m err = some r → eng_inv r L) ∧
    (∀ (e : dmsg_engine) (L : List Nat) (q err : Nat) (c : Option Nat) (r : dmsg_engine),
      eng_inv e L → dmsg_simulate_failure_scan fuel e q err c = some r → eng_inv r L) := by
  intro fuel
  induction fuel with
  | zero =>
    refine ⟨?_, ?_⟩
    · intro e L x m err r _ h
      simp [dmsg_simulate_failure] at h
    · intro e L q err c r _ h
      simp [dmsg_simulate_failure_scan] at h
  | succ n ih =>
    refine ⟨?_, ?_⟩
    · intro e L x m err r hI h
      rw [dmsg_simulate_failure] at h
      cases m
      · simp only [Option.bind_eq_bind, Option.bind_eq_some, Bool.false_eq_true, if_false,
          Option.pure_def, Option.some_bind] at h
        obtain ⟨e1, h1, s, h3, e3, h4, h5⟩ := h
        exact drop_inv e3 L x r (ih.2 _ _ _ _ _ _ (hold_inv e L x e1 hI h1) h4) h5
      · simp only [Option.bind_eq_bind, Option.bind_eq_some, if_true] at h
        obtain ⟨e1, h1, e2, h2, s, h3, e3, h4, h5⟩ := h
        exact drop_inv e3 L x r (ih.2 _ _ _ _ _ _
          (abort_inv n e1 _ x e2 (hold_inv e L x e1 hI h1) h2) h4) h5
    · intro e L q err c r hI h
      cases c with
      | none =>
        rw [dmsg_simulate_failure_scan] at h
        injection h with h
        subst h
        exact hI
      | some sub =>
        rw [dmsg_simulate_failure_scan] at h
        simp only [Option.bind_eq_bind, Option.bind_eq_some] at h
        obtain ⟨ss, h1, s, h2, h3⟩ := h
        split at h3
        · exact ih.2 _ _ _ _ _ _ hI h3
        · simp only [Option.bind_eq_some] at h3
          obtain ⟨e2, h4, s2, h5, h6⟩ := h3
          have hp := ih.1 _ L _ _ _ e2
            (inv_put_same e L q s { s with scan := some sub } hI h2 ⟨rfl, rfl, rfl, rfl, rfl⟩
              rfl rfl rfl rfl) h4
          split at h6
          · exact ih.2 _ _ _ _ _ _ hp h6
          · exact ih.2 _ _ _ _ _ _ hp h6

theorem simulate_failure_inv (fuel : Nat) (e : dmsg_engine) (L : List Nat) (x : Nat) (m : Bool)
    (err : Nat) (r : dmsg_engine) (hI : eng_inv e L)
    (h : dmsg_simulate_failure fuel e x m err = some r) : eng_inv r L :=
  (simulate_inv fuel).1 e L x m err r hI h

/-- The function `dmsg_state_cleanuptx` keeps the accounting; the reference of
the message stays with the message. -/
theorem cleanuptx_inv (fuel : Nat) (e : dmsg_engine) (L : List Nat) (msg : dmsg_msg)
    (e1 : dmsg_engine) (hI : eng_inv e L) (h : dmsg_state_cleanuptx fuel e msg = some e1) :
    eng_inv e1 L := by
  unfold dmsg_state_cleanuptx at h
  simp only [Option.bind_eq_bind, Option.bind_eq_some, Option.pure_def] at h
  obtain ⟨state, -, ea, hea, s, hs, e2, he2, s2, hs2, e3, he3, h⟩ := h
  have h1 := hold_inv e L state ea hI hea
  have h2 : eng_inv e2 (state :: L) := by
    by_cases hroot : s.flags.ROOT = true
    · rw [if_pos hroot] at he2
      injection he2 with he2
      subst he2
      exact h1
    · rw [if_neg hroot] at he2
      by_cases hdel : msg.head.cmd &&& DMSGF_DELETE ≠ 0
      · rw [if_pos hdel] at he2
        by_cases hcase : s.txcmd &&& DMSGF_DELETE = 0 ∧ s.rxcmd &&& DMSGF_DELETE ≠ 0
        · rw [if_pos hcase] at he2
          simp only [Option.bind_eq_some] at he2
          obtain ⟨eb, heb, ed, hed, sd, hsd, ee, hee, he2⟩ := he2
          have hput : eng_inv ((ea.put state { s with txcmd := s.txcmd ||| DMSGF_DELETE }).check
              s.flags.RBINSERTED) (state :: L) :=
            inv_put_same ea _ state s _ h1 hs ⟨rfl, rfl, rfl, rfl, rfl⟩ rfl rfl rfl rfl
          have hb : eng_inv (eb.put state
              { s with txcmd := s.txcmd ||| DMSGF_DELETE,
                       flags := { s.flags with RBINSERTED := false } })
              (state :: state :: L) := by
            by_cases hR : (s.txcmd ||| DMSGF_DELETE) &&& DMSGF_REPLY ≠ 0
            · rw [if_pos hR] at heb
              simp only [Option.map_eq_some'] at heb
              obtain ⟨t, ht, rfl⟩ := heb
              exact inv_remove_rd (((ea.put state _).check _).check _) (state :: L) state
                { s with txcmd := s.txcmd ||| DMSGF_DELETE } t hput (put_heap_same _ _ _) ht
            · rw [if_neg hR] at heb
              simp only [Option.map_eq_some'] at heb
              obtain ⟨t, ht, rfl⟩ := heb
              exact inv_remove_wr (((ea.put state _).check _).check _) (state :: L) state
                { s with txcmd := s.txcmd ||| DMSGF_DELETE } t hput (put_heap_same _ _ _) ht
          have hd := subq_delete_inv _ _ state ed hb hed
          have hrel := hd.1.relay _ _ hsd
          rw [hrel] at hee
          injection hee with hee
          subst hee
          exact drop_inv _ _ state e2 hd he2
        · rw [if_neg hcase] at he2
          split_ifs at he2
          · injection he2 with he2
            subst he2
            exact inv_put_same ea _ state s _ h1 hs ⟨rfl, rfl, rfl, rfl, rfl⟩ rfl rfl rfl rfl
          · injection he2 with he2
            subst he2
            exact h1
      · rw [if_neg hdel] at he2
        injection he2 with he2
        subst he2
        exact h1
  have h3 : eng_inv e3 (state :: L) := by
    split_ifs at he3
    · exact simulate_failure_inv fuel _ _ state true _ e3
        (inv_put_same e2 _ state s2 { s2 with flags := { s2.flags with ABORTING := false } }
          h2 hs2 ⟨rfl, rfl, rfl, rfl, rfl⟩ rfl rfl rfl rfl) he3
    · injection he3 with he3
      subst he3
      exact h2
  exact drop_inv e3 L state e1 h3 h
/-- The function `dmsg_msg_write` keeps the accounting: the message is freed,
or it goes to the tail of `txmsgq` with its reference. -/
theorem write_inv (fuel : Nat) (ic : dmsg_iocom) (L : List Nat) (msg : dmsg_msg) (a : Nat)
    (ic1 : dmsg_iocom) (hI : eng_inv ic.eng (a :: L)) (hm : msg.state = some a)
    (h : dmsg_msg_write fuel ic msg = some ic1) :
    ((ic1.txmsgq = ic.txmsgq ∧ eng_inv ic1.eng L) ∨
     (∃ m1, m1.state = some a ∧ ic1.txmsgq = ic.txmsgq ++ [m1] ∧ eng_inv ic1.eng (a :: L))) ∧
    ic1.ioq_rx = ic.ioq_rx ∧ ic1.ioq_tx = ic.ioq_tx := by
  unfold dmsg_msg_write at h
  simp only [Option.bind_eq_bind, Option.bind_eq_some, Option.pure_def] at h
  obtain ⟨state, hst, s, hs, h⟩ := h
  rw [hm] at hst
  injection hst with hst
  subst hst
  generalize hs1 : (if (!s.flags.ROOT) = true ∧
      msg.head.cmd &&& (DMSGF_CREATE ||| DMSGF_REPLY) = DMSGF_CREATE then
      { s with
        txcmd := msg.head.cmd &&& not32 DMSGF_DELETE
        icmd := (msg.head.cmd &&& not32 DMSGF_DELETE) &&& DMSGF_BASECMDMASK
        flags := { s.flags with NEW := false } }
    else s) = s1 at h
  have k1 : soft s s1 ∧ s1.flags.SUBINSERTED = s.flags.SUBINSERTED ∧ s1.parent = s.parent ∧
      s1.subq = s.subq ∧ s1.refs = s.refs := by
    rw [← hs1]
    split_ifs
    · exact ⟨⟨rfl, rfl, rfl, rfl, rfl⟩, rfl, rfl, rfl, rfl⟩
    · exact ⟨⟨rfl, rfl, rfl, rfl, rfl⟩, rfl, rfl, rfl, rfl⟩
  generalize hm1 : (if (!s.flags.ROOT) = true then
      { msg with head := { msg.head with msgid := s1.msgid } } else msg) = msg1 at h
  have km : msg1.state = some a := by
    rw [← hm1]
    split_ifs
    · exact hm
    · exact hm
  generalize hs2 : (if (!s.flags.ROOT) = true ∧ msg1.head.cmd &&& DMSGF_CREATE ≠ 0 then
      { s1 with txcmd := msg1.head.cmd &&& not32 DMSGF_DELETE } else s1) = s2 at h
  have k2 : soft s s2 ∧ s2.flags.SUBINSERTED = s.flags.SUBINSERTED ∧ s2.parent = s.parent ∧
      s2.subq = s.subq ∧ s2.refs = s.refs := by
    rw [← hs2]
    obtain ⟨⟨g1, g2, g3, g4, g5⟩, g6, g7, g8, g9⟩ := k1
    split_ifs
    · exact ⟨⟨g1, g2, g3, g4, g5⟩, g6, g7, g8, g9⟩
    · exact ⟨⟨g1, g2, g3, g4, g5⟩, g6, g7, g8, g9⟩
  generalize he1 : (if (!s.flags.ROOT) = true then ic.eng.put a s2 else ic.eng) = e1 at h
  have ke : eng_inv e1 (a :: L) := by
    rw [← he1]
    split_ifs
    · exact inv_put_same ic.eng _ a s s2 hI hs k2.1 k2.2.1 k2.2.2.1 k2.2.2.2.1 k2.2.2.2.2
    · exact hI
  split_ifs at h
  · simp only [Option.map_eq_some'] at h
    obtain ⟨e2, he2, rfl⟩ := h
    exact ⟨Or.inl ⟨rfl, msg_free_inv e1 L msg1 a e2 ke km he2⟩, rfl, rfl⟩
  · simp only [Option.bind_eq_some] at h
    obtain ⟨e2, he2, e3, he3, s3, hs3, e4, he4, e5, he5, e6, he6, h⟩ := h
    injection h with h
    subst h
    have g2 := hold_inv e1 _ a e2 ke he2
    have g3 := cleanuptx_inv fuel e2 _ msg1 e3 g2 he3
    have g4 : eng_inv e4 (a :: a :: L) := by
      split_ifs at he4
      · exact simulate_failure_inv fuel e3 _ a true _ e4 g3 he4
      · injection he4 with he4
        subst he4
        exact g3
    have g5 := drop_inv e4 _ a e5 g4 he5
    exact ⟨Or.inl ⟨rfl, msg_free_inv e5 L msg1 a e6 g5 km he6⟩, rfl, rfl⟩
  · simp only [Option.bind_eq_some] at h
    obtain ⟨e2, he2, h⟩ := h
    injection h with h
    subst h
    exact ⟨Or.inr ⟨msg1, km, rfl, cleanuptx_inv fuel e1 _ msg1 e2 ke he2⟩, rfl, rfl⟩

/-- The functions `dmsg_state_reply` and `dmsg_state_result` keep the
accounting. -/
theorem reply_cmd_inv (fuel : Nat) (ic : dmsg_iocom) (L : List Nat) (state cmd0 error : Nat)
    (ic1 : dmsg_iocom) (hI : eng_inv ic.eng L)
    (h : dmsg_state_reply_cmd fuel ic state cmd0 error = some ic1) :
    ((ic1.txmsgq = ic.txmsgq ∧ eng_inv ic1.eng L) ∨
     (∃ m1 a, m1.state = some a ∧ ic1.txmsgq = ic.txmsgq ++ [m1] ∧ eng_inv ic1.eng (a :: L))) ∧
    ic1.ioq_rx = ic.ioq_rx ∧ ic1.ioq_tx = ic.ioq_tx := by
  unfold dmsg_state_reply_cmd at h
  simp only [Option.bind_eq_bind, Option.bind_eq_some, Option.pure_def] at h
  obtain ⟨s, hs, h⟩ := h
  by_cases hd : s.txcmd &&& DMSGF_DELETE ≠ 0
  · rw [if_pos hd] at h
    injection h with h
    subst h
    exact ⟨Or.inl ⟨rfl, hI⟩, rfl, rfl⟩
  · rw [if_neg hd] at h
    simp only [Option.bind_eq_some] at h
    obtain ⟨am, ham, s1, hs1, h⟩ := h
    obtain ⟨a, ha, h1⟩ := alloc_inv ic.eng L _ _ _ _ _ am hI ham
    have hw := write_inv fuel _ L _ a ic1 (by exact h1) (by exact ha) h
    obtain ⟨h2, h3, h4⟩ := hw
    refine ⟨?_, h3, h4⟩
    rcases h2 with h2 | ⟨m1, g1, g2, g3⟩
    · exact Or.inl h2
    · exact Or.inr ⟨m1, a, g1, g2, g3⟩
theorem rx_keep_refl (ic : dmsg_iocom) : rx_keep ic ic := by
  simp [rx_keep]

theorem rx_keep_trans {a b c : dmsg_iocom} (h1 : rx_keep a b) (h2 : rx_keep b c) :
    rx_keep a c := by
  obtain ⟨p1, p2, p3, p4, p5, p6⟩ := h1
  obtain ⟨q1, q2, q3, q4, q5, q6⟩ := h2
  exact ⟨q1.trans p1, q2.trans p2, q3.trans p3, q4.trans p4, q5.trans p5, q6.trans p6⟩

theorem rx_keep_cred {a b : dmsg_iocom} (h : rx_keep a b) : rx_cred a b := by
  obtain ⟨p1, p2, p3, p4, p5, p6⟩ := h
  intro L hI
  unfold eng_inv mcred at hI ⊢
  rw [p1, p2, p3, p4, p5, p6]
  exact hI

theorem rx_cred_trans {a b c : dmsg_iocom} (h1 : rx_cred a b) (h2 : rx_cred b c) :
    rx_cred a c :=
  fun L h => h2 L (h1 L h)

theorem sock_read_keep (ic : dmsg_iocom) (nmax : Nat) : rx_keep ic (ioq_sock_read ic nmax).ic := by
  unfold ioq_sock_read
  simp only []
  split
  · simp [rx_keep]
  · simp [rx_keep]
  · simp [rx_keep]
  · simp [rx_keep]
  · split <;> simp [rx_keep]

theorem decrypt_keep (env : Env) (ic : dmsg_iocom) : rx_keep ic (ioq_decrypt env ic) := by
  unfold ioq_decrypt
  split <;> simp [rx_keep]

theorem check_keep (ic : dmsg_iocom) (b : Bool) : rx_keep ic (ic.check b) := by
  simp [rx_keep, dmsg_iocom.check, dmsg_engine.check]

theorem makeroom_rx_keep (ic : dmsg_iocom) (n : Nat) :
    rx_keep ic { ic with ioq_rx := (dmsg_ioq_makeroom ic.ioq_rx n).1 } := by
  have hm := makeroom_same ic.ioq_rx n
  simp only [rx_keep]
  simp [hm]

theorem auxdata2_copy_keep (env : Env) (ic : dmsg_iocom) (msg : dmsg_msg) (r : switch_result)
    (hm : (ic.ioq_rx.msg.bind fun m => m.state) = msg.state)
    (h : dmsg_ioq_read_AUXDATA2_copy env ic msg = some r) : rx_keep ic r.ic := by
  unfold dmsg_ioq_read_AUXDATA2_copy at h
  simp only [Option.bind_eq_some] at h
  obtain ⟨aux1, -, h⟩ := h
  split_ifs at h <;>
    (injection h with h; subst h; simp [rx_keep, dmsg_iocom.check, dmsg_engine.check, hm])

theorem auxdata2_keep (env : Env) (ic : dmsg_iocom) (bytes : Nat) (r : switch_result)
    (h : dmsg_ioq_read_AUXDATA2 env ic bytes = some r) : rx_keep ic r.ic := by
  unfold dmsg_ioq_read_AUXDATA2 at h
  simp only [Option.bind_eq_some] at h
  obtain ⟨msg, hmsg, h⟩ := h
  have hmsg1 : ic.ioq_rx.msg = some msg := hmsg
  have h0 := rx_keep_trans (check_keep ic ic.ioq_rx.msg.isSome)
    (makeroom_rx_keep (ic.check ic.ioq_rx.msg.isSome)
      ((ic.check ic.ioq_rx.msg.isSome).ioq_rx.abytes - msg.aux_size))
  generalize hrd : (if msg.aux_size < _ then ioq_sock_read _ _
      else ({ ic := _, nmax := _, brk := false } : sock_read_result)) = rd at h
  have key : rx_keep ic rd.ic := by
    rw [← hrd]
    split
    · exact rx_keep_trans h0 (rx_keep_trans (check_keep _ _)
        (rx_keep_trans (check_keep _ _) (sock_read_keep _ _)))
    · exact h0
  split_ifs at h
  · injection h with h
    subst h
    exact key
  · have key2 := rx_keep_trans key (decrypt_keep env _)
    refine rx_keep_trans key2 (auxdata2_copy_keep env _ _ _ ?_ h)
    rw [key2.2.2.2.2.2, hmsg1]
    rfl

theorem auxdata1_keep (env : Env) (ic : dmsg_iocom) (bytes : Nat) (r : switch_result)
    (h : dmsg_ioq_read_AUXDATA1 env ic bytes = some r) : rx_keep ic r.ic := by
  unfold dmsg_ioq_read_AUXDATA1 at h
  simp only [Option.bind_eq_some] at h
  obtain ⟨msg, hmsg, h⟩ := h
  split_ifs at h
  all_goals first
    | (simp only [Option.bind_eq_some] at h
       obtain ⟨aux1, -, h⟩ := h
       refine rx_keep_trans ?_ (auxdata2_keep env _ _ _ h)
       simp [rx_keep, dmsg_iocom.check, dmsg_engine.check, hmsg])
    | (refine rx_keep_trans ?_ (auxdata2_keep env _ _ _ h)
       simp [rx_keep, hmsg])

theorem header2_check_keep (env : Env) (ic : dmsg_iocom) (r : switch_result)
    (h : dmsg_ioq_read_HEADER2_check env ic = some r) : rx_keep ic r.ic := by
  unfold dmsg_ioq_read_HEADER2_check at h
  simp only [] at h
  split at h
  · injection h with h
    subst h
    simp [rx_keep, dmsg_iocom.check, dmsg_engine.check]
  · simp only [Option.bind_eq_some] at h
    obtain ⟨msg, hmsg, h⟩ := h
    split at h
    · injection h with h
      subst h
      simp [rx_keep, hmsg]
    · refine rx_keep_trans ?_ (auxdata1_keep env _ _ _ h)
      simp [rx_keep, hmsg]

theorem header2_keep (env : Env) (ic : dmsg_iocom) (bytes nmax : Nat) (r : switch_result)
    (h : dmsg_ioq_read_HEADER2 env ic bytes nmax = some r) : rx_keep ic r.ic := by
  unfold dmsg_ioq_read_HEADER2 at h
  simp only [] at h
  generalize hrd : (if bytes < (ic.check ic.ioq_rx.msg.isSome).ioq_rx.hbytes then
        ioq_sock_read ((ic.check ic.ioq_rx.msg.isSome).check (decide (nmax > 0))) nmax
      else ({ ic := ic.check ic.ioq_rx.msg.isSome, nmax := nmax, brk := false } :
        sock_read_result)) = rd at h
  have key : rx_keep ic rd.ic := by
    rw [← hrd]
    split
    · exact rx_keep_trans (check_keep _ _) (rx_keep_trans (check_keep _ _) (sock_read_keep _ _))
    · exact check_keep _ _
  split_ifs at h
  · injection h with h
    subst h
    exact key
  · injection h with h
    subst h
    exact rx_keep_trans key (decrypt_keep env _)
  · exact rx_keep_trans key (rx_keep_trans (decrypt_keep env _) (header2_check_keep env _ _ h))

theorem header1_check_cred (env : Env) (ic : dmsg_iocom) (msgp : Bool) (r : switch_result)
    (h : dmsg_ioq_read_HEADER1_check env ic msgp = some r) : rx_cred ic r.ic := by
  unfold dmsg_ioq_read_HEADER1_check at h
  simp only [] at h
  split at h
  · injection h with h
    subst h
    exact rx_keep_cred (by simp [rx_keep])
  · split at h
    · injection h with h
      subst h
      exact rx_keep_cred (by simp [rx_keep])
    · simp only [Option.bind_eq_some] at h
      obtain ⟨am, ham, h⟩ := h
      refine rx_cred_trans ?_ (rx_keep_cred (header2_keep env _ _ _ _ h))
      intro L hI
      obtain ⟨a, ha, h1⟩ := alloc_inv ic.eng _ _ _ _ _ _ am hI ham
      have h2 : eng_inv am.1 (a :: L) :=
        inv_mono _ _ _ h1 (fun b => by
          rw [List.count_cons, List.count_cons, List.count_append]
          omega)
      have hm := makeroom_same ({ ic.ioq_rx with
        hbytes := hdr_hbytes (hdr_of_bytes (slice ic.ioq_rx.buf ic.ioq_rx.fifo_beg sizeof_head))
        abytes := DMSG_DOALIGN 32
          (hdr_aux_size (hdr_of_bytes (slice ic.ioq_rx.buf ic.ioq_rx.fifo_beg sizeof_head)))
        unaligned_aux_size :=
          hdr_aux_size (hdr_of_bytes (slice ic.ioq_rx.buf ic.ioq_rx.fifo_beg sizeof_head))
        msg := some am.2 } : dmsg_ioq)
        (hdr_hbytes (hdr_of_bytes (slice ic.ioq_rx.buf ic.ioq_rx.fifo_beg sizeof_head)))
      simp only [mcred, hm.2.2.2.1, Option.some_bind, ha, Option.toList_some, List.singleton_append]
      exact h2

theorem header1_cred (env : Env) (ic : dmsg_iocom) (bytes : Nat) (r : switch_result)
    (h : dmsg_ioq_read_HEADER1 env ic bytes = some r) : rx_cred ic r.ic := by
  unfold dmsg_ioq_read_HEADER1 at h
  simp only [] at h
  generalize hrd : (if bytes < sizeof_head then ioq_sock_read _ _
      else ({ ic := _, nmax := _, brk := false } : sock_read_result)) = rd at h
  have key : rx_keep ic rd.ic := by
    rw [← hrd]
    split
    · exact rx_keep_trans (makeroom_rx_keep _ _) (sock_read_keep _ _)
    · exact makeroom_rx_keep _ _
  split_ifs at h
  · injection h with h
    subst h
    exact rx_keep_cred key
  · injection h with h
    subst h
    exact rx_keep_cred (rx_keep_trans key (rx_keep_trans (decrypt_keep env _) (check_keep _ _)))
  · exact rx_cred_trans (rx_keep_cred (rx_keep_trans key (rx_keep_trans (decrypt_keep env _)
      (check_keep _ _)))) (header1_check_cred env _ _ _ h)

/-- The `switch` of `dmsg_ioq_read` keeps the accounting, the message under
construction holding its reference. -/
theorem switch_cred (env : Env) (ic : dmsg_iocom) (r : switch_result)
    (h : dmsg_ioq_read_switch env ic = some r) : rx_cred ic r.ic := by
  unfold dmsg_ioq_read_switch at h
  simp only [] at h
  split at h
  · exact header1_cred env _ _ _ h
  · exact rx_keep_cred (header2_keep env _ _ _ _ h)
  · exact rx_keep_cred (auxdata1_keep env _ _ _ h)
  · exact rx_keep_cred (auxdata2_keep env _ _ _ h)
  · injection h with h
    subst h
    exact rx_keep_cred (check_keep _ _)
theorem qcred_cons (m : dmsg_msg) (q : List dmsg_msg) :
    qcred (m :: q) = mcred (some m) ++ qcred q := by
  unfold qcred mcred
  cases h : m.state with
  | none => simp [List.filterMap_cons, h]
  | some a => simp [List.filterMap_cons, h]

theorem qcred_append (p q : List dmsg_msg) : qcred (p ++ q) = qcred p ++ qcred q := by
  unfold qcred
  exact List.filterMap_append _ _ _

theorem mcred_none : mcred none = [] := rfl

theorem mcred_state (m : dmsg_msg) (a : Nat) (h : m.state = some a) : mcred (some m) = [a] := by
  simp [mcred, h]

/-- The function `dmsg_iocom_drain` gives back the references of the messages
it frees. -/
theorem drain_fold_inv : ∀ (q : List dmsg_msg) (e e1 : dmsg_engine) (L : List Nat),
    eng_inv e (qcred q ++ L) → q.foldlM (fun e msg => dmsg_msg_free e msg) e = some e1 →
    eng_inv e1 L := by
  intro q
  induction q with
  | nil =>
    intro e e1 L hI h
    injection h with h
    subst h
    exact hI
  | cons m q ih =>
    intro e e1 L hI h
    rw [List.foldlM_cons] at h
    cases hf : dmsg_msg_free e m with
    | none =>
      rw [hf] at h
      exact absurd h (by simp)
    | some e2 =>
      rw [hf] at h
      have hst : ∃ a, m.state = some a := by
        unfold dmsg_msg_free at hf
        simp only [Option.bind_eq_bind, Option.bind_eq_some] at hf
        obtain ⟨a, ha, -⟩ := hf
        exact ⟨a, ha⟩
      obtain ⟨a, ha⟩ := hst
      rw [qcred_cons, mcred_state m a ha] at hI
      exact ih e2 e1 L (msg_free_inv e _ m a e2 hI ha hf) h

theorem drain_inv (ic ic1 : dmsg_iocom) (L : List Nat)
    (hI : eng_inv ic.eng (qcred ic.ioq_tx.msgq ++ L)) (h : dmsg_iocom_drain ic = some ic1) :
    eng_inv ic1.eng L ∧ ic1.ioq_tx.msgq = [] ∧ ic1.txmsgq = ic.txmsgq ∧
    ic1.ioq_tx.msg = ic.ioq_tx.msg := by
  unfold dmsg_iocom_drain at h
  simp only [Option.map_eq_some'] at h
  obtain ⟨e, he, h⟩ := h
  subst h
  exact ⟨drain_fold_inv _ _ _ L hI he, rfl, rfl, rfl⟩

/-- The error branch of `dmsg_ioq_read` gives back the references of the
message in hand and of the transmit queue. -/
theorem skip_inv (fuel : Nat) (ic ic3 : dmsg_iocom) (msg : Option dmsg_msg) (L : List Nat)
    (hI : eng_inv ic.eng (mcred msg ++ (qcred ic.ioq_tx.msgq ++ L)))
    (h : dmsg_ioq_read_skip fuel ic msg = some ic3) :
    eng_inv ic3.eng L ∧ ic3.ioq_tx.msgq = [] ∧ ic3.txmsgq = ic.txmsgq ∧
    ic3.ioq_tx.msg = ic.ioq_tx.msg := by
  unfold dmsg_ioq_read_skip at h
  simp only [Option.bind_eq_bind, Option.bind_eq_some, Option.pure_def] at h
  obtain ⟨ic1, h1, ic2, h2, e, he, h⟩ := h
  injection h with h
  subst h
  have k1 : eng_inv ic1.eng (qcred ic1.ioq_tx.msgq ++ L) ∧ ic1.txmsgq = ic.txmsgq ∧
      ic1.ioq_tx.msg = ic.ioq_tx.msg := by
    cases msg with
    | none =>
      simp only [] at h1
      injection h1 with h1
      subst h1
      exact ⟨hI, rfl, rfl⟩
    | some m =>
      simp only [Option.map_eq_some'] at h1
      obtain ⟨e2, he2, h1⟩ := h1
      subst h1
      have hst : ∃ a, m.state = some a := by
        unfold dmsg_msg_free at he2
        simp only [Option.bind_eq_bind, Option.bind_eq_some] at he2
        obtain ⟨a, ha, -⟩ := he2
        exact ⟨a, ha⟩
      obtain ⟨a, ha⟩ := hst
      rw [mcred_state m a ha] at hI
      exact ⟨msg_free_inv (ic.eng.check _) _ m a e2 hI ha he2, rfl, rfl⟩
  obtain ⟨k2, k3, k4, k5⟩ := drain_inv
    { ic1 with ioq_rx := { ic1.ioq_rx with state := .ERROR } } ic2 L k1.1 h2
  exact ⟨simulate_failure_inv fuel _ L 0 false _ e k2 he, k3, k4.trans k1.2.1,
    k5.trans k1.2.2⟩

theorem switch_credits (env : Env) (ic : dmsg_iocom) (sw : switch_result) (R : List Nat)
    (hI : eng_inv ic.eng (ic_credits ic ++ R)) (h : dmsg_ioq_read_switch env ic = some sw) :
    eng_inv sw.ic.eng (ic_credits sw.ic ++ R) := by
  have h1 := switch_cred env ic sw h
  have h2 := switch_same env ic sw h
  unfold ic_credits at hI ⊢
  rw [h2.1, h2.2.2.2.2.1, h2.2.2.2.2.2, List.append_assoc]
  rw [List.append_assoc] at hI
  exact h1 _ hI

theorem seq_credits (ic : dmsg_iocom) (msgp : Bool) :
    (dmsg_ioq_read_seq ic msgp).eng = ic.eng ∧
    ic_credits (dmsg_ioq_read_seq ic msgp) = ic_credits ic := by
  have h := seq_same ic msgp
  obtain ⟨h1, h2, h3, h4, h5, h6, h7, h8⟩ := h
  unfold ic_credits
  rw [h1, h3, h4, h5, h8]
  exact ⟨rfl, rfl⟩

theorem done_credits (ic : dmsg_iocom) :
    (dmsg_ioq_read_done ic).eng = ic.eng ∧ (dmsg_ioq_read_done ic).ioq_rx.msg = none ∧
    (dmsg_ioq_read_done ic).ioq_rx.msgq = ic.ioq_rx.msgq ∧
    (dmsg_ioq_read_done ic).ioq_tx = ic.ioq_tx ∧ (dmsg_ioq_read_done ic).txmsgq = ic.txmsgq := by
  unfold dmsg_ioq_read_done
  simp only []
  split <;> simp

/-- The function `dmsg_ioq_read` keeps the accounting; the message it returns
holds a reference on its state. -/
theorem read_inv : ∀ (fuel : Nat) (env : Env) (ic : dmsg_iocom) (R : List Nat)
    (r : dmsg_iocom × Option dmsg_msg),
    eng_inv ic.eng (ic_credits ic ++ R) → dmsg_ioq_read fuel env ic = some r →
    eng_inv r.1.eng (mcred r.2 ++ (ic_credits r.1 ++ R))
  | 0, _, _, _, _, _, h => by simp [dmsg_ioq_read] at h
  | fuel + 1, env, ic, R, r, hI, h => by
    rw [dmsg_ioq_read] at h
    cases hq : ic.ioq_rx.msgq with
    | cons m rest =>
      simp only [hq] at h
      have key : eng_inv ic.eng (mcred (some m) ++ (mcred ic.ioq_rx.msg ++
          (qcred rest ++ (qcred ic.ioq_tx.msgq ++ (qcred ic.txmsgq ++ mcred ic.ioq_tx.msg))) ++
          R)) := by
        refine inv_mono _ _ _ hI (fun b => ?_)
        simp only [ic_credits, hq, qcred_cons, List.count_append]
        omega
      split_ifs at h
      · injection h with h
        subst h
        exact key
      · injection h with h
        subst h
        exact key
    | nil =>
      simp only [hq] at h
      -- the error branch
      have hskip : ∀ (ic2 : dmsg_iocom) (msg : Option dmsg_msg),
          eng_inv ic2.eng (mcred msg ++ (qcred ic2.ioq_tx.msgq ++
            ((if msg.isSome then [] else mcred ic2.ioq_rx.msg) ++
              (qcred ic2.ioq_rx.msgq ++ (qcred ic2.txmsgq ++ (mcred ic2.ioq_tx.msg ++ R)))))) →
          ((dmsg_ioq_read_skip fuel ic2 msg).bind fun ic3 =>
            if ic3.ioq_rx.msgq ≠ [] then dmsg_ioq_read fuel env ic3 else some (ic3, none)) =
            some r →
          eng_inv r.1.eng (mcred r.2 ++ (ic_credits r.1 ++ R)) := by
        intro ic2 msg h2 hh
        simp only [Option.bind_eq_some] at hh
        obtain ⟨ic3, hs, hh⟩ := hh
        obtain ⟨k1, k2, k3, k6⟩ := skip_inv fuel ic2 ic3 msg _ h2 hs
        have k4 := (skip_rx _ _ _ _ hs).1
        have k5 : eng_inv ic3.eng (ic_credits ic3 ++ R) := by
          refine inv_mono _ _ _ k1 (fun b => ?_)
          cases msg with
          | none =>
            simp only [ic_credits, k2, k3, k4, k6, qcred, List.filterMap_nil, List.count_append,
              List.count_nil, Option.isSome_none, Bool.false_eq_true, if_false]
            omega
          | some m0 =>
            simp only [ic_credits, k2, k3, k4, k6, qcred, List.filterMap_nil, List.count_append,
              List.count_nil, Option.isSome_some, if_true, mcred_none]
            omega
        split_ifs at hh
        · exact read_inv fuel env ic3 R r k5 hh
        · injection hh with hh
          subst hh
          exact k5
      have hflag : ∀ (f : iocom_flags), eng_inv ({ ic with flags := f } : dmsg_iocom).eng
          (ic_credits ({ ic with flags := f } : dmsg_iocom) ++ R) := fun _ => hI
      by_cases he : ic.ioq_rx.error = 0
      · simp only [he, ne_eq, not_true_eq_false, if_false, Option.bind_eq_some] at h
        obtain ⟨sw, hsw, h⟩ := h
        have g1 := switch_credits env _ sw R (hflag _) hsw
        have g2 := seq_credits sw.ic sw.msgp
        have g3 : eng_inv (dmsg_ioq_read_seq sw.ic sw.msgp).eng
            (ic_credits (dmsg_ioq_read_seq sw.ic sw.msgp) ++ R) := by
          rw [g2.1, g2.2]
          exact g1
        generalize dmsg_ioq_read_seq sw.ic sw.msgp = ic3 at h g3
        by_cases he2 : ic3.ioq_rx.error = 0
        · simp only [he2, not_true_eq_false, if_false] at h
          split at h
          · injection h with h
            subst h
            exact g3
          · rename_i m hm
            simp only [Option.bind_eq_some] at h
            obtain ⟨rr, hrr, h⟩ := h
            have hd := done_credits ic3
            have hm1 : ic3.ioq_rx.msg = some m := by
              split_ifs at hm
              · exact hm
            have hst : ∃ a, m.state = some a := by
              unfold dmsg_state_msgrx at hrr
              simp only [Option.bind_eq_bind, Option.bind_eq_some] at hrr
              obtain ⟨a, ha, -⟩ := hrr
              exact ⟨a, ha⟩
            obtain ⟨a, ha⟩ := hst
            have g4 : eng_inv (dmsg_ioq_read_done ic3).eng
                (a :: (ic_credits (dmsg_ioq_read_done ic3) ++ R)) := by
              rw [hd.1]
              refine inv_mono _ _ _ g3 (fun b => ?_)
              simp only [ic_credits, hd.2.1, hd.2.2.1, hd.2.2.2.1, hd.2.2.2.2, hm1,
                mcred_state m a ha, List.count_append, List.count_cons, mcred_none,
                List.count_nil]
              omega
            obtain ⟨b1, hb1, g5⟩ := msgrx_inv _ _ m false a rr g4 ha hrr
            have g6 : ({ dmsg_ioq_read_done ic3 with eng := rr.eng } : dmsg_iocom).ioq_rx.msg =
                none := hd.2.1
            by_cases e1 : rr.error = 0
            · simp only [e1, not_true_eq_false, if_false] at h
              injection h with h
              subst h
              rw [mcred_state rr.msg b1 hb1]
              exact g5
            · simp only [e1, not_false_eq_true, if_true] at h
              by_cases e2 : rr.error = DMSG_IOQ_ERROR_EALREADY
              · simp only [e2, if_true, Option.bind_eq_some] at h
                obtain ⟨e1', hfree, h⟩ := h
                exact read_inv fuel env _ R r (msg_free_inv _ _ rr.msg b1 e1' g5 hb1 hfree) h
              · simp only [e2, if_false] at h
                refine hskip _ (some rr.msg) ?_ h
                refine inv_mono _ _ _ g5 (fun b => ?_)
                simp only [ic_credits, g6, mcred_state rr.msg b1 hb1, List.count_append,
                  List.count_cons, mcred_none, List.count_nil, Option.isSome_some, if_true]
                omega
        · simp only [he2, not_false_eq_true, if_true] at h
          refine hskip _ _ ?_ h
          refine inv_mono _ _ _ g3 (fun b => ?_)
          cases hp : sw.msgp
          · simp only [Bool.false_eq_true, if_false, Option.isSome_none, ic_credits, mcred_none,
              List.count_append, List.count_nil]
            omega
          · simp only [if_true, ic_credits, List.count_append]
            cases hmm : ic3.ioq_rx.msg with
            | none =>
              simp only [Option.isSome_none, Bool.false_eq_true, if_false, mcred_none,
                List.count_nil]
              omega
            | some m =>
              simp only [Option.isSome_some, if_true, List.count_nil]
              omega
      · simp only [ne_eq, he, not_false_eq_true, if_true] at h
        refine hskip _ none ?_ h
        refine inv_mono _ _ _ hI (fun b => ?_)
        simp only [ic_credits, mcred_none, List.count_append,
          List.count_nil, Option.isSome_none, Bool.false_eq_true, if_false]
        omega
theorem qcred_erase (q : List dmsg_msg) (m : dmsg_msg) (a b : Nat) (hm : m ∈ q)
    (ha : m.state = some a) :
    (qcred q).count b = (a :: qcred (q.erase m)).count b := by
  have hp : (qcred q).Perm (qcred (m :: q.erase m)) :=
    (List.perm_cons_erase hm).filterMap _
  rw [hp.count_eq, qcred_cons, mcred_state m a ha]
  rfl

theorem qcred_nil : qcred [] = [] := rfl

theorem init_inv (env : Env) (signal_func : Bool) (sock : List sock_event) (rand : List Nat) :
    eng_inv (conn_init env signal_func sock rand).ic.eng
      (conn_credits (conn_init env signal_func sock rand)) := by
  refine ⟨⟨?_, ?_, ?_, ?_, ?_, ?_, ?_, ?_, ?_⟩, rfl⟩
  · intro a ha
    have ha1 : 1 ≤ a := ha
    have h0 : a ≠ 0 := by omega
    simp [conn_init, dmsg_iocom_init, Function.update_noteq h0]
  · refine ⟨{ dmsg_state.zero with refs := 1, parent := some 0, flags := { ROOT := true } },
      ?_, rfl⟩
    simp [conn_init, dmsg_iocom_init]
  · intro a s hs
    by_cases h0 : a = 0
    · subst h0
      simp only [conn_init, dmsg_iocom_init, Function.update_same, Option.some.injEq] at hs
      subst hs
      simp [state_reasons, dmsg_state.zero, conn_credits, ic_credits, mcred, qcred,
        dmsg_ioq_init, conn_init, dmsg_iocom_init]
    · simp [conn_init, dmsg_iocom_init, Function.update_noteq h0] at hs
  · intro a s hs
    by_cases h0 : a = 0
    · subst h0
      simp only [conn_init, dmsg_iocom_init, Function.update_same, Option.some.injEq] at hs
      subst hs
      intro h
      cases h
    · simp [conn_init, dmsg_iocom_init, Function.update_noteq h0] at hs
  · intro a s hs
    by_cases h0 : a = 0
    · subst h0
      simp only [conn_init, dmsg_iocom_init, Function.update_same, Option.some.injEq] at hs
      subst hs
      rfl
    · simp [conn_init, dmsg_iocom_init, Function.update_noteq h0] at hs
  · intro m a h
    simp [conn_init, dmsg_iocom_init] at h
  · intro m a h
    simp [conn_init, dmsg_iocom_init] at h
  · intro a h
    simp [conn_init, dmsg_iocom_init, conn_credits, ic_credits, mcred, qcred, dmsg_ioq_init] at h
  · intro m a h
    simp [conn_init, dmsg_iocom_init] at h

theorem qcred_set : ∀ (q : List dmsg_msg) (i : Nat) (m0 m1 : dmsg_msg),
    q[i]? = some m0 → m1.state = m0.state → qcred (q.set i m1) = qcred q := by
  intro q
  induction q with
  | nil =>
    intro i m0 m1 h _
    simp at h
  | cons x q ih =>
    intro i m0 m1 h hst
    cases i with
    | zero =>
      simp only [List.getElem?_cons_zero, Option.some.injEq] at h
      subst h
      simp only [List.set_cons_zero, qcred_cons, mcred, Option.some_bind, hst]
    | succ n =>
      simp only [List.getElem?_cons_succ] at h
      simp only [List.set_cons_succ, qcred_cons, ih n m0 m1 h hst]

theorem flush1_fill_state (env : Env) (seq rnd : Nat) (msg : dmsg_msg) :
    (dmsg_iocom_flush1_fill env seq rnd msg).state = msg.state := rfl

theorem flush1_fold : ∀ (env : Env) (q : List dmsg_msg) (ic : dmsg_iocom),
    (q.foldl
      (fun ic1 msg =>
        if ic1.ioq_tx.error ≠ 0 then
          { ic1 with ioq_tx := { ic1.ioq_tx with msgq := ic1.ioq_tx.msgq ++ [msg]
                                                 msgcount := ic1.ioq_tx.msgcount + 1 } }
        else
          { ic1 with
            rand := ic1.rand.tail
            ioq_tx := { ic1.ioq_tx with
                        seq := ic1.ioq_tx.seq + 1
                        msgq := ic1.ioq_tx.msgq ++
                          [dmsg_iocom_flush1_fill env ic1.ioq_tx.seq (ic1.rand.headD 0) msg]
                        msgcount := ic1.ioq_tx.msgcount + 1 } }) ic).eng = ic.eng ∧
    (q.foldl
      (fun ic1 msg =>
        if ic1.ioq_tx.error ≠ 0 then
          { ic1 with ioq_tx := { ic1.ioq_tx with msgq := ic1.ioq_tx.msgq ++ [msg]
                                                 msgcount := ic1.ioq_tx.msgcount + 1 } }
        else
          { ic1 with
            rand := ic1.rand.tail
            ioq_tx := { ic1.ioq_tx with
                        seq := ic1.ioq_tx.seq + 1
                        msgq := ic1.ioq_tx.msgq ++
                          [dmsg_iocom_flush1_fill env ic1.ioq_tx.seq (ic1.rand.headD 0) msg]
                        msgcount := ic1.ioq_tx.msgcount + 1 } }) ic).ioq_rx = ic.ioq_rx ∧
    (q.foldl
      (fun ic1 msg =>
        if ic1.ioq_tx.error ≠ 0 then
          { ic1 with ioq_tx := { ic1.ioq_tx with msgq := ic1.ioq_tx.msgq ++ [msg]
                                                 msgcount := ic1.ioq_tx.msgcount + 1 } }
        else
          { ic1 with
            rand := ic1.rand.tail
            ioq_tx := { ic1.ioq_tx with
                        seq := ic1.ioq_tx.seq + 1
                        msgq := ic1.ioq_tx.msgq ++
                          [dmsg_iocom_flush1_fill env ic1.ioq_tx.seq (ic1.rand.headD 0) msg]
                        msgcount := ic1.ioq_tx.msgcount + 1 } }) ic).txmsgq = ic.txmsgq ∧
    (q.foldl
      (fun ic1 msg =>
        if ic1.ioq_tx.error ≠ 0 then
          { ic1 with ioq_tx := { ic1.ioq_tx with msgq := ic1.ioq_tx.msgq ++ [msg]
                                                 msgcount := ic1.ioq_tx.msgcount + 1 } }
        else
          { ic1 with
            rand := ic1.rand.tail
            ioq_tx := { ic1.ioq_tx with
                        seq := ic1.ioq_tx.seq + 1
                        msgq := ic1.ioq_tx.msgq ++
                          [dmsg_iocom_flush1_fill env ic1.ioq_tx.seq (ic1.rand.headD 0) msg]
                        msgcount := ic1.ioq_tx.msgcount + 1 } }) ic).ioq_tx.msg =
      ic.ioq_tx.msg ∧
    qcred (q.foldl
      (fun ic1 msg =>
        if ic1.ioq_tx.error ≠ 0 then
          { ic1 with ioq_tx := { ic1.ioq_tx with msgq := ic1.ioq_tx.msgq ++ [msg]
                                                 msgcount := ic1.ioq_tx.msgcount + 1 } }
        else
          { ic1 with
            rand := ic1.rand.tail
            ioq_tx := { ic1.ioq_tx with
                        seq := ic1.ioq_tx.seq + 1
                        msgq := ic1.ioq_tx.msgq ++
                          [dmsg_iocom_flush1_fill env ic1.ioq_tx.seq (ic1.rand.headD 0) msg]
                        msgcount := ic1.ioq_tx.msgcount + 1 } }) ic).ioq_tx.msgq =
      qcred ic.ioq_tx.msgq ++ qcred q := by
  intro env q
  induction q with
  | nil =>
    intro ic
    simp [qcred_nil]
  | cons m q ih =>
    intro ic
    rw [List.foldl_cons]
    by_cases he : ic.ioq_tx.error ≠ 0
    · rw [if_pos he]
      obtain ⟨h1, h2, h3, h5, h4⟩ := ih { ic with ioq_tx := { ic.ioq_tx with
        msgq := ic.ioq_tx.msgq ++ [m], msgcount := ic.ioq_tx.msgcount + 1 } }
      refine ⟨h1, h2, h3, h5, ?_⟩
      rw [h4, qcred_append, qcred_cons, qcred_cons, qcred_nil, List.append_nil,
        List.append_assoc]
    · rw [if_neg he]
      obtain ⟨h1, h2, h3, h5, h4⟩ := ih { ic with
        rand := ic.rand.tail
        ioq_tx := { ic.ioq_tx with
                    seq := ic.ioq_tx.seq + 1
                    msgq := ic.ioq_tx.msgq ++
                      [dmsg_iocom_flush1_fill env ic.ioq_tx.seq (ic.rand.headD 0) m]
                    msgcount := ic.ioq_tx.msgcount + 1 } }
      refine ⟨h1, h2, h3, h5, ?_⟩
      rw [h4, qcred_append, qcred_cons, qcred_cons, qcred_nil, List.append_nil,
        List.append_assoc]
      simp only [mcred, Option.some_bind, flush1_fill_state]

/-- The function `dmsg_iocom_flush1` moves the references of `txmsgq` to the
transmit queue. -/
theorem flush1_credits (env : Env) (ic : dmsg_iocom) :
    (dmsg_iocom_flush1_queue env ic).eng = ic.eng ∧
    (dmsg_iocom_flush1_queue env ic).ioq_rx = ic.ioq_rx ∧
    (dmsg_iocom_flush1_queue env ic).txmsgq = [] ∧
    (dmsg_iocom_flush1_queue env ic).ioq_tx.msg = ic.ioq_tx.msg ∧
    qcred (dmsg_iocom_flush1_queue env ic).ioq_tx.msgq =
      qcred ic.ioq_tx.msgq ++ qcred ic.txmsgq := by
  unfold dmsg_iocom_flush1_queue
  exact flush1_fold env ic.txmsgq
    { ic with flags := { ic.flags with WREQ := false, WWORK := false }, txmsgq := [] }

theorem ioq_done_fold_inv : ∀ (q : List dmsg_msg) (e e1 : dmsg_engine) (L : List Nat),
    eng_inv e (qcred q ++ L) →
    q.foldlM (fun ea msg => dmsg_msg_free (ea.check false) msg) e = some e1 →
    eng_inv e1 L := by
  intro q
  induction q with
  | nil =>
    intro e e1 L hI h
    injection h with h
    subst h
    exact hI
  | cons m q ih =>
    intro e e1 L hI h
    rw [List.foldlM_cons] at h
    cases hf : dmsg_msg_free (e.check false) m with
    | none =>
      rw [hf] at h
      exact absurd h (by simp)
    | some e2 =>
      rw [hf] at h
      have hst : ∃ a, m.state = some a := by
        unfold dmsg_msg_free at hf
        simp only [Option.bind_eq_bind, Option.bind_eq_some] at hf
        obtain ⟨a, ha, -⟩ := hf
        exact ⟨a, ha⟩
      obtain ⟨a, ha⟩ := hst
      rw [qcred_cons, mcred_state m a ha] at hI
      exact ih e2 e1 L (msg_free_inv (e.check false) _ m a e2 hI ha hf) h

/-- The function `dmsg_ioq_done` gives back the references of the messages of
the IOQ. -/
theorem ioq_done_inv (e : dmsg_engine) (ioq : dmsg_ioq) (r : dmsg_engine × dmsg_ioq)
    (L : List Nat) (hI : eng_inv e (mcred ioq.msg ++ (qcred ioq.msgq ++ L)))
    (h : dmsg_ioq_done e ioq = some r) :
    eng_inv r.1 L ∧ r.2.msg = none ∧ r.2.msgq = [] := by
  unfold dmsg_ioq_done at h
  simp only [Option.bind_eq_bind, Option.bind_eq_some, Option.pure_def] at h
  obtain ⟨e1, he1, h⟩ := h
  have h1 : eng_inv e1 (mcred ioq.msg ++ L) := by
    refine ioq_done_fold_inv ioq.msgq e e1 _ ?_ he1
    refine inv_mono _ _ _ hI (fun b => ?_)
    simp only [List.count_append]
    omega
  cases hm : ioq.msg with
  | none =>
    rw [hm] at h h1
    simp only [] at h
    injection h with h
    subst h
    exact ⟨h1, rfl, rfl⟩
  | some m =>
    rw [hm] at h h1
    simp only [Option.map_eq_some'] at h
    obtain ⟨e2, he2, rfl⟩ := h
    have hst : ∃ a, m.state = some a := by
      unfold dmsg_msg_free at he2
      simp only [Option.bind_eq_bind, Option.bind_eq_some] at he2
      obtain ⟨a, ha, -⟩ := he2
      exact ⟨a, ha⟩
    obtain ⟨a, ha⟩ := hst
    rw [mcred_state m a ha] at h1
    exact ⟨msg_free_inv e1 L m a e2 h1 ha he2, rfl, rfl⟩

/-- Every call on a connection keeps the accounting. -/
theorem apply_inv (fuel : Nat) (env : Env) (c c1 : conn) (op : conn_op)
    (hI : eng_inv c.ic.eng (conn_credits c)) (h : conn_apply fuel env c op = some c1) :
    eng_inv c1.ic.eng (conn_credits c1) := by
  cases op with
  | alloc state aux_size cmd func data =>
    simp only [conn_apply, Option.map_eq_some'] at h
    obtain ⟨r, hr, rfl⟩ := h
    obtain ⟨a, ha, h1⟩ := alloc_inv _ _ _ _ _ _ _ r hI hr
    refine inv_mono _ _ _ h1 (fun b => ?_)
    simp only [conn_credits, ic_credits, qcred_cons, mcred_state r.2 a ha, List.count_append,
      List.count_cons, List.count_nil]
    omega
  | write i =>
    simp only [conn_apply, Option.bind_eq_some, Option.map_eq_some'] at h
    obtain ⟨m, hm, ic1, hw, rfl⟩ := h
    have hmem : m ∈ c.held := List.getElem?_mem hm
    have hst : ∃ a, m.state = some a := by
      unfold dmsg_msg_write at hw
      simp only [Option.bind_eq_bind, Option.bind_eq_some] at hw
      obtain ⟨a, ha, -⟩ := hw
      exact ⟨a, ha⟩
    obtain ⟨a, ha⟩ := hst
    have h0 : eng_inv c.ic.eng (a :: (ic_credits c.ic ++ (qcred (c.held.erase m) ++ c.refs))) := by
      refine inv_mono _ _ _ hI (fun b => ?_)
      have := qcred_erase c.held m a b hmem ha
      simp only [conn_credits, List.count_append, List.count_cons] at this ⊢
      omega
    obtain ⟨h1, h2, h3⟩ := write_inv fuel c.ic _ m a ic1 h0 ha hw
    rcases h1 with ⟨g1, g2⟩ | ⟨m1, g1, g2, g3⟩
    · refine inv_mono _ _ _ g2 (fun b => ?_)
      simp only [conn_credits, ic_credits, h2, h3, g1]
      exact le_refl _
    · refine inv_mono _ _ _ g3 (fun b => ?_)
      simp only [conn_credits, ic_credits, h2, h3, g2, qcred_append, qcred_cons,
        mcred_state m1 a g1, List.count_append, List.count_cons, List.count_nil, qcred_nil]
      omega
  | free i =>
    simp only [conn_apply, Option.bind_eq_some, Option.map_eq_some'] at h
    obtain ⟨m, hm, e, hw, rfl⟩ := h
    have hmem : m ∈ c.held := List.getElem?_mem hm
    have hst : ∃ a, m.state = some a := by
      unfold dmsg_msg_free at hw
      simp only [Option.bind_eq_bind, Option.bind_eq_some] at hw
      obtain ⟨a, ha, -⟩ := hw
      exact ⟨a, ha⟩
    obtain ⟨a, ha⟩ := hst
    have h0 : eng_inv c.ic.eng (a :: (ic_credits c.ic ++ (qcred (c.held.erase m) ++ c.refs))) := by
      refine inv_mono _ _ _ hI (fun b => ?_)
      have := qcred_erase c.held m a b hmem ha
      simp only [conn_credits, List.count_append, List.count_cons] at this ⊢
      omega
    exact msg_free_inv _ _ m a e h0 ha hw
  | cleanuprx i =>
    simp only [conn_apply, Option.bind_eq_some, Option.map_eq_some'] at h
    obtain ⟨m, hm, e, hw, rfl⟩ := h
    have hmem : m ∈ c.held := List.getElem?_mem hm
    have hst : ∃ a, m.state = some a := by
      unfold dmsg_state_cleanuprx at hw
      simp only [Option.bind_eq_bind, Option.bind_eq_some] at hw
      obtain ⟨a, ha, -⟩ := hw
      exact ⟨a, ha⟩
    obtain ⟨a, ha⟩ := hst
    have h0 : eng_inv c.ic.eng (a :: (ic_credits c.ic ++ (qcred (c.held.erase m) ++ c.refs))) := by
      refine inv_mono _ _ _ hI (fun b => ?_)
      have := qcred_erase c.held m a b hmem ha
      simp only [conn_credits, List.count_append, List.count_cons] at this ⊢
      omega
    exact cleanuprx_inv _ _ m a e h0 ha hw
  | reply state error =>
    simp only [conn_apply, Option.map_eq_some', dmsg_state_reply] at h
    obtain ⟨ic1, hw, rfl⟩ := h
    obtain ⟨h1, h2, h3⟩ := reply_cmd_inv fuel c.ic _ _ _ _ ic1 hI hw
    rcases h1 with ⟨g1, g2⟩ | ⟨m1, a, g1, g2, g3⟩
    · refine inv_mono _ _ _ g2 (fun b => ?_)
      simp only [conn_credits, ic_credits, h2, h3, g1]
      exact le_refl _
    · refine inv_mono _ _ _ g3 (fun b => ?_)
      simp only [conn_credits, ic_credits, h2, h3, g2, qcred_append, qcred_cons,
        mcred_state m1 a g1, List.count_append, List.count_cons, List.count_nil, qcred_nil]
      omega
  | result state error =>
    simp only [conn_apply, Option.map_eq_some', dmsg_state_result] at h
    obtain ⟨ic1, hw, rfl⟩ := h
    obtain ⟨h1, h2, h3⟩ := reply_cmd_inv fuel c.ic _ _ _ _ ic1 hI hw
    rcases h1 with ⟨g1, g2⟩ | ⟨m1, a, g1, g2, g3⟩
    · refine inv_mono _ _ _ g2 (fun b => ?_)
      simp only [conn_credits, ic_credits, h2, h3, g1]
      exact le_refl _
    · refine inv_mono _ _ _ g3 (fun b => ?_)
      simp only [conn_credits, ic_credits, h2, h3, g2, qcred_append, qcred_cons,
        mcred_state m1 a g1, List.count_append, List.count_cons, List.count_nil, qcred_nil]
      omega
  | read =>
    simp only [conn_apply, Option.map_eq_some'] at h
    obtain ⟨r, hr, rfl⟩ := h
    have h1 := read_inv fuel env c.ic _ r hI hr
    refine inv_mono _ _ _ h1 (fun b => ?_)
    cases hr2 : r.2 with
    | none =>
      simp only [conn_credits, mcred_none, Option.toList_none, List.nil_append,
        List.count_append, List.count_nil]
      omega
    | some m =>
      simp only [conn_credits, Option.toList_some, List.singleton_append, qcred_cons,
        List.count_append]
      omega
  | fill i m =>
    simp only [conn_apply, Option.map_eq_some'] at h
    obtain ⟨m0, hm0, rfl⟩ := h
    have hq := qcred_set c.held i m0 { m with state := m0.state } hm0 rfl
    unfold conn_credits at hI ⊢
    rw [hq]
    exact hI
  | flush1 =>
    simp only [conn_apply, Option.some.injEq] at h
    subst h
    obtain ⟨h1, h2, h3, h5, h4⟩ := flush1_credits env c.ic
    simp only [h1]
    refine inv_mono _ _ _ hI (fun b => ?_)
    simp only [conn_credits, ic_credits, h2, h3, h4, h5, qcred_nil, List.count_append,
      List.count_nil]
    omega
  | sent =>
    simp only [conn_apply, Option.map_eq_some'] at h
    obtain ⟨ic1, hw, rfl⟩ := h
    unfold dmsg_iocom_flush2_retire at hw
    cases hq : c.ic.ioq_tx.msgq with
    | nil =>
      rw [hq] at hw
      cases hw
    | cons m rest =>
      rw [hq] at hw
      simp only [Option.map_eq_some'] at hw
      obtain ⟨e, hw, rfl⟩ := hw
      have hst : ∃ a, m.state = some a := by
        unfold dmsg_msg_free at hw
        simp only [Option.bind_eq_bind, Option.bind_eq_some] at hw
        obtain ⟨a, ha, -⟩ := hw
        exact ⟨a, ha⟩
      obtain ⟨a, ha⟩ := hst
      refine msg_free_inv _ _ m a e ?_ ha hw
      refine inv_mono _ _ _ hI (fun b => ?_)
      simp only [conn_credits, ic_credits, hq, qcred_cons, mcred_state m a ha,
        List.count_append, List.count_cons, List.count_nil]
      omega
  | drain =>
    simp only [conn_apply, Option.map_eq_some'] at h
    obtain ⟨ic1, hw, rfl⟩ := h
    have hrx := (drain_rx _ _ hw).1
    obtain ⟨h1, h2, h3, h4⟩ := drain_inv c.ic ic1
      (mcred c.ic.ioq_rx.msg ++ (qcred c.ic.ioq_rx.msgq ++ (qcred c.ic.txmsgq ++
        (mcred c.ic.ioq_tx.msg ++ (qcred c.held ++ c.refs)))))
      (inv_mono _ _ _ hI (fun b => by
        simp only [conn_credits, ic_credits, List.count_append]
        omega)) hw
    refine inv_mono _ _ _ h1 (fun b => ?_)
    simp only [conn_credits, ic_credits, hrx, h2, h3, h4, qcred_nil, List.count_append,
      List.count_nil]
    omega
  | done =>
    simp only [conn_apply, Option.map_eq_some'] at h
    obtain ⟨ic1, hw, rfl⟩ := h
    unfold dmsg_iocom_done at hw
    simp only [Option.bind_eq_bind, Option.bind_eq_some, Option.pure_def,
      Option.some.injEq] at hw
    obtain ⟨r, hr, t, ht, rfl⟩ := hw
    obtain ⟨h1, h2, h3⟩ := ioq_done_inv c.ic.eng c.ic.ioq_rx r
      (mcred c.ic.ioq_tx.msg ++ (qcred c.ic.ioq_tx.msgq ++ (qcred c.ic.txmsgq ++
        (qcred c.held ++ c.refs))))
      (inv_mono _ _ _ hI (fun b => by
        simp only [conn_credits, ic_credits, List.count_append]
        omega)) hr
    obtain ⟨g1, g2, g3⟩ := ioq_done_inv r.1 c.ic.ioq_tx t _ h1 ht
    refine inv_mono _ _ _ g1 (fun b => ?_)
    simp only [conn_credits, ic_credits, h2, h3, g2, g3, mcred_none, qcred_nil,
      List.count_append, List.count_nil]
    omega
  | hold state =>
    simp only [conn_apply, Option.map_eq_some'] at h
    obtain ⟨e, hw, rfl⟩ := h
    have h1 := hold_inv _ _ state e hI hw
    refine inv_mono _ _ _ h1 (fun b => ?_)
    simp only [conn_credits, ic_credits, List.count_append, List.count_cons]
    omega
  | drop i =>
    simp only [conn_apply, Option.bind_eq_some, Option.map_eq_some'] at h
    obtain ⟨a, hm, e, hw, rfl⟩ := h
    have hmem : a ∈ c.refs := List.getElem?_mem hm
    refine drop_inv _ _ a e ?_ hw
    refine inv_mono _ _ _ hI (fun b => ?_)
    have hp := (List.perm_cons_erase hmem).count_eq b
    simp only [conn_credits, ic_credits, List.count_append, List.count_cons] at hp ⊢
    omega

theorem run_inv (fuel : Nat) (env : Env) : ∀ (ops : List conn_op) (c c1 : conn),
    eng_inv c.ic.eng (conn_credits c) → conn_run fuel env ops c = some c1 →
    eng_inv c1.ic.eng (conn_credits c1) := by
  intro ops
  induction ops with
  | nil =>
    intro c c1 hI h
    simp only [conn_run, Option.some.injEq] at h
    subst h
    exact hI
  | cons op ops ih =>
    intro c c1 hI h
    simp only [conn_run, Option.bind_eq_some] at h
    obtain ⟨c2, h2, h⟩ := h
    exact ih c2 c1 (apply_inv fuel env c c2 op hI h2) h
/-- What the history variable `free_failed` records: a call of
`dmsg_state_drop` that takes the last reference of a state runs
`dmsg_state_free` and sets the variable when the state is the root, is still
flagged `SUBINSERTED` or `RBINSERTED`, or has a queue that is not empty; a
call that leaves a reference does not touch it. -/
theorem free_failed_records (e e1 : dmsg_engine) (a : Nat) (s : dmsg_state)
    (hs : e.heap a = some s) (h : dmsg_state_drop e a = some e1) :
    e1.free_failed =
      if s.refs = 1 then
        (e.free_failed || s.flags.ROOT || s.flags.SUBINSERTED || s.flags.RBINSERTED ||
          !s.subq.isEmpty)
      else e.free_failed := by
  unfold dmsg_state_drop at h
  simp only [hs, Option.bind_eq_bind, Option.some_bind, Option.pure_def] at h
  by_cases h1 : s.refs = 1
  · rw [if_pos h1] at h ⊢
    unfold dmsg_state_free at h
    simp only [dmsg_engine.put, dmsg_engine.check, Function.update_same, Option.bind_eq_bind,
      Option.some_bind, Option.pure_def, Option.some.injEq] at h
    subst h
    simp only [h1]
    cases e.free_failed <;> cases s.flags.ROOT <;> cases s.flags.SUBINSERTED <;>
      cases s.flags.RBINSERTED <;> cases s.subq.isEmpty <;> rfl
  · rw [if_neg h1] at h ⊢
    injection h with h
    subst h
    rfl

/-- The history variable on an engine that breaks the accounting: the state at
address 1 of `ex_eng_underheld` is freed while it is on the queue of `state0`
and in the tree, and `free_failed` is set. -/
theorem free_failed_example :
    (dmsg_state_drop ex_eng_underheld 1).map
      (fun e => (e.free_failed, (e.heap 1).isSome, e.assert_failed)) =
    some (true, false, true) := by
  decide!

/-- C16. In every connection reached from `dmsg_iocom_init` by calls of the
public operations (`dmsg_msg_alloc`, the user filling in a message,
`dmsg_msg_write`, `dmsg_msg_free`, `dmsg_state_reply`, `dmsg_state_result`,
`dmsg_ioq_read` with the `dmsg_state_cleanuprx` that ends a delivery,
`dmsg_iocom_flush1`, `dmsg_iocom_flush2` retiring a message,
`dmsg_iocom_drain`, `dmsg_iocom_done`, `dmsg_state_hold` and a matching
`dmsg_state_drop`), one call after the other and with a callback in
`dmsg_state_abort` that only records the message, every run of
`dmsg_state_free` so far was on a state that is not the root, has neither
`SUBINSERTED` nor `RBINSERTED` set, has an empty `subq` and `refs == 0` (the
history variable `free_failed` is clear), and `state0` is allocated, is the
root and has at least one reference: it was never freed.  The last assertion
of `dmsg_state_free`, on the cookie `any.any` that the user attaches and
clears, is not part of the statement. -/
theorem free_assertions_hold (fuel : Nat) (env : Env) (signal_func : Bool)
    (sock : List sock_event) (rand : List Nat) (ops : List conn_op) (c : conn)
    (h : conn_run fuel env ops (conn_init env signal_func sock rand) = some c) :
    c.ic.eng.free_failed = false ∧
    ∃ s0, c.ic.eng.heap 0 = some s0 ∧ s0.flags.ROOT = true ∧ 1 ≤ s0.refs := by
  have hI := run_inv fuel env ops _ c (init_inv env signal_func sock rand) h
  refine ⟨hI.2, ?_⟩
  obtain ⟨s0, hs0, hr⟩ := hI.1.root
  refine ⟨s0, hs0, hr, ?_⟩
  have h1 := hI.1.refs 0 s0 hs0
  simp only [state_reasons, hr, Bool.toNat_true] at h1
  omega

/-- C16 (witness). The one-shot transaction of `ex_conn_fresh` runs its whole
life: the state created at address 1 is freed when the reply is retired, with
the assertions of `dmsg_state_free` satisfied, and `state0` stays. -/
theorem free_assertions_hold_witness :
    ∃ c, conn_run 5 ex_env ex_ops_oneshot ex_conn_fresh = some c ∧
      free_view_of c = { free_failed := false, dmsg_state_count := 0, live0 := true
                         live1 := false, brk := 2, txlen := 0, held := 0 } ∧
      c.ic.eng.free_failed = false ∧
      ∃ s0, c.ic.eng.heap 0 = some s0 ∧ s0.flags.ROOT = true ∧ 1 ≤ s0.refs := by
  cases h : conn_run 5 ex_env ex_ops_oneshot ex_conn_fresh with
  | none =>
    have h2 : (conn_run 5 ex_env ex_ops_oneshot ex_conn_fresh).isSome = true := by decide!
    rw [h] at h2
    cases h2
  | some c =>
    have h3 : (conn_run 5 ex_env ex_ops_oneshot ex_conn_fresh).map free_view_of =
        some { free_failed := false, dmsg_state_count := 0, live0 := true
               live1 := false, brk := 2, txlen := 0, held := 0 } := by
      decide!
    rw [h] at h3
    exact ⟨c, rfl, Option.some.inj h3,
      free_assertions_hold 5 ex_env false _ [] ex_ops_oneshot c h⟩

/-- What `dmsg_state_drop` leaves at the address it works on: nothing, or the
state with one reference less. -/
theorem drop_at (e e1 : dmsg_engine) (a : Nat) (s s1 : dmsg_state) (hs : e.heap a = some s)
    (h : dmsg_state_drop e a = some e1) (h1 : e1.heap a = some s1) :
    s1 = { s with refs := s.refs - 1 } := by
  unfold dmsg_state_drop at h
  simp only [hs, Option.bind_eq_bind, Option.some_bind, Option.pure_def] at h
  by_cases hr : s.refs = 1
  · rw [if_pos hr] at h
    unfold dmsg_state_free at h
    simp only [put_heap_same, Option.bind_eq_bind, Option.some_bind, Option.pure_def,
      Option.some.injEq] at h
    subst h
    simp only [Function.update_same] at h1
    cases h1
  · rw [if_neg hr] at h
    injection h with h
    subst h
    rw [put_heap_same] at h1
    injection h1 with h1
    exact h1.symm

/-- The end of `dmsg_state_msgrx` assigns `tcmd` from the command, the `ROOT`
flag of `msg->state` and the `icmd` of the local state; it leaves the rest of
the message and the error code alone, and the local state, if it is still
allocated, keeps its `icmd` and its `ROOT` flag. -/
theorem adjust_tcmd (l : msgrx_locals) (r : msgrx_result)
    (h : dmsg_state_msgrx_adjust l = some r) :
    ∃ mst ms st, l.msg.state = some mst ∧ l.eng.heap mst = some ms ∧
      l.eng.heap l.state = some st ∧
      r.msg = { l.msg with
        tcmd := dmsg_state_msgrx_tcmd l.msg.head.cmd ms.flags.ROOT st.icmd } ∧
      r.error = l.error ∧
      ∀ s, r.eng.heap l.state = some s → s.icmd = st.icmd ∧ s.flags.ROOT = st.flags.ROOT := by
  unfold dmsg_state_msgrx_adjust at h
  simp only [Option.bind_eq_bind, Option.bind_eq_some, Option.pure_def] at h
  obtain ⟨mst, hmst, ms, hms, st, hst, h⟩ := h
  refine ⟨mst, ms, st, hmst, hms, hst, ?_⟩
  by_cases hR : st.flags.ROOT = true
  · rw [if_pos hR] at h
    injection h with h
    subst h
    refine ⟨rfl, rfl, fun s hs => ?_⟩
    rw [check_heap, hst] at hs
    injection hs with hs
    subst hs
    exact ⟨rfl, rfl⟩
  · rw [if_neg hR] at h
    by_cases hD : l.msg.head.cmd &&& DMSGF_DELETE ≠ 0
    · rw [if_pos hD] at h
      by_cases hT : (st.rxcmd ||| DMSGF_DELETE : Nat) = st.rxcmd ||| DMSGF_DELETE ∧
          st.txcmd &&& DMSGF_DELETE ≠ 0
      · rw [if_pos hT.2] at h
        simp only [Option.map_eq_some'] at h
        obtain ⟨e9, he9, h⟩ := h
        subst h
        refine ⟨rfl, rfl, fun s hs => ?_⟩
        unfold dmsg_state_msgrx_remove at he9
        simp only [Option.bind_eq_bind, Option.bind_eq_some] at he9
        obtain ⟨e7, -, he9⟩ := he9
        have := drop_at _ _ _ _ s (put_heap_same _ _ _) he9 hs
        subst this
        exact ⟨rfl, rfl⟩
      · have hT1 : ¬ (st.txcmd &&& DMSGF_DELETE ≠ 0) := fun hc => hT ⟨rfl, hc⟩
        rw [if_neg hT1] at h
        injection h with h
        subst h
        refine ⟨rfl, rfl, fun s hs => ?_⟩
        rw [put_heap_same] at hs
        injection hs with hs
        subst hs
        exact ⟨rfl, rfl⟩
    · rw [if_neg hD] at h
      injection h with h
      subst h
      refine ⟨rfl, rfl, fun s hs => ?_⟩
      rw [check_heap, hst] at hs
      injection hs with hs
      subst hs
      exact ⟨rfl, rfl⟩

/-- The case `CREATE` of `dmsg_state_msgrx` binds the message to the new
state, which becomes the local state, and keeps its header. -/
theorem create_msg (e : dmsg_engine) (msg : dmsg_msg) (p : Nat) (l : msgrx_locals)
    (h : dmsg_state_msgrx_create e msg p = some l) :
    l.msg.head = msg.head ∧ (l.msg.state = some l.state ∨ (l.msg = msg ∧ l.state = p)) := by
  unfold dmsg_state_msgrx_create at h
  simp only [Option.bind_eq_bind, Option.bind_eq_some, Option.pure_def] at h
  obtain ⟨eb, -, ps, -, h⟩ := h
  by_cases hq : ps.subq.isEmpty = true
  · rw [if_pos hq] at h
    simp only [Option.bind_eq_some] at h
    obtain ⟨ee, -, ps1, -, s1, -, eh, -, ei, -, ej, -, ps2, -, s2, -, h⟩ := h
    injection h with h
    subst h
    exact ⟨rfl, Or.inl rfl⟩
  · rw [if_neg hq] at h
    simp only [Option.bind_eq_some] at h
    obtain ⟨ee, -, ps1, -, s1, -, eh, -, ei, -, ej, -, ps2, -, s2, -, h⟩ := h
    injection h with h
    subst h
    exact ⟨rfl, Or.inl rfl⟩

/-- A branch of the `switch` of `dmsg_state_msgrx` that only sets the error. -/
theorem out_msg (e : dmsg_engine) (msg : dmsg_msg) (state err : Nat) (l : msgrx_locals)
    (h : (some { eng := e, msg := msg, state := state, error := err } : Option msgrx_locals) =
      some l) :
    l.msg.head = msg.head ∧ (l.msg.state = some l.state ∨ (l.msg = msg ∧ l.state = state)) := by
  injection h with h
  subst h
  exact ⟨rfl, Or.inr ⟨rfl, rfl⟩⟩

/-- The `switch` of `dmsg_state_msgrx` keeps the header of the message; it
either binds the message to the local state it leaves (a new transaction) or
leaves the message and the local state as they are. -/
theorem switch_msg (e : dmsg_engine) (msg : dmsg_msg) (state : Nat) (pstate : Option Nat)
    (l : msgrx_locals) (h : dmsg_state_msgrx_switch e msg state pstate = some l) :
    l.msg.head = msg.head ∧ (l.msg.state = some l.state ∨ (l.msg = msg ∧ l.state = state)) := by
  unfold dmsg_state_msgrx_switch at h
  simp only [] at h
  split_ifs at h
  all_goals first
    | exact create_msg _ _ _ l h
    | exact out_msg _ _ _ _ l h
    | (simp only [Option.bind_eq_some] at h
       obtain ⟨st, -, h⟩ := h
       first
         | exact out_msg _ _ _ _ l h
         | (split_ifs at h <;> exact out_msg _ _ _ _ l h))

/-- The step of `dmsg_state_msgrx` before the `switch` keeps the header of the
message; the message is bound to the local state, or no state was found for a
message from the wire, which stays as it is. -/
theorem assign_msg (e : dmsg_engine) (msg : dmsg_msg) (mstate : Bool) (mst : Nat)
    (pstate found : Option Nat) (a : dmsg_engine × dmsg_msg × Option Nat)
    (hm : msg.state = some mst)
    (h : dmsg_state_msgrx_assign e msg mstate mst pstate found = some a) :
    a.2.1.head = msg.head ∧ (a.2.1.state = a.2.2 ∨ (mstate = false ∧ a.2.1 = msg)) := by
  unfold dmsg_state_msgrx_assign at h
  by_cases hms : mstate = true
  · rw [if_pos hms] at h
    injection h with h
    subst h
    exact ⟨rfl, Or.inl hm⟩
  · rw [if_neg hms] at h
    cases found with
    | none =>
      injection h with h
      subst h
      exact ⟨rfl, Or.inr ⟨by simpa using hms, rfl⟩⟩
    | some st =>
      simp only [Option.bind_eq_bind, Option.bind_eq_some, Option.pure_def] at h
      obtain ⟨e1, -, e2, -, sst, -, h⟩ := h
      injection h with h
      subst h
      exact ⟨rfl, Or.inl rfl⟩

/-- The circuit lookup for a message from the wire does not look at the state
of the message. -/
theorem circuit_wire (e : dmsg_engine) (msg : dmsg_msg) (ms ms1 : dmsg_state) :
    dmsg_state_msgrx_circuit e msg false ms = dmsg_state_msgrx_circuit e msg false ms1 := by
  simp [dmsg_state_msgrx_circuit]

/-- The shape of a run of `dmsg_state_msgrx` that found its circuit: the
locals after the `switch` satisfy the accounting, the header is the one
received, the message is bound to the local state unless it is a message from
the wire left on its dummy state, and the end of the function computes `tcmd`
from them. -/
theorem msgrx_shape (e : dmsg_engine) (L : List Nat) (msg : dmsg_msg) (mstate : Bool) (b : Nat)
    (r : msgrx_result) (hI : eng_inv e (b :: L)) (hm : msg.state = some b)
    (hc : ∀ ms, dmsg_state_msgrx_circuit e msg mstate ms ≠ none)
    (h : dmsg_state_msgrx e msg mstate = some r) :
    ∃ l b1, l.msg.state = some b1 ∧ eng_inv l.eng (b1 :: L) ∧ l.msg.head = msg.head ∧
      (b1 = l.state ∨ (mstate = false ∧ b1 = b)) ∧ dmsg_state_msgrx_adjust l = some r := by
  unfold dmsg_state_msgrx at h
  simp only [Option.bind_eq_bind, Option.bind_eq_some] at h
  obtain ⟨mst, hmst, ms, -, h⟩ := h
  rw [hm] at hmst
  injection hmst with hmst
  subst hmst
  cases hcirc : dmsg_state_msgrx_circuit e msg mstate ms with
  | none => exact absurd hcirc (hc ms)
  | some pstate =>
    rw [hcirc] at h
    simp only [Option.bind_eq_bind, Option.bind_eq_some] at h
    obtain ⟨a, ha, state, hstate, l, hl, h⟩ := h
    obtain ⟨b0, hb0, hI0⟩ := assign_inv _ _ _ _ _ _ _ a hI hm ha
    obtain ⟨g1, g2⟩ := assign_msg _ _ _ _ _ _ a hm ha
    obtain ⟨b1, hb1, hI1⟩ := switch_inv _ _ _ _ _ _ l hI0 hb0 hl
    obtain ⟨k1, k2⟩ := switch_msg _ _ _ _ l hl
    refine ⟨l, b1, hb1, hI1, k1.trans g1, ?_, h⟩
    rcases k2 with k2 | ⟨k2, k3⟩
    · left
      rw [hb1] at k2
      exact Option.some.inj k2
    · rcases g2 with g2 | ⟨g2, g3⟩
      · left
        rw [k2, g2, hstate] at hb1
        rw [k3]
        exact (Option.some.inj hb1).symm
      · right
        rw [k2, g3, hm] at hb1
        exact ⟨g2, (Option.some.inj hb1).symm⟩

/-- C23. A message that `dmsg_state_msgrx` accepts (error 0) and leaves bound
to a non-root transaction state `s` has the header it came with, and its
`tcmd` is `(s.icmd & BASECMDMASK) | (cmd & (CREATE|DELETE|REPLY))` when the
command carries `CREATE` or `DELETE` and `cmd & CMDSWMASK` otherwise.  The
engine satisfies the accounting of a connection in use, and a message from
the wire (`mstate == 0`) comes in on `state0`, as `dmsg_ioq_read` allocates
it. -/
theorem msgrx_tcmd_transaction (e : dmsg_engine) (L : List Nat) (msg : dmsg_msg) (mstate : Bool)
    (b a : Nat) (s : dmsg_state) (r : msgrx_result)
    (hI : eng_inv e (b :: L)) (hm : msg.state = some b) (hb : mstate = false → b = 0)
    (h : dmsg_state_msgrx e msg mstate = some r) (herr : r.error = 0)
    (ha : r.msg.state = some a) (hs : r.eng.heap a = some s) (hroot : s.flags.ROOT = false) :
    r.msg.head = msg.head ∧
    r.msg.tcmd =
      if msg.head.cmd &&& (DMSGF_CREATE ||| DMSGF_DELETE) ≠ 0 then
        (s.icmd &&& DMSGF_BASECMDMASK) |||
          (msg.head.cmd &&& (DMSGF_CREATE ||| DMSGF_DELETE ||| DMSGF_REPLY))
      else msg.head.cmd &&& DMSGF_CMDSWMASK := by
  have hc : ∀ ms, dmsg_state_msgrx_circuit e msg mstate ms ≠ none := by
    intro ms hcn
    cases mstate with
    | true => simp [dmsg_state_msgrx_circuit] at hcn
    | false =>
      unfold dmsg_state_msgrx at h
      simp only [Option.bind_eq_bind, Option.bind_eq_some] at h
      obtain ⟨mst, -, ms1, -, h⟩ := h
      rw [circuit_wire e msg ms1 ms, hcn] at h
      injection h with h
      rw [← h] at herr
      exact absurd herr (show ¬ (DMSG_IOQ_ERROR_EALREADY = 0) by decide)
  obtain ⟨l, b1, hb1, hI1, hh, hcase, hadj⟩ := msgrx_shape e L msg mstate b r hI hm hc h
  obtain ⟨mst, ms, st, k1, k2, k3, k4, -, k6⟩ := adjust_tcmd l r hadj
  have hst : r.msg.state = l.msg.state := by rw [k4]
  have hab : a = b1 := by
    rw [hst, hb1] at ha
    exact (Option.some.inj ha).symm
  have hmb : mst = b1 := by
    rw [hb1] at k1
    exact (Option.some.inj k1).symm
  subst hab hmb
  refine ⟨by rw [k4]; exact hh, ?_⟩
  rcases hcase with hcase | ⟨hms, hcase⟩
  · subst hcase
    rw [k3] at k2
    injection k2 with k2
    subst k2
    obtain ⟨g1, g2⟩ := k6 s hs
    have hr : st.flags.ROOT = false := by rw [← g2]; exact hroot
    rw [k4]
    simp only [dmsg_state_msgrx_tcmd, hh, hr, g1, Bool.not_false, if_true]
  · exfalso
    obtain ⟨b2, hb2, hI2⟩ := msgrx_inv e L msg mstate b r hI hm h
    obtain ⟨s0, hs0, hr0⟩ := hI2.1.root
    rw [hcase, hb hms, hs0] at hs
    injection hs with hs
    rw [← hs, hr0] at hroot
    cases hroot

/-- C23 (witness). On a fresh connection, a message allocated on `state0`
arrives with `CREATE|0x101` for the identifier 7: `dmsg_state_msgrx` creates
the state at address 1, whose `icmd` is `0x101`, and sets `tcmd` to
`CREATE|0x101`. -/
theorem msgrx_tcmd_transaction_witness :
    ∃ am r s,
      dmsg_msg_alloc_locked (conn_init ex_env false [] []).ic.eng 0 0 0x101 0 false = some am ∧
      dmsg_state_msgrx am.1 (ex_rx_msg (DMSGF_CREATE ||| 0x101) 7) false = some r ∧
      r.error = 0 ∧ r.msg.state = some 1 ∧ r.eng.heap 1 = some s ∧ s.flags.ROOT = false ∧
      s.icmd = 0x101 ∧ r.msg.tcmd = DMSGF_CREATE ||| 0x101 ∧
      r.msg.head = (ex_rx_msg (DMSGF_CREATE ||| 0x101) 7).head ∧
      r.msg.tcmd =
        if (ex_rx_msg (DMSGF_CREATE ||| 0x101) 7).head.cmd &&& (DMSGF_CREATE ||| DMSGF_DELETE) ≠ 0
        then
          (s.icmd &&& DMSGF_BASECMDMASK) |||
            ((ex_rx_msg (DMSGF_CREATE ||| 0x101) 7).head.cmd &&&
              (DMSGF_CREATE ||| DMSGF_DELETE ||| DMSGF_REPLY))
        else (ex_rx_msg (DMSGF_CREATE ||| 0x101) 7).head.cmd &&& DMSGF_CMDSWMASK := by
  cases h : dmsg_msg_alloc_locked (conn_init ex_env false [] []).ic.eng 0 0 0x101 0 false with
  | none =>
    have h2 : (dmsg_msg_alloc_locked (conn_init ex_env false [] []).ic.eng 0 0 0x101 0
      false).isSome = true := by decide!
    rw [h] at h2
    cases h2
  | some am =>
    have hst : (dmsg_msg_alloc_locked (conn_init ex_env false [] []).ic.eng 0 0 0x101 0
      false).map (fun x => x.2.state) = some (some 0) := by decide!
    rw [h] at hst
    have hst1 : am.2.state = some 0 := Option.some.inj hst
    obtain ⟨a, ha, hI⟩ := alloc_inv _ _ 0 0 0x101 0 false am (init_inv ex_env false [] []) h
    rw [hst1] at ha
    have ha0 : a = 0 := (Option.some.inj ha).symm
    subst ha0
    cases h1 : dmsg_state_msgrx am.1 (ex_rx_msg (DMSGF_CREATE ||| 0x101) 7) false with
    | none =>
      have h2 : ((dmsg_msg_alloc_locked (conn_init ex_env false [] []).ic.eng 0 0 0x101 0
        false).bind fun x =>
          dmsg_state_msgrx x.1 (ex_rx_msg (DMSGF_CREATE ||| 0x101) 7) false).isSome = true := by
        decide!
      rw [h] at h2
      simp only [Option.some_bind] at h2
      rw [h1] at h2
      cases h2
    | some r =>
      have h3 : ((dmsg_msg_alloc_locked (conn_init ex_env false [] []).ic.eng 0 0 0x101 0
        false).bind fun x =>
          (dmsg_state_msgrx x.1 (ex_rx_msg (DMSGF_CREATE ||| 0x101) 7) false).map fun r =>
            (r.error, r.msg.state, r.msg.tcmd,
              (r.eng.heap 1).map fun s => (s.flags.ROOT, s.icmd))) =
          some (0, some 1, DMSGF_CREATE ||| 0x101, some (false, 0x101)) := by
        decide!
      rw [h] at h3
      simp only [Option.some_bind] at h3
      rw [h1] at h3
      simp only [Option.map_some', Option.some.injEq, Prod.mk.injEq] at h3
      obtain ⟨e1, e2, e3, e4⟩ := h3
      cases hs : r.eng.heap 1 with
      | none =>
        rw [hs] at e4
        cases e4
      | some s =>
        rw [hs] at e4
        simp only [Option.map_some', Option.some.injEq, Prod.mk.injEq] at e4
        exact ⟨am, r, s, rfl, h1, e1, e2, hs, e4.1, e4.2, e3,
          msgrx_tcmd_transaction am.1 _ _ false 0 1 s r hI rfl (fun _ => rfl) h1 e1 e2 hs e4.1⟩

/-- C24 (counterexample). A fresh connection receives a frame with the command
`0x101`, neither `CREATE` nor `DELETE`, for the identifier 7 over circuit 0:
`dmsg_ioq_read` hands it to `dmsg_state_msgrx`, which accepts it, leaves it on
`state0` and sets `tcmd` to `0x101`, not to 0; the same holds with `REPLY`
added. No assertion fails. -/
theorem tcmd_root_nonzero :
    (rx_round 5 ex_env (ex_conn (ex_frame_cmd 0x101 7 0))).map
      (fun ic => (ic.eng.rcvd.map (fun m => (m.state, m.head.cmd, m.tcmd)), ic.ioq_rx.error,
        ic.eng.assert_failed)) = some ([(some 0, 0x101, 0x101)], 0, false) ∧
    (dmsg_state_msgrx (ex_conn []).eng (ex_rx_msg (DMSGF_REPLY ||| 0x101) 7) false).map
      (fun r => (r.error, r.msg.state, r.msg.tcmd, r.eng.assert_failed)) =
      some (0, some 0, DMSGF_REPLY ||| 0x101, false) := by
  refine ⟨by decide!, by decide!⟩

/-- C24 (amended). A message from the wire that `dmsg_state_msgrx` leaves on
the root state `state0`, its circuit found, keeps its header and gets
`tcmd == 0` when its command carries `CREATE` or `DELETE` and
`tcmd == cmd & CMDSWMASK` otherwise. -/
theorem msgrx_tcmd_root (e : dmsg_engine) (L : List Nat) (msg : dmsg_msg) (b : Nat)
    (r : msgrx_result) (hI : eng_inv e (b :: L)) (hm : msg.state = some b)
    (hc : dmsg_state_msgrx_circuit e msg false dmsg_state.zero ≠ none)
    (h : dmsg_state_msgrx e msg false = some r) (h0 : r.msg.state = some 0) :
    r.msg.head = msg.head ∧
    r.msg.tcmd =
      if msg.head.cmd &&& (DMSGF_CREATE ||| DMSGF_DELETE) ≠ 0 then 0
      else msg.head.cmd &&& DMSGF_CMDSWMASK := by
  have hc1 : ∀ ms, dmsg_state_msgrx_circuit e msg false ms ≠ none := by
    intro ms
    rw [circuit_wire e msg ms dmsg_state.zero]
    exact hc
  obtain ⟨l, b1, hb1, hI1, hh, -, hadj⟩ := msgrx_shape e L msg false b r hI hm hc1 h
  obtain ⟨mst, ms, st, k1, k2, k3, k4, -, -⟩ := adjust_tcmd l r hadj
  have hst : r.msg.state = l.msg.state := by rw [k4]
  rw [hst, k1] at h0
  have hm0 : mst = 0 := Option.some.inj h0
  subst hm0
  obtain ⟨s0, hs0, hr0⟩ := hI1.1.root
  rw [hs0] at k2
  injection k2 with k2
  subst k2
  refine ⟨by rw [k4]; exact hh, ?_⟩
  rw [k4]
  simp only [dmsg_state_msgrx_tcmd, hh, hr0, Bool.not_true, Bool.false_eq_true, if_false]

/-- C24 (witness). On a fresh connection, a message allocated on `state0`
arrives with the command `0x101` for the identifier 7 over circuit 0: it stays
on `state0` and its `tcmd` is `0x101`. -/
theorem msgrx_tcmd_root_witness :
    ∃ am r,
      dmsg_msg_alloc_locked (conn_init ex_env false [] []).ic.eng 0 0 0x101 0 false = some am ∧
      dmsg_state_msgrx am.1 (ex_rx_msg 0x101 7) false = some r ∧
      r.msg.state = some 0 ∧ r.msg.tcmd = 0x101 ∧
      r.msg.head = (ex_rx_msg 0x101 7).head ∧
      r.msg.tcmd =
        if (ex_rx_msg 0x101 7).head.cmd &&& (DMSGF_CREATE ||| DMSGF_DELETE) ≠ 0 then 0
        else (ex_rx_msg 0x101 7).head.cmd &&& DMSGF_CMDSWMASK := by
  cases h : dmsg_msg_alloc_locked (conn_init ex_env false [] []).ic.eng 0 0 0x101 0 false with
  | none =>
    have h2 : (dmsg_msg_alloc_locked (conn_init ex_env false [] []).ic.eng 0 0 0x101 0
      false).isSome = true := by decide!
    rw [h] at h2
    cases h2
  | some am =>
    have hst : (dmsg_msg_alloc_locked (conn_init ex_env false [] []).ic.eng 0 0 0x101 0
      false).map (fun x => x.2.state) = some (some 0) := by decide!
    rw [h] at hst
    have hst1 : am.2.state = some 0 := Option.some.inj hst
    obtain ⟨a, ha, hI⟩ := alloc_inv _ _ 0 0 0x101 0 false am (init_inv ex_env false [] []) h
    rw [hst1] at ha
    have ha0 : a = 0 := (Option.some.inj ha).symm
    subst ha0
    cases h1 : dmsg_state_msgrx am.1 (ex_rx_msg 0x101 7) false with
    | none =>
      have h2 : ((dmsg_msg_alloc_locked (conn_init ex_env false [] []).ic.eng 0 0 0x101 0
        false).bind fun x => dmsg_state_msgrx x.1 (ex_rx_msg 0x101 7) false).isSome = true := by
        decide!
      rw [h] at h2
      simp only [Option.some_bind] at h2
      rw [h1] at h2
      cases h2
    | some r =>
      have h3 : ((dmsg_msg_alloc_locked (conn_init ex_env false [] []).ic.eng 0 0 0x101 0
        false).bind fun x =>
          (dmsg_state_msgrx x.1 (ex_rx_msg 0x101 7) false).map fun r =>
            (r.msg.state, r.msg.tcmd)) = some (some 0, 0x101) := by
        decide!
      rw [h] at h3
      simp only [Option.some_bind] at h3
      rw [h1] at h3
      simp only [Option.map_some', Option.some.injEq, Prod.mk.injEq] at h3
      exact ⟨am, r, rfl, h1, h3.1, h3.2,
        msgrx_tcmd_root am.1 _ _ 0 r hI rfl
          (by simp [dmsg_state_msgrx_circuit, ex_rx_msg, dmsg_hdr.zero]) h1 h3.1⟩

/-- A bit of a command is set exactly when masking with it leaves something. -/
theorem and_pow_ne (x k : Nat) : x &&& 2 ^ k ≠ 0 ↔ x.testBit k = true := by
  rw [Nat.and_two_pow]
  cases x.testBit k <;> simp

/-- A command without `REVTRANS` and `REVCIRC` has the bits 27 and 26 clear. -/
theorem rev_bits_clear (cmd : Nat) (h : cmd &&& (DMSGF_REVTRANS ||| DMSGF_REVCIRC) = 0) :
    cmd.testBit 27 = false ∧ cmd.testBit 26 = false := by
  have h1 := congrArg (fun x => x.testBit 27) h
  have h2 := congrArg (fun x => x.testBit 26) h
  have m1 : (DMSGF_REVTRANS ||| DMSGF_REVCIRC).testBit 27 = true := by decide
  have m2 : (DMSGF_REVTRANS ||| DMSGF_REVCIRC).testBit 26 = true := by decide
  simp only [Nat.testBit_and, m1, m2, Bool.and_true, Nat.zero_testBit] at h1 h2
  exact ⟨h1, h2⟩

/-- The bits `REVTRANS` and `REVCIRC` that `dmsg_msg_alloc_locked` adds to a
command that has neither: each is set exactly for its flag, and no other bit
changes. -/
theorem rev_bits_added (cmd : Nat) (t c : Bool)
    (h : cmd &&& (DMSGF_REVTRANS ||| DMSGF_REVCIRC) = 0) :
    ((if c then (if t then cmd ||| DMSGF_REVTRANS else cmd) ||| DMSGF_REVCIRC
      else (if t then cmd ||| DMSGF_REVTRANS else cmd)) &&& DMSGF_REVTRANS ≠ 0 ↔ t = true) ∧
    ((if c then (if t then cmd ||| DMSGF_REVTRANS else cmd) ||| DMSGF_REVCIRC
      else (if t then cmd ||| DMSGF_REVTRANS else cmd)) &&& DMSGF_REVCIRC ≠ 0 ↔ c = true) ∧
    ∀ i, i ≠ 27 → i ≠ 26 →
      (if c then (if t then cmd ||| DMSGF_REVTRANS else cmd) ||| DMSGF_REVCIRC
       else (if t then cmd ||| DMSGF_REVTRANS else cmd)).testBit i = cmd.testBit i := by
  obtain ⟨b27, b26⟩ := rev_bits_clear cmd h
  have hT : DMSGF_REVTRANS = 2 ^ 27 := by decide
  have hC : DMSGF_REVCIRC = 2 ^ 26 := by decide
  have hTb : ∀ i, DMSGF_REVTRANS.testBit i = decide (27 = i) := by
    intro i
    rw [hT]
    exact Nat.testBit_two_pow
  have hCb : ∀ i, DMSGF_REVCIRC.testBit i = decide (26 = i) := by
    intro i
    rw [hC]
    exact Nat.testBit_two_pow
  have aT : ∀ x, x &&& DMSGF_REVTRANS ≠ 0 ↔ x.testBit 27 = true := by
    intro x
    rw [hT]
    exact and_pow_ne x 27
  have aC : ∀ x, x &&& DMSGF_REVCIRC ≠ 0 ↔ x.testBit 26 = true := by
    intro x
    rw [hC]
    exact and_pow_ne x 26
  refine ⟨?_, ?_, ?_⟩
  · rw [aT]
    cases t <;> cases c <;>
      simp [Nat.testBit_or, hTb, hCb, b27]
  · rw [aC]
    cases t <;> cases c <;>
      simp [Nat.testBit_or, hTb, hCb, b26]
  · intro i h27 h26
    have e27 : ¬ (27 = i) := fun hc => h27 hc.symm
    have e26 : ¬ (26 = i) := fun hc => h26 hc.symm
    cases t <;> cases c <;>
      simp [Nat.testBit_or, hTb, hCb, e27, e26]

/-- The state that `dmsg_msg_alloc_create` creates is a child of the state it
was given and is not `OPPOSITE`. -/
theorem alloc_create_new (e : dmsg_engine) (p cmd func : Nat) (data : Bool)
    (r : dmsg_engine × Nat) (h : dmsg_msg_alloc_create e p cmd func data = some r) :
    ∃ s, r.1.heap r.2 = some s ∧ s.parent = some p ∧ s.flags.OPPOSITE = false := by
  unfold dmsg_msg_alloc_create at h
  simp only [Option.bind_eq_bind, Option.bind_eq_some, Option.pure_def] at h
  obtain ⟨ps, hps, h⟩ := h
  by_cases hp : p = e.brk
  · subst hp
    by_cases hq : ps.subq.isEmpty = true
    · rw [if_pos hq] at h
      simp only [dmsg_state_hold, dmsg_engine.put, Function.update_same, Option.bind_eq_bind,
        Option.some_bind, Option.pure_def, Option.bind_eq_some, Option.some.injEq,
        exists_eq_left'] at h
      subst h
      simp [Function.update_same]
    · rw [if_neg hq] at h
      simp only [dmsg_state_hold, dmsg_engine.put, Function.update_same, Option.bind_eq_bind,
        Option.some_bind, Option.pure_def, Option.bind_eq_some, Option.some.injEq,
        exists_eq_left'] at h
      subst h
      simp [Function.update_same]
  · have hp1 : e.brk ≠ p := fun hc => hp hc.symm
    by_cases hq : ps.subq.isEmpty = true
    · rw [if_pos hq] at h
      simp only [dmsg_state_hold, dmsg_engine.put, Function.update_same, Option.bind_eq_bind,
        Option.some_bind, Option.pure_def, Option.bind_eq_some, Option.some.injEq,
        exists_eq_left', Function.update_noteq hp, Function.update_noteq hp1, hps] at h
      subst h
      simp [Function.update_same, Function.update_noteq hp1]
    · rw [if_neg hq] at h
      simp only [dmsg_state_hold, dmsg_engine.put, Function.update_same, Option.bind_eq_bind,
        Option.some_bind, Option.pure_def, Option.bind_eq_some, Option.some.injEq,
        exists_eq_left', Function.update_noteq hp, Function.update_noteq hp1, hps] at h
      subst h
      simp [Function.update_same, Function.update_noteq hp1]

/-- C25. A message that `dmsg_msg_alloc` (`dmsg_msg_alloc_locked` under the
mutex) returns for a command with neither `REVTRANS` nor `REVCIRC` is bound to
a state `s` whose parent `p` is allocated; `head.cmd` has `REVTRANS` set if
and only if `s` is `OPPOSITE`, has `REVCIRC` set if and only if `p` is
`OPPOSITE`, and every other bit (all but the bits 27 and 26) is the bit of the
caller's command. -/
theorem alloc_rev_bits (e : dmsg_engine) (state aux_size cmd func : Nat) (data : Bool)
    (r : dmsg_engine × dmsg_msg)
    (hcmd : cmd &&& (DMSGF_REVTRANS ||| DMSGF_REVCIRC) = 0)
    (h : dmsg_msg_alloc_locked e state aux_size cmd func data = some r) :
    ∃ a s p ps, r.2.state = some a ∧ r.1.heap a = some s ∧ s.parent = some p ∧
      r.1.heap p = some ps ∧
      (r.2.head.cmd &&& DMSGF_REVTRANS ≠ 0 ↔ s.flags.OPPOSITE = true) ∧
      (r.2.head.cmd &&& DMSGF_REVCIRC ≠ 0 ↔ ps.flags.OPPOSITE = true) ∧
      ∀ i, i ≠ 27 → i ≠ 26 → r.2.head.cmd.testBit i = cmd.testBit i := by
  unfold dmsg_msg_alloc_locked at h
  by_cases hc : cmd &&& (DMSGF_CREATE ||| DMSGF_REPLY) = DMSGF_CREATE
  · simp only [hc, decide_True, if_true, Option.bind_eq_bind, Option.bind_eq_some,
      Option.pure_def] at h
    obtain ⟨rr, hrr, s0, hs0, pstate, hpst, s1, hs1, ps1, hps1, h⟩ := h
    injection h with h
    subst h
    injection hpst with hpst
    subst hpst
    obtain ⟨g1, g2, g3⟩ := rev_bits_added cmd s1.flags.OPPOSITE ps1.flags.OPPOSITE hcmd
    refine ⟨rr.2, s1, state, ps1, rfl, hs1, ?_, hps1, g1, g2, g3⟩
    rw [check_heap] at hs1
    obtain ⟨s, k1, k2, -⟩ := alloc_create_new e state cmd func data rr hrr
    rw [k1] at hs1
    injection hs1 with hs1
    rw [← hs1, k2]
  · simp only [hc, decide_False, Bool.false_eq_true, if_false, Option.bind_eq_bind,
      Option.bind_eq_some, Option.pure_def] at h
    obtain ⟨rr, hrr, s0, hs0, pstate, hpst, s1, hs1, ps1, hps1, h⟩ := h
    injection h with h
    subst h
    obtain ⟨g1, g2, g3⟩ := rev_bits_added cmd s1.flags.OPPOSITE ps1.flags.OPPOSITE hcmd
    refine ⟨rr.2, s1, pstate, ps1, rfl, hs1, ?_, hps1, g1, g2, g3⟩
    rw [check_heap] at hs1
    simp only [hold_eq e state s0 hs0, Option.map_some', Option.some.injEq] at hrr
    subst hrr
    rw [put_heap_same] at hs1
    injection hs1 with hs1
    rw [← hs1]
    exact hpst

/-- C25 (witness). On the engine `ex_rx_eng` the state at address 5 was created
by the peer (`OPPOSITE`) under `state0`: a message allocated on it with
`REPLY|0x101` carries `REVTRANS` and not `REVCIRC`. -/
theorem alloc_rev_bits_witness :
    (dmsg_msg_alloc_locked ex_rx_eng 5 0 (DMSGF_REPLY ||| 0x101) 0 false).map
      (fun r => r.2.head.cmd) = some (DMSGF_REPLY ||| DMSGF_REVTRANS ||| 0x101) ∧
    ∃ r, dmsg_msg_alloc_locked ex_rx_eng 5 0 (DMSGF_REPLY ||| 0x101) 0 false = some r ∧
      ∃ a s p ps, r.2.state = some a ∧ r.1.heap a = some s ∧ s.parent = some p ∧
        r.1.heap p = some ps ∧
        (r.2.head.cmd &&& DMSGF_REVTRANS ≠ 0 ↔ s.flags.OPPOSITE = true) ∧
        (r.2.head.cmd &&& DMSGF_REVCIRC ≠ 0 ↔ ps.flags.OPPOSITE = true) ∧
        ∀ i, i ≠ 27 → i ≠ 26 →
          r.2.head.cmd.testBit i = (DMSGF_REPLY ||| 0x101).testBit i := by
  refine ⟨by decide!, ?_⟩
  cases h : dmsg_msg_alloc_locked ex_rx_eng 5 0 (DMSGF_REPLY ||| 0x101) 0 false with
  | none =>
    have h2 : (dmsg_msg_alloc_locked ex_rx_eng 5 0 (DMSGF_REPLY ||| 0x101) 0 false).isSome =
        true := by decide!
    rw [h] at h2
    cases h2
  | some r =>
    exact ⟨r, rfl, alloc_rev_bits ex_rx_eng 5 0 (DMSGF_REPLY ||| 0x101) 0 false r
      (by decide) h⟩

/-- A property that every step of a loop over a queue keeps is kept by the
loop. -/
theorem foldlM_keep (P : dmsg_engine → Prop) (f : dmsg_engine → Nat → Option dmsg_engine)
    (hf : ∀ a x b, P a → f a x = some b → P b) :
    ∀ (l : List Nat) (e e1 : dmsg_engine), P e → l.foldlM f e = some e1 → P e1 := by
  intro l
  induction l with
  | nil =>
    intro e e1 hI h
    injection h with h
    subst h
    exact hI
  | cons x l ih =>
    intro e e1 hI h
    rw [List.foldlM_cons] at h
    cases hfa : f e x with
    | none =>
      rw [hfa] at h
      exact absurd h (by simp)
    | some b =>
      rw [hfa] at h
      exact ih b e1 (hf e x b hI hfa) h

theorem dying_only_refl (e : dmsg_engine) : dying_only e e :=
  ⟨rfl, rfl, rfl, rfl, rfl, fun _ h => h, fun a s h => ⟨false, by
    rw [h]
    cases s
    simp [set_dying]⟩⟩

theorem dying_only_trans (e e1 e2 : dmsg_engine) (h1 : dying_only e e1)
    (h2 : dying_only e1 e2) : dying_only e e2 := by
  refine ⟨h2.rd.trans h1.rd, h2.wr.trans h1.wr, h2.rcvd.trans h1.rcvd, h2.brk.trans h1.brk,
    h2.free_failed.trans h1.free_failed, fun a h => h2.dead a (h1.dead a h), ?_⟩
  intro a s hs
  obtain ⟨d1, k1⟩ := h1.heap a s hs
  obtain ⟨d2, k2⟩ := h2.heap a _ k1
  refine ⟨d1 || d2, ?_⟩
  rw [k2]
  simp [set_dying, Bool.or_assoc]

theorem dying_only_put (e : dmsg_engine) (x : Nat) (s : dmsg_state) (hs : e.heap x = some s) :
    dying_only e (e.put x { s with flags := { s.flags with DYING := true } }) := by
  refine ⟨rfl, rfl, rfl, rfl, rfl, ?_, ?_⟩
  · intro a ha
    have hne : a ≠ x := by
      intro hc
      rw [hc, hs] at ha
      cases ha
    rw [put_heap_other _ _ _ _ hne]
    exact ha
  · intro a t ht
    by_cases hax : a = x
    · subst hax
      rw [hs] at ht
      injection ht with ht
      subst ht
      exact ⟨true, by rw [put_heap_same]; simp [set_dying]⟩
    · refine ⟨false, ?_⟩
      rw [put_heap_other _ _ _ _ hax, ht]
      cases t
      simp [set_dying]

/-- The function `dmsg_state_dying` changes nothing but `DYING` flags, which it
only sets. -/
theorem dying_changes : ∀ (fuel : Nat) (e : dmsg_engine) (x : Nat) (e1 : dmsg_engine),
    dmsg_state_dying fuel e x = some e1 → dying_only e e1 := by
  intro fuel
  induction fuel with
  | zero =>
    intro e x e1 h
    simp [dmsg_state_dying] at h
  | succ n ih =>
    intro e x e1 h
    unfold dmsg_state_dying at h
    simp only [Option.bind_eq_bind, Option.bind_eq_some, Option.pure_def] at h
    obtain ⟨s, hs, h⟩ := h
    split_ifs at h
    · exact foldlM_keep (fun a => dying_only e a) _
        (fun a y b ha hb => dying_only_trans _ _ _ ha (ih a y b hb)) _ _ _
        (dying_only_put e x s hs) h
    · injection h with h
      subst h
      exact dying_only_refl e

/-- C27 (failing input). On the connection `ex_conn_raced` this side has sent
the one-shot command `CREATE|DELETE|0x101`: the state at address 1 is in
`statewr_tree` under the identifier 1, flagged `SUBINSERTED|RBINSERTED`, with
`rxcmd == REPLY` and `DELETE` in `txcmd`.  The peer's frame
`DELETE|REPLY|ABORT|REVTRANS|0x101` for that identifier finds the state, whose
`rxcmd` lacks `CREATE`: `dmsg_state_msgrx` returns `EALREADY`, no assertion
fails, but the code after the `switch` has run: `rxcmd` has gained `DELETE`,
the state has left `statewr_tree` and lost `RBINSERTED`.  `dmsg_ioq_read`
then frees the message and returns nothing: no callback is made and
`dmsg_state_cleanuprx` does not run, so the state stays on the queue of
`state0`. -/
theorem discard_side_effect :
    ex_conn_raced.map (fun c => txn_view_of c.ic.eng 1) =
      some (some { rxcmd := DMSGF_REPLY, txcmd := DMSGF_CREATE ||| DMSGF_DELETE ||| 0x101
                   flags := { DYNAMIC := true, SUBINSERTED := true, RBINSERTED := true }
                   refs := 3, subq0 := [1], statewr := some 1, staterd := none
                   assert_failed := false }) ∧
    (ex_conn_raced.bind fun c =>
      (msgrx_wire c.ic.eng
        (DMSGF_DELETE ||| DMSGF_REPLY ||| DMSGF_ABORT ||| DMSGF_REVTRANS ||| 0x101) 1).map
        fun r => (r.error, txn_view_of r.eng 1)) =
      some (DMSG_IOQ_ERROR_EALREADY,
        some { rxcmd := DMSGF_REPLY ||| DMSGF_DELETE
               txcmd := DMSGF_CREATE ||| DMSGF_DELETE ||| 0x101
               flags := { DYNAMIC := true, SUBINSERTED := true, RBINSERTED := false }
               refs := 3, subq0 := [1], statewr := none, staterd := none
               assert_failed := false }) ∧
    (ex_conn_raced.bind fun c =>
      (dmsg_ioq_read 5 ex_env c.ic).map fun x =>
        (x.2.isSome, x.1.eng.rcvd.length, x.1.ioq_rx.error, txn_view_of x.1.eng 1)) =
      some (false, 0, 0,
        some { rxcmd := DMSGF_REPLY ||| DMSGF_DELETE
               txcmd := DMSGF_CREATE ||| DMSGF_DELETE ||| 0x101
               flags := { DYNAMIC := true, SUBINSERTED := true, RBINSERTED := false }
               refs := 2, subq0 := [1], statewr := none, staterd := none
               assert_failed := false }) := by
  refine ⟨by decide!, by decide!, by decide!⟩

/-- The accounting does not depend on how far the allocator has advanced. -/
theorem inv_brk (e : dmsg_engine) (L : List Nat) (b : Nat) (h : eng_inv e L)
    (hb : e.brk ≤ b) : eng_inv { e with brk := b } L :=
  ⟨⟨fun a ha => h.1.fresh a (le_trans hb ha), h.1.root, h.1.refs, h.1.par, h.1.relay, h.1.rd,
    h.1.wr, fun a ha => lt_of_lt_of_le (h.1.cred a ha) hb,
    fun m a hm => lt_of_lt_of_le (h.1.wrkey m a hm) hb⟩, h.2⟩

/-- A round of the receive loop keeps the accounting: the message delivered
gives its reference back in `dmsg_state_cleanuprx`. -/
theorem rx_round_inv (fuel : Nat) (env : Env) (ic ic1 : dmsg_iocom) (R : List Nat)
    (hI : eng_inv ic.eng (ic_credits ic ++ R)) (h : rx_round fuel env ic = some ic1) :
    eng_inv ic1.eng (ic_credits ic1 ++ R) := by
  unfold rx_round at h
  simp only [Option.bind_eq_some] at h
  obtain ⟨x, hx, h⟩ := h
  have h1 := read_inv fuel env ic R x hI hx
  cases hm : x.2 with
  | none =>
    rw [hm] at h h1
    injection h with h
    subst h
    exact h1
  | some m =>
    rw [hm] at h h1
    simp only [Option.map_eq_some'] at h
    obtain ⟨e, he, h⟩ := h
    subst h
    cases hs : m.state with
    | none =>
      unfold dmsg_state_cleanuprx at he
      simp [hs] at he
    | some b =>
      rw [mcred_state m b hs] at h1
      exact cleanuprx_inv { x.1.eng with rcvd := x.1.eng.rcvd ++ [m] } _ m b e h1 hs he

theorem rx_rounds_inv (fuel : Nat) (env : Env) (R : List Nat) : ∀ (n : Nat) (ic ic1 : dmsg_iocom),
    eng_inv ic.eng (ic_credits ic ++ R) → rx_rounds fuel env n ic = some ic1 →
    eng_inv ic1.eng (ic_credits ic1 ++ R) := by
  intro n
  induction n with
  | zero =>
    intro ic ic1 hI h
    injection h with h
    subst h
    exact hI
  | succ n ih =>
    intro ic ic1 hI h
    unfold rx_rounds at h
    simp only [Option.bind_eq_some] at h
    obtain ⟨ic2, h2, h⟩ := h
    exact ih ic2 ic1 (rx_round_inv fuel env ic ic2 R hI h2) h

/-- A message allocated and written on an existing transaction keeps the
accounting, under some list of outside references. -/
theorem tx_send_inv (fuel : Nat) (ic ic1 : dmsg_iocom) (state cmd : Nat) (L : List Nat)
    (hI : eng_inv ic.eng L) (h : tx_send fuel ic state cmd = some ic1) :
    ∃ L1, eng_inv ic1.eng L1 := by
  unfold tx_send at h
  simp only [Option.bind_eq_some] at h
  obtain ⟨am, ham, h⟩ := h
  obtain ⟨a, ha, h1⟩ := alloc_inv _ _ _ _ _ _ _ am hI ham
  obtain ⟨h2, -, -⟩ := write_inv fuel { ic with eng := am.1 } L am.2 a ic1 h1 ha h
  rcases h2 with ⟨-, h2⟩ | ⟨m1, -, -, h2⟩
  · exact ⟨_, h2⟩
  · exact ⟨_, h2⟩

/-- Under the accounting, trees are empty when no allocated state is flagged
`RBINSERTED`. -/
theorem trees_empty (e : dmsg_engine) (L : List Nat) (hI : eng_inv e L)
    (hn : none_inserted e e.brk = true) :
    (∀ k, e.statewr_tree k = none) ∧ ∀ k, e.staterd_tree k = none := by
  have key : ∀ a s, e.heap a = some s → s.flags.RBINSERTED = false := by
    intro a s hs
    have ha := inv_live e L a s hI hs
    unfold none_inserted at hn
    rw [List.all_eq_true] at hn
    have h1 := hn a (List.mem_range.2 ha)
    rw [hs] at h1
    simpa using h1
  refine ⟨fun k => ?_, fun k => ?_⟩
  · cases hk : e.statewr_tree k with
    | none => rfl
    | some a =>
      obtain ⟨s, hs, hr, -⟩ := hI.1.wr k a hk
      rw [key a s hs] at hr
      cases hr
  · cases hk : e.staterd_tree k with
    | none => rfl
    | some a =>
      obtain ⟨s, hs, hr, -⟩ := hI.1.rd k a hk
      rw [key a s hs] at hr
      cases hr

/-- C26 (counterexample). This side sends a message with only `CREATE` on a
new transaction (identifier 42, circuit 0); the peer's frames `CREATE|REPLY`,
`REPLY`, `REPLY` and `DELETE|REPLY` for that identifier, with `REVTRANS`, go
through `dmsg_ioq_read` (which calls `dmsg_state_msgrx`), the callback and
`dmsg_state_cleanuprx`.  All four are accepted and delivered, and after the
fourth the state is still in `statewr_tree`. -/
theorem stream_reply_open :
    ((ex_stream_sent (DMSGF_CREATE ||| 0x101)).bind (rx_rounds 5 ex_env 4)).map
      (fun ic => (ic.eng.rcvd.length, ic.ioq_rx.error, ic.eng.assert_failed,
        ic.eng.statewr_tree 42, (ic.eng.heap 42).map fun s => s.flags.RBINSERTED)) =
    some (4, 0, false, some 42, some true) := by
  decide!

/-- C26 (amended). In the streaming reply scenario (this side sends only
`CREATE` on the new transaction 42 over circuit 0, the peer answers
`CREATE|REPLY`, `REPLY`, `REPLY`, `DELETE|REPLY` with `REVTRANS`) all four
messages are accepted with error 0 and delivered to the callback on the state
42; after the fourth the state has `DELETE` in `rxcmd` but not in `txcmd`, and
it is still on the queue of `state0` and in `statewr_tree`.  Once this side
sends its `DELETE` on the transaction (`dmsg_msg_alloc` and `dmsg_msg_write`),
the state has left the queue and `statewr_tree`, and both trees are empty.
Had the first message been `CREATE|DELETE`, the fourth message of the peer
would have emptied the trees. -/
theorem stream_reply_close :
    ((ex_stream_sent (DMSGF_CREATE ||| 0x101)).bind (rx_rounds 5 ex_env 4)).map stream_view =
      some ([(some 42, DMSGF_CREATE ||| DMSGF_REPLY), (some 42, DMSGF_REPLY),
          (some 42, DMSGF_REPLY), (some 42, DMSGF_DELETE ||| DMSGF_REPLY)], 0,
        some { rxcmd := DMSGF_CREATE ||| DMSGF_REPLY ||| DMSGF_DELETE ||| DMSGF_REVTRANS ||| 0x101
               txcmd := DMSGF_CREATE ||| 0x101
               flags := { DYNAMIC := true, SUBINSERTED := true, RBINSERTED := true }
               refs := 3, subq0 := [42], statewr := some 42, staterd := none
               assert_failed := false }) ∧
    (∃ ic, (((ex_stream_sent (DMSGF_CREATE ||| 0x101)).bind (rx_rounds 5 ex_env 4)).bind
        fun ic4 => tx_send 5 ic4 42 (DMSGF_DELETE ||| 0x101)) = some ic ∧
      (stream_view ic).2.2 =
        some { rxcmd := DMSGF_CREATE ||| DMSGF_REPLY ||| DMSGF_DELETE ||| DMSGF_REVTRANS ||| 0x101
               txcmd := DMSGF_CREATE ||| DMSGF_DELETE ||| 0x101
               flags := { DYNAMIC := true }
               refs := 2, subq0 := [], statewr := none, staterd := none
               assert_failed := false } ∧
      (∀ k, ic.eng.statewr_tree k = none) ∧ ∀ k, ic.eng.staterd_tree k = none) ∧
    ∃ ic, ((ex_stream_sent (DMSGF_CREATE ||| DMSGF_DELETE ||| 0x101)).bind
        (rx_rounds 5 ex_env 4)) = some ic ∧
      ic.eng.rcvd.length = 4 ∧ ic.ioq_rx.error = 0 ∧
      (∀ k, ic.eng.statewr_tree k = none) ∧ ∀ k, ic.eng.staterd_tree k = none := by
  have hinit : eng_inv ex_stream_init.ic.eng (conn_credits ex_stream_init) :=
    inv_brk _ _ 42 (init_inv ex_env false [] []) (by decide)
  have hsent : ∀ cmd0 ic0, ex_stream_sent cmd0 = some ic0 →
      ∃ R, eng_inv ic0.eng (ic_credits ic0 ++ R) := by
    intro cmd0 ic0 h
    unfold ex_stream_sent at h
    simp only [Option.map_eq_some'] at h
    obtain ⟨c, hc, h⟩ := h
    subst h
    exact ⟨_, run_inv 5 ex_env _ _ c hinit hc⟩
  refine ⟨by decide!, ?_, ?_⟩
  · cases h : (((ex_stream_sent (DMSGF_CREATE ||| 0x101)).bind (rx_rounds 5 ex_env 4)).bind
        fun ic4 => tx_send 5 ic4 42 (DMSGF_DELETE ||| 0x101)) with
    | none =>
      have h2 : (((ex_stream_sent (DMSGF_CREATE ||| 0x101)).bind (rx_rounds 5 ex_env 4)).bind
        fun ic4 => tx_send 5 ic4 42 (DMSGF_DELETE ||| 0x101)).isSome = true := by decide!
      rw [h] at h2
      cases h2
    | some ic =>
      have h3 : ((((ex_stream_sent (DMSGF_CREATE ||| 0x101)).bind (rx_rounds 5 ex_env 4)).bind
          fun ic4 => tx_send 5 ic4 42 (DMSGF_DELETE ||| 0x101)).map fun ic =>
            ((stream_view ic).2.2, none_inserted ic.eng ic.eng.brk)) =
          some (some { rxcmd := DMSGF_CREATE ||| DMSGF_REPLY ||| DMSGF_DELETE |||
                         DMSGF_REVTRANS ||| 0x101
                       txcmd := DMSGF_CREATE ||| DMSGF_DELETE ||| 0x101
                       flags := { DYNAMIC := true }
                       refs := 2, subq0 := [], statewr := none, staterd := none
                       assert_failed := false }, true) := by
        decide!
      rw [h] at h3
      simp only [Option.map_some', Option.some.injEq, Prod.mk.injEq] at h3
      simp only [Option.bind_eq_some] at h
      obtain ⟨ic4, ⟨ic0, h0, h4⟩, h5⟩ := h
      obtain ⟨R, hI0⟩ := hsent _ ic0 h0
      have hI4 := rx_rounds_inv 5 ex_env R 4 ic0 ic4 hI0 h4
      obtain ⟨L1, hI5⟩ := tx_send_inv 5 ic4 ic 42 _ _ hI4 h5
      exact ⟨ic, rfl, h3.1, trees_empty ic.eng L1 hI5 h3.2⟩
  · cases h : ((ex_stream_sent (DMSGF_CREATE ||| DMSGF_DELETE ||| 0x101)).bind
        (rx_rounds 5 ex_env 4)) with
    | none =>
      have h2 : ((ex_stream_sent (DMSGF_CREATE ||| DMSGF_DELETE ||| 0x101)).bind
        (rx_rounds 5 ex_env 4)).isSome = true := by decide!
      rw [h] at h2
      cases h2
    | some ic =>
      have h3 : (((ex_stream_sent (DMSGF_CREATE ||| DMSGF_DELETE ||| 0x101)).bind
          (rx_rounds 5 ex_env 4)).map fun ic =>
            (ic.eng.rcvd.length, ic.ioq_rx.error, none_inserted ic.eng ic.eng.brk)) =
          some (4, 0, true) := by
        decide!
      rw [h] at h3
      simp only [Option.map_some', Option.some.injEq, Prod.mk.injEq] at h3
      simp only [Option.bind_eq_some] at h
      obtain ⟨ic0, h0, h4⟩ := h
      obtain ⟨R, hI0⟩ := hsent _ ic0 h0
      have hI4 := rx_rounds_inv 5 ex_env R 4 ic0 ic hI0 h4
      exact ⟨ic, rfl, h3.1, h3.2.1, trees_empty ic.eng _ hI4 h3.2.2⟩

/-- C28. The error latch of the receive side: a call of `dmsg_ioq_read` that
starts with a non-zero `ioq_rx.error` and returns leaves the error code, the
sequence number `seq`, the record of accepted frames, the FIFO (its bytes and
its four cursors), the cipher context and the pending events of the socket as
they are: nothing is read and nothing is parsed.  With no message pending on
`ioq_rx.msgq` it returns `NULL` and leaves the parser in the state `ERROR`;
otherwise it returns the first pending message, which was queued before the
call, and does not touch the parser state. -/
theorem error_latch (fuel : Nat) (env : Env) (ic ic1 : dmsg_iocom) (r : Option dmsg_msg)
    (he : ic.ioq_rx.error ≠ 0) (h : dmsg_ioq_read fuel env ic = some (ic1, r)) :
    ic1.ioq_rx.error = ic.ioq_rx.error ∧ ic1.ioq_rx.seq = ic.ioq_rx.seq ∧
    ic1.ioq_rx.accepted = ic.ioq_rx.accepted ∧ ic1.ioq_rx.buf = ic.ioq_rx.buf ∧
    ic1.ioq_rx.fifo_beg = ic.ioq_rx.fifo_beg ∧ ic1.ioq_rx.fifo_cdx = ic.ioq_rx.fifo_cdx ∧
    ic1.ioq_rx.fifo_cdn = ic.ioq_rx.fifo_cdn ∧ ic1.ioq_rx.fifo_end = ic.ioq_rx.fifo_end ∧
    ic1.ioq_rx.ctx = ic.ioq_rx.ctx ∧ ic1.sock = ic.sock ∧
    (ic.ioq_rx.msgq = [] → r = none ∧ ic1.ioq_rx.state = .ERROR ∧ ic1.ioq_rx.msgq = []) ∧
    (∀ m rest, ic.ioq_rx.msgq = m :: rest →
      r = some m ∧ ic1.ioq_rx.state = ic.ioq_rx.state ∧ ic1.ioq_rx.msgq = rest ∧
      ic1.ioq_rx.msg = ic.ioq_rx.msg) := by
  cases fuel with
  | zero => simp [dmsg_ioq_read] at h
  | succ fuel =>
    cases hq : ic.ioq_rx.msgq with
    | nil =>
      rw [ioq_read_latched fuel env ic hq he] at h
      simp only [Option.map_eq_some', Prod.mk.injEq] at h
      obtain ⟨ic3, hs, h1, h2⟩ := h
      subst h1
      obtain ⟨k1, -, k3⟩ := skip_rx _ _ _ _ hs
      refine ⟨?_, ?_, ?_, ?_, ?_, ?_, ?_, ?_, ?_, k3, fun _ => ⟨h2.symm, ?_, ?_⟩, ?_⟩
      all_goals first
        | (intro m rest hc; cases hc)
        | (rw [k1]; done)
        | (rw [k1]; exact hq)
    | cons m rest =>
      rw [dmsg_ioq_read] at h
      simp only [hq] at h
      have hc : ∀ m1 rest1, m :: rest = m1 :: rest1 → m1 = m ∧ rest1 = rest := by
        intro m1 rest1 hh
        injection hh with a b
        exact ⟨a.symm, b.symm⟩
      split_ifs at h
      all_goals
        injection h with h
        injection h with h1 h2
        subst h1
        refine ⟨rfl, rfl, rfl, rfl, rfl, rfl, rfl, rfl, rfl, rfl, (fun hc1 => by cases hc1), ?_⟩
        intro m1 rest1 hh
        obtain ⟨a, b⟩ := hc m1 rest1 hh
        subst a b
        exact ⟨h2.symm, rfl, rfl, rfl⟩

/-- C28 (witness). The socket of `ex_conn_fail` fails on the first `read(2)`:
the first call of `dmsg_ioq_read` latches `SOCK` and returns `NULL`.  The
second call returns `NULL` again, with the error, `seq` and the FIFO as they
were, and the valid frame still waiting on the socket. -/
theorem error_latch_witness :
    ∃ ic ic1 r, dmsg_ioq_read 5 ex_env ex_conn_fail = some (ic, none) ∧
      ic.ioq_rx.error = DMSG_IOQ_ERROR_SOCK ∧ ic.sock = [sock_event.data (ex_frame 0)] ∧
      dmsg_ioq_read 5 ex_env ic = some (ic1, r) ∧
      ic1.ioq_rx.error = ic.ioq_rx.error ∧ ic1.ioq_rx.seq = ic.ioq_rx.seq ∧
      ic1.ioq_rx.accepted = ic.ioq_rx.accepted ∧ ic1.ioq_rx.buf = ic.ioq_rx.buf ∧
      ic1.ioq_rx.fifo_beg = ic.ioq_rx.fifo_beg ∧ ic1.ioq_rx.fifo_cdx = ic.ioq_rx.fifo_cdx ∧
      ic1.ioq_rx.fifo_cdn = ic.ioq_rx.fifo_cdn ∧ ic1.ioq_rx.fifo_end = ic.ioq_rx.fifo_end ∧
      ic1.ioq_rx.ctx = ic.ioq_rx.ctx ∧ ic1.sock = ic.sock ∧
      (ic.ioq_rx.msgq = [] → r = none ∧ ic1.ioq_rx.state = .ERROR ∧ ic1.ioq_rx.msgq = []) ∧
      (∀ m rest, ic.ioq_rx.msgq = m :: rest →
        r = some m ∧ ic1.ioq_rx.state = ic.ioq_rx.state ∧ ic1.ioq_rx.msgq = rest ∧
        ic1.ioq_rx.msg = ic.ioq_rx.msg) := by
  cases h : dmsg_ioq_read 5 ex_env ex_conn_fail with
  | none =>
    have h2 : (dmsg_ioq_read 5 ex_env ex_conn_fail).isSome = true := by decide!
    rw [h] at h2
    cases h2
  | some x =>
    obtain ⟨ic, r0⟩ := x
    have h3 : (dmsg_ioq_read 5 ex_env ex_conn_fail).map
        (fun x => (x.2, x.1.ioq_rx.error, x.1.sock)) =
        some (none, DMSG_IOQ_ERROR_SOCK, [sock_event.data (ex_frame 0)]) := by decide!
    rw [h] at h3
    simp only [Option.map_some', Option.some.injEq, Prod.mk.injEq] at h3
    obtain ⟨a1, a2, a3⟩ := h3
    subst a1
    cases h1 : dmsg_ioq_read 5 ex_env ic with
    | none =>
      have h2 : ((dmsg_ioq_read 5 ex_env ex_conn_fail).bind fun x =>
        dmsg_ioq_read 5 ex_env x.1).isSome = true := by decide!
      rw [h] at h2
      simp only [Option.some_bind] at h2
      rw [h1] at h2
      cases h2
    | some y =>
      obtain ⟨ic1, r⟩ := y
      exact ⟨ic, ic1, r, rfl, a2, a3, h1,
        error_latch 5 ex_env ic ic1 r (by rw [a2]; decide) h1⟩

theorem slice_length (buf : List Nat) (off len : Nat) (h : off + len ≤ buf.length) :
    (slice buf off len).length = len := by
  simp only [slice, List.length_take, List.length_drop]
  omega

theorem buf_write_nil (buf : List Nat) (off : Nat) : buf_write buf off [] = buf := by
  simp [buf_write]

/-- A block copied to the front of the buffer leaves the bytes behind it
alone. -/
theorem slice_buf_write_front (buf D : List Nat) (off len : Nat) (h : D.length ≤ off) :
    slice (buf_write buf 0 D) off len = slice buf off len := by
  rw [buf_write_zero, slice_append_right _ _ _ _ h]
  unfold slice
  rw [List.drop_drop]
  congr 2
  omega

/-- The compaction of `dmsg_ioq_makeroom` on the bytes of the FIFO: the
decrypted bytes `[beg,cdx)` go to the front, the ciphertext `[cdn,end)`
follows them, and the buffer keeps its length. -/
theorem makeroom_bytes (buf : List Nat) (b x n e : Nat) (h1 : b ≤ x) (h2 : x ≤ n) (h3 : n ≤ e)
    (h4 : e ≤ buf.length) :
    (buf_write (buf_write buf 0 (slice buf b (x - b))) (x - b)
        (slice (buf_write buf 0 (slice buf b (x - b))) n (e - n))).length = buf.length ∧
    slice (buf_write (buf_write buf 0 (slice buf b (x - b))) (x - b)
        (slice (buf_write buf 0 (slice buf b (x - b))) n (e - n))) 0 (x - b) =
      slice buf b (x - b) ∧
    slice (buf_write (buf_write buf 0 (slice buf b (x - b))) (x - b)
        (slice (buf_write buf 0 (slice buf b (x - b))) n (e - n))) (x - b) (e - n) =
      slice buf n (e - n) := by
  have hD : (slice buf b (x - b)).length = x - b := slice_length buf b (x - b) (by omega)
  have hC : (slice buf n (e - n)).length = e - n := slice_length buf n (e - n) (by omega)
  have h5 : slice (buf_write buf 0 (slice buf b (x - b))) n (e - n) = slice buf n (e - n) :=
    slice_buf_write_front buf _ n (e - n) (by rw [hD]; omega)
  have hl1 : (buf_write buf 0 (slice buf b (x - b))).length = buf.length :=
    buf_write_length buf _ 0 (by rw [hD]; omega)
  rw [h5]
  have h6 : buf_write (buf_write buf 0 (slice buf b (x - b))) (x - b) (slice buf n (e - n)) =
      slice buf b (x - b) ++ slice buf n (e - n) ++
        (buf_write buf 0 (slice buf b (x - b))).drop (x - b + (e - n)) := by
    unfold buf_write
    simp only [List.take_zero, List.nil_append, zero_add, hD, hC]
    rw [List.take_left' hD]
  refine ⟨?_, ?_, ?_⟩
  · exact (buf_write_length _ _ _ (by rw [hC, hl1]; omega)).trans hl1
  · rw [h6, List.append_assoc]
    exact slice_prefix _ _ _ hD
  · rw [h6]
    exact slice_mid _ _ _ _ _ hD hC

/-- C29. For every IOQ whose cursors satisfy
`beg <= cdx <= cdn <= end <= sizeof(buf)` and every `needed`,
`dmsg_ioq_makeroom` leaves an IOQ with the same ordering and the same buffer
size, in which the decrypted region `[beg,cdx)` and the ciphertext region
`[cdn,end)` have the length and the bytes they had; it returns
`sizeof(buf) - end` for the new `end`; it leaves the IOQ as it is unless
`(cdx - beg) + (sizeof(buf) - end)/2 < needed`, in which case `beg == 0` and
`cdn == cdx` afterwards. -/
theorem makeroom_regions (q : dmsg_ioq) (needed : Nat)
    (h1 : q.fifo_beg ≤ q.fifo_cdx) (h2 : q.fifo_cdx ≤ q.fifo_cdn) (h3 : q.fifo_cdn ≤ q.fifo_end)
    (h4 : q.fifo_end ≤ q.buf.length) :
    ((dmsg_ioq_makeroom q needed).1.fifo_beg ≤ (dmsg_ioq_makeroom q needed).1.fifo_cdx ∧
      (dmsg_ioq_makeroom q needed).1.fifo_cdx ≤ (dmsg_ioq_makeroom q needed).1.fifo_cdn ∧
      (dmsg_ioq_makeroom q needed).1.fifo_cdn ≤ (dmsg_ioq_makeroom q needed).1.fifo_end ∧
      (dmsg_ioq_makeroom q needed).1.fifo_end ≤ (dmsg_ioq_makeroom q needed).1.buf.length) ∧
    (dmsg_ioq_makeroom q needed).1.buf.length = q.buf.length ∧
    (dmsg_ioq_makeroom q needed).1.fifo_cdx - (dmsg_ioq_makeroom q needed).1.fifo_beg =
      q.fifo_cdx - q.fifo_beg ∧
    slice (dmsg_ioq_makeroom q needed).1.buf (dmsg_ioq_makeroom q needed).1.fifo_beg
        ((dmsg_ioq_makeroom q needed).1.fifo_cdx - (dmsg_ioq_makeroom q needed).1.fifo_beg) =
      slice q.buf q.fifo_beg (q.fifo_cdx - q.fifo_beg) ∧
    (dmsg_ioq_makeroom q needed).1.fifo_end - (dmsg_ioq_makeroom q needed).1.fifo_cdn =
      q.fifo_end - q.fifo_cdn ∧
    slice (dmsg_ioq_makeroom q needed).1.buf (dmsg_ioq_makeroom q needed).1.fifo_cdn
        ((dmsg_ioq_makeroom q needed).1.fifo_end - (dmsg_ioq_makeroom q needed).1.fifo_cdn) =
      slice q.buf q.fifo_cdn (q.fifo_end - q.fifo_cdn) ∧
    (dmsg_ioq_makeroom q needed).2 =
      (dmsg_ioq_makeroom q needed).1.buf.length - (dmsg_ioq_makeroom q needed).1.fifo_end ∧
    (if (q.fifo_cdx - q.fifo_beg) + (q.buf.length - q.fifo_end) / 2 < needed then
      (dmsg_ioq_makeroom q needed).1.fifo_beg = 0 ∧
      (dmsg_ioq_makeroom q needed).1.fifo_cdn = (dmsg_ioq_makeroom q needed).1.fifo_cdx
    else (dmsg_ioq_makeroom q needed).1 = q) := by
  by_cases hc : (q.fifo_cdx - q.fifo_beg) + (q.buf.length - q.fifo_end) / 2 < needed
  · obtain ⟨g1, g2, g3⟩ := makeroom_bytes q.buf q.fifo_beg q.fifo_cdx q.fifo_cdn q.fifo_end
      h1 h2 h3 h4
    have hb1 : (if q.fifo_cdx - q.fifo_beg ≠ 0 then
          buf_write q.buf 0 (slice q.buf q.fifo_beg (q.fifo_cdx - q.fifo_beg))
        else q.buf) = buf_write q.buf 0 (slice q.buf q.fifo_beg (q.fifo_cdx - q.fifo_beg)) := by
      by_cases hz : q.fifo_cdx - q.fifo_beg = 0
      · rw [if_neg (not_not.2 hz), hz]
        simp [slice, buf_write]
      · rw [if_pos hz]
    have hb2 : ∀ B : List Nat, (if q.fifo_cdn < q.fifo_end then
          buf_write B (q.fifo_cdx - q.fifo_beg) (slice B q.fifo_cdn (q.fifo_end - q.fifo_cdn))
        else B) =
        buf_write B (q.fifo_cdx - q.fifo_beg) (slice B q.fifo_cdn (q.fifo_end - q.fifo_cdn)) := by
      intro B
      by_cases hz : q.fifo_cdn < q.fifo_end
      · rw [if_pos hz]
      · rw [if_neg hz]
        have : q.fifo_end - q.fifo_cdn = 0 := by omega
        rw [this]
        simp [slice, buf_write]
    have hm : dmsg_ioq_makeroom q needed =
        ({ q with
            buf := buf_write (buf_write q.buf 0 (slice q.buf q.fifo_beg (q.fifo_cdx - q.fifo_beg)))
              (q.fifo_cdx - q.fifo_beg)
              (slice (buf_write q.buf 0 (slice q.buf q.fifo_beg (q.fifo_cdx - q.fifo_beg)))
                q.fifo_cdn (q.fifo_end - q.fifo_cdn))
            fifo_beg := 0, fifo_cdx := q.fifo_cdx - q.fifo_beg
            fifo_cdn := q.fifo_cdx - q.fifo_beg
            fifo_end := q.fifo_end - (q.fifo_cdn - (q.fifo_cdx - q.fifo_beg)) },
          q.buf.length - (q.fifo_end - (q.fifo_cdn - (q.fifo_cdx - q.fifo_beg)))) := by
      unfold dmsg_ioq_makeroom
      simp only []
      rw [if_pos hc, hb1, hb2]
    rw [hm, if_pos hc]
    have he : q.fifo_end - (q.fifo_cdn - (q.fifo_cdx - q.fifo_beg)) - (q.fifo_cdx - q.fifo_beg) =
        q.fifo_end - q.fifo_cdn := by omega
    refine ⟨⟨Nat.zero_le _, le_refl _, ?_, ?_⟩, g1, by simp, ?_, he, ?_, ?_, rfl, rfl⟩
    · show q.fifo_cdx - q.fifo_beg ≤ q.fifo_end - (q.fifo_cdn - (q.fifo_cdx - q.fifo_beg))
      omega
    · show q.fifo_end - (q.fifo_cdn - (q.fifo_cdx - q.fifo_beg)) ≤ _
      rw [g1]
      omega
    · show slice _ 0 (q.fifo_cdx - q.fifo_beg - 0) = _
      rw [Nat.sub_zero]
      exact g2
    · show slice _ (q.fifo_cdx - q.fifo_beg)
        (q.fifo_end - (q.fifo_cdn - (q.fifo_cdx - q.fifo_beg)) - (q.fifo_cdx - q.fifo_beg)) = _
      rw [he]
      exact g3
    · show q.buf.length - _ = _ - _
      rw [g1]
  · rw [makeroom_roomy q needed hc, if_neg hc]
    exact ⟨⟨h1, h2, h3, h4⟩, rfl, rfl, rfl, rfl, rfl, rfl, rfl⟩

/-- C29 (witness). On `ex_ioq_room` a request for 8 bytes compacts the FIFO:
the decrypted bytes 4..7 move to the front, the ciphertext 10, 11 follows
them, the cursors become 0, 4, 4, 6 and the function returns 10. -/
theorem makeroom_regions_witness :
    ((dmsg_ioq_makeroom ex_ioq_room 8).1.buf.take 6,
      (dmsg_ioq_makeroom ex_ioq_room 8).1.fifo_beg, (dmsg_ioq_makeroom ex_ioq_room 8).1.fifo_cdx,
      (dmsg_ioq_makeroom ex_ioq_room 8).1.fifo_cdn, (dmsg_ioq_makeroom ex_ioq_room 8).1.fifo_end,
      (dmsg_ioq_makeroom ex_ioq_room 8).2) = ([4, 5, 6, 7, 10, 11], 0, 4, 4, 6, 10) ∧
    (ex_ioq_room.fifo_beg ≤ ex_ioq_room.fifo_cdx ∧ ex_ioq_room.fifo_cdx ≤ ex_ioq_room.fifo_cdn ∧
      ex_ioq_room.fifo_cdn ≤ ex_ioq_room.fifo_end ∧
      ex_ioq_room.fifo_end ≤ ex_ioq_room.buf.length) ∧
    (dmsg_ioq_makeroom ex_ioq_room 8).1.buf.length = ex_ioq_room.buf.length ∧
    slice (dmsg_ioq_makeroom ex_ioq_room 8).1.buf (dmsg_ioq_makeroom ex_ioq_room 8).1.fifo_beg
        ((dmsg_ioq_makeroom ex_ioq_room 8).1.fifo_cdx -
          (dmsg_ioq_makeroom ex_ioq_room 8).1.fifo_beg) =
      slice ex_ioq_room.buf ex_ioq_room.fifo_beg
        (ex_ioq_room.fifo_cdx - ex_ioq_room.fifo_beg) ∧
    slice (dmsg_ioq_makeroom ex_ioq_room 8).1.buf (dmsg_ioq_makeroom ex_ioq_room 8).1.fifo_cdn
        ((dmsg_ioq_makeroom ex_ioq_room 8).1.fifo_end -
          (dmsg_ioq_makeroom ex_ioq_room 8).1.fifo_cdn) =
      slice ex_ioq_room.buf ex_ioq_room.fifo_cdn
        (ex_ioq_room.fifo_end - ex_ioq_room.fifo_cdn) :=
  ⟨by decide!, ⟨by decide, by decide, by decide, by decide⟩,
    (makeroom_regions ex_ioq_room 8 (by decide) (by decide) (by decide) (by decide)).2.1,
    (makeroom_regions ex_ioq_room 8 (by decide) (by decide) (by decide) (by decide)).2.2.2.1,
    (makeroom_regions ex_ioq_room 8 (by decide) (by decide) (by decide)
      (by decide)).2.2.2.2.2.1⟩

theorem tx_hbytes_lt (msg : dmsg_msg) : (msg.head.cmd &&& DMSGF_SIZE) * DMSG_ALIGN < 2 ^ 64 := by
  have h1 : msg.head.cmd &&& DMSGF_SIZE ≤ 255 := Nat.and_le_right
  have h2 : DMSG_ALIGN = 64 := rfl
  rw [h2]
  have : (2 : Nat) ^ 64 = 18446744073709551616 := by norm_num
  omega

theorem tx_abytes_lt (n : Nat) : DMSG_DOALIGN 64 n < 2 ^ 64 := by
  unfold DMSG_DOALIGN
  simp only []
  have h1 : (n + DMSG_ALIGNMASK) % 2 ^ 64 < 2 ^ 64 := Nat.mod_lt _ (by norm_num)
  omega

/-- A difference of two `size_t` values that does not wrap. -/
theorem size_sub (a b : Nat) (h : b ≤ a) (ha : a < 2 ^ 64) : (a + 2 ^ 64 - b) % 2 ^ 64 = a - b := by
  have : (2 : Nat) ^ 64 = 18446744073709551616 := by norm_num
  rw [this] at ha ⊢
  omega

theorem tx_total_cons (msg : dmsg_msg) (rest : List dmsg_msg) :
    tx_total (msg :: rest) =
      (msg.head.cmd &&& DMSGF_SIZE) * DMSG_ALIGN + DMSG_DOALIGN 64 msg.aux_size +
        tx_total rest := by
  simp [tx_total, tx_size]

/-- The iovec that `dmsg_iocom_flush2` builds holds no more than what is left
to send. -/
theorem flush2_iov_sum (maxiov half : Nat) : ∀ (q : List dmsg_msg) (iov : List Nat)
    (hoff aoff : Nat) (ok : Bool), tx_within q hoff aoff →
    (dmsg_iocom_flush2_iov maxiov half q iov hoff aoff ok).1.sum ≤
      iov.sum + tx_unsent q hoff aoff := by
  intro q
  induction q with
  | nil =>
    intro iov hoff aoff ok _
    simp [dmsg_iocom_flush2_iov]
  | cons msg rest ih =>
    intro iov hoff aoff ok hw
    obtain ⟨w1, w2⟩ := hw
    have hrest : tx_within rest 0 0 := by
      cases rest with
      | nil => exact ⟨rfl, rfl⟩
      | cons m r => exact ⟨Nat.zero_le _, Nat.zero_le _⟩
    have hu : tx_unsent (msg :: rest) hoff aoff =
        ((msg.head.cmd &&& DMSGF_SIZE) * DMSG_ALIGN - hoff) +
          (DMSG_DOALIGN 64 msg.aux_size - aoff) + tx_unsent rest 0 0 := by
      unfold tx_unsent
      rw [tx_total_cons]
      omega
    rw [hu]
    unfold dmsg_iocom_flush2_iov
    simp only []
    generalize (msg.head.cmd &&& DMSGF_SIZE) * DMSG_ALIGN = H at *
    generalize DMSG_DOALIGN 64 msg.aux_size = A at *
    have hl : (if H - hoff > half then half else H - hoff) ≤ H - hoff := by
      split_ifs <;> omega
    generalize (if H - hoff > half then half else H - hoff) = hlen at hl ⊢
    have s1 : (if hoff < H then iov ++ [hlen] else iov).sum ≤ iov.sum + (H - hoff) := by
      split_ifs
      · simp only [List.sum_append, List.sum_cons, List.sum_nil, add_zero]
        omega
      · omega
    generalize (if hoff < H then iov ++ [hlen] else iov) = iov1 at s1 ⊢
    have al : (if A - aoff > half then half else A - aoff) ≤ A - aoff := by
      split_ifs <;> omega
    generalize (if A - aoff > half then half else A - aoff) = alen at al ⊢
    have s2 : (if aoff < A then iov1 ++ [alen] else iov1).sum ≤
        iov.sum + (H - hoff) + (A - aoff) := by
      split_ifs
      · simp only [List.sum_append, List.sum_cons, List.sum_nil, add_zero]
        omega
      · omega
    generalize (if aoff < A then iov1 ++ [alen] else iov1) = iov2 at s2 ⊢
    generalize (if aoff < A then (ok && decide (hoff ≤ H ∧ aoff ≤ A)) && msg.aux_data.isSome
      else ok && decide (hoff ≤ H ∧ aoff ≤ A)) = ok2
    by_cases c1 : hoff < H ∧ (iov1.length = maxiov ∨ hlen ≠ H - hoff)
    · rw [if_pos c1]
      show iov1.sum ≤ _
      omega
    · rw [if_neg c1]
      by_cases c2 : aoff < A ∧ (iov2.length = maxiov ∨ alen ≠ A - aoff)
      · rw [if_pos c2]
        show iov2.sum ≤ _
        omega
      · rw [if_neg c2]
        have := ih iov2 0 0 ok2 hrest
        omega

/-- The loop "Clean out the transmit queue" on a queue whose cursors lie
within its first message, for a count `nact` that does not exceed what is left
to send: it retires the first `k` messages, in order, each by
`dmsg_msg_free`, leaves cursors within the new first message, accounts for
exactly `nact` bytes and ends with `nact == 0`. -/
theorem flush2_loop_spec : ∀ (q : List dmsg_msg) (ic : dmsg_iocom) (nact : Nat),
    ic.ioq_tx.msgq = q → tx_within q ic.ioq_tx.hbytes ic.ioq_tx.abytes →
    nact ≤ tx_unsent q ic.ioq_tx.hbytes ic.ioq_tx.abytes →
    ∃ k hb ab, k ≤ q.length ∧
      dmsg_iocom_flush2_loop q ic nact =
        ((q.take k).foldlM (fun e m => dmsg_msg_free e m) ic.eng).map (fun e1 =>
          ({ ic with eng := e1
                     ioq_tx := { ic.ioq_tx with msgq := q.drop k, hbytes := hb, abytes := ab
                                                msgcount := ic.ioq_tx.msgcount - k } }, 0)) ∧
      tx_within (q.drop k) hb ab ∧
      tx_unsent (q.drop k) hb ab + nact = tx_unsent q ic.ioq_tx.hbytes ic.ioq_tx.abytes ∧
      tx_total (q.take k) ≤ ic.ioq_tx.hbytes + ic.ioq_tx.abytes + nact := by
  intro q
  induction q with
  | nil =>
    intro ic nact hq hw hn
    obtain ⟨w1, w2⟩ := hw
    have hn0 : nact = 0 := by
      simp only [tx_unsent, tx_total, List.map_nil, List.sum_nil] at hn
      omega
    subst hn0
    refine ⟨0, 0, 0, le_refl _, ?_, ⟨rfl, rfl⟩, by simp [tx_unsent, tx_total], by simp [tx_total]⟩
    obtain ⟨eng, flags, rx, tx, txq, sock, rand⟩ := ic
    obtain ⟨st, fb, fx, fn, fe, hb, ab, un, er, sq, mc, mg, mq, bf, cx, ac⟩ := tx
    simp only at hq w1 w2
    subst hq w1 w2
    simp [dmsg_iocom_flush2_loop]
  | cons msg rest ih =>
    intro ic nact hq hw hn
    obtain ⟨eng, flags, rx, tx, txq, sock, rand⟩ := ic
    obtain ⟨st, fb, fx, fn, fe, hb, ab, un, er, sq, mc, mg, mq, bf, cx, ac⟩ := tx
    simp only at hq hw hn ⊢
    subst hq
    obtain ⟨w1, w2⟩ := hw
    have hH := tx_hbytes_lt msg
    have hA := tx_abytes_lt msg.aux_size
    have hrest : tx_within rest 0 0 := by
      cases rest with
      | nil => exact ⟨rfl, rfl⟩
      | cons m r => exact ⟨Nat.zero_le _, Nat.zero_le _⟩
    have hu : ∀ x y, tx_unsent (msg :: rest) x y =
        (msg.head.cmd &&& DMSGF_SIZE) * DMSG_ALIGN + DMSG_DOALIGN 64 msg.aux_size +
          tx_total rest - x - y := by
      intro x y
      unfold tx_unsent
      rw [tx_total_cons]
    have hu0 : tx_unsent rest 0 0 = tx_total rest := by simp [tx_unsent]
    rw [hu] at hn ⊢
    unfold dmsg_iocom_flush2_loop
    simp only []
    rw [size_sub _ _ w1 hH, size_sub _ _ w2 hA]
    by_cases c1 : nact < (msg.head.cmd &&& DMSGF_SIZE) * DMSG_ALIGN - hb
    · rw [if_pos c1]
      refine ⟨0, hb + nact, ab, Nat.zero_le _, by simp, ⟨by omega, w2⟩, ?_, by simp [tx_total]⟩
      show tx_unsent (msg :: rest) (hb + nact) ab + nact = _
      rw [hu]
      omega
    · rw [if_neg c1]
      by_cases c2 : nact - ((msg.head.cmd &&& DMSGF_SIZE) * DMSG_ALIGN - hb) <
          DMSG_DOALIGN 64 msg.aux_size - ab
      · rw [if_pos c2]
        refine ⟨0, (msg.head.cmd &&& DMSGF_SIZE) * DMSG_ALIGN,
          ab + (nact - ((msg.head.cmd &&& DMSGF_SIZE) * DMSG_ALIGN - hb)), Nat.zero_le _,
          by simp, ⟨le_refl _, by omega⟩, ?_, by simp [tx_total]⟩
        show tx_unsent (msg :: rest) _ _ + nact = _
        rw [hu]
        omega
      · rw [if_neg c2]
        have hn2 : nact - ((msg.head.cmd &&& DMSGF_SIZE) * DMSG_ALIGN - hb) -
            (DMSG_DOALIGN 64 msg.aux_size - ab) ≤ tx_unsent rest 0 0 := by
          rw [hu0]
          omega
        have htot : tx_total [msg] ≤ hb + ab + nact := by
          rw [tx_total_cons]
          simp only [tx_total, List.map_nil, List.sum_nil]
          omega
        have step : ∀ e1 : dmsg_engine, ∃ k hb1 ab1, k ≤ rest.length ∧
            dmsg_iocom_flush2_loop rest
              { eng := e1, flags := flags, ioq_rx := rx
                ioq_tx :=
                  { state := st, fifo_beg := fb, fifo_cdx := fx, fifo_cdn := fn, fifo_end := fe
                    hbytes := 0, abytes := 0, unaligned_aux_size := un, error := er, seq := sq
                    msgcount := mc - 1, msg := mg, msgq := rest, buf := bf, ctx := cx
                    accepted := ac }
                txmsgq := txq, sock := sock, rand := rand }
              (nact - ((msg.head.cmd &&& DMSGF_SIZE) * DMSG_ALIGN - hb) -
                (DMSG_DOALIGN 64 msg.aux_size - ab)) =
              ((rest.take k).foldlM (fun e m => dmsg_msg_free e m) e1).map (fun e2 =>
                ({ eng := e2, flags := flags, ioq_rx := rx
                   ioq_tx :=
                     { state := st, fifo_beg := fb, fifo_cdx := fx, fifo_cdn := fn, fifo_end := fe
                       hbytes := hb1, abytes := ab1, unaligned_aux_size := un, error := er
                       seq := sq, msgcount := mc - 1 - k, msg := mg, msgq := rest.drop k
                       buf := bf, ctx := cx, accepted := ac }
                   txmsgq := txq, sock := sock, rand := rand }, 0)) ∧
            tx_within (rest.drop k) hb1 ab1 ∧
            tx_unsent (rest.drop k) hb1 ab1 +
              (nact - ((msg.head.cmd &&& DMSGF_SIZE) * DMSG_ALIGN - hb) -
                (DMSG_DOALIGN 64 msg.aux_size - ab)) = tx_unsent rest 0 0 ∧
            tx_total (rest.take k) ≤ 0 + 0 +
              (nact - ((msg.head.cmd &&& DMSGF_SIZE) * DMSG_ALIGN - hb) -
                (DMSG_DOALIGN 64 msg.aux_size - ab)) := by
          intro e1
          exact ih _ _ rfl hrest hn2
        have fin : ∀ (k hb1 ab1 : Nat), k ≤ rest.length → tx_within (rest.drop k) hb1 ab1 →
            tx_unsent (rest.drop k) hb1 ab1 +
              (nact - ((msg.head.cmd &&& DMSGF_SIZE) * DMSG_ALIGN - hb) -
                (DMSG_DOALIGN 64 msg.aux_size - ab)) = tx_unsent rest 0 0 →
            tx_total (rest.take k) ≤ 0 + 0 +
              (nact - ((msg.head.cmd &&& DMSGF_SIZE) * DMSG_ALIGN - hb) -
                (DMSG_DOALIGN 64 msg.aux_size - ab)) →
            k + 1 ≤ (msg :: rest).length ∧ tx_within ((msg :: rest).drop (k + 1)) hb1 ab1 ∧
            tx_unsent ((msg :: rest).drop (k + 1)) hb1 ab1 + nact =
              (msg.head.cmd &&& DMSGF_SIZE) * DMSG_ALIGN + DMSG_DOALIGN 64 msg.aux_size +
                tx_total rest - hb - ab ∧
            tx_total ((msg :: rest).take (k + 1)) ≤ hb + ab + nact := by
          intro k hb1 ab1 hk g1 g2 g3
          refine ⟨by simpa using hk, by simpa using g1, ?_, ?_⟩
          · rw [List.drop_succ_cons]
            rw [hu0] at g2
            omega
          · rw [List.take_succ_cons, tx_total_cons]
            omega
        cases hf : dmsg_msg_free eng msg with
        | none =>
          obtain ⟨k, hb1, ab1, hk, -, g1, g2, g3⟩ := step eng
          obtain ⟨f1, f2, f3, f4⟩ := fin k hb1 ab1 hk g1 g2 g3
          exact ⟨k + 1, hb1, ab1, f1, by simp [hf], f2, f3, f4⟩
        | some e1 =>
          obtain ⟨k, hb1, ab1, hk, hl, g1, g2, g3⟩ := step e1
          obtain ⟨f1, f2, f3, f4⟩ := fin k hb1 ab1 hk g1 g2 g3
          refine ⟨k + 1, hb1, ab1, f1, ?_, f2, f3, f4⟩
          simp only [Option.some_bind, List.take_succ_cons, List.foldlM_cons, hf,
            List.drop_succ_cons]
          rw [hl]
          have hmc : mc - 1 - (k : Int) = mc - ((k + 1 : Nat) : Int) := by
            push_cast
            ring
          rw [hmc]
          rfl

/-- C30. Progress accounting of `dmsg_iocom_flush2` on a plaintext link: for
every transmit queue, every pair of cursors inside the head message and every
count `n` returned by `writev` with `0 ≤ n ≤` the bytes placed in the iovec,
the accounting loop retires a prefix of `k` messages of the queue in order
(each one freed with `dmsg_msg_free`), leaves the cursors inside the new head
message, ends with `nact = 0`, lowers the number of unsent bytes by exactly
`n`, and retires only messages all of whose header and aligned payload bytes
are counted. -/
theorem flush2_accounting (maxiov half : Nat) (ic : dmsg_iocom) (n : Int)
    (hw : tx_within ic.ioq_tx.msgq ic.ioq_tx.hbytes ic.ioq_tx.abytes)
    (h0 : 0 ≤ n)
    (hn : n ≤ ((dmsg_iocom_flush2_iov maxiov half ic.ioq_tx.msgq []
                  ic.ioq_tx.hbytes ic.ioq_tx.abytes true).1.sum : Nat)) :
    ∃ k hb ab, k ≤ ic.ioq_tx.msgq.length ∧
      dmsg_iocom_flush2_clean ic (dmsg_iocom_flush2_nact n) =
        ((ic.ioq_tx.msgq.take k).foldlM (fun e m => dmsg_msg_free e m) ic.eng).map (fun e1 =>
          ({ ic with eng := e1
                     ioq_tx := { ic.ioq_tx with msgq := ic.ioq_tx.msgq.drop k
                                                hbytes := hb, abytes := ab
                                                msgcount := ic.ioq_tx.msgcount - k } }, 0)) ∧
      tx_within (ic.ioq_tx.msgq.drop k) hb ab ∧
      (tx_unsent (ic.ioq_tx.msgq.drop k) hb ab : Int) + n =
        tx_unsent ic.ioq_tx.msgq ic.ioq_tx.hbytes ic.ioq_tx.abytes ∧
      (tx_total (ic.ioq_tx.msgq.take k) : Int) ≤ ic.ioq_tx.hbytes + ic.ioq_tx.abytes + n := by
  have hs := flush2_iov_sum maxiov half ic.ioq_tx.msgq [] ic.ioq_tx.hbytes ic.ioq_tx.abytes true hw
  simp only [List.sum_nil, zero_add] at hs
  have hnat : dmsg_iocom_flush2_nact n = n.toNat := by
    unfold dmsg_iocom_flush2_nact
    split_ifs with hp
    · rfl
    · have : n = 0 := by omega
      subst this
      rfl
  have hle : n.toNat ≤ tx_unsent ic.ioq_tx.msgq ic.ioq_tx.hbytes ic.ioq_tx.abytes := by
    omega
  obtain ⟨k, hb, ab, hk, hl, g1, g2, g3⟩ :=
    flush2_loop_spec ic.ioq_tx.msgq ic n.toNat rfl hw hle
  refine ⟨k, hb, ab, hk, ?_, g1, ?_, ?_⟩
  · rw [hnat]
    exact hl
  · omega
  · omega

/-- C30 (witness). The transmit queue holds a message of 128 bytes, of whose
header 16 bytes are sent, and a message of 64 bytes: the iovec offers 48, 64
and 64 bytes, 176 bytes are unsent.  After `writev` returns 120 the first
message is retired, the cursors are at 8 bytes into the header of the second,
`nact` is 0 and 56 bytes are unsent. -/
theorem flush2_accounting_witness :
    tx_within ex_tx_conn.ioq_tx.msgq ex_tx_conn.ioq_tx.hbytes ex_tx_conn.ioq_tx.abytes ∧
    (dmsg_iocom_flush2_iov 16 256 ex_tx_conn.ioq_tx.msgq [] 16 0 true).1 = [48, 64, 64] ∧
    tx_unsent ex_tx_conn.ioq_tx.msgq 16 0 = 176 ∧
    (dmsg_iocom_flush2_clean ex_tx_conn (dmsg_iocom_flush2_nact 120)).map
        (fun r => (r.2, r.1.ioq_tx.msgq, r.1.ioq_tx.hbytes, r.1.ioq_tx.abytes,
                   r.1.ioq_tx.msgcount)) =
      some (0, [ex_tx_msg 0 false], 8, 0, 1) ∧
    tx_unsent [ex_tx_msg 0 false] 8 0 = 56 ∧
    ∃ k hb ab, k ≤ ex_tx_conn.ioq_tx.msgq.length ∧
      dmsg_iocom_flush2_clean ex_tx_conn (dmsg_iocom_flush2_nact 120) =
        ((ex_tx_conn.ioq_tx.msgq.take k).foldlM (fun e m => dmsg_msg_free e m)
            ex_tx_conn.eng).map (fun e1 =>
          ({ ex_tx_conn with
               eng := e1
               ioq_tx := { ex_tx_conn.ioq_tx with msgq := ex_tx_conn.ioq_tx.msgq.drop k
                                                  hbytes := hb, abytes := ab
                                                  msgcount := ex_tx_conn.ioq_tx.msgcount - k } },
           0)) ∧
      tx_within (ex_tx_conn.ioq_tx.msgq.drop k) hb ab ∧
      (tx_unsent (ex_tx_conn.ioq_tx.msgq.drop k) hb ab : Int) + 120 =
        tx_unsent ex_tx_conn.ioq_tx.msgq ex_tx_conn.ioq_tx.hbytes ex_tx_conn.ioq_tx.abytes ∧
      (tx_total (ex_tx_conn.ioq_tx.msgq.take k) : Int) ≤
        ex_tx_conn.ioq_tx.hbytes + ex_tx_conn.ioq_tx.abytes + 120 :=
  ⟨by decide!, by decide!, by decide!, by decide!, by decide!,
   flush2_accounting 16 256 ex_tx_conn 120 (by decide!) (by decide) (by decide!)⟩
theorem same_shape_refl (s : dmsg_state) : same_shape s s := ⟨rfl, rfl, rfl, rfl, rfl⟩

theorem same_shape_trans {s s1 s2 : dmsg_state} (h1 : same_shape s s1) (h2 : same_shape s1 s2) :
    same_shape s s2 :=
  ⟨h2.1.trans h1.1, h2.2.1.trans h1.2.1, h2.2.2.1.trans h1.2.2.1, h2.2.2.2.1.trans h1.2.2.2.1,
    h2.2.2.2.2.trans h1.2.2.2.2⟩

theorem shape_eq_refl (e : dmsg_engine) : shape_eq e e := by
  refine ⟨rfl, rfl, fun a => ?_⟩
  cases h : e.heap a with
  | none => exact Or.inl ⟨rfl, rfl⟩
  | some s => exact Or.inr ⟨s, s, rfl, rfl, same_shape_refl s⟩

theorem shape_eq_trans {e e1 e2 : dmsg_engine} (h1 : shape_eq e e1) (h2 : shape_eq e1 e2) :
    shape_eq e e2 := by
  refine ⟨h2.1.trans h1.1, h2.2.1.trans h1.2.1, fun a => ?_⟩
  rcases h1.2.2 a with ⟨k1, k2⟩ | ⟨s, s1, k1, k2, k3⟩
  · rcases h2.2.2 a with ⟨g1, g2⟩ | ⟨t, t1, g1, g2, g3⟩
    · exact Or.inl ⟨k1, g2⟩
    · rw [k2] at g1
      cases g1
  · rcases h2.2.2 a with ⟨g1, g2⟩ | ⟨t, t1, g1, g2, g3⟩
    · rw [k2] at g1
      cases g1
    · rw [k2] at g1
      injection g1 with g1
      subst g1
      exact Or.inr ⟨s, t1, k1, g2, same_shape_trans k3 g3⟩

/-- A step that leaves the heap, the allocation mark and the history variable
alone. -/
theorem shape_eq_same (e e1 : dmsg_engine) (hh : e1.heap = e.heap) (hb : e1.brk = e.brk)
    (hf : e1.free_failed = e.free_failed) : shape_eq e e1 := by
  refine ⟨hb, hf, fun a => ?_⟩
  rw [hh]
  cases h : e.heap a with
  | none => exact Or.inl ⟨rfl, rfl⟩
  | some s => exact Or.inr ⟨s, s, rfl, rfl, same_shape_refl s⟩

theorem shape_eq_check (e : dmsg_engine) (b : Bool) : shape_eq e (e.check b) :=
  shape_eq_same _ _ rfl rfl rfl

theorem shape_eq_put (e : dmsg_engine) (p : Nat) (s s1 : dmsg_state) (hs : e.heap p = some s)
    (h : same_shape s s1) : shape_eq e (e.put p s1) := by
  refine ⟨rfl, rfl, fun a => ?_⟩
  by_cases hap : a = p
  · subst hap
    exact Or.inr ⟨s, s1, hs, put_heap_same _ _ _, h⟩
  · rw [put_heap_other _ _ _ _ hap]
    cases h1 : e.heap a with
    | none => exact Or.inl ⟨rfl, rfl⟩
    | some t => exact Or.inr ⟨t, t, rfl, rfl, same_shape_refl t⟩

theorem shape_eq_fwd {e e1 : dmsg_engine} (h : shape_eq e e1) (a : Nat) (s : dmsg_state)
    (hs : e.heap a = some s) : ∃ s1, e1.heap a = some s1 ∧ same_shape s s1 := by
  rcases h.2.2 a with ⟨k1, -⟩ | ⟨t, t1, k1, k2, k3⟩
  · rw [hs] at k1
    cases k1
  · rw [hs] at k1
    injection k1 with k1
    subst k1
    exact ⟨t1, k2, k3⟩

theorem shape_eq_bwd {e e1 : dmsg_engine} (h : shape_eq e e1) (a : Nat) (s1 : dmsg_state)
    (hs : e1.heap a = some s1) : ∃ s, e.heap a = some s ∧ same_shape s s1 := by
  rcases h.2.2 a with ⟨-, k2⟩ | ⟨t, t1, k1, k2, k3⟩
  · rw [hs] at k2
    cases k2
  · rw [hs] at k2
    injection k2 with k2
    subst k2
    exact ⟨t, k1, k3⟩

/-- A step that leaves every shape alone keeps `tree_inv`. -/
theorem tree_map {e e1 : dmsg_engine} (h : shape_eq e e1) (hT : tree_inv e) : tree_inv e1 := by
  refine ⟨?_, ?_, ?_, ?_, ?_, ?_⟩
  · intro a ha
    rw [h.1] at ha
    rcases h.2.2 a with ⟨-, k2⟩ | ⟨t, t1, k1, -, -⟩
    · exact k2
    · rw [hT.fresh a ha] at k1
      cases k1
  · intro p sp c hp hc
    obtain ⟨s, hs, k⟩ := shape_eq_bwd h p sp hp
    rw [k.2.1] at hc
    obtain ⟨hlt, sc, hsc, g1, g2⟩ := hT.kid p s c hs hc
    obtain ⟨sc1, hsc1, kc⟩ := shape_eq_fwd h c sc hsc
    exact ⟨hlt, sc1, hsc1, kc.1.trans g1, kc.2.2.1.trans g2⟩
  · intro p sp hp
    obtain ⟨s, hs, k⟩ := shape_eq_bwd h p sp hp
    rw [k.2.1]
    exact hT.nodup p s hs
  · intro p sp c sc hX hp hc hsc hd
    obtain ⟨s, hs, k⟩ := shape_eq_bwd h p sp hp
    obtain ⟨t, ht, kc⟩ := shape_eq_bwd h c sc hsc
    rw [k.2.1] at hc
    rw [k.2.2.2.1] at hd
    rw [kc.2.2.2.1]
    exact hT.closed p s c t hX hs hc ht hd
  · intro a s1 ha hpar
    obtain ⟨s, hs, k⟩ := shape_eq_bwd h a s1 ha
    rw [k.1] at hpar
    exact hT.self a s hs hpar
  · intro s1 ha
    obtain ⟨s, hs, k⟩ := shape_eq_bwd h 0 s1 ha
    rw [k.2.2.2.1, k.2.2.2.2]
    exact hT.root s hs

theorem nd_map {e e1 : dmsg_engine} (h : shape_eq e e1) (hN : no_dying e) : no_dying e1 := by
  intro a s1 ha
  obtain ⟨s, hs, k⟩ := shape_eq_bwd h a s1 ha
  rw [k.2.2.2.1, k.2.2.2.2]
  exact hN a s hs

theorem nstep_refl (e : dmsg_engine) : nstep e e :=
  ⟨fun h => ⟨h, fun hT _ => hT⟩, fun h => h⟩

theorem nstep_of_shape {e e1 : dmsg_engine} (h : shape_eq e e1) : nstep e e1 :=
  ⟨fun hf => ⟨by rw [← h.2.1]; exact hf, fun hT _ => tree_map h hT⟩, nd_map h⟩

theorem tstep_trans {P Q : Prop} {e e1 e2 : dmsg_engine} (h1 : tstep_if P e e1)
    (h2 : tstep_if Q e1 e2) : tstep_if (P ∧ Q) e e2 := by
  intro hf
  obtain ⟨hf1, k2⟩ := h2 hf
  obtain ⟨hf0, k1⟩ := h1 hf1
  exact ⟨hf0, fun hT hp => k2 (k1 hT hp.1) hp.2⟩

theorem tstep_weaken {P Q : Prop} {e e1 : dmsg_engine} (h : tstep_if P e e1) (hq : Q → P) :
    tstep_if Q e e1 := by
  intro hf
  obtain ⟨hf1, k⟩ := h hf
  exact ⟨hf1, fun hT hp => k hT (hq hp)⟩

theorem nstep_trans {e e1 e2 : dmsg_engine} (h1 : nstep e e1) (h2 : nstep e1 e2) : nstep e e2 :=
  ⟨tstep_weaken (tstep_trans h1.1 h2.1) (fun h => ⟨h, h⟩), fun h => h2.2 (h1.2 h)⟩

theorem hold_shape (e : dmsg_engine) (p : Nat) (e1 : dmsg_engine)
    (h : dmsg_state_hold e p = some e1) : shape_eq e e1 := by
  unfold dmsg_state_hold at h
  simp only [Option.bind_eq_bind, Option.bind_eq_some, Option.pure_def, Option.some.injEq] at h
  obtain ⟨s, hs, rfl⟩ := h
  exact shape_eq_put e p s _ hs ⟨rfl, rfl, rfl, rfl, rfl⟩

theorem hold_nstep (e : dmsg_engine) (p : Nat) (e1 : dmsg_engine)
    (h : dmsg_state_hold e p = some e1) : nstep e e1 :=
  nstep_of_shape (hold_shape e p e1 h)

theorem free_nstep (e : dmsg_engine) (p : Nat) (e1 : dmsg_engine)
    (h : dmsg_state_free e p = some e1) : nstep e e1 := by
  unfold dmsg_state_free at h
  simp only [Option.bind_eq_bind, Option.bind_eq_some, Option.pure_def, Option.some.injEq] at h
  obtain ⟨s, hs, rfl⟩ := h
  refine ⟨?_, ?_⟩
  · intro hf
    simp only [dmsg_engine.check, Bool.or_eq_false_iff, Bool.not_eq_false',
      Bool.and_eq_true, Bool.not_eq_true', decide_eq_true_eq] at hf
    obtain ⟨hf0, ⟨hfl, hsub⟩, -⟩ := hf
    have hS : s.flags.SUBINSERTED = false := by
      cases h1 : s.flags.SUBINSERTED
      · rfl
      · rw [h1] at hfl
        simp at hfl
    have hq : s.subq = [] := by simpa using hsub
    refine ⟨hf0, fun hT _ => ?_⟩
    have hne : ∀ q sq c, e.heap q = some sq → c ∈ sq.subq → c ≠ p := by
      intro q sq c hq1 hc hcp
      obtain ⟨-, sc, hsc, -, g2⟩ := hT.kid q sq c hq1 hc
      rw [hcp, hs] at hsc
      injection hsc with hsc
      rw [← hsc, hS] at g2
      cases g2
    refine ⟨?_, ?_, ?_, ?_, ?_, ?_⟩
    · intro a ha
      by_cases hap : a = p
      · subst hap
        simp only [dmsg_engine.check, Function.update_same]
      · simp only [dmsg_engine.check, Function.update_noteq hap]
        exact hT.fresh a ha
    · intro q sq c hq1 hc
      have hqp : q ≠ p := by
        intro hqp
        subst hqp
        simp only [dmsg_engine.check, Function.update_same] at hq1
        cases hq1
      simp only [dmsg_engine.check, Function.update_noteq hqp] at hq1
      obtain ⟨hlt, sc, hsc, g1, g2⟩ := hT.kid q sq c hq1 hc
      refine ⟨hlt, sc, ?_, g1, g2⟩
      simp only [dmsg_engine.check, Function.update_noteq (hne q sq c hq1 hc)]
      exact hsc
    · intro q sq hq1
      have hqp : q ≠ p := by
        intro hqp
        subst hqp
        simp only [dmsg_engine.check, Function.update_same] at hq1
        cases hq1
      simp only [dmsg_engine.check, Function.update_noteq hqp] at hq1
      exact hT.nodup q sq hq1
    · intro q sq c sc hX hq1 hc hsc hd
      have hqp : q ≠ p := by
        intro hqp
        subst hqp
        simp only [dmsg_engine.check, Function.update_same] at hq1
        cases hq1
      simp only [dmsg_engine.check, Function.update_noteq hqp] at hq1
      have hcp := hne q sq c hq1 hc
      simp only [dmsg_engine.check, Function.update_noteq hcp] at hsc
      exact hT.closed q sq c sc hX hq1 hc hsc hd
    · intro a sa ha hpar
      have hap : a ≠ p := by
        intro hap
        subst hap
        simp only [dmsg_engine.check, Function.update_same] at ha
        cases ha
      simp only [dmsg_engine.check, Function.update_noteq hap] at ha
      exact hT.self a sa ha hpar
    · intro s0 h0
      have h0p : (0 : Nat) ≠ p := by
        intro hap
        rw [← hap] at h0
        simp only [dmsg_engine.check, Function.update_same] at h0
        cases h0
      simp only [dmsg_engine.check, Function.update_noteq h0p] at h0
      exact hT.root s0 h0
  · intro hN a sa ha
    have hap : a ≠ p := by
      intro hap
      subst hap
      simp only [dmsg_engine.check, Function.update_same] at ha
      cases ha
    simp only [dmsg_engine.check, Function.update_noteq hap] at ha
    exact hN a sa ha

theorem drop_nstep (e : dmsg_engine) (p : Nat) (e1 : dmsg_engine)
    (h : dmsg_state_drop e p = some e1) : nstep e e1 := by
  unfold dmsg_state_drop at h
  simp only [Option.bind_eq_bind, Option.bind_eq_some, Option.pure_def] at h
  obtain ⟨s, hs, h⟩ := h
  have h1 : nstep e ((e.check (decide (s.refs > 0))).put p { s with refs := s.refs - 1 }) :=
    nstep_of_shape (shape_eq_trans (shape_eq_check e _)
      (shape_eq_put _ p s _ hs ⟨rfl, rfl, rfl, rfl, rfl⟩))
  split_ifs at h
  · exact nstep_trans h1 (free_nstep _ _ _ h)
  · injection h with h
    subst h
    exact h1

theorem ite_nstep {c : Prop} [Decidable c] (A : Option dmsg_engine) (b a : dmsg_engine)
    (h : (if c then A else some b) = some a) (hA : A = some a → nstep b a) : nstep b a := by
  split_ifs at h
  · exact hA h
  · injection h with h
    subst h
    exact nstep_refl _

theorem msg_free_nstep (e : dmsg_engine) (msg : dmsg_msg) (e1 : dmsg_engine)
    (h : dmsg_msg_free e msg = some e1) : nstep e e1 := by
  unfold dmsg_msg_free dmsg_msg_free_locked at h
  simp only [Option.bind_eq_bind, Option.bind_eq_some] at h
  obtain ⟨st, hst, s, -, h⟩ := h
  rw [hst] at h
  exact drop_nstep _ _ _ h
theorem put2_heap (e : dmsg_engine) (p c : Nat) (ps1 s1 : dmsg_state) (a : Nat) :
    ((e.put p ps1).put c s1).heap a =
      if a = c then some s1 else if a = p then some ps1 else e.heap a := by
  simp only [dmsg_engine.put, Function.update_apply]

theorem live_lt {e : dmsg_engine} (hT : tree_inv e) (a : Nat) (s : dmsg_state)
    (h : e.heap a = some s) : a < e.brk := by
  by_contra hc
  rw [hT.fresh a (Nat.le_of_not_lt hc)] at h
  cases h

theorem nd_put (e : dmsg_engine) (p : Nat) (s1 : dmsg_state) (hN : no_dying e)
    (hd : s1.flags.DYING = false) (ha : s1.flags.ABORTING = false) : no_dying (e.put p s1) := by
  intro a t ht
  by_cases hap : a = p
  · subst hap
    rw [put_heap_same] at ht
    injection ht with ht
    subst ht
    exact ⟨hd, ha⟩
  · rw [put_heap_other _ _ _ _ hap] at ht
    exact hN a t ht

/-- The state `c` leaves the queue of its parent `p`. -/
theorem tree_unlink (e : dmsg_engine) (p c : Nat) (ps ps1 s s1 : dmsg_state) (hT : tree_inv e)
    (hs : e.heap c = some s) (hps : e.heap p = some ps) (hmem : c ∈ ps.subq)
    (hps1 : ps1.parent = ps.parent ∧ ps1.subq = ps.subq.erase c ∧
      ps1.flags.SUBINSERTED = ps.flags.SUBINSERTED ∧ ps1.flags.DYING = ps.flags.DYING ∧
      ps1.flags.ABORTING = ps.flags.ABORTING)
    (hs1 : s1.parent = none ∧ s1.subq = s.subq ∧ s1.flags.DYING = s.flags.DYING ∧
      s1.flags.ABORTING = s.flags.ABORTING) :
    tree_inv ((e.put p ps1).put c s1) := by
  obtain ⟨hpc, sc, hsc, hcpar, -⟩ := hT.kid p ps c hps hmem
  rw [hs] at hsc
  injection hsc with hsc
  subst hsc
  have hne : c ≠ p := by omega
  have F1 : ∀ a t, ((e.put p ps1).put c s1).heap a = some t →
      ∃ t0, e.heap a = some t0 ∧ t.flags.DYING = t0.flags.DYING ∧
        (∀ d, d ∈ t.subq → d ∈ t0.subq) ∧ t.flags.ABORTING = t0.flags.ABORTING := by
    intro a t ht
    rw [put2_heap] at ht
    split_ifs at ht with h1 h2
    · injection ht with ht
      subst ht h1
      exact ⟨s, hs, hs1.2.2.1, fun d hd => by rw [hs1.2.1] at hd; exact hd, hs1.2.2.2⟩
    · injection ht with ht
      subst ht h2
      exact ⟨ps, hps, hps1.2.2.2.1, fun d hd => by
        rw [hps1.2.1] at hd
        exact List.mem_of_mem_erase hd, hps1.2.2.2.2⟩
    · exact ⟨t, ht, rfl, fun d hd => hd, rfl⟩
  refine ⟨?_, ?_, ?_, ?_, ?_, ?_⟩
  · intro a ha
    have h1 : a ≠ c := by
      have := live_lt hT c s hs
      show a ≠ c
      intro hac
      rw [hac] at ha
      exact absurd this (Nat.not_lt.2 ha)
    have h2 : a ≠ p := by
      have := live_lt hT p ps hps
      intro hap
      rw [hap] at ha
      exact absurd this (Nat.not_lt.2 ha)
    rw [put2_heap, if_neg h1, if_neg h2]
    exact hT.fresh a ha
  · intro q sq d hq hd
    rw [put2_heap] at hq
    split_ifs at hq with h1 h2
    · injection hq with hq
      subst hq h1
      rw [hs1.2.1] at hd
      obtain ⟨hlt, sd, hsd, g1, g2⟩ := hT.kid q s d hs hd
      refine ⟨hlt, sd, ?_, g1, g2⟩
      rw [put2_heap, if_neg (by omega), if_neg (by omega)]
      exact hsd
    · injection hq with hq
      subst hq h2
      rw [hps1.2.1] at hd
      have hd2 := (List.Nodup.mem_erase_iff (hT.nodup q ps hps)).1 hd
      obtain ⟨hlt, sd, hsd, g1, g2⟩ := hT.kid q ps d hps hd2.2
      refine ⟨hlt, sd, ?_, g1, g2⟩
      rw [put2_heap, if_neg hd2.1, if_neg (by omega)]
      exact hsd
    · obtain ⟨hlt, sd, hsd, g1, g2⟩ := hT.kid q sq d hq hd
      have hdc : d ≠ c := by
        intro hdc
        subst hdc
        rw [hs] at hsd
        injection hsd with hsd
        subst hsd
        rw [hcpar] at g1
        injection g1 with g1
        exact h2 g1.symm
      by_cases hdp : d = p
      · subst hdp
        rw [hps] at hsd
        injection hsd with hsd
        subst hsd
        refine ⟨hlt, ps1, ?_, hps1.1.trans g1, hps1.2.2.1.trans g2⟩
        rw [put2_heap, if_neg hdc, if_pos rfl]
      · refine ⟨hlt, sd, ?_, g1, g2⟩
        rw [put2_heap, if_neg hdc, if_neg hdp]
        exact hsd
  · intro q sq hq
    rw [put2_heap] at hq
    split_ifs at hq with h1 h2
    · injection hq with hq
      subst hq h1
      rw [hs1.2.1]
      exact hT.nodup _ s hs
    · injection hq with hq
      subst hq h2
      rw [hps1.2.1]
      exact (hT.nodup _ ps hps).erase c
    · exact hT.nodup q sq hq
  · intro q sq d sd hX hq hd hsd hdy
    obtain ⟨sq0, k1, k2, k3, -⟩ := F1 q sq hq
    obtain ⟨sd0, g1, g2, -, -⟩ := F1 d sd hsd
    rw [g2]
    rw [k2] at hdy
    exact hT.closed q sq0 d sd0 hX k1 (k3 d hd) g1 hdy
  · intro a t ha hpar
    rw [put2_heap] at ha
    split_ifs at ha with h1 h2
    · injection ha with ha
      subst ha
      rw [hs1.1] at hpar
      cases hpar
    · injection ha with ha
      subst ha h2
      rw [hps1.1] at hpar
      exact hT.self a ps hps hpar
    · exact hT.self a t ha hpar
  · intro s0 h0
    obtain ⟨t0, k1, k2, -, k4⟩ := F1 0 s0 h0
    rw [k2, k4]
    exact hT.root t0 k1

theorem subq_delete_nstep (e : dmsg_engine) (c : Nat) (e1 : dmsg_engine)
    (h : dmsg_subq_delete e c = some e1) : nstep e e1 := by
  unfold dmsg_subq_delete at h
  simp only [Option.bind_eq_bind, Option.bind_eq_some, Option.pure_def] at h
  obtain ⟨s, hs, h⟩ := h
  by_cases hsub : s.flags.SUBINSERTED = true
  · rw [if_pos hsub] at h
    simp only [Option.bind_eq_some] at h
    obtain ⟨p, hp, ps, hps, h⟩ := h
    have hq : (if ps.scan = some c then { ps with scan := none } else ps).subq = ps.subq := by
      split <;> rfl
    by_cases hmem : c ∈ (if ps.scan = some c then { ps with scan := none } else ps).subq
    · rw [if_pos hmem] at h
      simp only [Option.bind_eq_some] at h
      obtain ⟨s1, hs1, ps2, -, h⟩ := h
      rw [hq] at hmem
      have ha : nstep e ((e.put p
          { (if ps.scan = some c then { ps with scan := none } else ps) with
            subq := (if ps.scan = some c then { ps with scan := none } else ps).subq.erase c }).put
          c { s1 with flags := { s1.flags with SUBINSERTED := false }, parent := none }) := by
        refine ⟨fun hf => ⟨hf, fun hT _ => ?_⟩, fun hN => ?_⟩
        · have hpc := (hT.kid p ps c hps hmem).1
          have hne : c ≠ p := by omega
          rw [put_heap_other _ _ _ _ hne, hs] at hs1
          injection hs1 with hs1
          subst hs1
          refine tree_unlink e p c ps _ s _ hT hs hps hmem ⟨?_, ?_, ?_, ?_, ?_⟩
            ⟨rfl, rfl, rfl, rfl⟩
          · split <;> rfl
          · show _ = ps.subq.erase c
            rw [hq]
          · split <;> rfl
          · split <;> rfl
          · split <;> rfl
        · have hN1 : no_dying (e.put p
              { (if ps.scan = some c then { ps with scan := none } else ps) with
                subq := (if ps.scan = some c then { ps with scan := none } else ps).subq.erase
                  c }) := by
            refine nd_put e p _ hN ?_ ?_
            · have := (hN p ps hps).1
              split <;> exact this
            · have := (hN p ps hps).2
              split <;> exact this
          exact nd_put _ c _ hN1 (hN1 c s1 hs1).1 (hN1 c s1 hs1).2
      by_cases hemp : ps2.subq.isEmpty = true
      · rw [if_pos hemp] at h
        simp only [Option.bind_eq_some] at h
        obtain ⟨e3, he3, h⟩ := h
        exact nstep_trans ha (nstep_trans (drop_nstep _ _ _ he3) (drop_nstep _ _ _ h))
      · rw [if_neg hemp] at h
        simp only [Option.some_bind] at h
        exact nstep_trans ha (drop_nstep _ _ _ h)
    · rw [if_neg hmem] at h
      cases h
  · rw [if_neg hsub] at h
    injection h with h
    subst h
    exact nstep_of_shape (shape_eq_check e _)

/-- The allocation of the state `ns` under the parent `p` at the free address
`c`, before it is queued. -/
theorem tree_new (e : dmsg_engine) (c p : Nat) (ps ns : dmsg_state) (hT : tree_inv e)
    (hc : e.heap c = none) (hp : e.heap p = some ps) (hlt : c < e.brk) (hpc0 : p < c)
    (hns : ns.parent = some p ∧ ns.subq = []) : tree_inv (e.put c ns) := by
  have hpc : p ≠ c := by
    intro hpc
    rw [hpc, hc] at hp
    cases hp
  have live : ∀ a t, e.heap a = some t → a ≠ c := by
    intro a t ht hac
    rw [hac, hc] at ht
    cases ht
  refine ⟨?_, ?_, ?_, ?_, ?_, ?_⟩
  · intro a ha
    have hac : a ≠ c := by
      intro hac
      rw [hac] at ha
      exact absurd hlt (Nat.not_lt.2 ha)
    rw [put_heap_other _ _ _ _ hac]
    exact hT.fresh a ha
  · intro q sq d hq hd
    by_cases hqc : q = c
    · subst hqc
      rw [put_heap_same] at hq
      injection hq with hq
      subst hq
      rw [hns.2] at hd
      cases hd
    · rw [put_heap_other _ _ _ _ hqc] at hq
      obtain ⟨h1, sd, hsd, g1, g2⟩ := hT.kid q sq d hq hd
      refine ⟨h1, sd, ?_, g1, g2⟩
      rw [put_heap_other _ _ _ _ (live d sd hsd)]
      exact hsd
  · intro q sq hq
    by_cases hqc : q = c
    · subst hqc
      rw [put_heap_same] at hq
      injection hq with hq
      subst hq
      rw [hns.2]
      exact List.nodup_nil
    · rw [put_heap_other _ _ _ _ hqc] at hq
      exact hT.nodup q sq hq
  · intro q sq d sd hX hq hd hsd hdy
    by_cases hqc : q = c
    · subst hqc
      rw [put_heap_same] at hq
      injection hq with hq
      subst hq
      rw [hns.2] at hd
      cases hd
    · rw [put_heap_other _ _ _ _ hqc] at hq
      obtain ⟨-, sd0, hsd0, -, -⟩ := hT.kid q sq d hq hd
      rw [put_heap_other _ _ _ _ (live d sd0 hsd0)] at hsd
      exact hT.closed q sq d sd hX hq hd hsd hdy
  · intro a t ha hpar
    by_cases hac : a = c
    · subst hac
      rw [put_heap_same] at ha
      injection ha with ha
      subst ha
      rw [hns.1] at hpar
      injection hpar with hpar
      exact absurd hpar hpc
    · rw [put_heap_other _ _ _ _ hac] at ha
      exact hT.self a t ha hpar
  · intro s0 h0
    have h0c : (0 : Nat) ≠ c := by omega
    rw [put_heap_other _ _ _ _ h0c] at h0
    exact hT.root s0 h0

/-- The state `c` goes to the tail of the queue of its parent `p`. -/
theorem tree_append (e : dmsg_engine) (p c : Nat) (ps ps1 sc sc1 : dmsg_state)
    (hT : tree_inv e) (hp : e.heap p = some ps) (hc : e.heap c = some sc)
    (hpar : sc.parent = some p) (hlt : p < c) (hnot : c ∉ ps.subq)
    (hd : ps.flags.DYING = true → sc.flags.DYING = true)
    (hps1 : ps1.parent = ps.parent ∧ ps1.subq = ps.subq ++ [c] ∧
      ps1.flags.SUBINSERTED = ps.flags.SUBINSERTED ∧ ps1.flags.DYING = ps.flags.DYING ∧
      ps1.flags.ABORTING = ps.flags.ABORTING)
    (hsc1 : sc1.parent = sc.parent ∧ sc1.subq = sc.subq ∧ sc1.flags.SUBINSERTED = true ∧
      sc1.flags.DYING = sc.flags.DYING ∧ sc1.flags.ABORTING = sc.flags.ABORTING) :
    tree_inv ((e.put p ps1).put c sc1) := by
  have hne : c ≠ p := by omega
  have F1 : ∀ a t, ((e.put p ps1).put c sc1).heap a = some t →
      ∃ t0, e.heap a = some t0 ∧ t.flags.DYING = t0.flags.DYING ∧
        t.flags.ABORTING = t0.flags.ABORTING ∧ t.parent = t0.parent ∧
        (a ≠ p → t.subq = t0.subq) := by
    intro a t ht
    rw [put2_heap] at ht
    split_ifs at ht with h1 h2
    · injection ht with ht
      subst ht h1
      exact ⟨sc, hc, hsc1.2.2.2.1, hsc1.2.2.2.2, hsc1.1, fun _ => hsc1.2.1⟩
    · injection ht with ht
      subst ht h2
      exact ⟨ps, hp, hps1.2.2.2.1, hps1.2.2.2.2, hps1.1, fun h => absurd rfl h⟩
    · exact ⟨t, ht, rfl, rfl, rfl, fun _ => rfl⟩
  refine ⟨?_, ?_, ?_, ?_, ?_, ?_⟩
  · intro a ha
    have h1 : a ≠ c := by
      have := live_lt hT c sc hc
      intro hac
      rw [hac] at ha
      exact absurd this (Nat.not_lt.2 ha)
    have h2 : a ≠ p := by
      have := live_lt hT p ps hp
      intro hap
      rw [hap] at ha
      exact absurd this (Nat.not_lt.2 ha)
    rw [put2_heap, if_neg h1, if_neg h2]
    exact hT.fresh a ha
  · intro q sq d hq hdm
    have old : ∀ sq0, e.heap q = some sq0 → d ∈ sq0.subq →
        q < d ∧ ∃ sd, ((e.put p ps1).put c sc1).heap d = some sd ∧ sd.parent = some q ∧
          sd.flags.SUBINSERTED = true := by
      intro sq0 hq0 hd0
      obtain ⟨h1, sd, hsd, g1, g2⟩ := hT.kid q sq0 d hq0 hd0
      refine ⟨h1, ?_⟩
      rw [put2_heap]
      split_ifs with k1 k2
      · subst k1
        rw [hc] at hsd
        injection hsd with hsd
        subst hsd
        exact ⟨sc1, rfl, hsc1.1.trans g1, hsc1.2.2.1⟩
      · subst k2
        rw [hp] at hsd
        injection hsd with hsd
        subst hsd
        exact ⟨ps1, rfl, hps1.1.trans g1, hps1.2.2.1.trans g2⟩
      · exact ⟨sd, hsd, g1, g2⟩
    rw [put2_heap] at hq
    split_ifs at hq with h1 h2
    · injection hq with hq
      subst hq h1
      rw [hsc1.2.1] at hdm
      exact old sc hc hdm
    · injection hq with hq
      subst hq h2
      rw [hps1.2.1, List.mem_append, List.mem_singleton] at hdm
      rcases hdm with hdm | hdm
      · exact old ps hp hdm
      · subst hdm
        refine ⟨hlt, sc1, ?_, hsc1.1.trans hpar, hsc1.2.2.1⟩
        rw [put2_heap, if_pos rfl]
    · exact old sq hq hdm
  · intro q sq hq
    rw [put2_heap] at hq
    split_ifs at hq with h1 h2
    · injection hq with hq
      subst hq h1
      rw [hsc1.2.1]
      exact hT.nodup _ sc hc
    · injection hq with hq
      subst hq h2
      rw [hps1.2.1]
      refine List.Nodup.append (hT.nodup _ ps hp) (List.nodup_singleton c) ?_
      intro a ha1 ha2
      rw [List.mem_singleton] at ha2
      subst ha2
      exact hnot ha1
    · exact hT.nodup q sq hq
  · intro q sq d sd hX hq hdm hsd hdy
    obtain ⟨sq0, k1, k2, -, -, k5⟩ := F1 q sq hq
    obtain ⟨sd0, g1, g2, -, -, -⟩ := F1 d sd hsd
    rw [g2]
    rw [k2] at hdy
    by_cases hqp : q = p
    · subst hqp
      rw [hp] at k1
      injection k1 with k1
      subst k1
      have hq2 : ((e.put q ps1).put c sc1).heap q = some ps1 := by
        rw [put2_heap, if_neg (Ne.symm hne), if_pos rfl]
      rw [hq] at hq2
      injection hq2 with hq2
      subst hq2
      rw [hps1.2.1, List.mem_append, List.mem_singleton] at hdm
      rcases hdm with hdm | hdm
      · exact hT.closed q ps d sd0 hX hp hdm g1 hdy
      · subst hdm
        rw [hc] at g1
        injection g1 with g1
        subst g1
        exact hd hdy
    · rw [k5 hqp] at hdm
      exact hT.closed q sq0 d sd0 hX k1 hdm g1 hdy
  · intro a t ha hpar1
    obtain ⟨t0, k1, -, -, k4, -⟩ := F1 a t ha
    rw [k4] at hpar1
    exact hT.self a t0 k1 hpar1
  · intro s0 h0
    obtain ⟨t0, k1, k2, k3, -, -⟩ := F1 0 s0 h0
    rw [k2, k3]
    exact hT.root t0 k1

theorem tree_bump (e : dmsg_engine) (n : Int) (hT : tree_inv e) :
    tree_inv ({ e with brk := e.brk + 1, dmsg_state_count := n } : dmsg_engine) :=
  ⟨fun a ha => hT.fresh a (Nat.le_of_succ_le ha), hT.kid, hT.nodup, hT.closed, hT.self,
    hT.root⟩
theorem shape_eq_tree (e : dmsg_engine) (rd wr : Nat → Option Nat) :
    shape_eq e { e with staterd_tree := rd, statewr_tree := wr } :=
  shape_eq_same _ _ rfl rfl rfl

theorem ite_shape {c : Prop} [Decidable c] (A : Option dmsg_engine) (b a : dmsg_engine)
    (h : (if c then A else some b) = some a) (hA : A = some a → shape_eq b a) :
    shape_eq b a := by
  split_ifs at h
  · exact hA h
  · injection h with h
    subst h
    exact shape_eq_refl _

/-- A new state under the parent `p`: allocated at the mark `c` of `e0`, then,
after steps that leave the shapes alone, queued at the tail of `p->subq`. -/
theorem tree_insert (e0 e2 e4 : dmsg_engine) (p c : Nat) (ps ns ps4 ps5 : dmsg_state)
    (hT : tree_inv e0) (hp : e0.heap p = some ps) (hc : c = e0.brk)
    (h2b : e2.brk = e0.brk + 1)
    (h2h : ∀ a, e2.heap a = if a = c then some ns else e0.heap a)
    (hns : ns.parent = some p ∧ ns.subq = [])
    (hd : ps.flags.DYING = true → ns.flags.DYING = true)
    (h24 : shape_eq e2 e4) (hp4 : e4.heap p = some ps4)
    (hps5 : ps5.parent = ps4.parent ∧ ps5.subq = ps4.subq ++ [c] ∧
      ps5.flags.SUBINSERTED = ps4.flags.SUBINSERTED ∧ ps5.flags.DYING = ps4.flags.DYING ∧
      ps5.flags.ABORTING = ps4.flags.ABORTING)
    (sc4 sc5 : dmsg_state) (hc4 : e4.heap c = some sc4)
    (hsc5 : sc5.parent = sc4.parent ∧ sc5.subq = sc4.subq ∧ sc5.flags.SUBINSERTED = true ∧
      sc5.flags.DYING = sc4.flags.DYING ∧ sc5.flags.ABORTING = sc4.flags.ABORTING) :
    tree_inv ((e4.put p ps5).put c sc5) := by
  have hpc : p ≠ c := by
    have := live_lt hT p ps hp
    omega
  have hfree : e0.heap c = none := hT.fresh c (by omega)
  have hT2 : tree_inv e2 := by
    have hT1 := tree_bump e0 e2.dmsg_state_count hT
    have h3 := tree_new _ c p ps ns hT1 hfree hp (by show c < e0.brk + 1; omega)
      (by have := live_lt hT p ps hp; omega) hns
    refine ⟨?_, ?_, ?_, ?_, ?_, ?_⟩
    · intro a ha
      rw [h2b] at ha
      have := h3.fresh a ha
      rw [h2h]
      simpa only [dmsg_engine.put, Function.update_apply] using this
    · intro q sq d hq hdm
      rw [h2h] at hq
      have hq3 : (({ e0 with brk := e0.brk + 1, dmsg_state_count := e2.dmsg_state_count } :
          dmsg_engine).put c ns).heap q = some sq := by
        simpa only [dmsg_engine.put, Function.update_apply] using hq
      obtain ⟨k1, sd, k2, k3, k4⟩ := h3.kid q sq d hq3 hdm
      refine ⟨k1, sd, ?_, k3, k4⟩
      rw [h2h]
      simpa only [dmsg_engine.put, Function.update_apply] using k2
    · intro q sq hq
      rw [h2h] at hq
      have hq3 : (({ e0 with brk := e0.brk + 1, dmsg_state_count := e2.dmsg_state_count } :
          dmsg_engine).put c ns).heap q = some sq := by
        simpa only [dmsg_engine.put, Function.update_apply] using hq
      exact h3.nodup q sq hq3
    · intro q sq d sd hX hq hdm hsd hdy
      rw [h2h] at hq hsd
      have hq3 : (({ e0 with brk := e0.brk + 1, dmsg_state_count := e2.dmsg_state_count } :
          dmsg_engine).put c ns).heap q = some sq := by
        simpa only [dmsg_engine.put, Function.update_apply] using hq
      have hd3 : (({ e0 with brk := e0.brk + 1, dmsg_state_count := e2.dmsg_state_count } :
          dmsg_engine).put c ns).heap d = some sd := by
        simpa only [dmsg_engine.put, Function.update_apply] using hsd
      exact h3.closed q sq d sd hX hq3 hdm hd3 hdy
    · intro a t ha hpar
      rw [h2h] at ha
      have ha3 : (({ e0 with brk := e0.brk + 1, dmsg_state_count := e2.dmsg_state_count } :
          dmsg_engine).put c ns).heap a = some t := by
        simpa only [dmsg_engine.put, Function.update_apply] using ha
      exact h3.self a t ha3 hpar
    · intro s0 h0
      rw [h2h] at h0
      have h03 : (({ e0 with brk := e0.brk + 1, dmsg_state_count := e2.dmsg_state_count } :
          dmsg_engine).put c ns).heap 0 = some s0 := by
        simpa only [dmsg_engine.put, Function.update_apply] using h0
      exact h3.root s0 h03
  have hT4 := tree_map h24 hT2
  have hp2 : e2.heap p = some ps := by
    rw [h2h, if_neg hpc]
    exact hp
  have hc2 : e2.heap c = some ns := by rw [h2h, if_pos rfl]
  obtain ⟨ps4', k1, k2⟩ := shape_eq_fwd h24 p ps hp2
  rw [hp4] at k1
  injection k1 with k1
  subst k1
  obtain ⟨sc4', g1, g2⟩ := shape_eq_fwd h24 c ns hc2
  rw [hc4] at g1
  injection g1 with g1
  subst g1
  have hnot : c ∉ ps4.subq := by
    rw [k2.2.1]
    intro hm
    obtain ⟨-, sd, hsd, -, -⟩ := hT.kid p ps c hp hm
    rw [hfree] at hsd
    cases hsd
  refine tree_append e4 p c ps4 ps5 sc4 sc5 hT4 hp4 hc4 (g2.1.trans hns.1)
    (by have := live_lt hT p ps hp; omega) hnot ?_ hps5 hsc5
  intro hdy
  rw [g2.2.2.2.1]
  rw [k2.2.2.2.1] at hdy
  exact hd hdy

theorem alloc_create_nstep (e : dmsg_engine) (p cmd func : Nat) (data : Bool)
    (r : dmsg_engine × Nat) (h : dmsg_msg_alloc_create e p cmd func data = some r) :
    nstep e r.1 := by
  unfold dmsg_msg_alloc_create at h
  simp only [Option.bind_eq_bind, Option.bind_eq_some, Option.pure_def] at h
  obtain ⟨ps, hps, h⟩ := h
  obtain ⟨e3, he3, h⟩ := ite_bind_some _ _ _ _ _ h
  simp only [Option.bind_eq_some] at h
  obtain ⟨ps4, hps4, e6, he6, e7, he7, e8, he8, h⟩ := h
  injection h with h
  subst h
  generalize hns : ({ dmsg_state.zero with
      parent := some p
      flags := { DYNAMIC := true, SUBINSERTED := true, RBINSERTED := true,
                 DYING := ps.flags.DYING }
      msgid := e.brk
      txcmd := cmd &&& not32 (DMSGF_CREATE ||| DMSGF_DELETE)
      rxcmd := DMSGF_REPLY
      icmd := (cmd &&& not32 (DMSGF_CREATE ||| DMSGF_DELETE)) &&& DMSGF_BASECMDMASK
      func := func
      any := data } : dmsg_state) = ns at he3
  have hnsp : ns.parent = some p ∧ ns.subq = [] ∧ ns.flags.DYING = ps.flags.DYING ∧
      ns.flags.ABORTING = false ∧ ns.flags.SUBINSERTED = true := by
    rw [← hns]
    exact ⟨rfl, rfl, rfl, rfl, rfl⟩
  generalize hE2 : (({ e with brk := e.brk + 1, dmsg_state_count := e.dmsg_state_count + 1 } :
      dmsg_engine).put e.brk ns) = e2 at he3
  have h2h : ∀ a, e2.heap a = if a = e.brk then some ns else e.heap a := by
    intro a
    rw [← hE2]
    simp only [dmsg_engine.put, Function.update_apply]
  have h2b : e2.brk = e.brk + 1 := by rw [← hE2]; rfl
  have h2f : e2.free_failed = e.free_failed := by rw [← hE2]; rfl
  have h23 : shape_eq e2 e3 := ite_shape _ _ _ he3 (fun ha => hold_shape _ _ _ ha)
  have h34 : shape_eq e3 { e3 with statewr_tree := RB_INSERT e3.statewr_tree e.brk e.brk } :=
    shape_eq_same _ _ rfl rfl rfl
  have h24 := shape_eq_trans h23 h34
  have h58 : shape_eq
      (({ e3 with statewr_tree := RB_INSERT e3.statewr_tree e.brk e.brk } : dmsg_engine).put p
        { ps4 with subq := ps4.subq ++ [e.brk] }) e8 :=
    shape_eq_trans (hold_shape _ _ _ he6) (shape_eq_trans (hold_shape _ _ _ he7)
      (hold_shape _ _ _ he8))
  refine ⟨?_, ?_⟩
  · intro hf
    have hf5 : e3.free_failed = false := by
      rw [h58.2.1] at hf
      exact hf
    have hf0 : e.free_failed = false := by
      rw [← h2f, ← h23.2.1]
      exact hf5
    refine ⟨hf0, fun hT _ => tree_map h58 ?_⟩
    have hpc : p ≠ e.brk := by
      have := live_lt hT p ps hps
      omega
    have hc2 : e2.heap e.brk = some ns := by rw [h2h, if_pos rfl]
    obtain ⟨sc4, g1, g2⟩ := shape_eq_fwd h24 e.brk ns hc2
    have key := tree_insert e e2 _ p e.brk ps ns ps4 { ps4 with subq := ps4.subq ++ [e.brk] }
      hT hps rfl h2b h2h ⟨hnsp.1, hnsp.2.1⟩ (fun hd => by rw [hnsp.2.2.1]; exact hd)
      h24 hps4 ⟨rfl, rfl, rfl, rfl, rfl⟩ sc4 sc4 g1
      ⟨rfl, rfl, g2.2.2.1.trans hnsp.2.2.2.2, rfl, rfl⟩
    rw [put_self _ e.brk sc4 (by rw [put_heap_other _ _ _ _ (Ne.symm hpc)]; exact g1)] at key
    exact key
  · intro hN
    refine nd_map h58 ?_
    have hN2 : no_dying e2 := by
      intro a t ht
      rw [h2h] at ht
      split_ifs at ht
      · injection ht with ht
        subst ht
        exact ⟨hnsp.2.2.1.trans (hN p ps hps).1, hnsp.2.2.2.1⟩
      · exact hN a t ht
    have hN4 := nd_map h24 hN2
    exact nd_put _ p _ hN4 (hN4 p ps4 hps4).1 (hN4 p ps4 hps4).2

theorem alloc_nstep (e : dmsg_engine) (state aux_size cmd func : Nat) (data : Bool)
    (r : dmsg_engine × dmsg_msg)
    (h : dmsg_msg_alloc_locked e state aux_size cmd func data = some r) : nstep e r.1 := by
  unfold dmsg_msg_alloc_locked at h
  by_cases hc : cmd &&& (DMSGF_CREATE ||| DMSGF_REPLY) = DMSGF_CREATE
  · simp only [hc, decide_True, if_true, Option.bind_eq_bind, Option.bind_eq_some,
      Option.pure_def] at h
    obtain ⟨a, ha, s0, -, pstate, -, s1, -, ps1, -, h⟩ := h
    injection h with h
    subst h
    exact nstep_trans (alloc_create_nstep _ _ _ _ _ _ ha) (nstep_of_shape (shape_eq_check _ _))
  · simp only [hc, decide_False, Bool.false_eq_true, if_false, Option.bind_eq_bind,
      Option.bind_eq_some, Option.pure_def, Option.map_eq_some'] at h
    obtain ⟨a, ⟨e1, he1, ha⟩, s0, -, pstate, -, s1, -, ps1, -, h⟩ := h
    injection h with h
    subst h ha
    exact nstep_trans (hold_nstep _ _ _ he1) (nstep_of_shape (shape_eq_check _ _))
theorem nstep_to_if {P : Prop} {e e1 : dmsg_engine} (h : nstep e e1) : nstep_if P e e1 :=
  ⟨tstep_weaken h.1 (fun _ => trivial), h.2⟩

theorem nstep_if_weaken {P Q : Prop} {e e1 : dmsg_engine} (h : nstep_if P e e1) (hq : Q → P) :
    nstep_if Q e e1 :=
  ⟨tstep_weaken h.1 hq, h.2⟩

theorem nstep_if_then {P : Prop} {e e1 e2 : dmsg_engine} (h1 : nstep_if P e e1)
    (h2 : nstep e1 e2) : nstep_if P e e2 :=
  ⟨tstep_weaken (tstep_trans h1.1 h2.1) (fun h => ⟨h, trivial⟩), fun h => h2.2 (h1.2 h)⟩

theorem create_nstep (e : dmsg_engine) (msg : dmsg_msg) (p : Nat) (l : msgrx_locals)
    (h : dmsg_state_msgrx_create e msg p = some l) :
    nstep_if (∀ ps, e.heap p = some ps → ps.flags.DYING = false) e l.eng := by
  unfold dmsg_state_msgrx_create at h
  simp only [Option.bind_eq_bind, Option.bind_eq_some, Option.pure_def] at h
  obtain ⟨eb, heb, ps, -, h⟩ := h
  obtain ⟨ee, hee, h⟩ := ite_bind_some _ _ _ _ _ h
  simp only [Option.bind_eq_some] at h
  obtain ⟨ps1, hps1, s1, hs1, eh, heh, ei, hei, ej, hej, ps2, -, s2, hs2, h⟩ := h
  injection h with h
  rw [← h]
  show nstep_if _ e (if ps2.relay.isSome = true then ej.put e.brk { s2 with func := 1 } else ej)
  unfold dmsg_state_hold at heb
  simp only [Option.bind_eq_bind, Option.bind_eq_some, Option.pure_def,
    Option.some.injEq] at heb
  obtain ⟨sp, hsp, heb⟩ := heb
  subst heb
  have hsp0 : e.heap p = some sp := hsp
  generalize hns : ({ dmsg_state.zero with
      parent := some p
      flags := { DYNAMIC := true, OPPOSITE := true }
      msgid := msg.head.msgid
      txcmd := DMSGF_REPLY
      rxcmd := msg.head.cmd &&& not32 DMSGF_DELETE
      icmd := (msg.head.cmd &&& not32 DMSGF_DELETE) &&& DMSGF_BASECMDMASK } : dmsg_state) = ns
    at hee
  have hnsp : ns.parent = some p ∧ ns.subq = [] ∧ ns.flags.DYING = false ∧
      ns.flags.ABORTING = false := by
    rw [← hns]
    exact ⟨rfl, rfl, rfl, rfl⟩
  obtain ⟨e2, h24, h2h, h2b, h2f⟩ : ∃ e2 : dmsg_engine, shape_eq e2 ee ∧
      (∀ a, e2.heap a = if a = e.brk then some ns
        else if a = p then some { sp with refs := sp.refs + 1 } else e.heap a) ∧
      e2.brk = e.brk + 1 ∧ e2.free_failed = e.free_failed :=
    ⟨_, ite_shape _ _ _ hee (fun ha => hold_shape _ _ _ ha),
      fun a => by simp only [dmsg_engine.put, Function.update_apply], rfl, rfl⟩
  obtain ⟨e0, h00, h0h, h0b⟩ : ∃ e0 : dmsg_engine, shape_eq e e0 ∧
      (∀ a, e0.heap a = if a = p then some { sp with refs := sp.refs + 1 } else e.heap a) ∧
      e0.brk = e.brk :=
    ⟨({ e with dmsg_state_count := e.dmsg_state_count + 1 } : dmsg_engine).put p
        { sp with refs := sp.refs + 1 },
      shape_eq_trans (shape_eq_same e
        ({ e with dmsg_state_count := e.dmsg_state_count + 1 } : dmsg_engine) rfl rfl rfl)
        (shape_eq_put _ p sp _ hsp0 ⟨rfl, rfl, rfl, rfl, rfl⟩),
      fun a => by simp only [dmsg_engine.put, Function.update_apply], rfl⟩
  have hgj : shape_eq ((ee.put p { ps1 with subq := ps1.subq ++ [e.brk] }).put e.brk
      { s1 with flags := { s1.flags with SUBINSERTED := true, RBINSERTED := true } }) ej :=
    shape_eq_trans (hold_shape _ _ _ heh) (shape_eq_trans (hold_shape _ _ _ hei)
      (hold_shape _ _ _ hej))
  have hjk : shape_eq ej
      (if ps2.relay.isSome = true then ej.put e.brk { s2 with func := 1 } else ej) := by
    split
    · exact shape_eq_put _ _ s2 _ hs2 ⟨rfl, rfl, rfl, rfl, rfl⟩
    · exact shape_eq_refl _
  have hgk := shape_eq_trans hgj hjk
  refine ⟨?_, ?_⟩
  · intro hf
    have hf0 : e.free_failed = false := by
      rw [hgk.2.1] at hf
      rw [← h2f, ← h24.2.1]
      exact hf
    refine ⟨hf0, fun hT hP => tree_map hgk ?_⟩
    have hT0 := tree_map h00 hT
    obtain ⟨sp0, k1, k2⟩ := shape_eq_fwd h00 p sp hsp0
    have hb0 : e0.brk = e.brk := h00.1
    have h2h0 : ∀ a, e2.heap a = if a = e.brk then some ns else e0.heap a := by
      intro a
      rw [h2h a, h0h a]
    have h2b0 : e2.brk = e0.brk + 1 := by rw [h2b, hb0]
    have hpc : p ≠ e.brk := by
      have := live_lt hT p sp hsp0
      omega
    have hc2 : e2.heap e.brk = some ns := by rw [h2h, if_pos rfl]
    obtain ⟨sc4, g1, g2⟩ := shape_eq_fwd h24 e.brk ns hc2
    rw [put_heap_other _ _ _ _ (Ne.symm hpc), g1] at hs1
    injection hs1 with hs1
    subst hs1
    refine tree_insert e0 e2 ee p e.brk sp0 ns ps1 { ps1 with subq := ps1.subq ++ [e.brk] }
      hT0 k1 hb0.symm h2b0 h2h0 ⟨hnsp.1, hnsp.2.1⟩ ?_ h24 hps1 ⟨rfl, rfl, rfl, rfl, rfl⟩
      sc4 _ g1 ⟨rfl, rfl, rfl, rfl, rfl⟩
    intro hd
    rw [k2.2.2.2.1, hP sp hsp0] at hd
    cases hd
  · intro hN
    refine nd_map hgk ?_
    have hN0 := nd_map h00 hN
    have hN2 : no_dying e2 := by
      intro a t ht
      rw [h2h] at ht
      split_ifs at ht with k1 k2
      · injection ht with ht
        subst ht
        exact ⟨hnsp.2.2.1, hnsp.2.2.2⟩
      · exact hN0 a t (by rw [h0h a, if_pos k2]; exact ht)
      · exact hN a t ht
    have hN4 := nd_map h24 hN2
    have hN5 := nd_put _ p { ps1 with subq := ps1.subq ++ [e.brk] } hN4 (hN4 p ps1 hps1).1
      (hN4 p ps1 hps1).2
    exact nd_put _ e.brk _ hN5 (hN5 e.brk s1 hs1).1 (hN5 e.brk s1 hs1).2

theorem out_nstep {P : Prop} (e e0 : dmsg_engine) (msg : dmsg_msg) (state err : Nat)
    (l : msgrx_locals)
    (h : (some { eng := e0, msg := msg, state := state, error := err } : Option msgrx_locals) =
      some l) (he : nstep e e0) : nstep_if P e l.eng := by
  injection h with h
  subst h
  exact nstep_to_if he

theorem switch_nstep (e : dmsg_engine) (msg : dmsg_msg) (state : Nat) (pstate : Option Nat)
    (l : msgrx_locals) (h : dmsg_state_msgrx_switch e msg state pstate = some l) :
    nstep_if (some state = pstate → ∀ ps, e.heap state = some ps → ps.flags.DYING = false)
      e l.eng := by
  unfold dmsg_state_msgrx_switch at h
  simp only [] at h
  split_ifs at h
  all_goals first
    | exact nstep_if_weaken (create_nstep _ _ _ _ h) (fun hP => hP (not_not.1 (by assumption)))
    | exact out_nstep e _ _ _ _ l h (nstep_refl _)
    | exact out_nstep e _ _ _ _ l h (nstep_of_shape (shape_eq_check _ _))
    | (simp only [Option.bind_eq_some] at h
       obtain ⟨st, hst, h⟩ := h
       first
         | exact out_nstep e _ _ _ _ l h (nstep_of_shape (shape_eq_trans (shape_eq_check _ _)
             (shape_eq_put _ _ st _ hst ⟨rfl, rfl, rfl, rfl, rfl⟩)))
         | (split_ifs at h <;> first
             | exact out_nstep e _ _ _ _ l h (nstep_refl _)
             | exact out_nstep e _ _ _ _ l h (nstep_of_shape (shape_eq_check _ _))))

theorem remove_nstep (e : dmsg_engine) (cmd state : Nat) (st : dmsg_state) (e1 : dmsg_engine)
    (hst : e.heap state = some st)
    (h : dmsg_state_msgrx_remove e cmd state st = some e1) : nstep e e1 := by
  unfold dmsg_state_msgrx_remove at h
  simp only [Option.bind_eq_bind, Option.bind_eq_some] at h
  obtain ⟨e7, he7, h⟩ := h
  have h7 : e7.heap = e.heap ∧ e7.brk = e.brk ∧ e7.free_failed = e.free_failed := by
    by_cases hR : st.rxcmd &&& DMSGF_REPLY ≠ 0
    · rw [if_pos hR] at he7
      simp only [Option.map_eq_some'] at he7
      obtain ⟨t, -, rfl⟩ := he7
      exact ⟨rfl, rfl, rfl⟩
    · rw [if_neg hR] at he7
      simp only [Option.map_eq_some'] at he7
      obtain ⟨t, -, rfl⟩ := he7
      exact ⟨rfl, rfl, rfl⟩
  exact nstep_trans (nstep_of_shape (shape_eq_trans (shape_eq_same e e7 h7.1 h7.2.1 h7.2.2)
    (shape_eq_put e7 state st { st with flags := { st.flags with RBINSERTED := false } }
      (by rw [h7.1]; exact hst) ⟨rfl, rfl, rfl, rfl, rfl⟩))) (drop_nstep _ _ _ h)

theorem adjust_nstep (l : msgrx_locals) (r : msgrx_result)
    (h : dmsg_state_msgrx_adjust l = some r) : nstep l.eng r.eng := by
  unfold dmsg_state_msgrx_adjust at h
  simp only [Option.bind_eq_bind, Option.bind_eq_some, Option.pure_def] at h
  obtain ⟨mst2, -, ms2, -, st2, hst2, h⟩ := h
  split_ifs at h
  · injection h with h
    rw [← h]
    exact nstep_of_shape (shape_eq_check _ _)
  · simp only [Option.map_eq_some'] at h
    obtain ⟨e9, he9, h⟩ := h
    rw [← h]
    have h1 : shape_eq l.eng
        (((l.eng.check (decide (mst2 = l.state))).check
          (decide (st2.rxcmd &&& DMSGF_DELETE = 0))).put l.state
          { st2 with rxcmd := st2.rxcmd ||| DMSGF_DELETE }) :=
      shape_eq_trans (shape_eq_check _ _) (shape_eq_trans (shape_eq_check _ _)
        (shape_eq_put _ _ st2 _ hst2 ⟨rfl, rfl, rfl, rfl, rfl⟩))
    exact nstep_trans (nstep_of_shape h1) (remove_nstep _ _ _ _ _ (put_heap_same _ _ _) he9)
  · injection h with h
    rw [← h]
    exact nstep_of_shape (shape_eq_trans (shape_eq_check _ _) (shape_eq_trans (shape_eq_check _ _)
      (shape_eq_put _ _ st2 _ hst2 ⟨rfl, rfl, rfl, rfl, rfl⟩)))
  · injection h with h
    rw [← h]
    exact nstep_of_shape (shape_eq_check _ _)

theorem assign_nstep (e : dmsg_engine) (msg : dmsg_msg) (mstate : Bool) (mst : Nat)
    (pstate found : Option Nat) (a : dmsg_engine × dmsg_msg × Option Nat)
    (h : dmsg_state_msgrx_assign e msg mstate mst pstate found = some a) :
    nstep e a.1 := by
  unfold dmsg_state_msgrx_assign at h
  split_ifs at h
  · injection h with h
    rw [← h]
    exact nstep_refl _
  · cases found with
    | none =>
      injection h with h
      rw [← h]
      exact nstep_refl _
    | some st =>
      simp only [Option.bind_eq_bind, Option.bind_eq_some, Option.pure_def] at h
      obtain ⟨e1, he1, e2, he2, sst, -, h⟩ := h
      injection h with h
      rw [← h]
      exact nstep_trans (drop_nstep _ _ _ he1)
        (nstep_trans (hold_nstep _ _ _ he2) (nstep_of_shape (shape_eq_check _ _)))

/-- The function `dmsg_state_msgrx` keeps the shape of the queues; for a
message from the wire (`mstate == 0`) provided no state is `DYING`, since the
state it creates does not inherit the flag. -/
theorem msgrx_nstep (e : dmsg_engine) (msg : dmsg_msg) (mstate : Bool) (r : msgrx_result)
    (h : dmsg_state_msgrx e msg mstate = some r) :
    nstep_if (mstate = false → no_dying e) e r.eng := by
  unfold dmsg_state_msgrx at h
  simp only [Option.bind_eq_bind, Option.bind_eq_some] at h
  obtain ⟨mst, hmst, ms, hms, h⟩ := h
  cases hcirc : dmsg_state_msgrx_circuit e msg mstate ms with
  | none =>
    rw [hcirc] at h
    injection h with h
    rw [← h]
    exact nstep_to_if (nstep_refl _)
  | some pstate =>
    rw [hcirc] at h
    simp only [Option.bind_eq_bind, Option.bind_eq_some] at h
    obtain ⟨a, ha, state, hstate, l, hl, h⟩ := h
    have h1 := assign_nstep _ _ _ _ _ _ a ha
    have h2 := switch_nstep _ _ _ _ l hl
    have h3 := adjust_nstep l r h
    refine ⟨?_, fun hN => h3.2 (h2.2 (h1.2 hN))⟩
    intro hf
    obtain ⟨hf3, k3⟩ := h3.1 hf
    obtain ⟨hf2, k2⟩ := h2.1 hf3
    obtain ⟨hf1, k1⟩ := h1.1 hf2
    refine ⟨hf1, fun hT hP => k3 (k2 (k1 hT trivial) ?_) trivial⟩
    intro hsp ps hps
    cases mstate with
    | false => exact (h1.2 (hP rfl) state ps hps).1
    | true =>
      simp only [dmsg_state_msgrx_assign, if_true, Option.some.injEq] at ha
      subst ha
      simp only [Option.some.injEq] at hstate
      subst hstate
      simp only [dmsg_state_msgrx_circuit, if_true, Option.some.injEq] at hcirc
      subst hcirc
      have hps2 : e.heap mst = some ps := hps
      rw [hms] at hps2
      injection hps2 with hps2
      subst hps2
      have h0 := hT.self mst ms hms hsp.symm
      subst h0
      exact (hT.root ms hms).1

theorem cleanuprx_nstep (e : dmsg_engine) (msg : dmsg_msg) (e1 : dmsg_engine)
    (h : dmsg_state_cleanuprx e msg = some e1) : nstep e e1 := by
  unfold dmsg_state_cleanuprx at h
  simp only [Option.bind_eq_bind, Option.bind_eq_some] at h
  obtain ⟨state, -, st, -, h⟩ := h
  split_ifs at h
  · exact msg_free_nstep _ _ _ h
  · simp only [Option.bind_eq_some] at h
    obtain ⟨ea, hea, st1, hst1, e2, he2, h⟩ := h
    have h2 : nstep ea e2 := by
      cases hrel : st1.relay with
      | none =>
        rw [hrel] at he2
        injection he2 with he2
        subst he2
        exact nstep_refl _
      | some r =>
        rw [hrel] at he2
        simp only [Option.bind_eq_bind, Option.bind_eq_some, Option.pure_def] at he2
        obtain ⟨eb, heb, st2, hst2, he2⟩ := he2
        injection he2 with he2
        subst he2
        exact nstep_trans (drop_nstep _ _ _ heb)
          (nstep_of_shape (shape_eq_put _ _ st2 _ hst2 ⟨rfl, rfl, rfl, rfl, rfl⟩))
    exact nstep_trans (subq_delete_nstep _ _ _ hea)
      (nstep_trans h2 (msg_free_nstep _ _ _ h))
  · exact msg_free_nstep _ _ _ h
theorem dying_only_bwd {e e1 : dmsg_engine} (h : dying_only e e1) (a : Nat) (s1 : dmsg_state)
    (hs : e1.heap a = some s1) :
    ∃ s d, e.heap a = some s ∧ s1 = set_dying s (s.flags.DYING || d) := by
  cases hs0 : e.heap a with
  | none =>
    rw [h.dead a hs0] at hs
    cases hs
  | some s =>
    obtain ⟨d, hd⟩ := h.heap a s hs0
    rw [hd] at hs
    injection hs with hs
    exact ⟨s, d, rfl, hs.symm⟩

theorem kid_dying {e e1 : dmsg_engine} (h : dying_only e e1) (hk : kid_ok e) : kid_ok e1 := by
  intro p sp c hp hc
  obtain ⟨s, d, hs, rfl⟩ := dying_only_bwd h p sp hp
  obtain ⟨hlt, sc, hsc, g1, g2⟩ := hk p s c hs hc
  obtain ⟨d1, hd1⟩ := h.heap c sc hsc
  exact ⟨hlt, _, hd1, g1, g2⟩

theorem fresh_dying {e e1 : dmsg_engine} (h : dying_only e e1)
    (hf : ∀ a, e.brk ≤ a → e.heap a = none) : ∀ a, e1.brk ≤ a → e1.heap a = none := by
  intro a ha
  rw [h.brk] at ha
  exact h.dead a (hf a ha)

theorem dying_fold_closed (n : Nat) (Y : List Nat)
    (ih : ∀ (e : dmsg_engine) (x : Nat) (e1 : dmsg_engine),
      dmsg_state_dying n e x = some e1 → kid_ok e → closed_ex Y e →
      closed_ex Y e1 ∧ (∃ s1, e1.heap x = some s1 ∧ s1.flags.DYING = true) ∧
      (x ≠ 0 → e1.heap 0 = e.heap 0)) :
    ∀ (l : List Nat) (ea e1 : dmsg_engine),
      l.foldlM (fun eb scan => dmsg_state_dying n eb scan) ea = some e1 → kid_ok ea →
      closed_ex Y ea → (∀ c, c ∈ l → c ≠ 0) →
      closed_ex Y e1 ∧ (∀ c, c ∈ l → ∃ s1, e1.heap c = some s1 ∧ s1.flags.DYING = true) ∧
      e1.heap 0 = ea.heap 0 := by
  intro l
  induction l with
  | nil =>
    intro ea e1 h _ hcl _
    injection h with h
    subst h
    exact ⟨hcl, fun c hc => absurd hc (List.not_mem_nil c), rfl⟩
  | cons c l ihl =>
    intro ea e1 h hk hcl hl
    rw [List.foldlM_cons] at h
    cases hfa : dmsg_state_dying n ea c with
    | none =>
      rw [hfa] at h
      exact absurd h (by simp)
    | some eb =>
      rw [hfa] at h
      have hdo := dying_changes _ _ _ _ hfa
      obtain ⟨k1, ⟨sc1, k2, k3⟩, k4⟩ := ih ea c eb hfa hk hcl
      have hl2 : ∀ c', c' ∈ l → c' ≠ 0 := fun c' hc' => hl c' (List.mem_cons_of_mem _ hc')
      obtain ⟨r1, r2, r3⟩ := ihl eb e1 h (kid_dying hdo hk) k1 hl2
      have hdo2 : dying_only eb e1 :=
        foldlM_keep (fun a => dying_only eb a) _
          (fun a y b ha hb => dying_only_trans _ _ _ ha (dying_changes _ _ _ _ hb)) _ _ _
          (dying_only_refl eb) h
      refine ⟨r1, ?_, ?_⟩
      · intro c' hc'
        rcases List.mem_cons.1 hc' with hc' | hc'
        · subst hc'
          obtain ⟨d, hd⟩ := hdo2.heap c' sc1 k2
          refine ⟨_, hd, ?_⟩
          simp [set_dying, k3]
        · exact r2 c' hc'
      · rw [r3]
        exact k4 (hl c (List.mem_cons_self _ _))

/-- After `dmsg_state_dying(x)` the state `x` is `DYING`, and the children of
a `DYING` state are `DYING` wherever they were before the call; `state0` is
not touched unless it is `x`. -/
theorem dying_closed : ∀ (fuel : Nat) (X : List Nat) (e : dmsg_engine) (x : Nat)
    (e1 : dmsg_engine), dmsg_state_dying fuel e x = some e1 → kid_ok e → closed_ex X e →
    closed_ex X e1 ∧ (∃ s1, e1.heap x = some s1 ∧ s1.flags.DYING = true) ∧
    (x ≠ 0 → e1.heap 0 = e.heap 0) := by
  intro fuel
  induction fuel with
  | zero =>
    intro X e x e1 h
    simp [dmsg_state_dying] at h
  | succ n ih =>
    intro X e x e1 h hk hcl
    have hdo := dying_changes _ _ _ _ h
    unfold dmsg_state_dying at h
    simp only [Option.bind_eq_bind, Option.bind_eq_some, Option.pure_def] at h
    obtain ⟨s, hs, h⟩ := h
    by_cases hD : s.flags.DYING = true
    · simp only [hD, Bool.not_true, Bool.false_eq_true, if_false, Option.some.injEq] at h
      subst h
      exact ⟨hcl, ⟨s, hs, hD⟩, fun _ => rfl⟩
    · have hD' : s.flags.DYING = false := by
        cases hd : s.flags.DYING
        · rfl
        · exact absurd hd hD
      simp only [hD', Bool.not_false, if_true] at h
      have hdo1 := dying_only_put e x s hs
      have hk1 := kid_dying hdo1 hk
      have hcl1 : closed_ex (x :: X)
          (e.put x { s with flags := { s.flags with DYING := true } }) := by
        intro p sp c sc hX hp hc hsc hdy
        have hpx : p ≠ x := fun hpx => hX (by rw [hpx]; exact List.mem_cons_self _ _)
        have hpX : p ∉ X := fun hpX => hX (List.mem_cons_of_mem _ hpX)
        rw [put_heap_other _ _ _ _ hpx] at hp
        by_cases hcx : c = x
        · subst hcx
          rw [put_heap_same] at hsc
          injection hsc with hsc
          subst hsc
          rfl
        · rw [put_heap_other _ _ _ _ hcx] at hsc
          exact hcl p sp c sc hpX hp hc hsc hdy
      have hl : ∀ c, c ∈ s.subq → c ≠ 0 := by
        intro c hc
        have := (hk x s c hs hc).1
        omega
      obtain ⟨r1, r2, r3⟩ := dying_fold_closed n (x :: X) (fun e0 x0 e2 => ih (x :: X) e0 x0 e2)
        s.subq _ e1 h hk1 hcl1 hl
      have hdo2 : dying_only (e.put x { s with flags := { s.flags with DYING := true } }) e1 :=
        foldlM_keep (fun a => dying_only _ a) _
          (fun a y b ha hb => dying_only_trans _ _ _ ha (dying_changes _ _ _ _ hb)) _ _ _
          (dying_only_refl _) h
      obtain ⟨d, hx1⟩ := hdo2.heap x _ (put_heap_same _ _ _)
      refine ⟨?_, ⟨_, hx1, by simp [set_dying]⟩, ?_⟩
      · intro p sp c sc hX hp hc hsc hdy
        by_cases hpx : p = x
        · subst hpx
          rw [hx1] at hp
          injection hp with hp
          subst hp
          obtain ⟨s1, g1, g2⟩ := r2 c hc
          rw [hsc] at g1
          injection g1 with g1
          subst g1
          exact g2
        · exact r1 p sp c sc (by
            intro hm
            rcases List.mem_cons.1 hm with hm | hm
            · exact hpx hm
            · exact hX hm) hp hc hsc hdy
      · intro hx0
        rw [r3, put_heap_other _ _ _ _ (Ne.symm hx0)]

/-- The function `dmsg_state_dying` keeps the shape of the queues when it is
called on a state other than `state0`. -/
theorem dying_tstep (fuel : Nat) (e : dmsg_engine) (x : Nat) (e1 : dmsg_engine)
    (h : dmsg_state_dying fuel e x = some e1) : tstep_if (x ≠ 0) e e1 := by
  intro hf
  have hdo := dying_changes _ _ _ _ h
  refine ⟨by rw [← hdo.free_failed]; exact hf, fun hT hP => ?_⟩
  obtain ⟨k1, -, k3⟩ := dying_closed fuel [] e x e1 h hT.kid hT.closed
  refine ⟨fresh_dying hdo hT.fresh, kid_dying hdo hT.kid, ?_, k1, ?_, ?_⟩
  · intro p sp hp
    obtain ⟨s, d, hs, rfl⟩ := dying_only_bwd hdo p sp hp
    exact hT.nodup p s hs
  · intro a sa1 ha hpar
    obtain ⟨sa, d, hsa, rfl⟩ := dying_only_bwd hdo a sa1 ha
    exact hT.self a sa hsa hpar
  · intro s0 h0
    rw [k3 hP] at h0
    exact hT.root s0 h0

theorem dying_fold_total (n : Nat) (b : Nat)
    (ih : ∀ (e : dmsg_engine) (x : Nat) (s : dmsg_state), e.brk = b → b - x ≤ n →
      (∀ a, e.brk ≤ a → e.heap a = none) → kid_ok e → e.heap x = some s →
      ∃ fuel e1, dmsg_state_dying fuel e x = some e1) (x : Nat) (hx : b - x ≤ n + 1) :
    ∀ (l : List Nat) (ea : dmsg_engine), ea.brk = b → (∀ a, ea.brk ≤ a → ea.heap a = none) →
      kid_ok ea → (∀ c, c ∈ l → x < c ∧ ∃ sc, ea.heap c = some sc) →
      ∃ fuel e1, l.foldlM (fun eb scan => dmsg_state_dying fuel eb scan) ea = some e1 := by
  intro l
  induction l with
  | nil => exact fun ea _ _ _ _ => ⟨0, ea, rfl⟩
  | cons c l ihl =>
    intro ea hb hfr hk hl
    obtain ⟨hlt, sc, hsc⟩ := hl c (List.mem_cons_self _ _)
    have hcb : c < b := by
      by_contra hcb
      rw [hfr c (by rw [hb]; omega)] at hsc
      cases hsc
    obtain ⟨f1, eb, h1⟩ := ih ea c sc hb (by omega) hfr hk hsc
    have hdo := dying_changes _ _ _ _ h1
    obtain ⟨f2, e1, h2⟩ := ihl eb (hdo.brk.trans hb) (fresh_dying hdo hfr) (kid_dying hdo hk)
      (fun c' hc' => by
        obtain ⟨g1, sc', g2⟩ := hl c' (List.mem_cons_of_mem _ hc')
        obtain ⟨d, hd⟩ := hdo.heap c' sc' g2
        exact ⟨g1, _, hd⟩)
    refine ⟨max f1 f2, e1, ?_⟩
    rw [List.foldlM_cons, dying_mono_le f1 _ (Nat.le_max_left _ _) _ _ _ h1]
    exact foldlM_mono _ _ (fun b a r => dying_mono_le f2 _ (Nat.le_max_right _ _) b a r) _ _ _ h2

/-- The function `dmsg_state_dying` returns, with enough fuel, on an
allocated state of an engine whose queues are as `kid_ok` says. -/
theorem dying_total (b : Nat) : ∀ (n : Nat) (e : dmsg_engine) (x : Nat) (s : dmsg_state),
    e.brk = b → b - x ≤ n → (∀ a, e.brk ≤ a → e.heap a = none) → kid_ok e →
    e.heap x = some s → ∃ fuel e1, dmsg_state_dying fuel e x = some e1 := by
  intro n
  induction n with
  | zero =>
    intro e x s hb hn hfr _ hs
    rw [hfr x (by rw [hb]; omega)] at hs
    cases hs
  | succ n ih =>
    intro e x s hb hn hfr hk hs
    by_cases hD : s.flags.DYING = true
    · exact ⟨1, e, by simp [dmsg_state_dying, hs, hD]⟩
    · have hD' : s.flags.DYING = false := by
        cases hd : s.flags.DYING
        · rfl
        · exact absurd hd hD
      have hdo1 := dying_only_put e x s hs
      obtain ⟨f, e1, h1⟩ := dying_fold_total n b ih x hn s.subq
        (e.put x { s with flags := { s.flags with DYING := true } }) hb
        (fresh_dying hdo1 hfr) (kid_dying hdo1 hk)
        (fun c hc => by
          obtain ⟨hlt, sc, hsc, -, -⟩ := hk x s c hs hc
          obtain ⟨d, hd⟩ := hdo1.heap c sc hsc
          exact ⟨hlt, _, hd⟩)
      refine ⟨f + 1, e1, ?_⟩
      simp only [dmsg_state_dying, hs, hD', Option.bind_eq_bind, Option.some_bind, Bool.not_false,
        if_true]
      exact h1
theorem tstep_chain {P Q : Prop} {e e1 e2 : dmsg_engine} (h1 : tstep_if P e e1)
    (h2 : tstep_if Q e1 e2) (hq : tree_inv e → P → tree_inv e1 → Q) : tstep_if P e e2 := by
  intro hf
  obtain ⟨hf1, k2⟩ := h2 hf
  obtain ⟨hf0, k1⟩ := h1 hf1
  exact ⟨hf0, fun hT hP => k2 (k1 hT hP) (hq hT hP (k1 hT hP))⟩

theorem tstep_refl (P : Prop) (e : dmsg_engine) : tstep_if P e e :=
  fun hf => ⟨hf, fun hT _ => hT⟩

/-- An update of the `ABORTING` flag of a state other than `state0`. -/
theorem tree_put_ab (e : dmsg_engine) (x : Nat) (s s1 : dmsg_state) (hT : tree_inv e)
    (hs : e.heap x = some s) (hns : x ≠ 0)
    (h : s1.parent = s.parent ∧ s1.subq = s.subq ∧
      s1.flags.SUBINSERTED = s.flags.SUBINSERTED ∧ s1.flags.DYING = s.flags.DYING) :
    tree_inv (e.put x s1) := by
  have B : ∀ a t, (e.put x s1).heap a = some t →
      ∃ t0, e.heap a = some t0 ∧ t.parent = t0.parent ∧ t.subq = t0.subq ∧
        t.flags.SUBINSERTED = t0.flags.SUBINSERTED ∧ t.flags.DYING = t0.flags.DYING ∧
        (a ≠ x → t = t0) := by
    intro a t ht
    by_cases hax : a = x
    · subst hax
      rw [put_heap_same] at ht
      injection ht with ht
      subst ht
      exact ⟨s, hs, h.1, h.2.1, h.2.2.1, h.2.2.2, fun hc => absurd rfl hc⟩
    · rw [put_heap_other _ _ _ _ hax] at ht
      exact ⟨t, ht, rfl, rfl, rfl, rfl, fun _ => rfl⟩
  have F : ∀ a t0, e.heap a = some t0 →
      ∃ t, (e.put x s1).heap a = some t ∧ t.parent = t0.parent ∧
        t.flags.SUBINSERTED = t0.flags.SUBINSERTED := by
    intro a t0 ht
    by_cases hax : a = x
    · subst hax
      rw [hs] at ht
      injection ht with ht
      subst ht
      exact ⟨s1, put_heap_same _ _ _, h.1, h.2.2.1⟩
    · exact ⟨t0, by rw [put_heap_other _ _ _ _ hax]; exact ht, rfl, rfl⟩
  refine ⟨?_, ?_, ?_, ?_, ?_, ?_⟩
  · intro a ha
    have hax : a ≠ x := by
      have := live_lt hT x s hs
      intro hax
      rw [hax] at ha
      exact absurd this (Nat.not_lt.2 ha)
    rw [put_heap_other _ _ _ _ hax]
    exact hT.fresh a ha
  · intro p sp c hp hc
    obtain ⟨sp0, k1, -, k3, -, -, -⟩ := B p sp hp
    rw [k3] at hc
    obtain ⟨hlt, sc, hsc, g1, g2⟩ := hT.kid p sp0 c k1 hc
    obtain ⟨t, r1, r2, r3⟩ := F c sc hsc
    exact ⟨hlt, t, r1, r2.trans g1, r3.trans g2⟩
  · intro p sp hp
    obtain ⟨sp0, k1, -, k3, -, -, -⟩ := B p sp hp
    rw [k3]
    exact hT.nodup p sp0 k1
  · intro p sp c sc hX hp hc hsc hdy
    obtain ⟨sp0, k1, -, k3, -, k5, -⟩ := B p sp hp
    obtain ⟨sc0, g1, -, -, -, g5, -⟩ := B c sc hsc
    rw [k3] at hc
    rw [k5] at hdy
    rw [g5]
    exact hT.closed p sp0 c sc0 hX k1 hc g1 hdy
  · intro a t ha hpar
    obtain ⟨t0, k1, k2, -, -, -, -⟩ := B a t ha
    rw [k2] at hpar
    exact hT.self a t0 k1 hpar
  · intro s0 h0
    rw [put_heap_other _ _ _ _ (Ne.symm hns)] at h0
    exact hT.root s0 h0

/-- The block of `dmsg_state_abort` that delivers the synthesized message
keeps the shape of the queues. -/
theorem abort_msg_tstep (e : dmsg_engine) (x : Nat) (e1 : dmsg_engine)
    (h : dmsg_state_abort_msg e x = some e1) : tstep_if True e e1 := by
  unfold dmsg_state_abort_msg at h
  simp only [Option.bind_eq_bind, Option.bind_eq_some] at h
  obtain ⟨am, ham, s3, -, r, hr, h⟩ := h
  have h1 := (alloc_nstep _ _ _ _ _ _ am ham).1
  have h2 := (msgrx_nstep _ _ _ r hr).1
  have h3 : tstep_if True r.eng { r.eng with rcvd := r.eng.rcvd ++ [r.msg] } :=
    (nstep_of_shape (shape_eq_same r.eng { r.eng with rcvd := r.eng.rcvd ++ [r.msg] }
      rfl rfl rfl)).1
  have h4 := (cleanuprx_nstep _ _ _ h).1
  exact tstep_chain (tstep_chain (tstep_chain h1 h2 (fun _ _ _ hc => by cases hc)) h3
    (fun _ _ _ => trivial)) h4 (fun _ _ _ => trivial)

/-- The function `dmsg_state_abort` keeps the shape of the queues when it is
called on a state other than `state0`. -/
theorem abort_tstep (fuel : Nat) (e : dmsg_engine) (x : Nat) (e1 : dmsg_engine)
    (h : dmsg_state_abort fuel e x = some e1) : tstep_if (x ≠ 0) e e1 := by
  unfold dmsg_state_abort at h
  simp only [Option.bind_eq_bind, Option.bind_eq_some, Option.pure_def] at h
  obtain ⟨s, hs, h⟩ := h
  split_ifs at h with hab
  · injection h with h
    subst h
    exact tstep_refl _ _
  · simp only [Option.bind_eq_some] at h
    obtain ⟨e2, he2, s2, -, h⟩ := h
    have h1 : tstep_if (x ≠ 0) e
        (e.put x { s with flags := { s.flags with ABORTING := true } }) :=
      fun hf => ⟨hf, fun hT hP => tree_put_ab e x s _ hT hs hP ⟨rfl, rfl, rfl, rfl⟩⟩
    have h2 := tstep_chain h1 (dying_tstep _ _ _ _ he2) (fun _ hP _ => hP)
    split_ifs at h
    · injection h with h
      subst h
      exact h2
    · exact tstep_chain h2 (abort_msg_tstep _ _ _ h) (fun _ _ _ => trivial)
    · injection h with h
      subst h
      exact h2

theorem tailq_next_mem : ∀ (l : List Nat) (x y : Nat), TAILQ_NEXT l x = some y → y ∈ l := by
  intro l
  induction l with
  | nil =>
    intro x y h
    simp [TAILQ_NEXT] at h
  | cons a l ih =>
    intro x y h
    unfold TAILQ_NEXT at h
    split_ifs at h
    · exact List.mem_cons_of_mem _ (List.mem_of_mem_head? h)
    · exact List.mem_cons_of_mem _ (ih x y h)

/-- The cascade of `dmsg_simulate_failure` keeps the shape of the queues: the
function itself when it is not asked to abort `state0`, its loop when the
cursor is on the queue of `state`. -/
theorem simulate_tstep : ∀ (fuel : Nat),
    (∀ (e : dmsg_engine) (x : Nat) (m : Bool) (err : Nat) (e1 : dmsg_engine),
      dmsg_simulate_failure fuel e x m err = some e1 →
      tstep_if (m = true → x ≠ 0) e e1) ∧
    (∀ (e : dmsg_engine) (q err : Nat) (c : Option Nat) (e1 : dmsg_engine),
      dmsg_simulate_failure_scan fuel e q err c = some e1 →
      tstep_if (∀ y, c = some y → ∀ s, e.heap q = some s → y ∈ s.subq) e e1) := by
  intro fuel
  induction fuel with
  | zero =>
    refine ⟨?_, ?_⟩
    · intro e x m err e1 h
      simp [dmsg_simulate_failure] at h
    · intro e q err c e1 h
      simp [dmsg_simulate_failure_scan] at h
  | succ n ih =>
    refine ⟨?_, ?_⟩
    · intro e x m err e1 h
      have key : ∃ ea eb s ec, dmsg_state_hold e x = some ea ∧
          (if m = true then dmsg_state_abort n ea x else some ea) = some eb ∧
          eb.heap x = some s ∧ dmsg_simulate_failure_scan n eb x err s.subq.head? = some ec ∧
          dmsg_state_drop ec x = some e1 := by
        unfold dmsg_simulate_failure at h
        cases m with
        | true =>
          simp only [if_true, Option.bind_eq_bind, Option.bind_eq_some, Option.pure_def] at h
          obtain ⟨ea, hea, eb, heb, s, hs, ec, hec, h⟩ := h
          exact ⟨ea, eb, s, ec, hea, by simpa using heb, hs, hec, h⟩
        | false =>
          simp only [Bool.false_eq_true, if_false, Option.bind_eq_bind, Option.bind_eq_some,
            Option.pure_def, Option.some.injEq] at h
          obtain ⟨ea, hea, eb, heb, s, hs, ec, hec, h⟩ := h
          exact ⟨ea, eb, s, ec, hea, by simpa using heb, hs, hec, h⟩
      obtain ⟨ea, eb, s, ec, hea, heb, hs, hec, h⟩ := key
      have hsh := hold_shape _ _ _ hea
      have h1 : tstep_if (m = true → x ≠ 0) e ea :=
        tstep_weaken (nstep_of_shape hsh).1 (fun _ => trivial)
      have h2 : tstep_if (m = true → x ≠ 0) ea eb := by
        cases m with
        | true =>
          simp only [if_true] at heb
          exact tstep_weaken (abort_tstep _ _ _ _ heb) (fun hP => hP rfl)
        | false =>
          simp only [Bool.false_eq_true, if_false, Option.some.injEq] at heb
          subst heb
          exact tstep_refl _ _
      have h12 := tstep_chain h1 h2 (fun _ hP _ => hP)
      have h3 := (ih.2 eb x err s.subq.head? ec hec)
      have h123 := tstep_chain h12 h3 (fun _ _ _ y hy t ht => by
        rw [hs] at ht
        injection ht with ht
        subst ht
        exact List.mem_of_mem_head? hy)
      exact tstep_chain h123 (drop_nstep _ _ _ h).1 (fun _ _ _ => trivial)
    · intro e q err c e1 h
      cases c with
      | none =>
        simp only [dmsg_simulate_failure_scan, Option.some.injEq] at h
        subst h
        exact tstep_refl _ _
      | some y =>
        unfold dmsg_simulate_failure_scan at h
        simp only [Option.bind_eq_bind, Option.bind_eq_some] at h
        obtain ⟨ss, hss, s, hs, h⟩ := h
        by_cases hab : ss.flags.ABORTING = true
        · rw [if_pos hab] at h
          exact tstep_chain (tstep_refl _ e) (ih.2 e q err _ e1 h) (fun _ _ _ z hz t ht => by
            rw [hs] at ht
            injection ht with ht
            subst ht
            exact tailq_next_mem _ _ _ hz)
        · rw [if_neg hab] at h
          simp only [Option.bind_eq_some] at h
          obtain ⟨e2, he2, s2, hs2, h⟩ := h
          have hsh : shape_eq e (e.put q { s with scan := some y }) :=
            shape_eq_put e q s _ hs ⟨rfl, rfl, rfl, rfl, rfl⟩
          have h1 : tstep_if (∀ z, some y = some z → ∀ s, e.heap q = some s → z ∈ s.subq) e
              (e.put q { s with scan := some y }) :=
            tstep_weaken (nstep_of_shape hsh).1 (fun _ => trivial)
          have h2 := ih.1 _ y true err e2 he2
          have h12 := tstep_chain h1 h2 (fun hT hP _ _ => by
            have hy := hP y rfl s hs
            have := (hT.kid q s y hs hy).1
            omega)
          have hnext : ∀ c2, (c2 = s2.subq.head? ∨ c2 = TAILQ_NEXT s2.subq y) →
              ∀ z, c2 = some z → ∀ t, e2.heap q = some t → z ∈ t.subq := by
            intro c2 hc2 z hz t ht
            rw [hs2] at ht
            injection ht with ht
            subst ht
            rcases hc2 with hc2 | hc2
            · rw [hc2] at hz
              exact List.mem_of_mem_head? hz
            · rw [hc2] at hz
              exact tailq_next_mem _ _ _ hz
          split_ifs at h
          · exact tstep_chain h12 (ih.2 e2 q err _ e1 h)
              (fun _ _ _ => hnext _ (Or.inl rfl))
          · exact tstep_chain h12 (ih.2 e2 q err _ e1 h)
              (fun _ _ _ => hnext _ (Or.inr rfl))

theorem simulate_failure_tstep (fuel : Nat) (e : dmsg_engine) (x : Nat) (m : Bool) (err : Nat)
    (e1 : dmsg_engine) (h : dmsg_simulate_failure fuel e x m err = some e1) :
    tstep_if (m = true → x ≠ 0) e e1 :=
  (simulate_tstep fuel).1 e x m err e1 h
theorem nstep_tchain {P : Prop} {e e1 e2 : dmsg_engine} (h1 : nstep e e1)
    (h2 : tstep_if P e1 e2) (hq : tree_inv e1 → P) : tstep_if True e e2 :=
  tstep_chain h1.1 h2 (fun _ _ hT1 => hq hT1)

/-- The function `dmsg_state_cleanuptx` keeps the shape of the queues, and
sets no `DYING` or `ABORTING` flag where none was set (the deferred abort
does not run then). -/
theorem cleanuptx_nstep (fuel : Nat) (e : dmsg_engine) (msg : dmsg_msg) (e1 : dmsg_engine)
    (h : dmsg_state_cleanuptx fuel e msg = some e1) : nstep e e1 := by
  unfold dmsg_state_cleanuptx at h
  simp only [Option.bind_eq_bind, Option.bind_eq_some, Option.pure_def] at h
  obtain ⟨state, -, ea, hea, s, hs, e2, he2, s2, hs2, e3, he3, h⟩ := h
  have h1 := hold_nstep _ _ _ hea
  have h2 : nstep ea e2 := by
    by_cases hroot : s.flags.ROOT = true
    · rw [if_pos hroot] at he2
      injection he2 with he2
      subst he2
      exact nstep_refl _
    · rw [if_neg hroot] at he2
      by_cases hdel : msg.head.cmd &&& DMSGF_DELETE ≠ 0
      · rw [if_pos hdel] at he2
        by_cases hcase : s.txcmd &&& DMSGF_DELETE = 0 ∧ s.rxcmd &&& DMSGF_DELETE ≠ 0
        · rw [if_pos hcase] at he2
          simp only [Option.bind_eq_some] at he2
          obtain ⟨eb, heb, ed, hed, sd, hsd, ee, hee, he2⟩ := he2
          have hput : shape_eq ea ((ea.put state { s with txcmd := s.txcmd ||| DMSGF_DELETE }).check
              s.flags.RBINSERTED) :=
            shape_eq_trans (shape_eq_put ea state s
              { s with txcmd := s.txcmd ||| DMSGF_DELETE } hs ⟨rfl, rfl, rfl, rfl, rfl⟩)
              (shape_eq_check _ _)
          have hb : shape_eq ea (eb.put state
              { s with txcmd := s.txcmd ||| DMSGF_DELETE,
                       flags := { s.flags with RBINSERTED := false } }) := by
            have hbb : eb.heap = ((ea.put state
                { s with txcmd := s.txcmd ||| DMSGF_DELETE }).check s.flags.RBINSERTED).heap ∧
                eb.brk = ea.brk ∧ eb.free_failed = ea.free_failed := by
              by_cases hR : (s.txcmd ||| DMSGF_DELETE) &&& DMSGF_REPLY ≠ 0
              · rw [if_pos hR] at heb
                simp only [Option.map_eq_some'] at heb
                obtain ⟨t, -, rfl⟩ := heb
                exact ⟨rfl, rfl, rfl⟩
              · rw [if_neg hR] at heb
                simp only [Option.map_eq_some'] at heb
                obtain ⟨t, -, rfl⟩ := heb
                exact ⟨rfl, rfl, rfl⟩
            have hbs : shape_eq ((ea.put state
                { s with txcmd := s.txcmd ||| DMSGF_DELETE }).check s.flags.RBINSERTED) eb :=
              shape_eq_same _ _ hbb.1 hbb.2.1 hbb.2.2
            refine shape_eq_trans hput (shape_eq_trans hbs
              (shape_eq_put eb state { s with txcmd := s.txcmd ||| DMSGF_DELETE } _ ?_
                ⟨rfl, rfl, rfl, rfl, rfl⟩))
            rw [hbb.1]
            exact put_heap_same _ _ _
          have hd := subq_delete_nstep _ _ _ hed
          have hrel : nstep ed ee := by
            cases hr : sd.relay with
            | none =>
              rw [hr] at hee
              injection hee with hee
              subst hee
              exact nstep_refl _
            | some r =>
              rw [hr] at hee
              simp only [Option.bind_eq_bind, Option.bind_eq_some, Option.pure_def] at hee
              obtain ⟨ex, hex, sx, hsx, hee⟩ := hee
              injection hee with hee
              subst hee
              exact nstep_trans (drop_nstep _ _ _ hex)
                (nstep_of_shape (shape_eq_put _ _ sx _ hsx ⟨rfl, rfl, rfl, rfl, rfl⟩))
          exact nstep_trans (nstep_of_shape hb) (nstep_trans hd (nstep_trans hrel
            (drop_nstep _ _ _ he2)))
        · rw [if_neg hcase] at he2
          split_ifs at he2
          · injection he2 with he2
            subst he2
            exact nstep_of_shape (shape_eq_put ea state s _ hs ⟨rfl, rfl, rfl, rfl, rfl⟩)
          · injection he2 with he2
            subst he2
            exact nstep_refl _
      · rw [if_neg hdel] at he2
        injection he2 with he2
        subst he2
        exact nstep_refl _
  have h12 := nstep_trans h1 h2
  have h4 := drop_nstep _ _ _ h
  by_cases hc : (s2.flags.ABORTING || s2.flags.DYING) = true ∧ s2.rxcmd &&& DMSGF_DELETE = 0
  · rw [if_pos hc] at he3
    have hx0 : tree_inv e2 → state ≠ 0 := by
      intro hT hx
      subst hx
      have := hT.root s2 hs2
      rw [this.1, this.2] at hc
      simp at hc
    have h3a : tstep_if (state ≠ 0) e2
        (e2.put state { s2 with flags := { s2.flags with ABORTING := false } }) :=
      fun hf => ⟨hf, fun hT hP => tree_put_ab e2 state s2 _ hT hs2 hP ⟨rfl, rfl, rfl, rfl⟩⟩
    have h3 := tstep_chain h3a (simulate_failure_tstep _ _ _ _ _ _ he3) (fun _ hP _ _ => hP)
    refine ⟨?_, ?_⟩
    · exact tstep_chain (nstep_tchain h12 h3 hx0) h4.1 (fun _ _ _ => trivial)
    · intro hN
      have := h12.2 hN state s2 hs2
      rw [this.1, this.2] at hc
      simp at hc
  · rw [if_neg hc] at he3
    injection he3 with he3
    subst he3
    exact nstep_trans h12 h4

/-- The function `dmsg_msg_write` keeps the shape of the queues, and sets no
`DYING` or `ABORTING` flag where none was set. -/
theorem write_nstep (fuel : Nat) (ic : dmsg_iocom) (msg : dmsg_msg) (ic1 : dmsg_iocom)
    (h : dmsg_msg_write fuel ic msg = some ic1) :
    nstep ic.eng ic1.eng ∧ ic1.ioq_rx = ic.ioq_rx := by
  unfold dmsg_msg_write at h
  simp only [Option.bind_eq_bind, Option.bind_eq_some, Option.pure_def] at h
  obtain ⟨state, hst, s, hs, h⟩ := h
  generalize hs1 : (if (!s.flags.ROOT) = true ∧
      msg.head.cmd &&& (DMSGF_CREATE ||| DMSGF_REPLY) = DMSGF_CREATE then
      { s with
        txcmd := msg.head.cmd &&& not32 DMSGF_DELETE
        icmd := (msg.head.cmd &&& not32 DMSGF_DELETE) &&& DMSGF_BASECMDMASK
        flags := { s.flags with NEW := false } }
    else s) = s1 at h
  have k1 : same_shape s s1 := by
    rw [← hs1]
    split_ifs
    · exact ⟨rfl, rfl, rfl, rfl, rfl⟩
    · exact ⟨rfl, rfl, rfl, rfl, rfl⟩
  generalize hm1 : (if (!s.flags.ROOT) = true then
      { msg with head := { msg.head with msgid := s1.msgid } } else msg) = msg1 at h
  generalize hs2 : (if (!s.flags.ROOT) = true ∧ msg1.head.cmd &&& DMSGF_CREATE ≠ 0 then
      { s1 with txcmd := msg1.head.cmd &&& not32 DMSGF_DELETE } else s1) = s2 at h
  have k2 : same_shape s s2 := by
    rw [← hs2]
    split_ifs
    · exact same_shape_trans k1 ⟨rfl, rfl, rfl, rfl, rfl⟩
    · exact k1
  generalize he1 : (if (!s.flags.ROOT) = true then ic.eng.put state s2 else ic.eng) = e1 at h
  have ke : shape_eq ic.eng e1 := by
    rw [← he1]
    split_ifs
    · exact shape_eq_put _ _ s _ hs k2
    · exact shape_eq_refl _
  have hs1e : ∃ t, e1.heap state = some t ∧ t.flags.DYING = s2.flags.DYING := by
    obtain ⟨t, g1, g2⟩ := shape_eq_fwd ke state s hs
    exact ⟨t, g1, g2.2.2.2.1.trans k2.2.2.2.1.symm⟩
  split_ifs at h with hdel hdy
  · simp only [Option.map_eq_some'] at h
    obtain ⟨e2, he2, rfl⟩ := h
    exact ⟨nstep_trans (nstep_of_shape ke) (msg_free_nstep _ _ _ he2), rfl⟩
  · simp only [Option.bind_eq_some] at h
    obtain ⟨e2, he2, e3, he3, s3, hs3, e4, he4, e5, he5, e6, he6, h⟩ := h
    injection h with h
    subst h
    refine ⟨?_, rfl⟩
    obtain ⟨t, g1, g2⟩ := hs1e
    have h01 := nstep_of_shape ke
    have h13 := nstep_trans (hold_nstep _ _ _ he2) (cleanuptx_nstep _ _ _ _ he3)
    have h56 := nstep_trans (drop_nstep _ _ _ he5) (msg_free_nstep _ _ _ he6)
    refine ⟨?_, ?_⟩
    · have h34 : tstep_if (state ≠ 0) e3 e4 := by
        split_ifs at he4
        · exact tstep_weaken (simulate_failure_tstep _ _ _ _ _ _ he4) (fun hP _ => hP)
        · injection he4 with he4
          subst he4
          exact tstep_refl _ _
      have hx0 : tree_inv e1 → state ≠ 0 := by
        intro hT hx
        subst hx
        have := (hT.root t g1).1
        rw [g2, hdy] at this
        cases this
      have hA : tstep_if True ic.eng e4 := by
        intro hf
        obtain ⟨hf3, k34⟩ := h34 hf
        obtain ⟨hf1, k13⟩ := h13.1 hf3
        obtain ⟨hf0, k01⟩ := h01.1 hf1
        exact ⟨hf0, fun hT _ => k34 (k13 (k01 hT trivial) trivial) (hx0 (k01 hT trivial))⟩
      exact tstep_chain hA h56.1 (fun _ _ _ => trivial)
    · intro hN
      have := (h01.2 hN state t g1).1
      rw [g2, hdy] at this
      cases this
  · simp only [Option.bind_eq_some] at h
    obtain ⟨e2, he2, h⟩ := h
    injection h with h
    subst h
    exact ⟨nstep_trans (nstep_of_shape ke) (cleanuptx_nstep _ _ _ _ he2), rfl⟩

theorem reply_cmd_nstep (fuel : Nat) (ic : dmsg_iocom) (state cmd0 error : Nat)
    (ic1 : dmsg_iocom) (h : dmsg_state_reply_cmd fuel ic state cmd0 error = some ic1) :
    nstep ic.eng ic1.eng ∧ ic1.ioq_rx = ic.ioq_rx := by
  unfold dmsg_state_reply_cmd at h
  simp only [Option.bind_eq_bind, Option.bind_eq_some, Option.pure_def] at h
  obtain ⟨s, hs, h⟩ := h
  by_cases hd : s.txcmd &&& DMSGF_DELETE ≠ 0
  · rw [if_pos hd] at h
    injection h with h
    subst h
    exact ⟨nstep_refl _, rfl⟩
  · rw [if_neg hd] at h
    simp only [Option.bind_eq_some] at h
    obtain ⟨am, ham, s1, hs1, h⟩ := h
    obtain ⟨k1, k2⟩ := write_nstep fuel _ _ ic1 h
    exact ⟨nstep_trans (alloc_nstep _ _ _ _ _ _ am ham) k1, k2⟩
theorem keep_nstep {a b : dmsg_iocom} (h : rx_keep a b) : nstep a.eng b.eng :=
  nstep_of_shape (shape_eq_same _ _ h.1 h.2.2.2.1 h.2.2.2.2.1)

theorem header1_check_nstep (env : Env) (ic : dmsg_iocom) (msgp : Bool) (r : switch_result)
    (h : dmsg_ioq_read_HEADER1_check env ic msgp = some r) : nstep ic.eng r.ic.eng := by
  unfold dmsg_ioq_read_HEADER1_check at h
  simp only [] at h
  split at h
  · injection h with h
    subst h
    exact nstep_refl _
  · split at h
    · injection h with h
      subst h
      exact nstep_refl _
    · simp only [Option.bind_eq_some] at h
      obtain ⟨am, ham, h⟩ := h
      exact nstep_trans (alloc_nstep _ _ _ _ _ _ am ham) (keep_nstep (header2_keep env _ _ _ _ h))

theorem header1_nstep (env : Env) (ic : dmsg_iocom) (bytes : Nat) (r : switch_result)
    (h : dmsg_ioq_read_HEADER1 env ic bytes = some r) : nstep ic.eng r.ic.eng := by
  unfold dmsg_ioq_read_HEADER1 at h
  simp only [] at h
  generalize hrd : (if bytes < sizeof_head then ioq_sock_read _ _
      else ({ ic := _, nmax := _, brk := false } : sock_read_result)) = rd at h
  have key : rx_keep ic rd.ic := by
    rw [← hrd]
    split
    · exact rx_keep_trans (makeroom_rx_keep _ _) (sock_read_keep _ _)
    · exact makeroom_rx_keep _ _
  split_ifs at h
  · injection h with h
    subst h
    exact keep_nstep key
  · injection h with h
    subst h
    exact keep_nstep (rx_keep_trans key (rx_keep_trans (decrypt_keep env _) (check_keep _ _)))
  · exact nstep_trans (keep_nstep (rx_keep_trans key (rx_keep_trans (decrypt_keep env _)
      (check_keep _ _)))) (header1_check_nstep env _ _ _ h)

/-- The `switch` of `dmsg_ioq_read` keeps the shape of the queues. -/
theorem rx_switch_nstep (env : Env) (ic : dmsg_iocom) (r : switch_result)
    (h : dmsg_ioq_read_switch env ic = some r) : nstep ic.eng r.ic.eng := by
  unfold dmsg_ioq_read_switch at h
  simp only [] at h
  split at h
  · exact header1_nstep env _ _ _ h
  · exact keep_nstep (header2_keep env _ _ _ _ h)
  · exact keep_nstep (auxdata1_keep env _ _ _ h)
  · exact keep_nstep (auxdata2_keep env _ _ _ h)
  · injection h with h
    subst h
    exact keep_nstep (check_keep _ _)

theorem free_fold_nstep (f : dmsg_engine → dmsg_msg → Option dmsg_engine)
    (hf : ∀ a m b, f a m = some b → nstep a b) :
    ∀ (q : List dmsg_msg) (e e1 : dmsg_engine), q.foldlM f e = some e1 → nstep e e1 := by
  intro q
  induction q with
  | nil =>
    intro e e1 h
    injection h with h
    subst h
    exact nstep_refl _
  | cons m q ih =>
    intro e e1 h
    rw [List.foldlM_cons] at h
    cases hfa : f e m with
    | none =>
      rw [hfa] at h
      exact absurd h (by simp)
    | some e2 =>
      rw [hfa] at h
      exact nstep_trans (hf e m e2 hfa) (ih e2 e1 h)

theorem drain_nstep (ic ic1 : dmsg_iocom) (h : dmsg_iocom_drain ic = some ic1) :
    nstep ic.eng ic1.eng := by
  unfold dmsg_iocom_drain at h
  simp only [Option.map_eq_some'] at h
  obtain ⟨e, he, h⟩ := h
  subst h
  exact free_fold_nstep _ (fun a m b hb => msg_free_nstep a m b hb) _ _ _ he

/-- The error branch of `dmsg_ioq_read` keeps the shape of the queues. -/
theorem skip_tstep (fuel : Nat) (ic ic3 : dmsg_iocom) (msg : Option dmsg_msg)
    (h : dmsg_ioq_read_skip fuel ic msg = some ic3) : tstep_if True ic.eng ic3.eng := by
  unfold dmsg_ioq_read_skip at h
  simp only [Option.bind_eq_bind, Option.bind_eq_some, Option.pure_def] at h
  obtain ⟨ic1, h1, ic2, h2, e, he, h⟩ := h
  injection h with h
  subst h
  have k1 : nstep ic.eng ic1.eng := by
    cases msg with
    | none =>
      simp only [] at h1
      injection h1 with h1
      subst h1
      exact keep_nstep (check_keep _ _)
    | some m =>
      simp only [Option.map_eq_some'] at h1
      obtain ⟨e2, he2, h1⟩ := h1
      subst h1
      exact nstep_trans (keep_nstep (check_keep _ _)) (msg_free_nstep _ _ _ he2)
  have k2 := drain_nstep { ic1 with ioq_rx := { ic1.ioq_rx with state := .ERROR } } ic2 h2
  have k3 := simulate_failure_tstep _ _ _ _ _ _ he
  exact nstep_tchain (nstep_trans k1 k2) k3 (fun _ hc => by cases hc)
/-- The function `dmsg_ioq_read` keeps the shape of the connection: the
queues stay as `tree_inv` says, and no state is `DYING` or `ABORTING` as long
as the receive side has no error. -/
theorem read_conn : ∀ (fuel : Nat) (env : Env) (ic : dmsg_iocom)
    (r : dmsg_iocom × Option dmsg_msg), dmsg_ioq_read fuel env ic = some r →
    r.1.eng.free_failed = false →
    ic.eng.free_failed = false ∧ (conn_tree ic → conn_tree r.1)
  | 0, _, _, _, h, _ => by simp [dmsg_ioq_read] at h
  | fuel + 1, env, ic, r, h, hf => by
    rw [dmsg_ioq_read] at h
    cases hq : ic.ioq_rx.msgq with
    | cons m rest =>
      simp only [hq] at h
      split_ifs at h
      · injection h with h
        subst h
        exact ⟨hf, fun hc => hc⟩
      · injection h with h
        subst h
        exact ⟨hf, fun hc => hc⟩
    | nil =>
      simp only [hq] at h
      -- the error branch
      have hskip : ∀ (ic2 : dmsg_iocom) (msg : Option dmsg_msg),
          ((dmsg_ioq_read_skip fuel ic2 msg).bind fun ic3 =>
            if ic3.ioq_rx.msgq ≠ [] then dmsg_ioq_read fuel env ic3 else some (ic3, none)) =
            some r → ic2.ioq_rx.error ≠ 0 →
          ic2.eng.free_failed = false ∧ (tree_inv ic2.eng → conn_tree r.1) := by
        intro ic2 msg hh he
        simp only [Option.bind_eq_some] at hh
        obtain ⟨ic3, hs, hh⟩ := hh
        have k1 := skip_tstep fuel ic2 ic3 msg hs
        have k4 := (skip_rx _ _ _ _ hs).1
        have he3 : ic3.ioq_rx.error ≠ 0 := by
          rw [k4]
          exact he
        split_ifs at hh
        · obtain ⟨hf3, g⟩ := read_conn fuel env ic3 r hh hf
          obtain ⟨hf2, k⟩ := k1 hf3
          exact ⟨hf2, fun hT => g ⟨k hT trivial, fun hc => absurd hc he3⟩⟩
        · injection hh with hh
          subst hh
          obtain ⟨hf2, k⟩ := k1 hf
          exact ⟨hf2, fun hT => ⟨k hT trivial, fun hc => absurd hc he3⟩⟩
      by_cases he : ic.ioq_rx.error = 0
      · simp only [he, ne_eq, not_true_eq_false, if_false, Option.bind_eq_some] at h
        obtain ⟨sw, hsw, h⟩ := h
        have g0 := rx_switch_nstep env _ sw hsw
        have g1 : nstep ic.eng sw.ic.eng := g0
        have g2 := (seq_credits sw.ic sw.msgp).1
        have g3 : nstep ic.eng (dmsg_ioq_read_seq sw.ic sw.msgp).eng := by
          rw [g2]
          exact g1
        generalize dmsg_ioq_read_seq sw.ic sw.msgp = ic3 at h g3
        by_cases he2 : ic3.ioq_rx.error = 0
        · simp only [he2, not_true_eq_false, if_false] at h
          split at h
          · injection h with h
            subst h
            obtain ⟨hf0, k⟩ := g3.1 hf
            exact ⟨hf0, fun hc => ⟨k hc.1 trivial, fun _ => g3.2 (hc.2 he)⟩⟩
          · rename_i m hm
            simp only [Option.bind_eq_some] at h
            obtain ⟨rr, hrr, h⟩ := h
            have hd := (done_credits ic3).1
            have hde := (done_rx ic3).2.1
            have g4 : nstep ic.eng (dmsg_ioq_read_done ic3).eng := by
              rw [hd]
              exact g3
            have g5 := msgrx_nstep _ _ _ rr hrr
            by_cases e1 : rr.error = 0
            · simp only [e1, not_true_eq_false, if_false] at h
              injection h with h
              subst h
              obtain ⟨hf5, k5⟩ := g5.1 hf
              obtain ⟨hf0, k4⟩ := g4.1 hf5
              exact ⟨hf0, fun hc => ⟨k5 (k4 hc.1 trivial) (fun _ => g4.2 (hc.2 he)),
                fun _ => g5.2 (g4.2 (hc.2 he))⟩⟩
            · simp only [e1, not_false_eq_true, if_true] at h
              by_cases e2 : rr.error = DMSG_IOQ_ERROR_EALREADY
              · simp only [e2, if_true, Option.bind_eq_some] at h
                obtain ⟨e1', hfree, h⟩ := h
                obtain ⟨hf7, g⟩ := read_conn fuel env _ r h hf
                have g6 := msg_free_nstep _ _ _ hfree
                obtain ⟨hf6, k6⟩ := g6.1 hf7
                obtain ⟨hf5, k5⟩ := g5.1 hf6
                obtain ⟨hf0, k4⟩ := g4.1 hf5
                exact ⟨hf0, fun hc => g ⟨k6 (k5 (k4 hc.1 trivial) (fun _ => g4.2 (hc.2 he)))
                  trivial, fun _ => g6.2 (g5.2 (g4.2 (hc.2 he)))⟩⟩
              · simp only [e2, if_false] at h
                obtain ⟨hf6, g⟩ := hskip _ (some rr.msg) h e1
                obtain ⟨hf5, k5⟩ := g5.1 hf6
                obtain ⟨hf0, k4⟩ := g4.1 hf5
                exact ⟨hf0, fun hc => g (k5 (k4 hc.1 trivial) (fun _ => g4.2 (hc.2 he)))⟩
        · simp only [he2, not_false_eq_true, if_true] at h
          obtain ⟨hf3, g⟩ := hskip _ _ h he2
          obtain ⟨hf0, k⟩ := g3.1 hf3
          exact ⟨hf0, fun hc => g (k hc.1 trivial)⟩
      · simp only [ne_eq, he, not_false_eq_true, if_true] at h
        obtain ⟨hf0, g⟩ := hskip _ none h he
        exact ⟨hf0, fun hc => g hc.1⟩
theorem ioq_done_nstep (e : dmsg_engine) (ioq : dmsg_ioq) (r : dmsg_engine × dmsg_ioq)
    (h : dmsg_ioq_done e ioq = some r) : nstep e r.1 ∧ r.2.error = ioq.error := by
  unfold dmsg_ioq_done at h
  simp only [Option.bind_eq_bind, Option.bind_eq_some, Option.pure_def] at h
  obtain ⟨e1, he1, h⟩ := h
  have h1 : nstep e e1 :=
    free_fold_nstep _ (fun a m b hb =>
      nstep_trans (nstep_of_shape (shape_eq_check a false)) (msg_free_nstep _ m b hb)) _ _ _ he1
  cases hm : ioq.msg with
  | none =>
    rw [hm] at h
    simp only [] at h
    injection h with h
    subst h
    exact ⟨h1, rfl⟩
  | some m =>
    rw [hm] at h
    simp only [Option.map_eq_some'] at h
    obtain ⟨e2, he2, rfl⟩ := h
    exact ⟨nstep_trans h1 (msg_free_nstep _ _ _ he2), rfl⟩

theorem conn_of_nstep (ic ic1 : dmsg_iocom) (h : nstep ic.eng ic1.eng)
    (he : ic1.ioq_rx.error = ic.ioq_rx.error) (hf : ic1.eng.free_failed = false) :
    ic.eng.free_failed = false ∧ (conn_tree ic → conn_tree ic1) := by
  obtain ⟨hf0, k⟩ := h.1 hf
  exact ⟨hf0, fun hc => ⟨k hc.1 trivial, fun h0 => h.2 (hc.2 (by rw [← he]; exact h0))⟩⟩

/-- Every call on a connection keeps its shape. -/
theorem apply_tree (fuel : Nat) (env : Env) (c c1 : conn) (op : conn_op)
    (h : conn_apply fuel env c op = some c1) (hf : c1.ic.eng.free_failed = false) :
    c.ic.eng.free_failed = false ∧ (conn_tree c.ic → conn_tree c1.ic) := by
  cases op with
  | alloc state aux_size cmd func data =>
    simp only [conn_apply, Option.map_eq_some'] at h
    obtain ⟨r, hr, rfl⟩ := h
    exact conn_of_nstep c.ic { c.ic with eng := r.1 } (alloc_nstep _ _ _ _ _ _ r hr) rfl hf
  | write i =>
    simp only [conn_apply, Option.bind_eq_some, Option.map_eq_some'] at h
    obtain ⟨m, hm, ic1, hw, rfl⟩ := h
    obtain ⟨k1, k2⟩ := write_nstep fuel _ _ ic1 hw
    exact conn_of_nstep c.ic ic1 k1 (by rw [k2]) hf
  | free i =>
    simp only [conn_apply, Option.bind_eq_some, Option.map_eq_some'] at h
    obtain ⟨m, hm, e, hw, rfl⟩ := h
    exact conn_of_nstep c.ic { c.ic with eng := e } (msg_free_nstep _ _ _ hw) rfl hf
  | cleanuprx i =>
    simp only [conn_apply, Option.bind_eq_some, Option.map_eq_some'] at h
    obtain ⟨m, hm, e, hw, rfl⟩ := h
    exact conn_of_nstep c.ic { c.ic with eng := e } (cleanuprx_nstep _ _ _ hw) rfl hf
  | reply state error =>
    simp only [conn_apply, Option.map_eq_some', dmsg_state_reply] at h
    obtain ⟨ic1, hw, rfl⟩ := h
    obtain ⟨k1, k2⟩ := reply_cmd_nstep fuel _ _ _ _ ic1 hw
    exact conn_of_nstep c.ic ic1 k1 (by rw [k2]) hf
  | result state error =>
    simp only [conn_apply, Option.map_eq_some', dmsg_state_result] at h
    obtain ⟨ic1, hw, rfl⟩ := h
    obtain ⟨k1, k2⟩ := reply_cmd_nstep fuel _ _ _ _ ic1 hw
    exact conn_of_nstep c.ic ic1 k1 (by rw [k2]) hf
  | read =>
    simp only [conn_apply, Option.map_eq_some'] at h
    obtain ⟨r, hr, rfl⟩ := h
    exact read_conn fuel env c.ic r hr hf
  | fill i m =>
    simp only [conn_apply, Option.map_eq_some'] at h
    obtain ⟨m0, hm0, rfl⟩ := h
    exact ⟨hf, fun hc => hc⟩
  | flush1 =>
    simp only [conn_apply, Option.some.injEq] at h
    subst h
    obtain ⟨h1, h2, -, -, -⟩ := flush1_credits env c.ic
    refine conn_of_nstep c.ic (dmsg_iocom_flush1_queue env c.ic) ?_ (by rw [h2]) hf
    show nstep c.ic.eng (dmsg_iocom_flush1_queue env c.ic).eng
    rw [h1]
    exact nstep_refl _
  | sent =>
    simp only [conn_apply, Option.map_eq_some'] at h
    obtain ⟨ic1, hw, rfl⟩ := h
    unfold dmsg_iocom_flush2_retire at hw
    cases hq : c.ic.ioq_tx.msgq with
    | nil =>
      rw [hq] at hw
      cases hw
    | cons m rest =>
      rw [hq] at hw
      simp only [Option.map_eq_some'] at hw
      obtain ⟨e, hw, rfl⟩ := hw
      exact conn_of_nstep c.ic _ (msg_free_nstep _ _ _ hw) rfl hf
  | drain =>
    simp only [conn_apply, Option.map_eq_some'] at h
    obtain ⟨ic1, hw, rfl⟩ := h
    exact conn_of_nstep c.ic ic1 (drain_nstep _ _ hw) (by rw [(drain_rx _ _ hw).1]) hf
  | done =>
    simp only [conn_apply, Option.map_eq_some'] at h
    obtain ⟨ic1, hw, rfl⟩ := h
    unfold dmsg_iocom_done at hw
    simp only [Option.bind_eq_bind, Option.bind_eq_some, Option.pure_def] at hw
    obtain ⟨r, hr, t, ht, hw⟩ := hw
    injection hw with hw
    subst hw
    obtain ⟨g1, g2⟩ := ioq_done_nstep _ _ r hr
    obtain ⟨g3, -⟩ := ioq_done_nstep _ _ t ht
    exact conn_of_nstep c.ic { c.ic with eng := t.1, ioq_rx := r.2, ioq_tx := t.2 }
      (nstep_trans g1 g3) g2 hf
  | hold state =>
    simp only [conn_apply, Option.map_eq_some'] at h
    obtain ⟨e, hw, rfl⟩ := h
    exact conn_of_nstep c.ic { c.ic with eng := e } (hold_nstep _ _ _ hw) rfl hf
  | drop i =>
    simp only [conn_apply, Option.bind_eq_some, Option.map_eq_some'] at h
    obtain ⟨a, hm, e, hw, rfl⟩ := h
    exact conn_of_nstep c.ic { c.ic with eng := e } (drop_nstep _ _ _ hw) rfl hf

theorem init_tree (env : Env) (signal_func : Bool) (sock : List sock_event) (rand : List Nat) :
    conn_tree (dmsg_iocom_init env signal_func sock rand) := by
  have hh : ∀ a s, (dmsg_iocom_init env signal_func sock rand).eng.heap a = some s →
      a = 0 ∧ s = { dmsg_state.zero with refs := 1, parent := some 0, flags := { ROOT := true } } := by
    intro a s hs
    simp only [dmsg_iocom_init, Function.update_apply] at hs
    split_ifs at hs with h0
    · injection hs with hs
      exact ⟨h0, hs.symm⟩
  refine ⟨⟨?_, ?_, ?_, ?_, ?_, ?_⟩, ?_⟩
  · intro a ha
    have ha1 : 1 ≤ a := ha
    simp only [dmsg_iocom_init, Function.update_apply]
    rw [if_neg (by omega)]
  · intro p sp c hp hc
    obtain ⟨-, rfl⟩ := hh p sp hp
    cases hc
  · intro p sp hp
    obtain ⟨-, rfl⟩ := hh p sp hp
    exact List.nodup_nil
  · intro p sp c sc _ hp hc
    obtain ⟨-, rfl⟩ := hh p sp hp
    cases hc
  · intro a s hs _
    exact (hh a s hs).1
  · intro s hs
    obtain ⟨-, rfl⟩ := hh 0 s hs
    exact ⟨rfl, rfl⟩
  · intro _ a s hs
    obtain ⟨-, rfl⟩ := hh a s hs
    exact ⟨rfl, rfl⟩

/-- Every connection reached from `dmsg_iocom_init` has the shape
`conn_tree`. -/
theorem run_tree (fuel : Nat) (env : Env) : ∀ (ops : List conn_op) (c c1 : conn),
    eng_inv c.ic.eng (conn_credits c) → conn_tree c.ic → conn_run fuel env ops c = some c1 →
    conn_tree c1.ic := by
  intro ops
  induction ops with
  | nil =>
    intro c c1 _ hT h
    simp only [conn_run, Option.some.injEq] at h
    subst h
    exact hT
  | cons op ops ih =>
    intro c c1 hI hT h
    simp only [conn_run, Option.bind_eq_some] at h
    obtain ⟨c2, h2, h⟩ := h
    have hI2 := apply_inv fuel env c c2 op hI h2
    exact ih c2 c1 hI2 ((apply_tree fuel env c c2 op h2 hI2.2).2 hT) h
/-- Setting `ABORTING` on a state leaves the queues as they are. -/
theorem put_ab_parts (e : dmsg_engine) (x : Nat) (s : dmsg_state) (hT : tree_inv e)
    (hs : e.heap x = some s) :
    (∀ a, (e.put x { s with flags := { s.flags with ABORTING := true } }).brk ≤ a →
      (e.put x { s with flags := { s.flags with ABORTING := true } }).heap a = none) ∧
    kid_ok (e.put x { s with flags := { s.flags with ABORTING := true } }) ∧
    closed_ex [] (e.put x { s with flags := { s.flags with ABORTING := true } }) := by
  have B : ∀ a t, (e.put x { s with flags := { s.flags with ABORTING := true } }).heap a =
      some t → ∃ t0, e.heap a = some t0 ∧ t.parent = t0.parent ∧ t.subq = t0.subq ∧
        t.flags.SUBINSERTED = t0.flags.SUBINSERTED ∧ t.flags.DYING = t0.flags.DYING := by
    intro a t ht
    by_cases hax : a = x
    · subst hax
      rw [put_heap_same] at ht
      injection ht with ht
      subst ht
      exact ⟨s, hs, rfl, rfl, rfl, rfl⟩
    · rw [put_heap_other _ _ _ _ hax] at ht
      exact ⟨t, ht, rfl, rfl, rfl, rfl⟩
  have F : ∀ a t0, e.heap a = some t0 →
      ∃ t, (e.put x { s with flags := { s.flags with ABORTING := true } }).heap a = some t ∧
        t.parent = t0.parent ∧ t.flags.SUBINSERTED = t0.flags.SUBINSERTED := by
    intro a t0 ht
    by_cases hax : a = x
    · subst hax
      rw [hs] at ht
      injection ht with ht
      subst ht
      exact ⟨_, put_heap_same _ _ _, rfl, rfl⟩
    · exact ⟨t0, by rw [put_heap_other _ _ _ _ hax]; exact ht, rfl, rfl⟩
  refine ⟨?_, ?_, ?_⟩
  · intro a ha
    have hax : a ≠ x := by
      have := live_lt hT x s hs
      intro hax
      rw [hax] at ha
      exact absurd this (Nat.not_lt.2 ha)
    rw [put_heap_other _ _ _ _ hax]
    exact hT.fresh a ha
  · intro p sp c hp hc
    obtain ⟨sp0, k1, -, k3, -, -⟩ := B p sp hp
    rw [k3] at hc
    obtain ⟨hlt, sc, hsc, g1, g2⟩ := hT.kid p sp0 c k1 hc
    obtain ⟨t, r1, r2, r3⟩ := F c sc hsc
    exact ⟨hlt, t, r1, r2.trans g1, r3.trans g2⟩
  · intro p sp c sc hX hp hc hsc hdy
    obtain ⟨sp0, k1, -, k3, -, k5⟩ := B p sp hp
    obtain ⟨sc0, g1, -, -, -, g5⟩ := B c sc hsc
    rw [k3] at hc
    rw [k5] at hdy
    rw [g5]
    exact hT.closed p sp0 c sc0 hX k1 hc g1 hdy

/-- Below a `DYING` state of an engine in which the children of a `DYING`
state are `DYING`, every state is `DYING`. -/
theorem below_dying (e : dmsg_engine) (x : Nat) (s : dmsg_state) (hk : kid_ok e)
    (hc : closed_ex [] e) (hx : e.heap x = some s) (hd : s.flags.DYING = true) (y : Nat)
    (h : below e x y) : ∃ sy, e.heap y = some sy ∧ sy.flags.DYING = true := by
  induction h with
  | child y s1 hs1 hy =>
    rw [hx] at hs1
    injection hs1 with hs1
    subst hs1
    obtain ⟨-, sy, hsy, -, -⟩ := hk x s y hx hy
    exact ⟨sy, hsy, hc x s y sy (List.not_mem_nil x) hx hy hsy hd⟩
  | step y z s1 _ hs1 hz ih =>
    obtain ⟨sy, hsy, hdy⟩ := ih
    rw [hsy] at hs1
    injection hs1 with hs1
    subst hs1
    obtain ⟨-, sz, hsz, -, -⟩ := hk y sy z hsy hz
    exact ⟨sz, hsz, hc y sy z sz (List.not_mem_nil y) hsy hz hsz hdy⟩

/-- The function `dmsg_state_abort` on a state that is not `ABORTING` sets the
flags and then does the rest. -/
theorem abort_eq_flags (fuel : Nat) (e : dmsg_engine) (x : Nat) (s : dmsg_state)
    (hx : e.heap x = some s) (hab : s.flags.ABORTING = false) :
    dmsg_state_abort fuel e x =
      (dmsg_state_abort_flags fuel e x).bind fun e2 => dmsg_state_abort_rest e2 x := by
  unfold dmsg_state_abort dmsg_state_abort_flags dmsg_state_abort_rest
  simp only [hx, hab, Option.bind_eq_bind, Option.some_bind, Bool.false_eq_true, if_false,
    Option.pure_def]

/-- C21. In every connection reached from `dmsg_iocom_init` by calls of the
public operations (`dmsg_msg_alloc`, `dmsg_msg_write`, `dmsg_msg_free`,
`dmsg_state_reply`, `dmsg_state_result`, `dmsg_ioq_read` with its cascade of
failures, `dmsg_state_cleanuprx`, the flushes, `dmsg_iocom_drain`,
`dmsg_iocom_done`, `dmsg_state_hold` and `dmsg_state_drop`; one call after the
other, with a callback that only records the message and without relay), for
every allocated state `x` that is not `ABORTING`: the first statements of
`dmsg_state_abort(x)`, which set the flags before any callback runs, return
(with enough fuel), and then `x` has
`ABORTING` and `DYING` set and every state in the subtree below `x` (the
children on `subq`, transitively, whether `dmsg_msg_alloc` or
`dmsg_state_msgrx` created them) has `DYING` set; the queues and parents are
as before and no callback has been made.  `dmsg_state_abort` is these
statements followed by the rest of the function. -/
theorem abort_marks_subtree (fuel0 : Nat) (env : Env) (signal_func : Bool)
    (sock : List sock_event) (rand : List Nat) (ops : List conn_op) (c : conn) (x : Nat)
    (s : dmsg_state)
    (hrun : conn_run fuel0 env ops (conn_init env signal_func sock rand) = some c)
    (hx : c.ic.eng.heap x = some s) (hab : s.flags.ABORTING = false) :
    ∃ fuel e2 s2, dmsg_state_abort_flags fuel c.ic.eng x = some e2 ∧
      dmsg_state_abort fuel c.ic.eng x = dmsg_state_abort_rest e2 x ∧
      e2.heap x = some s2 ∧ s2.flags.ABORTING = true ∧ s2.flags.DYING = true ∧
      (∀ y, below e2 x y → ∃ sy, e2.heap y = some sy ∧ sy.flags.DYING = true) ∧
      (∀ a t, c.ic.eng.heap a = some t →
        ∃ t2, e2.heap a = some t2 ∧ t2.subq = t.subq ∧ t2.parent = t.parent) ∧
      e2.rcvd = c.ic.eng.rcvd := by
  have hT := (run_tree fuel0 env ops _ c (init_inv env signal_func sock rand)
    (init_tree env signal_func sock rand) hrun).1
  obtain ⟨hfr, hk, hcl⟩ := put_ab_parts c.ic.eng x s hT hx
  obtain ⟨fuel, e2, h2⟩ := dying_total _ _ _ x _ rfl (le_refl _) hfr hk (put_heap_same _ _ _)
  obtain ⟨k1, ⟨s2, k2, k3⟩, -⟩ := dying_closed fuel [] _ x e2 h2 hk hcl
  have hdo := dying_changes _ _ _ _ h2
  have hfl : dmsg_state_abort_flags fuel c.ic.eng x = some e2 := by
    unfold dmsg_state_abort_flags
    simp only [hx, Option.bind_eq_bind, Option.some_bind]
    exact h2
  refine ⟨fuel, e2, s2, hfl, ?_, k2, ?_, k3, ?_, ?_, ?_⟩
  · rw [abort_eq_flags fuel _ x s hx hab, hfl]
    rfl
  · obtain ⟨d, hd⟩ := hdo.heap x _ (put_heap_same _ _ _)
    rw [k2] at hd
    injection hd with hd
    rw [hd]
    rfl
  · intro y hy
    exact below_dying e2 x s2 (kid_dying hdo hk) k1 k2 k3 y hy
  · intro a t ha
    by_cases hax : a = x
    · subst hax
      rw [hx] at ha
      injection ha with ha
      subst ha
      obtain ⟨d, hd⟩ := hdo.heap a _ (put_heap_same _ _ _)
      exact ⟨_, hd, rfl, rfl⟩
    · obtain ⟨d, hd⟩ := hdo.heap a t (by rw [put_heap_other _ _ _ _ hax]; exact ha)
      exact ⟨_, hd, rfl, rfl⟩
  · rw [hdo.rcvd]
    rfl

/-- C21 (witness). On a fresh connection the peer opens the transaction at
address 1, and this side opens one at address 2 under it, one at address 3
under that and one at address 4 under `state0`; no state is `DYING` or
`ABORTING`.  The first statements of `dmsg_state_abort` on the state 1 leave
the states 1, 2 and 3 `DYING`, the state 1 `ABORTING`, and `state0` and the
state 4 as they were. -/
theorem abort_marks_subtree_witness :
    ∃ c s, conn_run 5 ex_env ex_ops_subtree ex_conn_fresh = some c ∧
      c.ic.eng.heap 1 = some s ∧ s.flags.ABORTING = false ∧ s.subq = [2] ∧
      s.flags.OPPOSITE = true ∧
      flags_view c.ic.eng 5 = [some (false, false), some (false, false), some (false, false),
        some (false, false), some (false, false)] ∧
      (dmsg_state_abort_flags 4 c.ic.eng 1).map (fun e2 => flags_view e2 5) =
        some [some (false, false), some (true, true), some (true, false), some (true, false),
          some (false, false)] ∧
      ∃ fuel e2 s2, dmsg_state_abort_flags fuel c.ic.eng 1 = some e2 ∧
        dmsg_state_abort fuel c.ic.eng 1 = dmsg_state_abort_rest e2 1 ∧
        e2.heap 1 = some s2 ∧ s2.flags.ABORTING = true ∧ s2.flags.DYING = true ∧
        (∀ y, below e2 1 y → ∃ sy, e2.heap y = some sy ∧ sy.flags.DYING = true) ∧
        (∀ a t, c.ic.eng.heap a = some t →
          ∃ t2, e2.heap a = some t2 ∧ t2.subq = t.subq ∧ t2.parent = t.parent) ∧
        e2.rcvd = c.ic.eng.rcvd := by
  cases h : conn_run 5 ex_env ex_ops_subtree ex_conn_fresh with
  | none =>
    have h2 : (conn_run 5 ex_env ex_ops_subtree ex_conn_fresh).isSome = true := by decide!
    rw [h] at h2
    cases h2
  | some c =>
    have h3 : (conn_run 5 ex_env ex_ops_subtree ex_conn_fresh).map
        (fun c => (c.ic.eng.heap 1).map fun s => (s.flags.ABORTING, s.subq, s.flags.OPPOSITE)) =
        some (some (false, [2], true)) := by decide!
    have h4 : (conn_run 5 ex_env ex_ops_subtree ex_conn_fresh).map
        (fun c => (flags_view c.ic.eng 5,
          (dmsg_state_abort_flags 4 c.ic.eng 1).map (fun e2 => flags_view e2 5))) =
        some ([some (false, false), some (false, false), some (false, false),
          some (false, false), some (false, false)],
          some [some (false, false), some (true, true), some (true, false), some (true, false),
            some (false, false)]) := by decide!
    rw [h] at h3 h4
    simp only [Option.map_some', Option.some.injEq, Prod.mk.injEq] at h3 h4
    cases hs : c.ic.eng.heap 1 with
    | none =>
      rw [hs] at h3
      cases h3
    | some s =>
      rw [hs] at h3
      simp only [Option.map_some', Option.some.injEq, Prod.mk.injEq] at h3
      exact ⟨c, s, rfl, hs, h3.1, h3.2.1, h3.2.2, h4.1, h4.2,
        abort_marks_subtree 5 ex_env false _ [] ex_ops_subtree c 1 s h hs h3.1⟩

/-! ## The state of a new transaction and the deferred abort -/

/-- The state that `dmsg_msg_alloc_create` creates is dynamic, does not carry
the flag `NEW`, has `rxcmd = REPLY` and the command without `CREATE` and
`DELETE` as its `txcmd`. -/
theorem alloc_create_fields (e : dmsg_engine) (p cmd func : Nat) (data : Bool)
    (r : dmsg_engine × Nat) (h : dmsg_msg_alloc_create e p cmd func data = some r) :
    r.2 = e.brk ∧ ∃ s, r.1.heap r.2 = some s ∧ s.flags.NEW = false ∧
      s.flags.DYNAMIC = true ∧
      s.rxcmd = DMSGF_REPLY ∧ s.txcmd = cmd &&& not32 (DMSGF_CREATE ||| DMSGF_DELETE) := by
  unfold dmsg_msg_alloc_create at h
  simp only [Option.bind_eq_bind, Option.bind_eq_some, Option.pure_def] at h
  obtain ⟨ps, hps, h⟩ := h
  by_cases hp : p = e.brk
  · subst hp
    by_cases hq : ps.subq.isEmpty = true
    · rw [if_pos hq] at h
      simp only [dmsg_state_hold, dmsg_engine.put, Function.update_same, Option.bind_eq_bind,
        Option.some_bind, Option.pure_def, Option.bind_eq_some, Option.some.injEq,
        exists_eq_left'] at h
      subst h
      simp [Function.update_same, dmsg_state.zero]
    · rw [if_neg hq] at h
      simp only [dmsg_state_hold, dmsg_engine.put, Function.update_same, Option.bind_eq_bind,
        Option.some_bind, Option.pure_def, Option.bind_eq_some, Option.some.injEq,
        exists_eq_left'] at h
      subst h
      simp [Function.update_same, dmsg_state.zero]
  · have hp1 : e.brk ≠ p := fun hc => hp hc.symm
    by_cases hq : ps.subq.isEmpty = true
    · rw [if_pos hq] at h
      simp only [dmsg_state_hold, dmsg_engine.put, Function.update_same, Option.bind_eq_bind,
        Option.some_bind, Option.pure_def, Option.bind_eq_some, Option.some.injEq,
        exists_eq_left', Function.update_noteq hp, Function.update_noteq hp1, hps] at h
      subst h
      simp [Function.update_same, Function.update_noteq hp1, dmsg_state.zero]
    · rw [if_neg hq] at h
      simp only [dmsg_state_hold, dmsg_engine.put, Function.update_same, Option.bind_eq_bind,
        Option.some_bind, Option.pure_def, Option.bind_eq_some, Option.some.injEq,
        exists_eq_left', Function.update_noteq hp, Function.update_noteq hp1, hps] at h
      subst h
      simp [Function.update_same, Function.update_noteq hp1, dmsg_state.zero]

/-- C31. The state that `dmsg_msg_alloc` returns for `CREATE` without `REPLY`
does not carry `NEW`, and `dmsg_state_abort` on it does not defer.  On a fresh
connection `dmsg_msg_alloc(&iocom->state0, 0, CREATE|0x101, NULL, NULL)`
leaves the new state (address 1) with `NEW` clear, `rxcmd = REPLY` and
`txcmd = 0x101`; its message is still in the caller's hands.
`dmsg_state_abort` on that state sets `ABORTING` and `DYING`, builds the
synthetic message `0xFC0FFF01` (`CREATE|DELETE|REPLY|ABORT|REVTRANS|REVCIRC`
on `LNK_ERROR`) with the error `LOSTLINK`, and the callback receives it at
once; `rxcmd` then has `DELETE`.  The later `dmsg_msg_write` of the first
message delivers nothing more and queues nothing. -/
theorem abort_new_not_deferred :
    (ex_conn_new.map fun c => (c.held.map fun m => m.state, abort_view c.ic.eng)) =
      some ([some 1], [],
        some { rxcmd := DMSGF_REPLY, txcmd := 0x101
               flags := { DYNAMIC := true, SUBINSERTED := true, RBINSERTED := true }
               refs := 3, subq0 := [1], statewr := some 1, staterd := none
               assert_failed := false }) ∧
    ((ex_conn_new.bind fun c => dmsg_state_abort 5 c.ic.eng 1).map abort_view) =
      some ([(some 1, 0xFC0FFF01, DMSG_ERR_LOSTLINK)],
        some { rxcmd := 0xFC0FFF01, txcmd := 0x101
               flags := { DYNAMIC := true, SUBINSERTED := true, RBINSERTED := true,
                          DYING := true, ABORTING := true }
               refs := 3, subq0 := [1], statewr := some 1, staterd := none
               assert_failed := false }) ∧
    ((ex_conn_new.bind fun c => (dmsg_state_abort 5 c.ic.eng 1).bind fun e =>
        conn_apply 5 ex_env { c with ic := { c.ic with eng := e } } (.write 0)).map fun c =>
          ((abort_view c.ic.eng).1, c.ic.txmsgq.length)) =
      some ([(some 1, 0xFC0FFF01, DMSG_ERR_LOSTLINK)], 0) := by
  refine ⟨?_, ?_, ?_⟩ <;> decide!

/-! ## `hammer2_crypto_encrypt` on a list longer than the free space -/

/-- C34. The function `hammer2_crypto_encrypt` trips its own assertion on a
list that exceeds the free space of the FIFO.  For every cipher whose output
is as long as its input, on the idle IOQ `ex_ioq_tx` (128 free bytes) and the
two block-aligned entries `ex_iov` of 64 and 128 bytes, the second entry is
cut to the 64 bytes that are left and `assert((size_t)p_len == iov[i].iov_len)`
fails; with the assertion compiled out the call returns 1, counts 128
plaintext bytes, moves the three cursors by 128 and makes `iov[0]` the range
from `fifo_beg` to `fifo_cdx`.  Without the second entry no assertion
fails. -/
theorem encrypt_truncation_asserts (evp : Nat → List Nat → Nat × List Nat)
    (hlen : ∀ c bs, (evp c bs).2.length = bs.length) :
    ex_ioq_tx.fifo_end ≤ ex_ioq_tx.buf.length ∧
    (∀ v ∈ ex_iov, v.iov_len &&& HAMMER2_AES_KEY_MASK = 0) ∧
    (hammer2_crypto_encrypt evp ex_ioq_tx ex_iov).assert_failed = true ∧
    (hammer2_crypto_encrypt evp ex_ioq_tx ex_iov).ret = 1 ∧
    (hammer2_crypto_encrypt evp ex_ioq_tx ex_iov).nact = 128 ∧
    (hammer2_crypto_encrypt evp ex_ioq_tx ex_iov).ioq.fifo_cdx = 128 ∧
    (hammer2_crypto_encrypt evp ex_ioq_tx ex_iov).ioq.fifo_cdn = 128 ∧
    (hammer2_crypto_encrypt evp ex_ioq_tx ex_iov).ioq.fifo_end = 128 ∧
    (hammer2_crypto_encrypt evp ex_ioq_tx ex_iov).iov.head? =
      some { iov_base := .fifo 0, iov_len := 128 } ∧
    (hammer2_crypto_encrypt evp ex_ioq_tx (ex_iov.take 1)).assert_failed = false := by
  have hb : ex_ioq_tx.buf.length = 128 := by
    simp only [ex_ioq_tx, List.length_replicate]
  have he : ex_ioq_tx.fifo_end = 0 := rfl
  have hx : ex_ioq_tx.fifo_cdx = 0 := rfl
  have hn : ex_ioq_tx.fifo_cdn = 0 := rfl
  have hg : ex_ioq_tx.fifo_beg = 0 := rfl
  refine ⟨by rw [hb, he]; omega, ?_, ?_, ?_, ?_, ?_, ?_, ?_, ?_, ?_⟩
  · intro v hv
    simp only [ex_iov, List.mem_cons, List.mem_singleton, List.not_mem_nil, or_false] at hv
    rcases hv with rfl | rfl <;> decide
  all_goals
    have h31 : 64 &&& 31 = 0 := by decide
    simp [hammer2_crypto_encrypt, hammer2_crypto_encrypt_loop, ex_iov, hb, he, hx, hn, hg,
      iov_ptr.read, hlen, HAMMER2_AES_KEY_MASK, HAMMER2_AES_KEY_SIZE, List.take_replicate, h31]

/-- The statement C34 at the toy cipher `ex_evp`. -/
theorem encrypt_truncation_asserts_witness :
    (hammer2_crypto_encrypt ex_evp ex_ioq_tx ex_iov).assert_failed = true ∧
    (hammer2_crypto_encrypt ex_evp ex_ioq_tx (ex_iov.take 1)).assert_failed = false :=
  have h := encrypt_truncation_asserts ex_evp (fun c bs => by simp [ex_evp])
  ⟨h.2.2.1, h.2.2.2.2.2.2.2.2.2⟩

/-! ## The assertion `msg->state == state` of `dmsg_state_msgrx` -/

/-- C37. The assertion `msg->state == state` of `dmsg_state_msgrx` fails for a
message without state over a circuit other than 0.  On the connection
`ex_conn_circ` the first frame (`CREATE|0x101`, identifier 7, circuit 0) opens
the transaction at address 1 without a failed assertion.  For the one-off
frame `0x101` (identifier 9, circuit 7) the function reaches the adjustment
with error 0, `msg->state` still `&iocom->state0` (address 0) and the local
`state` set to the circuit (address 1): the assertion fails, and
`dmsg_ioq_read` returns the message on `state0`.  For the frame
`DELETE|ABORT|0x101` over the same circuit the error is `EALREADY` and the
assertion fails in the same way.  The same one-off over circuit 0 passes. -/
theorem msgrx_state_assert_fails :
    ((rx_round 5 ex_env (ex_conn_circ 0x101)).map fun ic =>
      (ic.eng.assert_failed, ic.ioq_rx.error, ic.eng.staterd_tree 7)) =
      some (false, 0, some 1) ∧
    ((rx_round 5 ex_env (ex_conn_circ 0x101)).bind fun ic =>
      (wire_msg ic.eng 0x101 9 7).bind fun x => (msgrx_locals_of x.1 x.2).map locals_view) =
      some (some 0, 1, 0, false) ∧
    ((rx_round 5 ex_env (ex_conn_circ 0x101)).bind fun ic =>
      (wire_msg ic.eng 0x101 9 7).bind fun x => (dmsg_state_msgrx x.1 x.2 false).map fun r =>
        (r.msg.state, r.error, r.eng.assert_failed)) = some (some 0, 0, true) ∧
    ((rx_round 5 ex_env (ex_conn_circ 0x101)).bind fun ic =>
      (dmsg_ioq_read 5 ex_env ic).map fun x =>
        (x.1.eng.assert_failed, x.1.ioq_rx.error,
          x.2.map fun m => (m.state, m.head.cmd, m.head.circuit))) =
      some (true, 0, some (some 0, 0x101, 7)) ∧
    ((rx_round 5 ex_env (ex_conn_circ 0x101)).bind fun ic =>
      (wire_msg ic.eng (DMSGF_DELETE ||| DMSGF_ABORT ||| 0x101) 9 7).bind fun x =>
        (msgrx_locals_of x.1 x.2).map locals_view) =
      some (some 0, 1, DMSG_IOQ_ERROR_EALREADY, false) ∧
    ((rx_round 5 ex_env (ex_conn_circ 0x101)).bind fun ic =>
      (wire_msg ic.eng (DMSGF_DELETE ||| DMSGF_ABORT ||| 0x101) 9 7).bind fun x =>
        (dmsg_state_msgrx x.1 x.2 false).map fun r =>
          (r.msg.state, r.error, r.eng.assert_failed)) =
      some (some 0, DMSG_IOQ_ERROR_EALREADY, true) ∧
    ((rx_round 5 ex_env (ex_conn_circ 0x101)).bind fun ic =>
      (wire_msg ic.eng 0x101 9 0).bind fun x => (dmsg_state_msgrx x.1 x.2 false).map fun r =>
        (r.msg.state, r.error, r.eng.assert_failed)) = some (some 0, 0, false) := by
  refine ⟨?_, ?_, ?_, ?_, ?_, ?_, ?_⟩ <;> decide!

/-! ## The verifier of the handshake -/

/-- The verifier loop, block by block: after the first `4 * k` session bytes
the first `k` verifier bytes have taken in their four session bytes each. -/
theorem negotiate_xor_blocks (sess verf : Nat → Nat) (k : Nat) :
    (List.range (4 * k)).foldl
      (fun v i => Function.update v (i / 4) (v (i / 4) ^^^ sess i)) verf =
    fun j => if j < k then
      verf j ^^^ sess (4 * j) ^^^ sess (4 * j + 1) ^^^ sess (4 * j + 2) ^^^ sess (4 * j + 3)
      else verf j := by
  induction k with
  | zero =>
    funext j
    simp
  | succ k ih =>
    have hr : List.range (4 * (k + 1)) =
        List.range (4 * k) ++ [4 * k, 4 * k + 1, 4 * k + 2, 4 * k + 3] := by
      have e : 4 * (k + 1) = 4 * k + 1 + 1 + 1 + 1 := by omega
      rw [e, List.range_succ, List.range_succ, List.range_succ, List.range_succ]
      simp
    have d0 : 4 * k / 4 = k := by omega
    have d1 : (4 * k + 1) / 4 = k := by omega
    have d2 : (4 * k + 2) / 4 = k := by omega
    have d3 : (4 * k + 3) / 4 = k := by omega
    rw [hr, List.foldl_append, ih]
    funext j
    simp only [List.foldl_cons, List.foldl_nil, Function.update_apply, d0, d1, d2, d3,
      lt_irrefl, if_false, if_true]
    by_cases hj : j = k
    · subst hj
      simp
    · rw [if_neg hj]
      by_cases h1 : j < k
      · have h2 : j < k + 1 := by omega
        simp only [h1, h2, hj, if_true, if_false]
      · have h2 : ¬ j < k + 1 := by omega
        simp only [h1, h2, hj, if_false]

/-- The verifier loop of `hammer2_crypto_negotiate` as a closed form. -/
theorem negotiate_xor_eq (sess verf : Nat → Nat) :
    hammer2_crypto_negotiate_xor sess verf =
    fun j => if j < sizeof_verf then
      verf j ^^^ sess (4 * j) ^^^ sess (4 * j + 1) ^^^ sess (4 * j + 2) ^^^ sess (4 * j + 3)
      else verf j :=
  negotiate_xor_blocks sess verf 16

/-- The sum of the first `m` bytes is 0 exactly when each of them is 0. -/
theorem negotiate_sum_zero (v : Nat → Nat) (m : Nat) :
    (List.range m).foldl (fun n i => n + v i) 0 = 0 ↔ ∀ j, j < m → v j = 0 := by
  induction m with
  | zero => simp
  | succ m ih =>
    rw [List.range_succ, List.foldl_append]
    simp only [List.foldl_cons, List.foldl_nil, Nat.add_eq_zero_iff, ih]
    constructor
    · rintro ⟨h1, h2⟩ j hj
      by_cases hm : j = m
      · subst hm; exact h2
      · exact h1 j (by omega)
    · intro h
      exact ⟨fun j hj => h j (by omega), h m (by omega)⟩

/-- The test `n != 0` of `hammer2_crypto_negotiate` passes exactly for a block
of version 1 whose verifier matches its session bytes. -/
theorem negotiate_check (h : hammer2_handshake) :
    ((if h.version ≠ 1 then
        (List.range sizeof_verf).foldl
          (fun n i => n + hammer2_crypto_negotiate_xor h.sess h.verf i) 0 + 1
      else
        (List.range sizeof_verf).foldl
          (fun n i => n + hammer2_crypto_negotiate_xor h.sess h.verf i) 0) = 0) ↔
    h.version = 1 ∧ verf_ok h := by
  by_cases hv : h.version = 1
  · simp only [hv, ne_eq, not_true_eq_false, if_false, true_and, negotiate_sum_zero,
      negotiate_xor_eq, verf_ok]
    constructor
    · intro hz j hj
      have h1 := hz j hj
      rw [if_pos hj] at h1
      have h2 : h.verf j ^^^ (h.sess (4 * j) ^^^ h.sess (4 * j + 1) ^^^ h.sess (4 * j + 2) ^^^
          h.sess (4 * j + 3)) = 0 := by
        rw [← h1]
        simp only [Nat.xor_assoc]
      exact Nat.xor_eq_zero.mp h2
    · intro hz j hj
      rw [if_pos hj]
      have h2 : h.verf j ^^^ (h.sess (4 * j) ^^^ h.sess (4 * j + 1) ^^^ h.sess (4 * j + 2) ^^^
          h.sess (4 * j + 3)) = 0 := Nat.xor_eq_zero.mpr (hz j hj)
      rw [← h2]
      simp only [Nat.xor_assoc]
  · simp only [hv, ne_eq, not_false_eq_true, if_true, false_and, iff_false]
    omega

/-- The block that the sending side builds has version 1 and a verifier that
matches its session bytes. -/
theorem negotiate_tx_ok (rnd : hammer2_handshake) :
    (hammer2_crypto_negotiate_tx rnd).magic = HAMMER2_MSGHDR_MAGIC ∧
    (hammer2_crypto_negotiate_tx rnd).version = 1 ∧
    (hammer2_crypto_negotiate_tx rnd).sess = rnd.sess ∧
    verf_ok (hammer2_crypto_negotiate_tx rnd) := by
  refine ⟨rfl, rfl, rfl, ?_⟩
  intro j hj
  simp only [hammer2_crypto_negotiate_tx, negotiate_xor_eq, hj, if_true, Nat.zero_xor]

/-- The outcome of the validation in terms of the version and the verifier. -/
theorem negotiate_rx_cases (handrx handtx : hammer2_handshake) (iocom : hammer2_iocom) :
    (handshake_version handrx = 1 ∧ verf_ok handrx →
      handshake_installed handrx handtx iocom
        (hammer2_crypto_negotiate_rx sizeof_handshake handrx handtx iocom)) ∧
    (¬ (handshake_version handrx = 1 ∧ verf_ok handrx) →
      handshake_rejected iocom
        (hammer2_crypto_negotiate_rx sizeof_handshake handrx handtx iocom)) := by
  have key : ∀ h1 : hammer2_handshake, h1.sess = handrx.sess → h1.verf = handrx.verf →
      h1.version = handshake_version handrx →
      (((if h1.version ≠ 1 then
          (List.range sizeof_verf).foldl
            (fun n i => n + hammer2_crypto_negotiate_xor h1.sess h1.verf i) 0 + 1
        else
          (List.range sizeof_verf).foldl
            (fun n i => n + hammer2_crypto_negotiate_xor h1.sess h1.verf i) 0) = 0) ↔
        handshake_version handrx = 1 ∧ verf_ok handrx) := by
    intro h1 hs hv hver
    rw [negotiate_check h1, hver]
    simp only [verf_ok, hs, hv]
  unfold hammer2_crypto_negotiate_rx
  rw [if_neg (fun hc => hc rfl)]
  by_cases hm : handrx.magic = HAMMER2_MSGHDR_MAGIC_REV
  · have k := key { handrx with version := bswap16 handrx.version,
                                flags := bswap32 handrx.flags } rfl rfl
      (by simp only [handshake_version, hm, if_true])
    simp only [hm, if_true]
    constructor
    · intro hok
      have hz := k.mpr hok
      rw [if_neg (fun hc => hc hz)]
      exact ⟨rfl, rfl, rfl, fun i hi => by simp only [hi, if_true],
        fun i hi => by simp only [hi, if_true, and_self]⟩
    · intro hno
      have hz := fun hc => hno (k.mp hc)
      rw [if_pos hz]
      exact ⟨rfl, rfl, rfl, rfl, rfl, rfl⟩
  · have k := key handrx rfl rfl (by simp only [handshake_version, hm, if_false])
    simp only [hm, if_false]
    constructor
    · intro hok
      have hz := k.mpr hok
      rw [if_neg (fun hc => hc hz)]
      exact ⟨rfl, rfl, rfl, fun i hi => by simp only [hi, if_true],
        fun i hi => by simp only [hi, if_true, and_self]⟩
    · intro hno
      have hz := fun hc => hno (k.mp hc)
      rw [if_pos hz]
      exact ⟨rfl, rfl, rfl, rfl, rfl, rfl⟩

/-- C40. Handshake verification in `hammer2_crypto_negotiate`.  A block
`handrx` that was received completely (`i == sizeof(handrx)`) is accepted,
that is the session key and the two vectors are installed from the session
bytes of both blocks and `CRYPTED` is set with the error untouched, if and
only if its version, read in the byte order that its magic announces, is 1
and every verifier byte `verf[j]` is the XOR of the session bytes
`sess[4j..4j+3]`; every other block, in particular one in which a verifier
byte differs from that XOR, ends with the error `KEYXCHGFAIL` and `EOF`, the
key and `CRYPTED` untouched.  The block that the sending side of the routine
builds from any random block passes the check, as read by a receiver of the
same and of the opposite byte order. -/
theorem handshake_verification (handrx handtx rnd : hammer2_handshake)
    (iocom : hammer2_iocom) :
    (handshake_version handrx = 1 ∧ verf_ok handrx →
      handshake_installed handrx handtx iocom
        (hammer2_crypto_negotiate_rx sizeof_handshake handrx handtx iocom)) ∧
    (¬ (handshake_version handrx = 1 ∧ verf_ok handrx) →
      handshake_rejected iocom
        (hammer2_crypto_negotiate_rx sizeof_handshake handrx handtx iocom)) ∧
    (iocom.CRYPTED = false →
      ((hammer2_crypto_negotiate_rx sizeof_handshake handrx handtx iocom).CRYPTED = true ↔
        handshake_version handrx = 1 ∧ verf_ok handrx)) ∧
    (∀ j, j < sizeof_verf →
      handrx.verf j ≠ handrx.sess (4 * j) ^^^ handrx.sess (4 * j + 1) ^^^
        handrx.sess (4 * j + 2) ^^^ handrx.sess (4 * j + 3) →
      (hammer2_crypto_negotiate_rx sizeof_handshake handrx handtx iocom).error =
        HAMMER2_IOQ_ERROR_KEYXCHGFAIL) ∧
    (handshake_version (hammer2_crypto_negotiate_tx rnd) = 1 ∧
      verf_ok (hammer2_crypto_negotiate_tx rnd)) ∧
    (handshake_version (handshake_swapped (hammer2_crypto_negotiate_tx rnd)) = 1 ∧
      verf_ok (handshake_swapped (hammer2_crypto_negotiate_tx rnd))) := by
  obtain ⟨hyes, hno⟩ := negotiate_rx_cases handrx handtx iocom
  obtain ⟨tm, tv, -, tok⟩ := negotiate_tx_ok rnd
  refine ⟨hyes, hno, ?_, ?_, ⟨?_, tok⟩, ⟨?_, ?_⟩⟩
  · intro hc
    constructor
    · intro hcr
      by_contra hbad
      have h := (hno hbad).2.2.1
      rw [hcr, hc] at h
      cases h
    · intro hok
      exact (hyes hok).1
  · intro j hj hne
    exact (hno (fun hc => hne (hc.2 j hj))).1
  · simp only [handshake_version, tm, tv]
    decide
  · simp only [handshake_version, handshake_swapped, tm, tv]
    decide
  · intro j hj
    exact tok j hj

/-- The statement C40 at a concrete handshake: the block built from
`ex_handshake_rnd` is accepted, and the same block with its first verifier
byte replaced by another value is rejected. -/
theorem handshake_verification_witness :
    handshake_installed (hammer2_crypto_negotiate_tx ex_handshake_rnd)
      (hammer2_crypto_negotiate_tx ex_handshake_rnd) ex_h2_iocom
      (hammer2_crypto_negotiate_rx sizeof_handshake (hammer2_crypto_negotiate_tx ex_handshake_rnd)
        (hammer2_crypto_negotiate_tx ex_handshake_rnd) ex_h2_iocom) ∧
    (hammer2_crypto_negotiate_rx sizeof_handshake
      { hammer2_crypto_negotiate_tx ex_handshake_rnd with verf := fun _ => 1 }
      (hammer2_crypto_negotiate_tx ex_handshake_rnd) ex_h2_iocom).error =
        HAMMER2_IOQ_ERROR_KEYXCHGFAIL :=
  ⟨(handshake_verification (hammer2_crypto_negotiate_tx ex_handshake_rnd)
      (hammer2_crypto_negotiate_tx ex_handshake_rnd) ex_handshake_rnd ex_h2_iocom).1
      ⟨by decide!, by unfold verf_ok; decide!⟩,
   (handshake_verification
      { hammer2_crypto_negotiate_tx ex_handshake_rnd with verf := fun _ => 1 }
      (hammer2_crypto_negotiate_tx ex_handshake_rnd) ex_handshake_rnd ex_h2_iocom).2.2.2.1
      0 (by decide) (by decide!)⟩

/-! ## The relay -/

/-- Masking out `REVTRANS` and `REVCIRC` hides what `dmsg_msg_alloc_locked`
adds to a command. -/
theorem rev_bits_masked (cmd : Nat) (t c : Bool) :
    (if c then (if t then cmd ||| DMSGF_REVTRANS else cmd) ||| DMSGF_REVCIRC
      else (if t then cmd ||| DMSGF_REVTRANS else cmd)) &&&
        not32 (DMSGF_REVTRANS ||| DMSGF_REVCIRC) =
      cmd &&& not32 (DMSGF_REVTRANS ||| DMSGF_REVCIRC) := by
  have hT : DMSGF_REVTRANS = 2 ^ 27 := by decide
  have hC : DMSGF_REVCIRC = 2 ^ 26 := by decide
  have hTb : ∀ i, DMSGF_REVTRANS.testBit i = decide (27 = i) := by
    intro i
    rw [hT]
    exact Nat.testBit_two_pow
  have hCb : ∀ i, DMSGF_REVCIRC.testBit i = decide (26 = i) := by
    intro i
    rw [hC]
    exact Nat.testBit_two_pow
  have m27 : (not32 (DMSGF_REVTRANS ||| DMSGF_REVCIRC)).testBit 27 = false := by decide
  have m26 : (not32 (DMSGF_REVTRANS ||| DMSGF_REVCIRC)).testBit 26 = false := by decide
  apply Nat.eq_of_testBit_eq
  intro i
  by_cases h27 : i = 27
  · subst h27
    simp only [Nat.testBit_and, m27, Bool.and_false]
  · by_cases h26 : i = 26
    · subst h26
      simp only [Nat.testBit_and, m26, Bool.and_false]
    · have e27 : ¬ (27 = i) := fun hc => h27 hc.symm
      have e26 : ¬ (26 = i) := fun hc => h26 hc.symm
      cases t <;> cases c <;>
        simp [Nat.testBit_and, Nat.testBit_or, hTb, hCb, e27, e26]

/-- The copy of the extended header in `dmsg_state_relay`, for a message whose
extended header has the size that its `hdr_size` tells, into a message
allocated with the same header size. -/
theorem relay_ext (ext : List Nat) (hdr_size : Nat) (hext : ext.length = hdr_size - sizeof_head) :
    (if hdr_size > sizeof_head then
      (if hdr_size - sizeof_head ≤ ext.length ∧
          hdr_size - sizeof_head ≤ (List.replicate (hdr_size - sizeof_head) 0).length then
        some (buf_write (List.replicate (hdr_size - sizeof_head) 0) 0
          (ext.take (hdr_size - sizeof_head)))
       else none)
     else some (List.replicate (hdr_size - sizeof_head) 0) : Option (List Nat)) = some ext := by
  by_cases h : hdr_size > sizeof_head
  · rw [if_pos h, if_pos ⟨le_of_eq hext.symm, by rw [List.length_replicate]⟩]
    rw [← hext, List.take_length, buf_write_zero, List.drop_replicate, Nat.sub_self,
      List.replicate_zero, List.append_nil]
  · rw [if_neg h]
    have h0 : hdr_size - sizeof_head = 0 := by omega
    rw [h0] at hext
    rw [h0, List.replicate_zero, List.length_eq_zero.1 hext]

/-- The branch of `dmsg_msg_alloc_locked` that creates a state: the engine and
the message in closed form. -/
theorem alloc_created_eq (e : dmsg_engine) (p aux_size cmd func : Nat) (data : Bool)
    (ps : dmsg_state) (hp : e.heap p = some ps) (hfresh : e.heap e.brk = none)
    (htree : e.statewr_tree e.brk = none)
    (hc : cmd &&& (DMSGF_CREATE ||| DMSGF_REPLY) = DMSGF_CREATE) :
    ∃ e1, dmsg_msg_alloc_locked e p aux_size cmd func data =
      some (e1,
        { state := some e.brk
          head := { dmsg_hdr.zero with
                    magic := DMSG_HDR_MAGIC
                    cmd := if ps.flags.OPPOSITE then cmd ||| DMSGF_REVCIRC else cmd
                    msgid := e.brk, circuit := ps.msgid }
          ext := List.replicate ((cmd &&& DMSGF_SIZE) * DMSG_ALIGN - sizeof_head) 0
          hdr_size := (cmd &&& DMSGF_SIZE) * DMSG_ALIGN
          aux_data := if aux_size ≠ 0 then some (List.replicate (DMSG_DOALIGN 64 aux_size) 0)
                      else none
          aux_size := aux_size
          tcmd := 0 }) ∧
      e1.brk = e.brk + 1 ∧
      e1.assert_failed =
        (e.assert_failed || !decide ((cmd &&& DMSGF_SIZE) * DMSG_ALIGN ≥ sizeof_head)) ∧
      (∃ ns, e1.heap e.brk = some ns ∧ ns.refs = 3 ∧ ns.relay = none ∧
        ns.parent = some p ∧ ns.flags.OPPOSITE = false) ∧
      e1.heap p = some { ps with subq := ps.subq ++ [e.brk]
                                 refs := ps.refs + (if ps.subq = [] then 1 else 0) } ∧
      ∀ a, a ≠ p → a ≠ e.brk → e1.heap a = e.heap a := by
  have hne : p ≠ e.brk := by
    intro h
    rw [h, hfresh] at hp
    cases hp
  unfold dmsg_msg_alloc_locked
  simp only [hc, decide_True, if_true, alloc_create_eq e p cmd func data ps hp hfresh htree,
    Option.bind_eq_bind, Option.some_bind, hp, dmsg_engine.check, Function.update_same,
    Function.update_noteq (Ne.symm hne), Option.pure_def]
  refine ⟨_, rfl, rfl, rfl, ⟨{ dmsg_state.zero with
      parent := some p
      flags := { DYNAMIC := true, SUBINSERTED := true, RBINSERTED := true,
                 DYING := ps.flags.DYING }
      msgid := e.brk
      txcmd := cmd &&& not32 (DMSGF_CREATE ||| DMSGF_DELETE)
      rxcmd := DMSGF_REPLY
      icmd := (cmd &&& not32 (DMSGF_CREATE ||| DMSGF_DELETE)) &&& DMSGF_BASECMDMASK
      refs := 3
      func := func
      any := data }, ?_, rfl, rfl, rfl, rfl⟩, ?_, ?_⟩
  · simp only [Function.update_noteq (Ne.symm hne), Function.update_same]
  · simp only [Function.update_same]
  · intro a h1 h2
    simp only [Function.update_noteq h1, Function.update_noteq h2]

/-- The function `dmsg_state_relay` on a first `CREATE`, up to the call of
`dmsg_msg_write`. -/
theorem relay_first (e : dmsg_engine) (lmsg : dmsg_msg) (l lp rp : Nat)
    (ls lps rps : dmsg_state)
    (hl : lmsg.state = some l) (hls : e.heap l = some ls)
    (hc : lmsg.head.cmd &&& (DMSGF_CREATE ||| DMSGF_REPLY) = DMSGF_CREATE)
    (hp : ls.parent = some lp) (hlps : e.heap lp = some lps) (hr : lps.relay = some rp)
    (hrps : e.heap rp = some rps) (hfresh : e.heap e.brk = none)
    (htree : e.statewr_tree e.brk = none)
    (hsz : lmsg.hdr_size = (lmsg.head.cmd &&& DMSGF_SIZE) * DMSG_ALIGN)
    (hext : lmsg.ext.length = lmsg.hdr_size - sizeof_head) :
    ∃ e1 rmsg ls1 rs1,
      dmsg_state_relay_msg e lmsg = some (e1, { lmsg with aux_data := none }, rmsg) ∧
      rmsg.state = some e.brk ∧
      rmsg.head.cmd =
        (if rps.flags.OPPOSITE then lmsg.head.cmd ||| DMSGF_REVCIRC else lmsg.head.cmd) ∧
      rmsg.head.error = lmsg.head.error ∧ rmsg.ext = lmsg.ext ∧
      rmsg.hdr_size = lmsg.hdr_size ∧ rmsg.aux_size = lmsg.aux_size ∧
      rmsg.aux_data = lmsg.aux_data ∧
      e1.heap l = some ls1 ∧ e1.heap e.brk = some rs1 ∧
      ls1.relay = some e.brk ∧ rs1.relay = some l ∧ rs1.refs = 3 + 1 ∧
      ls1.refs = ls.refs + (if l = rp ∧ rps.subq = [] then 1 else 0) + 1 ∧
      (ls.relay = none → sizeof_head ≤ lmsg.hdr_size → e1.assert_failed = e.assert_failed) := by
  have hle : l ≠ e.brk := by
    intro h
    rw [h, hfresh] at hls
    cases hls
  have hel : e.brk ≠ l := fun h => hle h.symm
  obtain ⟨ea, hea, -, haf, ⟨ns, hns, hnr, -, -, -⟩, hrp, hoth⟩ :=
    alloc_created_eq ((e.check ls.relay.isNone).check (some rp).isSome) rp 0 lmsg.head.cmd 1
      false rps hrps hfresh htree hc
  have hbrk : ((e.check ls.relay.isNone).check (some rp).isSome).brk = e.brk := rfl
  rw [hbrk] at hea hns hrp hoth
  -- the state of `lmsg` after the allocation
  obtain ⟨lsa, hlsa, hlr, hlrel⟩ : ∃ lsa, ea.heap l = some lsa ∧
      lsa.refs = ls.refs + (if l = rp ∧ rps.subq = [] then 1 else 0) ∧
      True := by
    by_cases hlrp : l = rp
    · subst hlrp
      rw [hls] at hrps
      injection hrps with hrps
      subst hrps
      refine ⟨_, hrp, ?_, trivial⟩
      by_cases hq : ls.subq = []
      · simp only [hq, and_self, if_true]
      · simp only [hq, and_false, if_false, add_zero]
    · refine ⟨ls, ?_, ?_, trivial⟩
      · rw [hoth l hlrp hle]
        exact hls
      · simp only [hlrp, false_and, if_false, add_zero]
  unfold dmsg_state_relay_msg
  simp only [hl, hls, hc, if_true, hp, hlps, hr, Option.bind_eq_bind, Option.some_bind,
    Option.pure_def, hea, hns, put_heap_other _ _ _ _ hle, hlsa, dmsg_state_hold,
    put_heap_same, put_heap_other _ _ _ _ hel, ← hsz, relay_ext lmsg.ext _ hext]
  refine ⟨_, _, { lsa with relay := some e.brk, refs := lsa.refs + 1 },
    { ns with relay := some l, refs := ns.refs + 1 },
    rfl, rfl, rfl, rfl, rfl, rfl, rfl, rfl, ?_, ?_, rfl, rfl, ?_, ?_, ?_⟩
  · rw [put_heap_other _ _ _ _ hle]
    exact put_heap_same _ _ _
  · exact put_heap_same _ _ _
  · show ns.refs + 1 = 3 + 1
    rw [hnr]
  · show lsa.refs + 1 = _
    rw [hlr]
  · intro h1 h2
    show ea.assert_failed = e.assert_failed
    rw [haf]
    have h3 : decide ((lmsg.head.cmd &&& DMSGF_SIZE) * DMSG_ALIGN ≥ sizeof_head) = true :=
      decide_eq_true (by rw [← hsz]; exact h2)
    simp only [dmsg_engine.check, h1, h3, Option.isNone_none, Option.isSome_some,
      Bool.not_true, Bool.or_false]

/-- The branch of `dmsg_msg_alloc_locked` that binds the message to the state
passed in: the engine and the message in closed form. -/
theorem alloc_bound_gen (e : dmsg_engine) (c p aux_size cmd func : Nat) (data : Bool)
    (sc sp : dmsg_state)
    (hc : e.heap c = some sc) (hpar : sc.parent = some p) (hp : e.heap p = some sp)
    (hcmd : cmd &&& (DMSGF_CREATE ||| DMSGF_REPLY) ≠ DMSGF_CREATE) :
    dmsg_msg_alloc_locked e c aux_size cmd func data =
      some ((e.put c { sc with refs := sc.refs + 1 }).check
              (decide ((cmd &&& DMSGF_SIZE) * DMSG_ALIGN ≥ sizeof_head)),
        { state := some c
          head := { dmsg_hdr.zero with
                    magic := DMSG_HDR_MAGIC
                    cmd := if sp.flags.OPPOSITE then
                             (if sc.flags.OPPOSITE then cmd ||| DMSGF_REVTRANS else cmd) |||
                               DMSGF_REVCIRC
                           else (if sc.flags.OPPOSITE then cmd ||| DMSGF_REVTRANS else cmd)
                    msgid := sc.msgid, circuit := sp.msgid }
          ext := List.replicate ((cmd &&& DMSGF_SIZE) * DMSG_ALIGN - sizeof_head) 0
          hdr_size := (cmd &&& DMSGF_SIZE) * DMSG_ALIGN
          aux_data := if aux_size ≠ 0 then some (List.replicate (DMSG_DOALIGN 64 aux_size) 0)
                      else none
          aux_size := aux_size
          tcmd := 0 }) := by
  unfold dmsg_msg_alloc_locked
  simp only [hcmd, decide_False, Bool.false_eq_true, if_false, hold_eq e c _ hc,
    Option.map_some', Option.bind_eq_bind, Option.some_bind, hc, hpar, check_heap,
    put_heap_same, Option.pure_def]
  by_cases hpc : p = c
  · subst hpc
    rw [hc] at hp
    injection hp with hp
    subst hp
    simp only [put_heap_same, Option.some_bind]
    rfl
  · simp only [put_heap_other e c p _ hpc, hp, Option.some_bind]
    rfl

/-- The function `dmsg_state_relay` on a message over an established relay,
up to the call of `dmsg_msg_write`. -/
theorem relay_next (e : dmsg_engine) (lmsg : dmsg_msg) (l r rp : Nat)
    (ls rs rps : dmsg_state)
    (hl : lmsg.state = some l) (hls : e.heap l = some ls)
    (hc : lmsg.head.cmd &&& (DMSGF_CREATE ||| DMSGF_REPLY) ≠ DMSGF_CREATE)
    (hr : ls.relay = some r) (hrs : e.heap r = some rs) (hp : rs.parent = some rp)
    (hrps : e.heap rp = some rps)
    (hsz : lmsg.hdr_size = (lmsg.head.cmd &&& DMSGF_SIZE) * DMSG_ALIGN)
    (hext : lmsg.ext.length = lmsg.hdr_size - sizeof_head) :
    ∃ e1 rmsg,
      dmsg_state_relay_msg e lmsg = some (e1, { lmsg with aux_data := none }, rmsg) ∧
      rmsg.state = some r ∧
      rmsg.head.cmd =
        (if rps.flags.OPPOSITE then
          (if rs.flags.OPPOSITE then lmsg.head.cmd ||| DMSGF_REVTRANS else lmsg.head.cmd) |||
            DMSGF_REVCIRC
         else (if rs.flags.OPPOSITE then lmsg.head.cmd ||| DMSGF_REVTRANS
               else lmsg.head.cmd)) ∧
      rmsg.head.error = lmsg.head.error ∧ rmsg.ext = lmsg.ext ∧
      rmsg.hdr_size = lmsg.hdr_size ∧ rmsg.aux_size = lmsg.aux_size ∧
      rmsg.aux_data = lmsg.aux_data ∧
      e1.heap r = some { rs with refs := rs.refs + 1 } ∧
      (∀ a, a ≠ r → e1.heap a = e.heap a) ∧
      (rs.txcmd &&& DMSGF_DELETE = 0 → sizeof_head ≤ lmsg.hdr_size →
        e1.assert_failed = e.assert_failed) := by
  unfold dmsg_state_relay_msg
  simp only [hl, hls, hc, if_false, hr, Option.bind_eq_bind, Option.some_bind, check_heap,
    hrs, Option.pure_def,
    alloc_bound_gen ((e.check (some r).isSome).check (decide (rs.txcmd &&& DMSGF_DELETE = 0)))
      r rp 0 lmsg.head.cmd 1 false rs rps hrs hp hrps hc,
    ← hsz, relay_ext lmsg.ext _ hext]
  refine ⟨_, _, rfl, rfl, rfl, rfl, rfl, rfl, rfl, rfl, ?_, ?_, ?_⟩
  · exact put_heap_same _ _ _
  · intro a ha
    exact put_heap_other _ _ _ _ ha
  · intro h1 h2
    have h3 : decide (lmsg.hdr_size ≥ sizeof_head) = true := decide_eq_true h2
    simp only [dmsg_engine.check, dmsg_engine.put, h1, h3, Option.isSome_some, decide_True,
      Bool.not_true, Bool.or_false]

/-- C33 (counterexample). The message that `dmsg_state_relay` forwards does
not always carry the command of the message relayed.  On the connection
`ex_conn_relay` the peer's frame `CREATE|0x102` (identifier 9, circuit 7, error
5, an extended header of 64 bytes and a payload of three bytes) opens the
transaction at address 3, whose parent has the relay at address 2, itself
opened by the peer (`OPPOSITE`).  `dmsg_state_relay` allocates the outgoing
state at address 4 under the relay, and `dmsg_msg_alloc` sets `REVCIRC` for the
`OPPOSITE` parent: the message handed to `dmsg_msg_write` and queued carries
`CREATE|REVCIRC|0x102`, not `CREATE|0x102`.  The error, the extended header,
the sizes and the payload are those of the message relayed, whose payload
pointer is cleared, and the states 3 and 4 name each other as relay with one
more reference each. -/
theorem relay_adds_revcirc :
    ((ex_conn_relay.bind fun ic => (dmsg_ioq_read 5 ex_env ic).bind fun x =>
        x.2.bind fun m => relay_outcome_of x.1.eng m 3 4) =
      some { lmsg := (some 3, DMSGF_CREATE ||| 0x102, 5)
             rmsg := (some 4, DMSGF_CREATE ||| DMSGF_REVCIRC ||| 0x102, 5)
             copied := true
             before := [some (none, 3), none]
             after := [some (some 4, 4), some (some 3, 4)]
             assert_failed := false }) ∧
    ((ex_conn_relay.bind fun ic => (dmsg_ioq_read 5 ex_env ic).bind fun x =>
        x.2.bind fun m => (dmsg_state_relay 5 x.1 m).map fun r =>
          r.1.txmsgq.map fun q => (q.state, q.head.cmd)) =
      some [(some 4, DMSGF_CREATE ||| DMSGF_REVCIRC ||| 0x102)]) := by
  constructor <;> decide!

/-- C33 (amended). The message `rmsg` that `dmsg_state_relay` hands to
`dmsg_msg_write` for a message `lmsg` whose extended header has the size that
its command tells.  Its command is that of `lmsg` with `REVTRANS` or-ed in
when the outgoing state is `OPPOSITE` and `REVCIRC` or-ed in when the parent
of the outgoing state is `OPPOSITE`, so that every other bit (`CREATE`,
`DELETE`, `REPLY`, `ABORT`, the command and its size) is the same; the error,
the extended header, `aux_size` and the payload buffer are those of `lmsg`,
and `lmsg.aux_data` is `NULL` afterwards.  For a first `CREATE` (without
`REPLY`), the parent of the state of `lmsg` having a live relay and `malloc`
returning a fresh address, the outgoing state is created at that address
under the relay, the two states name each other as relay, the new state has
the three references of its allocation and one for the link, and the state of
`lmsg` gains one reference for the link (and the one of the queue when it is
itself the relay and its queue was empty).  For every other message, the state
of `lmsg` having a live relay with a live parent, `rmsg` is bound to the relay,
which gains the reference of the message, and no other state changes. -/
theorem relay_forwards (fuel : Nat) (ic : dmsg_iocom) (lmsg : dmsg_msg) (l : Nat)
    (ls : dmsg_state)
    (hl : lmsg.state = some l) (hls : ic.eng.heap l = some ls)
    (hsz : lmsg.hdr_size = (lmsg.head.cmd &&& DMSGF_SIZE) * DMSG_ALIGN)
    (hext : lmsg.ext.length = lmsg.hdr_size - sizeof_head) :
    (lmsg.head.cmd &&& (DMSGF_CREATE ||| DMSGF_REPLY) = DMSGF_CREATE →
      ∀ lp rp lps rps, ls.parent = some lp → ic.eng.heap lp = some lps →
        lps.relay = some rp → ic.eng.heap rp = some rps →
        ic.eng.heap ic.eng.brk = none → ic.eng.statewr_tree ic.eng.brk = none →
      ∃ e1 rmsg ls1 rs1,
        dmsg_state_relay_msg ic.eng lmsg = some (e1, { lmsg with aux_data := none }, rmsg) ∧
        dmsg_state_relay fuel ic lmsg =
          ((dmsg_msg_write fuel { ic with eng := e1 } rmsg).bind fun ic1 =>
            some (ic1, { lmsg with aux_data := none })) ∧
        rmsg.state = some ic.eng.brk ∧
        rmsg.head.cmd = alloc_cmd lmsg.head.cmd false rps.flags.OPPOSITE ∧
        relay_copy lmsg rmsg ∧
        e1.heap l = some ls1 ∧ e1.heap ic.eng.brk = some rs1 ∧
        ls1.relay = some ic.eng.brk ∧ rs1.relay = some l ∧ rs1.refs = 3 + 1 ∧
        ls1.refs = ls.refs + (if l = rp ∧ rps.subq = [] then 1 else 0) + 1) ∧
    (lmsg.head.cmd &&& (DMSGF_CREATE ||| DMSGF_REPLY) ≠ DMSGF_CREATE →
      ∀ r rp rs rps, ls.relay = some r → ic.eng.heap r = some rs → rs.parent = some rp →
        ic.eng.heap rp = some rps →
      ∃ e1 rmsg,
        dmsg_state_relay_msg ic.eng lmsg = some (e1, { lmsg with aux_data := none }, rmsg) ∧
        dmsg_state_relay fuel ic lmsg =
          ((dmsg_msg_write fuel { ic with eng := e1 } rmsg).bind fun ic1 =>
            some (ic1, { lmsg with aux_data := none })) ∧
        rmsg.state = some r ∧
        rmsg.head.cmd = alloc_cmd lmsg.head.cmd rs.flags.OPPOSITE rps.flags.OPPOSITE ∧
        relay_copy lmsg rmsg ∧
        e1.heap r = some { rs with refs := rs.refs + 1 } ∧
        ∀ a, a ≠ r → e1.heap a = ic.eng.heap a) := by
  constructor
  · intro hc lp rp lps rps hp hlps hr hrps hfresh htree
    obtain ⟨e1, rmsg, ls1, rs1, h1, h2, h3, h4, h5, h6, h7, h8, h9, h10, h11, h12, h13, h14, -⟩ :=
      relay_first ic.eng lmsg l lp rp ls lps rps hl hls hc hp hlps hr hrps hfresh htree hsz hext
    refine ⟨e1, rmsg, ls1, rs1, h1, ?_, h2, ?_, ⟨?_, h4, h5, h6, h7, h8⟩, h9, h10, h11, h12,
      h13, h14⟩
    · unfold dmsg_state_relay
      rw [h1]
      rfl
    · rw [h3]
      unfold alloc_cmd
      cases rps.flags.OPPOSITE <;> rfl
    · rw [h3]
      have g := rev_bits_masked lmsg.head.cmd false rps.flags.OPPOSITE
      simp only [Bool.false_eq_true, if_false] at g
      exact g
  · intro hc r rp rs rps hr hrs hp hrps
    obtain ⟨e1, rmsg, h1, h2, h3, h4, h5, h6, h7, h8, h9, h10, -⟩ :=
      relay_next ic.eng lmsg l r rp ls rs rps hl hls hc hr hrs hp hrps hsz hext
    refine ⟨e1, rmsg, h1, ?_, h2, ?_, ⟨?_, h4, h5, h6, h7, h8⟩, h9, h10⟩
    · unfold dmsg_state_relay
      rw [h1]
      rfl
    · rw [h3]
      rfl
    · rw [h3]
      exact rev_bits_masked lmsg.head.cmd rs.flags.OPPOSITE rps.flags.OPPOSITE

/-- The statement C33 (amended) on the engine `ex_relay_eng`, where the first
message of the transaction at address 3 is relayed to the new state at
address 4, and on the engine `ex_relay_eng2`, where a later message of the
same transaction goes to the established relay. -/
theorem relay_forwards_witness :
    (∃ e1 rmsg ls1 rs1,
      dmsg_state_relay_msg ex_relay_eng ex_relay_msg =
        some (e1, { ex_relay_msg with aux_data := none }, rmsg) ∧
      rmsg.state = some 4 ∧ rmsg.head.cmd = DMSGF_CREATE ||| DMSGF_REVCIRC ||| 0x102 ∧
      relay_copy ex_relay_msg rmsg ∧
      e1.heap 3 = some ls1 ∧ e1.heap 4 = some rs1 ∧
      ls1.relay = some 4 ∧ rs1.relay = some 3 ∧ rs1.refs = 4 ∧ ls1.refs = 4) ∧
    (∃ e1 rmsg,
      dmsg_state_relay_msg ex_relay_eng2 ex_relay_msg2 =
        some (e1, { ex_relay_msg2 with aux_data := none }, rmsg) ∧
      rmsg.state = some 4 ∧ rmsg.head.cmd = DMSGF_DELETE ||| DMSGF_REVCIRC ||| 0x101 ∧
      relay_copy ex_relay_msg2 rmsg) := by
  constructor
  · obtain ⟨e1, rmsg, ls1, rs1, h1, -, h2, h3, h4, h5, h6, h7, h8, h9, h10⟩ :=
      (relay_forwards 5 ex_relay_conn ex_relay_msg 3 _ rfl rfl (by decide) (by decide)).1
        (by decide) 1 2 _ _ rfl rfl rfl rfl rfl rfl
    exact ⟨e1, rmsg, ls1, rs1, h1, h2, h3, h4, h5, h6, h7, h8, h9, h10⟩
  · obtain ⟨e1, rmsg, h1, -, h2, h3, h4, -, -⟩ :=
      (relay_forwards 5 ex_relay_conn2 ex_relay_msg2 3 _ rfl rfl (by decide) (by decide)).2
        (by decide) 4 2 _ _ rfl rfl rfl rfl
    exact ⟨e1, rmsg, h1, h2, h3, h4⟩

/-! ## The command fields through the engine -/

theorem or_and_disj (x d m : Nat) (h : d &&& m = 0) : (x ||| d) &&& m = x &&& m := by
  rw [Nat.and_comm, Nat.and_or_distrib_left, Nat.and_comm m d, h, Nat.or_zero, Nat.and_comm]

theorem and_and_keep (x k m : Nat) (h : k &&& m = m) : (x &&& k) &&& m = x &&& m := by
  rw [Nat.and_assoc, h]

theorem or_delete_begun (x : Nat) (h : rx_begun x) : rx_begun (x ||| DMSGF_DELETE) := by
  unfold rx_begun at h ⊢
  rw [or_and_disj x _ _ (by decide)]
  exact h

theorem andnot_delete_reply (x : Nat) :
    (x &&& not32 DMSGF_DELETE) &&& DMSGF_REPLY = x &&& DMSGF_REPLY :=
  and_and_keep x _ _ (by decide)

theorem andnot_delete_cr (x : Nat) :
    (x &&& not32 DMSGF_DELETE) &&& (DMSGF_CREATE ||| DMSGF_REPLY) =
      x &&& (DMSGF_CREATE ||| DMSGF_REPLY) :=
  and_and_keep x _ _ (by decide)

/-- The bits `CREATE` and `REPLY` of a command as its `switch` value shows
them. -/
theorem sw_cr (cmd : Nat) :
    cmd &&& (DMSGF_CREATE ||| DMSGF_REPLY) =
      (cmd &&& (DMSGF_CREATE ||| DMSGF_DELETE ||| DMSGF_REPLY)) &&&
        (DMSGF_CREATE ||| DMSGF_REPLY) :=
  (and_and_keep cmd _ _ (by decide)).symm

theorem sw_reply (cmd : Nat) :
    cmd &&& DMSGF_REPLY =
      (cmd &&& (DMSGF_CREATE ||| DMSGF_DELETE ||| DMSGF_REPLY)) &&& DMSGF_REPLY :=
  (and_and_keep cmd _ _ (by decide)).symm

theorem cr_reply (cmd : Nat) :
    cmd &&& DMSGF_REPLY = (cmd &&& (DMSGF_CREATE ||| DMSGF_REPLY)) &&& DMSGF_REPLY :=
  (and_and_keep cmd _ _ (by decide)).symm

theorem xor_reply (x y : Nat) (h : (x ^^^ y) &&& DMSGF_REPLY = 0) :
    y &&& DMSGF_REPLY = x &&& DMSGF_REPLY := by
  rw [Nat.and_xor_distrib_right] at h
  exact (Nat.xor_eq_zero.1 h).symm

theorem cstep_refl (T : Prop) (e : dmsg_engine) : cstep T e e :=
  ⟨fun h => h, fun h => ⟨h, fun _ hd => hd⟩⟩

theorem cstep_trans {T : Prop} {e e1 e2 : dmsg_engine} (h1 : cstep T e e1) (h2 : cstep T e1 e2) :
    cstep T e e2 := by
  refine ⟨fun h => h2.1 (h1.1 h), ?_⟩
  intro hf
  obtain ⟨hf1, k2⟩ := h2.2 hf
  obtain ⟨hf0, k1⟩ := h1.2 hf1
  exact ⟨hf0, fun hT hd => k2 hT (k1 hT hd)⟩

theorem cstep_weaken {T : Prop} {e e1 : dmsg_engine} (h : cstep True e e1) : cstep T e e1 :=
  ⟨h.1, fun hf => ⟨(h.2 hf).1, fun _ hd => (h.2 hf).2 trivial hd⟩⟩

/-- A condition that follows from `dir_inv` can be dropped. -/
theorem cstep_discharge {T : Prop} {e e1 : dmsg_engine} (h : cstep T e e1)
    (hT : dir_inv e → T) : cstep True e e1 :=
  ⟨h.1, fun hf => ⟨(h.2 hf).1, fun _ hd => (h.2 hf).2 (hT hd) hd⟩⟩

/-- A step that leaves the heap alone and does not clear the assertion
flag. -/
theorem cstep_same (T : Prop) (e e1 : dmsg_engine) (hh : e1.heap = e.heap)
    (ha : e1.assert_failed = false → e.assert_failed = false) : cstep T e e1 :=
  ⟨fun h a s hs => h a s (by rw [← hh]; exact hs),
   fun hf => ⟨ha hf, fun _ hd a s hs => hd a s (by rw [← hh]; exact hs)⟩⟩

theorem check_sticky (e : dmsg_engine) (b : Bool) (h : (e.check b).assert_failed = false) :
    e.assert_failed = false ∧ b = true := by
  simp only [dmsg_engine.check, Bool.or_eq_false_iff, Bool.not_eq_false'] at h
  exact h

theorem cstep_check (T : Prop) (e : dmsg_engine) (b : Bool) : cstep T e (e.check b) :=
  cstep_same T _ _ rfl (fun h => (check_sticky e b h).1)

/-- An update of a live state, after an assertion `b`, that keeps
`state_cmd_ok` and, when the assertion holds and `T` is given, keeps
`state_dir_ok`. -/
theorem cstep_check_put (T : Prop) (e : dmsg_engine) (b : Bool) (p : Nat) (s s1 : dmsg_state)
    (hs : e.heap p = some s) (h1 : state_cmd_ok s → state_cmd_ok s1)
    (h2 : b = true → T → state_dir_ok s → state_dir_ok s1) :
    cstep T e ((e.check b).put p s1) := by
  refine ⟨?_, ?_⟩
  · intro h a t ht
    by_cases hap : a = p
    · subst hap
      rw [put_heap_same] at ht
      injection ht with ht
      subst ht
      exact h1 (h a s hs)
    · rw [put_heap_other _ _ _ _ hap] at ht
      exact h a t ht
  · intro hf
    have hb := check_sticky e b hf
    refine ⟨hb.1, ?_⟩
    intro hT hd a t ht
    by_cases hap : a = p
    · subst hap
      rw [put_heap_same] at ht
      injection ht with ht
      subst ht
      exact h2 hb.2 hT (hd a s hs)
    · rw [put_heap_other _ _ _ _ hap] at ht
      exact hd a t ht

theorem cstep_put (T : Prop) (e : dmsg_engine) (p : Nat) (s s1 : dmsg_state)
    (hs : e.heap p = some s) (h1 : state_cmd_ok s → state_cmd_ok s1)
    (h2 : T → state_dir_ok s → state_dir_ok s1) : cstep T e (e.put p s1) := by
  have h := cstep_check_put T e true p s s1 hs h1 (fun _ => h2)
  rw [check_true] at h
  exact h

/-- The allocation of a state that is as the invariants say. -/
theorem cstep_new (T : Prop) (e e0 : dmsg_engine) (p : Nat) (s1 : dmsg_state)
    (hh : e0.heap = e.heap) (ha : e0.assert_failed = e.assert_failed)
    (h1 : state_cmd_ok s1) (h2 : state_dir_ok s1) : cstep T e (e0.put p s1) := by
  refine ⟨?_, ?_⟩
  · intro h a t ht
    by_cases hap : a = p
    · subst hap
      rw [put_heap_same] at ht
      injection ht with ht
      subst ht
      exact h1
    · rw [put_heap_other _ _ _ _ hap, hh] at ht
      exact h a t ht
  · intro hf
    refine ⟨ha ▸ hf, ?_⟩
    intro _ hd a t ht
    by_cases hap : a = p
    · subst hap
      rw [put_heap_same] at ht
      injection ht with ht
      subst ht
      exact h2
    · rw [put_heap_other _ _ _ _ hap, hh] at ht
      exact hd a t ht

theorem hold_cstep (T : Prop) (e : dmsg_engine) (p : Nat) (e1 : dmsg_engine)
    (h : dmsg_state_hold e p = some e1) : cstep T e e1 := by
  unfold dmsg_state_hold at h
  simp only [Option.bind_eq_bind, Option.bind_eq_some, Option.pure_def, Option.some.injEq] at h
  obtain ⟨s, hs, rfl⟩ := h
  exact cstep_put T e p s _ hs (fun h => h) (fun _ h => h)

theorem free_cstep (T : Prop) (e : dmsg_engine) (p : Nat) (e1 : dmsg_engine)
    (h : dmsg_state_free e p = some e1) : cstep T e e1 := by
  unfold dmsg_state_free at h
  simp only [Option.bind_eq_bind, Option.bind_eq_some, Option.pure_def, Option.some.injEq] at h
  obtain ⟨s, hs, rfl⟩ := h
  have key : ∀ a t, Function.update e.heap p none a = some t → e.heap a = some t := by
    intro a t ht
    by_cases hap : a = p
    · subst hap
      rw [Function.update_same] at ht
      cases ht
    · rw [Function.update_noteq hap] at ht
      exact ht
  refine ⟨fun h a t ht => h a t (key a t ht), ?_⟩
  intro hf
  refine ⟨?_, fun _ hd a t ht => hd a t (key a t ht)⟩
  simp only [dmsg_engine.check, Bool.or_eq_false_iff] at hf
  exact hf.1.1.1.1

theorem drop_cstep (T : Prop) (e : dmsg_engine) (p : Nat) (e1 : dmsg_engine)
    (h : dmsg_state_drop e p = some e1) : cstep T e e1 := by
  unfold dmsg_state_drop at h
  simp only [Option.bind_eq_bind, Option.bind_eq_some, Option.pure_def] at h
  obtain ⟨s, hs, h⟩ := h
  have h1 : cstep T e ((e.check (decide (s.refs > 0))).put p { s with refs := s.refs - 1 }) :=
    cstep_check_put T e _ p s _ hs (fun h => h) (fun _ _ h => h)
  split_ifs at h
  · exact cstep_trans h1 (free_cstep T _ _ _ h)
  · injection h with h
    subst h
    exact h1

theorem ite_cstep {T : Prop} {c : Prop} [Decidable c] (A : Option dmsg_engine)
    (b a : dmsg_engine) (h : (if c then A else some b) = some a) (hA : A = some a → cstep T b a) :
    cstep T b a := by
  split_ifs at h
  · exact hA h
  · injection h with h
    subst h
    exact cstep_refl _ _

theorem subq_delete_cstep (T : Prop) (e : dmsg_engine) (c : Nat) (e1 : dmsg_engine)
    (h : dmsg_subq_delete e c = some e1) : cstep T e e1 := by
  unfold dmsg_subq_delete at h
  simp only [Option.bind_eq_bind, Option.bind_eq_some, Option.pure_def] at h
  obtain ⟨s, hs, h⟩ := h
  by_cases hsub : s.flags.SUBINSERTED = true
  · rw [if_pos hsub] at h
    simp only [Option.bind_eq_some] at h
    obtain ⟨p, -, ps, hps, h⟩ := h
    by_cases hmem : c ∈ (if ps.scan = some c then { ps with scan := none } else ps).subq
    · rw [if_pos hmem] at h
      simp only [Option.bind_eq_some] at h
      obtain ⟨s1, hs1, ps2, -, h⟩ := h
      have ha : cstep T e (e.put p
          { (if ps.scan = some c then { ps with scan := none } else ps) with
            subq := (if ps.scan = some c then { ps with scan := none } else ps).subq.erase c }) :=
        cstep_put T e p ps _ hps (by split <;> exact fun h => h)
          (by split <;> exact fun _ h => h)
      have hb := cstep_trans ha (cstep_put T _ c s1
        { s1 with flags := { s1.flags with SUBINSERTED := false }, parent := none } hs1
        (fun h => h) (fun _ h => h))
      by_cases hemp : ps2.subq.isEmpty = true
      · rw [if_pos hemp] at h
        simp only [Option.bind_eq_some] at h
        obtain ⟨e3, he3, h⟩ := h
        exact cstep_trans hb (cstep_trans (drop_cstep T _ _ _ he3) (drop_cstep T _ _ _ h))
      · rw [if_neg hemp] at h
        simp only [Option.some_bind] at h
        exact cstep_trans hb (drop_cstep T _ _ _ h)
    · rw [if_neg hmem] at h
      cases h
  · rw [if_neg hsub] at h
    injection h with h
    subst h
    exact cstep_check T e _

theorem msg_free_cstep (T : Prop) (e : dmsg_engine) (msg : dmsg_msg) (e1 : dmsg_engine)
    (h : dmsg_msg_free e msg = some e1) : cstep T e e1 := by
  unfold dmsg_msg_free dmsg_msg_free_locked at h
  simp only [Option.bind_eq_bind, Option.bind_eq_some] at h
  obtain ⟨st, hst, s, -, h⟩ := h
  rw [hst] at h
  exact drop_cstep T _ _ _ h

theorem alloc_create_cstep (T : Prop) (e : dmsg_engine) (p cmd func : Nat) (data : Bool)
    (r : dmsg_engine × Nat) (h : dmsg_msg_alloc_create e p cmd func data = some r)
    (hc : cmd &&& (DMSGF_CREATE ||| DMSGF_REPLY) = DMSGF_CREATE) : cstep T e r.1 := by
  unfold dmsg_msg_alloc_create at h
  simp only [Option.bind_eq_bind, Option.bind_eq_some, Option.pure_def] at h
  obtain ⟨ps, -, h⟩ := h
  obtain ⟨e3, he3, h⟩ := ite_bind_some _ _ _ _ _ h
  simp only [Option.bind_eq_some] at h
  obtain ⟨ps4, hps4, e6, he6, e7, he7, e8, he8, h⟩ := h
  injection h with h
  subst h
  have hR : (cmd &&& not32 (DMSGF_CREATE ||| DMSGF_DELETE)) &&& DMSGF_REPLY = 0 := by
    rw [and_and_keep cmd _ _ (by decide), cr_reply, hc]
    decide
  have h1 : cstep T e
      (({ e with brk := e.brk + 1, dmsg_state_count := e.dmsg_state_count + 1 } :
        dmsg_engine).put e.brk
        { dmsg_state.zero with
          parent := some p
          flags := { DYNAMIC := true, SUBINSERTED := true, RBINSERTED := true,
                     DYING := ps.flags.DYING }
          msgid := e.brk
          txcmd := cmd &&& not32 (DMSGF_CREATE ||| DMSGF_DELETE)
          rxcmd := DMSGF_REPLY
          icmd := (cmd &&& not32 (DMSGF_CREATE ||| DMSGF_DELETE)) &&& DMSGF_BASECMDMASK
          func := func
          any := data }) := by
    have hb : rx_begun DMSGF_REPLY := by
      unfold rx_begun
      decide
    refine cstep_new T e _ e.brk _ rfl rfl ⟨rfl, fun _ => ⟨rfl, hb⟩, fun _ => rfl⟩ ?_
    intro _
    refine ⟨?_, ?_⟩
    · show (false = true) ↔ (cmd &&& not32 (DMSGF_CREATE ||| DMSGF_DELETE)) &&& DMSGF_REPLY ≠ 0
      rw [hR]
      simp
    · show (false = true) ↔ DMSGF_REPLY &&& DMSGF_REPLY = 0
      simp only [Bool.false_eq_true, false_iff]
      decide
  have h2 := ite_cstep _ _ _ he3 (fun ha => hold_cstep T _ _ _ ha)
  have h3 : cstep T e3 { e3 with statewr_tree := RB_INSERT e3.statewr_tree e.brk e.brk } :=
    cstep_same T _ _ rfl (fun h => h)
  have h4 := cstep_put T { e3 with statewr_tree := RB_INSERT e3.statewr_tree e.brk e.brk } p ps4
    { ps4 with subq := ps4.subq ++ [e.brk] } hps4 (fun h => h) (fun _ h => h)
  exact cstep_trans h1 (cstep_trans h2 (cstep_trans h3 (cstep_trans h4
    (cstep_trans (hold_cstep T _ _ _ he6)
      (cstep_trans (hold_cstep T _ _ _ he7) (hold_cstep T _ _ _ he8))))))

theorem alloc_cstep (T : Prop) (e : dmsg_engine) (state aux_size cmd func : Nat) (data : Bool)
    (r : dmsg_engine × dmsg_msg)
    (h : dmsg_msg_alloc_locked e state aux_size cmd func data = some r) : cstep T e r.1 := by
  unfold dmsg_msg_alloc_locked at h
  by_cases hc : cmd &&& (DMSGF_CREATE ||| DMSGF_REPLY) = DMSGF_CREATE
  · simp only [hc, decide_True, if_true, Option.bind_eq_bind, Option.bind_eq_some,
      Option.pure_def] at h
    obtain ⟨a, ha, s0, -, pstate, -, s1, -, ps1, -, h⟩ := h
    injection h with h
    subst h
    exact cstep_trans (alloc_create_cstep T _ _ _ _ _ _ ha hc) (cstep_check T _ _)
  · simp only [hc, decide_False, Bool.false_eq_true, if_false, Option.bind_eq_bind,
      Option.bind_eq_some, Option.pure_def, Option.map_eq_some'] at h
    obtain ⟨a, ⟨e1, he1, ha⟩, s0, -, pstate, -, s1, -, ps1, -, h⟩ := h
    injection h with h
    subst h ha
    exact cstep_trans (hold_cstep T _ _ _ he1) (cstep_check T _ _)

/-- A reference taken leaves the flag `DYNAMIC` of every state. -/
theorem hold_flag (e : dmsg_engine) (p : Nat) (e1 : dmsg_engine)
    (h : dmsg_state_hold e p = some e1) (a : Nat) (s : dmsg_state) (hs : e.heap a = some s)
    (hd : s.flags.DYNAMIC = true) : ∃ t, e1.heap a = some t ∧ t.flags.DYNAMIC = true := by
  unfold dmsg_state_hold at h
  simp only [Option.bind_eq_bind, Option.bind_eq_some, Option.pure_def, Option.some.injEq] at h
  obtain ⟨sp, hsp, rfl⟩ := h
  by_cases hap : a = p
  · subst hap
    rw [hs] at hsp
    injection hsp with hsp
    subst hsp
    exact ⟨_, put_heap_same _ _ _, hd⟩
  · exact ⟨s, by rw [put_heap_other _ _ _ _ hap]; exact hs, hd⟩

/-- An update that keeps the flags of a state leaves the flag `DYNAMIC` of
every state. -/
theorem put_flag (e : dmsg_engine) (p : Nat) (s0 s1 : dmsg_state) (hs0 : e.heap p = some s0)
    (hf : s1.flags = s0.flags) (a : Nat) (s : dmsg_state) (hs : e.heap a = some s)
    (hd : s.flags.DYNAMIC = true) : ∃ t, (e.put p s1).heap a = some t ∧ t.flags.DYNAMIC = true := by
  by_cases hap : a = p
  · subst hap
    rw [hs] at hs0
    injection hs0 with hs0
    subst hs0
    exact ⟨_, put_heap_same _ _ _, by rw [hf]; exact hd⟩
  · exact ⟨s, by rw [put_heap_other _ _ _ _ hap]; exact hs, hd⟩

theorem create_cstep (T : Prop) (e : dmsg_engine) (msg : dmsg_msg) (p : Nat) (l : msgrx_locals)
    (h : dmsg_state_msgrx_create e msg p = some l)
    (hsw : msg.head.cmd &&& (DMSGF_CREATE ||| DMSGF_DELETE ||| DMSGF_REPLY) = DMSGF_CREATE ∨
      msg.head.cmd &&& (DMSGF_CREATE ||| DMSGF_DELETE ||| DMSGF_REPLY) =
        DMSGF_CREATE ||| DMSGF_DELETE) : cstep T e l.eng := by
  unfold dmsg_state_msgrx_create at h
  simp only [Option.bind_eq_bind, Option.bind_eq_some, Option.pure_def] at h
  obtain ⟨eb, heb, ps, -, h⟩ := h
  obtain ⟨ee, hee, h⟩ := ite_bind_some _ _ _ _ _ h
  simp only [Option.bind_eq_some] at h
  obtain ⟨ps1, hps1, s1, hs1, eh, heh, ei, hei, ej, hej, ps2, -, s2, hs2, h⟩ := h
  injection h with h
  rw [← h]
  have hbeg : rx_begun (msg.head.cmd &&& not32 DMSGF_DELETE) := by
    unfold rx_begun
    rw [andnot_delete_cr, sw_cr]
    rcases hsw with hsw | hsw <;> rw [hsw] <;> decide
  have hrep : (msg.head.cmd &&& not32 DMSGF_DELETE) &&& DMSGF_REPLY = 0 := by
    rw [andnot_delete_reply, sw_reply]
    rcases hsw with hsw | hsw <;> rw [hsw] <;> decide
  have h0 : cstep T e
      ({ e with brk := e.brk + 1, dmsg_state_count := e.dmsg_state_count + 1 } : dmsg_engine) :=
    cstep_same T _ _ rfl (fun h => h)
  have h1 := cstep_trans h0 (hold_cstep T _ _ _ heb)
  have h2 : cstep T eb
      ({ (eb.put e.brk
          { dmsg_state.zero with
            parent := some p
            flags := { DYNAMIC := true, OPPOSITE := true }
            msgid := msg.head.msgid
            txcmd := DMSGF_REPLY
            rxcmd := msg.head.cmd &&& not32 DMSGF_DELETE
            icmd := (msg.head.cmd &&& not32 DMSGF_DELETE) &&& DMSGF_BASECMDMASK }) with
         staterd_tree := RB_INSERT eb.staterd_tree msg.head.msgid e.brk } : dmsg_engine) := by
    refine cstep_trans (cstep_new T eb eb e.brk _ rfl rfl ⟨rfl, fun _ => ⟨rfl, hbeg⟩, fun _ => rfl⟩ ?_)
      (cstep_same T _ _ rfl (fun h => h))
    intro _
    refine ⟨?_, ?_⟩
    · show (true = true) ↔ DMSGF_REPLY &&& DMSGF_REPLY ≠ 0
      simp only [true_iff]
      decide
    · show (true = true) ↔ (msg.head.cmd &&& not32 DMSGF_DELETE) &&& DMSGF_REPLY = 0
      simp only [true_iff]
      exact hrep
  have h3 := ite_cstep _ _ _ hee (fun ha => hold_cstep T _ _ _ ha)
  have h4 := cstep_put T ee p ps1 { ps1 with subq := ps1.subq ++ [e.brk] } hps1
    (fun h => h) (fun _ h => h)
  have hdyn : s1.flags.DYNAMIC = true := by
    obtain ⟨t2, ht2, hf2⟩ : ∃ t, ee.heap e.brk = some t ∧ t.flags.DYNAMIC = true := by
      split_ifs at hee
      · exact hold_flag _ _ _ hee e.brk _ (put_heap_same _ _ _) rfl
      · injection hee with hee
        subst hee
        exact ⟨_, put_heap_same _ _ _, rfl⟩
    obtain ⟨t3, ht3, hf3⟩ := put_flag ee p ps1 { ps1 with subq := ps1.subq ++ [e.brk] } hps1 rfl
      e.brk t2 ht2 hf2
    rw [ht3] at hs1
    injection hs1 with hs1
    rw [← hs1]
    exact hf3
  have h5 := cstep_put T _ e.brk s1
    { s1 with flags := { s1.flags with SUBINSERTED := true, RBINSERTED := true } } hs1
    (fun h => ⟨h.1, h.2.1, fun _ => hdyn⟩) (fun _ h => h)
  have h6 : cstep T ej (if ps2.relay.isSome = true then ej.put e.brk { s2 with func := 1 }
      else ej) := by
    split
    · exact cstep_put T _ _ s2 _ hs2 (fun h => h) (fun _ h => h)
    · exact cstep_refl _ _
  exact cstep_trans h1 (cstep_trans h2 (cstep_trans h3 (cstep_trans h4 (cstep_trans h5
    (cstep_trans (hold_cstep T _ _ _ heh) (cstep_trans (hold_cstep T _ _ _ hei)
      (cstep_trans (hold_cstep T _ _ _ hej) h6)))))))

/-- A new value of `rxcmd` that has begun and keeps the bit `REPLY`. -/
theorem rx_update_ok (s : dmsg_state) (rx : Nat) :
    ((rx_begun s.rxcmd → rx_begun rx) → state_cmd_ok s → state_cmd_ok { s with rxcmd := rx }) ∧
    (rx &&& DMSGF_REPLY = s.rxcmd &&& DMSGF_REPLY →
      state_dir_ok s → state_dir_ok { s with rxcmd := rx }) := by
  refine ⟨?_, ?_⟩
  · intro hb h
    exact ⟨h.1, fun hd => ⟨(h.2.1 hd).1, hb (h.2.1 hd).2⟩, h.2.2⟩
  · intro hr h hd
    refine ⟨(h hd).1, ?_⟩
    show s.flags.OPPOSITE = true ↔ rx &&& DMSGF_REPLY = 0
    rw [hr]
    exact (h hd).2

theorem switch_cstep (T : Prop) (e : dmsg_engine) (msg : dmsg_msg) (state : Nat)
    (pstate : Option Nat) (l : msgrx_locals)
    (h : dmsg_state_msgrx_switch e msg state pstate = some l) : cstep T e l.eng := by
  unfold dmsg_state_msgrx_switch at h
  simp only [] at h
  by_cases c1 : msg.head.cmd &&& (DMSGF_CREATE ||| DMSGF_DELETE ||| DMSGF_REPLY) =
      DMSGF_CREATE ∨
      msg.head.cmd &&& (DMSGF_CREATE ||| DMSGF_DELETE ||| DMSGF_REPLY) =
        DMSGF_CREATE ||| DMSGF_DELETE
  · rw [if_pos c1] at h
    split_ifs at h
    · injection h with h
      rw [← h]
      exact cstep_check T _ _
    · exact create_cstep T _ _ _ _ h c1
  · rw [if_neg c1] at h
    by_cases c2 : msg.head.cmd &&& (DMSGF_CREATE ||| DMSGF_DELETE ||| DMSGF_REPLY) =
        DMSGF_DELETE ∨
        msg.head.cmd &&& (DMSGF_CREATE ||| DMSGF_DELETE ||| DMSGF_REPLY) =
          DMSGF_REPLY ||| DMSGF_DELETE
    · rw [if_pos c2] at h
      split_ifs at h
      all_goals first
        | (injection h with h; rw [← h]; first | exact cstep_refl _ _ | exact cstep_check T _ _)
        | (simp only [Option.bind_eq_some] at h
           obtain ⟨st, hst, h⟩ := h
           split_ifs at h <;>
             (injection h with h; rw [← h]
              first | exact cstep_refl _ _ | exact cstep_check T _ _))
    · rw [if_neg c2] at h
      by_cases c3 : msg.head.cmd &&& (DMSGF_CREATE ||| DMSGF_DELETE ||| DMSGF_REPLY) =
          DMSGF_REPLY ||| DMSGF_CREATE ∨
          msg.head.cmd &&& (DMSGF_CREATE ||| DMSGF_DELETE ||| DMSGF_REPLY) =
            DMSGF_REPLY ||| DMSGF_CREATE ||| DMSGF_DELETE
      · rw [if_pos c3] at h
        split_ifs at h
        · injection h with h
          rw [← h]
          exact cstep_check T _ _
        · simp only [Option.bind_eq_some] at h
          obtain ⟨st, hst, h⟩ := h
          injection h with h
          rw [← h]
          have hbeg : rx_begun (msg.head.cmd &&& not32 DMSGF_DELETE) := by
            unfold rx_begun
            rw [andnot_delete_cr, sw_cr]
            rcases c3 with hsw | hsw <;> rw [hsw] <;> decide
          refine cstep_check_put T e _ state st _ hst
            ((rx_update_ok st _).1 (fun _ => hbeg)) ?_
          intro hb _
          refine (rx_update_ok st _).2 ?_
          rw [andnot_delete_reply]
          exact xor_reply _ _ (of_decide_eq_true hb)
      · rw [if_neg c3] at h
        split_ifs at h
        all_goals first
          | (injection h with h; rw [← h]
             first | exact cstep_refl _ _ | exact cstep_check T _ _)
          | (simp only [Option.bind_eq_some] at h
             obtain ⟨st, hst, h⟩ := h
             split_ifs at h <;>
               (injection h with h; rw [← h]
                first | exact cstep_refl _ _ | exact cstep_check T _ _))

theorem remove_cstep (T : Prop) (e : dmsg_engine) (cmd state : Nat) (st : dmsg_state)
    (e1 : dmsg_engine) (hst : e.heap state = some st)
    (h : dmsg_state_msgrx_remove e cmd state st = some e1) : cstep T e e1 := by
  unfold dmsg_state_msgrx_remove at h
  simp only [Option.bind_eq_bind, Option.bind_eq_some] at h
  obtain ⟨e7, he7, h⟩ := h
  have h7 : e7.heap = e.heap ∧ (e7.assert_failed = false → e.assert_failed = false) := by
    by_cases hR : st.rxcmd &&& DMSGF_REPLY ≠ 0
    · rw [if_pos hR] at he7
      simp only [Option.map_eq_some'] at he7
      obtain ⟨t, -, rfl⟩ := he7
      exact ⟨rfl, fun hf => (check_sticky _ _ (check_sticky _ _ hf).1).1⟩
    · rw [if_neg hR] at he7
      simp only [Option.map_eq_some'] at he7
      obtain ⟨t, -, rfl⟩ := he7
      exact ⟨rfl, fun hf => (check_sticky _ _ (check_sticky _ _ hf).1).1⟩
  exact cstep_trans (cstep_same T e e7 h7.1 h7.2)
    (cstep_trans (cstep_put T e7 state st
      { st with flags := { st.flags with RBINSERTED := false } }
      (by rw [h7.1]; exact hst) (fun h => ⟨h.1, h.2.1, fun hx => by cases hx⟩) (fun _ h => h))
      (drop_cstep T _ _ _ h))

theorem rx_delete_ok (s : dmsg_state) :
    (state_cmd_ok s → state_cmd_ok { s with rxcmd := s.rxcmd ||| DMSGF_DELETE }) ∧
    (state_dir_ok s → state_dir_ok { s with rxcmd := s.rxcmd ||| DMSGF_DELETE }) :=
  ⟨(rx_update_ok s _).1 (or_delete_begun _), (rx_update_ok s _).2 (or_delete_reply _)⟩

theorem adjust_cstep (T : Prop) (l : msgrx_locals) (r : msgrx_result)
    (h : dmsg_state_msgrx_adjust l = some r) : cstep T l.eng r.eng := by
  unfold dmsg_state_msgrx_adjust at h
  simp only [Option.bind_eq_bind, Option.bind_eq_some, Option.pure_def] at h
  obtain ⟨mst2, -, ms2, -, st2, hst2, h⟩ := h
  split_ifs at h
  · injection h with h
    rw [← h]
    exact cstep_check T _ _
  · simp only [Option.map_eq_some'] at h
    obtain ⟨e9, he9, h⟩ := h
    rw [← h]
    have h1 : cstep T l.eng
        (((l.eng.check (decide (mst2 = l.state))).check
          (decide (st2.rxcmd &&& DMSGF_DELETE = 0))).put l.state
          { st2 with rxcmd := st2.rxcmd ||| DMSGF_DELETE }) :=
      cstep_trans (cstep_check T _ _) (cstep_check_put T _ _ _ st2 _ hst2
        (rx_delete_ok st2).1 (fun _ _ => (rx_delete_ok st2).2))
    exact cstep_trans h1 (remove_cstep T _ _ _ _ _ (put_heap_same _ _ _) he9)
  · injection h with h
    rw [← h]
    exact cstep_trans (cstep_check T _ _) (cstep_check_put T _ _ _ st2 _ hst2
      (rx_delete_ok st2).1 (fun _ _ => (rx_delete_ok st2).2))
  · injection h with h
    rw [← h]
    exact cstep_check T _ _

theorem assign_cstep (T : Prop) (e : dmsg_engine) (msg : dmsg_msg) (mstate : Bool) (mst : Nat)
    (pstate found : Option Nat) (a : dmsg_engine × dmsg_msg × Option Nat)
    (h : dmsg_state_msgrx_assign e msg mstate mst pstate found = some a) :
    cstep T e a.1 := by
  unfold dmsg_state_msgrx_assign at h
  split_ifs at h
  · injection h with h
    rw [← h]
    exact cstep_refl _ _
  · cases found with
    | none =>
      injection h with h
      rw [← h]
      exact cstep_refl _ _
    | some st =>
      simp only [Option.bind_eq_bind, Option.bind_eq_some, Option.pure_def] at h
      obtain ⟨e1, he1, e2, he2, sst, -, h⟩ := h
      injection h with h
      rw [← h]
      exact cstep_trans (drop_cstep T _ _ _ he1)
        (cstep_trans (hold_cstep T _ _ _ he2) (cstep_check T _ _))

theorem msgrx_cstep (T : Prop) (e : dmsg_engine) (msg : dmsg_msg) (mstate : Bool)
    (r : msgrx_result) (h : dmsg_state_msgrx e msg mstate = some r) : cstep T e r.eng := by
  unfold dmsg_state_msgrx at h
  simp only [Option.bind_eq_bind, Option.bind_eq_some] at h
  obtain ⟨mst, -, ms, -, h⟩ := h
  split at h
  · injection h with h
    rw [← h]
    exact cstep_refl _ _
  · simp only [Option.bind_eq_some] at h
    obtain ⟨a, ha, state, -, l, hl, h⟩ := h
    exact cstep_trans (assign_cstep T _ _ _ _ _ _ a ha)
      (cstep_trans (switch_cstep T _ _ _ _ l hl) (adjust_cstep T l r h))

theorem cleanuprx_cstep (T : Prop) (e : dmsg_engine) (msg : dmsg_msg) (e1 : dmsg_engine)
    (h : dmsg_state_cleanuprx e msg = some e1) : cstep T e e1 := by
  unfold dmsg_state_cleanuprx at h
  simp only [Option.bind_eq_bind, Option.bind_eq_some] at h
  obtain ⟨state, -, st, -, h⟩ := h
  split_ifs at h
  · exact msg_free_cstep T _ _ _ h
  · simp only [Option.bind_eq_some] at h
    obtain ⟨ea, hea, st1, hst1, e2, he2, h⟩ := h
    have h2 : cstep T ea e2 := by
      cases hrel : st1.relay with
      | none =>
        rw [hrel] at he2
        injection he2 with he2
        subst he2
        exact cstep_refl _ _
      | some r =>
        rw [hrel] at he2
        simp only [Option.bind_eq_bind, Option.bind_eq_some, Option.pure_def] at he2
        obtain ⟨eb, heb, st2, hst2, he2⟩ := he2
        injection he2 with he2
        subst he2
        exact cstep_trans (drop_cstep T _ _ _ heb)
          (cstep_put T _ _ st2 _ hst2 (fun h => h) (fun _ h => h))
    exact cstep_trans (subq_delete_cstep T _ _ _ hea)
      (cstep_trans h2 (msg_free_cstep T _ _ _ h))
  · exact msg_free_cstep T _ _ _ h

theorem foldlM_cstep (T : Prop) (f : dmsg_engine → Nat → Option dmsg_engine)
    (hf : ∀ a x b, f a x = some b → cstep T a b) :
    ∀ (l : List Nat) (e e1 : dmsg_engine), l.foldlM f e = some e1 → cstep T e e1 := by
  intro l
  induction l with
  | nil =>
    intro e e1 h
    injection h with h
    subst h
    exact cstep_refl _ _
  | cons x l ih =>
    intro e e1 h
    rw [List.foldlM_cons] at h
    cases hfa : f e x with
    | none =>
      rw [hfa] at h
      exact absurd h (by simp)
    | some b =>
      rw [hfa] at h
      exact cstep_trans (hf e x b hfa) (ih b e1 h)

theorem dying_cstep (T : Prop) : ∀ (fuel : Nat) (e : dmsg_engine) (x : Nat) (e1 : dmsg_engine),
    dmsg_state_dying fuel e x = some e1 → cstep T e e1 := by
  intro fuel
  induction fuel with
  | zero =>
    intro e x e1 h
    simp [dmsg_state_dying] at h
  | succ n ih =>
    intro e x e1 h
    unfold dmsg_state_dying at h
    simp only [Option.bind_eq_bind, Option.bind_eq_some, Option.pure_def] at h
    obtain ⟨s, hs, h⟩ := h
    split_ifs at h
    · exact cstep_trans
        (cstep_put T e x s { s with flags := { s.flags with DYING := true } } hs
          (fun h => h) (fun _ h => h))
        (foldlM_cstep T _ (fun a y b hb => ih a y b hb) _ _ _ h)
    · injection h with h
      subst h
      exact cstep_refl _ _

theorem abort_msg_cstep (T : Prop) (e : dmsg_engine) (x : Nat) (e1 : dmsg_engine)
    (h : dmsg_state_abort_msg e x = some e1) : cstep T e e1 := by
  unfold dmsg_state_abort_msg at h
  simp only [Option.bind_eq_bind, Option.bind_eq_some] at h
  obtain ⟨am, ham, s3, -, r, hr, h⟩ := h
  have h2 : cstep T r.eng { r.eng with rcvd := r.eng.rcvd ++ [r.msg] } :=
    cstep_same T _ _ rfl (fun h => h)
  exact cstep_trans (alloc_cstep T _ _ _ _ _ _ am ham)
    (cstep_trans (msgrx_cstep T _ _ _ r hr) (cstep_trans h2 (cleanuprx_cstep T _ _ _ h)))

theorem abort_cstep (T : Prop) (fuel : Nat) (e : dmsg_engine) (x : Nat) (e1 : dmsg_engine)
    (h : dmsg_state_abort fuel e x = some e1) : cstep T e e1 := by
  unfold dmsg_state_abort at h
  simp only [Option.bind_eq_bind, Option.bind_eq_some, Option.pure_def] at h
  obtain ⟨s, hs, h⟩ := h
  split_ifs at h with hab
  · injection h with h
    subst h
    exact cstep_refl _ _
  · simp only [Option.bind_eq_some] at h
    obtain ⟨e2, he2, s2, -, h⟩ := h
    have h1 : cstep T e (e.put x { s with flags := { s.flags with ABORTING := true } }) :=
      cstep_put T e x s _ hs (fun h => h) (fun _ h => h)
    have h2 := cstep_trans h1 (dying_cstep T _ _ _ _ he2)
    split_ifs at h
    · injection h with h
      subst h
      exact h2
    · exact cstep_trans h2 (abort_msg_cstep T _ _ _ h)
    · injection h with h
      subst h
      exact h2

theorem simulate_cstep (T : Prop) : ∀ (fuel : Nat),
    (∀ (e : dmsg_engine) (x : Nat) (m : Bool) (err : Nat) (e1 : dmsg_engine),
      dmsg_simulate_failure fuel e x m err = some e1 → cstep T e e1) ∧
    (∀ (e : dmsg_engine) (q err : Nat) (c : Option Nat) (e1 : dmsg_engine),
      dmsg_simulate_failure_scan fuel e q err c = some e1 → cstep T e e1) := by
  intro fuel
  induction fuel with
  | zero =>
    refine ⟨?_, ?_⟩
    · intro e x m err e1 h
      simp [dmsg_simulate_failure] at h
    · intro e q err c e1 h
      simp [dmsg_simulate_failure_scan] at h
  | succ n ih =>
    refine ⟨?_, ?_⟩
    · intro e x m err e1 h
      have key : ∃ ea eb s ec, dmsg_state_hold e x = some ea ∧
          (if m = true then dmsg_state_abort n ea x else some ea) = some eb ∧
          eb.heap x = some s ∧ dmsg_simulate_failure_scan n eb x err s.subq.head? = some ec ∧
          dmsg_state_drop ec x = some e1 := by
        unfold dmsg_simulate_failure at h
        cases m with
        | true =>
          simp only [if_true, Option.bind_eq_bind, Option.bind_eq_some, Option.pure_def] at h
          obtain ⟨ea, hea, eb, heb, s, hs, ec, hec, h⟩ := h
          exact ⟨ea, eb, s, ec, hea, by simpa using heb, hs, hec, h⟩
        | false =>
          simp only [Bool.false_eq_true, if_false, Option.bind_eq_bind, Option.bind_eq_some,
            Option.pure_def, Option.some.injEq] at h
          obtain ⟨ea, hea, eb, heb, s, hs, ec, hec, h⟩ := h
          exact ⟨ea, eb, s, ec, hea, by simpa using heb, hs, hec, h⟩
      obtain ⟨ea, eb, s, ec, hea, heb, hs, hec, h⟩ := key
      have h2 : cstep T ea eb := ite_cstep _ _ _ heb (fun ha => abort_cstep T _ _ _ _ ha)
      exact cstep_trans (hold_cstep T _ _ _ hea) (cstep_trans h2
        (cstep_trans (ih.2 eb x err _ ec hec) (drop_cstep T _ _ _ h)))
    · intro e q err c e1 h
      cases c with
      | none =>
        simp only [dmsg_simulate_failure_scan, Option.some.injEq] at h
        subst h
        exact cstep_refl _ _
      | some y =>
        unfold dmsg_simulate_failure_scan at h
        simp only [Option.bind_eq_bind, Option.bind_eq_some] at h
        obtain ⟨ss, hss, s, hs, h⟩ := h
        by_cases hab : ss.flags.ABORTING = true
        · rw [if_pos hab] at h
          exact ih.2 e q err _ e1 h
        · rw [if_neg hab] at h
          simp only [Option.bind_eq_some] at h
          obtain ⟨e2, he2, s2, hs2, h⟩ := h
          have h1 : cstep T e (e.put q { s with scan := some y }) :=
            cstep_put T e q s _ hs (fun h => h) (fun _ h => h)
          have h12 := cstep_trans h1 (ih.1 _ y true err e2 he2)
          split_ifs at h
          · exact cstep_trans h12 (ih.2 e2 q err _ e1 h)
          · exact cstep_trans h12 (ih.2 e2 q err _ e1 h)
theorem tx_update_ok (s : dmsg_state) (tx : Nat) :
    (state_cmd_ok s → state_cmd_ok { s with txcmd := tx }) ∧
    (tx &&& DMSGF_REPLY = s.txcmd &&& DMSGF_REPLY →
      state_dir_ok s → state_dir_ok { s with txcmd := tx }) := by
  refine ⟨fun h => h, ?_⟩
  intro hr h hd
  refine ⟨?_, (h hd).2⟩
  show s.flags.OPPOSITE = true ↔ tx &&& DMSGF_REPLY ≠ 0
  rw [hr]
  exact (h hd).1

theorem cleanuptx_cstep (T : Prop) (fuel : Nat) (e : dmsg_engine) (msg : dmsg_msg)
    (e1 : dmsg_engine) (h : dmsg_state_cleanuptx fuel e msg = some e1) : cstep T e e1 := by
  unfold dmsg_state_cleanuptx at h
  simp only [Option.bind_eq_bind, Option.bind_eq_some, Option.pure_def] at h
  obtain ⟨state, -, ea, hea, s, hs, e2, he2, s2, hs2, e3, he3, h⟩ := h
  have h1 := hold_cstep T _ _ _ hea
  have hdel : cstep T ea (ea.put state { s with txcmd := s.txcmd ||| DMSGF_DELETE }) :=
    cstep_put T ea state s _ hs (tx_update_ok s _).1
      (fun _ => (tx_update_ok s _).2 (or_delete_reply _))
  have h2 : cstep T ea e2 := by
    by_cases hroot : s.flags.ROOT = true
    · rw [if_pos hroot] at he2
      injection he2 with he2
      subst he2
      exact cstep_refl _ _
    · rw [if_neg hroot] at he2
      by_cases hd : msg.head.cmd &&& DMSGF_DELETE ≠ 0
      · rw [if_pos hd] at he2
        by_cases hcase : s.txcmd &&& DMSGF_DELETE = 0 ∧ s.rxcmd &&& DMSGF_DELETE ≠ 0
        · rw [if_pos hcase] at he2
          simp only [Option.bind_eq_some] at he2
          obtain ⟨eb, heb, ed, hed, sd, hsd, ee, hee, he2⟩ := he2
          have hbb : eb.heap = (ea.put state
              { s with txcmd := s.txcmd ||| DMSGF_DELETE }).heap ∧
              (eb.assert_failed = false → (ea.put state
                { s with txcmd := s.txcmd ||| DMSGF_DELETE }).assert_failed = false) := by
            by_cases hR : (s.txcmd ||| DMSGF_DELETE) &&& DMSGF_REPLY ≠ 0
            · rw [if_pos hR] at heb
              simp only [Option.map_eq_some'] at heb
              obtain ⟨t, -, rfl⟩ := heb
              exact ⟨rfl, fun hf => (check_sticky _ _ (check_sticky _ _ hf).1).1⟩
            · rw [if_neg hR] at heb
              simp only [Option.map_eq_some'] at heb
              obtain ⟨t, -, rfl⟩ := heb
              exact ⟨rfl, fun hf => (check_sticky _ _ (check_sticky _ _ hf).1).1⟩
          have hb := cstep_trans hdel (cstep_same T _ eb hbb.1 hbb.2)
          have hc : cstep T eb (eb.put state
              { s with txcmd := s.txcmd ||| DMSGF_DELETE,
                       flags := { s.flags with RBINSERTED := false } }) :=
            cstep_put T eb state { s with txcmd := s.txcmd ||| DMSGF_DELETE } _
              (by rw [hbb.1]; exact put_heap_same _ _ _)
              (fun h => ⟨h.1, h.2.1, fun hx => by cases hx⟩) (fun _ h => h)
          have hrel : cstep T ed ee := by
            cases hr : sd.relay with
            | none =>
              rw [hr] at hee
              injection hee with hee
              subst hee
              exact cstep_refl _ _
            | some r =>
              rw [hr] at hee
              simp only [Option.bind_eq_bind, Option.bind_eq_some, Option.pure_def] at hee
              obtain ⟨ex, hex, sx, hsx, hee⟩ := hee
              injection hee with hee
              subst hee
              exact cstep_trans (drop_cstep T _ _ _ hex)
                (cstep_put T _ _ sx _ hsx (fun h => h) (fun _ h => h))
          exact cstep_trans hb (cstep_trans hc (cstep_trans (subq_delete_cstep T _ _ _ hed)
            (cstep_trans hrel (drop_cstep T _ _ _ he2))))
        · rw [if_neg hcase] at he2
          split_ifs at he2
          · injection he2 with he2
            subst he2
            exact hdel
          · injection he2 with he2
            subst he2
            exact cstep_refl _ _
      · rw [if_neg hd] at he2
        injection he2 with he2
        subst he2
        exact cstep_refl _ _
  have h3 : cstep T e2 e3 := by
    split_ifs at he3
    · exact cstep_trans
        (cstep_put T e2 state s2 { s2 with flags := { s2.flags with ABORTING := false } } hs2
          (fun h => h) (fun _ h => h))
        ((simulate_cstep T fuel).1 _ _ _ _ _ he3)
    · injection he3 with he3
      subst he3
      exact cstep_refl _ _
  exact cstep_trans h1 (cstep_trans h2 (cstep_trans h3 (drop_cstep T _ _ _ h)))

/-- The bits `CREATE`, `DELETE` and `REPLY` of the command of an allocated
message are those asked for. -/
theorem alloc_cmd_bits (e : dmsg_engine) (state aux_size cmd func : Nat) (data : Bool)
    (r : dmsg_engine × dmsg_msg)
    (h : dmsg_msg_alloc_locked e state aux_size cmd func data = some r) :
    r.2.head.cmd &&& (DMSGF_CREATE ||| DMSGF_DELETE ||| DMSGF_REPLY) =
      cmd &&& (DMSGF_CREATE ||| DMSGF_DELETE ||| DMSGF_REPLY) := by
  have key : ∀ (s1 ps1 : dmsg_state), (if ps1.flags.OPPOSITE = true then
      (if s1.flags.OPPOSITE = true then cmd ||| DMSGF_REVTRANS else cmd) ||| DMSGF_REVCIRC
    else (if s1.flags.OPPOSITE = true then cmd ||| DMSGF_REVTRANS else cmd)) &&&
      (DMSGF_CREATE ||| DMSGF_DELETE ||| DMSGF_REPLY) =
      cmd &&& (DMSGF_CREATE ||| DMSGF_DELETE ||| DMSGF_REPLY) := by
    intro s1 ps1
    split_ifs
    · rw [or_and_disj _ _ _ (by decide), or_and_disj _ _ _ (by decide)]
    · rw [or_and_disj _ _ _ (by decide)]
    · rw [or_and_disj _ _ _ (by decide)]
    · rfl
  unfold dmsg_msg_alloc_locked at h
  by_cases hc : cmd &&& (DMSGF_CREATE ||| DMSGF_REPLY) = DMSGF_CREATE
  · simp only [hc, decide_True, if_true, Option.bind_eq_bind, Option.bind_eq_some,
      Option.pure_def] at h
    obtain ⟨a, ha, s0, -, pstate, -, s1, -, ps1, -, h⟩ := h
    injection h with h
    subst h
    exact key s1 ps1
  · simp only [hc, decide_False, Bool.false_eq_true, if_false, Option.bind_eq_bind,
      Option.bind_eq_some, Option.pure_def, Option.map_eq_some'] at h
    obtain ⟨a, ⟨e1, he1, ha⟩, s0, -, pstate, -, s1, -, ps1, -, h⟩ := h
    injection h with h
    subst h
    exact key s1 ps1

/-- What `write_dir_ok` says of a message whose state is allocated. -/
theorem write_dir_iff (e : dmsg_engine) (msg : dmsg_msg) (a : Nat) (s : dmsg_state)
    (hst : msg.state = some a) (hs : e.heap a = some s) :
    write_dir_ok e msg = true ↔
      (s.flags.DYNAMIC = true → msg.head.cmd &&& DMSGF_CREATE ≠ 0 →
        (msg.head.cmd &&& DMSGF_REPLY ≠ 0 ↔ s.flags.OPPOSITE = true)) := by
  unfold write_dir_ok
  rw [hst, Option.some_bind, hs]
  cases hd : s.flags.DYNAMIC <;> cases ho : s.flags.OPPOSITE <;>
    by_cases hc : msg.head.cmd &&& DMSGF_CREATE = 0 <;>
    by_cases hr : msg.head.cmd &&& DMSGF_REPLY = 0 <;> simp [hc, hr, hd, ho]

theorem write_cstep (fuel : Nat) (ic : dmsg_iocom) (msg : dmsg_msg) (ic1 : dmsg_iocom)
    (h : dmsg_msg_write fuel ic msg = some ic1) :
    cstep (write_dir_ok ic.eng msg = true) ic.eng ic1.eng := by
  unfold dmsg_msg_write at h
  simp only [Option.bind_eq_bind, Option.bind_eq_some, Option.pure_def] at h
  obtain ⟨state, hst, s, hs, h⟩ := h
  generalize hs1 : (if (!s.flags.ROOT) = true ∧
      msg.head.cmd &&& (DMSGF_CREATE ||| DMSGF_REPLY) = DMSGF_CREATE then
      { s with
        txcmd := msg.head.cmd &&& not32 DMSGF_DELETE
        icmd := (msg.head.cmd &&& not32 DMSGF_DELETE) &&& DMSGF_BASECMDMASK
        flags := { s.flags with NEW := false } }
    else s) = s1 at h
  generalize hm1 : (if (!s.flags.ROOT) = true then
      { msg with head := { msg.head with msgid := s1.msgid } } else msg) = msg1 at h
  have hm1c : msg1.head.cmd = msg.head.cmd := by
    rw [← hm1]
    split_ifs <;> rfl
  generalize hs2 : (if (!s.flags.ROOT) = true ∧ msg1.head.cmd &&& DMSGF_CREATE ≠ 0 then
      { s1 with txcmd := msg1.head.cmd &&& not32 DMSGF_DELETE } else s1) = s2 at h
  have k1 : state_cmd_ok s → state_cmd_ok s1 := by
    intro hk
    rw [← hs1]
    split_ifs
    · exact ⟨rfl, hk.2⟩
    · exact hk
  have k2 : state_cmd_ok s → state_cmd_ok s2 := by
    intro hk
    rw [← hs2]
    split_ifs
    · exact (tx_update_ok s1 _).1 (k1 hk)
    · exact k1 hk
  have k3 : write_dir_ok ic.eng msg = true → state_dir_ok s → state_dir_ok s2 := by
    intro hw hk
    rw [← hs2, hm1c]
    by_cases hc : (!s.flags.ROOT) = true ∧ msg.head.cmd &&& DMSGF_CREATE ≠ 0
    · rw [if_pos hc]
      have hfl : s1.flags.DYNAMIC = s.flags.DYNAMIC ∧ s1.flags.OPPOSITE = s.flags.OPPOSITE ∧
          s1.rxcmd = s.rxcmd := by
        rw [← hs1]
        split_ifs
        · exact ⟨rfl, rfl, rfl⟩
        · exact ⟨rfl, rfl, rfl⟩
      intro hd
      have hd0 : s.flags.DYNAMIC = true := hfl.1 ▸ hd
      have hw1 := (write_dir_iff _ _ state s hst hs).1 hw hd0 hc.2
      refine ⟨?_, ?_⟩
      · show s1.flags.OPPOSITE = true ↔
          (msg.head.cmd &&& not32 DMSGF_DELETE) &&& DMSGF_REPLY ≠ 0
        rw [andnot_delete_reply, hfl.2.1]
        exact hw1.symm
      · show s1.flags.OPPOSITE = true ↔ s1.rxcmd &&& DMSGF_REPLY = 0
        rw [hfl.2.1, hfl.2.2]
        exact (hk hd0).2
    · rw [if_neg hc]
      have hs1s : s1 = s := by
        rw [← hs1]
        refine if_neg ?_
        intro hx
        refine hc ⟨hx.1, ?_⟩
        intro h0
        have := and_and_keep msg.head.cmd (DMSGF_CREATE ||| DMSGF_REPLY) DMSGF_CREATE
          (by decide)
        rw [hx.2, h0] at this
        exact absurd this (by decide)
      rw [hs1s]
      exact hk
  generalize he1 : (if (!s.flags.ROOT) = true then ic.eng.put state s2 else ic.eng) = e1 at h
  have ke : cstep (write_dir_ok ic.eng msg = true) ic.eng e1 := by
    rw [← he1]
    split_ifs
    · exact cstep_put _ _ _ s _ hs k2 k3
    · exact cstep_refl _ _
  split_ifs at h with hdel hdy
  · simp only [Option.map_eq_some'] at h
    obtain ⟨e2, he2, rfl⟩ := h
    exact cstep_trans ke (msg_free_cstep _ _ _ _ he2)
  · simp only [Option.bind_eq_some] at h
    obtain ⟨e2, he2, e3, he3, s3, hs3, e4, he4, e5, he5, e6, he6, h⟩ := h
    injection h with h
    subst h
    have h34 : cstep (write_dir_ok ic.eng msg = true) e3 e4 :=
      ite_cstep _ _ _ he4 (fun ha => (simulate_cstep _ fuel).1 _ _ _ _ _ ha)
    exact cstep_trans ke (cstep_trans (hold_cstep _ _ _ _ he2)
      (cstep_trans (cleanuptx_cstep _ _ _ _ _ he3) (cstep_trans h34
        (cstep_trans (drop_cstep _ _ _ _ he5) (msg_free_cstep _ _ _ _ he6)))))
  · simp only [Option.bind_eq_some] at h
    obtain ⟨e2, he2, h⟩ := h
    injection h with h
    subst h
    exact cstep_trans ke (cleanuptx_cstep _ _ _ _ _ he2)
/-- A message allocated on an existing state: the state gains a reference. -/
theorem alloc_keep (e : dmsg_engine) (state aux_size cmd func : Nat) (data : Bool)
    (r : dmsg_engine × dmsg_msg) (s : dmsg_state)
    (h : dmsg_msg_alloc_locked e state aux_size cmd func data = some r)
    (hc : cmd &&& (DMSGF_CREATE ||| DMSGF_REPLY) ≠ DMSGF_CREATE) (hs : e.heap state = some s) :
    r.2.state = some state ∧ r.1.heap state = some { s with refs := s.refs + 1 } := by
  unfold dmsg_msg_alloc_locked at h
  simp only [hc, decide_False, Bool.false_eq_true, if_false, Option.bind_eq_bind,
    Option.bind_eq_some, Option.pure_def, Option.map_eq_some'] at h
  obtain ⟨a, ⟨e1, he1, ha⟩, s0, -, pstate, -, s1, -, ps1, -, h⟩ := h
  injection h with h
  subst h ha
  rw [hold_eq e state s hs] at he1
  injection he1 with he1
  subst he1
  exact ⟨rfl, put_heap_same _ _ _⟩

theorem reply_cmd_cstep (fuel : Nat) (ic : dmsg_iocom) (state cmd0 error : Nat)
    (ic1 : dmsg_iocom) (h0 : cmd0 &&& (DMSGF_CREATE ||| DMSGF_REPLY) = 0)
    (h : dmsg_state_reply_cmd fuel ic state cmd0 error = some ic1) :
    cstep True ic.eng ic1.eng := by
  unfold dmsg_state_reply_cmd at h
  simp only [Option.bind_eq_bind, Option.bind_eq_some, Option.pure_def] at h
  obtain ⟨s, hs, h⟩ := h
  by_cases hd : s.txcmd &&& DMSGF_DELETE ≠ 0
  · rw [if_pos hd] at h
    injection h with h
    subst h
    exact cstep_refl _ _
  · rw [if_neg hd] at h
    simp only [Option.bind_eq_some] at h
    obtain ⟨am, ham, s1, hs1, h⟩ := h
    have hRR : (DMSGF_CREATE ||| DMSGF_REPLY) &&& DMSGF_REPLY = DMSGF_REPLY := by decide
    have hcr : (cmd0 ||| DMSGF_REPLY) &&& (DMSGF_CREATE ||| DMSGF_REPLY) = DMSGF_REPLY := by
      rw [Nat.and_comm, Nat.and_or_distrib_left, Nat.and_comm _ cmd0, h0, Nat.zero_or]
      exact hRR
    have hcmd : (if s.txcmd &&& DMSGF_REPLY ≠ 0 then cmd0 ||| DMSGF_REPLY else cmd0) &&&
        (DMSGF_CREATE ||| DMSGF_REPLY) =
        (if s.txcmd &&& DMSGF_REPLY ≠ 0 then DMSGF_REPLY else 0) := by
      split_ifs
      · exact hcr
      · exact h0
    have hnc : (if s.txcmd &&& DMSGF_REPLY ≠ 0 then cmd0 ||| DMSGF_REPLY else cmd0) &&&
        (DMSGF_CREATE ||| DMSGF_REPLY) ≠ DMSGF_CREATE := by
      rw [hcmd]
      split_ifs <;> decide
    obtain ⟨hst, hheap⟩ := alloc_keep _ _ _ _ _ _ am s ham hnc hs
    have hbits := alloc_cmd_bits _ _ _ _ _ _ am ham
    have hrep : am.2.head.cmd &&& DMSGF_REPLY =
        (if s.txcmd &&& DMSGF_REPLY ≠ 0 then DMSGF_REPLY else 0) := by
      rw [sw_reply, hbits, ← sw_reply, cr_reply, hcmd]
      split_ifs <;> decide
    rw [hheap] at hs1
    injection hs1 with hs1
    refine cstep_trans (alloc_cstep True _ _ _ _ _ _ am ham)
      (cstep_discharge (write_cstep fuel _ _ ic1 h) ?_)
    intro hdir
    refine (write_dir_iff am.1
      { am.2 with head := { am.2.head with
          cmd := (if (!s1.flags.ROOT) = true ∧ s1.txcmd &&& DMSGF_CREATE = 0 then
            am.2.head.cmd ||| DMSGF_CREATE else am.2.head.cmd)
          error := error % 2 ^ 32 } } state _ hst hheap).2 ?_
    intro hdyn _
    generalize ht : ({ s with refs := s.refs + 1 } : dmsg_state) = t at hheap hdyn ⊢
    have hta : am.1.heap state = some t := hheap
    have hta1 : { s with refs := s.refs + 1 } = t := ht
    have hT := hdir state t hta hdyn
    have htx : t.txcmd = s.txcmd := by rw [← hta1]
    rw [hT.1, htx]
    show (if (!s1.flags.ROOT) = true ∧ s1.txcmd &&& DMSGF_CREATE = 0 then
        am.2.head.cmd ||| DMSGF_CREATE else am.2.head.cmd) &&& DMSGF_REPLY ≠ 0 ↔ _
    have hc1 : (if (!s1.flags.ROOT) = true ∧ s1.txcmd &&& DMSGF_CREATE = 0 then
        am.2.head.cmd ||| DMSGF_CREATE else am.2.head.cmd) &&& DMSGF_REPLY =
        am.2.head.cmd &&& DMSGF_REPLY := by
      split_ifs
      · exact or_and_disj _ _ _ (by decide)
      · rfl
    rw [hc1, hrep]
    by_cases hR : s.txcmd &&& DMSGF_REPLY ≠ 0
    · rw [if_pos hR]
      exact ⟨fun _ => hR, fun _ => by decide⟩
    · rw [if_neg hR]
      exact ⟨fun hx => absurd rfl hx, fun hx => absurd hx hR⟩

theorem reply_cstep (fuel : Nat) (ic : dmsg_iocom) (state error : Nat) (ic1 : dmsg_iocom)
    (h : dmsg_state_reply fuel ic state error = some ic1) : cstep True ic.eng ic1.eng :=
  reply_cmd_cstep fuel ic state _ error ic1 (by decide) h

theorem result_cstep (fuel : Nat) (ic : dmsg_iocom) (state error : Nat) (ic1 : dmsg_iocom)
    (h : dmsg_state_result fuel ic state error = some ic1) : cstep True ic.eng ic1.eng :=
  reply_cmd_cstep fuel ic state _ error ic1 (by decide) h
theorem rx_mono_refl (ic : dmsg_iocom) : rx_mono ic ic := ⟨rfl, fun h => h⟩

theorem rx_mono_trans {a b c : dmsg_iocom} (h1 : rx_mono a b) (h2 : rx_mono b c) :
    rx_mono a c :=
  ⟨h2.1.trans h1.1, fun h => h1.2 (h2.2 h)⟩

theorem mono_cstep (T : Prop) {a b : dmsg_iocom} (h : rx_mono a b) : cstep T a.eng b.eng :=
  cstep_same T _ _ h.1 h.2

theorem sock_read_mono (ic : dmsg_iocom) (nmax : Nat) : rx_mono ic (ioq_sock_read ic nmax).ic := by
  unfold ioq_sock_read
  simp only []
  split
  · simp [rx_mono]
  · simp [rx_mono]
  · simp [rx_mono]
  · simp [rx_mono]
  · split <;> simp [rx_mono]

theorem decrypt_mono (env : Env) (ic : dmsg_iocom) : rx_mono ic (ioq_decrypt env ic) := by
  unfold ioq_decrypt
  split <;> simp [rx_mono]

theorem check_mono (ic : dmsg_iocom) (b : Bool) : rx_mono ic (ic.check b) :=
  ⟨rfl, fun h => (check_sticky ic.eng b h).1⟩

theorem makeroom_rx_mono (ic : dmsg_iocom) (n : Nat) :
    rx_mono ic { ic with ioq_rx := (dmsg_ioq_makeroom ic.ioq_rx n).1 } :=
  ⟨rfl, fun h => h⟩

theorem auxdata2_copy_mono (env : Env) (ic : dmsg_iocom) (msg : dmsg_msg) (r : switch_result)
    (h : dmsg_ioq_read_AUXDATA2_copy env ic msg = some r) : rx_mono ic r.ic := by
  unfold dmsg_ioq_read_AUXDATA2_copy at h
  simp only [Option.bind_eq_some] at h
  obtain ⟨aux1, -, h⟩ := h
  split_ifs at h <;>
    (injection h with h; subst h
     first
       | exact rx_mono_refl _
       | exact ⟨rfl, fun h => h⟩
       | exact ⟨rfl, fun h => (check_sticky _ _ h).1⟩
       | exact ⟨rfl, fun h => (check_sticky _ _ (check_sticky _ _ h).1).1⟩)

theorem auxdata2_mono (env : Env) (ic : dmsg_iocom) (bytes : Nat) (r : switch_result)
    (h : dmsg_ioq_read_AUXDATA2 env ic bytes = some r) : rx_mono ic r.ic := by
  unfold dmsg_ioq_read_AUXDATA2 at h
  simp only [Option.bind_eq_some] at h
  obtain ⟨msg, hmsg, h⟩ := h
  have h0 := rx_mono_trans (check_mono ic ic.ioq_rx.msg.isSome)
    (makeroom_rx_mono (ic.check ic.ioq_rx.msg.isSome)
      ((ic.check ic.ioq_rx.msg.isSome).ioq_rx.abytes - msg.aux_size))
  generalize hrd : (if msg.aux_size < _ then ioq_sock_read _ _
      else ({ ic := _, nmax := _, brk := false } : sock_read_result)) = rd at h
  have key : rx_mono ic rd.ic := by
    rw [← hrd]
    split
    · exact rx_mono_trans h0 (rx_mono_trans (check_mono _ _)
        (rx_mono_trans (check_mono _ _) (sock_read_mono _ _)))
    · exact h0
  split_ifs at h
  · injection h with h
    subst h
    exact key
  · exact rx_mono_trans (rx_mono_trans key (decrypt_mono env _))
      (auxdata2_copy_mono env _ _ _ h)

theorem auxdata1_mono (env : Env) (ic : dmsg_iocom) (bytes : Nat) (r : switch_result)
    (h : dmsg_ioq_read_AUXDATA1 env ic bytes = some r) : rx_mono ic r.ic := by
  unfold dmsg_ioq_read_AUXDATA1 at h
  simp only [Option.bind_eq_some] at h
  obtain ⟨msg, hmsg, h⟩ := h
  split_ifs at h
  all_goals first
    | (simp only [Option.bind_eq_some] at h
       obtain ⟨aux1, -, h⟩ := h
       refine rx_mono_trans ?_ (auxdata2_mono env _ _ _ h)
       first
         | exact ⟨rfl, fun h => h⟩
         | exact ⟨rfl, fun h => (check_sticky _ _ h).1⟩
         | exact ⟨rfl, fun h => (check_sticky _ _ (check_sticky _ _ h).1).1⟩)
    | (refine rx_mono_trans ?_ (auxdata2_mono env _ _ _ h)
       first
         | exact ⟨rfl, fun h => h⟩
         | exact ⟨rfl, fun h => (check_sticky _ _ h).1⟩)

theorem header2_check_mono (env : Env) (ic : dmsg_iocom) (r : switch_result)
    (h : dmsg_ioq_read_HEADER2_check env ic = some r) : rx_mono ic r.ic := by
  unfold dmsg_ioq_read_HEADER2_check at h
  simp only [] at h
  split at h
  · injection h with h
    subst h
    first
      | exact ⟨rfl, fun h => h⟩
      | exact ⟨rfl, fun h => (check_sticky _ _ h).1⟩
  · simp only [Option.bind_eq_some] at h
    obtain ⟨msg, hmsg, h⟩ := h
    split at h
    · injection h with h
      subst h
      exact ⟨rfl, fun h => h⟩
    · refine rx_mono_trans ?_ (auxdata1_mono env _ _ _ h)
      exact ⟨rfl, fun h => h⟩

theorem header2_mono (env : Env) (ic : dmsg_iocom) (bytes nmax : Nat) (r : switch_result)
    (h : dmsg_ioq_read_HEADER2 env ic bytes nmax = some r) : rx_mono ic r.ic := by
  unfold dmsg_ioq_read_HEADER2 at h
  simp only [] at h
  generalize hrd : (if bytes < (ic.check ic.ioq_rx.msg.isSome).ioq_rx.hbytes then
        ioq_sock_read ((ic.check ic.ioq_rx.msg.isSome).check (decide (nmax > 0))) nmax
      else ({ ic := ic.check ic.ioq_rx.msg.isSome, nmax := nmax, brk := false } :
        sock_read_result)) = rd at h
  have key : rx_mono ic rd.ic := by
    rw [← hrd]
    split
    · exact rx_mono_trans (check_mono _ _) (rx_mono_trans (check_mono _ _) (sock_read_mono _ _))
    · exact check_mono _ _
  split_ifs at h
  · injection h with h
    subst h
    exact key
  · injection h with h
    subst h
    exact rx_mono_trans key (decrypt_mono env _)
  · exact rx_mono_trans key (rx_mono_trans (decrypt_mono env _) (header2_check_mono env _ _ h))

theorem header1_check_cstep (T : Prop) (env : Env) (ic : dmsg_iocom) (msgp : Bool)
    (r : switch_result) (h : dmsg_ioq_read_HEADER1_check env ic msgp = some r) :
    cstep T ic.eng r.ic.eng := by
  unfold dmsg_ioq_read_HEADER1_check at h
  simp only [] at h
  split at h
  · injection h with h
    subst h
    exact cstep_refl _ _
  · split at h
    · injection h with h
      subst h
      exact cstep_refl _ _
    · simp only [Option.bind_eq_some] at h
      obtain ⟨am, ham, h⟩ := h
      exact cstep_trans (alloc_cstep T _ _ _ _ _ _ am ham)
        (mono_cstep T (header2_mono env _ _ _ _ h))

theorem header1_cstep (T : Prop) (env : Env) (ic : dmsg_iocom) (bytes : Nat) (r : switch_result)
    (h : dmsg_ioq_read_HEADER1 env ic bytes = some r) : cstep T ic.eng r.ic.eng := by
  unfold dmsg_ioq_read_HEADER1 at h
  simp only [] at h
  generalize hrd : (if bytes < sizeof_head then ioq_sock_read _ _
      else ({ ic := _, nmax := _, brk := false } : sock_read_result)) = rd at h
  have key : rx_mono ic rd.ic := by
    rw [← hrd]
    split
    · exact rx_mono_trans (makeroom_rx_mono _ _) (sock_read_mono _ _)
    · exact makeroom_rx_mono _ _
  split_ifs at h
  · injection h with h
    subst h
    exact mono_cstep T key
  · injection h with h
    subst h
    exact mono_cstep T (rx_mono_trans key (rx_mono_trans (decrypt_mono env _) (check_mono _ _)))
  · exact cstep_trans (mono_cstep T (rx_mono_trans key (rx_mono_trans (decrypt_mono env _)
      (check_mono _ _)))) (header1_check_cstep T env _ _ _ h)

theorem rx_switch_cstep (T : Prop) (env : Env) (ic : dmsg_iocom) (r : switch_result)
    (h : dmsg_ioq_read_switch env ic = some r) : cstep T ic.eng r.ic.eng := by
  unfold dmsg_ioq_read_switch at h
  simp only [] at h
  split at h
  · exact header1_cstep T env _ _ _ h
  · exact mono_cstep T (header2_mono env _ _ _ _ h)
  · exact mono_cstep T (auxdata1_mono env _ _ _ h)
  · exact mono_cstep T (auxdata2_mono env _ _ _ h)
  · injection h with h
    subst h
    exact mono_cstep T (check_mono _ _)

theorem free_fold_cstep (T : Prop) (f : dmsg_engine → dmsg_msg → Option dmsg_engine)
    (hf : ∀ a m b, f a m = some b → cstep T a b) :
    ∀ (q : List dmsg_msg) (e e1 : dmsg_engine), q.foldlM f e = some e1 → cstep T e e1 := by
  intro q
  induction q with
  | nil =>
    intro e e1 h
    injection h with h
    subst h
    exact cstep_refl _ _
  | cons m q ih =>
    intro e e1 h
    rw [List.foldlM_cons] at h
    cases hfa : f e m with
    | none =>
      rw [hfa] at h
      exact absurd h (by simp)
    | some e2 =>
      rw [hfa] at h
      exact cstep_trans (hf e m e2 hfa) (ih e2 e1 h)

theorem drain_cstep (T : Prop) (ic ic1 : dmsg_iocom) (h : dmsg_iocom_drain ic = some ic1) :
    cstep T ic.eng ic1.eng := by
  unfold dmsg_iocom_drain at h
  simp only [Option.map_eq_some'] at h
  obtain ⟨e, he, h⟩ := h
  subst h
  exact free_fold_cstep T _ (fun a m b hb => msg_free_cstep T a m b hb) _ _ _ he

theorem skip_cstep (T : Prop) (fuel : Nat) (ic ic3 : dmsg_iocom) (msg : Option dmsg_msg)
    (h : dmsg_ioq_read_skip fuel ic msg = some ic3) : cstep T ic.eng ic3.eng := by
  unfold dmsg_ioq_read_skip at h
  simp only [Option.bind_eq_bind, Option.bind_eq_some, Option.pure_def] at h
  obtain ⟨ic1, h1, ic2, h2, e, he, h⟩ := h
  injection h with h
  subst h
  have k1 : cstep T ic.eng ic1.eng := by
    cases msg with
    | none =>
      simp only [] at h1
      injection h1 with h1
      subst h1
      exact mono_cstep T (check_mono _ _)
    | some m =>
      simp only [Option.map_eq_some'] at h1
      obtain ⟨e2, he2, h1⟩ := h1
      subst h1
      exact cstep_trans (mono_cstep T (check_mono _ _)) (msg_free_cstep T _ _ _ he2)
  have k2 := drain_cstep T { ic1 with ioq_rx := { ic1.ioq_rx with state := .ERROR } } ic2 h2
  exact cstep_trans k1 (cstep_trans k2 ((simulate_cstep T fuel).1 _ _ _ _ _ he))

/-- The function `dmsg_ioq_read` keeps the two invariants of the commands. -/
theorem read_cstep (T : Prop) : ∀ (fuel : Nat) (env : Env) (ic : dmsg_iocom)
    (r : dmsg_iocom × Option dmsg_msg), dmsg_ioq_read fuel env ic = some r →
    cstep T ic.eng r.1.eng
  | 0, _, _, _, h => by simp [dmsg_ioq_read] at h
  | fuel + 1, env, ic, r, h => by
    rw [dmsg_ioq_read] at h
    cases hq : ic.ioq_rx.msgq with
    | cons m rest =>
      simp only [hq] at h
      split_ifs at h
      · injection h with h
        subst h
        exact cstep_refl _ _
      · injection h with h
        subst h
        exact cstep_refl _ _
    | nil =>
      simp only [hq] at h
      have hskip : ∀ (ic2 : dmsg_iocom) (msg : Option dmsg_msg),
          ((dmsg_ioq_read_skip fuel ic2 msg).bind fun ic3 =>
            if ic3.ioq_rx.msgq ≠ [] then dmsg_ioq_read fuel env ic3 else some (ic3, none)) =
            some r → cstep T ic2.eng r.1.eng := by
        intro ic2 msg hh
        simp only [Option.bind_eq_some] at hh
        obtain ⟨ic3, hs, hh⟩ := hh
        have k1 := skip_cstep T fuel ic2 ic3 msg hs
        split_ifs at hh
        · exact cstep_trans k1 (read_cstep T fuel env ic3 r hh)
        · injection hh with hh
          subst hh
          exact k1
      by_cases he : ic.ioq_rx.error = 0
      · simp only [he, ne_eq, not_true_eq_false, if_false, Option.bind_eq_some] at h
        obtain ⟨sw, hsw, h⟩ := h
        have g0 := rx_switch_cstep T env _ sw hsw
        have g1 : cstep T ic.eng sw.ic.eng := g0
        have g2 := (seq_credits sw.ic sw.msgp).1
        have g3 : cstep T ic.eng (dmsg_ioq_read_seq sw.ic sw.msgp).eng := by
          rw [g2]
          exact g1
        generalize dmsg_ioq_read_seq sw.ic sw.msgp = ic3 at h g3
        by_cases he2 : ic3.ioq_rx.error = 0
        · simp only [he2, not_true_eq_false, if_false] at h
          split at h
          · injection h with h
            subst h
            exact g3
          · rename_i m hm
            simp only [Option.bind_eq_some] at h
            obtain ⟨rr, hrr, h⟩ := h
            have hd := (done_credits ic3).1
            have g4 : cstep T ic.eng (dmsg_ioq_read_done ic3).eng := by
              rw [hd]
              exact g3
            have g5 := cstep_trans g4 (msgrx_cstep T _ _ _ rr hrr)
            by_cases e1 : rr.error = 0
            · simp only [e1, not_true_eq_false, if_false] at h
              injection h with h
              subst h
              exact g5
            · simp only [e1, not_false_eq_true, if_true] at h
              by_cases e2 : rr.error = DMSG_IOQ_ERROR_EALREADY
              · simp only [e2, if_true, Option.bind_eq_some] at h
                obtain ⟨e1', hfree, h⟩ := h
                exact cstep_trans g5 (cstep_trans (msg_free_cstep T _ _ _ hfree)
                  (read_cstep T fuel env _ r h))
              · simp only [e2, if_false] at h
                exact cstep_trans g5 (hskip _ (some rr.msg) h)
        · simp only [he2, not_false_eq_true, if_true] at h
          exact cstep_trans g3 (hskip _ _ h)
      · simp only [ne_eq, he, not_false_eq_true, if_true] at h
        have g0 := hskip _ none h
        exact g0

theorem ioq_done_cstep (T : Prop) (e : dmsg_engine) (ioq : dmsg_ioq) (r : dmsg_engine × dmsg_ioq)
    (h : dmsg_ioq_done e ioq = some r) : cstep T e r.1 := by
  unfold dmsg_ioq_done at h
  simp only [Option.bind_eq_bind, Option.bind_eq_some, Option.pure_def] at h
  obtain ⟨e1, he1, h⟩ := h
  have h1 : cstep T e e1 :=
    free_fold_cstep T _ (fun a m b hb =>
      cstep_trans (cstep_check T a false) (msg_free_cstep T _ m b hb)) _ _ _ he1
  cases hm : ioq.msg with
  | none =>
    rw [hm] at h
    simp only [] at h
    injection h with h
    subst h
    exact h1
  | some m =>
    rw [hm] at h
    simp only [Option.map_eq_some'] at h
    obtain ⟨e2, he2, rfl⟩ := h
    exact cstep_trans h1 (msg_free_cstep T _ _ _ he2)

/-- Every call on a connection keeps the two invariants of the commands; a
`dmsg_msg_write` needs the direction of its message to fit the state. -/
theorem apply_cstep (fuel : Nat) (env : Env) (c c1 : conn) (op : conn_op)
    (h : conn_apply fuel env c op = some c1) :
    cstep (op_dir_ok c op = true) c.ic.eng c1.ic.eng := by
  cases op with
  | alloc state aux_size cmd func data =>
    simp only [conn_apply, Option.map_eq_some'] at h
    obtain ⟨r, hr, rfl⟩ := h
    exact alloc_cstep _ _ _ _ _ _ _ r hr
  | write i =>
    simp only [conn_apply, Option.bind_eq_some, Option.map_eq_some'] at h
    obtain ⟨m, hm, ic1, hw, rfl⟩ := h
    have k := write_cstep fuel _ _ ic1 hw
    refine ⟨k.1, fun hf => ⟨(k.2 hf).1, fun hT hd => (k.2 hf).2 ?_ hd⟩⟩
    simp only [op_dir_ok, hm] at hT
    exact hT
  | free i =>
    simp only [conn_apply, Option.bind_eq_some, Option.map_eq_some'] at h
    obtain ⟨m, hm, e, hw, rfl⟩ := h
    exact msg_free_cstep _ _ _ _ hw
  | cleanuprx i =>
    simp only [conn_apply, Option.bind_eq_some, Option.map_eq_some'] at h
    obtain ⟨m, hm, e, hw, rfl⟩ := h
    exact cleanuprx_cstep _ _ _ _ hw
  | reply state error =>
    simp only [conn_apply, Option.map_eq_some'] at h
    obtain ⟨ic1, hw, rfl⟩ := h
    exact cstep_weaken (reply_cstep fuel _ _ _ ic1 hw)
  | result state error =>
    simp only [conn_apply, Option.map_eq_some'] at h
    obtain ⟨ic1, hw, rfl⟩ := h
    exact cstep_weaken (result_cstep fuel _ _ _ ic1 hw)
  | read =>
    simp only [conn_apply, Option.map_eq_some'] at h
    obtain ⟨r, hr, rfl⟩ := h
    exact read_cstep _ fuel env c.ic r hr
  | fill i m =>
    simp only [conn_apply, Option.map_eq_some'] at h
    obtain ⟨m0, hm0, rfl⟩ := h
    exact cstep_refl _ _
  | flush1 =>
    simp only [conn_apply, Option.some.injEq] at h
    subst h
    obtain ⟨h1, -⟩ := flush1_credits env c.ic
    show cstep _ c.ic.eng (dmsg_iocom_flush1_queue env c.ic).eng
    rw [h1]
    exact cstep_refl _ _
  | sent =>
    simp only [conn_apply, Option.map_eq_some'] at h
    obtain ⟨ic1, hw, rfl⟩ := h
    unfold dmsg_iocom_flush2_retire at hw
    cases hq : c.ic.ioq_tx.msgq with
    | nil =>
      rw [hq] at hw
      cases hw
    | cons m rest =>
      rw [hq] at hw
      simp only [Option.map_eq_some'] at hw
      obtain ⟨e, hw, rfl⟩ := hw
      exact msg_free_cstep _ _ _ _ hw
  | drain =>
    simp only [conn_apply, Option.map_eq_some'] at h
    obtain ⟨ic1, hw, rfl⟩ := h
    exact drain_cstep _ _ _ hw
  | done =>
    simp only [conn_apply, Option.map_eq_some'] at h
    obtain ⟨ic1, hw, rfl⟩ := h
    unfold dmsg_iocom_done at hw
    simp only [Option.bind_eq_bind, Option.bind_eq_some, Option.pure_def] at hw
    obtain ⟨r, hr, t, ht, hw⟩ := hw
    injection hw with hw
    subst hw
    exact cstep_trans (ioq_done_cstep _ _ _ r hr) (ioq_done_cstep _ _ _ t ht)
  | hold state =>
    simp only [conn_apply, Option.map_eq_some'] at h
    obtain ⟨e, hw, rfl⟩ := h
    exact hold_cstep _ _ _ _ hw
  | drop i =>
    simp only [conn_apply, Option.bind_eq_some, Option.map_eq_some'] at h
    obtain ⟨a, hm, e, hw, rfl⟩ := h
    exact drop_cstep _ _ _ _ hw

/-- A sequence of calls keeps the two invariants of the commands. -/
theorem run_cstep (fuel : Nat) (env : Env) : ∀ (ops : List conn_op) (c c1 : conn),
    conn_run fuel env ops c = some c1 →
    cstep (run_dir_ok fuel env ops c = true) c.ic.eng c1.ic.eng := by
  intro ops
  induction ops with
  | nil =>
    intro c c1 h
    simp only [conn_run, Option.some.injEq] at h
    subst h
    exact cstep_refl _ _
  | cons op ops ih =>
    intro c c1 h
    simp only [conn_run, Option.bind_eq_some] at h
    obtain ⟨c2, h2, h⟩ := h
    have k1 := apply_cstep fuel env c c2 op h2
    have k2 := ih c2 c1 h
    refine ⟨fun hc => k2.1 (k1.1 hc), ?_⟩
    intro hf
    obtain ⟨hf2, g2⟩ := k2.2 hf
    obtain ⟨hf1, g1⟩ := k1.2 hf2
    refine ⟨hf1, fun hT hd => ?_⟩
    simp only [run_dir_ok, h2, Bool.and_eq_true] at hT
    exact g2 hT.2 (g1 hT.1 hd)

theorem init_cmd (env : Env) (signal_func : Bool) (sock : List sock_event) (rand : List Nat) :
    cmd_inv (dmsg_iocom_init env signal_func sock rand).eng ∧
    dir_inv (dmsg_iocom_init env signal_func sock rand).eng ∧
    (dmsg_iocom_init env signal_func sock rand).eng.assert_failed = false := by
  have hh : ∀ a s, (dmsg_iocom_init env signal_func sock rand).eng.heap a = some s →
      a = 0 ∧ s = { dmsg_state.zero with refs := 1, parent := some 0, flags := { ROOT := true } } := by
    intro a s hs
    simp only [dmsg_iocom_init, Function.update_apply] at hs
    split_ifs at hs with h0
    · injection hs with hs
      exact ⟨h0, hs.symm⟩
  refine ⟨?_, ?_, rfl⟩
  · intro a s hs
    obtain ⟨-, rfl⟩ := hh a s hs
    exact ⟨rfl, fun hd => (by cases hd), fun hd => (by cases hd)⟩
  · intro a s hs
    obtain ⟨-, rfl⟩ := hh a s hs
    intro hd
    cases hd
/-- C36, refuted as stated.  On a fresh connection this side opens a
transaction with `dmsg_msg_alloc` and `dmsg_msg_write` of `CREATE|0x101` on
`state0` (the state is at address 1 and in `statewr_tree`) and then writes a
message with `CREATE|REPLY|0x101` on that transaction.  `dmsg_msg_write`
stores the command of a message with `CREATE` in `txcmd`, so afterwards the
state is reachable, dynamic and not `OPPOSITE`, its `txcmd` has `REPLY` (as
has its `rxcmd`), and it is in `statewr_tree` while `dmsg_state_cleanuptx`
would remove it from `staterd_tree`.  Nothing was received, no assertion has
failed and both messages are on `txmsgq`. -/
theorem write_reply_breaks_direction :
    (conn_run 5 ex_env ex_ops_misdirected (conn_init ex_env false [] [])).map
      (fun c => (dir_view_of c.ic.eng 1, c.ic.eng.assert_failed,
        c.ic.txmsgq.map fun m => m.head.cmd)) =
      some (some { dynamic := true, opposite := false, tx_reply := true, rx_reply := true,
                   in_rd := false, in_wr := true }, false,
        [DMSGF_CREATE ||| 0x101, DMSGF_CREATE ||| DMSGF_REPLY ||| 0x101]) := by
  decide!

/-- C36, amended.  In every connection reached from `dmsg_iocom_init` by
calls of the public operations in which every `dmsg_msg_write` of a message
with `CREATE` on a dynamic state carries `REPLY` exactly when the state is
`OPPOSITE` (`run_dir_ok`), and in which no assertion has failed: every dynamic
state has `OPPOSITE` iff its `txcmd` has `REPLY` iff its `rxcmd` lacks
`REPLY`; a state that `staterd_tree` holds is filed under its `msgid`, is
dynamic and `OPPOSITE` (created by an incoming `CREATE`), and both
`dmsg_state_msgrx` (`rxcmd` without `REPLY`) and `dmsg_state_cleanuptx`
(`txcmd` with `REPLY`) remove it from `staterd_tree`; a state that
`statewr_tree` holds is filed under its `msgid`, is dynamic and not `OPPOSITE`
(created by `dmsg_msg_alloc`), and both functions (`rxcmd` with `REPLY`,
`txcmd` without) remove it from `statewr_tree`. -/
theorem tree_direction (fuel : Nat) (env : Env) (signal_func : Bool) (sock : List sock_event)
    (rand : List Nat) (ops : List conn_op) (c : conn)
    (hrun : conn_run fuel env ops (conn_init env signal_func sock rand) = some c)
    (hdir : run_dir_ok fuel env ops (conn_init env signal_func sock rand) = true)
    (hok : c.ic.eng.assert_failed = false) :
    (∀ a s, c.ic.eng.heap a = some s → s.flags.DYNAMIC = true →
      (s.flags.OPPOSITE = true ↔ s.txcmd &&& DMSGF_REPLY ≠ 0) ∧
      (s.flags.OPPOSITE = true ↔ s.rxcmd &&& DMSGF_REPLY = 0)) ∧
    (∀ m a, c.ic.eng.staterd_tree m = some a → ∃ s, c.ic.eng.heap a = some s ∧
      s.msgid = m ∧ s.flags.DYNAMIC = true ∧ s.flags.OPPOSITE = true ∧
      s.rxcmd &&& DMSGF_REPLY = 0 ∧ s.txcmd &&& DMSGF_REPLY ≠ 0) ∧
    (∀ m a, c.ic.eng.statewr_tree m = some a → ∃ s, c.ic.eng.heap a = some s ∧
      s.msgid = m ∧ s.flags.DYNAMIC = true ∧ s.flags.OPPOSITE = false ∧
      s.rxcmd &&& DMSGF_REPLY ≠ 0 ∧ s.txcmd &&& DMSGF_REPLY = 0) := by
  have hI := (run_inv fuel env ops _ c (init_inv env signal_func sock rand) hrun).1
  have hk := run_cstep fuel env ops _ c hrun
  obtain ⟨hc0, hd0, -⟩ := init_cmd env signal_func sock rand
  have hC : cmd_inv c.ic.eng := hk.1 hc0
  have hD : dir_inv c.ic.eng := (hk.2 hok).2 hdir hd0
  refine ⟨fun a s hs hdyn => hD a s hs hdyn, ?_, ?_⟩
  · intro m a hm
    obtain ⟨s, hs, hrb, hid, hopp⟩ := hI.rd m a hm
    have hdyn := (hC a s hs).2.2 hrb
    have h := hD a s hs hdyn
    exact ⟨s, hs, hid, hdyn, hopp, h.2.1 hopp, h.1.1 hopp⟩
  · intro m a hm
    obtain ⟨s, hs, hrb, hid, hopp⟩ := hI.wr m a hm
    have hdyn := (hC a s hs).2.2 hrb
    have h := hD a s hs hdyn
    refine ⟨s, hs, hid, hdyn, hopp, ?_, ?_⟩
    · intro h0
      have := h.2.2 h0
      rw [hopp] at this
      cases this
    · by_contra h0
      have := h.1.2 h0
      rw [hopp] at this
      cases this

/-- The statement `tree_direction` on a run with traffic in both directions:
this side opens a transaction and the peer opens one; the state at address 1
is in `statewr_tree` and the state at address 2 in `staterd_tree`. -/
theorem tree_direction_witness :
    ∃ c, conn_run 5 ex_env ex_ops_directed ex_conn_fresh = some c ∧
      run_dir_ok 5 ex_env ex_ops_directed ex_conn_fresh = true ∧
      c.ic.eng.assert_failed = false ∧
      dir_view_of c.ic.eng 1 =
        some { dynamic := true, opposite := false, tx_reply := false, rx_reply := true,
               in_rd := false, in_wr := true } ∧
      dir_view_of c.ic.eng 2 =
        some { dynamic := true, opposite := true, tx_reply := true, rx_reply := false,
               in_rd := true, in_wr := false } ∧
      (∀ a s, c.ic.eng.heap a = some s → s.flags.DYNAMIC = true →
        (s.flags.OPPOSITE = true ↔ s.txcmd &&& DMSGF_REPLY ≠ 0) ∧
        (s.flags.OPPOSITE = true ↔ s.rxcmd &&& DMSGF_REPLY = 0)) ∧
      (∀ m a, c.ic.eng.staterd_tree m = some a → ∃ s, c.ic.eng.heap a = some s ∧
        s.msgid = m ∧ s.flags.DYNAMIC = true ∧ s.flags.OPPOSITE = true ∧
        s.rxcmd &&& DMSGF_REPLY = 0 ∧ s.txcmd &&& DMSGF_REPLY ≠ 0) ∧
      (∀ m a, c.ic.eng.statewr_tree m = some a → ∃ s, c.ic.eng.heap a = some s ∧
        s.msgid = m ∧ s.flags.DYNAMIC = true ∧ s.flags.OPPOSITE = false ∧
        s.rxcmd &&& DMSGF_REPLY ≠ 0 ∧ s.txcmd &&& DMSGF_REPLY = 0) := by
  cases h : conn_run 5 ex_env ex_ops_directed ex_conn_fresh with
  | none =>
    have h2 : (conn_run 5 ex_env ex_ops_directed ex_conn_fresh).isSome = true := by decide!
    rw [h] at h2
    cases h2
  | some c =>
    have h3 : (conn_run 5 ex_env ex_ops_directed ex_conn_fresh).map
        (fun c => (c.ic.eng.assert_failed, dir_view_of c.ic.eng 1, dir_view_of c.ic.eng 2)) =
        some (false,
          some { dynamic := true, opposite := false, tx_reply := false, rx_reply := true,
                 in_rd := false, in_wr := true },
          some { dynamic := true, opposite := true, tx_reply := true, rx_reply := false,
                 in_rd := true, in_wr := false }) := by decide!
    rw [h] at h3
    simp only [Option.map_some', Option.some.injEq, Prod.mk.injEq] at h3
    have hd : run_dir_ok 5 ex_env ex_ops_directed ex_conn_fresh = true := by decide!
    exact ⟨c, rfl, hd, h3.1, h3.2.1, h3.2.2,
      tree_direction 5 ex_env false _ [] ex_ops_directed c h hd h3.1⟩
/-- The end of `dmsg_state_msgrx` on a `DELETE` for a state whose transmit
side is open: `rxcmd` gains `DELETE` and nothing else changes. -/
theorem adjust_open (E : dmsg_engine) (msg : dmsg_msg) (x : Nat) (s1 : dmsg_state) (err : Nat)
    (hx : E.heap x = some s1) (hms : msg.state = some x)
    (hd : msg.head.cmd &&& DMSGF_DELETE ≠ 0) (hroot : s1.flags.ROOT = false)
    (hopen : s1.rxcmd &&& DMSGF_DELETE = 0) (htx : s1.txcmd &&& DMSGF_DELETE = 0) :
    ∃ r, dmsg_state_msgrx_adjust { eng := E, msg := msg, state := x, error := err } = some r ∧
      r.eng.heap x = some { s1 with rxcmd := s1.rxcmd ||| DMSGF_DELETE } ∧
      r.eng.assert_failed = E.assert_failed := by
  unfold dmsg_state_msgrx_adjust
  simp only [hms, hx, Option.bind_eq_bind, Option.some_bind, Option.pure_def, decide_True,
    check_true, hroot, Bool.false_eq_true, if_false, hd, ne_eq, not_false_eq_true, if_true, hopen,
    htx, not_true_eq_false]
  exact ⟨_, rfl, put_heap_same _ _ _, rfl⟩

/-- The call `dmsg_state_msgrx(msg, 1)` on the message that `dmsg_state_abort`
synthesizes, for a state under a parent whose receive side has begun and is
open, and which, when its transmit side is closed, is in the tree that its
`rxcmd` selects: the call returns 0 and `rxcmd` has `DELETE`. -/
theorem abort_msgrx_zero (E : dmsg_engine) (msg : dmsg_msg) (x q c : Nat) (sx : dmsg_state)
    (hx : E.heap x = some sx) (hms : msg.state = some x) (hpar : sx.parent = some q)
    (hne : x ≠ q) (hcmd : msg.head.cmd = dmsg_state_abort_cmd c sx.rxcmd)
    (hc : c = DMSG_LNK_ERROR ∨ c = DMSG_LNK_ERROR ||| DMSGF_REVTRANS ∨
      c = DMSG_LNK_ERROR ||| DMSGF_REVCIRC ∨
      c = DMSG_LNK_ERROR ||| DMSGF_REVTRANS ||| DMSGF_REVCIRC)
    (hroot : sx.flags.ROOT = false) (hopen : sx.rxcmd &&& DMSGF_DELETE = 0)
    (hbegun : sx.rxcmd &&& DMSGF_CREATE ≠ 0 ∨ sx.rxcmd &&& DMSGF_REPLY ≠ 0)
    (hwf : sx.txcmd &&& DMSGF_DELETE ≠ 0 → sx.flags.RBINSERTED = true ∧ 2 ≤ sx.refs ∧
      (if sx.rxcmd &&& DMSGF_REPLY ≠ 0 then E.statewr_tree sx.msgid
       else E.staterd_tree sx.msgid) = some x) :
    ∃ r s4, dmsg_state_msgrx E msg true = some r ∧ r.error = 0 ∧
      r.eng.heap x = some s4 ∧ s4.rxcmd &&& DMSGF_DELETE ≠ 0 ∧
      r.eng.assert_failed = E.assert_failed := by
  obtain ⟨rx1, hsw, hd1, hr1⟩ := switch_abort E msg x q c sx hx hne hcmd hc hopen hbegun
  obtain ⟨b1, -, -, b4⟩ := abort_cmd_bits c sx.rxcmd hc
  rw [← hcmd] at b1 b4
  obtain ⟨o1, -⟩ := or_delete_bits rx1 hd1
  have hrun : ∀ r, dmsg_state_msgrx_adjust
      { eng := E.put x { sx with rxcmd := rx1 }, msg := msg, state := x, error := 0 } = some r →
      dmsg_state_msgrx E msg true = some r := by
    intro r h1
    unfold dmsg_state_msgrx
    simp only [hms, hx, Option.bind_eq_bind, Option.some_bind, dmsg_state_msgrx_circuit, if_true,
      hpar, dmsg_state_msgrx_find, dmsg_state_msgrx_assign, hsw]
    rw [hpar] at h1
    exact h1
  by_cases htx : sx.txcmd &&& DMSGF_DELETE = 0
  · obtain ⟨r, h1, h2, h3⟩ := adjust_open (E.put x { sx with rxcmd := rx1 }) msg x
      { sx with rxcmd := rx1 } 0 (put_heap_same _ _ _) hms b1 hroot hd1 htx
    exact ⟨r, _, hrun r h1, adjust_error _ r h1, h2, o1, h3⟩
  · obtain ⟨hrb, hrefs, htree⟩ := hwf htx
    obtain ⟨r, h1, h2, h3, h4, h5, h6⟩ := adjust_abort (E.put x { sx with rxcmd := rx1 }) msg x
      { sx with rxcmd := rx1 } 0 (put_heap_same _ _ _) hms b1 (b4.trans hr1.symm) hroot hd1 hrb
      hrefs (by
        show (if rx1 &&& DMSGF_REPLY ≠ 0 then E.statewr_tree sx.msgid
          else E.staterd_tree sx.msgid) = some x
        rw [hr1]
        exact htree)
    have htx2 : ({ sx with rxcmd := rx1 } : dmsg_state).txcmd &&& DMSGF_DELETE ≠ 0 := htx
    rw [if_pos htx2] at h6
    exact ⟨r, _, hrun r h1, adjust_error _ r h1, h6, o1, h5.assert⟩

/-- The command that `dmsg_state_abort` synthesizes for a state whose receive
side has begun never has `CREATE` without `REPLY`. -/
theorem abort_cmd_begun (c rx : Nat)
    (hc : c = DMSG_LNK_ERROR ∨ c = DMSG_LNK_ERROR ||| DMSGF_REVTRANS ∨
      c = DMSG_LNK_ERROR ||| DMSGF_REVCIRC ∨
      c = DMSG_LNK_ERROR ||| DMSGF_REVTRANS ||| DMSGF_REVCIRC)
    (hb : rx_begun rx) :
    dmsg_state_abort_cmd c rx &&& (DMSGF_CREATE ||| DMSGF_REPLY) ≠ DMSGF_CREATE := by
  obtain ⟨-, b2, b3, -⟩ := abort_cmd_bits c rx hc
  rw [sw_cr]
  by_cases hC : rx &&& DMSGF_CREATE = 0
  · have hR : rx &&& DMSGF_REPLY ≠ 0 := by
      intro hR
      apply hb
      rw [Nat.and_or_distrib_left, hC, hR]
      rfl
    rw [b3 hC hR]
    decide
  · rcases b2 hC with h | h <;> rw [h] <;> decide

/-- C35. In every connection reached from `dmsg_iocom_init` by calls of the
public operations (`dmsg_msg_alloc`, `dmsg_msg_write`, `dmsg_ioq_read` with
`dmsg_state_msgrx`, and the others), the `rxcmd` of every dynamic state has
`CREATE` or `REPLY`.  Consequently, for a dynamic state `x` whose `rxcmd`
lacks `DELETE`, which is linked under an allocated parent and which, when its
`txcmd` has `DELETE`, is filed in the tree that its `rxcmd` selects (the
traffic is well formed): `dmsg_state_abort` sets its flags and allocates its
message (both return), the command it synthesizes does not have `CREATE`
without `REPLY`, and `dmsg_state_msgrx(msg, 1)` on the synthesized message
returns 0 (so neither `TRANS` nor `EALREADY`), leaves `DELETE` set in the
`rxcmd` of `x` and fails no assertion. -/
theorem abort_synthetic_accepted (fuel0 : Nat) (env : Env) (signal_func : Bool)
    (sock : List sock_event) (rand : List Nat) (ops : List conn_op) (c : conn) (x q : Nat)
    (sx sq : dmsg_state)
    (hrun : conn_run fuel0 env ops (conn_init env signal_func sock rand) = some c)
    (hx : c.ic.eng.heap x = some sx) (hdyn : sx.flags.DYNAMIC = true)
    (hopen : sx.rxcmd &&& DMSGF_DELETE = 0)
    (hpar : sx.parent = some q) (hq : c.ic.eng.heap q = some sq)
    (hwf : sx.txcmd &&& DMSGF_DELETE ≠ 0 → sx.flags.RBINSERTED = true ∧
      (if sx.rxcmd &&& DMSGF_REPLY ≠ 0 then c.ic.eng.statewr_tree sx.msgid
       else c.ic.eng.staterd_tree sx.msgid) = some x) :
    (∀ a s, c.ic.eng.heap a = some s → s.flags.DYNAMIC = true →
      s.rxcmd &&& (DMSGF_CREATE ||| DMSGF_REPLY) ≠ 0) ∧
    ∃ fuel e2 am s3, dmsg_state_abort_flags fuel c.ic.eng x = some e2 ∧
      dmsg_msg_alloc_locked e2 x 0 DMSG_LNK_ERROR 0 false = some am ∧
      am.1.heap x = some s3 ∧ s3.rxcmd = sx.rxcmd ∧
      dmsg_state_abort_cmd am.2.head.cmd s3.rxcmd &&& (DMSGF_CREATE ||| DMSGF_REPLY) ≠
        DMSGF_CREATE ∧
      ∃ r s4, dmsg_state_msgrx am.1
          { am.2 with head := { am.2.head with
              cmd := dmsg_state_abort_cmd am.2.head.cmd s3.rxcmd
              error := DMSG_ERR_LOSTLINK } } true = some r ∧
        r.error = 0 ∧ r.eng.heap x = some s4 ∧ s4.rxcmd &&& DMSGF_DELETE ≠ 0 ∧
        r.eng.assert_failed = e2.assert_failed := by
  have hI := (run_inv fuel0 env ops _ c (init_inv env signal_func sock rand) hrun).1
  have hT := (run_tree fuel0 env ops _ c (init_inv env signal_func sock rand)
    (init_tree env signal_func sock rand) hrun).1
  have hC : cmd_inv c.ic.eng :=
    (run_cstep fuel0 env ops _ c hrun).1 (init_cmd env signal_func sock rand).1
  refine ⟨fun a s hs hd => ((hC a s hs).2.1 hd).2, ?_⟩
  obtain ⟨hroot, hbeg⟩ := (hC x sx hx).2.1 hdyn
  have hbegun : sx.rxcmd &&& DMSGF_CREATE ≠ 0 ∨ sx.rxcmd &&& DMSGF_REPLY ≠ 0 := by
    by_contra hcon
    push_neg at hcon
    apply hbeg
    rw [Nat.and_or_distrib_left, hcon.1, hcon.2]
    rfl
  have hne : x ≠ q := by
    intro hxq
    subst hxq
    have h0 := hT.self x sx hx hpar
    subst h0
    obtain ⟨s0, hs0, hr0⟩ := hI.root
    rw [hx] at hs0
    injection hs0 with hs0
    subst hs0
    rw [hroot] at hr0
    cases hr0
  have hqx : q ≠ x := fun h => hne h.symm
  obtain ⟨hfr, hk, -⟩ := put_ab_parts c.ic.eng x sx hT hx
  obtain ⟨fuel, e2, h2⟩ := dying_total _ _ _ x _ rfl (le_refl _) hfr hk (put_heap_same _ _ _)
  have hdo := dying_changes _ _ _ _ h2
  have hfl : dmsg_state_abort_flags fuel c.ic.eng x = some e2 := by
    unfold dmsg_state_abort_flags
    simp only [hx, Option.bind_eq_bind, Option.some_bind]
    exact h2
  obtain ⟨d, hx2⟩ := hdo.heap x _ (put_heap_same _ _ _)
  obtain ⟨d1, hq2⟩ := hdo.heap q sq (by rw [put_heap_other _ _ _ _ hqx]; exact hq)
  obtain ⟨c0, hc0, halloc⟩ := alloc_plain e2 x q _ _ hx2 hpar hq2 hqx
  refine ⟨fuel, e2, _, _, hfl, halloc, put_heap_same _ _ _, rfl,
    abort_cmd_begun c0 sx.rxcmd hc0 hbeg, ?_⟩
  have hm := abort_msgrx_zero
    (e2.put x { set_dying { sx with flags := { sx.flags with ABORTING := true } }
      (sx.flags.DYING || d) with refs := sx.refs + 1 })
    { state := some x
      head := { dmsg_hdr.zero with
                magic := DMSG_HDR_MAGIC, cmd := dmsg_state_abort_cmd c0 sx.rxcmd
                msgid := sx.msgid, circuit := (set_dying sq (sq.flags.DYING || d1)).msgid
                error := DMSG_ERR_LOSTLINK }
      ext := [], hdr_size := 64, aux_data := none, aux_size := 0, tcmd := 0 }
    x q c0 _ (put_heap_same _ _ _) rfl hpar hne rfl hc0 hroot hopen hbegun (by
      intro htx
      obtain ⟨hrb, htree⟩ := hwf htx
      refine ⟨hrb, ?_, ?_⟩
      · have hr := hI.refs x sx hx
        have h1 : 1 ≤ state_reasons sx := by
          unfold state_reasons
          rw [hrb]
          simp only [Bool.toNat_true]
          omega
        show (2 : Int) ≤ sx.refs + 1
        omega
      · show (if sx.rxcmd &&& DMSGF_REPLY ≠ 0 then e2.statewr_tree sx.msgid
          else e2.staterd_tree sx.msgid) = some x
        rw [hdo.wr, hdo.rd]
        exact htree)
  obtain ⟨r, s4, k1, k2, k3, k4, k5⟩ := hm
  exact ⟨r, s4, k1, k2, k3, k4, k5⟩

/-- The statement `abort_synthetic_accepted` on the transaction that this side
opened and closed with one message: the state at address 1 waits for the reply
(`rxcmd` is `REPLY`), its `txcmd` has `DELETE` and it is in `statewr_tree`. -/
theorem abort_synthetic_accepted_witness :
    ∃ c sx sq, conn_run 5 ex_env ex_ops_oneway (conn_init ex_env false [] []) = some c ∧
      c.ic.eng.heap 1 = some sx ∧ c.ic.eng.heap 0 = some sq ∧
      open_view_of c.ic.eng 1 =
        some { dynamic := true, rbinserted := true, parent := some 0, rx_delete := false,
               tx_delete := true, wr_entry := some 1, rxcmd := DMSGF_REPLY } ∧
      (∀ a s, c.ic.eng.heap a = some s → s.flags.DYNAMIC = true →
        s.rxcmd &&& (DMSGF_CREATE ||| DMSGF_REPLY) ≠ 0) ∧
      ∃ fuel e2 am s3, dmsg_state_abort_flags fuel c.ic.eng 1 = some e2 ∧
        dmsg_msg_alloc_locked e2 1 0 DMSG_LNK_ERROR 0 false = some am ∧
        am.1.heap 1 = some s3 ∧ s3.rxcmd = sx.rxcmd ∧
        dmsg_state_abort_cmd am.2.head.cmd s3.rxcmd &&& (DMSGF_CREATE ||| DMSGF_REPLY) ≠
          DMSGF_CREATE ∧
        ∃ r s4, dmsg_state_msgrx am.1
            { am.2 with head := { am.2.head with
                cmd := dmsg_state_abort_cmd am.2.head.cmd s3.rxcmd
                error := DMSG_ERR_LOSTLINK } } true = some r ∧
          r.error = 0 ∧ r.eng.heap 1 = some s4 ∧ s4.rxcmd &&& DMSGF_DELETE ≠ 0 ∧
          r.eng.assert_failed = e2.assert_failed := by
  cases h : conn_run 5 ex_env ex_ops_oneway (conn_init ex_env false [] []) with
  | none =>
    have h2 : (conn_run 5 ex_env ex_ops_oneway (conn_init ex_env false [] [])).isSome = true := by
      decide!
    rw [h] at h2
    cases h2
  | some c =>
    have h3 : (conn_run 5 ex_env ex_ops_oneway (conn_init ex_env false [] [])).map
        (fun c => (open_view_of c.ic.eng 1, (c.ic.eng.heap 0).isSome)) =
        some (some { dynamic := true, rbinserted := true, parent := some 0, rx_delete := false,
                     tx_delete := true, wr_entry := some 1, rxcmd := DMSGF_REPLY }, true) := by
      decide!
    rw [h] at h3
    simp only [Option.map_some', Option.some.injEq, Prod.mk.injEq] at h3
    obtain ⟨hv, h0⟩ := h3
    cases hs : c.ic.eng.heap 1 with
    | none =>
      rw [open_view_of, hs] at hv
      cases hv
    | some sx =>
      cases hq : c.ic.eng.heap 0 with
      | none =>
        rw [hq] at h0
        cases h0
      | some sq =>
        have hv2 := hv
        rw [open_view_of, hs] at hv2
        simp only [Option.map_some', Option.some.injEq, open_view.mk.injEq,
          decide_eq_true_eq, decide_eq_false_iff_not, not_not] at hv2
        obtain ⟨v1, v2, v3, v4, v5, v6, v7⟩ := hv2
        have hR : DMSGF_REPLY &&& DMSGF_REPLY ≠ 0 := by decide
        exact ⟨c, sx, sq, rfl, hs, hq, hv,
          abort_synthetic_accepted 5 ex_env false [] [] ex_ops_oneway c 1 0 sx sq h hs v1 v4 v3 hq
            (fun _ => ⟨v2, by rw [v7, if_pos hR]; exact v6⟩)⟩
theorem buf_write_ge (buf bs : List Nat) (off : Nat) :
    buf.length ≤ (buf_write buf off bs).length := by
  simp only [buf_write, List.length_append, List.length_take, List.length_drop]
  omega

theorem makeroom_grow (q : dmsg_ioq) (n : Nat) :
    q.buf.length ≤ (dmsg_ioq_makeroom q n).1.buf.length := by
  unfold dmsg_ioq_makeroom
  simp only []
  split
  · show q.buf.length ≤ (if q.fifo_cdn < q.fifo_end then _ else _ : List Nat).length
    have h1 : q.buf.length ≤ (if q.fifo_cdx - q.fifo_beg ≠ 0 then
        buf_write q.buf 0 (slice q.buf q.fifo_beg (q.fifo_cdx - q.fifo_beg))
        else q.buf).length := by
      split
      · exact buf_write_ge _ _ _
      · exact le_refl _
    split
    · exact le_trans h1 (buf_write_ge _ _ _)
    · exact h1
  · exact le_refl _

/-- The cursors that `dmsg_ioq_makeroom` leaves on a plaintext FIFO, and the
value it returns. -/
theorem makeroom_plain (q : dmsg_ioq) (n : Nat) (hcdn : q.fifo_cdn = q.fifo_end)
    (hcdx : q.fifo_cdx = q.fifo_end) :
    (dmsg_ioq_makeroom q n).1.fifo_cdx = (dmsg_ioq_makeroom q n).1.fifo_end ∧
    (dmsg_ioq_makeroom q n).1.fifo_cdn = (dmsg_ioq_makeroom q n).1.fifo_end ∧
    (dmsg_ioq_makeroom q n).1.fifo_cdx - (dmsg_ioq_makeroom q n).1.fifo_beg =
      q.fifo_cdx - q.fifo_beg ∧
    (dmsg_ioq_makeroom q n).2 = q.buf.length - (dmsg_ioq_makeroom q n).1.fifo_end ∧
    (q.fifo_beg ≤ q.fifo_cdx →
      (dmsg_ioq_makeroom q n).1.fifo_beg ≤ (dmsg_ioq_makeroom q n).1.fifo_cdx) ∧
    (n ≤ q.buf.length / 2 →
      n ≤ (dmsg_ioq_makeroom q n).1.fifo_cdx - (dmsg_ioq_makeroom q n).1.fifo_beg +
        (q.buf.length - (dmsg_ioq_makeroom q n).1.fifo_end) / 2) := by
  unfold dmsg_ioq_makeroom
  simp only []
  split
  · refine ⟨?_, ?_, ?_, ?_, ?_, ?_⟩ <;> (try intro _) <;> (try simp only []) <;> omega
  · refine ⟨?_, ?_, ?_, ?_, ?_, ?_⟩ <;> (try intro _) <;> (try simp only []) <;> omega

/-- What the block around `read(2)` does to the receive FIFO when it is given
the free space at the tail. -/
theorem sock_read_room (ic : dmsg_iocom) (nmax : Nat) :
    (ioq_sock_read ic nmax).ic.flags = ic.flags ∧
    ((ioq_sock_read ic nmax).brk = true → (ioq_sock_read ic nmax).ic.ioq_rx.error ≠ 0) ∧
    (ioq_sock_read ic nmax).ic.ioq_rx.state = ic.ioq_rx.state ∧
    (ioq_sock_read ic nmax).ic.ioq_rx.hbytes = ic.ioq_rx.hbytes ∧
    (ioq_sock_read ic nmax).ic.ioq_rx.fifo_beg = ic.ioq_rx.fifo_beg ∧
    (ioq_sock_read ic nmax).ic.ioq_rx.msg = ic.ioq_rx.msg ∧
    ic.ioq_rx.fifo_end ≤ (ioq_sock_read ic nmax).ic.ioq_rx.fifo_end ∧
    ic.ioq_rx.buf.length ≤ (ioq_sock_read ic nmax).ic.ioq_rx.buf.length ∧
    (nmax ≤ ic.ioq_rx.buf.length - ic.ioq_rx.fifo_end →
     (ic.ioq_rx.buf.length - ic.ioq_rx.fifo_end) / 2 ≤
      ((ioq_sock_read ic nmax).ic.ioq_rx.fifo_end - ic.ioq_rx.fifo_end) +
      ((ioq_sock_read ic nmax).ic.ioq_rx.buf.length -
        (ioq_sock_read ic nmax).ic.ioq_rx.fifo_end) / 2) := by
  have hE1 : DMSG_IOQ_ERROR_SOCK ≠ 0 := by decide
  have hE2 : DMSG_IOQ_ERROR_EOF ≠ 0 := by decide
  unfold ioq_sock_read
  simp only []
  split
  · refine ⟨rfl, fun h => (by cases h), rfl, rfl, rfl, rfl, le_refl _, le_refl _, ?_⟩
    intro hn
    simp only []
    omega
  · refine ⟨rfl, fun h => (by cases h), rfl, rfl, rfl, rfl, le_refl _, le_refl _, ?_⟩
    intro hn
    simp only []
    omega
  · refine ⟨rfl, fun _ => hE1, rfl, rfl, rfl, rfl, le_refl _, le_refl _, ?_⟩
    intro hn
    simp only []
    omega
  · refine ⟨rfl, fun _ => hE2, rfl, rfl, rfl, rfl, le_refl _, le_refl _, ?_⟩
    intro hn
    simp only []
    omega
  · rename_i x bs rest hx
    split
    · refine ⟨rfl, fun _ => hE2, rfl, rfl, rfl, rfl, le_refl _, le_refl _, ?_⟩
      intro hn
      simp only []
      omega
    · have hg : (bs.take nmax).length ≤ nmax := by
        rw [List.length_take]
        exact Nat.min_le_left _ _
      have hl := buf_write_ge ic.ioq_rx.buf (bs.take nmax) ic.ioq_rx.fifo_end
      refine ⟨rfl, fun h => (by cases h), rfl, rfl, rfl, rfl, Nat.le_add_right _ _, hl, ?_⟩
      intro hn
      show (ic.ioq_rx.buf.length - ic.ioq_rx.fifo_end) / 2 ≤
        (ic.ioq_rx.fifo_end + (bs.take nmax).length - ic.ioq_rx.fifo_end) +
        ((buf_write ic.ioq_rx.buf ic.ioq_rx.fifo_end (bs.take nmax)).length -
          (ic.ioq_rx.fifo_end + (bs.take nmax).length)) / 2
      omega

theorem decrypt_plain (env : Env) (ic : dmsg_iocom) (hc : ic.flags.CRYPTED = false) :
    ioq_decrypt env ic =
      { ic with ioq_rx := { ic.ioq_rx with fifo_cdx := ic.ioq_rx.fifo_end,
                                           fifo_cdn := ic.ioq_rx.fifo_end } } := by
  unfold ioq_decrypt
  rw [hc]
  rfl

theorem aux2_copy_post (env : Env) (ic : dmsg_iocom) (msg : dmsg_msg) (r : switch_result)
    (h : dmsg_ioq_read_AUXDATA2_copy env ic msg = some r) :
    r.ic.flags = ic.flags ∧ r.ic.ioq_rx.buf = ic.ioq_rx.buf ∧
    r.ic.ioq_rx.state = ic.ioq_rx.state := by
  unfold dmsg_ioq_read_AUXDATA2_copy at h
  simp only [Option.bind_eq_some] at h
  obtain ⟨aux1, -, h⟩ := h
  split_ifs at h <;> (injection h with h; subst h; exact ⟨rfl, rfl, rfl⟩)

theorem aux2_post (env : Env) (ic : dmsg_iocom) (bytes : Nat) (r : switch_result)
    (hc : ic.flags.CRYPTED = false) (h : dmsg_ioq_read_AUXDATA2 env ic bytes = some r) :
    r.ic.flags = ic.flags ∧ ic.ioq_rx.buf.length ≤ r.ic.ioq_rx.buf.length ∧
    r.ic.ioq_rx.state = ic.ioq_rx.state := by
  unfold dmsg_ioq_read_AUXDATA2 at h
  simp only [Option.bind_eq_some] at h
  obtain ⟨msg, hmsg, h⟩ := h
  have hm := makeroom_same (ic.check ic.ioq_rx.msg.isSome).ioq_rx
    ((ic.check ic.ioq_rx.msg.isSome).ioq_rx.abytes - msg.aux_size)
  have hg := makeroom_grow (ic.check ic.ioq_rx.msg.isSome).ioq_rx
    ((ic.check ic.ioq_rx.msg.isSome).ioq_rx.abytes - msg.aux_size)
  generalize hrd : (if msg.aux_size < _ then ioq_sock_read _ _
      else ({ ic := _, nmax := _, brk := false } : sock_read_result)) = rd at h
  have key : rd.ic.flags = ic.flags ∧ ic.ioq_rx.buf.length ≤ rd.ic.ioq_rx.buf.length ∧
      rd.ic.ioq_rx.state = ic.ioq_rx.state := by
    rw [← hrd]
    split
    · obtain ⟨k1, -, k3, -, -, -, -, k8, -⟩ := sock_read_room
        ((({ ic.check ic.ioq_rx.msg.isSome with
          ioq_rx := (dmsg_ioq_makeroom (ic.check ic.ioq_rx.msg.isSome).ioq_rx
            ((ic.check ic.ioq_rx.msg.isSome).ioq_rx.abytes - msg.aux_size)).1 } :
            dmsg_iocom).check _).check _) _
      exact ⟨k1, le_trans hg k8, k3.trans hm.2.2.2.2.2.1⟩
    · exact ⟨rfl, hg, hm.2.2.2.2.2.1⟩
  split_ifs at h
  · injection h with h
    subst h
    exact key
  · have hc2 : rd.ic.flags.CRYPTED = false := by rw [key.1]; exact hc
    rw [decrypt_plain env rd.ic hc2] at h
    obtain ⟨k1, k2, k3⟩ := aux2_copy_post env _ _ _ h
    refine ⟨k1.trans key.1, ?_, k3.trans key.2.2⟩
    rw [k2]
    exact key.2.1

theorem aux1_post (env : Env) (ic : dmsg_iocom) (bytes : Nat) (r : switch_result)
    (hc : ic.flags.CRYPTED = false) (h : dmsg_ioq_read_AUXDATA1 env ic bytes = some r) :
    r.ic.flags = ic.flags ∧ ic.ioq_rx.buf.length ≤ r.ic.ioq_rx.buf.length ∧
    r.ic.ioq_rx.state = .AUXDATA2 := by
  unfold dmsg_ioq_read_AUXDATA1 at h
  simp only [Option.bind_eq_some] at h
  obtain ⟨msg, hmsg, h⟩ := h
  split_ifs at h
  all_goals first
    | (simp only [Option.bind_eq_some] at h
       obtain ⟨aux1, -, h⟩ := h
       exact aux2_post env _ _ r (by exact hc) h)
    | exact aux2_post env _ _ r (by exact hc) h

theorem header2_check_post (env : Env) (ic : dmsg_iocom) (r : switch_result)
    (hc : ic.flags.CRYPTED = false) (h : dmsg_ioq_read_HEADER2_check env ic = some r) :
    r.ic.flags = ic.flags ∧ ic.ioq_rx.buf.length ≤ r.ic.ioq_rx.buf.length ∧
    (r.ic.ioq_rx.state = .HEADER2 → r.ic.ioq_rx.error = 0 →
      r.msgp = true ∧ r.ic.ioq_rx.msg.isSome = true) := by
  have hE : DMSG_IOQ_ERROR_XCRC ≠ 0 := by decide
  unfold dmsg_ioq_read_HEADER2_check at h
  simp only [] at h
  split at h
  · injection h with h
    subst h
    exact ⟨rfl, buf_write_ge _ _ _, fun _ he => absurd he hE⟩
  · simp only [Option.bind_eq_some] at h
    obtain ⟨msg, hmsg, h⟩ := h
    split at h
    · injection h with h
      subst h
      exact ⟨rfl, le_trans (buf_write_ge _ _ _) (buf_write_ge _ _ _), fun _ _ => ⟨rfl, rfl⟩⟩
    · obtain ⟨k1, k2, k3⟩ := aux1_post env _ _ r (by exact hc) h
      refine ⟨k1, le_trans (le_trans (buf_write_ge _ _ _) (buf_write_ge _ _ _)) k2, ?_⟩
      intro hs
      rw [k3] at hs
      cases hs

/-- The case `HEADER2` entered with the room `hdr2_room` and with `nmax` within
the free space at the tail leaves the room for the next call. -/
theorem header2_post (env : Env) (ic : dmsg_iocom) (bytes nmax : Nat) (r : switch_result)
    (hc : ic.flags.CRYPTED = false) (hroom : hdr2_room ic.ioq_rx)
    (hn : nmax ≤ ic.ioq_rx.buf.length - ic.ioq_rx.fifo_end)
    (h : dmsg_ioq_read_HEADER2 env ic bytes nmax = some r) : hdr2_post ic r := by
  unfold dmsg_ioq_read_HEADER2 at h
  simp only [] at h
  generalize hrd : (if bytes < (ic.check ic.ioq_rx.msg.isSome).ioq_rx.hbytes then
        ioq_sock_read ((ic.check ic.ioq_rx.msg.isSome).check (decide (nmax > 0))) nmax
      else ({ ic := ic.check ic.ioq_rx.msg.isSome, nmax := nmax, brk := false } :
        sock_read_result)) = rd at h
  have key : rd.ic.flags = ic.flags ∧ (rd.brk = true → rd.ic.ioq_rx.error ≠ 0) ∧
      rd.ic.ioq_rx.state = ic.ioq_rx.state ∧ rd.ic.ioq_rx.hbytes = ic.ioq_rx.hbytes ∧
      rd.ic.ioq_rx.fifo_beg = ic.ioq_rx.fifo_beg ∧
      ic.ioq_rx.fifo_end ≤ rd.ic.ioq_rx.fifo_end ∧
      ic.ioq_rx.buf.length ≤ rd.ic.ioq_rx.buf.length ∧
      (ic.ioq_rx.buf.length - ic.ioq_rx.fifo_end) / 2 ≤
        (rd.ic.ioq_rx.fifo_end - ic.ioq_rx.fifo_end) +
        (rd.ic.ioq_rx.buf.length - rd.ic.ioq_rx.fifo_end) / 2 := by
    rw [← hrd]
    split
    · obtain ⟨k1, k2, k3, k4, k5, -, k7, k8, k9⟩ := sock_read_room
        ((ic.check ic.ioq_rx.msg.isSome).check (decide (nmax > 0))) nmax
      exact ⟨k1, k2, k3, k4, k5, k7, k8, k9 hn⟩
    · refine ⟨rfl, fun hb => (by cases hb), rfl, rfl, rfl, le_refl _, le_refl _, ?_⟩
      simp only []
      show (ic.ioq_rx.buf.length - ic.ioq_rx.fifo_end) / 2 ≤
        (ic.ioq_rx.fifo_end - ic.ioq_rx.fifo_end) +
        (ic.ioq_rx.buf.length - ic.ioq_rx.fifo_end) / 2
      omega
  obtain ⟨k1, k2, k3, k4, k5, k7, k8, k9⟩ := key
  have hc2 : rd.ic.flags.CRYPTED = false := by rw [k1]; exact hc
  split_ifs at h with hb hlt
  · injection h with h
    subst h
    exact ⟨hc2, k8, fun _ he => absurd he (k2 hb)⟩
  · injection h with h
    subst h
    rw [decrypt_plain env rd.ic hc2]
    refine ⟨hc2, k8, fun _ _ => Or.inr ?_⟩
    obtain ⟨r1, r2, r3⟩ := hroom
    refine ⟨?_, le_refl _, ?_⟩
    · show rd.ic.ioq_rx.fifo_beg ≤ rd.ic.ioq_rx.fifo_end
      omega
    · show rd.ic.ioq_rx.hbytes ≤ (rd.ic.ioq_rx.fifo_end - rd.ic.ioq_rx.fifo_beg) +
        (rd.ic.ioq_rx.buf.length - rd.ic.ioq_rx.fifo_end) / 2
      omega
  · rw [decrypt_plain env rd.ic hc2] at h
    obtain ⟨g1, g2, g3⟩ := header2_check_post env _ r (by exact hc2) h
    exact ⟨by rw [g1]; exact hc2, le_trans k8 g2, fun hs he => Or.inl (g3 hs he)⟩

/-- The end of the case `HEADER1` on a plaintext FIFO (`fifo_cdx`, `fifo_cdn`
and `fifo_end` are equal after the step "decrypt data received so far"): when
the header passes the checks and the message is allocated, the case falls
through to `HEADER2` with the FIFO that `dmsg_ioq_makeroom(ioq, ioq->hbytes)`
leaves, with the bytes decrypted so far and the `nmax` that the function
returns; there the room `hdr2_room` holds, and `nmax` is positive when the
extended header is not yet complete. -/
theorem header1_falls_through (env : Env) (ic2 : dmsg_iocom) (msgp : Bool)
    (am : dmsg_engine × dmsg_msg)
    (hL : 2 * env.sizeof_any ≤ ic2.ioq_rx.buf.length)
    (hcdx : ic2.ioq_rx.fifo_cdx = ic2.ioq_rx.fifo_end)
    (hcdn : ic2.ioq_rx.fifo_cdn = ic2.ioq_rx.fifo_end)
    (hbeg : ic2.ioq_rx.fifo_beg ≤ ic2.ioq_rx.fifo_cdx)
    (hmagic : ¬ ((hdr_of_bytes (slice ic2.ioq_rx.buf ic2.ioq_rx.fifo_beg sizeof_head)).magic ≠
        DMSG_HDR_MAGIC ∧
      (hdr_of_bytes (slice ic2.ioq_rx.buf ic2.ioq_rx.fifo_beg sizeof_head)).magic ≠
        DMSG_HDR_MAGIC_REV))
    (hfield : ¬ (hdr_hbytes (hdr_of_bytes (slice ic2.ioq_rx.buf ic2.ioq_rx.fifo_beg
        sizeof_head)) < sizeof_head ∨
      hdr_hbytes (hdr_of_bytes (slice ic2.ioq_rx.buf ic2.ioq_rx.fifo_beg sizeof_head)) >
        env.sizeof_any ∨
      DMSG_DOALIGN 32 (hdr_aux_size (hdr_of_bytes (slice ic2.ioq_rx.buf ic2.ioq_rx.fifo_beg
        sizeof_head))) > env.DMSG_AUX_MAX))
    (ham : dmsg_msg_alloc_locked ic2.eng 0
      (hdr_aux_size (hdr_of_bytes (slice ic2.ioq_rx.buf ic2.ioq_rx.fifo_beg sizeof_head)))
      (hdr_hbytes (hdr_of_bytes (slice ic2.ioq_rx.buf ic2.ioq_rx.fifo_beg sizeof_head)) /
        DMSG_ALIGN) 0 false = some am) :
    ∃ ic3 nmax, dmsg_ioq_read_HEADER1_check env ic2 msgp =
        dmsg_ioq_read_HEADER2 env ic3 (ic2.ioq_rx.fifo_cdx - ic2.ioq_rx.fifo_beg) nmax ∧
      ic3.flags = ic2.flags ∧ ic3.ioq_rx.state = .HEADER2 ∧
      ic3.ioq_rx.hbytes =
        hdr_hbytes (hdr_of_bytes (slice ic2.ioq_rx.buf ic2.ioq_rx.fifo_beg sizeof_head)) ∧
      ic3.ioq_rx.fifo_cdx - ic3.ioq_rx.fifo_beg = ic2.ioq_rx.fifo_cdx - ic2.ioq_rx.fifo_beg ∧
      nmax = ic2.ioq_rx.buf.length - ic3.ioq_rx.fifo_end ∧
      ic2.ioq_rx.buf.length ≤ ic3.ioq_rx.buf.length ∧
      hdr2_room ic3.ioq_rx ∧
      (ic2.ioq_rx.fifo_cdx - ic2.ioq_rx.fifo_beg < ic3.ioq_rx.hbytes → nmax > 0) := by
  generalize hq2 : ({ ic2.ioq_rx with
      hbytes := hdr_hbytes (hdr_of_bytes (slice ic2.ioq_rx.buf ic2.ioq_rx.fifo_beg sizeof_head))
      abytes := DMSG_DOALIGN 32
        (hdr_aux_size (hdr_of_bytes (slice ic2.ioq_rx.buf ic2.ioq_rx.fifo_beg sizeof_head)))
      unaligned_aux_size :=
        hdr_aux_size (hdr_of_bytes (slice ic2.ioq_rx.buf ic2.ioq_rx.fifo_beg sizeof_head))
      msg := some am.2 } : dmsg_ioq) = q2
  have e1 : q2.fifo_cdx = ic2.ioq_rx.fifo_cdx := by rw [← hq2]
  have e2 : q2.fifo_cdn = ic2.ioq_rx.fifo_cdn := by rw [← hq2]
  have e3 : q2.fifo_end = ic2.ioq_rx.fifo_end := by rw [← hq2]
  have e4 : q2.fifo_beg = ic2.ioq_rx.fifo_beg := by rw [← hq2]
  have e5 : q2.buf = ic2.ioq_rx.buf := by rw [← hq2]
  have e6 : q2.hbytes =
      hdr_hbytes (hdr_of_bytes (slice ic2.ioq_rx.buf ic2.ioq_rx.fifo_beg sizeof_head)) := by
    rw [← hq2]
  have hm := makeroom_plain q2 q2.hbytes (by rw [e2, e3]; exact hcdn) (by rw [e1, e3]; exact hcdx)
  have hs := makeroom_same q2 q2.hbytes
  have hg := makeroom_grow q2 q2.hbytes
  obtain ⟨m1, m2, m3, m4, m5, m6⟩ := hm
  have hh : q2.hbytes ≤ q2.buf.length / 2 := by
    rw [e6, e5]
    push_neg at hfield
    have := hfield.2.1
    omega
  refine ⟨{ ic2 with eng := am.1, ioq_rx := { (dmsg_ioq_makeroom q2 q2.hbytes).1 with
      state := .HEADER2 } }, (dmsg_ioq_makeroom q2 q2.hbytes).2, ?_, rfl, rfl, ?_, ?_, ?_, ?_, ?_, ?_⟩
  · subst hq2
    unfold dmsg_ioq_read_HEADER1_check
    simp only [hmagic, hfield, if_false, ham, Option.some_bind]
  · show (dmsg_ioq_makeroom q2 q2.hbytes).1.hbytes = _
    rw [hs.2.2.2.2.2.2.1, e6]
  · show (dmsg_ioq_makeroom q2 q2.hbytes).1.fifo_cdx - (dmsg_ioq_makeroom q2 q2.hbytes).1.fifo_beg
      = _
    rw [m3, e1, e4]
  · show (dmsg_ioq_makeroom q2 q2.hbytes).2 =
      ic2.ioq_rx.buf.length - (dmsg_ioq_makeroom q2 q2.hbytes).1.fifo_end
    rw [m4, e5]
  · show ic2.ioq_rx.buf.length ≤ (dmsg_ioq_makeroom q2 q2.hbytes).1.buf.length
    rw [← e5]
    exact hg
  · refine ⟨m5 (by rw [e4, e1]; exact hbeg), le_of_eq m1, ?_⟩
    show (dmsg_ioq_makeroom q2 q2.hbytes).1.hbytes ≤
      ((dmsg_ioq_makeroom q2 q2.hbytes).1.fifo_cdx - (dmsg_ioq_makeroom q2 q2.hbytes).1.fifo_beg) +
      ((dmsg_ioq_makeroom q2 q2.hbytes).1.buf.length -
        (dmsg_ioq_makeroom q2 q2.hbytes).1.fifo_end) / 2
    have := m6 hh
    rw [hs.2.2.2.2.2.2.1]
    omega
  · show ic2.ioq_rx.fifo_cdx - ic2.ioq_rx.fifo_beg < (dmsg_ioq_makeroom q2 q2.hbytes).1.hbytes →
      (dmsg_ioq_makeroom q2 q2.hbytes).2 > 0
    rw [hs.2.2.2.2.2.2.1, m4]
    intro hlt
    have := m6 hh
    rw [m3, e1, e4] at this
    omega

theorem header1_check_post (env : Env) (ic2 : dmsg_iocom) (msgp : Bool) (r : switch_result)
    (hc : ic2.flags.CRYPTED = false) (hL : 2 * env.sizeof_any ≤ ic2.ioq_rx.buf.length)
    (hcdx : ic2.ioq_rx.fifo_cdx = ic2.ioq_rx.fifo_end)
    (hcdn : ic2.ioq_rx.fifo_cdn = ic2.ioq_rx.fifo_end)
    (hbeg : ic2.ioq_rx.fifo_beg ≤ ic2.ioq_rx.fifo_cdx)
    (h : dmsg_ioq_read_HEADER1_check env ic2 msgp = some r) : hdr2_post ic2 r := by
  have hE1 : DMSG_IOQ_ERROR_SYNC ≠ 0 := by decide
  have hE2 : DMSG_IOQ_ERROR_FIELD ≠ 0 := by decide
  by_cases hmagic : (hdr_of_bytes (slice ic2.ioq_rx.buf ic2.ioq_rx.fifo_beg sizeof_head)).magic ≠
        DMSG_HDR_MAGIC ∧
      (hdr_of_bytes (slice ic2.ioq_rx.buf ic2.ioq_rx.fifo_beg sizeof_head)).magic ≠
        DMSG_HDR_MAGIC_REV
  · unfold dmsg_ioq_read_HEADER1_check at h
    simp only [] at h
    rw [if_pos hmagic] at h
    injection h with h
    subst h
    exact ⟨hc, le_refl _, fun _ he => absurd he hE1⟩
  · by_cases hfield : hdr_hbytes (hdr_of_bytes (slice ic2.ioq_rx.buf ic2.ioq_rx.fifo_beg
          sizeof_head)) < sizeof_head ∨
        hdr_hbytes (hdr_of_bytes (slice ic2.ioq_rx.buf ic2.ioq_rx.fifo_beg sizeof_head)) >
          env.sizeof_any ∨
        DMSG_DOALIGN 32 (hdr_aux_size (hdr_of_bytes (slice ic2.ioq_rx.buf ic2.ioq_rx.fifo_beg
          sizeof_head))) > env.DMSG_AUX_MAX
    · unfold dmsg_ioq_read_HEADER1_check at h
      simp only [] at h
      rw [if_neg hmagic, if_pos hfield] at h
      injection h with h
      subst h
      exact ⟨hc, le_refl _, fun _ he => absurd he hE2⟩
    · cases ham : dmsg_msg_alloc_locked ic2.eng 0
          (hdr_aux_size (hdr_of_bytes (slice ic2.ioq_rx.buf ic2.ioq_rx.fifo_beg sizeof_head)))
          (hdr_hbytes (hdr_of_bytes (slice ic2.ioq_rx.buf ic2.ioq_rx.fifo_beg sizeof_head)) /
            DMSG_ALIGN) 0 false with
      | none =>
        unfold dmsg_ioq_read_HEADER1_check at h
        simp only [] at h
        rw [if_neg hmagic, if_neg hfield, ham] at h
        cases h
      | some am =>
        obtain ⟨ic3, nmax, heq, f1, -, -, -, f5, f6, f7, -⟩ :=
          header1_falls_through env ic2 msgp am hL hcdx hcdn hbeg hmagic hfield ham
        rw [heq] at h
        have hc3 : ic3.flags.CRYPTED = false := by rw [f1]; exact hc
        obtain ⟨g1, g2, g3⟩ := header2_post env ic3 _ nmax r hc3 f7 (by rw [f5]; omega) h
        exact ⟨g1, le_trans f6 g2, g3⟩

theorem header1_post (env : Env) (ic : dmsg_iocom) (bytes : Nat) (r : switch_result)
    (hc : ic.flags.CRYPTED = false) (hL : 2 * env.sizeof_any ≤ ic.ioq_rx.buf.length)
    (hst : ic.ioq_rx.state = .HEADER1)
    (h : dmsg_ioq_read_HEADER1 env ic bytes = some r) : hdr2_post ic r := by
  have h64 : sizeof_head = 64 := rfl
  unfold dmsg_ioq_read_HEADER1 at h
  simp only [] at h
  have hs := makeroom_same ic.ioq_rx sizeof_head
  have hg := makeroom_grow ic.ioq_rx sizeof_head
  generalize hrd : (if bytes < sizeof_head then ioq_sock_read _ _
      else ({ ic := _, nmax := _, brk := false } : sock_read_result)) = rd at h
  have key : rd.ic.flags = ic.flags ∧ (rd.brk = true → rd.ic.ioq_rx.error ≠ 0) ∧
      rd.ic.ioq_rx.state = ic.ioq_rx.state ∧
      ic.ioq_rx.buf.length ≤ rd.ic.ioq_rx.buf.length := by
    rw [← hrd]
    split
    · obtain ⟨k1, k2, k3, -, -, -, -, k8, -⟩ := sock_read_room
        ({ ic with ioq_rx := (dmsg_ioq_makeroom ic.ioq_rx sizeof_head).1 } : dmsg_iocom)
        (dmsg_ioq_makeroom ic.ioq_rx sizeof_head).2
      exact ⟨k1, k2, k3.trans hs.2.2.2.2.2.1, le_trans hg k8⟩
    · exact ⟨rfl, fun hb => (by cases hb), hs.2.2.2.2.2.1, hg⟩
  obtain ⟨k1, k2, k3, k8⟩ := key
  have hc2 : rd.ic.flags.CRYPTED = false := by rw [k1]; exact hc
  have hnot : msgq_state.HEADER1 ≠ msgq_state.HEADER2 := by decide
  split_ifs at h with hb hlt
  · injection h with h
    subst h
    exact ⟨hc2, k8, fun _ he => absurd he (k2 hb)⟩
  · injection h with h
    subst h
    rw [decrypt_plain env rd.ic hc2]
    refine ⟨hc2, k8, fun hs2 _ => ?_⟩
    have hs3 : rd.ic.ioq_rx.state = .HEADER2 := hs2
    rw [k3, hst] at hs3
    exact absurd hs3 hnot
  · rw [decrypt_plain env rd.ic hc2] at h hlt
    have hlt2 : ¬ (rd.ic.ioq_rx.fifo_end - rd.ic.ioq_rx.fifo_beg < sizeof_head) := hlt
    obtain ⟨g1, g2, g3⟩ := header1_check_post env _ _ r (by exact hc2)
      (by exact le_trans hL k8) (by rfl) (by rfl)
      (by show rd.ic.ioq_rx.fifo_beg ≤ rd.ic.ioq_rx.fifo_end; omega) h
    exact ⟨g1, le_trans k8 g2, g3⟩

/-- The `switch` of `dmsg_ioq_read` on a connection with `hdr2_inv` and
without error leaves `hdr2_post`. -/
theorem switch_post (env : Env) (ic : dmsg_iocom) (r : switch_result)
    (hinv : hdr2_inv env ic) (he : ic.ioq_rx.error = 0)
    (h : dmsg_ioq_read_switch env ic = some r) : hdr2_post ic r := by
  obtain ⟨hc, hL, hH⟩ := hinv
  unfold dmsg_ioq_read_switch at h
  simp only [] at h
  split at h
  · rename_i hst
    exact header1_post env ic _ r hc hL hst h
  · rename_i hst
    exact header2_post env ic _ _ r hc (hH hst he) (le_refl _) h
  · obtain ⟨k1, k2, k3⟩ := aux1_post env ic _ r hc h
    refine ⟨by rw [k1]; exact hc, k2, fun hs => ?_⟩
    rw [k3] at hs
    cases hs
  · rename_i hst
    obtain ⟨k1, k2, k3⟩ := aux2_post env ic _ r hc h
    refine ⟨by rw [k1]; exact hc, k2, fun hs => ?_⟩
    rw [k3, hst] at hs
    cases hs
  · rename_i hst
    injection h with h
    subst h
    refine ⟨hc, le_refl _, fun hs => ?_⟩
    have hs2 : ic.ioq_rx.state = .HEADER2 := hs
    rw [hst] at hs2
    cases hs2

theorem inv_of_state (env : Env) (ic : dmsg_iocom) (hc : ic.flags.CRYPTED = false)
    (hL : 2 * env.sizeof_any ≤ ic.ioq_rx.buf.length) (hs : ic.ioq_rx.state ≠ .HEADER2) :
    hdr2_inv env ic :=
  ⟨hc, hL, fun h => absurd h hs⟩

theorem seq_room (ic : dmsg_iocom) (msgp : Bool) :
    (dmsg_ioq_read_seq ic msgp).flags = ic.flags ∧
    (dmsg_ioq_read_seq ic msgp).ioq_rx.buf = ic.ioq_rx.buf ∧
    (dmsg_ioq_read_seq ic msgp).ioq_rx.state = ic.ioq_rx.state ∧
    (dmsg_ioq_read_seq ic msgp).ioq_rx.msg = ic.ioq_rx.msg ∧
    ((dmsg_ioq_read_seq ic msgp).ioq_rx.error = 0 → ic.ioq_rx.error = 0) ∧
    (hdr2_room ic.ioq_rx → hdr2_room (dmsg_ioq_read_seq ic msgp).ioq_rx) := by
  have hE : DMSG_IOQ_ERROR_MSGSEQ ≠ 0 := by decide
  unfold dmsg_ioq_read_seq
  split
  · split
    · split
      · exact ⟨rfl, rfl, rfl, rfl, fun h => absurd h hE, fun h => h⟩
      · exact ⟨rfl, rfl, rfl, rfl, fun h => h, fun h => h⟩
    · exact ⟨rfl, rfl, rfl, rfl, fun h => h, fun h => h⟩
  · exact ⟨rfl, rfl, rfl, rfl, fun h => h, fun h => h⟩

theorem drain_flags (ic ic1 : dmsg_iocom) (h : dmsg_iocom_drain ic = some ic1) :
    ic1.flags.CRYPTED = ic.flags.CRYPTED := by
  unfold dmsg_iocom_drain at h
  simp only [Option.map_eq_some'] at h
  obtain ⟨e, -, h⟩ := h
  subst h
  rfl

theorem skip_room (env : Env) (fuel : Nat) (ic ic1 : dmsg_iocom) (msg : Option dmsg_msg)
    (hc : ic.flags.CRYPTED = false) (hL : 2 * env.sizeof_any ≤ ic.ioq_rx.buf.length)
    (h : dmsg_ioq_read_skip fuel ic msg = some ic1) : hdr2_inv env ic1 := by
  have hrx := (skip_rx fuel ic ic1 msg h).1
  have hfl : ic1.flags.CRYPTED = ic.flags.CRYPTED := by
    unfold dmsg_ioq_read_skip at h
    simp only [Option.bind_eq_bind, Option.bind_eq_some, Option.pure_def] at h
    obtain ⟨ic2, h2, ic3, h3, e, -, h⟩ := h
    injection h with h
    subst h
    have hd := drain_flags _ _ h3
    have h2f : ic2.flags = ic.flags := by
      cases msg with
      | none =>
        simp only [] at h2
        injection h2 with h2
        subst h2
        rfl
      | some m =>
        simp only [Option.map_eq_some'] at h2
        obtain ⟨e2, -, h2⟩ := h2
        subst h2
        rfl
    show ic3.flags.CRYPTED = ic.flags.CRYPTED
    rw [hd]
    show ic2.flags.CRYPTED = ic.flags.CRYPTED
    rw [h2f]
  refine inv_of_state env ic1 (by rw [hfl]; exact hc) ?_ ?_
  · rw [hrx]
    exact hL
  · rw [hrx]
    intro hs
    cases hs

/-- The function `dmsg_ioq_read` keeps `hdr2_inv`. -/
theorem read_room : ∀ (fuel : Nat) (env : Env) (ic : dmsg_iocom)
    (r : dmsg_iocom × Option dmsg_msg), hdr2_inv env ic → dmsg_ioq_read fuel env ic = some r →
    hdr2_inv env r.1
  | 0, _, _, _, _, h => by simp [dmsg_ioq_read] at h
  | fuel + 1, env, ic, r, hinv, h => by
    obtain ⟨hc, hL, hH⟩ := hinv
    rw [dmsg_ioq_read] at h
    cases hq : ic.ioq_rx.msgq with
    | cons m rest =>
      simp only [hq] at h
      split_ifs at h
      · injection h with h
        subst h
        exact ⟨hc, hL, hH⟩
      · injection h with h
        subst h
        exact ⟨hc, hL, hH⟩
    | nil =>
      simp only [hq] at h
      have hskip : ∀ (ic2 : dmsg_iocom) (msg : Option dmsg_msg),
          ic2.flags.CRYPTED = false → 2 * env.sizeof_any ≤ ic2.ioq_rx.buf.length →
          ((dmsg_ioq_read_skip fuel ic2 msg).bind fun ic3 =>
            if ic3.ioq_rx.msgq ≠ [] then dmsg_ioq_read fuel env ic3 else some (ic3, none)) =
            some r → hdr2_inv env r.1 := by
        intro ic2 msg hc2 hL2 hh
        simp only [Option.bind_eq_some] at hh
        obtain ⟨ic3, hs, hh⟩ := hh
        have k1 := skip_room env fuel ic2 ic3 msg hc2 hL2 hs
        split_ifs at hh
        · exact read_room fuel env ic3 r k1 hh
        · injection hh with hh
          subst hh
          exact k1
      by_cases he : ic.ioq_rx.error = 0
      · simp only [he, ne_eq, not_true_eq_false, if_false, Option.bind_eq_some] at h
        obtain ⟨sw, hsw, h⟩ := h
        have hinv1 : hdr2_inv env
            { ic with flags := { ic.flags with RREQ := false, RWORK := false } } :=
          ⟨hc, hL, hH⟩
        obtain ⟨g1, g2, g3⟩ := switch_post env _ sw hinv1 he hsw
        have g2' : ic.ioq_rx.buf.length ≤ sw.ic.ioq_rx.buf.length := g2
        obtain ⟨s1, s2, s3, s4, s5, s6⟩ := seq_room sw.ic sw.msgp
        have hc3 : (dmsg_ioq_read_seq sw.ic sw.msgp).flags.CRYPTED = false := by
          rw [s1]
          exact g1
        have hL3 : 2 * env.sizeof_any ≤ (dmsg_ioq_read_seq sw.ic sw.msgp).ioq_rx.buf.length := by
          rw [s2]
          exact le_trans hL g2'
        generalize dmsg_ioq_read_seq sw.ic sw.msgp = ic3 at h s3 s4 s5 s6 hc3 hL3
        by_cases he2 : ic3.ioq_rx.error = 0
        · simp only [he2, not_true_eq_false, if_false] at h
          split at h
          · rename_i hm
            injection h with h
            subst h
            refine ⟨hc3, hL3, fun hs _ => ?_⟩
            have hs2 : ic3.ioq_rx.state = .HEADER2 := hs
            rw [s3] at hs2
            rcases g3 hs2 (s5 he2) with ⟨m1, m2⟩ | hroom
            · rw [m1] at hm
              simp only [if_true] at hm
              rw [s4] at hm
              rw [hm] at m2
              cases m2
            · exact s6 hroom
          · rename_i m hm
            simp only [Option.bind_eq_some] at h
            obtain ⟨rr, hrr, h⟩ := h
            have hd := done_rx ic3
            have hdinv : ∀ (e : dmsg_engine) (er : Nat),
                hdr2_inv env { dmsg_ioq_read_done ic3 with eng := e } ∧
                ({ dmsg_ioq_read_done ic3 with eng := e } : dmsg_iocom).flags.CRYPTED = false ∧
                2 * env.sizeof_any ≤
                  ({ dmsg_ioq_read_done ic3 with eng := e } : dmsg_iocom).ioq_rx.buf.length := by
              intro e er
              have hcd : (dmsg_ioq_read_done ic3).flags.CRYPTED = false := by
                unfold dmsg_ioq_read_done
                simp only []
                split <;> exact hc3
              have hLd : 2 * env.sizeof_any ≤ (dmsg_ioq_read_done ic3).ioq_rx.buf.length := by
                unfold dmsg_ioq_read_done
                simp only []
                split <;> exact hL3
              refine ⟨inv_of_state env _ hcd hLd ?_, hcd, hLd⟩
              show (dmsg_ioq_read_done ic3).ioq_rx.state ≠ .HEADER2
              rw [hd.2.2.2.2.2.1]
              decide
            by_cases e1 : rr.error = 0
            · simp only [e1, not_true_eq_false, if_false] at h
              injection h with h
              subst h
              exact (hdinv rr.eng 0).1
            · simp only [e1, not_false_eq_true, if_true] at h
              by_cases e2 : rr.error = DMSG_IOQ_ERROR_EALREADY
              · simp only [e2, if_true, Option.bind_eq_some] at h
                obtain ⟨e1', hfree, h⟩ := h
                exact read_room fuel env _ r (hdinv e1' 0).1 h
              · simp only [e2, if_false] at h
                exact hskip _ (some rr.msg) (by exact (hdinv rr.eng 0).2.1)
                  (by exact (hdinv rr.eng 0).2.2) h
        · simp only [he2, not_false_eq_true, if_true] at h
          exact hskip _ _ hc3 hL3 h
      · simp only [ne_eq, he, not_false_eq_true, if_true] at h
        have g0 := hskip { ic with flags := { ic.flags with RREQ := false, RWORK := false } }
          none hc hL h
        exact g0
theorem inv_of_rx (env : Env) (ic ic1 : dmsg_iocom) (h : hdr2_inv env ic)
    (hrx : ic1.ioq_rx = ic.ioq_rx) (hfl : ic1.flags.CRYPTED = ic.flags.CRYPTED) :
    hdr2_inv env ic1 := by
  unfold hdr2_inv at h ⊢
  rw [hrx, hfl]
  exact h

theorem write_flags (fuel : Nat) (ic : dmsg_iocom) (msg : dmsg_msg) (ic1 : dmsg_iocom)
    (h : dmsg_msg_write fuel ic msg = some ic1) :
    ic1.ioq_rx = ic.ioq_rx ∧ ic1.flags = ic.flags := by
  unfold dmsg_msg_write at h
  simp only [Option.bind_eq_bind, Option.bind_eq_some, Option.pure_def] at h
  obtain ⟨state, hst, s, hs, h⟩ := h
  generalize (if (!s.flags.ROOT) = true ∧
      msg.head.cmd &&& (DMSGF_CREATE ||| DMSGF_REPLY) = DMSGF_CREATE then
      { s with
        txcmd := msg.head.cmd &&& not32 DMSGF_DELETE
        icmd := (msg.head.cmd &&& not32 DMSGF_DELETE) &&& DMSGF_BASECMDMASK
        flags := { s.flags with NEW := false } }
    else s) = s1 at h
  generalize (if (!s.flags.ROOT) = true then
      { msg with head := { msg.head with msgid := s1.msgid } } else msg) = msg1 at h
  generalize (if (!s.flags.ROOT) = true ∧ msg1.head.cmd &&& DMSGF_CREATE ≠ 0 then
      { s1 with txcmd := msg1.head.cmd &&& not32 DMSGF_DELETE } else s1) = s2 at h
  generalize (if (!s.flags.ROOT) = true then ic.eng.put state s2 else ic.eng) = e1 at h
  split_ifs at h
  · simp only [Option.map_eq_some'] at h
    obtain ⟨e2, -, rfl⟩ := h
    exact ⟨rfl, rfl⟩
  · simp only [Option.bind_eq_some] at h
    obtain ⟨e2, -, e3, -, s3, -, e4, -, e5, -, e6, -, h⟩ := h
    injection h with h
    subst h
    exact ⟨rfl, rfl⟩
  · simp only [Option.bind_eq_some] at h
    obtain ⟨e2, -, h⟩ := h
    injection h with h
    subst h
    exact ⟨rfl, rfl⟩

theorem reply_cmd_flags (fuel : Nat) (ic : dmsg_iocom) (state cmd0 error : Nat)
    (ic1 : dmsg_iocom) (h : dmsg_state_reply_cmd fuel ic state cmd0 error = some ic1) :
    ic1.ioq_rx = ic.ioq_rx ∧ ic1.flags = ic.flags := by
  unfold dmsg_state_reply_cmd at h
  simp only [Option.bind_eq_bind, Option.bind_eq_some, Option.pure_def] at h
  obtain ⟨s, -, h⟩ := h
  by_cases hd : s.txcmd &&& DMSGF_DELETE ≠ 0
  · rw [if_pos hd] at h
    injection h with h
    subst h
    exact ⟨rfl, rfl⟩
  · rw [if_neg hd] at h
    simp only [Option.bind_eq_some] at h
    obtain ⟨am, -, s1, -, h⟩ := h
    have k := write_flags fuel _ _ ic1 h
    exact k

theorem ioq_done_room (e : dmsg_engine) (ioq : dmsg_ioq) (r : dmsg_engine × dmsg_ioq)
    (h : dmsg_ioq_done e ioq = some r) :
    r.2.buf = ioq.buf ∧ r.2.state = ioq.state ∧ r.2.error = ioq.error ∧
    (hdr2_room ioq → hdr2_room r.2) := by
  unfold dmsg_ioq_done at h
  simp only [Option.bind_eq_bind, Option.bind_eq_some, Option.pure_def] at h
  obtain ⟨e1, -, h⟩ := h
  cases hm : ioq.msg with
  | none =>
    rw [hm] at h
    simp only [] at h
    injection h with h
    subst h
    exact ⟨rfl, rfl, rfl, fun hr => hr⟩
  | some m =>
    rw [hm] at h
    simp only [Option.map_eq_some'] at h
    obtain ⟨e2, -, rfl⟩ := h
    exact ⟨rfl, rfl, rfl, fun hr => hr⟩

theorem foldl_keep_prop {α : Type} (P : dmsg_iocom → Prop) (f : dmsg_iocom → α → dmsg_iocom)
    (hf : ∀ a m, P a → P (f a m)) : ∀ (q : List α) (ic : dmsg_iocom), P ic → P (q.foldl f ic) := by
  intro q
  induction q with
  | nil =>
    intro ic h
    exact h
  | cons m q ih =>
    intro ic h
    exact ih (f ic m) (hf ic m h)

theorem flush1_flags (env : Env) (ic : dmsg_iocom) :
    (dmsg_iocom_flush1_queue env ic).flags.CRYPTED = ic.flags.CRYPTED := by
  unfold dmsg_iocom_flush1_queue
  refine foldl_keep_prop (fun a => a.flags.CRYPTED = ic.flags.CRYPTED) _ ?_ _ _ rfl
  intro a m ha
  simp only []
  split
  · exact ha
  · exact ha

/-- Every call on a connection keeps `hdr2_inv`. -/
theorem apply_room (fuel : Nat) (env : Env) (c c1 : conn) (op : conn_op)
    (hinv : hdr2_inv env c.ic) (h : conn_apply fuel env c op = some c1) :
    hdr2_inv env c1.ic := by
  cases op with
  | alloc state aux_size cmd func data =>
    simp only [conn_apply, Option.map_eq_some'] at h
    obtain ⟨r, hr, rfl⟩ := h
    exact inv_of_rx env c.ic _ hinv rfl rfl
  | write i =>
    simp only [conn_apply, Option.bind_eq_some, Option.map_eq_some'] at h
    obtain ⟨m, hm, ic1, hw, rfl⟩ := h
    obtain ⟨k1, k2⟩ := write_flags fuel _ _ ic1 hw
    exact inv_of_rx env c.ic _ hinv k1 (by rw [k2])
  | free i =>
    simp only [conn_apply, Option.bind_eq_some, Option.map_eq_some'] at h
    obtain ⟨m, hm, e, hw, rfl⟩ := h
    exact inv_of_rx env c.ic _ hinv rfl rfl
  | cleanuprx i =>
    simp only [conn_apply, Option.bind_eq_some, Option.map_eq_some'] at h
    obtain ⟨m, hm, e, hw, rfl⟩ := h
    exact inv_of_rx env c.ic _ hinv rfl rfl
  | reply state error =>
    simp only [conn_apply, Option.map_eq_some', dmsg_state_reply] at h
    obtain ⟨ic1, hw, rfl⟩ := h
    obtain ⟨k1, k2⟩ := reply_cmd_flags fuel _ _ _ _ ic1 hw
    exact inv_of_rx env c.ic _ hinv k1 (by rw [k2])
  | result state error =>
    simp only [conn_apply, Option.map_eq_some', dmsg_state_result] at h
    obtain ⟨ic1, hw, rfl⟩ := h
    obtain ⟨k1, k2⟩ := reply_cmd_flags fuel _ _ _ _ ic1 hw
    exact inv_of_rx env c.ic _ hinv k1 (by rw [k2])
  | read =>
    simp only [conn_apply, Option.map_eq_some'] at h
    obtain ⟨r, hr, rfl⟩ := h
    exact read_room fuel env c.ic r hinv hr
  | fill i m =>
    simp only [conn_apply, Option.map_eq_some'] at h
    obtain ⟨m0, hm0, rfl⟩ := h
    exact hinv
  | flush1 =>
    simp only [conn_apply, Option.some.injEq] at h
    subst h
    exact inv_of_rx env c.ic _ hinv (flush1_credits env c.ic).2.1 (flush1_flags env c.ic)
  | sent =>
    simp only [conn_apply, Option.map_eq_some'] at h
    obtain ⟨ic1, hw, rfl⟩ := h
    unfold dmsg_iocom_flush2_retire at hw
    cases hq : c.ic.ioq_tx.msgq with
    | nil =>
      rw [hq] at hw
      cases hw
    | cons m rest =>
      rw [hq] at hw
      simp only [Option.map_eq_some'] at hw
      obtain ⟨e, hw, rfl⟩ := hw
      exact inv_of_rx env c.ic _ hinv rfl rfl
  | drain =>
    simp only [conn_apply, Option.map_eq_some'] at h
    obtain ⟨ic1, hw, rfl⟩ := h
    exact inv_of_rx env c.ic _ hinv (drain_rx _ _ hw).1 (drain_flags _ _ hw)
  | done =>
    simp only [conn_apply, Option.map_eq_some'] at h
    obtain ⟨ic1, hw, rfl⟩ := h
    unfold dmsg_iocom_done at hw
    simp only [Option.bind_eq_bind, Option.bind_eq_some, Option.pure_def] at hw
    obtain ⟨r, hr, t, ht, hw⟩ := hw
    injection hw with hw
    subst hw
    obtain ⟨k1, k2, k3, k4⟩ := ioq_done_room _ _ r hr
    obtain ⟨hc, hL, hH⟩ := hinv
    refine ⟨hc, ?_, ?_⟩
    · show 2 * env.sizeof_any ≤ r.2.buf.length
      rw [k1]
      exact hL
    · intro hs he
      have hs2 : r.2.state = .HEADER2 := hs
      have he2 : r.2.error = 0 := he
      rw [k2] at hs2
      rw [k3] at he2
      exact k4 (hH hs2 he2)
  | hold state =>
    simp only [conn_apply, Option.map_eq_some'] at h
    obtain ⟨e, hw, rfl⟩ := h
    exact inv_of_rx env c.ic _ hinv rfl rfl
  | drop i =>
    simp only [conn_apply, Option.bind_eq_some, Option.map_eq_some'] at h
    obtain ⟨a, hm, e, hw, rfl⟩ := h
    exact inv_of_rx env c.ic _ hinv rfl rfl

theorem run_room (fuel : Nat) (env : Env) : ∀ (ops : List conn_op) (c c1 : conn),
    hdr2_inv env c.ic → conn_run fuel env ops c = some c1 → hdr2_inv env c1.ic := by
  intro ops
  induction ops with
  | nil =>
    intro c c1 hinv h
    simp only [conn_run, Option.some.injEq] at h
    subst h
    exact hinv
  | cons op ops ih =>
    intro c c1 hinv h
    simp only [conn_run, Option.bind_eq_some] at h
    obtain ⟨c2, h2, h⟩ := h
    exact ih c2 c1 (apply_room fuel env c c2 op hinv h2) h

theorem init_room (env : Env) (signal_func : Bool) (sock : List sock_event) (rand : List Nat)
    (hS : 2 * env.sizeof_any ≤ env.sizeof_buf) :
    hdr2_inv env (conn_init env signal_func sock rand).ic := by
  refine ⟨rfl, ?_, fun hs => ?_⟩
  · show 2 * env.sizeof_any ≤ (List.replicate env.sizeof_buf 0).length
    rw [List.length_replicate]
    exact hS
  · cases hs
/-- The case `HEADER1` on a plaintext link: a call that leaves the parser in
another state than `HEADER1` has fallen through to `HEADER2`, with a FIFO that
has the room `hdr2_room`, and with `nmax` positive when the extended header is
not yet complete. -/
theorem header1_site (env : Env) (ic : dmsg_iocom) (bytes : Nat) (r : switch_result)
    (hc : ic.flags.CRYPTED = false) (hL : 2 * env.sizeof_any ≤ ic.ioq_rx.buf.length)
    (hst : ic.ioq_rx.state = .HEADER1)
    (h : dmsg_ioq_read_HEADER1 env ic bytes = some r) (hr : r.ic.ioq_rx.state ≠ .HEADER1) :
    ∃ ic3 b nmax, dmsg_ioq_read_HEADER1 env ic bytes = dmsg_ioq_read_HEADER2 env ic3 b nmax ∧
      ic3.flags.CRYPTED = false ∧ ic3.ioq_rx.state = .HEADER2 ∧
      b = ic3.ioq_rx.fifo_cdx - ic3.ioq_rx.fifo_beg ∧
      nmax ≤ ic3.ioq_rx.buf.length - ic3.ioq_rx.fifo_end ∧
      hdr2_room ic3.ioq_rx ∧ (b < ic3.ioq_rx.hbytes → nmax > 0) := by
  have h64 : sizeof_head = 64 := rfl
  have h0 := h
  unfold dmsg_ioq_read_HEADER1 at h ⊢
  simp only [] at h ⊢
  have hs := makeroom_same ic.ioq_rx sizeof_head
  have hg := makeroom_grow ic.ioq_rx sizeof_head
  generalize hrd : (if bytes < sizeof_head then ioq_sock_read _ _
      else ({ ic := _, nmax := _, brk := false } : sock_read_result)) = rd at h ⊢
  have key : rd.ic.flags = ic.flags ∧ rd.ic.ioq_rx.state = ic.ioq_rx.state ∧
      ic.ioq_rx.buf.length ≤ rd.ic.ioq_rx.buf.length := by
    rw [← hrd]
    split
    · obtain ⟨k1, -, k3, -, -, -, -, k8, -⟩ := sock_read_room
        ({ ic with ioq_rx := (dmsg_ioq_makeroom ic.ioq_rx sizeof_head).1 } : dmsg_iocom)
        (dmsg_ioq_makeroom ic.ioq_rx sizeof_head).2
      exact ⟨k1, k3.trans hs.2.2.2.2.2.1, le_trans hg k8⟩
    · exact ⟨rfl, hs.2.2.2.2.2.1, hg⟩
  obtain ⟨k1, k3, k8⟩ := key
  have hc2 : rd.ic.flags.CRYPTED = false := by rw [k1]; exact hc
  rw [decrypt_plain env rd.ic hc2] at h ⊢
  split_ifs at h ⊢ with hb hlt
  · injection h with h
    subst h
    exact absurd (k3.trans hst) hr
  · injection h with h
    subst h
    exact absurd (k3.trans hst) hr
  · have hlt2 : ¬ (rd.ic.ioq_rx.fifo_end - rd.ic.ioq_rx.fifo_beg < sizeof_head) := hlt
    generalize hic2 : (({ rd.ic with ioq_rx := { rd.ic.ioq_rx with
        fifo_cdx := rd.ic.ioq_rx.fifo_end, fifo_cdn := rd.ic.ioq_rx.fifo_end } } :
        dmsg_iocom).check (!ic.ioq_rx.msg.isSome)) = ic2 at h ⊢
    have q1 : ic2.ioq_rx.fifo_cdx = ic2.ioq_rx.fifo_end := by rw [← hic2]; rfl
    have q2 : ic2.ioq_rx.fifo_cdn = ic2.ioq_rx.fifo_end := by rw [← hic2]; rfl
    have q3 : ic2.ioq_rx.fifo_beg ≤ ic2.ioq_rx.fifo_cdx := by
      rw [← hic2]
      show rd.ic.ioq_rx.fifo_beg ≤ rd.ic.ioq_rx.fifo_end
      omega
    have q4 : 2 * env.sizeof_any ≤ ic2.ioq_rx.buf.length := by
      rw [← hic2]
      exact le_trans hL k8
    have q5 : ic2.flags.CRYPTED = false := by rw [← hic2]; exact hc2
    have q6 : ic2.ioq_rx.state = .HEADER1 := by rw [← hic2]; exact k3.trans hst
    have hE1 : DMSG_IOQ_ERROR_SYNC ≠ 0 := by decide
    by_cases hmagic : (hdr_of_bytes (slice ic2.ioq_rx.buf ic2.ioq_rx.fifo_beg
          sizeof_head)).magic ≠ DMSG_HDR_MAGIC ∧
        (hdr_of_bytes (slice ic2.ioq_rx.buf ic2.ioq_rx.fifo_beg sizeof_head)).magic ≠
          DMSG_HDR_MAGIC_REV
    · unfold dmsg_ioq_read_HEADER1_check at h
      simp only [] at h
      rw [if_pos hmagic] at h
      injection h with h
      subst h
      exact absurd q6 hr
    · by_cases hfield : hdr_hbytes (hdr_of_bytes (slice ic2.ioq_rx.buf ic2.ioq_rx.fifo_beg
            sizeof_head)) < sizeof_head ∨
          hdr_hbytes (hdr_of_bytes (slice ic2.ioq_rx.buf ic2.ioq_rx.fifo_beg sizeof_head)) >
            env.sizeof_any ∨
          DMSG_DOALIGN 32 (hdr_aux_size (hdr_of_bytes (slice ic2.ioq_rx.buf ic2.ioq_rx.fifo_beg
            sizeof_head))) > env.DMSG_AUX_MAX
      · unfold dmsg_ioq_read_HEADER1_check at h
        simp only [] at h
        rw [if_neg hmagic, if_pos hfield] at h
        injection h with h
        subst h
        exact absurd q6 hr
      · cases ham : dmsg_msg_alloc_locked ic2.eng 0
            (hdr_aux_size (hdr_of_bytes (slice ic2.ioq_rx.buf ic2.ioq_rx.fifo_beg sizeof_head)))
            (hdr_hbytes (hdr_of_bytes (slice ic2.ioq_rx.buf ic2.ioq_rx.fifo_beg sizeof_head)) /
              DMSG_ALIGN) 0 false with
        | none =>
          unfold dmsg_ioq_read_HEADER1_check at h
          simp only [] at h
          rw [if_neg hmagic, if_neg hfield, ham] at h
          cases h
        | some am =>
          obtain ⟨ic3, nmax, heq, f1, f2, -, f4, f5, f6, f7, f8⟩ :=
            header1_falls_through env ic2 ic.ioq_rx.msg.isSome am q4 q1 q2 q3 hmagic hfield ham
          refine ⟨ic3, _, nmax, heq, by rw [f1]; exact q5, f2, f4.symm, ?_, f7, ?_⟩
          · rw [f5]
            omega
          · exact f8

/-- C38. On a plaintext link whose buffer holds two extended headers
(`2 * sizeof(msg->any) <= sizeof(ioq->buf)`), for every list of events of the
socket (every way of splitting the frames into partial reads, with `EAGAIN`
in between) and every sequence of calls on the connection: whenever the
`switch` of `dmsg_ioq_read` runs the case `HEADER2`, on re-entry in the state
`HEADER2` (where `dmsg_ioq_makeroom` is not called again) as well as by
falling through from `HEADER1`, it runs it on a FIFO with the room
`hdr2_room`, with `bytes` the bytes buffered and `nmax` within the free space
at the tail, and `nmax` is greater than 0 when fewer than `hbytes` bytes are
buffered: the assertion `nmax > 0` before the read holds. -/
theorem header2_nmax_positive (fuel : Nat) (env : Env) (signal_func : Bool)
    (sock : List sock_event) (rand : List Nat) (ops : List conn_op) (c : conn)
    (r : switch_result)
    (hS : 2 * env.sizeof_any ≤ env.sizeof_buf)
    (hrun : conn_run fuel env ops (conn_init env signal_func sock rand) = some c)
    (he : c.ic.ioq_rx.error = 0)
    (hsw : dmsg_ioq_read_switch env
      { c.ic with flags := { c.ic.flags with RREQ := false, RWORK := false } } = some r)
    (hst : c.ic.ioq_rx.state = .HEADER2 ∨
      (c.ic.ioq_rx.state = .HEADER1 ∧ r.ic.ioq_rx.state ≠ .HEADER1)) :
    c.ic.flags.CRYPTED = false ∧
    (c.ic.ioq_rx.state = .HEADER2 →
      c.ic.ioq_rx.fifo_cdx - c.ic.ioq_rx.fifo_beg < c.ic.ioq_rx.hbytes →
      0 < c.ic.ioq_rx.buf.length - c.ic.ioq_rx.fifo_end) ∧
    ∃ ic3 bytes nmax,
      dmsg_ioq_read_switch env
          { c.ic with flags := { c.ic.flags with RREQ := false, RWORK := false } } =
        dmsg_ioq_read_HEADER2 env ic3 bytes nmax ∧
      ic3.flags.CRYPTED = false ∧ ic3.ioq_rx.state = .HEADER2 ∧
      bytes = ic3.ioq_rx.fifo_cdx - ic3.ioq_rx.fifo_beg ∧
      nmax ≤ ic3.ioq_rx.buf.length - ic3.ioq_rx.fifo_end ∧
      hdr2_room ic3.ioq_rx ∧ (bytes < ic3.ioq_rx.hbytes → nmax > 0) := by
  have hinv := run_room fuel env ops _ c (init_room env signal_func sock rand hS) hrun
  obtain ⟨hc, hL, hH⟩ := hinv
  refine ⟨hc, ?_, ?_⟩
  · intro hs hlt
    obtain ⟨-, -, r3⟩ := hH hs he
    omega
  · rcases hst with hs | ⟨hs, hr⟩
    · obtain ⟨r1, r2, r3⟩ := hH hs he
      refine ⟨{ c.ic with flags := { c.ic.flags with RREQ := false, RWORK := false } },
        c.ic.ioq_rx.fifo_cdx - c.ic.ioq_rx.fifo_beg,
        c.ic.ioq_rx.buf.length - c.ic.ioq_rx.fifo_end, ?_, hc, hs, rfl, le_refl _,
        ⟨r1, r2, r3⟩, ?_⟩
      · unfold dmsg_ioq_read_switch
        simp only [hs]
      · show c.ic.ioq_rx.fifo_cdx - c.ic.ioq_rx.fifo_beg < c.ic.ioq_rx.hbytes →
          c.ic.ioq_rx.buf.length - c.ic.ioq_rx.fifo_end > 0
        intro hlt
        omega
    · have e1 : dmsg_ioq_read_switch env
          { c.ic with flags := { c.ic.flags with RREQ := false, RWORK := false } } =
          dmsg_ioq_read_HEADER1 env
            { c.ic with flags := { c.ic.flags with RREQ := false, RWORK := false } }
            (c.ic.ioq_rx.fifo_cdx - c.ic.ioq_rx.fifo_beg) := by
        unfold dmsg_ioq_read_switch
        simp only [hs]
      rw [e1] at hsw ⊢
      exact header1_site env _ _ r (by exact hc) (by exact hL) (by exact hs) hsw hr

/-- The statement `header2_nmax_positive` on a frame that the socket delivers
in pieces: after the first call of `dmsg_ioq_read` the parser waits in
`HEADER2` with 100 of the 128 bytes of the extended header, and the next call
re-enters `HEADER2` with 412 free bytes at the tail. -/
theorem header2_nmax_positive_witness :
    ∃ c r, conn_run 5 ex_env [conn_op.read] ex_split_conn = some c ∧
      room_view_of c.ic =
        { state := .HEADER2, error := 0, bytes := 100, hbytes := 128, nmax := 412 } ∧
      dmsg_ioq_read_switch ex_env
        { c.ic with flags := { c.ic.flags with RREQ := false, RWORK := false } } = some r ∧
      c.ic.flags.CRYPTED = false ∧
      (c.ic.ioq_rx.state = .HEADER2 →
        c.ic.ioq_rx.fifo_cdx - c.ic.ioq_rx.fifo_beg < c.ic.ioq_rx.hbytes →
        0 < c.ic.ioq_rx.buf.length - c.ic.ioq_rx.fifo_end) ∧
      ∃ ic3 bytes nmax,
        dmsg_ioq_read_switch ex_env
            { c.ic with flags := { c.ic.flags with RREQ := false, RWORK := false } } =
          dmsg_ioq_read_HEADER2 ex_env ic3 bytes nmax ∧
        ic3.flags.CRYPTED = false ∧ ic3.ioq_rx.state = .HEADER2 ∧
        bytes = ic3.ioq_rx.fifo_cdx - ic3.ioq_rx.fifo_beg ∧
        nmax ≤ ic3.ioq_rx.buf.length - ic3.ioq_rx.fifo_end ∧
        hdr2_room ic3.ioq_rx ∧ (bytes < ic3.ioq_rx.hbytes → nmax > 0) := by
  cases h : conn_run 5 ex_env [conn_op.read] ex_split_conn with
  | none =>
    have h2 : (conn_run 5 ex_env [conn_op.read] ex_split_conn).isSome = true := by decide!
    rw [h] at h2
    cases h2
  | some c =>
    have h3 : (conn_run 5 ex_env [conn_op.read] ex_split_conn).map
        (fun c => (room_view_of c.ic,
          (dmsg_ioq_read_switch ex_env
            { c.ic with flags := { c.ic.flags with RREQ := false, RWORK := false } }).isSome)) =
        some ({ state := .HEADER2, error := 0, bytes := 100, hbytes := 128, nmax := 412 },
          true) := by decide!
    rw [h] at h3
    simp only [Option.map_some', Option.some.injEq, Prod.mk.injEq] at h3
    obtain ⟨hv, hsome⟩ := h3
    cases hsw : dmsg_ioq_read_switch ex_env
        { c.ic with flags := { c.ic.flags with RREQ := false, RWORK := false } } with
    | none =>
      rw [hsw] at hsome
      cases hsome
    | some r =>
      have hst : c.ic.ioq_rx.state = .HEADER2 := congrArg room_view.state hv
      have he : c.ic.ioq_rx.error = 0 := congrArg room_view.error hv
      have hS : 2 * ex_env.sizeof_any ≤ ex_env.sizeof_buf := by decide
      have key := header2_nmax_positive 5 ex_env false _ [] [conn_op.read] c r hS h he hsw
        (Or.inl hst)
      exact ⟨c, r, rfl, hv, hsw, key⟩
/-! ## The failure cascade allocates no state -/

theorem hold_brk (e : dmsg_engine) (p : Nat) (e1 : dmsg_engine)
    (h : dmsg_state_hold e p = some e1) : e1.brk = e.brk :=
  (hold_shape _ _ _ h).1

theorem free_brk (e : dmsg_engine) (p : Nat) (e1 : dmsg_engine)
    (h : dmsg_state_free e p = some e1) : e1.brk = e.brk := by
  unfold dmsg_state_free at h
  simp only [Option.bind_eq_bind, Option.bind_eq_some, Option.pure_def, Option.some.injEq] at h
  obtain ⟨s, -, rfl⟩ := h
  rfl

theorem drop_brk (e : dmsg_engine) (p : Nat) (e1 : dmsg_engine)
    (h : dmsg_state_drop e p = some e1) : e1.brk = e.brk := by
  unfold dmsg_state_drop at h
  simp only [Option.bind_eq_bind, Option.bind_eq_some, Option.pure_def] at h
  obtain ⟨s, -, h⟩ := h
  split_ifs at h
  · have k := free_brk _ _ _ h
    exact k
  · injection h with h
    subst h
    rfl

theorem subq_delete_brk (e : dmsg_engine) (c : Nat) (e1 : dmsg_engine)
    (h : dmsg_subq_delete e c = some e1) : e1.brk = e.brk := by
  unfold dmsg_subq_delete at h
  simp only [Option.bind_eq_bind, Option.bind_eq_some, Option.pure_def] at h
  obtain ⟨s, -, h⟩ := h
  by_cases hsub : s.flags.SUBINSERTED = true
  · rw [if_pos hsub] at h
    simp only [Option.bind_eq_some] at h
    obtain ⟨p, -, ps, -, h⟩ := h
    by_cases hmem : c ∈ (if ps.scan = some c then { ps with scan := none } else ps).subq
    · rw [if_pos hmem] at h
      simp only [Option.bind_eq_some] at h
      obtain ⟨s1, -, ps2, -, h⟩ := h
      by_cases hemp : ps2.subq.isEmpty = true
      · rw [if_pos hemp] at h
        simp only [Option.bind_eq_some] at h
        obtain ⟨e3, he3, h⟩ := h
        have k := (drop_brk _ _ _ h).trans (drop_brk _ _ _ he3)
        exact k
      · rw [if_neg hemp] at h
        simp only [Option.some_bind] at h
        have k := drop_brk _ _ _ h
        exact k
    · rw [if_neg hmem] at h
      cases h
  · rw [if_neg hsub] at h
    injection h with h
    subst h
    rfl

theorem msg_free_brk (e : dmsg_engine) (msg : dmsg_msg) (e1 : dmsg_engine)
    (h : dmsg_msg_free e msg = some e1) : e1.brk = e.brk := by
  unfold dmsg_msg_free dmsg_msg_free_locked at h
  simp only [Option.bind_eq_bind, Option.bind_eq_some] at h
  obtain ⟨st, hst, s, -, h⟩ := h
  rw [hst] at h
  exact drop_brk _ _ _ h

/-- The allocation of a message that opens no transaction: the state of the
message is the one given, it gains a reference, and nothing else changes. -/
theorem alloc_keep_state (e : dmsg_engine) (state aux_size cmd func : Nat) (data : Bool)
    (r : dmsg_engine × dmsg_msg) (hc : ¬ cmd &&& (DMSGF_CREATE ||| DMSGF_REPLY) = DMSGF_CREATE)
    (h : dmsg_msg_alloc_locked e state aux_size cmd func data = some r) :
    r.1.brk = e.brk ∧ r.2.state = some state ∧
    ∃ s, e.heap state = some s ∧ r.1.heap state = some { s with refs := s.refs + 1 } := by
  unfold dmsg_msg_alloc_locked at h
  simp only [hc, decide_False, Bool.false_eq_true, if_false, Option.bind_eq_bind,
    Option.bind_eq_some, Option.pure_def, Option.map_eq_some'] at h
  obtain ⟨a, ⟨e1, he1, ha⟩, s0, hs0, pstate, -, s1, -, ps1, -, h⟩ := h
  have k : e1.brk = e.brk := hold_brk _ _ _ he1
  rw [hold_eq e state s0 hs0] at he1
  injection he1 with he1
  injection h with h
  subst h ha he1
  exact ⟨k, rfl, s0, hs0, put_heap_same _ _ _⟩

theorem switch_brk (e : dmsg_engine) (msg : dmsg_msg) (state : Nat) (pstate : Option Nat)
    (l : msgrx_locals) (hne : some state ≠ pstate)
    (h : dmsg_state_msgrx_switch e msg state pstate = some l) : l.eng.brk = e.brk := by
  unfold dmsg_state_msgrx_switch at h
  simp only [] at h
  split_ifs at h
  all_goals first
    | exact absurd hne (by assumption)
    | (injection h with h; subst h; rfl)
    | (simp only [Option.bind_eq_some] at h
       obtain ⟨st, hst, h⟩ := h
       first
         | (injection h with h; subst h; rfl)
         | (split_ifs at h <;> (injection h with h; subst h; rfl)))

theorem remove_brk (e : dmsg_engine) (cmd state : Nat) (st : dmsg_state) (e1 : dmsg_engine)
    (h : dmsg_state_msgrx_remove e cmd state st = some e1) : e1.brk = e.brk := by
  unfold dmsg_state_msgrx_remove at h
  simp only [Option.bind_eq_bind, Option.bind_eq_some] at h
  obtain ⟨e7, he7, h⟩ := h
  have h7 : e7.brk = e.brk := by
    by_cases hR : st.rxcmd &&& DMSGF_REPLY ≠ 0
    · rw [if_pos hR] at he7
      simp only [Option.map_eq_some'] at he7
      obtain ⟨t, -, rfl⟩ := he7
      rfl
    · rw [if_neg hR] at he7
      simp only [Option.map_eq_some'] at he7
      obtain ⟨t, -, rfl⟩ := he7
      rfl
  have k := drop_brk _ _ _ h
  exact k.trans h7

theorem adjust_brk (l : msgrx_locals) (r : msgrx_result)
    (h : dmsg_state_msgrx_adjust l = some r) : r.eng.brk = l.eng.brk := by
  unfold dmsg_state_msgrx_adjust at h
  simp only [Option.bind_eq_bind, Option.bind_eq_some, Option.pure_def] at h
  obtain ⟨mst2, -, ms2, -, st2, -, h⟩ := h
  split_ifs at h
  · injection h with h
    rw [← h]
    rfl
  · simp only [Option.map_eq_some'] at h
    obtain ⟨e9, he9, h⟩ := h
    rw [← h]
    have k := remove_brk _ _ _ _ _ he9
    exact k
  · injection h with h
    rw [← h]
    rfl
  · injection h with h
    rw [← h]
    rfl

/-- The call `dmsg_state_msgrx(msg, 1)` on a message whose state is not its own
parent allocates no state. -/
theorem msgrx_brk (e : dmsg_engine) (msg : dmsg_msg) (r : msgrx_result) (x : Nat)
    (s : dmsg_state) (h : dmsg_state_msgrx e msg true = some r) (hm : msg.state = some x)
    (hs : e.heap x = some s) (hne : s.parent ≠ some x) : r.eng.brk = e.brk := by
  unfold dmsg_state_msgrx at h
  simp only [hm, hs, Option.bind_eq_bind, Option.some_bind, dmsg_state_msgrx_circuit, if_true,
    dmsg_state_msgrx_find, dmsg_state_msgrx_assign, Option.bind_eq_some] at h
  obtain ⟨l, hl, h⟩ := h
  have k := switch_brk _ _ _ _ l (fun hc => hne hc.symm) hl
  exact (adjust_brk l r h).trans k

theorem cleanuprx_brk (e : dmsg_engine) (msg : dmsg_msg) (e1 : dmsg_engine)
    (h : dmsg_state_cleanuprx e msg = some e1) : e1.brk = e.brk := by
  unfold dmsg_state_cleanuprx at h
  simp only [Option.bind_eq_bind, Option.bind_eq_some] at h
  obtain ⟨state, -, st, -, h⟩ := h
  split_ifs at h
  · exact msg_free_brk _ _ _ h
  · simp only [Option.bind_eq_some] at h
    obtain ⟨ea, hea, st1, hst1, e2, he2, h⟩ := h
    have h2 : e2.brk = ea.brk := by
      cases hrel : st1.relay with
      | none =>
        rw [hrel] at he2
        injection he2 with he2
        subst he2
        rfl
      | some r =>
        rw [hrel] at he2
        simp only [Option.bind_eq_bind, Option.bind_eq_some, Option.pure_def] at he2
        obtain ⟨eb, heb, st2, hst2, he2⟩ := he2
        injection he2 with he2
        subst he2
        have k := drop_brk _ _ _ heb
        exact k
    exact (msg_free_brk _ _ _ h).trans (h2.trans (subq_delete_brk _ _ _ hea))
  · exact msg_free_brk _ _ _ h

theorem abort_msg_brk (e : dmsg_engine) (x : Nat) (s : dmsg_state) (e1 : dmsg_engine)
    (hs : e.heap x = some s) (hne : s.parent ≠ some x)
    (h : dmsg_state_abort_msg e x = some e1) : e1.brk = e.brk := by
  unfold dmsg_state_abort_msg at h
  simp only [Option.bind_eq_bind, Option.bind_eq_some] at h
  obtain ⟨am, ham, s3, hs3, r, hr, h⟩ := h
  obtain ⟨hb, hst, s0, hs0, hput⟩ := alloc_keep_state e x 0 DMSG_LNK_ERROR 0 false am
    (by decide) ham
  rw [hs] at hs0
  injection hs0 with hs0
  subst hs0
  have h1 := msgrx_brk am.1 _ r x _ hr hst hput hne
  have h2 := cleanuprx_brk _ _ _ h
  exact h2.trans (h1.trans hb)

/-- The function `dmsg_state_abort` on a state that is not its own parent
allocates no state. -/
theorem abort_brk (fuel : Nat) (e : dmsg_engine) (x : Nat) (s : dmsg_state) (e1 : dmsg_engine)
    (hs : e.heap x = some s) (hne : s.parent ≠ some x)
    (h : dmsg_state_abort fuel e x = some e1) : e1.brk = e.brk := by
  unfold dmsg_state_abort at h
  simp only [hs, Option.bind_eq_bind, Option.some_bind, Option.pure_def] at h
  split_ifs at h with hab
  · injection h with h
    subst h
    rfl
  · simp only [Option.bind_eq_some] at h
    obtain ⟨e2, he2, s2, hs2, h⟩ := h
    have hdo := dying_changes _ _ _ _ he2
    have hb2 : e2.brk = e.brk := hdo.brk
    obtain ⟨t, d, ht, hd⟩ := dying_only_bwd hdo x s2 hs2
    rw [put_heap_same] at ht
    injection ht with ht
    have hp2 : s2.parent = s.parent := by
      rw [hd, ← ht]
      rfl
    split_ifs at h
    · injection h with h
      subst h
      exact hb2
    · exact (abort_msg_brk e2 x s2 e1 hs2 (by rw [hp2]; exact hne) h).trans hb2
    · injection h with h
      subst h
      exact hb2
/-! ## Every step of the cascade makes progress -/

theorem casc_refl (e : dmsg_engine) : casc e e :=
  ⟨rfl, fun _ s1 h => ⟨s1, h, fun h => h⟩⟩

theorem casc_trans {e e1 e2 : dmsg_engine} (h1 : casc e e1) (h2 : casc e1 e2) : casc e e2 := by
  refine ⟨h2.1.trans h1.1, ?_⟩
  intro a s2 hs2
  obtain ⟨s1, hs1, hab1⟩ := h2.2 a s2 hs2
  obtain ⟨s, hs, hab⟩ := h1.2 a s1 hs1
  exact ⟨s, hs, fun h => hab1 (hab h)⟩

/-- A step that allocates nothing, seen from the engine that it leaves. -/
theorem casc_of_step {k : List dmsg_msg} {e e1 : dmsg_engine} (h : ab_step k e e1)
    (hb : e1.brk = e.brk) (hT : tree_inv e1) : casc e e1 := by
  refine ⟨hb, ?_⟩
  intro a s1 hs1
  have ha : a < e.brk := by
    by_contra hc
    rw [hT.fresh a (by rw [hb]; omega)] at hs1
    cases hs1
  exact h.heap a s1 ha hs1

theorem casc_put (e : dmsg_engine) (p : Nat) (s s1 : dmsg_state) (hs : e.heap p = some s)
    (hab : s.flags.ABORTING = true → s1.flags.ABORTING = true) : casc e (e.put p s1) := by
  refine ⟨rfl, ?_⟩
  intro a t ht
  by_cases hap : a = p
  · subst hap
    rw [put_heap_same] at ht
    injection ht with ht
    subst ht
    exact ⟨s, hs, hab⟩
  · rw [put_heap_other _ _ _ _ hap] at ht
    exact ⟨t, ht, fun h => h⟩

theorem casc_dying {e e1 : dmsg_engine} (h : dying_only e e1) : casc e e1 := by
  refine ⟨h.brk, ?_⟩
  intro a s1 hs1
  obtain ⟨s, d, hs, hd⟩ := dying_only_bwd h a s1 hs1
  refine ⟨s, hs, fun hab => ?_⟩
  rw [hd]
  exact hab

/-- The function `dmsg_state_abort` on a state other than `state0`: a step of
the cascade, after which the state, if it is still allocated, is `ABORTING`. -/
theorem abort_casc (fuel : Nat) (e : dmsg_engine) (x : Nat) (e1 : dmsg_engine)
    (h : dmsg_state_abort fuel e x = some e1) (hT : tree_inv e) (hx : x ≠ 0)
    (hf : e1.free_failed = false) :
    casc e e1 ∧ ∀ s1, e1.heap x = some s1 → s1.flags.ABORTING = true := by
  have hT1 : tree_inv e1 := ((abort_tstep _ _ _ _ h) hf).2 hT hx
  have hlt : x < e.brk := by
    by_contra hc
    have h0 := hT.fresh x (by omega)
    unfold dmsg_state_abort at h
    rw [h0] at h
    cases h
  refine ⟨?_, (abort_step fuel e x e1 hlt h).2⟩
  have h' := h
  unfold dmsg_state_abort at h
  simp only [Option.bind_eq_bind, Option.bind_eq_some, Option.pure_def] at h
  obtain ⟨s, hs, h⟩ := h
  have hne : s.parent ≠ some x := fun hc => hx (hT.self x s hs hc)
  have hb := abort_brk fuel e x s e1 hs hne h'
  split_ifs at h with hab
  · injection h with h
    subst h
    exact casc_refl _
  · simp only [Option.bind_eq_some] at h
    obtain ⟨e2, he2, s2, -, h⟩ := h
    have h1 : casc e (e.put x { s with flags := { s.flags with ABORTING := true } }) :=
      casc_put e x s _ hs (fun _ => rfl)
    have h2 := casc_trans h1 (casc_dying (dying_changes _ _ _ _ he2))
    split_ifs at h
    · injection h with h
      subst h
      exact h2
    · obtain ⟨m, hm⟩ := abort_msg_step _ _ _ h
      exact casc_trans h2 (casc_of_step hm (hb.trans h2.1.symm) hT1)
    · injection h with h
      subst h
      exact h2

/-- The cascade of `dmsg_simulate_failure` allocates no state and clears no
`ABORTING` flag, and the state that it was asked to abort is `ABORTING`
afterwards if it is still allocated. -/
theorem simulate_casc : ∀ (fuel : Nat),
    (∀ (e : dmsg_engine) (x : Nat) (m : Bool) (err : Nat) (r : dmsg_engine),
      dmsg_simulate_failure fuel e x m err = some r → tree_inv e → r.free_failed = false →
      (m = true → x ≠ 0) →
      casc e r ∧ (m = true → ∀ s1, r.heap x = some s1 → s1.flags.ABORTING = true)) ∧
    (∀ (e : dmsg_engine) (q err : Nat) (c : Option Nat) (r : dmsg_engine),
      dmsg_simulate_failure_scan fuel e q err c = some r → tree_inv e → r.free_failed = false →
      (∀ y, c = some y → ∀ s, e.heap q = some s → y ∈ s.subq) → casc e r) := by
  intro fuel
  induction fuel with
  | zero =>
    refine ⟨?_, ?_⟩
    · intro e x m err r h
      simp [dmsg_simulate_failure] at h
    · intro e q err c r h
      simp [dmsg_simulate_failure_scan] at h
  | succ n ih =>
    refine ⟨?_, ?_⟩
    · intro e x m err r h hT hf hP
      have key : ∃ ea eb s ec, dmsg_state_hold e x = some ea ∧
          (if m = true then dmsg_state_abort n ea x else some ea) = some eb ∧
          eb.heap x = some s ∧ dmsg_simulate_failure_scan n eb x err s.subq.head? = some ec ∧
          dmsg_state_drop ec x = some r := by
        unfold dmsg_simulate_failure at h
        cases m with
        | true =>
          simp only [if_true, Option.bind_eq_bind, Option.bind_eq_some, Option.pure_def] at h
          obtain ⟨ea, hea, eb, heb, s, hs, ec, hec, h⟩ := h
          exact ⟨ea, eb, s, ec, hea, by simpa using heb, hs, hec, h⟩
        | false =>
          simp only [Bool.false_eq_true, if_false, Option.bind_eq_bind, Option.bind_eq_some,
            Option.pure_def, Option.some.injEq] at h
          obtain ⟨ea, hea, eb, heb, s, hs, ec, hec, h⟩ := h
          exact ⟨ea, eb, s, ec, hea, by simpa using heb, hs, hec, h⟩
      obtain ⟨ea, eb, s, ec, hea, heb, hs, hec, h⟩ := key
      have hmem : ∀ y, s.subq.head? = some y → ∀ t, eb.heap x = some t → y ∈ t.subq := by
        intro y hy t ht
        rw [hs] at ht
        injection ht with ht
        subst ht
        exact List.mem_of_mem_head? hy
      have hfc : ec.free_failed = false := ((drop_nstep _ _ _ h).1 hf).1
      have hfb : eb.free_failed = false := (((simulate_tstep n).2 eb x err _ ec hec) hfc).1
      have hTa : tree_inv ea := tree_map (hold_shape _ _ _ hea) hT
      have h1 : casc e ea := casc_of_step (hold_step _ _ _ hea) (hold_brk _ _ _ hea) hTa
      have h2 : tree_inv eb ∧ casc ea eb ∧
          (m = true → ∀ s1, eb.heap x = some s1 → s1.flags.ABORTING = true) := by
        cases m with
        | true =>
          simp only [if_true] at heb
          have hTb : tree_inv eb := ((abort_tstep _ _ _ _ heb) hfb).2 hTa (hP rfl)
          obtain ⟨k1, k2⟩ := abort_casc n ea x eb heb hTa (hP rfl) hfb
          exact ⟨hTb, k1, fun _ => k2⟩
        | false =>
          simp only [Bool.false_eq_true, if_false, Option.some.injEq] at heb
          subst heb
          exact ⟨hTa, casc_refl _, fun hc => by cases hc⟩
      obtain ⟨hTb, h2c, h2a⟩ := h2
      have h3 : casc eb ec := ih.2 eb x err _ ec hec hTb hfc hmem
      have hTc : tree_inv ec := (((simulate_tstep n).2 eb x err _ ec hec) hfc).2 hTb hmem
      have hTr : tree_inv r := (((drop_nstep _ _ _ h).1) hf).2 hTc trivial
      have h4 : casc ec r := casc_of_step (drop_step _ _ _ h) (drop_brk _ _ _ h) hTr
      refine ⟨casc_trans (casc_trans h1 h2c) (casc_trans h3 h4), ?_⟩
      intro hm s1 hs1
      obtain ⟨sc, hsc, hab⟩ := (casc_trans h3 h4).2 x s1 hs1
      exact hab (h2a hm sc hsc)
    · intro e q err c r h hT hf hP
      cases c with
      | none =>
        simp only [dmsg_simulate_failure_scan, Option.some.injEq] at h
        subst h
        exact casc_refl _
      | some y =>
        unfold dmsg_simulate_failure_scan at h
        simp only [Option.bind_eq_bind, Option.bind_eq_some] at h
        obtain ⟨ss, hss, s, hs, h⟩ := h
        by_cases hab : ss.flags.ABORTING = true
        · rw [if_pos hab] at h
          exact ih.2 e q err _ r h hT hf (fun z hz t ht => by
            rw [hs] at ht
            injection ht with ht
            subst ht
            exact tailq_next_mem _ _ _ hz)
        · rw [if_neg hab] at h
          simp only [Option.bind_eq_some] at h
          obtain ⟨e2, he2, s2, hs2, h⟩ := h
          have hsh : shape_eq e (e.put q { s with scan := some y }) :=
            shape_eq_put e q s _ hs ⟨rfl, rfl, rfl, rfl, rfl⟩
          have hT1 := tree_map hsh hT
          have hy0 : y ≠ 0 := by
            have := (hT.kid q s y hs (hP y rfl s hs)).1
            omega
          have hnext : ∀ c2, (c2 = s2.subq.head? ∨ c2 = TAILQ_NEXT s2.subq y) →
              ∀ z, c2 = some z → ∀ t, e2.heap q = some t → z ∈ t.subq := by
            intro c2 hc2 z hz t ht
            rw [hs2] at ht
            injection ht with ht
            subst ht
            rcases hc2 with hc2 | hc2
            · rw [hc2] at hz
              exact List.mem_of_mem_head? hz
            · rw [hc2] at hz
              exact tailq_next_mem _ _ _ hz
          have h0 : casc e (e.put q { s with scan := some y }) := casc_put e q s _ hs (fun h => h)
          split_ifs at h
          · have hf2 : e2.free_failed = false := (((simulate_tstep n).2 e2 q err _ r h) hf).1
            have hT2 : tree_inv e2 :=
              (((simulate_tstep n).1 _ y true err e2 he2) hf2).2 hT1 (fun _ => hy0)
            have h1 := (ih.1 _ y true err e2 he2 hT1 hf2 (fun _ => hy0)).1
            have h2 := ih.2 e2 q err _ r h hT2 hf (hnext _ (Or.inl rfl))
            exact casc_trans h0 (casc_trans h1 h2)
          · have hf2 : e2.free_failed = false := (((simulate_tstep n).2 e2 q err _ r h) hf).1
            have hT2 : tree_inv e2 :=
              (((simulate_tstep n).1 _ y true err e2 he2) hf2).2 hT1 (fun _ => hy0)
            have h1 := (ih.1 _ y true err e2 he2 hT1 hf2 (fun _ => hy0)).1
            have h2 := ih.2 e2 q err _ r h hT2 hf (hnext _ (Or.inr rfl))
            exact casc_trans h0 (casc_trans h1 h2)
/-! ## The measure of the cascade -/

theorem countP_lt_of_flip (p1 p : Nat → Bool) (y : Nat) : ∀ (l : List Nat),
    (∀ a, p1 a = true → p a = true) → y ∈ l → p y = true → p1 y = false →
    l.countP p1 < l.countP p := by
  intro l
  induction l with
  | nil =>
    intro _ hy _ _
    cases hy
  | cons a t ih =>
    intro himp hy hpy hp1y
    have hmono : t.countP p1 ≤ t.countP p := List.countP_mono_left (fun x _ hx => himp x hx)
    by_cases hay : a = y
    · subst hay
      rw [List.countP_cons_of_neg _ _ (by rw [hp1y]; decide), List.countP_cons_of_pos _ _ hpy]
      omega
    · have hyt : y ∈ t := by
        rcases List.mem_cons.1 hy with h | h
        · exact absurd h.symm hay
        · exact h
      have hlt := ih himp hyt hpy hp1y
      by_cases hpa : p1 a = true
      · rw [List.countP_cons_of_pos _ _ hpa, List.countP_cons_of_pos _ _ (himp a hpa)]
        omega
      · rw [List.countP_cons_of_neg _ _ hpa]
        have := List.countP_mono_left (l := a :: t) (p := p) (q := p) (fun _ _ h => h)
        have h2 : t.countP p ≤ (a :: t).countP p := by
          rw [List.countP_cons]
          omega
        omega

theorem live_some (e : dmsg_engine) (a : Nat) (s : dmsg_state) (h : e.heap a = some s) :
    live e a = !s.flags.ABORTING := by
  unfold live
  rw [h]

theorem live_none (e : dmsg_engine) (a : Nat) (h : e.heap a = none) : live e a = false := by
  unfold live
  rw [h]

theorem live_mono {e e1 : dmsg_engine} (h : casc e e1) (a : Nat) (ha : live e1 a = true) :
    live e a = true := by
  cases h1 : e1.heap a with
  | none =>
    rw [live_none _ _ h1] at ha
    cases ha
  | some s1 =>
    rw [live_some _ _ _ h1] at ha
    obtain ⟨s, hs, hab⟩ := h.2 a s1 h1
    rw [live_some _ _ _ hs]
    cases hb : s.flags.ABORTING
    · rfl
    · rw [hab hb] at ha
      cases ha

theorem live_count_le {e e1 : dmsg_engine} (h : casc e e1) : live_count e1 ≤ live_count e := by
  unfold live_count
  rw [h.1]
  exact List.countP_mono_left (fun a _ ha => live_mono h a ha)

theorem live_count_lt {e e1 : dmsg_engine} (h : casc e e1) (y : Nat) (hy : y < e.brk)
    (h0 : live e y = true) (h1 : live e1 y = false) : live_count e1 < live_count e := by
  unfold live_count
  rw [h.1]
  exact countP_lt_of_flip _ _ y _ (fun a ha => live_mono h a ha) (List.mem_range.2 hy) h0 h1

theorem live_count_le_brk (e : dmsg_engine) : live_count e ≤ e.brk := by
  unfold live_count
  have := List.countP_le_length (live e) (l := List.range e.brk)
  rw [List.length_range] at this
  exact this

theorem live_count_put (e : dmsg_engine) (p : Nat) (s s1 : dmsg_state) (hs : e.heap p = some s)
    (hab : s1.flags.ABORTING = s.flags.ABORTING) : live_count (e.put p s1) = live_count e := by
  have hl : live (e.put p s1) = live e := by
    funext a
    by_cases hap : a = p
    · subst hap
      rw [live_some _ _ _ (put_heap_same _ _ _), live_some _ _ _ hs, hab]
    · unfold live
      rw [put_heap_other _ _ _ _ hap]
  unfold live_count
  rw [hl]
  rfl

theorem scan_left_le (l : List Nat) (c : Option Nat) : scan_left l c ≤ l.length + 1 := by
  cases c with
  | none => exact Nat.zero_le _
  | some y =>
    have := (List.dropWhile_suffix (fun a => decide (a ≠ y)) (l := l)).sublist.length_le
    show (l.dropWhile fun a => decide (a ≠ y)).length + 1 ≤ l.length + 1
    omega

theorem scan_left_cons_ne (a : Nat) (t : List Nat) (y : Nat) (h : a ≠ y) :
    scan_left (a :: t) (some y) = scan_left t (some y) := by
  show ((a :: t).dropWhile fun a => decide (a ≠ y)).length + 1 =
    (t.dropWhile fun a => decide (a ≠ y)).length + 1
  rw [List.dropWhile_cons_of_pos (by simpa using h)]

theorem scan_left_cons_eq (a : Nat) (t : List Nat) :
    scan_left (a :: t) (some a) = t.length + 2 := by
  show ((a :: t).dropWhile fun b => decide (b ≠ a)).length + 1 = t.length + 2
  rw [List.dropWhile_cons_of_neg (by simp)]
  rfl

/-- The step `TAILQ_NEXT` of the loop brings the cursor nearer to the end of a
queue without duplicates. -/
theorem scan_left_next : ∀ (l : List Nat) (y : Nat), l.Nodup →
    scan_left l (TAILQ_NEXT l y) < scan_left l (some y) := by
  intro l
  induction l with
  | nil =>
    intro y _
    simp [TAILQ_NEXT, scan_left]
  | cons a t ih =>
    intro y hnd
    have hat : a ∉ t := (List.nodup_cons.1 hnd).1
    by_cases hay : a = y
    · subst hay
      rw [scan_left_cons_eq]
      simp only [TAILQ_NEXT, if_true]
      cases t with
      | nil => simp [scan_left]
      | cons z t2 =>
        have hza : a ≠ z := fun hc => hat (by rw [hc]; exact List.mem_cons_self _ _)
        simp only [List.head?_cons]
        rw [scan_left_cons_ne a _ z hza, scan_left_cons_eq]
        simp only [List.length_cons]
        omega
    · rw [scan_left_cons_ne a t y hay]
      simp only [TAILQ_NEXT, hay, if_false]
      cases hn : TAILQ_NEXT t y with
      | none =>
        simp only [scan_left]
        omega
      | some z =>
        have hzt : z ∈ t := tailq_next_mem _ _ _ hn
        have hza : a ≠ z := fun hc => hat (by rw [hc]; exact hzt)
        rw [scan_left_cons_ne a t z hza, ← hn]
        exact ih y (List.nodup_cons.1 hnd).2

/-- A queue of children is no longer than the allocation mark. -/
theorem subq_length_le (e : dmsg_engine) (hT : tree_inv e) (q : Nat) (s : dmsg_state)
    (hs : e.heap q = some s) : s.subq.length ≤ e.brk := by
  have hsub : s.subq ⊆ List.range e.brk := by
    intro c hc
    obtain ⟨-, sc, hsc, -⟩ := hT.kid q s c hs hc
    refine List.mem_range.2 ?_
    by_contra hlt
    rw [hT.fresh c (by omega)] at hsc
    cases hsc
  have := (List.subperm_of_subset (hT.nodup q s hs) hsub).length_le
  rw [List.length_range] at this
  exact this

/-! ## The fuel of `dmsg_state_dying` and `dmsg_state_abort` -/

theorem dying_fold_fuel (n : Nat) (b : Nat)
    (ih : ∀ (e : dmsg_engine) (x : Nat) (s : dmsg_state), e.brk = b → b - x ≤ n →
      (∀ a, e.brk ≤ a → e.heap a = none) → kid_ok e → e.heap x = some s →
      ∃ e1, dmsg_state_dying n e x = some e1) (x : Nat) (hx : b - x ≤ n + 1) :
    ∀ (l : List Nat) (ea : dmsg_engine), ea.brk = b → (∀ a, ea.brk ≤ a → ea.heap a = none) →
      kid_ok ea → (∀ c, c ∈ l → x < c ∧ ∃ sc, ea.heap c = some sc) →
      ∃ e1, l.foldlM (fun eb scan => dmsg_state_dying n eb scan) ea = some e1 := by
  intro l
  induction l with
  | nil => exact fun ea _ _ _ _ => ⟨ea, rfl⟩
  | cons c l ihl =>
    intro ea hb hfr hk hl
    obtain ⟨hlt, sc, hsc⟩ := hl c (List.mem_cons_self _ _)
    have hcb : c < b := by
      by_contra hcb
      rw [hfr c (by rw [hb]; omega)] at hsc
      cases hsc
    obtain ⟨eb, h1⟩ := ih ea c sc hb (by omega) hfr hk hsc
    have hdo := dying_changes _ _ _ _ h1
    obtain ⟨e1, h2⟩ := ihl eb (hdo.brk.trans hb) (fresh_dying hdo hfr) (kid_dying hdo hk)
      (fun c' hc' => by
        obtain ⟨g1, sc', g2⟩ := hl c' (List.mem_cons_of_mem _ hc')
        obtain ⟨d, hd⟩ := hdo.heap c' sc' g2
        exact ⟨g1, _, hd⟩)
    refine ⟨e1, ?_⟩
    rw [List.foldlM_cons, h1]
    exact h2

/-- The function `dmsg_state_dying` returns with the fuel `n` on a state that
lies no more than `n` addresses below the allocation mark: a child has a
larger address than its parent. -/
theorem dying_fuel (b : Nat) : ∀ (n : Nat) (e : dmsg_engine) (x : Nat) (s : dmsg_state),
    e.brk = b → b - x ≤ n → (∀ a, e.brk ≤ a → e.heap a = none) → kid_ok e →
    e.heap x = some s → ∃ e1, dmsg_state_dying n e x = some e1 := by
  intro n
  induction n with
  | zero =>
    intro e x s hb hn hfr _ hs
    rw [hfr x (by rw [hb]; omega)] at hs
    cases hs
  | succ n ih =>
    intro e x s hb hn hfr hk hs
    by_cases hD : s.flags.DYING = true
    · exact ⟨e, by simp [dmsg_state_dying, hs, hD]⟩
    · have hD' : s.flags.DYING = false := by
        cases hd : s.flags.DYING
        · rfl
        · exact absurd hd hD
      have hdo1 := dying_only_put e x s hs
      obtain ⟨e1, h1⟩ := dying_fold_fuel n b ih x hn s.subq
        (e.put x { s with flags := { s.flags with DYING := true } }) hb
        (fresh_dying hdo1 hfr) (kid_dying hdo1 hk)
        (fun c hc => by
          obtain ⟨hlt, sc, hsc, -, -⟩ := hk x s c hs hc
          obtain ⟨d, hd⟩ := hdo1.heap c sc hsc
          exact ⟨hlt, _, hd⟩)
      refine ⟨e1, ?_⟩
      simp only [dmsg_state_dying, hs, hD', Option.bind_eq_bind, Option.some_bind, Bool.not_false,
        if_true]
      exact h1

/-- A call of `dmsg_state_abort` that returns needs no more fuel than the
allocation mark. -/
theorem abort_fuel (f n : Nat) (e : dmsg_engine) (x : Nat) (r : dmsg_engine)
    (h : dmsg_state_abort f e x = some r) (hT : tree_inv e) (hx : x ≠ 0) (hn : e.brk ≤ n) :
    dmsg_state_abort n e x = some r := by
  rcases Nat.le_total f n with hle | hle
  · exact abort_mono_le f n hle e x r h
  · have h' := h
    unfold dmsg_state_abort at h ⊢
    cases hs : e.heap x with
    | none =>
      rw [hs] at h
      cases h
    | some s =>
      rw [hs] at h
      simp only [Option.bind_eq_bind, Option.some_bind, Option.pure_def] at h ⊢
      by_cases hab : s.flags.ABORTING = true
      · rw [if_pos hab] at h ⊢
        exact h
      · rw [if_neg hab] at h ⊢
        have hT1 : tree_inv (e.put x { s with flags := { s.flags with ABORTING := true } }) :=
          tree_put_ab e x s _ hT hs hx ⟨rfl, rfl, rfl, rfl⟩
        obtain ⟨e2, he2⟩ := dying_fuel e.brk n
          (e.put x { s with flags := { s.flags with ABORTING := true } }) x _ rfl (by omega)
          hT1.fresh hT1.kid (put_heap_same _ _ _)
        have he2f := dying_mono_le n f hle _ x e2 he2
        rw [he2f] at h
        rw [he2]
        exact h
/-! ## The fuel of the cascade -/

theorem live_count_pos (e : dmsg_engine) (x : Nat) (hx : x < e.brk) (h : live e x = true) :
    1 ≤ live_count e :=
  List.countP_pos_iff.2 ⟨x, List.mem_range.2 hx, h⟩

theorem fuel_step (g2 g k sl n : Nat) (hlt : g2 < g) (hsl : sl ≤ k - 2) (hk : 3 ≤ k)
    (hn : g * k ≤ n + 1) : g2 * k + sl + 1 ≤ n := by
  have h1 : (g2 + 1) * k ≤ g * k := Nat.mul_le_mul_right k hlt
  rw [Nat.add_mul, Nat.one_mul] at h1
  omega

/-- A call of `dmsg_simulate_failure` that returns does so within a fuel that
the number of states that are not yet `ABORTING` bounds: the recursion into a
child makes one more state `ABORTING`, and the loop restarts or goes on only
after such a recursion, or else moves its cursor towards the end of the
queue. -/
theorem simulate_bound : ∀ (f : Nat),
    (∀ (e : dmsg_engine) (x err : Nat) (r : dmsg_engine) (s : dmsg_state),
      dmsg_simulate_failure f e x true err = some r → tree_inv e → r.free_failed = false →
      x ≠ 0 → e.heap x = some s → s.flags.ABORTING = false →
      ∀ n, live_count e * (e.brk + 3) ≤ n → dmsg_simulate_failure n e x true err = some r) ∧
    (∀ (e : dmsg_engine) (q err : Nat) (c : Option Nat) (r : dmsg_engine) (sq : dmsg_state),
      dmsg_simulate_failure_scan f e q err c = some r → tree_inv e → r.free_failed = false →
      (∀ y, c = some y → ∀ s, e.heap q = some s → y ∈ s.subq) → e.heap q = some sq →
      ∀ n, live_count e * (e.brk + 3) + scan_left sq.subq c + 1 ≤ n →
        dmsg_simulate_failure_scan n e q err c = some r) := by
  intro f
  induction f with
  | zero =>
    refine ⟨?_, ?_⟩
    · intro e x err r s h
      simp [dmsg_simulate_failure] at h
    · intro e q err c r sq h
      simp [dmsg_simulate_failure_scan] at h
  | succ f ih =>
    refine ⟨?_, ?_⟩
    · intro e x err r s h hT hf hx hs hab n hn
      have hxb : x < e.brk := by
        by_contra hc
        rw [hT.fresh x (by omega)] at hs
        cases hs
      have hlive : live e x = true := by
        rw [live_some _ _ _ hs, hab]
        rfl
      have hG := live_count_pos e x hxb hlive
      unfold dmsg_simulate_failure at h
      simp only [if_true, Option.bind_eq_bind, Option.bind_eq_some, Option.pure_def] at h
      obtain ⟨ea, hea, eb, heb, sb, hsb, ec, hec, h⟩ := h
      have hmem : ∀ y, sb.subq.head? = some y → ∀ t, eb.heap x = some t → y ∈ t.subq := by
        intro y hy t ht
        rw [hsb] at ht
        injection ht with ht
        subst ht
        exact List.mem_of_mem_head? hy
      have hfc : ec.free_failed = false := ((drop_nstep _ _ _ h).1 hf).1
      have hfb : eb.free_failed = false := (((simulate_tstep f).2 eb x err _ ec hec) hfc).1
      have hTa : tree_inv ea := tree_map (hold_shape _ _ _ hea) hT
      have hTb : tree_inv eb := ((abort_tstep _ _ _ _ heb) hfb).2 hTa hx
      obtain ⟨hcab, habx⟩ := abort_casc f ea x eb heb hTa hx hfb
      have hba : ea.brk = e.brk := hold_brk _ _ _ hea
      have hea2 := hea
      rw [hold_eq e x s hs] at hea2
      injection hea2 with hea2
      have hGa : live_count ea = live_count e := by
        rw [← hea2]
        exact live_count_put e x s _ hs rfl
      have hla : live ea x = true := by
        rw [← hea2, live_some _ _ _ (put_heap_same _ _ _)]
        show (!s.flags.ABORTING) = true
        rw [hab]
        rfl
      have hlb : live eb x = false := by
        rw [live_some _ _ _ hsb, habx sb hsb]
        rfl
      have hlt : live_count eb < live_count e := by
        rw [← hGa]
        exact live_count_lt hcab x (by rw [hba]; exact hxb) hla hlb
      have hbb : eb.brk = e.brk := hcab.1.trans hba
      have hlen := subq_length_le eb hTb x sb hsb
      have hsl := scan_left_le sb.subq sb.subq.head?
      have hK : e.brk + 3 ≤ n := by
        have : 1 * (e.brk + 3) ≤ live_count e * (e.brk + 3) := Nat.mul_le_mul_right _ hG
        omega
      obtain ⟨n1, rfl⟩ : ∃ n1, n = n1 + 1 := ⟨n - 1, by omega⟩
      have hn1 : live_count eb * (eb.brk + 3) + scan_left sb.subq sb.subq.head? + 1 ≤ n1 := by
        rw [hbb] at hlen ⊢
        exact fuel_step _ _ _ _ _ hlt (by omega) (by omega) hn
      have hbig : e.brk ≤ n1 := by omega
      have h2 := abort_fuel f n1 ea x eb heb hTa hx (by rw [hba]; exact hbig)
      have h3 := ih.2 eb x err _ ec sb hec hTb hfc hmem hsb n1 hn1
      rw [dmsg_simulate_failure]
      simp only [hea, if_true, Option.bind_eq_bind, Option.some_bind, h2, hsb, h3]
      exact h
    · intro e q err c r sq h hT hf hP hq n hn
      obtain ⟨n1, rfl⟩ : ∃ n1, n = n1 + 1 := ⟨n - 1, by omega⟩
      cases c with
      | none =>
        simp only [dmsg_simulate_failure_scan, Option.some.injEq] at h
        subst h
        rw [dmsg_simulate_failure_scan]
      | some y =>
        unfold dmsg_simulate_failure_scan at h
        simp only [Option.bind_eq_bind, Option.bind_eq_some] at h
        obtain ⟨ss, hss, s, hs, h⟩ := h
        rw [hq] at hs
        injection hs with hs
        subst hs
        have hymem : y ∈ sq.subq := hP y rfl sq hq
        have hnd := hT.nodup q sq hq
        rw [dmsg_simulate_failure_scan]
        simp only [hss, hq, Option.bind_eq_bind, Option.some_bind]
        by_cases hab : ss.flags.ABORTING = true
        · rw [if_pos hab] at h ⊢
          have hnext := scan_left_next sq.subq y hnd
          exact ih.2 e q err _ r sq h hT hf (fun z hz t ht => by
            rw [hq] at ht
            injection ht with ht
            subst ht
            exact tailq_next_mem _ _ _ hz) hq n1 (by omega)
        · rw [if_neg hab] at h ⊢
          simp only [Option.bind_eq_some] at h
          obtain ⟨e2, he2, s2, hs2, h⟩ := h
          have hab' : ss.flags.ABORTING = false := by
            cases hb : ss.flags.ABORTING
            · rfl
            · exact absurd hb hab
          have hsh : shape_eq e (e.put q { sq with scan := some y }) :=
            shape_eq_put e q sq _ hq ⟨rfl, rfl, rfl, rfl, rfl⟩
          have hT1 := tree_map hsh hT
          have hqy : q < y := (hT.kid q sq y hq hymem).1
          have hy0 : y ≠ 0 := by omega
          have hyb : y < e.brk := by
            by_contra hc
            rw [hT.fresh y (by omega)] at hss
            cases hss
          have hss1 : (e.put q { sq with scan := some y }).heap y = some ss := by
            rw [put_heap_other _ _ _ _ (by omega)]
            exact hss
          have hG1 : live_count (e.put q { sq with scan := some y }) = live_count e :=
            live_count_put e q sq _ hq rfl
          have hf2 : e2.free_failed = false := by
            split_ifs at h
            · exact (((simulate_tstep f).2 e2 q err _ r h) hf).1
            · exact (((simulate_tstep f).2 e2 q err _ r h) hf).1
          have hT2 : tree_inv e2 :=
            (((simulate_tstep f).1 _ y true err e2 he2) hf2).2 hT1 (fun _ => hy0)
          obtain ⟨hc12, hay⟩ := (simulate_casc f).1 _ y true err e2 he2 hT1 hf2 (fun _ => hy0)
          have hl1 : live (e.put q { sq with scan := some y }) y = true := by
            rw [live_some _ _ _ hss1, hab']
            rfl
          have hl2 : live e2 y = false := by
            cases hy2 : e2.heap y with
            | none => exact live_none _ _ hy2
            | some sy =>
              rw [live_some _ _ _ hy2, hay rfl sy hy2]
              rfl
          have hlt : live_count e2 < live_count e := by
            rw [← hG1]
            exact live_count_lt hc12 y hyb hl1 hl2
          have hb2 : e2.brk = e.brk := hc12.1
          have hlen := subq_length_le e2 hT2 q s2 hs2
          have hpos : 1 ≤ scan_left sq.subq (some y) := Nat.succ_le_succ (Nat.zero_le _)
          have h1 := ih.1 _ y err e2 ss he2 hT1 hf2 hy0 hss1 hab' n1 (by
            rw [hG1]
            show live_count e * (e.brk + 3) ≤ n1
            omega)
          have hnext : ∀ c2, (c2 = s2.subq.head? ∨ c2 = TAILQ_NEXT s2.subq y) →
              ∀ z, c2 = some z → ∀ t, e2.heap q = some t → z ∈ t.subq := by
            intro c2 hc2 z hz t ht
            rw [hs2] at ht
            injection ht with ht
            subst ht
            rcases hc2 with hc2 | hc2
            · rw [hc2] at hz
              exact List.mem_of_mem_head? hz
            · rw [hc2] at hz
              exact tailq_next_mem _ _ _ hz
          have hfuel : ∀ c2, live_count e2 * (e2.brk + 3) + scan_left s2.subq c2 + 1 ≤ n1 := by
            intro c2
            have hsl := scan_left_le s2.subq c2
            rw [hb2] at hlen ⊢
            exact fuel_step _ _ _ _ _ hlt (by omega) (by omega) (by omega)
          simp only [h1, Option.some_bind, hs2]
          split_ifs at h ⊢
          · exact ih.2 e2 q err _ r s2 h hT2 hf (hnext _ (Or.inl rfl)) hs2 n1 (hfuel _)
          · exact ih.2 e2 q err _ r s2 h hT2 hf (hnext _ (Or.inr rfl)) hs2 n1 (hfuel _)

/-- A call of `dmsg_simulate_failure` that returns does so within the fuel
`cascade_fuel`, whatever the fuel it was given. -/
theorem simulate_fuel (f : Nat) (e : dmsg_engine) (x : Nat) (m : Bool) (err : Nat)
    (r : dmsg_engine) (h : dmsg_simulate_failure f e x m err = some r) (hT : tree_inv e)
    (hf : r.free_failed = false) (hP : m = true → x ≠ 0) :
    ∀ n, cascade_fuel e ≤ n → dmsg_simulate_failure n e x m err = some r := by
  intro n hn
  cases f with
  | zero => simp [dmsg_simulate_failure] at h
  | succ f =>
    have key : ∃ ea eb s ec, dmsg_state_hold e x = some ea ∧
        (if m = true then dmsg_state_abort f ea x else some ea) = some eb ∧
        eb.heap x = some s ∧ dmsg_simulate_failure_scan f eb x err s.subq.head? = some ec ∧
        dmsg_state_drop ec x = some r := by
      unfold dmsg_simulate_failure at h
      cases m with
      | true =>
        simp only [if_true, Option.bind_eq_bind, Option.bind_eq_some, Option.pure_def] at h
        obtain ⟨ea, hea, eb, heb, s, hs, ec, hec, h⟩ := h
        exact ⟨ea, eb, s, ec, hea, by simpa using heb, hs, hec, h⟩
      | false =>
        simp only [Bool.false_eq_true, if_false, Option.bind_eq_bind, Option.bind_eq_some,
          Option.pure_def, Option.some.injEq] at h
        obtain ⟨ea, hea, eb, heb, s, hs, ec, hec, h⟩ := h
        exact ⟨ea, eb, s, ec, hea, by simpa using heb, hs, hec, h⟩
    clear h
    obtain ⟨ea, eb, s, ec, hea, heb, hs, hec, h⟩ := key
    have hmem : ∀ y, s.subq.head? = some y → ∀ t, eb.heap x = some t → y ∈ t.subq := by
      intro y hy t ht
      rw [hs] at ht
      injection ht with ht
      subst ht
      exact List.mem_of_mem_head? hy
    have hfc : ec.free_failed = false := ((drop_nstep _ _ _ h).1 hf).1
    have hfb : eb.free_failed = false := (((simulate_tstep f).2 eb x err _ ec hec) hfc).1
    have hTa : tree_inv ea := tree_map (hold_shape _ _ _ hea) hT
    have hba : ea.brk = e.brk := hold_brk _ _ _ hea
    unfold cascade_fuel at hn
    have hexp : (e.brk + 1) * (e.brk + 3) = e.brk * (e.brk + 3) + (e.brk + 3) := by
      rw [Nat.add_mul, Nat.one_mul]
    obtain ⟨n1, rfl⟩ : ∃ n1, n = n1 + 1 := ⟨n - 1, by omega⟩
    have h2 : tree_inv eb ∧ eb.brk = e.brk ∧
        (if m = true then dmsg_state_abort n1 ea x else some ea) = some eb := by
      cases m with
      | true =>
        simp only [if_true] at heb ⊢
        have hTb : tree_inv eb := ((abort_tstep _ _ _ _ heb) hfb).2 hTa (hP rfl)
        obtain ⟨k1, -⟩ := abort_casc f ea x eb heb hTa (hP rfl) hfb
        exact ⟨hTb, k1.1.trans hba, abort_fuel f n1 ea x eb heb hTa (hP rfl) (by omega)⟩
      | false =>
        simp only [Bool.false_eq_true, if_false, Option.some.injEq] at heb ⊢
        subst heb
        exact ⟨hTa, hba, rfl⟩
    obtain ⟨hTb, hbb, heb2⟩ := h2
    have hlen := subq_length_le eb hTb x s hs
    have hsl := scan_left_le s.subq s.subq.head?
    have hG := live_count_le_brk eb
    have hmul : live_count eb * (eb.brk + 3) ≤ eb.brk * (eb.brk + 3) :=
      Nat.mul_le_mul_right _ hG
    have h3 := (simulate_bound f).2 eb x err _ ec s hec hTb hfc hmem hs n1 (by
      rw [hbb] at hmul hlen ⊢
      omega)
    rw [dmsg_simulate_failure]
    cases m with
    | true =>
      simp only [if_true] at heb2
      simp only [hea, if_true, Option.bind_eq_bind, Option.some_bind, heb2, hs, h3]
      exact h
    | false =>
      simp only [Bool.false_eq_true, if_false, Option.some.injEq] at heb2
      subst heb2
      simp only [hea, Bool.false_eq_true, if_false, Option.bind_eq_bind, Option.some_bind,
        Option.pure_def, hs, h3]
      exact h
/-! ## C1: the callbacks of the failure cascade on a connection -/

/-- A state that a tree holds under the rule of `rx_tree` carries
`RBINSERTED`. -/
theorem rx_tree_rbinserted (e : dmsg_engine) (L : List Nat) (hI : eng_inv e L) (x : Nat)
    (s : dmsg_state) (hx : e.heap x = some s) (ht : rx_tree e s = some x) :
    s.flags.RBINSERTED = true := by
  unfold rx_tree at ht
  split at ht
  · obtain ⟨s1, h1, h2, -⟩ := hI.1.wr _ _ ht
    rw [hx] at h1
    injection h1 with h1
    rw [h1]
    exact h2
  · obtain ⟨s1, h1, h2, -⟩ := hI.1.rd _ _ ht
    rw [hx] at h1
    injection h1 with h1
    rw [h1]
    exact h2

theorem free_returns (e : dmsg_engine) (p : Nat) (s : dmsg_state) (h : e.heap p = some s) :
    ∃ e1, dmsg_state_free e p = some e1 ∧
      (e.assert_failed = true → e1.assert_failed = true) := by
  unfold dmsg_state_free
  simp only [h, Option.bind_eq_bind, Option.some_bind, Option.pure_def]
  refine ⟨_, rfl, fun ha => ?_⟩
  simp [dmsg_engine.check, ha]

theorem drop_returns (e : dmsg_engine) (p : Nat) (s : dmsg_state) (h : e.heap p = some s) :
    ∃ e1, dmsg_state_drop e p = some e1 ∧
      (e.assert_failed = true → e1.assert_failed = true) := by
  unfold dmsg_state_drop
  simp only [h, Option.bind_eq_bind, Option.some_bind, Option.pure_def]
  split_ifs
  · obtain ⟨e1, h1, ha⟩ := free_returns
      ((e.check (decide (s.refs > 0))).put p { s with refs := s.refs - 1 }) p _
      (put_heap_same _ _ _)
    exact ⟨e1, h1, fun h0 => ha (by simp [dmsg_engine.put, dmsg_engine.check, h0])⟩
  · exact ⟨_, rfl, fun h0 => by simp [dmsg_engine.put, dmsg_engine.check, h0]⟩

/-- The removal at the end of `dmsg_state_msgrx` returns when the state is in
the tree that its `rxcmd` selects. -/
theorem remove_returns (e5 : dmsg_engine) (cmd state2 : Nat) (st3 : dmsg_state)
    (hreg : rx_tree e5 st3 = some state2) :
    ∃ e9, dmsg_state_msgrx_remove e5 cmd state2 st3 = some e9 ∧
      (e5.assert_failed = true → e9.assert_failed = true) := by
  unfold dmsg_state_msgrx_remove
  unfold rx_tree at hreg
  by_cases hR : st3.rxcmd &&& DMSGF_REPLY ≠ 0
  · rw [if_pos hR] at hreg
    have hrm : RB_REMOVE (e5.check st3.flags.RBINSERTED).statewr_tree st3.msgid state2 =
        some (Function.update e5.statewr_tree st3.msgid none) := by
      unfold RB_REMOVE
      rw [if_pos]
      · rfl
      · exact hreg
    simp only [if_pos hR, hrm, Option.map_some', Option.bind_eq_bind, Option.some_bind]
    obtain ⟨e9, h9, ha⟩ := drop_returns _ state2 _ (put_heap_same _ state2 _)
    exact ⟨e9, h9, fun h0 => ha (by simp [dmsg_engine.put, dmsg_engine.check, h0])⟩
  · rw [if_neg hR] at hreg
    have hrm : RB_REMOVE (e5.check st3.flags.RBINSERTED).staterd_tree st3.msgid state2 =
        some (Function.update e5.staterd_tree st3.msgid none) := by
      unfold RB_REMOVE
      rw [if_pos]
      · rfl
      · exact hreg
    simp only [if_neg hR, hrm, Option.map_some', Option.bind_eq_bind, Option.some_bind]
    obtain ⟨e9, h9, ha⟩ := drop_returns _ state2 _ (put_heap_same _ state2 _)
    exact ⟨e9, h9, fun h0 => ha (by simp [dmsg_engine.put, dmsg_engine.check, h0])⟩

/-- The end of `dmsg_state_msgrx` returns when the states it reads are live and
the local state, in case the function goes on to remove it from its tree, is
registered in that tree. -/
theorem adjust_returns (l : msgrx_locals) (x : Nat) (sx st : dmsg_state)
    (hm : l.msg.state = some x) (hx : l.eng.heap x = some sx)
    (hs : l.eng.heap l.state = some st)
    (hreg : st.flags.ROOT = false → l.msg.head.cmd &&& DMSGF_DELETE ≠ 0 →
      st.txcmd &&& DMSGF_DELETE ≠ 0 → rx_tree l.eng st = some l.state) :
    ∃ r, dmsg_state_msgrx_adjust l = some r ∧ r.error = l.error ∧
      (l.eng.assert_failed = true → r.eng.assert_failed = true) := by
  have key : ∃ r, dmsg_state_msgrx_adjust l = some r ∧
      (l.eng.assert_failed = true → r.eng.assert_failed = true) := by
    unfold dmsg_state_msgrx_adjust
    simp only [hm, hx, hs, Option.bind_eq_bind, Option.some_bind, Option.pure_def]
    by_cases hroot : st.flags.ROOT = true
    · simp only [hroot, if_true]
      exact ⟨_, rfl, fun h => check_assert _ _ h⟩
    · simp only [hroot, Bool.false_eq_true, if_false]
      by_cases hd : l.msg.head.cmd &&& DMSGF_DELETE ≠ 0
      · by_cases htx : st.txcmd &&& DMSGF_DELETE ≠ 0
        · rw [if_pos hd, if_pos htx]
          have hr0 := hreg (by simpa using hroot) hd htx
          have hr1 : rx_tree
              (((l.eng.check (decide (x = l.state))).check
                (decide (st.rxcmd &&& DMSGF_DELETE = 0))).put l.state
                  { st with rxcmd := st.rxcmd ||| DMSGF_DELETE })
              { st with rxcmd := st.rxcmd ||| DMSGF_DELETE } = some l.state := by
            unfold rx_tree at hr0 ⊢
            simp only [or_delete_reply]
            exact hr0
          obtain ⟨e9, h9, ha⟩ := remove_returns _ l.msg.head.cmd l.state _ hr1
          rw [h9]
          refine ⟨_, rfl, fun h => ha ?_⟩
          simp only [dmsg_engine.put]
          exact check_assert _ _ (check_assert _ _ h)
        · rw [if_pos hd, if_neg htx]
          refine ⟨_, rfl, fun h => ?_⟩
          simp only [dmsg_engine.put]
          exact check_assert _ _ (check_assert _ _ h)
      · rw [if_neg hd]
        exact ⟨_, rfl, fun h => check_assert _ _ h⟩
  obtain ⟨r, hr, ha⟩ := key
  exact ⟨r, hr, adjust_error l r hr, ha⟩

/-- The step that moves the reference of a message to the state found leaves
the two trees as they are. -/
theorem assign_found_trees (e : dmsg_engine) (msg : dmsg_msg) (mst st : Nat)
    (pstate : Option Nat) (ms sx : dmsg_state) (hms : e.heap mst = some ms)
    (hrefs : ms.refs ≠ 1) (hx : e.heap st = some sx) :
    ∃ a k, dmsg_state_msgrx_assign e msg false mst pstate (some st) = some a ∧
      a.2.1 = { msg with state := some st } ∧ a.2.2 = some st ∧
      a.1.heap st = some { sx with refs := k } ∧
      a.1.statewr_tree = e.statewr_tree ∧ a.1.staterd_tree = e.staterd_tree := by
  unfold dmsg_state_msgrx_assign
  simp only [Bool.false_eq_true, if_false, drop_eq_keep e mst ms hms hrefs,
    Option.bind_eq_bind, Option.some_bind, Option.pure_def]
  by_cases hst : st = mst
  · subst hst
    rw [hms] at hx
    injection hx with hx
    subst hx
    rw [hold_eq _ st _ (put_heap_same _ _ _)]
    simp only [Option.some_bind, put_heap_same]
    exact ⟨_, ms.refs - 1 + 1, rfl, rfl, rfl, by simp [dmsg_engine.check, dmsg_engine.put],
      rfl, rfl⟩
  · have h1 : ((e.check (decide (ms.refs > 0))).put mst
        { ms with refs := ms.refs - 1 }).heap st = some sx := by
      rw [put_heap_other _ _ _ _ hst]
      exact hx
    rw [hold_eq _ st _ h1]
    simp only [Option.some_bind, put_heap_same]
    exact ⟨_, sx.refs + 1, rfl, rfl, rfl, by simp [dmsg_engine.check, dmsg_engine.put],
      rfl, rfl⟩

/-- C9 (amended). Flag validation in `dmsg_state_msgrx` for a received message
(`mstate == 0`) whose circuit resolves to `p`, when the states involved are
live and the local state (the state found, or the circuit when none is found)
is in the tree from which the function goes on to remove it (it does so when
that state is not `ROOT`, the message has `DELETE` and the state has sent its
own `DELETE`): the function returns, and (1) a `CREATE` without `REPLY` on an
identifier that already has a state returns `TRANS`, with or without `ABORT`;
(2) a `REPLY` with `CREATE` that finds no state returns `TRANS`, with or
without `ABORT`; (3) a `DELETE` or `REPLY|DELETE` that finds no state, or a
state whose `rxcmd` lacks `CREATE`, returns `EALREADY` when the message has
`ABORT` set and `TRANS` when it has not.  Every `TRANS` comes with the failed
`assert(0)` of its branch. -/
theorem msgrx_flag_validation (e : dmsg_engine) (msg : dmsg_msg) (mst p : Nat)
    (ms sx : dmsg_state)
    (hst : msg.state = some mst) (hms : e.heap mst = some ms) (hrefs : ms.refs ≠ 1)
    (hcirc : dmsg_state_msgrx_circuit e msg false ms = some (some p))
    (hx : e.heap ((dmsg_state_msgrx_find e msg false mst).getD p) = some sx)
    (hreg : sx.flags.ROOT = false → msg.head.cmd &&& DMSGF_DELETE ≠ 0 →
      sx.txcmd &&& DMSGF_DELETE ≠ 0 →
      rx_tree e sx = some ((dmsg_state_msgrx_find e msg false mst).getD p)) :
    ((msgrx_case msg = DMSGF_CREATE ∨ msgrx_case msg = DMSGF_CREATE ||| DMSGF_DELETE) →
      (∃ st, dmsg_state_msgrx_find e msg false mst = some st ∧ st ≠ p) →
      ∃ r, dmsg_state_msgrx e msg false = some r ∧ r.error = DMSG_IOQ_ERROR_TRANS ∧
        r.eng.assert_failed = true) ∧
    ((msgrx_case msg = DMSGF_REPLY ||| DMSGF_CREATE ∨
        msgrx_case msg = DMSGF_REPLY ||| DMSGF_CREATE ||| DMSGF_DELETE) →
      dmsg_state_msgrx_find e msg false mst = none →
      ∃ r, dmsg_state_msgrx e msg false = some r ∧ r.error = DMSG_IOQ_ERROR_TRANS ∧
        r.eng.assert_failed = true) ∧
    ((msgrx_case msg = DMSGF_DELETE ∨ msgrx_case msg = DMSGF_REPLY ||| DMSGF_DELETE) →
      (dmsg_state_msgrx_find e msg false mst = none ∨ sx.rxcmd &&& DMSGF_CREATE = 0) →
      ∃ r, dmsg_state_msgrx e msg false = some r ∧
        r.error = (if msg.head.cmd &&& DMSGF_ABORT ≠ 0 then DMSG_IOQ_ERROR_EALREADY
                   else DMSG_IOQ_ERROR_TRANS) ∧
        (msg.head.cmd &&& DMSGF_ABORT = 0 → r.eng.assert_failed = true)) := by
  have heq := msgrx_eq e msg mst ms (some p) false hst hms hcirc
  -- the two shapes of the lookup
  have hnone : dmsg_state_msgrx_find e msg false mst = none →
      ∀ l : msgrx_locals, dmsg_state_msgrx_switch e msg p (some p) = some l →
      l.msg = msg → l.state = p → l.eng.heap = e.heap →
      l.eng.statewr_tree = e.statewr_tree → l.eng.staterd_tree = e.staterd_tree →
      ∃ r, dmsg_state_msgrx e msg false = some r ∧ r.error = l.error ∧
        (l.eng.assert_failed = true → r.eng.assert_failed = true) := by
    intro hf l hl h1 h2 h3 h4 h5
    rw [hf] at hx hreg
    simp only [Option.getD_none] at hx hreg
    obtain ⟨r, hr, he, ha⟩ := adjust_returns l mst ms sx (by rw [h1]; exact hst)
      (by rw [h3]; exact hms) (by rw [h2, h3]; exact hx)
      (by
        intro a b c
        rw [h1] at b
        have k := hreg a b c
        unfold rx_tree at k ⊢
        rw [h4, h5, h2]
        exact k)
    refine ⟨r, ?_, he, ha⟩
    rw [heq, hf]
    simp only [dmsg_state_msgrx_assign, Bool.false_eq_true, if_false, Option.some_bind, hl]
    exact hr
  have hsome : ∀ st, dmsg_state_msgrx_find e msg false mst = some st →
      ∀ f : dmsg_engine → msgrx_locals,
      (∀ e1 k, e1.heap st = some { sx with refs := k } →
        dmsg_state_msgrx_switch e1 { msg with state := some st } st (some p) = some (f e1)) →
      (∀ e1, (f e1).msg = { msg with state := some st } ∧ (f e1).state = st ∧
        (f e1).eng.heap = e1.heap ∧ (f e1).eng.statewr_tree = e1.statewr_tree ∧
        (f e1).eng.staterd_tree = e1.staterd_tree) →
      ∃ r e1, dmsg_state_msgrx e msg false = some r ∧ r.error = (f e1).error ∧
        ((f e1).eng.assert_failed = true → r.eng.assert_failed = true) := by
    intro st hf f hl hfr
    rw [hf] at hx hreg
    simp only [Option.getD_some] at hx hreg
    obtain ⟨a, k, ha, ha1, ha2, ha3, ha4, ha5⟩ :=
      assign_found_trees e msg mst st (some p) ms sx hms hrefs hx
    obtain ⟨h1, h2, h3, h4, h5⟩ := hfr a.1
    obtain ⟨r, hr, he, has⟩ := adjust_returns (f a.1) st { sx with refs := k }
      { sx with refs := k } (by rw [h1]) (by rw [h3]; exact ha3) (by rw [h2, h3]; exact ha3)
      (by
        intro a0 b c
        rw [h1] at b
        have k0 := hreg a0 b c
        unfold rx_tree at k0 ⊢
        rw [h4, h5, h2, ha4, ha5]
        exact k0)
    refine ⟨r, a.1, ?_, he, has⟩
    rw [heq, hf, ha]
    simp only [Option.some_bind, ha1, ha2, hl a.1 k ha3]
    exact hr
  refine ⟨?_, ?_, ?_⟩
  · rintro hsw ⟨st, hf, hne⟩
    obtain ⟨r, e1, hr, he, ha⟩ := hsome st hf
      (fun e1 => { eng := e1.check false, msg := { msg with state := some st }, state := st,
                   error := DMSG_IOQ_ERROR_TRANS })
      (fun e1 _ _ => switch_create_dup e1 _ st p hsw hne)
      (fun e1 => ⟨rfl, rfl, rfl, rfl, rfl⟩)
    exact ⟨r, hr, he, ha (by simp [dmsg_engine.check])⟩
  · intro hsw hf
    obtain ⟨r, hr, he, ha⟩ := hnone hf _ (switch_reply_nostate e msg p hsw) rfl rfl rfl rfl rfl
    exact ⟨r, hr, he, ha (by simp [dmsg_engine.check])⟩
  · intro hsw hbad
    cases hf : dmsg_state_msgrx_find e msg false mst with
    | none =>
      have hxp : e.heap p = some sx := by
        rw [hf] at hx
        simpa using hx
      obtain ⟨r, hr, he, ha⟩ := hnone hf _
        (switch_delete_bad e msg p p sx hsw hxp (Or.inl rfl)) rfl rfl
        (by split <;> rfl) (by split <;> rfl) (by split <;> rfl)
      refine ⟨r, hr, he, fun h0 => ha ?_⟩
      simp [h0, dmsg_engine.check]
    | some st =>
      have hcr : sx.rxcmd &&& DMSGF_CREATE = 0 := by
        rcases hbad with h | h
        · rw [hf] at h
          cases h
        · exact h
      obtain ⟨r, e1, hr, he, ha⟩ := hsome st hf
        (fun e1 => { eng := if msg.head.cmd &&& DMSGF_ABORT ≠ 0 then e1 else e1.check false,
                     msg := { msg with state := some st }, state := st,
                     error := if msg.head.cmd &&& DMSGF_ABORT ≠ 0 then DMSG_IOQ_ERROR_EALREADY
                              else DMSG_IOQ_ERROR_TRANS })
        (fun e1 k hk => switch_delete_bad e1 _ st p _ hsw hk (Or.inr hcr))
        (fun e1 => ⟨rfl, rfl, by simp only []; split <;> rfl, by simp only []; split <;> rfl,
          by simp only []; split <;> rfl⟩)
      refine ⟨r, hr, he, fun h0 => ha ?_⟩
      simp [h0, dmsg_engine.check]

/-- C9 (witness). The connection `ex_conn_raced` has opened and closed the
one-way transaction 1 (its `txcmd` has `DELETE`, its `rxcmd` is `REPLY` without
`CREATE`, and it is in `statewr_tree`), and the peer's
`DELETE|REPLY|ABORT` for it arrives: the function returns `EALREADY`. -/
theorem msgrx_flag_validation_witness :
    ex_raced_wire.isSome = true ∧
    msgrx_case ex_raced_msg = DMSGF_REPLY ||| DMSGF_DELETE ∧
    dmsg_state_msgrx_find ex_raced_eng ex_raced_msg false 0 = some 1 ∧
    (ex_raced_eng.heap 1).map
      (fun s => (s.flags.ROOT, decide (s.txcmd &&& DMSGF_DELETE ≠ 0), s.rxcmd)) =
      some (false, true, DMSGF_REPLY) ∧
    ∃ r, dmsg_state_msgrx ex_raced_eng ex_raced_msg false = some r ∧
      r.error = (if ex_raced_msg.head.cmd &&& DMSGF_ABORT ≠ 0 then DMSG_IOQ_ERROR_EALREADY
                 else DMSG_IOQ_ERROR_TRANS) ∧
      (ex_raced_msg.head.cmd &&& DMSGF_ABORT = 0 → r.eng.assert_failed = true) :=
  ⟨by decide!, by decide!, by decide!, by decide!,
   (msgrx_flag_validation ex_raced_eng ex_raced_msg 0 0
    ((ex_raced_eng.heap 0).get (by decide!)) ((ex_raced_eng.heap 1).get (by decide!))
    (by decide!) (Option.some_get _).symm (by decide!) (by decide!)
    (by
      have h : dmsg_state_msgrx_find ex_raced_eng ex_raced_msg false 0 = some 1 := by decide!
      rw [h]
      exact (Option.some_get _).symm)
    (fun _ _ _ => by decide!)).2.2
    (Or.inr (by decide!)) (Or.inr (by decide!))⟩
/-! ## HEADER1 validation on every path to the check -/

theorem switch_arrival (env : Env) (ic ic2 : dmsg_iocom)
    (hstate : ic.ioq_rx.state = .HEADER1) (h : header1_arrival env ic = some ic2) :
    dmsg_ioq_read_switch env ic = dmsg_ioq_read_HEADER1_check env ic2 ic.ioq_rx.msg.isSome := by
  unfold dmsg_ioq_read_switch
  simp only [hstate]
  unfold dmsg_ioq_read_HEADER1
  unfold header1_arrival at h
  dsimp only at h ⊢
  split_ifs at h ⊢ <;> first
    | (injection h with h; subst h; rfl)
    | cases h

theorem sock_read_arrival (ic : dmsg_iocom) (nmax : Nat) (hb : (ioq_sock_read ic nmax).brk = false) :
    (ioq_sock_read ic nmax).ic.ioq_rx.state = ic.ioq_rx.state ∧
    (ioq_sock_read ic nmax).ic.ioq_rx.msg = ic.ioq_rx.msg ∧
    (ioq_sock_read ic nmax).ic.ioq_rx.error = ic.ioq_rx.error ∧
    (ioq_sock_read ic nmax).ic.eng = ic.eng := by
  unfold ioq_sock_read at hb ⊢
  dsimp only at hb ⊢
  split at hb <;> (try split_ifs at hb ⊢) <;> first
    | exact ⟨rfl, rfl, rfl, rfl⟩
    | cases hb

theorem decrypt_arrival (env : Env) (ic : dmsg_iocom) :
    (ioq_decrypt env ic).ioq_rx.state = ic.ioq_rx.state ∧
    (ioq_decrypt env ic).ioq_rx.msg = ic.ioq_rx.msg ∧
    (ioq_decrypt env ic).ioq_rx.error = ic.ioq_rx.error ∧
    (ioq_decrypt env ic).eng = ic.eng := by
  unfold ioq_decrypt
  split <;> exact ⟨rfl, rfl, rfl, rfl⟩

/-- The connection on which `HEADER1` checks the core header: the parser, its
message in hand and its error are those of the call, the engine has taken the
`assert(msg == NULL)`, and a whole core header is decrypted. -/
theorem arrival_keep (env : Env) (ic ic2 : dmsg_iocom) (h : header1_arrival env ic = some ic2) :
    ic2.ioq_rx.state = ic.ioq_rx.state ∧ ic2.ioq_rx.msg = ic.ioq_rx.msg ∧
    ic2.ioq_rx.error = ic.ioq_rx.error ∧ ic2.eng = ic.eng.check (!ic.ioq_rx.msg.isSome) ∧
    sizeof_head ≤ ic2.ioq_rx.fifo_cdx - ic2.ioq_rx.fifo_beg := by
  unfold header1_arrival at h
  dsimp only at h
  have hm := makeroom_same ic.ioq_rx sizeof_head
  split_ifs at h with h1 h2 h3 h4 h5
  · injection h with h
    subst h
    have hk := sock_read_arrival { ic with ioq_rx := (dmsg_ioq_makeroom ic.ioq_rx sizeof_head).1 }
      (dmsg_ioq_makeroom ic.ioq_rx sizeof_head).2 (by simpa using h2)
    have hd := decrypt_arrival env (ioq_sock_read
      { ic with ioq_rx := (dmsg_ioq_makeroom ic.ioq_rx sizeof_head).1 }
      (dmsg_ioq_makeroom ic.ioq_rx sizeof_head).2).ic
    refine ⟨?_, ?_, ?_, ?_, by omega⟩
    · exact hd.1.trans (hk.1.trans hm.2.2.2.2.2.1)
    · exact hd.2.1.trans (hk.2.1.trans hm.2.2.2.1)
    · exact hd.2.2.1.trans (hk.2.2.1.trans hm.2.2.2.2.1)
    · show ((ioq_decrypt env _).eng).check _ = _
      rw [hd.2.2.2, hk.2.2.2]
  · injection h with h
    subst h
    have hd := decrypt_arrival env { ic with ioq_rx := (dmsg_ioq_makeroom ic.ioq_rx sizeof_head).1 }
    refine ⟨?_, ?_, ?_, ?_, by omega⟩
    · exact hd.1.trans hm.2.2.2.2.2.1
    · exact hd.2.1.trans hm.2.2.2.1
    · exact hd.2.2.1.trans hm.2.2.2.2.1
    · show ((ioq_decrypt env _).eng).check _ = _
      rw [hd.2.2.2]

theorem sock_read_flags (ic : dmsg_iocom) (f : iocom_flags) (nmax : Nat) :
    ioq_sock_read { ic with flags := f } nmax =
      { ic := { (ioq_sock_read ic nmax).ic with flags := f }
        nmax := (ioq_sock_read ic nmax).nmax, brk := (ioq_sock_read ic nmax).brk } := by
  unfold ioq_sock_read
  dsimp only
  split <;> (try split_ifs) <;> rfl

theorem decrypt_flags (env : Env) (ic : dmsg_iocom) (f : iocom_flags)
    (hf : f.CRYPTED = ic.flags.CRYPTED) :
    ioq_decrypt env { ic with flags := f } = { ioq_decrypt env ic with flags := f } := by
  unfold ioq_decrypt
  dsimp only
  rw [hf]
  split <;> rfl

/-- The flags `RREQ` and `RWORK`, which `dmsg_ioq_read` clears before the
`switch`, play no part on the way to the check. -/
theorem arrival_flags (env : Env) (ic : dmsg_iocom) (f : iocom_flags)
    (hf : f.CRYPTED = ic.flags.CRYPTED) :
    header1_arrival env { ic with flags := f } =
      (header1_arrival env ic).map fun x => { x with flags := f } := by
  unfold header1_arrival
  dsimp only
  by_cases hb : ic.ioq_rx.fifo_cdx - ic.ioq_rx.fifo_beg < sizeof_head
  · rw [if_pos hb, if_pos hb]
    have h1 := sock_read_flags { ic with ioq_rx := (dmsg_ioq_makeroom ic.ioq_rx sizeof_head).1 } f
      (dmsg_ioq_makeroom ic.ioq_rx sizeof_head).2
    dsimp only at h1
    rw [h1]
    dsimp only
    have h2 := decrypt_flags env (ioq_sock_read
      { ic with ioq_rx := (dmsg_ioq_makeroom ic.ioq_rx sizeof_head).1 }
      (dmsg_ioq_makeroom ic.ioq_rx sizeof_head).2).ic f
      (hf.trans (congrArg iocom_flags.CRYPTED (sock_read_same
        { ic with ioq_rx := (dmsg_ioq_makeroom ic.ioq_rx sizeof_head).1 }
        (dmsg_ioq_makeroom ic.ioq_rx sizeof_head).2).2.2.2.1).symm)
    rw [h2]
    generalize ioq_decrypt env _ = d
    generalize (ioq_sock_read _ _).brk = b
    unfold dmsg_iocom.check
    dsimp only
    split_ifs <;> rfl
  · rw [if_neg hb, if_neg hb]
    dsimp only
    have h2 := decrypt_flags env
      { ic with ioq_rx := (dmsg_ioq_makeroom ic.ioq_rx sizeof_head).1 } f hf
    dsimp only at h2
    rw [h2]
    generalize ioq_decrypt env _ = d
    unfold dmsg_iocom.check
    dsimp only
    split_ifs <;> rfl

/-- A parser with a whole decrypted core header in its FIFO goes to the check
at once, on the connection as it is. -/
theorem arrival_ready (env : Env) (ic : dmsg_iocom) (hr : Hdr1Ready ic) :
    ∃ ic2, header1_arrival env ic = some ic2 ∧ rx_head ic2 = rx_head ic := by
  obtain ⟨h1, h2, h3, h4, h5, h6, h7, h8⟩ := hr
  have hb : ¬ (ic.ioq_rx.fifo_cdx - ic.ioq_rx.fifo_beg < sizeof_head) := by omega
  have hb' : ¬ (ic.ioq_rx.fifo_end - ic.ioq_rx.fifo_beg < sizeof_head) := by omega
  have hmk := makeroom_noop ic.ioq_rx sizeof_head (by omega)
  unfold header1_arrival
  simp only [hmk, if_neg hb, ioq_decrypt, h5, h4, dmsg_iocom.check, dmsg_engine.check,
    Bool.false_eq_true, if_false, Option.isSome_none, hb', Bool.not_false, Bool.not_true,
    Bool.or_false]
  exact ⟨_, rfl, rfl⟩

/-- A parser at rest whose socket delivers at least a core header reads it and
goes to the check, with the first 64 bytes received as the core header. -/
theorem arrival_socket (env : Env) (ic : dmsg_iocom) (W : List Nat) (rest : List sock_event)
    (h : RxIdle env ic) (hB : 128 ≤ env.sizeof_buf) (hW : 64 ≤ W.length)
    (hs : ic.sock = sock_event.data W :: rest) :
    ∃ ic2, header1_arrival env ic = some ic2 ∧ rx_head ic2 = hdr_of_bytes (W.take 64) := by
  obtain ⟨h1, h2, h3, h4, h5, h6, h7, h8, h9, h10⟩ := h
  rcases ic with ⟨eng, flags, ⟨st, beg, cdx, cdn, fend, hb, ab, un, er, sq, mc, mg, mq, bf, cx, ac⟩,
    tx, tq, sk, rn⟩
  simp only at h1 h2 h3 h4 h5 h6 h7 h8 h9 h10 hs
  subst h1 h2 h3 h4 h6 h7 h8 h9 hs
  have hne : W.take env.sizeof_buf ≠ [] := by
    intro hc
    have := congrArg List.length hc
    simp only [List.length_take, List.length_nil] at this
    omega
  have hlen : (W.take env.sizeof_buf).length = min env.sizeof_buf W.length := by
    simp only [List.length_take]
  unfold header1_arrival
  simp only [Nat.sub_self]
  rw [makeroom_roomy _ _ (by simp only [Nat.sub_self, h10, sizeof_head]; omega)]
  have h64 : (0 : Nat) < sizeof_head := by decide
  have hge : ¬ ((W.take env.sizeof_buf).length < sizeof_head) := by
    rw [hlen]
    simp only [sizeof_head]
    omega
  simp only [Option.isSome_none, h10, Nat.sub_zero, h64, if_true]
  rw [sock_read_data _ _ _ _ rfl hne]
  simp only [Bool.false_eq_true, if_false, ioq_decrypt, h5, Nat.zero_add, Bool.not_false,
    iocom_check_true, Nat.sub_zero, hge]
  refine ⟨_, rfl, ?_⟩
  unfold rx_head
  dsimp only
  rw [buf_write_zero]
  congr 1
  have hsp : W.take env.sizeof_buf = W.take 64 ++ (W.take env.sizeof_buf).drop 64 := by
    have h0 : W.take 64 = (W.take env.sizeof_buf).take 64 := by
      rw [List.take_take, Nat.min_eq_left (by omega)]
    rw [h0, List.take_append_drop]
  rw [hsp, List.append_assoc]
  exact slice_prefix _ _ _ (by rw [List.length_take]; simp only [sizeof_head]; omega)

/-- C7. HEADER1 validation of `dmsg_ioq_read`, for a call that finds the
parser in `HEADER1` without error, without queued message and without message
in hand.  (1) Whenever the case `HEADER1` reaches its check, whether the core
header was already in the FIFO or is read from the socket by this call, on a
plain or an encrypted link: a magic that is neither `DMSG_HDR_MAGIC` nor
`DMSG_HDR_MAGIC_REV` makes the parser leave the `switch` with IOQ error `SYNC`
whatever the other fields hold; with a good magic, a header size
`(cmd & SIZE) * 64` (`cmd` byte swapped when the magic is reversed) below
`sizeof(core header)` or above `sizeof(extended header)` gives `FIELD`.  In
both cases no message is allocated (the engine is untouched and `ioq->msg`
stays `NULL`), the parser is not in `HEADER2`, and every call of
`dmsg_ioq_read` that returns has returned `NULL` with that error latched.
(2) A parser whose FIFO already holds a decrypted core header reaches the
check with that header.  (3) A parser at rest whose socket delivers at least
64 bytes reaches the check with the first 64 bytes as the core header. -/
theorem header1_validation (env : Env) (ic : dmsg_iocom)
    (hstate : ic.ioq_rx.state = .HEADER1) (herr : ic.ioq_rx.error = 0)
    (hq : ic.ioq_rx.msgq = []) (hmsg : ic.ioq_rx.msg = none) :
    (∀ ic2, header1_arrival env ic = some ic2 →
      (((rx_head ic2).magic ≠ DMSG_HDR_MAGIC ∧ (rx_head ic2).magic ≠ DMSG_HDR_MAGIC_REV) →
        (∃ sw, dmsg_ioq_read_switch env ic = some sw ∧ sw.msgp = false ∧
          sw.ic.ioq_rx.error = DMSG_IOQ_ERROR_SYNC ∧ sw.ic.ioq_rx.msg = none ∧
          sw.ic.ioq_rx.state = .HEADER1 ∧ sw.ic.eng = ic.eng) ∧
        ∀ fuel ic1 r, dmsg_ioq_read fuel env ic = some (ic1, r) →
          r = none ∧ ic1.ioq_rx.error = DMSG_IOQ_ERROR_SYNC ∧ ic1.ioq_rx.msg = none ∧
          ic1.ioq_rx.state = .ERROR) ∧
      (((rx_head ic2).magic = DMSG_HDR_MAGIC ∨ (rx_head ic2).magic = DMSG_HDR_MAGIC_REV) →
        (hdr_hbytes (rx_head ic2) < sizeof_head ∨ hdr_hbytes (rx_head ic2) > env.sizeof_any) →
        (∃ sw, dmsg_ioq_read_switch env ic = some sw ∧ sw.msgp = false ∧
          sw.ic.ioq_rx.error = DMSG_IOQ_ERROR_FIELD ∧ sw.ic.ioq_rx.msg = none ∧
          sw.ic.ioq_rx.state = .HEADER1 ∧ sw.ic.eng = ic.eng) ∧
        ∀ fuel ic1 r, dmsg_ioq_read fuel env ic = some (ic1, r) →
          r = none ∧ ic1.ioq_rx.error = DMSG_IOQ_ERROR_FIELD ∧ ic1.ioq_rx.msg = none ∧
          ic1.ioq_rx.state = .ERROR)) ∧
    (Hdr1Ready ic → ∃ ic2, header1_arrival env ic = some ic2 ∧ rx_head ic2 = rx_head ic) ∧
    (∀ (W : List Nat) (rest : List sock_event), RxIdle env ic → 128 ≤ env.sizeof_buf →
      64 ≤ W.length → ic.sock = sock_event.data W :: rest →
      ∃ ic2, header1_arrival env ic = some ic2 ∧ rx_head ic2 = hdr_of_bytes (W.take 64)) := by
  have hsync : ∀ ic ic2 : dmsg_iocom, ic.ioq_rx.state = .HEADER1 → ic.ioq_rx.msg = none →
      header1_arrival env ic = some ic2 →
      ((rx_head ic2).magic ≠ DMSG_HDR_MAGIC ∧ (rx_head ic2).magic ≠ DMSG_HDR_MAGIC_REV) →
      dmsg_ioq_read_switch env ic = some
        { ic := { ic2 with ioq_rx := { ic2.ioq_rx with error := DMSG_IOQ_ERROR_SYNC } },
          msgp := false } := by
    intro ic ic2 hs hm ha hmag
    rw [switch_arrival env ic ic2 hs ha, hm]
    unfold dmsg_ioq_read_HEADER1_check
    unfold rx_head at hmag
    simp only []
    rw [if_pos hmag]
    rfl
  have hfield : ∀ ic ic2 : dmsg_iocom, ic.ioq_rx.state = .HEADER1 → ic.ioq_rx.msg = none →
      header1_arrival env ic = some ic2 →
      ((rx_head ic2).magic = DMSG_HDR_MAGIC ∨ (rx_head ic2).magic = DMSG_HDR_MAGIC_REV) →
      (hdr_hbytes (rx_head ic2) < sizeof_head ∨ hdr_hbytes (rx_head ic2) > env.sizeof_any) →
      dmsg_ioq_read_switch env ic = some
        { ic := { ic2 with ioq_rx := { ic2.ioq_rx with
                    hbytes := hdr_hbytes (rx_head ic2)
                    abytes := DMSG_DOALIGN 32 (hdr_aux_size (rx_head ic2))
                    unaligned_aux_size := hdr_aux_size (rx_head ic2)
                    error := DMSG_IOQ_ERROR_FIELD } },
          msgp := false } := by
    intro ic ic2 hs hm ha hmag hsz
    rw [switch_arrival env ic ic2 hs ha, hm]
    unfold dmsg_ioq_read_HEADER1_check
    unfold rx_head at hmag hsz
    simp only []
    rw [if_neg (by
      intro hc
      rcases hmag with hmag | hmag
      · exact hc.1 hmag
      · exact hc.2 hmag)]
    rw [if_pos (by
      rcases hsz with hsz | hsz
      · exact Or.inl hsz
      · exact Or.inr (Or.inl hsz))]
    rfl
  refine ⟨fun ic2 ha => ?_, arrival_ready env ic, fun W rest hi hB hW hs =>
    arrival_socket env ic W rest hi hB hW hs⟩
  obtain ⟨k1, k2, k3, k4, k5⟩ := arrival_keep env ic ic2 ha
  have heng : ic2.eng = ic.eng := by
    rw [k4, hmsg]
    exact check_true _
  have ha1 := arrival_flags env ic { ic.flags with RREQ := false, RWORK := false } rfl
  rw [ha] at ha1
  refine ⟨fun hm => ⟨⟨_, hsync ic ic2 hstate hmsg ha hm, rfl, rfl, k2.trans hmsg,
      k1.trans hstate, heng⟩, ?_⟩,
    fun hm hs => ⟨⟨_, hfield ic ic2 hstate hmsg ha hm hs, rfl, rfl, k2.trans hmsg,
      k1.trans hstate, heng⟩, ?_⟩⟩
  · intro fuel ic1 r h
    cases fuel with
    | zero => simp [dmsg_ioq_read] at h
    | succ fuel =>
      have := ioq_read_switch_error fuel env ic ic1 r _ hq herr
        (hsync _ _ hstate hmsg ha1 hm) rfl (by simp [DMSG_IOQ_ERROR_SYNC]) h
      refine ⟨this.1, ?_, ?_, ?_⟩ <;> rw [this.2]
      · exact k2.trans hmsg
  · intro fuel ic1 r h
    cases fuel with
    | zero => simp [dmsg_ioq_read] at h
    | succ fuel =>
      have := ioq_read_switch_error fuel env ic ic1 r _ hq herr
        (hfield _ _ hstate hmsg ha1 hm hs) rfl (by simp [DMSG_IOQ_ERROR_FIELD]) h
      refine ⟨this.1, ?_, ?_, ?_⟩ <;> rw [this.2]
      · exact k2.trans hmsg

/-- C7 (witness). A fresh connection whose socket delivers 64 zero bytes: the
call reads them, the magic is bad, and the parser leaves the `switch` with
`SYNC`; the call of `dmsg_ioq_read` returns `NULL` with `SYNC` latched and the
parser in `ERROR`.  A core header with the native magic and a size of 0 units
gives `FIELD` in the same way. -/
theorem header1_validation_witness :
    (∃ sw, dmsg_ioq_read_switch ex_env (ex_conn (List.replicate 64 0)) = some sw ∧
      sw.msgp = false ∧ sw.ic.ioq_rx.error = DMSG_IOQ_ERROR_SYNC ∧ sw.ic.ioq_rx.msg = none ∧
      sw.ic.ioq_rx.state = .HEADER1 ∧ sw.ic.eng = (ex_conn (List.replicate 64 0)).eng) ∧
    rx_view (dmsg_ioq_read 3 ex_env (ex_conn (List.replicate 64 0))) =
      some (DMSG_IOQ_ERROR_SYNC, .ERROR, false, none) ∧
    (∃ sw, dmsg_ioq_read_switch ex_env
        (ex_conn (hdr_bytes { dmsg_hdr.zero with magic := DMSG_HDR_MAGIC })) = some sw ∧
      sw.msgp = false ∧ sw.ic.ioq_rx.error = DMSG_IOQ_ERROR_FIELD ∧ sw.ic.ioq_rx.msg = none ∧
      sw.ic.ioq_rx.state = .HEADER1 ∧
      sw.ic.eng = (ex_conn (hdr_bytes { dmsg_hdr.zero with magic := DMSG_HDR_MAGIC })).eng) ∧
    rx_view (dmsg_ioq_read 3 ex_env
        (ex_conn (hdr_bytes { dmsg_hdr.zero with magic := DMSG_HDR_MAGIC }))) =
      some (DMSG_IOQ_ERROR_FIELD, .ERROR, false, none) := by
  have hi : ∀ bs, RxIdle ex_env (ex_conn bs) := fun bs =>
    ⟨rfl, rfl, rfl, rfl, rfl, rfl, rfl, rfl, rfl, List.length_replicate _ _⟩
  obtain ⟨ic2, h2, hh⟩ := (header1_validation ex_env (ex_conn (List.replicate 64 0))
    rfl rfl rfl rfl).2.2 (List.replicate 64 0) [] (hi _) (by decide) (by decide) rfl
  obtain ⟨ic3, h3, hh3⟩ := (header1_validation ex_env
    (ex_conn (hdr_bytes { dmsg_hdr.zero with magic := DMSG_HDR_MAGIC }))
    rfl rfl rfl rfl).2.2 (hdr_bytes { dmsg_hdr.zero with magic := DMSG_HDR_MAGIC }) [] (hi _)
    (by decide) (by decide) rfl
  refine ⟨?_, by decide!, ?_, by decide!⟩
  · exact (((header1_validation ex_env (ex_conn (List.replicate 64 0)) rfl rfl rfl rfl).1
      ic2 h2).1 (by rw [hh]; decide!)).1
  · exact (((header1_validation ex_env
      (ex_conn (hdr_bytes { dmsg_hdr.zero with magic := DMSG_HDR_MAGIC })) rfl rfl rfl rfl).1
      ic3 h3).2 (by rw [hh3]; decide!) (by rw [hh3]; decide!)).1
/-! ## The CRC checks on a frame that arrives on the socket -/

theorem teq_trans {e e1 e2 : dmsg_engine}
    (h1 : e1.staterd_tree = e.staterd_tree ∧ e1.statewr_tree = e.statewr_tree)
    (h2 : e2.staterd_tree = e1.staterd_tree ∧ e2.statewr_tree = e1.statewr_tree) :
    e2.staterd_tree = e.staterd_tree ∧ e2.statewr_tree = e.statewr_tree :=
  ⟨h2.1.trans h1.1, h2.2.trans h1.2⟩

theorem tkeep_of_eq (x : Nat) {e e1 : dmsg_engine}
    (h : e1.staterd_tree = e.staterd_tree ∧ e1.statewr_tree = e.statewr_tree) : tkeep x e e1 := by
  intro m z _
  rw [h.1, h.2]
  exact ⟨fun k => k, fun k => k⟩

theorem tkeep_trans {x : Nat} {e e1 e2 : dmsg_engine} (h1 : tkeep x e e1) (h2 : tkeep x e1 e2) :
    tkeep x e e2 :=
  fun m z hz => ⟨fun k => (h2 m z hz).1 ((h1 m z hz).1 k), fun k => (h2 m z hz).2 ((h1 m z hz).2 k)⟩

theorem hold_trees (e : dmsg_engine) (p : Nat) (e1 : dmsg_engine)
    (h : dmsg_state_hold e p = some e1) :
    e1.staterd_tree = e.staterd_tree ∧ e1.statewr_tree = e.statewr_tree := by
  unfold dmsg_state_hold at h
  simp only [Option.bind_eq_bind, Option.bind_eq_some, Option.pure_def, Option.some.injEq] at h
  obtain ⟨s, -, rfl⟩ := h
  exact ⟨rfl, rfl⟩

theorem free_trees (e : dmsg_engine) (p : Nat) (e1 : dmsg_engine)
    (h : dmsg_state_free e p = some e1) :
    e1.staterd_tree = e.staterd_tree ∧ e1.statewr_tree = e.statewr_tree := by
  unfold dmsg_state_free at h
  simp only [Option.bind_eq_bind, Option.bind_eq_some, Option.pure_def, Option.some.injEq] at h
  obtain ⟨s, -, rfl⟩ := h
  exact ⟨rfl, rfl⟩

theorem drop_trees (e : dmsg_engine) (p : Nat) (e1 : dmsg_engine)
    (h : dmsg_state_drop e p = some e1) :
    e1.staterd_tree = e.staterd_tree ∧ e1.statewr_tree = e.statewr_tree := by
  unfold dmsg_state_drop at h
  simp only [Option.bind_eq_bind, Option.bind_eq_some, Option.pure_def] at h
  obtain ⟨s, -, h⟩ := h
  split_ifs at h
  · have k := free_trees _ _ _ h
    exact k
  · injection h with h
    subst h
    exact ⟨rfl, rfl⟩

theorem subq_delete_trees (e : dmsg_engine) (c : Nat) (e1 : dmsg_engine)
    (h : dmsg_subq_delete e c = some e1) :
    e1.staterd_tree = e.staterd_tree ∧ e1.statewr_tree = e.statewr_tree := by
  unfold dmsg_subq_delete at h
  simp only [Option.bind_eq_bind, Option.bind_eq_some, Option.pure_def] at h
  obtain ⟨s, -, h⟩ := h
  by_cases hsub : s.flags.SUBINSERTED = true
  · rw [if_pos hsub] at h
    simp only [Option.bind_eq_some] at h
    obtain ⟨p, -, ps, -, h⟩ := h
    by_cases hmem : c ∈ (if ps.scan = some c then { ps with scan := none } else ps).subq
    · rw [if_pos hmem] at h
      simp only [Option.bind_eq_some] at h
      obtain ⟨s1, -, ps2, -, h⟩ := h
      by_cases hemp : ps2.subq.isEmpty = true
      · rw [if_pos hemp] at h
        simp only [Option.bind_eq_some] at h
        obtain ⟨e3, he3, h⟩ := h
        have k := teq_trans (drop_trees _ _ _ he3) (drop_trees _ _ _ h)
        exact k
      · rw [if_neg hemp] at h
        simp only [Option.some_bind] at h
        have k := drop_trees _ _ _ h
        exact k
    · rw [if_neg hmem] at h
      cases h
  · rw [if_neg hsub] at h
    injection h with h
    subst h
    exact ⟨rfl, rfl⟩

theorem msg_free_trees (e : dmsg_engine) (msg : dmsg_msg) (e1 : dmsg_engine)
    (h : dmsg_msg_free e msg = some e1) :
    e1.staterd_tree = e.staterd_tree ∧ e1.statewr_tree = e.statewr_tree := by
  unfold dmsg_msg_free dmsg_msg_free_locked at h
  simp only [Option.bind_eq_bind, Option.bind_eq_some] at h
  obtain ⟨st, hst, s, -, h⟩ := h
  rw [hst] at h
  exact drop_trees _ _ _ h

theorem alloc_keep_trees (e : dmsg_engine) (state aux_size cmd func : Nat) (data : Bool)
    (r : dmsg_engine × dmsg_msg) (hc : ¬ cmd &&& (DMSGF_CREATE ||| DMSGF_REPLY) = DMSGF_CREATE)
    (h : dmsg_msg_alloc_locked e state aux_size cmd func data = some r) :
    r.1.staterd_tree = e.staterd_tree ∧ r.1.statewr_tree = e.statewr_tree := by
  unfold dmsg_msg_alloc_locked at h
  simp only [hc, decide_False, Bool.false_eq_true, if_false, Option.bind_eq_bind,
    Option.bind_eq_some, Option.pure_def, Option.map_eq_some'] at h
  obtain ⟨a, ⟨e1, he1, ha⟩, s0, hs0, pstate, -, s1, -, ps1, -, h⟩ := h
  have k := hold_trees _ _ _ he1
  injection h with h
  subst h ha
  exact k

theorem switch_trees (e : dmsg_engine) (msg : dmsg_msg) (state : Nat) (pstate : Option Nat)
    (l : msgrx_locals) (hne : some state ≠ pstate)
    (h : dmsg_state_msgrx_switch e msg state pstate = some l) :
    l.eng.staterd_tree = e.staterd_tree ∧ l.eng.statewr_tree = e.statewr_tree := by
  unfold dmsg_state_msgrx_switch at h
  simp only [] at h
  split_ifs at h
  all_goals first
    | exact absurd hne (by assumption)
    | (injection h with h; subst h; exact ⟨rfl, rfl⟩)
    | (simp only [Option.bind_eq_some] at h
       obtain ⟨st, hst, h⟩ := h
       first
         | (injection h with h; subst h; exact ⟨rfl, rfl⟩)
         | (split_ifs at h <;> (injection h with h; subst h; exact ⟨rfl, rfl⟩)))

theorem rb_remove_keep (tree : Nat → Option Nat) (m x : Nat) (t : Nat → Option Nat)
    (h : RB_REMOVE tree m x = some t) (k z : Nat) (hz : z ≠ x) (hk : tree k = some z) :
    t k = some z := by
  unfold RB_REMOVE at h
  split_ifs at h with hm
  injection h with h
  subst h
  have hkm : k ≠ m := by
    intro hc
    rw [hc, hm] at hk
    injection hk with hk
    exact hz hk.symm
  rw [Function.update_noteq hkm]
  exact hk

theorem remove_tkeep (e : dmsg_engine) (cmd state : Nat) (st : dmsg_state) (e1 : dmsg_engine)
    (h : dmsg_state_msgrx_remove e cmd state st = some e1) : tkeep state e e1 := by
  unfold dmsg_state_msgrx_remove at h
  simp only [Option.bind_eq_bind, Option.bind_eq_some] at h
  obtain ⟨e7, he7, h⟩ := h
  have h7 : tkeep state e e7 := by
    by_cases hR : st.rxcmd &&& DMSGF_REPLY ≠ 0
    · rw [if_pos hR] at he7
      simp only [Option.map_eq_some'] at he7
      obtain ⟨t, ht, rfl⟩ := he7
      intro m z hz
      exact ⟨fun k => k, fun k => rb_remove_keep _ _ _ _ ht m z hz k⟩
    · rw [if_neg hR] at he7
      simp only [Option.map_eq_some'] at he7
      obtain ⟨t, ht, rfl⟩ := he7
      intro m z hz
      exact ⟨fun k => rb_remove_keep _ _ _ _ ht m z hz k, fun k => k⟩
  have k := drop_trees _ _ _ h
  exact tkeep_trans h7 (tkeep_of_eq state k)

theorem adjust_tkeep (l : msgrx_locals) (r : msgrx_result)
    (h : dmsg_state_msgrx_adjust l = some r) : tkeep l.state l.eng r.eng := by
  unfold dmsg_state_msgrx_adjust at h
  simp only [Option.bind_eq_bind, Option.bind_eq_some, Option.pure_def] at h
  obtain ⟨mst2, -, ms2, -, st2, -, h⟩ := h
  split_ifs at h
  · injection h with h
    rw [← h]
    exact tkeep_of_eq _ ⟨rfl, rfl⟩
  · simp only [Option.map_eq_some'] at h
    obtain ⟨e9, he9, h⟩ := h
    rw [← h]
    have k := remove_tkeep _ _ _ _ _ he9
    exact k
  · injection h with h
    rw [← h]
    exact tkeep_of_eq _ ⟨rfl, rfl⟩
  · injection h with h
    rw [← h]
    exact tkeep_of_eq _ ⟨rfl, rfl⟩

theorem switch_state (e : dmsg_engine) (msg : dmsg_msg) (state : Nat) (pstate : Option Nat)
    (l : msgrx_locals) (hne : some state ≠ pstate)
    (h : dmsg_state_msgrx_switch e msg state pstate = some l) : l.state = state := by
  unfold dmsg_state_msgrx_switch at h
  simp only [] at h
  split_ifs at h
  all_goals first
    | exact absurd hne (by assumption)
    | (injection h with h; subst h; rfl)
    | (simp only [Option.bind_eq_some] at h
       obtain ⟨st, hst, h⟩ := h
       first
         | (injection h with h; subst h; rfl)
         | (split_ifs at h <;> (injection h with h; subst h; rfl)))

/-- The call `dmsg_state_msgrx(msg, 1)` on a message whose state is not its own
parent removes no tree entry of another state. -/
theorem msgrx_tkeep (e : dmsg_engine) (msg : dmsg_msg) (r : msgrx_result) (x : Nat)
    (s : dmsg_state) (h : dmsg_state_msgrx e msg true = some r) (hm : msg.state = some x)
    (hs : e.heap x = some s) (hne : s.parent ≠ some x) : tkeep x e r.eng := by
  unfold dmsg_state_msgrx at h
  simp only [hm, hs, Option.bind_eq_bind, Option.some_bind, dmsg_state_msgrx_circuit, if_true,
    dmsg_state_msgrx_find, dmsg_state_msgrx_assign, Option.bind_eq_some] at h
  obtain ⟨l, hl, h⟩ := h
  have k := switch_trees _ _ _ _ l (fun hc => hne hc.symm) hl
  have k2 := switch_state _ _ _ _ l (fun hc => hne hc.symm) hl
  have k3 := adjust_tkeep l r h
  rw [k2] at k3
  exact tkeep_trans (tkeep_of_eq x k) k3

theorem cleanuprx_trees (e : dmsg_engine) (msg : dmsg_msg) (e1 : dmsg_engine)
    (h : dmsg_state_cleanuprx e msg = some e1) :
    e1.staterd_tree = e.staterd_tree ∧ e1.statewr_tree = e.statewr_tree := by
  unfold dmsg_state_cleanuprx at h
  simp only [Option.bind_eq_bind, Option.bind_eq_some] at h
  obtain ⟨state, -, st, -, h⟩ := h
  split_ifs at h
  · exact msg_free_trees _ _ _ h
  · simp only [Option.bind_eq_some] at h
    obtain ⟨ea, hea, st1, hst1, e2, he2, h⟩ := h
    have h2 : e2.staterd_tree = ea.staterd_tree ∧ e2.statewr_tree = ea.statewr_tree := by
      cases hrel : st1.relay with
      | none =>
        rw [hrel] at he2
        injection he2 with he2
        subst he2
        exact ⟨rfl, rfl⟩
      | some r =>
        rw [hrel] at he2
        simp only [Option.bind_eq_bind, Option.bind_eq_some, Option.pure_def] at he2
        obtain ⟨eb, heb, st2, hst2, he2⟩ := he2
        injection he2 with he2
        subst he2
        have k := drop_trees _ _ _ heb
        exact k
    exact teq_trans (teq_trans (subq_delete_trees _ _ _ hea) h2) (msg_free_trees _ _ _ h)
  · exact msg_free_trees _ _ _ h

/-- The block of `dmsg_state_abort` that synthesizes the `DELETE` removes no
tree entry of another state. -/
theorem abort_msg_tkeep (e : dmsg_engine) (x : Nat) (s : dmsg_state) (e1 : dmsg_engine)
    (hs : e.heap x = some s) (hne : s.parent ≠ some x)
    (h : dmsg_state_abort_msg e x = some e1) : tkeep x e e1 := by
  unfold dmsg_state_abort_msg at h
  simp only [Option.bind_eq_bind, Option.bind_eq_some] at h
  obtain ⟨am, ham, s3, hs3, r, hr, h⟩ := h
  obtain ⟨hb, hst, s0, hs0, hput⟩ := alloc_keep_state e x 0 DMSG_LNK_ERROR 0 false am
    (by decide) ham
  have ht := alloc_keep_trees e x 0 DMSG_LNK_ERROR 0 false am (by decide) ham
  rw [hs] at hs0
  injection hs0 with hs0
  subst hs0
  have h1 := msgrx_tkeep am.1 _ r x _ hr hst hput hne
  have h2 := cleanuprx_trees _ _ _ h
  exact tkeep_trans (tkeep_of_eq x ht) (tkeep_trans h1 (tkeep_of_eq x h2))
/-! ## The invariants of the cascade through its steps -/

theorem reg_step {e e1 : dmsg_engine}
    (hb : ∀ a s1, e1.heap a = some s1 → s1.flags.SUBINSERTED = true →
      s1.rxcmd &&& DMSGF_DELETE = 0 →
      ∃ s, e.heap a = some s ∧ s.flags.SUBINSERTED = true ∧ s.rxcmd = s1.rxcmd ∧
        s.msgid = s1.msgid ∧ (∀ m, e.staterd_tree m = some a → e1.staterd_tree m = some a) ∧
        (∀ m, e.statewr_tree m = some a → e1.statewr_tree m = some a))
    (h : reg_inv e) : reg_inv e1 := by
  intro a s1 h1 hsub hopen
  obtain ⟨s, hs, hS, hr, hm, krd, kwr⟩ := hb a s1 h1 hsub hopen
  have k := h a s hs hS (by rw [hr]; exact hopen)
  unfold rx_tree at k ⊢
  rw [← hr, ← hm]
  split_ifs at k ⊢
  · exact kwr _ k
  · exact krd _ k

theorem reg_put (e : dmsg_engine) (p : Nat) (s s1 : dmsg_state) (hs : e.heap p = some s)
    (h1 : s1.flags.SUBINSERTED = s.flags.SUBINSERTED) (h2 : s1.rxcmd = s.rxcmd)
    (h3 : s1.msgid = s.msgid) (h : reg_inv e) : reg_inv (e.put p s1) := by
  refine reg_step ?_ h
  intro a t ht hsub hopen
  by_cases hap : a = p
  · subst hap
    rw [put_heap_same] at ht
    injection ht with ht
    subst ht
    exact ⟨s, hs, by rw [← h1]; exact hsub, h2.symm, h3.symm, fun _ k => k, fun _ k => k⟩
  · rw [put_heap_other _ _ _ _ hap] at ht
    exact ⟨t, ht, hsub, rfl, rfl, fun _ k => k, fun _ k => k⟩

theorem reg_dying {e e1 : dmsg_engine} (hd : dying_only e e1) (h : reg_inv e) : reg_inv e1 := by
  refine reg_step ?_ h
  intro a t ht hsub hopen
  obtain ⟨s, d, hs, rfl⟩ := dying_only_bwd hd a t ht
  refine ⟨s, hs, hsub, rfl, rfl, ?_, ?_⟩
  · intro m k
    rw [hd.rd]
    exact k
  · intro m k
    rw [hd.wr]
    exact k

/-- What `dmsg_state_drop` leaves of the heap: a state that is allocated
afterwards was allocated before and differs in its count only. -/
theorem drop_bwd (e : dmsg_engine) (p : Nat) (e1 : dmsg_engine)
    (h : dmsg_state_drop e p = some e1) (a : Nat) (s1 : dmsg_state)
    (h1 : e1.heap a = some s1) : ∃ s, e.heap a = some s ∧ s1 = { s with refs := s1.refs } := by
  unfold dmsg_state_drop at h
  simp only [Option.bind_eq_bind, Option.bind_eq_some, Option.pure_def] at h
  obtain ⟨s, hs, h⟩ := h
  split_ifs at h
  · unfold dmsg_state_free at h
    simp only [Option.bind_eq_bind, Option.bind_eq_some, Option.pure_def, Option.some.injEq] at h
    obtain ⟨t, -, rfl⟩ := h
    by_cases hap : a = p
    · subst hap
      simp [dmsg_engine.check, dmsg_engine.put] at h1
    · simp only [dmsg_engine.check, dmsg_engine.put, Function.update_noteq hap] at h1
      exact ⟨s1, h1, rfl⟩
  · injection h with h
    subst h
    by_cases hap : a = p
    · subst hap
      rw [put_heap_same] at h1
      injection h1 with h1
      subst h1
      exact ⟨s, hs, rfl⟩
    · rw [put_heap_other _ _ _ _ hap] at h1
      exact ⟨s1, h1, rfl⟩

theorem drop_reg (e : dmsg_engine) (p : Nat) (e1 : dmsg_engine)
    (hd : dmsg_state_drop e p = some e1) (h : reg_inv e) : reg_inv e1 := by
  refine reg_step ?_ h
  intro a t ht hsub hopen
  obtain ⟨s, hs, hst⟩ := drop_bwd e p e1 hd a t ht
  obtain ⟨k1, k2⟩ := drop_trees e p e1 hd
  refine ⟨s, hs, ?_, ?_, ?_, ?_, ?_⟩
  · rw [hst] at hsub
    exact hsub
  · rw [hst]
  · rw [hst]
  · intro m k
    rw [k1]
    exact k
  · intro m k
    rw [k2]
    exact k

theorem drop_some (e : dmsg_engine) (p : Nat) (s : dmsg_state) (hs : e.heap p = some s) :
    ∃ e1, dmsg_state_drop e p = some e1 := by
  unfold dmsg_state_drop
  simp only [hs, Option.bind_eq_bind, Option.some_bind, Option.pure_def]
  split_ifs
  · unfold dmsg_state_free
    simp only [put_heap_same, Option.bind_eq_bind, Option.some_bind, Option.pure_def]
    exact ⟨_, rfl⟩
  · exact ⟨_, rfl⟩

/-- A state on which a reference is left after `dmsg_state_drop` is still
allocated. -/
theorem drop_alive (e : dmsg_engine) (M : List Nat) (p : Nat) (e1 : dmsg_engine)
    (hI : eng_inv e (p :: M)) (hd : dmsg_state_drop e p = some e1) (a : Nat) (ha : a ∈ M)
    (hs : ∃ s, e.heap a = some s) : ∃ s, e1.heap a = some s := by
  obtain ⟨s, hs⟩ := hs
  by_cases hap : a = p
  · subst hap
    have hr := hI.1.refs a s hs
    have hc : 1 ≤ M.count a := List.count_pos_iff.2 ha
    rw [List.count_cons_self] at hr
    have h2 : 2 ≤ s.refs := by omega
    rw [drop_keep e a s hs h2] at hd
    injection hd with hd
    subst hd
    exact ⟨_, put_heap_same _ _ _⟩
  · unfold dmsg_state_drop at hd
    simp only [Option.bind_eq_bind, Option.bind_eq_some, Option.pure_def] at hd
    obtain ⟨t, -, hd⟩ := hd
    split_ifs at hd
    · unfold dmsg_state_free at hd
      simp only [Option.bind_eq_bind, Option.bind_eq_some, Option.pure_def,
        Option.some.injEq] at hd
      obtain ⟨u, -, rfl⟩ := hd
      refine ⟨s, ?_⟩
      simp only [dmsg_engine.check, dmsg_engine.put, Function.update_noteq hap]
      exact hs
    · injection hd with hd
      subst hd
      exact ⟨s, by rw [put_heap_other _ _ _ _ hap]; exact hs⟩

theorem casc_inv_hold (e : dmsg_engine) (H L : List Nat) (x : Nat) (s : dmsg_state)
    (hJ : casc_inv e H L) (hs : e.heap x = some s) :
    dmsg_state_hold e x = some (e.put x { s with refs := s.refs + 1 }) ∧
    casc_inv (e.put x { s with refs := s.refs + 1 }) (x :: H) L := by
  obtain ⟨hI, hT, hC, hR, hA⟩ := hJ
  have hh := hold_eq e x s hs
  refine ⟨hh, hold_inv e _ x _ hI hh, tree_map (hold_shape _ _ _ hh) hT, (hold_cstep True _ _ _ hh).1 hC,
    reg_put e x s _ hs rfl rfl rfl hR, ?_⟩
  intro a ha
  by_cases hax : a = x
  · subst hax
    exact ⟨_, put_heap_same _ _ _⟩
  · rw [put_heap_other _ _ _ _ hax]
    rcases List.mem_cons.1 ha with h | h
    · exact absurd h hax
    · exact hA a h

theorem casc_inv_scan (e : dmsg_engine) (H L : List Nat) (q : Nat) (s : dmsg_state)
    (c : Option Nat) (hJ : casc_inv e H L) (hs : e.heap q = some s) :
    casc_inv (e.put q { s with scan := c }) H L := by
  obtain ⟨hI, hT, hC, hR, hA⟩ := hJ
  refine ⟨inv_put_same e _ q s _ hI hs ⟨rfl, rfl, rfl, rfl, rfl⟩ rfl rfl rfl rfl,
    tree_map (shape_eq_put e q s _ hs ⟨rfl, rfl, rfl, rfl, rfl⟩) hT,
    (cstep_put True e q s { s with scan := c } hs (fun k => k) (fun _ k => k)).1 hC,
    reg_put e q s _ hs rfl rfl rfl hR, ?_⟩
  intro a ha
  by_cases haq : a = q
  · subst haq
    exact ⟨_, put_heap_same _ _ _⟩
  · rw [put_heap_other _ _ _ _ haq]
    exact hA a ha

theorem casc_inv_drop (e : dmsg_engine) (H L : List Nat) (x : Nat)
    (hJ : casc_inv e (x :: H) L) :
    ∃ r, dmsg_state_drop e x = some r ∧ casc_inv r H L := by
  obtain ⟨hI, hT, hC, hR, hA⟩ := hJ
  obtain ⟨s, hs⟩ := hA x (List.mem_cons_self _ _)
  obtain ⟨r, hr⟩ := drop_some e x s hs
  have hIr : eng_inv r (H ++ L) := drop_inv e _ x r hI hr
  refine ⟨r, hr, hIr, ((drop_nstep _ _ _ hr).1 hIr.2).2 hT trivial, (drop_cstep True _ _ _ hr).1 hC,
    drop_reg e x r hr hR, ?_⟩
  intro a ha
  exact drop_alive e (H ++ L) x r hI hr a (List.mem_append_left _ ha)
    (hA a (List.mem_cons_of_mem _ ha))

theorem rxd_refl (e : dmsg_engine) : rxd e e :=
  fun _ s1 h => ⟨s1, h, fun k => k⟩

theorem rxd_trans {e e1 e2 : dmsg_engine} (h1 : rxd e e1) (h2 : rxd e1 e2) : rxd e e2 := by
  intro a s2 hs2
  obtain ⟨s1, hs1, k1⟩ := h2 a s2 hs2
  obtain ⟨s, hs, k⟩ := h1 a s1 hs1
  exact ⟨s, hs, fun h => k1 (k h)⟩

theorem rxd_put (e : dmsg_engine) (p : Nat) (s s1 : dmsg_state) (hs : e.heap p = some s)
    (h : s.rxcmd &&& DMSGF_DELETE ≠ 0 → s1.rxcmd &&& DMSGF_DELETE ≠ 0) : rxd e (e.put p s1) := by
  intro a t ht
  by_cases hap : a = p
  · subst hap
    rw [put_heap_same] at ht
    injection ht with ht
    subst ht
    exact ⟨s, hs, h⟩
  · rw [put_heap_other _ _ _ _ hap] at ht
    exact ⟨t, ht, fun k => k⟩

theorem rxd_dying {e e1 : dmsg_engine} (h : dying_only e e1) : rxd e e1 := by
  intro a s1 hs1
  obtain ⟨s, d, hs, hd⟩ := dying_only_bwd h a s1 hs1
  refine ⟨s, hs, fun k => ?_⟩
  rw [hd]
  exact k

theorem rxd_drop (e : dmsg_engine) (p : Nat) (e1 : dmsg_engine)
    (h : dmsg_state_drop e p = some e1) : rxd e e1 := by
  intro a s1 hs1
  obtain ⟨s, hs, hst⟩ := drop_bwd e p e1 h a s1 hs1
  refine ⟨s, hs, fun k => ?_⟩
  rw [hst]
  exact k
/-! ## The failure cascade returns -/

/-- The call `dmsg_state_cleanuprx` of `dmsg_state_abort` on the last child of
a parent that nothing else references: the child leaves the queue and the
parent is freed. -/
theorem cleanup_last (E : dmsg_engine) (msg : dmsg_msg) (x q : Nat) (sx sq : dmsg_state)
    (hx : E.heap x = some sx) (hq : E.heap q = some sq) (hne : x ≠ q)
    (hms : msg.state = some x) (hroot : sx.flags.ROOT = false)
    (hsub : sx.flags.SUBINSERTED = true) (hpar : sx.parent = some q)
    (hrx : sx.rxcmd &&& DMSGF_DELETE ≠ 0) (htx : sx.txcmd &&& DMSGF_DELETE ≠ 0)
    (hrelay : sx.relay = none) (hmem : x ∈ sq.subq) (hrefs : 3 ≤ sx.refs)
    (hemp : sq.subq.erase x = []) (hq1 : sq.refs = 1) :
    ∃ E1, dmsg_state_cleanuprx E msg = some E1 ∧ E1.heap q = none ∧
      (∀ a, a ∉ [x, q] → E1.heap a = E.heap a) ∧
      E1.heap x = some { sx with
        flags := { sx.flags with SUBINSERTED := false }, parent := none
        refs := sx.refs - 2 } := by
  have hps1 : (if sq.scan = some x then { sq with scan := none } else sq) =
      { sq with scan := if sq.scan = some x then none else sq.scan } := by
    split <;> rfl
  have hqx : q ≠ x := fun h => hne h.symm
  have hcond : sx.flags.SUBINSERTED = true ∧ ¬ (sx.rxcmd &&& DMSGF_DELETE = 0) ∧
      ¬ (sx.txcmd &&& DMSGF_DELETE = 0) := ⟨hsub, hrx, htx⟩
  have hxm : x ∈ ({ sq with scan := if sq.scan = some x then none else sq.scan } : dmsg_state).subq :=
    hmem
  have hfree : ∀ (e1 : dmsg_engine) (s : dmsg_state), e1.heap x = some s → 2 ≤ s.refs →
      dmsg_msg_free e1 msg = some (e1.put x { s with refs := s.refs - 1 }) := by
    intro e1 s h1 h2
    unfold dmsg_msg_free dmsg_msg_free_locked
    simp only [hms, h1, Option.bind_eq_bind, Option.some_bind]
    exact drop_keep e1 x s h1 h2
  unfold dmsg_state_cleanuprx
  rw [hms]
  simp only [Option.bind_eq_bind, Option.some_bind]
  rw [hx, Option.some_bind, if_neg (by rw [hroot]; decide), if_pos hcond]
  unfold dmsg_subq_delete
  simp only [Option.bind_eq_bind]
  rw [hx, Option.some_bind, if_pos hsub, hpar, Option.some_bind, hq, Option.some_bind]
  simp only [hps1]
  rw [if_pos hxm, put_heap_other _ q x _ hne, hx, Option.some_bind,
    put_heap_other _ x q _ hqx, put_heap_same, Option.some_bind]
  have hi : (sq.subq.erase x).isEmpty = true := by
    rw [hemp]
    rfl
  rw [if_pos hi]
  obtain ⟨e3, hd3, hn3, ho3, -⟩ := drop_last
    ((E.put q { sq with
        scan := if sq.scan = some x then none else sq.scan, subq := sq.subq.erase x }).put x
      { sx with flags := { sx.flags with SUBINSERTED := false }, parent := none })
    q { sq with scan := if sq.scan = some x then none else sq.scan, subq := sq.subq.erase x }
    (put_put_heap E q x _ _ hqx) hq1
  rw [hd3, Option.some_bind]
  have hx3 := ho3 x hne
  rw [put_heap_same] at hx3
  rw [drop_keep e3 x _ hx3 (le_trans (by decide) hrefs)]
  rw [Option.some_bind, put_heap_same, Option.some_bind]
  simp only [hrelay, Option.pure_def, Option.some_bind]
  rw [hfree _ _ (put_heap_same _ _ _) (by show (2 : Int) ≤ sx.refs - 1; omega)]
  refine ⟨_, rfl, ?_, ?_, ?_⟩
  · rw [put_heap_other _ _ _ _ hqx, put_heap_other _ _ _ _ hqx]
    exact hn3
  · intro a ha
    have h1 : a ≠ x := fun hc => ha (by rw [hc]; exact List.mem_cons_self _ _)
    have h2 : a ≠ q := fun hc =>
      ha (by rw [hc]; exact List.mem_cons_of_mem _ (List.mem_singleton_self _))
    rw [put_heap_other _ _ _ _ h1, put_heap_other _ _ _ _ h1, ho3 a h2,
      put_heap_other _ _ _ _ h1, put_heap_other _ _ _ _ h2]
  · simp only [put_heap_same, hrelay, sub_sub]
    rfl

/-- The block of `dmsg_state_abort` that synthesizes the `DELETE`, on the last
child of a parent that nothing else references, when the `txcmd` of the child
has `DELETE`: the child leaves its tree and the queue, and the parent is
freed. -/
theorem abort_msg_last (E : dmsg_engine) (x q : Nat) (sx sq : dmsg_state)
    (hx : E.heap x = some sx) (hq : E.heap q = some sq) (hne : x ≠ q)
    (hpar : sx.parent = some q) (hroot : sx.flags.ROOT = false)
    (hsub : sx.flags.SUBINSERTED = true) (hrb : sx.flags.RBINSERTED = true)
    (hopen : sx.rxcmd &&& DMSGF_DELETE = 0)
    (hbegun : sx.rxcmd &&& DMSGF_CREATE ≠ 0 ∨ sx.rxcmd &&& DMSGF_REPLY ≠ 0)
    (hrelay : sx.relay = none) (hmem : x ∈ sq.subq) (hrefs : 3 ≤ sx.refs)
    (htx : sx.txcmd &&& DMSGF_DELETE ≠ 0) (hemp : sq.subq.erase x = []) (hq1 : sq.refs = 1)
    (htree : (if sx.rxcmd &&& DMSGF_REPLY ≠ 0 then E.statewr_tree sx.msgid
              else E.staterd_tree sx.msgid) = some x) :
    ∃ E1 rx, dmsg_state_abort_msg E x = some E1 ∧ rx &&& DMSGF_DELETE ≠ 0 ∧ E1.heap q = none ∧
      (∀ a, a ∉ [x, q] → E1.heap a = E.heap a) ∧
      E1.heap x = some { sx with
        rxcmd := rx, flags := { sx.flags with SUBINSERTED := false, RBINSERTED := false }
        parent := none, refs := sx.refs - 2 } := by
  have hqx : q ≠ x := fun h => hne h.symm
  obtain ⟨c, hc, halloc⟩ := alloc_plain E x q sx sq hx hpar hq hqx
  obtain ⟨r, rx, hr, h2, h3, h4, h5, h6, h7⟩ := abort_msgrx (E.put x { sx with refs := sx.refs + 1 })
    { state := some x
      head := { dmsg_hdr.zero with
                magic := DMSG_HDR_MAGIC, cmd := dmsg_state_abort_cmd c sx.rxcmd
                msgid := sx.msgid, circuit := sq.msgid, error := DMSG_ERR_LOSTLINK }
      ext := [], hdr_size := 64, aux_data := none, aux_size := 0, tcmd := 0 }
    x q c { sx with refs := sx.refs + 1 } (put_heap_same _ _ _) rfl hpar hne rfl hc hroot hopen
    hbegun hrb (by show (2 : Int) ≤ sx.refs + 1; omega) htree
  dsimp only at h3 h4 h7
  have hrq : r.eng.heap q = some sq := by
    rw [h5.heap q (fun hc => hqx (List.mem_singleton.1 hc)), put_heap_other _ _ _ _ hqx]
    exact hq
  have hbase : dmsg_state_abort_msg E x =
      dmsg_state_cleanuprx { r.eng with rcvd := r.eng.rcvd ++ [r.msg] } r.msg := by
    unfold dmsg_state_abort_msg
    simp only [halloc, Option.bind_eq_bind, Option.some_bind, put_heap_same]
    rw [hr, Option.some_bind]
  rw [if_pos htx] at h7
  obtain ⟨E1, hcl, k1, k2, k3⟩ := cleanup_last
    { r.eng with rcvd := r.eng.rcvd ++ [r.msg] } r.msg x q _ sq h7 hrq hne h2 hroot hsub hpar h6
    htx hrelay hmem (by show (3 : Int) ≤ sx.refs + 1 - 1; omega) hemp hq1
  refine ⟨E1, rx, hbase.trans hcl, h6, k1, ?_, ?_⟩
  · intro a ha
    have h1 : a ≠ x := fun hc => ha (by rw [hc]; exact List.mem_cons_self _ _)
    rw [k2 a ha]
    show r.eng.heap a = E.heap a
    rw [h5.heap a (fun hc => h1 (List.mem_singleton.1 hc)), put_heap_other _ _ _ _ h1]
  · rw [k3]
    simp only [add_sub_cancel_right]

/-- The function `dmsg_state_abort` returns on a child `x` of an allocated state
`q`, held by a caller, and keeps the invariants of the cascade: it is done
on an `ABORTING` state, and otherwise `dmsg_state_dying` returns, and the
synthesized `DELETE` is delivered and the state removed from the tree in
which `reg_inv` finds it. -/
theorem abort_total (n : Nat) (e : dmsg_engine) (H L : List Nat) (x q : Nat) (sq : dmsg_state)
    (hJ : casc_inv e H L) (hxH : x ∈ H) (hq : e.heap q = some sq) (hmem : x ∈ sq.subq)
    (hn : e.brk ≤ n) :
    ∃ e1, dmsg_state_abort n e x = some e1 ∧ casc_inv e1 H L ∧ rxd e e1 ∧
      ∀ s, e.heap x = some s → s.flags.ABORTING = false →
        ∀ s1, e1.heap x = some s1 → s1.rxcmd &&& DMSGF_DELETE ≠ 0 := by
  obtain ⟨hI, hT, hC, hR, hA⟩ := hJ
  obtain ⟨hqx, sx, hx, hpar, hsub⟩ := hT.kid q sq x hq hmem
  have hx0 : x ≠ 0 := by omega
  have hne : x ≠ q := by omega
  have hqne : q ≠ x := by omega
  by_cases hab : sx.flags.ABORTING = true
  · refine ⟨e, ?_, ⟨hI, hT, hC, hR, hA⟩, rxd_refl e, ?_⟩
    · unfold dmsg_state_abort
      simp only [hx, Option.bind_eq_bind, Option.some_bind, hab, if_true, Option.pure_def]
    · intro s hs hs2
      rw [hx] at hs
      injection hs with hs
      subst hs
      rw [hab] at hs2
      cases hs2
  · have hI1 : eng_inv (e.put x { sx with flags := { sx.flags with ABORTING := true } }) (H ++ L) :=
      inv_put_same e _ x sx _ hI hx ⟨rfl, rfl, rfl, rfl, rfl⟩ rfl rfl rfl rfl
    have hT1 : tree_inv (e.put x { sx with flags := { sx.flags with ABORTING := true } }) :=
      tree_put_ab e x sx _ hT hx hx0 ⟨rfl, rfl, rfl, rfl⟩
    have hC1 : cmd_inv (e.put x { sx with flags := { sx.flags with ABORTING := true } }) :=
      (cstep_put True e x sx { sx with flags := { sx.flags with ABORTING := true } } hx
        (fun k => k) (fun _ k => k)).1 hC
    have hR1 : reg_inv (e.put x { sx with flags := { sx.flags with ABORTING := true } }) :=
      reg_put e x sx _ hx rfl rfl rfl hR
    obtain ⟨e2, hd⟩ := dying_fuel e.brk n
      (e.put x { sx with flags := { sx.flags with ABORTING := true } }) x _ rfl (by omega)
      hT1.fresh hT1.kid (put_heap_same e x _)
    have hdo := dying_changes _ _ _ _ hd
    have hI2 : eng_inv e2 (H ++ L) := dying_inv _ _ _ _ _ hI1 hd
    have hT2 : tree_inv e2 := ((dying_tstep _ _ _ _ hd) hI2.2).2 hT1 hx0
    have hC2 : cmd_inv e2 := (dying_cstep True _ _ _ _ hd).1 hC1
    have hR2 : reg_inv e2 := reg_dying hdo hR1
    have hA2 : alive e2 H := by
      intro a ha
      obtain ⟨s, hs⟩ := hA a ha
      by_cases hax : a = x
      · subst hax
        obtain ⟨d, hd2⟩ := hdo.heap a _ (put_heap_same e a _)
        exact ⟨_, hd2⟩
      · obtain ⟨d, hd2⟩ := hdo.heap a s (by rw [put_heap_other _ _ _ _ hax]; exact hs)
        exact ⟨_, hd2⟩
    have hrx2 : rxd e e2 :=
      rxd_trans (rxd_put e x sx { sx with flags := { sx.flags with ABORTING := true } } hx
        (fun k => k)) (rxd_dying hdo)
    obtain ⟨d, hx2⟩ := hdo.heap x _ (put_heap_same e x _)
    obtain ⟨dq, hq2⟩ := hdo.heap q sq (by rw [put_heap_other _ _ _ _ hqne]; exact hq)
    have hnew : ¬ (sx.flags.NEW = true) := by
      rw [(hC x sx hx).1]
      decide
    have hrun : dmsg_state_abort n e x =
        if sx.rxcmd &&& DMSGF_DELETE = 0 then dmsg_state_abort_msg e2 x else some e2 := by
      unfold dmsg_state_abort
      simp only [hx, Option.bind_eq_bind, Option.some_bind, hab, if_false]
      rw [hd]
      simp only [Option.some_bind, hx2, Option.pure_def]
      dsimp only [set_dying]
      rw [if_neg hnew]
      simp only [Bool.false_eq_true, if_false]
    by_cases hopen : sx.rxcmd &&& DMSGF_DELETE = 0
    · rw [if_pos hopen] at hrun
      have htree := hR2 x _ hx2 hsub hopen
      have hrb := rx_tree_rbinserted e2 _ hI2 x _ hx2 htree
      obtain ⟨-, hdyn, hrbd⟩ := hC2 x _ hx2
      obtain ⟨hroot, hbeg⟩ := hdyn (hrbd hrb)
      have hbegun : sx.rxcmd &&& DMSGF_CREATE ≠ 0 ∨ sx.rxcmd &&& DMSGF_REPLY ≠ 0 := by
        by_cases hc : sx.rxcmd &&& DMSGF_CREATE = 0
        · right
          intro hRp
          apply hbeg
          show sx.rxcmd &&& (DMSGF_CREATE ||| DMSGF_REPLY) = 0
          rw [Nat.and_or_distrib_left, hc, hRp]
          rfl
        · exact Or.inl hc
      have hrefs : 3 ≤ sx.refs := by
        have hr0 := hI2.1.refs x _ hx2
        have hc : 1 ≤ (H ++ L).count x := List.count_pos_iff.2 (List.mem_append_left _ hxH)
        unfold state_reasons at hr0
        rw [hroot, hrb] at hr0
        have hsub2 : (set_dying { sx with flags := { sx.flags with ABORTING := true } }
            (sx.flags.DYING || d)).flags.SUBINSERTED = true := hsub
        rw [hsub2] at hr0
        simp only [Bool.toNat_false, Bool.toNat_true] at hr0
        have hr1 : (set_dying { sx with flags := { sx.flags with ABORTING := true } }
            (sx.flags.DYING || d)).refs = sx.refs := rfl
        rw [hr1] at hr0
        omega
      have hk : ∀ E1, dmsg_state_abort_msg e2 x = some E1 → tkeep x e2 E1 := fun E1 h1 =>
        abort_msg_tkeep e2 x _ E1 hx2
          (by
            intro hc
            have hp2 : some q = some x := hpar.symm.trans hc
            injection hp2 with hp2
            exact hqne hp2) h1
      have hq1 : 1 ≤ sq.refs := by
        have hr0 := hI2.1.refs q _ hq2
        unfold state_reasons at hr0
        have hne2 : (set_dying sq (sq.flags.DYING || dq)).subq.isEmpty = false := by
          show sq.subq.isEmpty = false
          cases hsq : sq.subq with
          | nil =>
            rw [hsq] at hmem
            cases hmem
          | cons a t => rfl
        rw [hne2] at hr0
        simp only [Bool.not_false, Bool.toNat_true] at hr0
        have hr1 : (set_dying sq (sq.flags.DYING || dq)).refs = sq.refs := rfl
        rw [hr1] at hr0
        omega
      have hqH : q ∈ H → 2 ≤ sq.refs := by
        intro hqm
        have hr0 := hI2.1.refs q _ hq2
        have hc : 1 ≤ (H ++ L).count q := List.count_pos_iff.2 (List.mem_append_left _ hqm)
        unfold state_reasons at hr0
        have hne2 : (set_dying sq (sq.flags.DYING || dq)).subq.isEmpty = false := by
          show sq.subq.isEmpty = false
          cases hsq : sq.subq with
          | nil =>
            rw [hsq] at hmem
            cases hmem
          | cons a t => rfl
        rw [hne2] at hr0
        simp only [Bool.not_false, Bool.toNat_true] at hr0
        have hr1 : (set_dying sq (sq.flags.DYING || dq)).refs = sq.refs := rfl
        rw [hr1] at hr0
        omega
      by_cases hlast : sx.txcmd &&& DMSGF_DELETE ≠ 0 ∧ sq.subq.erase x = [] ∧ sq.refs = 1
      · obtain ⟨htx, hemp, hone⟩ := hlast
        obtain ⟨E1, rx, h1, hrxd, k1, k2, k3⟩ := abort_msg_last e2 x q _ _ hx2 hq2 hne hpar
          hroot hsub hrb hopen hbegun (hI2.1.relay x _ hx2) hmem hrefs htx hemp hone htree
        have hI3 : eng_inv E1 (H ++ L) := abort_msg_inv e2 _ x E1 hI2 h1
        have hrx3 : rxd e2 E1 := by
          intro a t ht
          by_cases hax : a = x
          · subst hax
            rw [k3] at ht
            injection ht with ht
            subst ht
            exact ⟨_, hx2, fun _ => hrxd⟩
          · by_cases haq : a = q
            · subst haq
              rw [k1] at ht
              cases ht
            · rw [k2 a (by
                intro hc
                rcases List.mem_cons.1 hc with h | h
                · exact hax h
                · exact haq (List.mem_singleton.1 h))] at ht
              exact ⟨t, ht, fun k => k⟩
        refine ⟨E1, hrun.trans h1, ⟨hI3, ((abort_msg_tstep _ _ _ h1) hI3.2).2 hT2 trivial,
          (abort_msg_cstep True _ _ _ h1).1 hC2, ?_, ?_⟩, rxd_trans hrx2 hrx3, ?_⟩
        rotate_left 2
        · intro s hs hs2 s1 hs1
          rw [k3] at hs1
          injection hs1 with hs1
          subst hs1
          exact hrxd
        · refine reg_step ?_ hR2
          intro a t ht hsa hoa
          by_cases hax : a = x
          · subst hax
            rw [k3] at ht
            injection ht with ht
            subst ht
            cases hsa
          · by_cases haq : a = q
            · subst haq
              rw [k1] at ht
              cases ht
            · have hh := k2 a (by
                intro hc
                rcases List.mem_cons.1 hc with h | h
                · exact hax h
                · exact haq (List.mem_singleton.1 h))
              rw [hh] at ht
              exact ⟨t, ht, hsa, rfl, rfl, fun m k => ((hk E1 h1 m a hax).1 k),
                fun m k => ((hk E1 h1 m a hax).2 k)⟩
        · intro a ha
          by_cases hax : a = x
          · subst hax
            exact ⟨_, k3⟩
          · by_cases haq : a = q
            · subst haq
              have := hqH ha
              omega
            · rw [k2 a (by
                intro hc
                rcases List.mem_cons.1 hc with h | h
                · exact hax h
                · exact haq (List.mem_singleton.1 h))]
              exact hA2 a ha
      obtain ⟨E1, m, rx, h1, -, -, -, -, h6, hrx, h7⟩ := abort_msg_spec e2 x q _ _ hx2 hq2 hne hpar
        hroot hsub hrb hopen hbegun (hI2.1.relay x _ hx2) hmem hrefs
        (by
          intro htx hemp
          have hr1 : (set_dying sq (sq.flags.DYING || dq)).refs = sq.refs := rfl
          rw [hr1]
          by_contra hc
          exact hlast ⟨htx, hemp, by omega⟩) htree
      dsimp only [set_dying] at h7
      have hX : ∃ t, E1.heap x = some t ∧ t.rxcmd = rx := by
        by_cases htx : sx.txcmd &&& DMSGF_DELETE ≠ 0
        · rw [if_pos htx] at h7
          exact ⟨_, h7.2, rfl⟩
        · rw [if_neg htx] at h7
          exact ⟨_, h7.2, rfl⟩
      have hQ : ∃ t, E1.heap q = some t ∧ t.flags.SUBINSERTED = sq.flags.SUBINSERTED ∧
          t.rxcmd = sq.rxcmd ∧ t.msgid = sq.msgid := by
        by_cases htx : sx.txcmd &&& DMSGF_DELETE ≠ 0
        · rw [if_pos htx] at h7
          exact ⟨_, h7.1, rfl, rfl, rfl⟩
        · rw [if_neg htx] at h7
          exact ⟨_, h7.1, rfl, rfl, rfl⟩
      have hI3 : eng_inv E1 (H ++ L) := abort_msg_inv e2 _ x E1 hI2 h1
      have hrx3 : rxd e2 E1 := by
        intro a t ht
        by_cases hax : a = x
        · subst hax
          obtain ⟨t2, ht2, hrxe⟩ := hX
          rw [ht] at ht2
          injection ht2 with ht2
          subst ht2
          exact ⟨_, hx2, fun _ => by rw [hrxe]; exact hrx⟩
        · by_cases haq : a = q
          · subst haq
            obtain ⟨t2, ht2, -, f2, -⟩ := hQ
            rw [ht] at ht2
            injection ht2 with ht2
            subst ht2
            exact ⟨_, hq2, fun k => by rw [f2]; exact k⟩
          · rw [h6.heap a (by
              intro hc
              rcases List.mem_cons.1 hc with h | h
              · exact hax h
              · exact haq (List.mem_singleton.1 h))] at ht
            exact ⟨t, ht, fun k => k⟩
      refine ⟨E1, hrun.trans h1, ⟨hI3, ((abort_msg_tstep _ _ _ h1) hI3.2).2 hT2 trivial,
        (abort_msg_cstep True _ _ _ h1).1 hC2, ?_, ?_⟩, rxd_trans hrx2 hrx3, ?_⟩
      rotate_left 2
      · intro s hs hs2 s1 hs1
        obtain ⟨t2, ht2, hrxe⟩ := hX
        rw [hs1] at ht2
        injection ht2 with ht2
        subst ht2
        rw [hrxe]
        exact hrx
      · refine reg_step ?_ hR2
        intro a t ht hsa hoa
        by_cases hax : a = x
        · subst hax
          obtain ⟨t2, ht2, hrx2⟩ := hX
          rw [ht] at ht2
          injection ht2 with ht2
          subst ht2
          rw [hrx2] at hoa
          exact absurd hoa hrx
        · by_cases haq : a = q
          · subst haq
            obtain ⟨t2, ht2, f1, f2, f3⟩ := hQ
            rw [ht] at ht2
            injection ht2 with ht2
            subst ht2
            refine ⟨_, hq2, ?_, f2.symm, f3.symm, fun m k => ((hk E1 h1 m a hax).1 k),
              fun m k => ((hk E1 h1 m a hax).2 k)⟩
            show sq.flags.SUBINSERTED = true
            rw [← f1]
            exact hsa
          · have hh := h6.heap a (by
              intro hc
              rcases List.mem_cons.1 hc with h | h
              · exact hax h
              · exact haq (List.mem_singleton.1 h))
            rw [hh] at ht
            exact ⟨t, ht, hsa, rfl, rfl, fun m k => ((hk E1 h1 m a hax).1 k),
              fun m k => ((hk E1 h1 m a hax).2 k)⟩
      · intro a ha
        by_cases hax : a = x
        · subst hax
          obtain ⟨t2, ht2, -⟩ := hX
          exact ⟨t2, ht2⟩
        · by_cases haq : a = q
          · subst haq
            obtain ⟨t2, ht2, -⟩ := hQ
            exact ⟨t2, ht2⟩
          · rw [h6.heap a (by
              intro hc
              rcases List.mem_cons.1 hc with h | h
              · exact hax h
              · exact haq (List.mem_singleton.1 h))]
            exact hA2 a ha
    · rw [if_neg hopen] at hrun
      refine ⟨e2, hrun, ⟨hI2, hT2, hC2, hR2, hA2⟩, hrx2, ?_⟩
      intro s hs hs2 s1 hs1
      rw [hx2] at hs1
      injection hs1 with hs1
      subst hs1
      exact hopen
/-- The failure cascade returns. Under the invariants `casc_inv`, the call
`dmsg_simulate_failure(x, 1, err)` on a child `x`, not `ABORTING`, of a state
that a caller holds returns with the fuel `live_count e * (e.brk + 3)`, and the
loop of `dmsg_simulate_failure` over the queue of a held state returns from
every cursor; both keep the invariants. -/
theorem simulate_total (err : Nat) : ∀ (n : Nat),
    (∀ (e : dmsg_engine) (H L : List Nat) (x q : Nat) (sq : dmsg_state),
      casc_inv e H L → q ∈ H → e.heap q = some sq → x ∈ sq.subq → live e x = true →
      live_count e * (e.brk + 3) ≤ n →
      ∃ r, dmsg_simulate_failure n e x true err = some r ∧ casc_inv r H L ∧ rxd e r ∧
        ∀ s1, r.heap x = some s1 → s1.rxcmd &&& DMSGF_DELETE ≠ 0) ∧
    (∀ (e : dmsg_engine) (H L : List Nat) (q : Nat) (sq : dmsg_state) (c : Option Nat),
      casc_inv e H L → q ∈ H → e.heap q = some sq → (∀ y, c = some y → y ∈ sq.subq) →
      live_count e * (e.brk + 3) + scan_left sq.subq c + 1 ≤ n →
      ∃ r, dmsg_simulate_failure_scan n e q err c = some r ∧ casc_inv r H L ∧ rxd e r) := by
  intro n
  induction n with
  | zero =>
    refine ⟨?_, ?_⟩
    · intro e H L x q sq hJ hqH hq hmem hlive hn
      obtain ⟨-, sx, hx, -, -⟩ := hJ.2.1.kid q sq x hq hmem
      have hxb : x < e.brk := by
        by_contra hc
        rw [hJ.2.1.fresh x (by omega)] at hx
        cases hx
      have hG := live_count_pos e x hxb hlive
      have : 1 * (e.brk + 3) ≤ live_count e * (e.brk + 3) := Nat.mul_le_mul_right _ hG
      omega
    · intro e H L q sq c hJ hqH hq hP hn
      omega
  | succ n ih =>
    refine ⟨?_, ?_⟩
    · intro e H L x q sq hJ hqH hq hmem hlive hn
      obtain ⟨hqx, sx, hx, -, -⟩ := hJ.2.1.kid q sq x hq hmem
      have hx0 : x ≠ 0 := by omega
      have hxb : x < e.brk := by
        by_contra hc
        rw [hJ.2.1.fresh x (by omega)] at hx
        cases hx
      have hG := live_count_pos e x hxb hlive
      have hab : sx.flags.ABORTING = false := by
        rw [live_some _ _ _ hx] at hlive
        cases hb : sx.flags.ABORTING
        · rfl
        · rw [hb] at hlive
          cases hlive
      obtain ⟨hh, hJa⟩ := casc_inv_hold e H L x sx hJ hx
      have hqa : (e.put x { sx with refs := sx.refs + 1 }).heap q = some sq := by
        rw [put_heap_other _ _ _ _ (by omega)]
        exact hq
      have hK : e.brk + 3 ≤ n + 1 := by
        have : 1 * (e.brk + 3) ≤ live_count e * (e.brk + 3) := Nat.mul_le_mul_right _ hG
        omega
      obtain ⟨eb, heb, hJb, hrb, hxb2⟩ := abort_total n _ (x :: H) L x q sq hJa
        (List.mem_cons_self _ _) hqa hmem (by show e.brk ≤ n; omega)
      have hra : rxd e (e.put x { sx with refs := sx.refs + 1 }) :=
        rxd_put e x sx _ hx (fun k => k)
      obtain ⟨sb, hsb⟩ := hJb.2.2.2.2 x (List.mem_cons_self _ _)
      obtain ⟨hcab, habx⟩ := abort_casc n _ x eb heb hJa.2.1 hx0 hJb.1.2
      have hGa : live_count (e.put x { sx with refs := sx.refs + 1 }) = live_count e :=
        live_count_put e x sx _ hx rfl
      have hla : live (e.put x { sx with refs := sx.refs + 1 }) x = true := by
        rw [live_some _ _ _ (put_heap_same _ _ _)]
        show (!sx.flags.ABORTING) = true
        rw [hab]
        rfl
      have hlb : live eb x = false := by
        rw [live_some _ _ _ hsb, habx sb hsb]
        rfl
      have hlt : live_count eb < live_count e := by
        rw [← hGa]
        exact live_count_lt hcab x hxb hla hlb
      have hbb : eb.brk = e.brk := hcab.1
      have hlen := subq_length_le eb hJb.2.1 x sb hsb
      have hsl := scan_left_le sb.subq sb.subq.head?
      have hn1 : live_count eb * (eb.brk + 3) + scan_left sb.subq sb.subq.head? + 1 ≤ n := by
        rw [hbb] at hlen ⊢
        exact fuel_step _ _ _ _ _ hlt (by omega) (by omega) hn
      obtain ⟨ec, hec, hJc, hrc⟩ := ih.2 eb (x :: H) L x sb _ hJb (List.mem_cons_self _ _) hsb
        (fun y hy => List.mem_of_mem_head? hy) hn1
      obtain ⟨r, hr, hJr⟩ := casc_inv_drop ec H L x hJc
      have hrr : rxd eb r := rxd_trans hrc (rxd_drop _ _ _ hr)
      refine ⟨r, ?_, hJr, rxd_trans (rxd_trans hra hrb) hrr, ?_⟩
      · rw [dmsg_simulate_failure]
        simp only [hh, if_true, Option.bind_eq_bind, Option.some_bind, heb, hsb, hec]
        exact hr
      · intro s1 hs1
        obtain ⟨t, ht, hk⟩ := hrr x s1 hs1
        exact hk (hxb2 _ (put_heap_same _ _ _) hab t ht)
    · intro e H L q sq c hJ hqH hq hP hn
      cases c with
      | none =>
        refine ⟨e, ?_, hJ, rxd_refl e⟩
        rw [dmsg_simulate_failure_scan]
      | some y =>
        have hymem : y ∈ sq.subq := hP y rfl
        have hT := hJ.2.1
        obtain ⟨hqy, ss, hss, -, -⟩ := hT.kid q sq y hq hymem
        have hnd := hT.nodup q sq hq
        rw [dmsg_simulate_failure_scan]
        simp only [hss, hq, Option.bind_eq_bind, Option.some_bind]
        by_cases hab : ss.flags.ABORTING = true
        · rw [if_pos hab]
          have hnext := scan_left_next sq.subq y hnd
          exact ih.2 e H L q sq _ hJ hqH hq (fun z hz => tailq_next_mem _ _ _ hz) (by omega)
        · rw [if_neg hab]
          have hab2 : ss.flags.ABORTING = false := by
            cases hb : ss.flags.ABORTING
            · rfl
            · exact absurd hb hab
          have hJ1 := casc_inv_scan e H L q sq (some y) hJ hq
          have hy0 : y ≠ 0 := by omega
          have hyb : y < e.brk := by
            by_contra hc
            rw [hT.fresh y (by omega)] at hss
            cases hss
          have hss1 : (e.put q { sq with scan := some y }).heap y = some ss := by
            rw [put_heap_other _ _ _ _ (by omega)]
            exact hss
          have hG1 : live_count (e.put q { sq with scan := some y }) = live_count e :=
            live_count_put e q sq _ hq rfl
          have hl1 : live (e.put q { sq with scan := some y }) y = true := by
            rw [live_some _ _ _ hss1, hab2]
            rfl
          have hpos : 1 ≤ scan_left sq.subq (some y) := Nat.succ_le_succ (Nat.zero_le _)
          obtain ⟨e2, he2, hJ2, hr2, -⟩ := ih.1 _ H L y q _ hJ1 hqH (put_heap_same e q _) hymem hl1 (by
            rw [hG1]
            show live_count e * (e.brk + 3) ≤ n
            omega)
          obtain ⟨s2, hs2⟩ := hJ2.2.2.2.2 q hqH
          obtain ⟨hc12, hay⟩ := (simulate_casc n).1 _ y true err e2 he2 hJ1.2.1 hJ2.1.2
            (fun _ => hy0)
          have hl2 : live e2 y = false := by
            cases hy2 : e2.heap y with
            | none => exact live_none _ _ hy2
            | some sy =>
              rw [live_some _ _ _ hy2, hay rfl sy hy2]
              rfl
          have hlt : live_count e2 < live_count e := by
            rw [← hG1]
            exact live_count_lt hc12 y hyb hl1 hl2
          have hb2 : e2.brk = e.brk := hc12.1
          have hlen := subq_length_le e2 hJ2.2.1 q s2 hs2
          have hfuel : ∀ c2, live_count e2 * (e2.brk + 3) + scan_left s2.subq c2 + 1 ≤ n := by
            intro c2
            have hsl := scan_left_le s2.subq c2
            rw [hb2] at hlen ⊢
            exact fuel_step _ _ _ _ _ hlt (by omega) (by omega) (by omega)
          have hr02 : rxd e e2 :=
            rxd_trans (rxd_put e q sq { sq with scan := some y } hq (fun k => k)) hr2
          simp only [he2, Option.some_bind, hs2]
          split_ifs
          · obtain ⟨r, hr, hJr, hrr⟩ := ih.2 e2 H L q s2 _ hJ2 hqH hs2
              (fun z hz => List.mem_of_mem_head? hz) (hfuel _)
            exact ⟨r, hr, hJr, rxd_trans hr02 hrr⟩
          · obtain ⟨r, hr, hJr, hrr⟩ := ih.2 e2 H L q s2 _ hJ2 hqH hs2
              (fun z hz => tailq_next_mem _ _ _ hz) (hfuel _)
            exact ⟨r, hr, hJr, rxd_trans hr02 hrr⟩

/-- The call `dmsg_simulate_failure(x, meto, err)` returns within the fuel
`cascade_fuel e` on every allocated state `x`, not asked to abort it unless it
is on the queue of an allocated state, and keeps the invariants of the
cascade; a state that it aborted leaves with `DELETE` in its `rxcmd`. -/
theorem simulate_returns (e : dmsg_engine) (H L : List Nat) (x : Nat) (s : dmsg_state) (m : Bool)
    (err : Nat) (hJ : casc_inv e H L) (hx : e.heap x = some s)
    (hm : m = true → ∃ q sq, e.heap q = some sq ∧ x ∈ sq.subq) :
    ∀ n, cascade_fuel e ≤ n →
      ∃ r, dmsg_simulate_failure n e x m err = some r ∧ casc_inv r H L ∧ rxd e r ∧
        (m = true → s.flags.ABORTING = false →
          ∀ s1, r.heap x = some s1 → s1.rxcmd &&& DMSGF_DELETE ≠ 0) := by
  intro n hn
  unfold cascade_fuel at hn
  have hexp : (e.brk + 1) * (e.brk + 3) = e.brk * (e.brk + 3) + (e.brk + 3) := by
    rw [Nat.add_mul, Nat.one_mul]
  obtain ⟨n1, rfl⟩ : ∃ n1, n = n1 + 1 := ⟨n - 1, by omega⟩
  obtain ⟨hh, hJa⟩ := casc_inv_hold e H L x s hJ hx
  have hra : rxd e (e.put x { s with refs := s.refs + 1 }) := rxd_put e x s _ hx (fun k => k)
  have key : ∃ eb, (if m = true then dmsg_state_abort n1 (e.put x { s with refs := s.refs + 1 }) x
        else some (e.put x { s with refs := s.refs + 1 })) = some eb ∧ casc_inv eb (x :: H) L ∧
      eb.brk = e.brk ∧ rxd e eb ∧
      (m = true → s.flags.ABORTING = false →
        ∀ s1, eb.heap x = some s1 → s1.rxcmd &&& DMSGF_DELETE ≠ 0) := by
    cases m with
    | true =>
      obtain ⟨q, sq, hq, hmem⟩ := hm rfl
      obtain ⟨hqx, -⟩ := hJ.2.1.kid q sq x hq hmem
      have hqa : (e.put x { s with refs := s.refs + 1 }).heap q = some sq := by
        rw [put_heap_other _ _ _ _ (by omega)]
        exact hq
      obtain ⟨eb, heb, hJb, hrb, hxb⟩ := abort_total n1 _ (x :: H) L x q sq hJa
        (List.mem_cons_self _ _) hqa hmem (by show e.brk ≤ n1; omega)
      obtain ⟨hcab, -⟩ := abort_casc n1 _ x eb heb hJa.2.1 (by omega) hJb.1.2
      refine ⟨eb, by simpa using heb, hJb, hcab.1, rxd_trans hra hrb, ?_⟩
      intro _ hab s1 hs1
      exact hxb _ (put_heap_same _ _ _) hab s1 hs1
    | false =>
      refine ⟨_, by simp, hJa, rfl, hra, ?_⟩
      intro hc
      cases hc
  obtain ⟨eb, heb, hJb, hbb, hrb, hxb⟩ := key
  obtain ⟨sb, hsb⟩ := hJb.2.2.2.2 x (List.mem_cons_self _ _)
  have hlen := subq_length_le eb hJb.2.1 x sb hsb
  have hsl := scan_left_le sb.subq sb.subq.head?
  have hG := live_count_le_brk eb
  have hmul : live_count eb * (eb.brk + 3) ≤ eb.brk * (eb.brk + 3) :=
    Nat.mul_le_mul_right _ hG
  obtain ⟨ec, hec, hJc, hrc⟩ := (simulate_total err n1).2 eb (x :: H) L x sb _ hJb
    (List.mem_cons_self _ _) hsb (fun y hy => List.mem_of_mem_head? hy) (by
      rw [hbb] at hmul hlen ⊢
      omega)
  obtain ⟨r, hr, hJr⟩ := casc_inv_drop ec H L x hJc
  have hrr : rxd eb r := rxd_trans hrc (rxd_drop _ _ _ hr)
  refine ⟨r, ?_, hJr, rxd_trans hrb hrr, ?_⟩
  · rw [dmsg_simulate_failure]
    cases m with
    | true =>
      simp only [if_true] at heb
      simp only [hh, if_true, Option.bind_eq_bind, Option.some_bind, heb, hsb, hec]
      exact hr
    | false =>
      simp only [Bool.false_eq_true, if_false, Option.some.injEq] at heb
      subst heb
      simp only [hh, Bool.false_eq_true, if_false, Option.bind_eq_bind, Option.some_bind,
        Option.pure_def, hsb, hec]
      exact hr
  · intro hm1 hab s1 hs1
    obtain ⟨t, ht, hk⟩ := hrr x s1 hs1
    exact hk (hxb hm1 hab t ht)
/-! ## C39: the cascade terminates -/

theorem reg_okb_ok (e : dmsg_engine) (hf : ∀ a, e.brk ≤ a → e.heap a = none)
    (h : reg_okb e = true) : reg_inv e := by
  intro a s hs hsub hopen
  have ha : a < e.brk := by
    by_contra hc
    rw [hf a (by omega)] at hs
    cases hs
  unfold reg_okb at h
  rw [List.all_eq_true] at h
  have k := h a (List.mem_range.2 ha)
  simp only [hs, Bool.or_eq_true, Bool.not_eq_true', decide_eq_true_eq] at k
  rcases k with (k | k) | k
  · rw [hsub] at k
    cases k
  · exact absurd hopen k
  · exact k

theorem casc_inv_put (e : dmsg_engine) (H L : List Nat) (p : Nat) (s s1 : dmsg_state)
    (hJ : casc_inv e H L) (hs : e.heap p = some s) (hf : s1.flags = s.flags)
    (hpar : s1.parent = s.parent) (hq : s1.subq = s.subq) (hr : s1.refs = s.refs)
    (hrx : s1.rxcmd = s.rxcmd) (hid : s1.msgid = s.msgid) (hrel : s1.relay = s.relay) :
    casc_inv (e.put p s1) H L := by
  obtain ⟨hI, hT, hC, hR, hA⟩ := hJ
  refine ⟨inv_put_same e _ p s s1 hI hs ⟨by rw [hf], by rw [hf], by rw [hf], hid, hrel⟩
      (by rw [hf]) hpar hq hr,
    tree_map (shape_eq_put e p s s1 hs ⟨hpar, hq, by rw [hf], by rw [hf], by rw [hf]⟩) hT,
    (cstep_put False e p s s1 hs (fun k => by
      unfold state_cmd_ok at k ⊢
      rw [hf, hrx]
      exact k) (fun hc _ => hc.elim)).1 hC,
    reg_put e p s s1 hs (by rw [hf]) hrx hid hR, ?_⟩
  intro a ha
  by_cases hap : a = p
  · subst hap
    exact ⟨_, put_heap_same _ _ _⟩
  · rw [put_heap_other _ _ _ _ hap]
    exact hA a ha

/-- The deferred abort of `dmsg_state_cleanuptx` and the drop that follows it,
on a queued state `x` held by the caller and by a message: the cascade
returns, and the state is `ABORTING` with `DELETE` in its `rxcmd` afterwards. -/
theorem deferred_returns (E : dmsg_engine) (L : List Nat) (x q : Nat) (s2 sq : dmsg_state)
    (hJ : casc_inv E [x] L) (hL : x ∈ L) (hx : E.heap x = some s2) (hq : E.heap q = some sq)
    (hmem : x ∈ sq.subq) :
    ∀ n, cascade_fuel E ≤ n → ∃ r s1,
      (dmsg_simulate_failure n (E.put x { s2 with flags := { s2.flags with ABORTING := false } })
        x true DMSG_ERR_LOSTLINK).bind (fun e3 => dmsg_state_drop e3 x) = some r ∧
      r.heap x = some s1 ∧ s1.flags.ABORTING = true ∧ s1.rxcmd &&& DMSGF_DELETE ≠ 0 ∧
      casc_inv r [] L := by
  intro n hn
  obtain ⟨hqx, -⟩ := hJ.2.1.kid q sq x hq hmem
  have hx0 : x ≠ 0 := by omega
  obtain ⟨hI, hT, hC, hR, hA⟩ := hJ
  have hJ3 : casc_inv (E.put x { s2 with flags := { s2.flags with ABORTING := false } }) [x] L := by
    refine ⟨inv_put_same E _ x s2 _ hI hx ⟨rfl, rfl, rfl, rfl, rfl⟩ rfl rfl rfl rfl,
      tree_put_ab E x s2 _ hT hx hx0 ⟨rfl, rfl, rfl, rfl⟩,
      (cstep_put True E x s2 { s2 with flags := { s2.flags with ABORTING := false } } hx
        (fun k => k) (fun _ k => k)).1 hC,
      reg_put E x s2 _ hx rfl rfl rfl hR, ?_⟩
    intro a ha
    by_cases hax : a = x
    · subst hax
      exact ⟨_, put_heap_same _ _ _⟩
    · rw [put_heap_other _ _ _ _ hax]
      exact hA a ha
  obtain ⟨r, hr, hJr, -, hrx⟩ := simulate_returns _ [x] L x _ true DMSG_ERR_LOSTLINK hJ3
    (put_heap_same E x _)
    (fun _ => ⟨q, sq, by rw [put_heap_other _ _ _ _ (by omega)]; exact hq, hmem⟩) n hn
  obtain ⟨-, hab⟩ := (simulate_casc n).1 _ x true DMSG_ERR_LOSTLINK r hr hJ3.2.1 hJr.1.2
    (fun _ => hx0)
  obtain ⟨s4, hs4⟩ := hJr.2.2.2.2 x (List.mem_cons_self _ _)
  have hrefs : 2 ≤ s4.refs := by
    have hr0 := hJr.1.1.refs x s4 hs4
    have hc : 1 ≤ L.count x := List.count_pos_iff.2 hL
    have hc2 : ([x] ++ L).count x = L.count x + 1 := by
      show (x :: L).count x = L.count x + 1
      rw [List.count_cons_self]
    rw [hc2] at hr0
    omega
  obtain ⟨r2, hr2, hJ2⟩ := casc_inv_drop r [] L x hJr
  have hd := drop_keep r x s4 hs4 hrefs
  rw [hd] at hr2
  injection hr2 with hr2
  refine ⟨r2, { s4 with refs := s4.refs - 1 }, ?_, ?_, hab rfl s4 hs4,
    hrx rfl rfl s4 hs4, hJ2⟩
  · rw [hr, Option.some_bind, hd, hr2]
  · rw [← hr2]
    exact put_heap_same _ _ _

/-- C32. The deferred abort of `dmsg_state_cleanuptx` re-sets the flag that it
clears. Let the engine keep the accounting `eng_inv`, the queue shape
`tree_inv` and the command fields `cmd_inv` (no state is `NEW`: the library
never sets that flag), as every engine reachable from `dmsg_iocom_init` does,
and the registration `reg_inv` of its open transactions. Let `msg` be a
message that holds its reference on the state `x`, a state on the queue of an
allocated state (hence not the root) that has `ABORTING` set, or `DYING`, the
other flag on which the function starts the deferred abort, and an `rxcmd`
without `DELETE`. Then `dmsg_state_cleanuptx(msg)` returns with every fuel
from `cascade_fuel e` on, whatever the message carries and whatever the
children of `x` are, and on return the state is still allocated, `ABORTING`
is set (again, if it was set) and `rxcmd` has `DELETE`; the invariants hold
again. -/
theorem cleanuptx_resets_aborting (e : dmsg_engine) (L : List Nat) (msg : dmsg_msg) (x q : Nat)
    (s sq : dmsg_state) (hI : eng_inv e L) (hT : tree_inv e) (hC : cmd_inv e) (hR : reg_inv e)
    (hm : msg.state = some x) (hL : x ∈ L) (hx : e.heap x = some s)
    (hq : e.heap q = some sq) (hmem : x ∈ sq.subq)
    (hab : s.flags.ABORTING = true ∨ s.flags.DYING = true)
    (hopen : s.rxcmd &&& DMSGF_DELETE = 0) :
    ∀ n, cascade_fuel e ≤ n → ∃ e1 s1, dmsg_state_cleanuptx n e msg = some e1 ∧
      e1.heap x = some s1 ∧ s1.flags.ABORTING = true ∧ s1.rxcmd &&& DMSGF_DELETE ≠ 0 ∧
      eng_inv e1 L ∧ tree_inv e1 ∧ cmd_inv e1 ∧ reg_inv e1 := by
  intro n hn
  obtain ⟨hqx, sc, hsc, -, hsub⟩ := hT.kid q sq x hq hmem
  rw [hx] at hsc
  injection hsc with hsc
  subst hsc
  have hxq : x ≠ q := by omega
  have htree := hR x s hx hsub hopen
  have hrb := rx_tree_rbinserted e L hI x s hx htree
  have hroot : s.flags.ROOT = false := ((hC x s hx).2.1 ((hC x s hx).2.2 hrb)).1
  have hJ : casc_inv e [] L := ⟨hI, hT, hC, hR, fun a ha => by cases ha⟩
  obtain ⟨-, hJ1⟩ := casc_inv_hold e [] L x s hJ hx
  have hq1 : (e.put x { s with refs := s.refs + 1 }).heap q = some sq := by
    rw [put_heap_other _ _ _ _ (fun hc => hxq hc.symm)]
    exact hq
  have hcond : (s.flags.ABORTING || s.flags.DYING) = true ∧ s.rxcmd &&& DMSGF_DELETE = 0 := by
    refine ⟨?_, hopen⟩
    rcases hab with hab | hab
    · rw [hab]
      rfl
    · rw [hab]
      exact Bool.or_true _
  by_cases hd : msg.head.cmd &&& DMSGF_DELETE ≠ 0 ∧ s.txcmd &&& DMSGF_DELETE = 0
  · have hJ2 := casc_inv_put _ [x] L x _
      { s with refs := s.refs + 1, txcmd := s.txcmd ||| DMSGF_DELETE } hJ1 (put_heap_same _ _ _)
      rfl rfl rfl rfl rfl rfl rfl
    obtain ⟨r, s1, h1, h2, h3, h4, h5⟩ := deferred_returns
      ((e.put x { s with refs := s.refs + 1 }).put x
        { s with refs := s.refs + 1, txcmd := s.txcmd ||| DMSGF_DELETE })
      L x q _ sq hJ2 hL (put_heap_same _ _ _)
      (by rw [put_heap_other _ _ _ _ (fun hc => hxq hc.symm)]; exact hq1) hmem n hn
    refine ⟨r, s1, ?_, h2, h3, h4, h5.1, h5.2.1, h5.2.2.1, h5.2.2.2.1⟩
    rw [← h1]
    unfold dmsg_state_cleanuptx
    simp only [hm, Option.bind_eq_bind, Option.some_bind, hold_eq e x s hx, put_heap_same, hroot,
      Bool.false_eq_true, if_false, hd.1, hd.2, ne_eq, not_false_eq_true, if_true, hopen,
      not_true_eq_false, and_false, Option.pure_def, hcond, and_self]
  · obtain ⟨r, s1, h1, h2, h3, h4, h5⟩ := deferred_returns (e.put x { s with refs := s.refs + 1 })
      L x q _ sq hJ1 hL (put_heap_same _ _ _) hq1 hmem n hn
    refine ⟨r, s1, ?_, h2, h3, h4, h5.1, h5.2.1, h5.2.2.1, h5.2.2.2.1⟩
    rw [← h1]
    unfold dmsg_state_cleanuptx
    by_cases hdel : msg.head.cmd &&& DMSGF_DELETE ≠ 0
    · have ht : ¬ (s.txcmd &&& DMSGF_DELETE = 0) := fun hc => hd ⟨hdel, hc⟩
      simp only [hm, Option.bind_eq_bind, Option.some_bind, hold_eq e x s hx, put_heap_same,
        hroot, Bool.false_eq_true, if_false, hdel, ht, ne_eq, not_false_eq_true, if_true, hopen,
        not_true_eq_false, and_false, false_and, Option.pure_def, hcond, and_self]
    · simp only [hm, Option.bind_eq_bind, Option.some_bind, hold_eq e x s hx, put_heap_same,
        hroot, Bool.false_eq_true, if_false, hdel, Option.pure_def, hcond, and_self, if_true]

/-- The statement `cleanuptx_resets_aborting` on two connections. After
`ex_ops_mixed`, with the flag `ABORTING` of the open transaction 2 (under
`state0`, with its child 3, held by the message of the user) set while its
`rxcmd` lacks `DELETE`, for a message that closes the transmit side: the call
returns, the callback receives the synthesized `DELETE` of 2 and of 3, the
state 2 is `ABORTING` afterwards, its `rxcmd` has `DELETE` and it has left the
queue of `state0`; for a message that does not close the transmit side it
stays on the queue. After `ex_ops_dying` on a connection whose socket fails,
the transaction 2 is `DYING`, not `ABORTING`, with an open `rxcmd`, and the call
for the message that the user holds on it returns and leaves it `ABORTING`
with `DELETE` in its `rxcmd`. -/
theorem cleanuptx_resets_aborting_witness :
    (∃ c s, conn_run 5 ex_env ex_ops_mixed ex_conn_fresh = some c ∧
      c.ic.eng.heap 2 = some s ∧ s.rxcmd &&& DMSGF_DELETE = 0 ∧
      (∀ n, 48 ≤ n → ∃ e1 s1,
        dmsg_state_cleanuptx n
          (c.ic.eng.put 2 { s with flags := { s.flags with ABORTING := true } })
          (ex_msg_on 2 (DMSG_LNK_ERROR ||| DMSGF_DELETE)) = some e1 ∧
        e1.heap 2 = some s1 ∧ s1.flags.ABORTING = true ∧ s1.rxcmd &&& DMSGF_DELETE ≠ 0) ∧
      (dmsg_state_cleanuptx 48
          (c.ic.eng.put 2 { s with flags := { s.flags with ABORTING := true } })
          (ex_msg_on 2 (DMSG_LNK_ERROR ||| DMSGF_DELETE))).map (casc_view 5) =
        some ([some 2, some 3],
           [some ([1, 4], false), some ([], false), some ([3], true), some ([], true),
            some ([], false)]) ∧
      (dmsg_state_cleanuptx 48
          (c.ic.eng.put 2 { s with flags := { s.flags with ABORTING := true } })
          (ex_msg_on 2 DMSG_LNK_ERROR)).map (casc_view 5) =
        some ([some 2, some 3],
           [some ([1, 2, 4], false), some ([], false), some ([3], true), some ([], true),
            some ([], false)])) ∧
    (∃ c m s, conn_run 5 ex_env ex_ops_dying (conn_init ex_env false [sock_event.fail] []) =
        some c ∧
      c.held[0]? = some m ∧ m.state = some 2 ∧ c.ic.eng.heap 2 = some s ∧
      s.flags.DYING = true ∧ s.flags.ABORTING = false ∧ s.rxcmd &&& DMSGF_DELETE = 0 ∧
      (∀ n, 24 ≤ n → ∃ e1 s1, dmsg_state_cleanuptx n c.ic.eng m = some e1 ∧
        e1.heap 2 = some s1 ∧ s1.flags.ABORTING = true ∧ s1.rxcmd &&& DMSGF_DELETE ≠ 0) ∧
      (dmsg_state_cleanuptx 24 c.ic.eng m).map (casc_view 3) =
        some ([some 1, some 2], [some ([1], false), some ([2], true), some ([], true)])) := by
  refine ⟨?_, ?_⟩
  · cases h : conn_run 5 ex_env ex_ops_mixed ex_conn_fresh with
    | none =>
      have h2 : (conn_run 5 ex_env ex_ops_mixed ex_conn_fresh).isSome = true := by
        decide!
      rw [h] at h2
      cases h2
    | some c =>
      have h3 : (conn_run 5 ex_env ex_ops_mixed ex_conn_fresh).map
          (fun c => (reg_okb c.ic.eng, cascade_fuel c.ic.eng, conn_credits c,
            (c.ic.eng.heap 0).map (fun s => s.subq),
            (c.ic.eng.heap 2).map (fun s => decide (s.rxcmd &&& DMSGF_DELETE = 0)))) =
          some (true, 48, [4, 3, 2, 1], some [1, 2, 4], some true) := by
        decide!
      have h4 : (conn_run 5 ex_env ex_ops_mixed ex_conn_fresh).bind
          (fun c => (c.ic.eng.heap 2).bind fun s =>
            (dmsg_state_cleanuptx 48
                (c.ic.eng.put 2 { s with flags := { s.flags with ABORTING := true } })
                (ex_msg_on 2 (DMSG_LNK_ERROR ||| DMSGF_DELETE))).map (casc_view 5)) =
          some ([some 2, some 3],
             [some ([1, 4], false), some ([], false), some ([3], true), some ([], true),
              some ([], false)]) := by
        decide!
      have h5 : (conn_run 5 ex_env ex_ops_mixed ex_conn_fresh).bind
          (fun c => (c.ic.eng.heap 2).bind fun s =>
            (dmsg_state_cleanuptx 48
                (c.ic.eng.put 2 { s with flags := { s.flags with ABORTING := true } })
                (ex_msg_on 2 DMSG_LNK_ERROR)).map (casc_view 5)) =
          some ([some 2, some 3],
             [some ([1, 2, 4], false), some ([], false), some ([3], true), some ([], true),
              some ([], false)]) := by
        decide!
      rw [h] at h3 h4 h5
      simp only [Option.map_some', Option.some.injEq, Prod.mk.injEq] at h3
      simp only [Option.some_bind] at h4 h5
      obtain ⟨hreg, hfuel, hcred, hq, hs2⟩ := h3
      have hI := run_inv 5 ex_env ex_ops_mixed _ c (init_inv ex_env false _ []) h
      have hT := (run_tree 5 ex_env ex_ops_mixed _ c (init_inv ex_env false _ [])
        (init_tree ex_env false _ []) h).1
      have hC := (run_cstep 5 ex_env ex_ops_mixed _ c h).1 (init_cmd ex_env false _ []).1
      have hR := reg_okb_ok c.ic.eng hT.fresh hreg
      cases hs0 : c.ic.eng.heap 0 with
      | none =>
        rw [hs0] at hq
        cases hq
      | some s0 =>
        rw [hs0] at hq
        simp only [Option.map_some', Option.some.injEq] at hq
        cases hs2e : c.ic.eng.heap 2 with
        | none =>
          rw [hs2e] at hs2
          cases hs2
        | some s =>
          rw [hs2e] at hs2 h4 h5
          simp only [Option.map_some', Option.some.injEq, decide_eq_true_eq] at hs2
          simp only [Option.some_bind] at h4 h5
          refine ⟨c, s, rfl, hs2e, hs2, ?_, h4, h5⟩
          intro n hn
          obtain ⟨e1, s1, k1, k2, k3, k4, -⟩ := cleanuptx_resets_aborting
            (c.ic.eng.put 2 { s with flags := { s.flags with ABORTING := true } })
            (conn_credits c) (ex_msg_on 2 (DMSG_LNK_ERROR ||| DMSGF_DELETE)) 2 0
            { s with flags := { s.flags with ABORTING := true } } s0
            (inv_put_same c.ic.eng _ 2 s _ hI hs2e ⟨rfl, rfl, rfl, rfl, rfl⟩ rfl rfl rfl rfl)
            (tree_put_ab c.ic.eng 2 s _ hT hs2e (by decide) ⟨rfl, rfl, rfl, rfl⟩)
            ((cstep_put True c.ic.eng 2 s { s with flags := { s.flags with ABORTING := true } }
              hs2e (fun k => k) (fun _ k => k)).1 hC)
            (reg_put c.ic.eng 2 s _ hs2e rfl rfl rfl hR) rfl (by rw [hcred]; decide)
            (put_heap_same _ _ _) (by rw [put_heap_other _ _ _ _ (by decide)]; exact hs0)
            (by rw [hq]; decide) (Or.inl rfl) hs2 n (by
              show cascade_fuel c.ic.eng ≤ n
              rw [hfuel]
              exact hn)
          exact ⟨e1, s1, k1, k2, k3, k4⟩
  · cases h : conn_run 5 ex_env ex_ops_dying (conn_init ex_env false [sock_event.fail] []) with
    | none =>
      have h2 : (conn_run 5 ex_env ex_ops_dying
          (conn_init ex_env false [sock_event.fail] [])).isSome = true := by
        decide!
      rw [h] at h2
      cases h2
    | some c =>
      have h3 : (conn_run 5 ex_env ex_ops_dying (conn_init ex_env false [sock_event.fail] [])).map
          (fun c => (reg_okb c.ic.eng, cascade_fuel c.ic.eng, conn_credits c,
            (c.ic.eng.heap 1).map (fun s => s.subq))) =
          some (true, 24, [2, 1], some [2]) := by
        decide!
      have h6 : (conn_run 5 ex_env ex_ops_dying (conn_init ex_env false [sock_event.fail] [])).map
          (fun c => (c.held[0]?).bind (fun m => m.state)) = some (some 2) := by
        decide!
      have h4 : (conn_run 5 ex_env ex_ops_dying (conn_init ex_env false [sock_event.fail] [])).map
          (fun c => (c.ic.eng.heap 2).map (fun s =>
            (s.flags.DYING, s.flags.ABORTING, decide (s.rxcmd &&& DMSGF_DELETE = 0)))) =
          some (some (true, false, true)) := by
        decide!
      have h5 : (conn_run 5 ex_env ex_ops_dying (conn_init ex_env false [sock_event.fail] [])).bind
          (fun c => (c.held[0]?).bind fun m =>
            (dmsg_state_cleanuptx 24 c.ic.eng m).map (casc_view 3)) =
          some ([some 1, some 2], [some ([1], false), some ([2], true), some ([], true)]) := by
        decide!
      rw [h] at h3 h4 h5 h6
      simp only [Option.map_some', Option.some.injEq, Prod.mk.injEq] at h3 h4 h6
      simp only [Option.some_bind] at h5
      obtain ⟨hreg, hfuel, hcred, hq⟩ := h3
      have hm := h6
      have hI := run_inv 5 ex_env ex_ops_dying _ c (init_inv ex_env false _ []) h
      have hT := (run_tree 5 ex_env ex_ops_dying _ c (init_inv ex_env false _ [])
        (init_tree ex_env false _ []) h).1
      have hC := (run_cstep 5 ex_env ex_ops_dying _ c h).1 (init_cmd ex_env false _ []).1
      have hR := reg_okb_ok c.ic.eng hT.fresh hreg
      cases hs1 : c.ic.eng.heap 1 with
      | none =>
        rw [hs1] at hq
        cases hq
      | some t1 =>
        rw [hs1] at hq
        simp only [Option.map_some', Option.some.injEq] at hq
        cases hs2e : c.ic.eng.heap 2 with
        | none =>
          rw [hs2e] at h4
          cases h4
        | some s =>
          rw [hs2e] at h4
          simp only [Option.map_some', Option.some.injEq, Prod.mk.injEq,
            decide_eq_true_eq] at h4
          obtain ⟨hdy, hab, hopen⟩ := h4
          cases hm0 : c.held[0]? with
          | none =>
            rw [hm0] at hm
            cases hm
          | some m =>
            rw [hm0] at hm h5
            simp only [Option.some_bind] at hm h5
            refine ⟨c, m, s, rfl, hm0, hm, hs2e, hdy, hab, hopen, ?_, h5⟩
            intro n hn
            obtain ⟨e1, s1, k1, k2, k3, k4, -⟩ := cleanuptx_resets_aborting c.ic.eng
              (conn_credits c) m 2 1 s t1 hI hT hC hR hm (by rw [hcred]; decide) hs2e hs1
              (by rw [hq]; decide) (Or.inr hdy) hopen n (by rw [hfuel]; exact hn)
            exact ⟨e1, s1, k1, k2, k3, k4⟩

end Dmsg
